import Mathlib

/-! REvoSim: the species identifiers, the environment, the tick, the settling and the setup

A shallow embedding of `Analyser::groupsGenealogicalTracker` (revosim/analyser.cpp) and of
the lookup tables of `SimManager::MakeLookups` (simmanager.cpp) that it reads, followed by
the environment (`SimManager::loadEnvironmentFromFile`, `SimManager::regenerateEnvironment`),
the partition of the grid and of the nursery among the workers of `SimManager::iterate`, the
work of `SimManager::iterateParallel` on one cell, `SimManager::settle_parallel`,
`SimManager::setupRun` and `SimManager::iterate`, and then by the xor masks of
`SimManager::MakeLookups`, `AnalysisTools::findClosestIndex` (analysistools.cpp),
`Analyser::addGenomeFast` and the legacy identifier `Analyser::groupsWithHistoryModal`.

Conventions of the embedding

* C++ static arrays are lists holding exactly the initialised entries; a read or write at any
  other index (in particular at index `-1`) yields `Fault.indexOutOfRange`.
* `qint32` group codes are `Int`, with `-1` the code for "not assigned".
* `quint64` genomes and ids are `Nat`; where a `quint64` is incremented the wrap at `2 ^ 64`
  is written out.
* `while` loops that chase `grouplookup` get as many rounds as the table has entries; a chase
  that has not met a root by then has revisited an entry, so the C++ loop would spin for ever,
  and the embedding answers `Fault.noFixpoint`.
* The iteration order of a `QHash` or `QSet` is not fixed by Qt; it is a parameter
  (`HashOrder`) of the embedding.
* The values of the interpolation of the environment are rational numbers; the rounding of
  the result of an operation on `float`s or on `double`s is a parameter (`EnvState.toFloat`,
  `EnvState.toDouble`), and so is the image that `QImage::scaled` returns (`QImage.scaled`).
* Signed `int` arithmetic is arithmetic of `Int`: an overflow is undefined in C++, and the
  values at hand (counters of a run, coordinates of the grid) stay far from it.
* A loop that the source bounds by a counter has its rounds as fuel; a `do`-`while (true)`
  loop answers `Fault.noFixpoint` when its fuel is spent before its `break`.
* The methods of `Critter` (critter.cpp) are not among the sources: what a call of one
  returns and leaves behind is a parameter of the embedding, and where a statement needs
  more, a definition modelled from the specification.
-/

namespace Revosim

/-! ## Faults -/

/-- Ways in which the embedded code stops without producing its result. -/
inductive Fault where
  /-- an array was indexed outside its initialised entries -/
  | indexOutOfRange
  /-- a `while (grouplookup[g] != g)` loop never meets a root -/
  | noFixpoint
  /-- `exit(0)` after "species not found in log hash" -/
  | speciesNotInLog
  /-- `exit(0)` after "Species static array too small" -/
  | staticArrayTooSmall
  /-- a null `LogSpecies *` was dereferenced -/
  | nullPointer
  /-- an integer division by zero -/
  | divideByZero
  /-- a local variable was read without having been written -/
  | uninitialised
  /-- the loop of line 443 of simmanager.cpp has drawn no viable genome in the draws given -/
  | noFounder
  deriving DecidableEq, Repr

instance {α : Type} [DecidableEq α] : DecidableEq (Except Fault α)
  | .ok a, .ok b => if h : a = b then isTrue (h ▸ rfl) else isFalse (fun e => h (Except.ok.inj e))
  | .error a, .error b =>
    if h : a = b then isTrue (h ▸ rfl) else isFalse (fun e => h (Except.error.inj e))
  | .ok _, .error _ => isFalse (fun e => Except.noConfusion e)
  | .error _, .ok _ => isFalse (fun e => Except.noConfusion e)

/-! ## Lookup tables (`SimManager::MakeLookups`) -/

/-- The table `tweakers[0..31]`: `tweakers[0] = 1`, `tweakers[n] = tweakers[n - 1] * 2`. -/
def tweakers : List Nat := List.iterate (fun t => t * 2) 1 32

/-- The body of the bit counting loop of `MakeLookups` for one `n`:
`count = 0; for (m = 0; m < 16; m++) if ((n & tweakers[m]) != 0) ++count;`. -/
def countBits16 (n : Nat) : Nat :=
  (List.range 16).foldl
    (fun count m => if n &&& tweakers.getD m 0 ≠ 0 then count + 1 else count) 0

/-- The table `bitcounts[0..65535]` (called `bitCounts` in analyser.cpp): entry `n` holds the
count computed by the loop body. The table has no entry at `n ≥ 65536`; the identifier only
indexes it with 16-bit values. -/
def bitCounts (n : Nat) : Nat := countBits16 n

/-! ## The linking test of the identifier (analyser.cpp, lines 357-380) -/

/-- The comparison of `firstgenome` with `genomes[second]`: `true` exactly when control
reaches the "Pair IS within tolerances" block. `static_cast<quint32>` is `% 2 ^ 32`. -/
def withinTolerance (maxDifference : Int) (firstgenome secondgenome : Nat) : Bool :=
  let g1x := firstgenome ^^^ secondgenome
  let g1xl := (g1x &&& (65536 * 65536 - 1)) % 2 ^ 32
  let t1 : Int := ((bitCounts (g1xl / 65536) + bitCounts (g1xl &&& 65535) : Nat) : Int)
  if t1 ≤ maxDifference then
    let g1xu := (g1x / (65536 * 65536)) % 2 ^ 32
    let t2 : Int := t1 + ((bitCounts (g1xu / 65536) + bitCounts (g1xu &&& 65535) : Nat) : Int)
    if t2 ≤ maxDifference then true else false
  else false

/-! ## Static arrays and loops -/

/-- Read `a[i]` of a static array whose initialised entries are `a`. -/
def readAt (a : List Int) (i : Int) : Except Fault Int :=
  if i < 0 then .error .indexOutOfRange
  else
    match a[i.toNat]? with
    | some v => .ok v
    | none => .error .indexOutOfRange

/-- Write `a[i] = v` of a static array whose initialised entries are `a`. -/
def writeAt (a : List Int) (i : Int) (v : Int) : Except Fault (List Int) :=
  if i < 0 then .error .indexOutOfRange
  else if i.toNat < a.length then .ok (a.set i.toNat v)
  else .error .indexOutOfRange

/-- The loop `for (i = lo; i < lo + count; i++) body(i)` over a state, stopping at a fault. -/
def forRange {σ : Type} (body : Nat → σ → Except Fault σ) : Nat → Nat → σ → Except Fault σ
  | _, 0, s => .ok s
  | i, count + 1, s =>
    match body i s with
    | .ok s' => forRange body (i + 1) count s'
    | .error e => .error e

/-! ## Grouping the genomes of one species (analyser.cpp, lines 300-393) -/

/-- The loop `while (grouplookup[g] != g) g = grouplookup[g];` run for at most `rounds`
rounds; the result is the final `g`. -/
def chaseFrom (grouplookup : List Int) : Nat → Int → Except Fault Int
  | 0, _ => .error .noFixpoint
  | rounds + 1, g =>
    match readAt grouplookup g with
    | .error e => .error e
    | .ok p => if p ≠ g then chaseFrom grouplookup rounds p else .ok g

/-- The loop `while (grouplookup[g] != g) g = grouplookup[g];`. A chase of a table with `n`
entries that is still running after `n` rounds has come back to an entry it has visited. -/
def chase (grouplookup : List Int) (g : Int) : Except Fault Int :=
  chaseFrom grouplookup grouplookup.length g

/-- The static arrays `groupcodes`, `grouplookup` (their first `arrayMax` entries) and the
counter `nextGroup`. -/
structure Groups where
  groupcodes : List Int
  grouplookup : List Int
  nextGroup : Int
  deriving DecidableEq, Repr

/-- The state after the copy loop (lines 321-327): every group code `-1` (not assigned),
every `grouplookup[i] = i`, `nextGroup = 0`. -/
def initGroups (arrayMax : Nat) : Groups :=
  { groupcodes := List.replicate arrayMax (-1)
    grouplookup := (List.range arrayMax).map (fun (i : Nat) => (i : Int))
    nextGroup := 0 }

/-- Lines 357-380 for one `second` whose (root) group code is `gcs`: when the pair is within
tolerance, `second` joins the group of `first`, or its group is merged into it. -/
def linkPair (maxDifference : Int) (firstgenome secondgenome : Nat) (firstgroupcode : Int)
    (second : Nat) (gcs : Int) (s : Groups) : Except Fault Groups :=
  if withinTolerance maxDifference firstgenome secondgenome then
    if gcs = -1 then
      match writeAt s.groupcodes second firstgroupcode with
      | .error e => .error e
      | .ok gc => .ok { s with groupcodes := gc }
    else
      match writeAt s.grouplookup gcs firstgroupcode with
      | .error e => .error e
      | .ok lk => .ok { s with grouplookup := lk }
  else .ok s

/-- The body of the inner loop (lines 345-381) for one `second`. -/
def compareStep (maxDifference : Int) (genomes : List Nat) (firstgenome : Nat)
    (firstgroupcode : Int) (second : Nat) (s : Groups) : Except Fault Groups :=
  match readAt s.groupcodes second with
  | .error e => .error e
  | .ok gcs0 =>
    if gcs0 ≠ -1 then
      match chase s.grouplookup gcs0 with
      | .error e => .error e
      | .ok gcs =>
        -- grouplookup[groupcodes[second]] = gcs; //for next time!
        match writeAt s.grouplookup gcs0 gcs with
        | .error e => .error e
        | .ok lk =>
          if gcs = firstgroupcode then .ok { s with grouplookup := lk }
          else
            linkPair maxDifference firstgenome (genomes.getD second 0) firstgroupcode second gcs
              { s with grouplookup := lk }
    else
      linkPair maxDifference firstgenome (genomes.getD second 0) firstgroupcode second gcs0 s

/-- Lines 335-336: `if (groupcodes[first] == -1) groupcodes[first] = nextGroup++;`. -/
def openGroup (first : Nat) (s : Groups) : Except Fault Groups :=
  match readAt s.groupcodes first with
  | .error e => .error e
  | .ok gc0 =>
    if gc0 = -1 then
      match writeAt s.groupcodes first s.nextGroup with
      | .error e => .error e
      | .ok gc => .ok { s with groupcodes := gc, nextGroup := s.nextGroup + 1 }
    else .ok s

/-- The body of the outer loop (lines 333-382) for one `first`. -/
def firstStep (maxDifference : Int) (genomes : List Nat) (first : Nat) (s : Groups) :
    Except Fault Groups :=
  match openGroup first s with
  | .error e => .error e
  | .ok s1 =>
    match readAt s1.groupcodes first with
    | .error e => .error e
    | .ok fg0 =>
      match chase s1.grouplookup fg0 with
      | .error e => .error e
      | .ok firstgroupcode =>
        match writeAt s1.groupcodes first firstgroupcode with
        | .error e => .error e
        | .ok gc =>
          forRange (compareStep maxDifference genomes (genomes.getD first 0) firstgroupcode)
            (first + 1) (genomes.length - (first + 1)) { s1 with groupcodes := gc }

/-- The pairwise sweep (lines 332-382): `for (first = 0; first < arrayMax - 1; first++)`. -/
def pairwiseSweep (maxDifference : Int) (genomes : List Nat) : Except Fault Groups :=
  forRange (firstStep maxDifference genomes) 0 (genomes.length - 1) (initGroups genomes.length)

/-- The body of the "fix all groups" loop (lines 385-393) for one `i`, on the pair
(`groupcodes`, `maxcode`). -/
def fixStep (grouplookup : List Int) (i : Nat) (st : List Int × Int) :
    Except Fault (List Int × Int) :=
  match readAt st.1 i with
  | .error e => .error e
  | .ok gci0 =>
    match chase grouplookup gci0 with
    | .error e => .error e
    | .ok gci =>
      match writeAt st.1 i gci with
      | .error e => .error e
      | .ok gc => .ok (gc, if gci > st.2 then gci else st.2)

/-- The "fix all groups" loop: the final `groupcodes` and `maxcode`. -/
def fixAllGroups (s : Groups) : Except Fault (List Int × Int) :=
  forRange (fixStep s.grouplookup) 0 s.groupcodes.length (s.groupcodes, -1)

/-- The value the "fix all groups" loop stores in `groupcodes[i]`: the root of the code that
the sweep left there. -/
def fixedCode (s : Groups) (i : Nat) : Except Fault Int :=
  match readAt s.groupcodes i with
  | .error e => .error e
  | .ok gci0 => chase s.grouplookup gci0

/-- Lines 321-393 for the genomes of one species in the order of the copy loop: the final
group codes and `maxcode`. -/
def groupGenomes (maxDifference : Int) (genomes : List Nat) : Except Fault (List Int × Int) :=
  match pairwiseSweep maxDifference genomes with
  | .error e => .error e
  | .ok s => fixAllGroups s

/-! ## Hamming weight and distance, as the specification words them -/

/-- Hamming weight of a 64-bit word: the number of bit positions `0..63` that are set. -/
def popcount (x : Nat) : Nat := (List.range 64).countP (fun i => x.testBit i)

/-- 64-bit Hamming distance `popcount(a XOR b)`. -/
def hammingDistance (a b : Nat) : Nat := popcount (a ^^^ b)

/-- Number of set bits among the lowest `k` positions. -/
def lowBits (k x : Nat) : Nat := (List.range k).countP (fun i => x.testBit i)

/-! ## Roots of the `grouplookup` forest -/

/-- `ReachesRoot lk c r k`: following `grouplookup` from code `c` for `k` steps, always inside
the table, ends at `r` with `grouplookup[r] = r`. -/
inductive ReachesRoot (lk : List Int) : Int → Int → Nat → Prop
  | root {c : Int} : readAt lk c = .ok c → ReachesRoot lk c c 0
  | step {c p r : Int} {k : Nat} : readAt lk c = .ok p → p ≠ c → ReachesRoot lk p r k →
      ReachesRoot lk c r (k + 1)


/-! ## Predicates used to state what the grouping achieves -/

/-- The linking test accepts the genomes at positions `i` and `j` of the static array. -/
def Linked (maxDifference : Int) (genomes : List Nat) (i j : Nat) : Prop :=
  i < genomes.length ∧ j < genomes.length ∧
    withinTolerance maxDifference (genomes.getD i 0) (genomes.getD j 0) = true

/-- Positions `i` and `j` are joined by a chain of positions in which every consecutive pair
passes the linking test (in one direction or the other). -/
def Joined (maxDifference : Int) (genomes : List Nat) : Nat → Nat → Prop :=
  Relation.ReflTransGen
    (fun i j => Linked maxDifference genomes i j ∨ Linked maxDifference genomes j i)

/-- Positions `i` and `j` carry group codes with one and the same root. -/
def SameGroup (s : Groups) (i j : Nat) : Prop :=
  ∃ (ci cj r : Int) (k k' : Nat), readAt s.groupcodes i = .ok ci ∧
    readAt s.groupcodes j = .ok cj ∧
    ReachesRoot s.grouplookup ci r k ∧ ReachesRoot s.grouplookup cj r k'

/-- Shape of the arrays during the sweep over `n` genomes: codes are `-1` or below
`nextGroup`, entries of `grouplookup` below `nextGroup` point below `nextGroup`, the other
entries are untouched, and every entry has a root. -/
structure WellFormed (n : Nat) (s : Groups) : Prop where
  len_codes : s.groupcodes.length = n
  len_lookup : s.grouplookup.length = n
  next_nonneg : 0 ≤ s.nextGroup
  codes : ∀ (i v : Int), readAt s.groupcodes i = .ok v → v = -1 ∨ (0 ≤ v ∧ v < s.nextGroup)
  lookup_lt : ∀ (c p : Int), readAt s.grouplookup c = .ok p → c < s.nextGroup →
    0 ≤ p ∧ p < s.nextGroup
  lookup_ge : ∀ (c p : Int), readAt s.grouplookup c = .ok p → s.nextGroup ≤ c → p = c
  rooted : ∀ (c : Int), 0 ≤ c → c < n → ∃ r k, ReachesRoot s.grouplookup c r k

/-- Every group code stands for a genome position (`own`), each position is joined to the
position its code stands for, and each `grouplookup` entry links joined positions. -/
def Sound (maxDifference : Int) (genomes : List Nat) (own : Int → Nat) (s : Groups) : Prop :=
  (∀ (i : Nat) (v : Int), readAt s.groupcodes i = .ok v → v ≠ -1 →
      Joined maxDifference genomes i (own v)) ∧
  (∀ (c p : Int), readAt s.grouplookup c = .ok p →
      Joined maxDifference genomes (own c) (own p))

/-- Invariant of the outer loop of the sweep at the head of round `first`. -/
structure OuterInv (maxDifference : Int) (genomes : List Nat) (first : Nat) (s : Groups) :
    Prop where
  wf : WellFormed genomes.length s
  next_le : s.nextGroup ≤ first
  sound : ∃ own, Sound maxDifference genomes own s
  done : ∀ i j, i < j → j < genomes.length → i < first → Linked maxDifference genomes i j →
    SameGroup s i j
  assigned : ∀ (j : Nat) (v : Int), readAt s.groupcodes j = .ok v → v ≠ -1 →
    j < first ∨ ∃ i, i < j ∧ Linked maxDifference genomes i j
  early : ∀ (j : Nat), j < first → j < genomes.length →
    ∃ v, readAt s.groupcodes j = .ok v ∧ v ≠ -1

/-- Invariant of the inner loop of the sweep at the head of round `second`. -/
structure InnerInv (maxDifference : Int) (genomes : List Nat) (own : Int → Nat) (first : Nat)
    (firstgroupcode : Int) (second : Nat) (s : Groups) : Prop where
  wf : WellFormed genomes.length s
  next_le : s.nextGroup ≤ first + 1
  code_first : readAt s.groupcodes first = .ok firstgroupcode
  root_first : readAt s.grouplookup firstgroupcode = .ok firstgroupcode
  sound : Sound maxDifference genomes own s
  done : ∀ i j, i < j → j < genomes.length → (i < first ∨ (i = first ∧ j < second)) →
    Linked maxDifference genomes i j → SameGroup s i j
  assigned : ∀ (j : Nat) (v : Int), readAt s.groupcodes j = .ok v → v ≠ -1 →
    j ≤ first ∨ ∃ i, i < j ∧ Linked maxDifference genomes i j
  early : ∀ (j : Nat), j ≤ first → j < genomes.length →
    ∃ v, readAt s.groupcodes j = .ok v ∧ v ≠ -1

/-- Invariant of the "fix all groups" loop at the head of round `i`, on the pair
(`groupcodes`, `maxcode`): positions below `i` hold their fixed code, the others are as the
sweep left them, and `maxcode` bounds the fixed codes so far. -/
structure FixInv (s : Groups) (i : Nat) (st : List Int × Int) : Prop where
  len : st.1.length = s.groupcodes.length
  fixed : ∀ (j : Nat), j < i → ∃ c, fixedCode s j = .ok c ∧ readAt st.1 j = .ok c ∧ c ≤ st.2
  rest : ∀ (j : Nat), i ≤ j → readAt st.1 j = readAt s.groupcodes j
  maxcode : st.2 = -1 ∨ ∃ (j : Nat), j < i ∧ readAt st.1 j = .ok st.2

/-- Position `i` of the static array ends the "fix all groups" loop with group code `c`: the
sweep has ended in a state from which round `i` of that loop stores `c` in `groupcodes[i]`. -/
def EndsWithCode (maxDifference : Int) (genomes : List Nat) (i : Nat) (c : Int) : Prop :=
  ∃ s, pairwiseSweep maxDifference genomes = .ok s ∧ fixedCode s i = .ok c

/-- A chain of genomes of the set from `a` to `b` in which every consecutive pair has Hamming
distance at most `maxDifference`. -/
def IsChain (maxDifference : Int) (genomes : List Nat) (a b : Nat) (chain : List Nat) : Prop :=
  chain.head? = some a ∧ chain.getLast? = some b ∧ (∀ g ∈ chain, g ∈ genomes) ∧
    List.Chain' (fun x y => (hammingDistance x y : Int) ≤ maxDifference) chain

/-! ## The simulation state read and written by the identifier -/

/-- One slot of the `critters` array. -/
structure Critter where
  genome : Nat
  age : Nat
  energy : Int
  fitness : Nat
  speciesID : Nat
  deriving DecidableEq, Repr

/-- One `LogSpeciesDataItem`. A field the code has not written yet is unspecified in the
source; it is represented by `0`. -/
structure LogSpeciesDataItem where
  iteration : Nat
  sampleGenome : Nat
  size : Nat
  genomicDiversity : Nat
  cellsOccupied : Nat
  geographicalRange : Nat
  centroidRangeX : Nat
  centroidRangeY : Nat
  meanFitness : Nat
  minEnvironment : Nat × Nat × Nat
  maxEnvironment : Nat × Nat × Nat
  meanEnvironment : Nat × Nat × Nat
  deriving DecidableEq, Repr

/-- One `LogSpecies` node of the phylogeny. A `LogSpecies *` is the index of the node in the
list of all nodes allocated so far (`Sim.logSpecies`); `none` is the null pointer. Data items
are owned by exactly one node, so they are held by value. -/
structure LogSpecies where
  id : Nat
  timeOfFirstAppearance : Nat
  timeOfLastAppearance : Nat
  parent : Option Nat
  children : List Nat
  maxSize : Nat
  dataItems : List LogSpeciesDataItem
  deriving DecidableEq, Repr

/-- The working record `Species`. -/
structure Species where
  type : Nat
  ID : Nat
  internalID : Int
  parent : Nat
  size : Int
  originTime : Int
  logSpeciesStructure : Option Nat
  deriving DecidableEq, Repr

/-- `Species::Species()`. -/
def Species.default : Species :=
  { type := 0, ID := 0, internalID := -1, parent := 0, size := -1, originTime := -1,
    logSpeciesStructure := none }

/-- The globals that `groupsGenealogicalTracker` reads or writes. `iteration` is the global
tick counter (`generation` in simmanager.cpp). -/
structure Sim where
  gridX : Nat
  gridY : Nat
  slotsPerSquare : Nat
  critters : Nat → Nat → Nat → Critter
  totalFitness : Nat → Nat → Nat
  environment : Nat → Nat → Nat → Nat
  oldSpeciesList : List Species
  logSpecies : List LogSpecies
  logSpeciesByID : Nat → Option Nat
  nextSpeciesID : Nat
  iteration : Nat
  speciesMode : Nat
  maxDifference : Int
  warningCount : Int

/-- Modelled from the spec: the constant `SPECIES_MODE_PHYLOGENY` of globals.h, which is not
among the sources. The spec lists the modes in the order off, basic, phylogeny,
phylogeny+metrics, and simmanager.cpp switches the identifier off with `speciesMode = 0`. -/
def SPECIES_MODE_PHYLOGENY : Nat := 2

/-- Modelled from the spec: the constant `SPECIES_MODE_PHYLOGENY_AND_METRICS` of globals.h,
which is not among the sources (see `SPECIES_MODE_PHYLOGENY`). -/
def SPECIES_MODE_PHYLOGENY_AND_METRICS : Nat := 3

/-- The order in which Qt iterates over the entries of a hash or set, as a function of the
entries in the order of their insertion. Qt fixes no order. -/
structure HashOrder where
  /-- `QHashIterator` over `genomedata` -/
  species : List Nat → List Nat
  /-- `foreach` over a `QSet<quint64>` of genomes -/
  genomes : List Nat → List Nat
  /-- `QHashIterator` over `groups` -/
  groups : List Int → List Int

/-- An iteration order visits every entry once. -/
def HashOrder.Valid (ord : HashOrder) : Prop :=
  (∀ l, (ord.species l).Perm l) ∧ (∀ l, (ord.genomes l).Perm l) ∧ (∀ l, (ord.groups l).Perm l)

/-- The order of insertion, one possible iteration order. -/
def insertionOrder : HashOrder := { species := id, genomes := id, groups := id }

/-- `static_cast<int>` of an integer value. -/
def toInt32 (x : Int) : Int := (x + 2 ^ 31) % 2 ^ 32 - 2 ^ 31

/-- `static_cast<quint32>` of an integer value. -/
def toUInt32 (x : Int) : Nat := (x % 2 ^ 32).toNat

/-- `static_cast<quint16>` of an integer value. -/
def toUInt16 (x : Int) : Nat := (x % 2 ^ 16).toNat

/-- `static_cast<quint8>` of an integer value. -/
def toUInt8 (x : Int) : Nat := (x % 2 ^ 8).toNat

/-- The loop `foreach (a, list) body(a)` over a state, stopping at a fault. -/
def forEach {α σ : Type} (body : α → σ → Except Fault σ) : List α → σ → Except Fault σ
  | [], s => .ok s
  | a :: rest, s =>
    match body a s with
    | .ok s' => forEach body rest s'
    | .error e => .error e

/-! ## Step 1: gathering the genomes of every species (lines 180-243) -/

/-- Line 235: `static_cast<quint32>(n * 65536 + m * 256 + c)`. -/
def packPosition (n m c : Nat) : Nat := (n * 65536 + m * 256 + c) % 2 ^ 32

/-- Lines 448-451: `x = v / 65536`. -/
def unpackX (v : Nat) : Nat := v / 65536

/-- Lines 448-451: `ls = v % 65536; y = ls / 256`. -/
def unpackY (v : Nat) : Nat := v % 65536 / 256

/-- Lines 448-451: `ls = v % 65536; z = ls % 256`. -/
def unpackZ (v : Nat) : Nat := v % 65536 % 256

/-- The three hash tables filled by the first loop: `genomedata` (with its keys in the order
of insertion; each set of genomes in the order of insertion), `slotswithgenome` and
`speciesSizes`. A missing entry of `slotswithgenome` is the empty list, a missing entry of
`speciesSizes` is `0`. -/
structure Gathered where
  speciesKeys : List Nat
  genomedata : Nat → List Nat
  slotswithgenome : Nat → Nat → List Nat
  speciesSizes : Nat → Int

/-- The tables before the first loop. -/
def Gathered.empty : Gathered :=
  { speciesKeys := [], genomedata := fun _ => [], slotswithgenome := fun _ _ => [],
    speciesSizes := fun _ => 0 }

/-- Lines 199-240 for one live critter `cr` at `critters[n][m][c]`. -/
def gatherCritter (cr : Critter) (n m c : Nat) (g : Gathered) : Gathered :=
  { speciesKeys :=
      if cr.speciesID ∈ g.speciesKeys then g.speciesKeys else g.speciesKeys ++ [cr.speciesID]
    genomedata := fun k =>
      if k = cr.speciesID then
        (if cr.genome ∈ g.genomedata k then g.genomedata k else g.genomedata k ++ [cr.genome])
      else g.genomedata k
    slotswithgenome := fun k q =>
      if k = cr.speciesID ∧ q = cr.genome then g.slotswithgenome k q ++ [packPosition n m c]
      else g.slotswithgenome k q
    speciesSizes := fun k =>
      if k = cr.speciesID then g.speciesSizes k + 1 else g.speciesSizes k }

/-- The slots `(n, m, c)` for which the first loop reaches line 199 with a live critter, in
the order of the loop: cells with `totalFitness[n][m] == 0` are skipped. -/
def gatheredSlots (s : Sim) : List (Nat × Nat × Nat) :=
  (List.range s.gridX).flatMap fun n =>
    (List.range s.gridY).flatMap fun m =>
      if s.totalFitness n m = 0 then []
      else ((List.range s.slotsPerSquare).filter fun c => decide ((s.critters n m c).age > 0)).map
        fun c => (n, m, c)

/-- The first loop (lines 193-242). -/
def gather (s : Sim) : Gathered :=
  (gatheredSlots s).foldl
    (fun g p => gatherCritter (s.critters p.1 p.2.1 p.2.2) p.1 p.2.1 p.2.2 g) Gathered.empty

/-! ## Step 2: splitting one species (lines 272-630) -/

/-- The hash `groups` (lines 400-405): its keys in the order of insertion and the number of
genomes of each group code (`0` for a code that is no key). -/
structure GroupCounts where
  keys : List Int
  count : Int → Int

/-- Lines 401-405: `groups[groupcodes[i]] = ++v` for every `i`. -/
def countGroups (groupcodes : List Int) : GroupCounts :=
  groupcodes.foldl
    (fun g code =>
      { keys := if code ∈ g.keys then g.keys else g.keys ++ [code]
        count := fun k => if k = code then g.count k + 1 else g.count k })
    { keys := [], count := fun _ => 0 }

/-- The 'find biggest' loop (lines 410-421) over the keys in iteration order: the pair
(`maxcount`, `maxcountkey`). -/
def findBiggest (groups : GroupCounts) (order : List Int) : Int × Int :=
  order.foldl (fun acc k => if groups.count k > acc.1 then (groups.count k, k) else acc) (-1, -1)

/-- What the loops over the groups of one species write: the critters, `speciesSizes`,
`nextSpeciesID`, `newSpeciesList`, the log nodes, `logSpeciesByID` and the vector
`logspeciespointers` (indexed by group code, null where nothing was stored). -/
structure Work where
  critters : Nat → Nat → Nat → Critter
  speciesSizes : Nat → Int
  nextSpeciesID : Nat
  newSpeciesList : List Species
  logSpecies : List LogSpecies
  logSpeciesByID : Nat → Option Nat
  logspeciespointers : Int → Option Nat

/-- Line 452: `critters[x][y][z].speciesID = nextSpeciesID` for the packed position `v`. -/
def setSpeciesID (critters : Nat → Nat → Nat → Critter) (v : Nat) (newID : Nat) :
    Nat → Nat → Nat → Critter :=
  fun x y z =>
    if x = unpackX v ∧ y = unpackY v ∧ z = unpackZ v then
      { critters x y z with speciesID := newID }
    else critters x y z

/-- Lines 446-453: the `foreach` over one position list. -/
def relabelSlots (updatelist : List Nat) (newID : Nat) (critters : Nat → Nat → Nat → Critter) :
    Nat → Nat → Nat → Critter :=
  updatelist.foldl (fun cr v => setSpeciesID cr v newID) critters

/-- Lines 435-457: the loop over the static arrays for one split-off group, on the triple
(critters, `speciesSize`, `samplegenome`). `slots` is `slotswithgenome.value(speciesID)`. -/
def relabelGroup (genomes : List Nat) (groupcodes : List Int) (slots : Nat → List Nat)
    (groupcode : Int) (newID : Nat) (critters : Nat → Nat → Nat → Critter) :
    (Nat → Nat → Nat → Critter) × Nat × Nat :=
  (genomes.zip groupcodes).foldl
    (fun acc gc =>
      if gc.2 = groupcode then
        (relabelSlots (slots gc.1) newID acc.1, acc.2.1 + (slots gc.1).length, gc.1)
      else acc)
    (critters, 0, 0)

/-- A `new LogSpeciesDataItem` with `iteration` set (lines 472-473, 505-506). -/
def newDataItem (iteration : Nat) : LogSpeciesDataItem :=
  { iteration := iteration, sampleGenome := 0, size := 0, genomicDiversity := 0,
    cellsOccupied := 0, geographicalRange := 0, centroidRangeX := 0, centroidRangeY := 0,
    meanFitness := 0, minEnvironment := (0, 0, 0), maxEnvironment := (0, 0, 0),
    meanEnvironment := (0, 0, 0) }

/-- Lines 434-490: a group that is not the one picked to keep the old id becomes a new
species. -/
def splitOffGroup (s : Sim) (speciesID : Nat) (thislogspecies : Option Nat)
    (genomes : List Nat) (groupcodes : List Int) (slots : Nat → List Nat) (groupcode : Int)
    (w : Work) : Except Fault Work :=
  let r := relabelGroup genomes groupcodes slots groupcode w.nextSpeciesID w.critters
  let speciesSize : Int := (r.2.1 : Int)
  let sizes1 : Nat → Int := fun k =>
    if k = w.nextSpeciesID then toInt32 speciesSize else w.speciesSizes k
  let sizes2 : Nat → Int := fun k =>
    if k = speciesID then sizes1 speciesID - toInt32 speciesSize else sizes1 k
  let newsp : Species :=
    { Species.default with
      parent := speciesID, originTime := toInt32 s.iteration, ID := w.nextSpeciesID,
      type := r.2.2 }
  if s.speciesMode ≥ SPECIES_MODE_PHYLOGENY then
    match thislogspecies with
    | none => .error .nullPointer
    | some p =>
      match w.logSpecies[p]? with
      | none => .error .nullPointer
      | some parentNode =>
        let newlogspecies : LogSpecies :=
          { id := w.nextSpeciesID, timeOfFirstAppearance := s.iteration,
            timeOfLastAppearance := s.iteration, parent := some p, children := [],
            maxSize := toUInt32 speciesSize, dataItems := [newDataItem s.iteration] }
        let newptr := w.logSpecies.length
        .ok { critters := r.1
              speciesSizes := sizes2
              nextSpeciesID := (w.nextSpeciesID + 1) % 2 ^ 64
              newSpeciesList :=
                w.newSpeciesList ++ [{ newsp with logSpeciesStructure := some newptr }]
              logSpecies :=
                w.logSpecies.set p { parentNode with children := parentNode.children ++ [newptr] }
                  ++ [newlogspecies]
              logSpeciesByID := fun k =>
                if k = w.nextSpeciesID then some newptr else w.logSpeciesByID k
              logspeciespointers := fun k =>
                if k = groupcode then some newptr else w.logspeciespointers k }
  else
    .ok { w with
          critters := r.1
          speciesSizes := sizes2
          nextSpeciesID := (w.nextSpeciesID + 1) % 2 ^ 64
          newSpeciesList := w.newSpeciesList ++ [newsp] }

/-- Lines 498-509 for one entry `old` of `oldSpeciesList`, on the pair (`newsp`, the
writes). -/
def copyOldSpecies (s : Sim) (speciesID : Nat) (groupcode : Int) (old : Species)
    (st : Species × Work) : Except Fault (Species × Work) :=
  if old.ID = speciesID then
    if s.speciesMode ≥ SPECIES_MODE_PHYLOGENY then
      match old.logSpeciesStructure with
      | none => .error .nullPointer
      | some p =>
        match st.2.logSpecies[p]? with
        | none => .error .nullPointer
        | some node =>
          .ok (old,
            { st.2 with
              logspeciespointers := fun k =>
                if k = groupcode then some p else st.2.logspeciespointers k
              logSpecies :=
                st.2.logSpecies.set p
                  { node with
                    timeOfLastAppearance := s.iteration
                    dataItems := node.dataItems ++ [newDataItem s.iteration] } })
    else .ok (old, st.2)
  else .ok st

/-- Lines 511-518: the first genome of the group `maxcountkey` becomes the type genome. -/
def pickType (genomes : List Nat) (groupcodes : List Int) (maxcountkey : Int)
    (newsp : Species) : Species :=
  match (genomes.zip groupcodes).find? (fun gc => decide (gc.2 = maxcountkey)) with
  | some gc => { newsp with type := gc.1 }
  | none => newsp

/-- Lines 492-522: the group picked to keep the old id is the continuing species. -/
def continueGroup (s : Sim) (speciesID : Nat) (genomes : List Nat) (groupcodes : List Int)
    (maxcountkey : Int) (groupcode : Int) (w : Work) : Except Fault Work :=
  match forEach (copyOldSpecies s speciesID groupcode) s.oldSpeciesList (Species.default, w)
    with
  | .error e => .error e
  | .ok st =>
    .ok { st.2 with
          newSpeciesList :=
            st.2.newSpeciesList ++ [pickType genomes groupcodes maxcountkey st.1] }

/-- The body of the loop over the groups (lines 429-523). -/
def groupStep (s : Sim) (speciesID : Nat) (thislogspecies : Option Nat) (genomes : List Nat)
    (groupcodes : List Int) (slots : Nat → List Nat) (maxcountkey : Int) (groupcode : Int)
    (w : Work) : Except Fault Work :=
  if groupcode ≠ maxcountkey then
    splitOffGroup s speciesID thislogspecies genomes groupcodes slots groupcode w
  else continueGroup s speciesID genomes groupcodes maxcountkey groupcode w

/-- The local variables of the metrics block (lines 536-562). -/
structure Metrics where
  genomicDiversity : Nat
  speciesSize : Nat
  samplegenome : Nat
  cellsoc : List Nat
  sumfit : Nat
  mincol : Int × Int × Int
  maxcol : Int × Int × Int
  sumcol : Nat × Nat × Nat
  sumxpos : Nat
  sumypos : Nat
  minx : Int
  maxx : Int
  maxy : Int
  miny : Int

/-- Lines 536-562: the initial values. -/
def Metrics.start : Metrics :=
  { genomicDiversity := 0, speciesSize := 0, samplegenome := 0, cellsoc := [], sumfit := 0,
    mincol := (256, 256, 256), maxcol := (-1, -1, -1), sumcol := (0, 0, 0),
    sumxpos := 0, sumypos := 0, minx := 256, maxx := -1, maxy := -1, miny := 256 }

/-- Lines 577-606 for one packed position `v`. `cellsoc` is a `QSet<quint16>`: a value is
inserted when it is not yet in the set. -/
def metricsSlot (s : Sim) (critters : Nat → Nat → Nat → Critter) (acc : Metrics) (v : Nat) :
    Metrics :=
  let x := unpackX v
  let y := unpackY v
  let z := unpackZ v
  let cell := toUInt16 ((toUInt16 x : Int) * 256 + (toUInt16 y : Int))
  let r : Int := toUInt8 (s.environment x y 0)
  let g : Int := toUInt8 (s.environment x y 1)
  let b : Int := toUInt8 (s.environment x y 2)
  { acc with
    sumxpos := acc.sumxpos + x
    sumypos := acc.sumypos + y
    minx := if (x : Int) < acc.minx then x else acc.minx
    miny := if (y : Int) < acc.miny then y else acc.miny
    maxx := if (x : Int) > acc.maxx then x else acc.maxx
    -- if (y < maxy) maxy = static_cast<int>(y);
    maxy := if (y : Int) < acc.maxy then y else acc.maxy
    sumfit := acc.sumfit + (critters x y z).fitness
    cellsoc := if cell ∈ acc.cellsoc then acc.cellsoc else acc.cellsoc ++ [cell]
    mincol := (if r < acc.mincol.1 then r else acc.mincol.1,
               if g < acc.mincol.2.1 then g else acc.mincol.2.1,
               if b < acc.mincol.2.2 then b else acc.mincol.2.2)
    maxcol := (if r > acc.maxcol.1 then r else acc.maxcol.1,
               if g > acc.maxcol.2.1 then g else acc.maxcol.2.1,
               if b > acc.maxcol.2.2 then b else acc.maxcol.2.2)
    sumcol := (acc.sumcol.1 + r.toNat, acc.sumcol.2.1 + g.toNat, acc.sumcol.2.2 + b.toNat) }

/-- Lines 564-610: the loop over the static arrays for the group `groupcode`. -/
def metricsGroup (s : Sim) (critters : Nat → Nat → Nat → Critter) (genomes : List Nat)
    (groupcodes : List Int) (slots : Nat → List Nat) (groupcode : Int) : Metrics :=
  (genomes.zip groupcodes).foldl
    (fun acc gc =>
      if gc.2 = groupcode then
        let acc1 := { acc with
          genomicDiversity := acc.genomicDiversity + 1
          speciesSize := acc.speciesSize + (slots gc.1).length }
        { (slots gc.1).foldl (metricsSlot s critters) acc1 with samplegenome := gc.1 }
      else acc)
    Metrics.start

/-- Lines 611-626: the metrics written into the data item. -/
def metricsItem (item : LogSpeciesDataItem) (m : Metrics) : LogSpeciesDataItem :=
  { item with
    genomicDiversity := m.genomicDiversity
    meanFitness := toUInt16 ((m.sumfit * 1000 / m.speciesSize : Nat) : Int)
    sampleGenome := m.samplegenome
    size := toUInt32 (m.speciesSize : Int)
    cellsOccupied := toUInt16 (m.cellsoc.length : Int)
    maxEnvironment := (toUInt8 m.maxcol.1, toUInt8 m.maxcol.2.1, toUInt8 m.maxcol.2.2)
    minEnvironment := (toUInt8 m.mincol.1, toUInt8 m.mincol.2.1, toUInt8 m.mincol.2.2)
    meanEnvironment := (toUInt8 ((m.sumcol.1 / m.speciesSize : Nat) : Int),
                        toUInt8 ((m.sumcol.2.1 / m.speciesSize : Nat) : Int),
                        toUInt8 ((m.sumcol.2.2 / m.speciesSize : Nat) : Int))
    centroidRangeX := toUInt8 ((m.sumxpos / m.speciesSize : Nat) : Int)
    centroidRangeY := toUInt8 ((m.sumypos / m.speciesSize : Nat) : Int)
    geographicalRange :=
      toUInt8 (if m.maxx - m.minx < m.maxy - m.miny then m.maxy - m.miny else m.maxx - m.minx) }

/-- The body of the metrics loop (lines 531-627) for one group: the metrics go into the last
data item of the log node stored for the group. -/
def recordMetrics (s : Sim) (genomes : List Nat) (groupcodes : List Int)
    (slots : Nat → List Nat) (groupcode : Int) (w : Work) : Except Fault Work :=
  match w.logspeciespointers groupcode with
  | none => .error .nullPointer
  | some p =>
    match w.logSpecies[p]? with
    | none => .error .nullPointer
    | some node =>
      match node.dataItems.getLast? with
      | none => .error .indexOutOfRange
      | some item =>
        let m := metricsGroup s w.critters genomes groupcodes slots groupcode
        if m.speciesSize = 0 then .error .divideByZero
        else
          .ok { w with
                logSpecies :=
                  w.logSpecies.set p
                    { node with dataItems := node.dataItems.dropLast ++ [metricsItem item m] } }

/-- Line 289: in the phylogeny modes `thislogspecies` is looked up in `logSpeciesByID`, and a
missing entry ends the program; otherwise it stays null. -/
def findLogSpecies (s : Sim) (speciesID : Nat) (w : Work) : Except Fault (Option Nat) :=
  if s.speciesMode ≥ SPECIES_MODE_PHYLOGENY then
    match w.logSpeciesByID speciesID with
    | none => .error .speciesNotInLog
    | some p => .ok (some p)
  else .ok none

/-- The body of the loop over the species (lines 272-630) for the species `speciesID`.
`MAX_GENOME_COUNT` is the size of the static arrays, a constant of globals.h. The vector
`logspeciespointers` is new in every round; it is indexed by group codes only, which lie in
`0..maxcode`. -/
def processSpecies (ord : HashOrder) (MAX_GENOME_COUNT : Nat) (s : Sim) (g : Gathered)
    (speciesID : Nat) (w : Work) : Except Fault Work :=
  match findLogSpecies s speciesID w with
  | .error e => .error e
  | .ok thislogspecies =>
    let genomes := ord.genomes (g.genomedata speciesID)
    if genomes.length ≥ MAX_GENOME_COUNT then .error .staticArrayTooSmall
    else
      match groupGenomes s.maxDifference genomes with
      | .error e => .error e
      | .ok codes =>
        let groups := countGroups codes.1
        let order := ord.groups groups.keys
        let maxcountkey := (findBiggest groups order).2
        match forEach
            (groupStep s speciesID thislogspecies genomes codes.1 (g.slotswithgenome speciesID)
              maxcountkey)
            order { w with logspeciespointers := fun _ => none } with
        | .error e => .error e
        | .ok w1 =>
          if s.speciesMode = SPECIES_MODE_PHYLOGENY_AND_METRICS then
            forEach (recordMetrics s genomes codes.1 (g.slotswithgenome speciesID)) order w1
          else .ok w1

/-! ## Step 3: sizes and the new species list (lines 636-652) -/

/-- The body of the last loop (lines 636-649) for one entry of `newSpeciesList`, on the pair
(entries done so far, log nodes). -/
def recordSize (s : Sim) (speciesSizes : Nat → Int) (sp : Species)
    (st : List Species × List LogSpecies) : Except Fault (List Species × List LogSpecies) :=
  let newsize := toUInt32 (speciesSizes sp.ID)
  let sp' := { sp with size := toInt32 (newsize : Int) }
  if s.speciesMode ≥ SPECIES_MODE_PHYLOGENY then
    match sp.logSpeciesStructure with
    | none => .error .nullPointer
    | some p =>
      match st.2[p]? with
      | none => .error .nullPointer
      | some ls =>
        if newsize > ls.maxSize then .ok (st.1 ++ [sp'], st.2.set p { ls with maxSize := newsize })
        else .ok (st.1 ++ [sp'], st.2)
  else .ok (st.1 ++ [sp'], st.2)

/-- `Analyser::groupsGenealogicalTracker`. `elapsed` is the reading of the timer at the end
(`t.elapsed()`, in milliseconds). The progress bar is left out. -/
def groupsGenealogicalTracker (ord : HashOrder) (MAX_GENOME_COUNT : Nat) (elapsed : Int)
    (s : Sim) : Except Fault Sim :=
  let g := gather s
  match forEach (processSpecies ord MAX_GENOME_COUNT s g) (ord.species g.speciesKeys)
      { critters := s.critters, speciesSizes := g.speciesSizes,
        nextSpeciesID := s.nextSpeciesID, newSpeciesList := [], logSpecies := s.logSpecies,
        logSpeciesByID := s.logSpeciesByID, logspeciespointers := fun _ => none } with
  | .error e => .error e
  | .ok w =>
    match forEach (recordSize s w.speciesSizes) w.newSpeciesList ([], w.logSpecies) with
    | .error e => .error e
    | .ok st =>
      .ok { s with
            critters := w.critters
            oldSpeciesList := st.1
            logSpecies := st.2
            logSpeciesByID := w.logSpeciesByID
            nextSpeciesID := w.nextSpeciesID
            warningCount := if elapsed > 5000 then s.warningCount + 1 else s.warningCount }

/-! ## Notions used to state what a pass achieves -/

/-- Lines 448-451: the slot that a packed position decodes to. -/
def unpack (v : Nat) : Nat × Nat × Nat := (unpackX v, unpackY v, unpackZ v)

/-- The critter in the slot `p = (x, y, z)`. -/
def critterAt (critters : Nat → Nat → Nat → Critter) (p : Nat × Nat × Nat) : Critter :=
  critters p.1 p.2.1 p.2.2

/-- The live critters of the grid: the slots inside the run-time grid with `age > 0`. -/
def liveSlots (s : Sim) : List (Nat × Nat × Nat) :=
  (List.range s.gridX).flatMap fun n =>
    (List.range s.gridY).flatMap fun m =>
      ((List.range s.slotsPerSquare).filter fun c => decide ((s.critters n m c).age > 0)).map
        fun c => (n, m, c)

/-- The number of gathered slots whose critter carries the species id `id` in `critters`. -/
def countID (s : Sim) (critters : Nat → Nat → Nat → Critter) (id : Nat) : Nat :=
  (gatheredSlots s).countP fun p => decide ((critterAt critters p).speciesID = id)

/-- The number of live critters of the grid that carry the species id `id`. -/
def occupancy (s : Sim) (id : Nat) : Nat :=
  (liveSlots s).countP fun p => decide ((critterAt s.critters p).speciesID = id)

/-- What the tables hold after the first loop has visited the slots `visited`. -/
structure GatherInv (s : Sim) (visited : List (Nat × Nat × Nat)) (g : Gathered) : Prop where
  keys_nodup : g.speciesKeys.Nodup
  keys_mem : ∀ k, k ∈ g.speciesKeys ↔ ∃ p ∈ visited, (critterAt s.critters p).speciesID = k
  genomes_nodup : ∀ k, (g.genomedata k).Nodup
  genomes_mem : ∀ k q, q ∈ g.genomedata k ↔
    ∃ p ∈ visited, (critterAt s.critters p).speciesID = k ∧ (critterAt s.critters p).genome = q
  slots_eq : ∀ k q, g.slotswithgenome k q =
    (visited.filter fun p => decide ((critterAt s.critters p).speciesID = k ∧
      (critterAt s.critters p).genome = q)).map fun p => packPosition p.1 p.2.1 p.2.2
  sizes_eq : ∀ k, g.speciesSizes k =
    ((visited.countP fun p => decide ((critterAt s.critters p).speciesID = k) : Nat) : Int)

/-- The gathered slot `p` belongs to the species `speciesID` and its genome has ended with
the group code `groupcode`. -/
def inGroup (s : Sim) (speciesID : Nat) (genomes : List Nat) (groupcodes : List Int)
    (groupcode : Int) (p : Nat × Nat × Nat) : Bool :=
  decide ((critterAt s.critters p).speciesID = speciesID ∧
    ((critterAt s.critters p).genome, groupcode) ∈ genomes.zip groupcodes)

/-- The compile-time bounds of the packed positions: `y` and the slot index take 8 bits each,
and the whole position fits a `quint32`. -/
def FitsPacking (s : Sim) : Prop :=
  s.gridX ≤ 65536 ∧ s.gridY ≤ 256 ∧ s.slotsPerSquare ≤ 256

/-- Modelled from the spec: the constant `GRID_X` of globals.h, which is not among the
sources; the spec gives the compile-time upper bounds of the grid as 256 x 256 x 256. -/
def GRID_X : Nat := 256

/-- Modelled from the spec: the constant `GRID_Y` of globals.h (see `GRID_X`). -/
def GRID_Y : Nat := 256

/-- Modelled from the spec: the constant `SLOTS_PER_GRID_SQUARE` of globals.h (see
`GRID_X`). -/
def SLOTS_PER_GRID_SQUARE : Nat := 256

/-- The run-time grid lies within the static array
`critters[GRID_X][GRID_Y][SLOTS_PER_GRID_SQUARE]` (simmanager.cpp, line 84). -/
def WithinArrays (s : Sim) : Prop :=
  s.gridX ≤ GRID_X ∧ s.gridY ≤ GRID_Y ∧ s.slotsPerSquare ≤ SLOTS_PER_GRID_SQUARE

/-- Every species of a gathered critter has an entry in the species list on entry. -/
def Listed (s : Sim) : Prop :=
  ∀ p ∈ gatheredSlots s, ∃ old ∈ s.oldSpeciesList, old.ID = (critterAt s.critters p).speciesID

/-- Invariant of the loops over the species and their groups, about the critters, the sizes,
the id counter and the new species list. `pending p` says that the group of the gathered slot
`p` has not been visited yet; `kept` lists the species that have their continuing entry. The
facts about the sizes need the number of gathered critters to fit an `int`; the facts about
the entries of the continuing species need these species to be listed on entry. -/
structure PassInv (s : Sim) (pending : Nat × Nat × Nat → Prop) (kept : List Nat) (w : Work) :
    Prop where
  frame : ∀ p, critterAt w.critters p =
    { critterAt s.critters p with speciesID := (critterAt w.critters p).speciesID }
  outside : ∀ p, p ∉ gatheredSlots s → critterAt w.critters p = critterAt s.critters p
  pend : ∀ p ∈ gatheredSlots s, pending p →
    (critterAt w.critters p).speciesID = (critterAt s.critters p).speciesID
  done : Listed s → ∀ p ∈ gatheredSlots s, ¬ pending p →
    (critterAt w.critters p).speciesID ∈ w.newSpeciesList.map (fun sp => sp.ID)
  tally : (gatheredSlots s).length < 2 ^ 31 →
    ∀ id, w.speciesSizes id = (countID s w.critters id : Int)
  carried : Listed s → ∀ id ∈ w.newSpeciesList.map (fun sp => sp.ID),
    ∃ p ∈ gatheredSlots s, ¬ pending p ∧ (critterAt w.critters p).speciesID = id
  ids_nodup : Listed s → (w.newSpeciesList.map (fun sp => sp.ID)).Nodup
  ids : Listed s → ∀ id ∈ w.newSpeciesList.map (fun sp => sp.ID),
    id ∈ kept ∨ (s.nextSpeciesID ≤ id ∧ id < w.nextSpeciesID)
  kept_listed : Listed s → ∀ id ∈ kept, id ∈ w.newSpeciesList.map (fun sp => sp.ID)
  new_ids : (w.newSpeciesList.map (fun sp => sp.ID)).filter
      (fun id => decide (s.nextSpeciesID ≤ id)) =
    List.range' s.nextSpeciesID (w.nextSpeciesID - s.nextSpeciesID)
  range_carried : ∀ id, s.nextSpeciesID ≤ id → id < w.nextSpeciesID →
    ∃ p ∈ gatheredSlots s, ¬ pending p ∧ (critterAt w.critters p).speciesID = id
  next_ge : s.nextSpeciesID ≤ w.nextSpeciesID
  fresh : ∀ p ∈ gatheredSlots s, (critterAt w.critters p).speciesID < w.nextSpeciesID
  kept_old : ∀ id ∈ kept, id < s.nextSpeciesID
  parent_new : ∀ sp ∈ w.newSpeciesList, s.nextSpeciesID ≤ sp.ID → ∀ p ∈ gatheredSlots s,
    (critterAt w.critters p).speciesID = sp.ID → (critterAt s.critters p).speciesID = sp.parent
  kept_same : ∀ p ∈ gatheredSlots s, (critterAt w.critters p).speciesID < s.nextSpeciesID →
    (critterAt w.critters p).speciesID = (critterAt s.critters p).speciesID

/-- The cell aggregates are consistent with the critters: a cell that holds a live critter
has a total fitness other than zero, so that the first loop does not skip it. -/
def AggregatesConsistent (s : Sim) : Prop :=
  ∀ p ∈ liveSlots s, s.totalFitness p.1 p.2.1 ≠ 0

/-- The species id that the critter in slot `p` carries in the state `s`. -/
def idAt (s : Sim) (p : Nat × Nat × Nat) : Nat := (critterAt s.critters p).speciesID

/-- What a pass that ran to its end leaves behind, when the grid fits the packed positions
and the id counter lay above the ids of the gathered critters and did not wrap. The facts
about the entries of the continuing species need these species to be listed on entry, the
facts about the sizes need the number of gathered critters to fit an `int`. -/
structure PassResult (s s' : Sim) : Prop where
  gridX : s'.gridX = s.gridX
  gridY : s'.gridY = s.gridY
  slots : s'.slotsPerSquare = s.slotsPerSquare
  fitness : s'.totalFitness = s.totalFitness
  live : liveSlots s' = liveSlots s
  frame : ∀ p, critterAt s'.critters p = { critterAt s.critters p with speciesID := idAt s' p }
  outside : ∀ p, p ∉ gatheredSlots s → critterAt s'.critters p = critterAt s.critters p
  listed : Listed s → ∀ p ∈ gatheredSlots s, idAt s' p ∈ s'.oldSpeciesList.map (fun sp => sp.ID)
  carried : Listed s → ∀ id ∈ s'.oldSpeciesList.map (fun sp => sp.ID),
    ∃ p ∈ gatheredSlots s, idAt s' p = id
  ids_nodup : Listed s → (s'.oldSpeciesList.map (fun sp => sp.ID)).Nodup
  sizes : (gatheredSlots s).length < 2 ^ 31 →
    ∀ sp ∈ s'.oldSpeciesList, sp.size = (countID s s'.critters sp.ID : Int)
  new_ids : (s'.oldSpeciesList.map (fun sp => sp.ID)).filter
      (fun id => decide (s.nextSpeciesID ≤ id)) =
    List.range' s.nextSpeciesID (s'.nextSpeciesID - s.nextSpeciesID)
  range_carried : ∀ id, s.nextSpeciesID ≤ id → id < s'.nextSpeciesID →
    ∃ p ∈ gatheredSlots s, idAt s' p = id
  next_ge : s.nextSpeciesID ≤ s'.nextSpeciesID
  next_le : s'.nextSpeciesID ≤ s.nextSpeciesID + (gatheredSlots s).length
  fresh : ∀ p ∈ gatheredSlots s, idAt s' p < s'.nextSpeciesID
  parent_new : ∀ sp ∈ s'.oldSpeciesList, s.nextSpeciesID ≤ sp.ID → ∀ p ∈ gatheredSlots s,
    idAt s' p = sp.ID → idAt s p = sp.parent
  kept_same : ∀ p ∈ gatheredSlots s, idAt s' p < s.nextSpeciesID → idAt s' p = idAt s p

/-! ## The groups of a species, as notions of the whole pass -/

/-- The genomes of the species `speciesID` in the order in which its round of the loop over
the species copies them into the static array (lines 296-312). -/
def speciesGenomes (ord : HashOrder) (s : Sim) (speciesID : Nat) : List Nat :=
  ord.genomes ((gather s).genomedata speciesID)

/-- The group codes of the genomes of the species `speciesID` after 'fix all groups', the
empty list if the grouping faults. -/
def speciesCodes (ord : HashOrder) (s : Sim) (speciesID : Nat) : List Int :=
  match groupGenomes s.maxDifference (speciesGenomes ord s speciesID) with
  | .ok codes => codes.1
  | .error _ => []

/-- The group of the species `speciesID` that the 'find biggest' loop picks, `maxcountkey`
(lines 400-421). -/
def keptGroup (ord : HashOrder) (s : Sim) (speciesID : Nat) : Int :=
  (findBiggest (countGroups (speciesCodes ord s speciesID))
    (ord.groups (countGroups (speciesCodes ord s speciesID)).keys)).2

/-- The genome of the critter in slot `p` has ended with the group code `k` in the grouping
of its species. -/
def slotInGroup (ord : HashOrder) (s : Sim) (k : Int) (p : Nat × Nat × Nat) : Bool :=
  inGroup s (idAt s p) (speciesGenomes ord s (idAt s p)) (speciesCodes ord s (idAt s p)) k p

/-- The invariant of the loops about which slots share an id: among the slots that are done,
a slot has kept its id exactly if it lies in the group picked to continue its species, and
two slots of one species carry the same id exactly if they lie in the same group. -/
structure GroupInv (ord : HashOrder) (s : Sim) (pending : Nat × Nat × Nat → Prop) (w : Work) :
    Prop where
  kept_iff : ∀ p ∈ gatheredSlots s, ¬ pending p →
    ((critterAt w.critters p).speciesID = idAt s p ↔
      slotInGroup ord s (keptGroup ord s (idAt s p)) p = true)
  same_iff : ∀ p ∈ gatheredSlots s, ∀ q ∈ gatheredSlots s, ¬ pending p → ¬ pending q →
    idAt s p = idAt s q →
    ((critterAt w.critters p).speciesID = (critterAt w.critters q).speciesID ↔
      ∃ k, slotInGroup ord s k p = true ∧ slotInGroup ord s k q = true)
  grouped : ∀ p ∈ gatheredSlots s, ¬ pending p →
    ∃ maxcode, groupGenomes s.maxDifference (speciesGenomes ord s (idAt s p)) =
      .ok (speciesCodes ord s (idAt s p), maxcode)

/-- What a pass that ran to its end has done with the groups, when the grid fits the packed
positions and the id counter lay above the ids of the gathered critters and did not wrap: the
grouping of every species ran to its end, the group picked to continue a species is one of
the most genomes, a gathered critter has kept its id exactly if it lies in that group, and
two gathered critters of one species carry the same id exactly if they lie in the same
group. -/
structure GroupResult (ord : HashOrder) (s s' : Sim) : Prop where
  grouped : ∀ p ∈ gatheredSlots s,
    ∃ maxcode, groupGenomes s.maxDifference (speciesGenomes ord s (idAt s p)) =
      .ok (speciesCodes ord s (idAt s p), maxcode)
  in_group : ∀ p ∈ gatheredSlots s, ∃ k, slotInGroup ord s k p = true
  biggest : ∀ p ∈ gatheredSlots s, ∀ k,
    (speciesCodes ord s (idAt s p)).count k ≤
      (speciesCodes ord s (idAt s p)).count (keptGroup ord s (idAt s p))
  kept_iff : ∀ p ∈ gatheredSlots s,
    (idAt s' p = idAt s p ↔ slotInGroup ord s (keptGroup ord s (idAt s p)) p = true)
  same_iff : ∀ p ∈ gatheredSlots s, ∀ q ∈ gatheredSlots s, idAt s p = idAt s q →
    (idAt s' p = idAt s' q ↔ ∃ k, slotInGroup ord s k p = true ∧ slotInGroup ord s k q = true)

/-! ## Small states on which the pass is run -/

/-- The state after a pass; the state before it when the pass faults. -/
def stateAfter (ord : HashOrder) (MAX_GENOME_COUNT : Nat) (elapsed : Int) (s : Sim) : Sim :=
  match groupsGenealogicalTracker ord MAX_GENOME_COUNT elapsed s with
  | .ok s' => s'
  | .error _ => s

/-- Whether a pass runs to its end. -/
def completes (ord : HashOrder) (MAX_GENOME_COUNT : Nat) (elapsed : Int) (s : Sim) : Bool :=
  match groupsGenealogicalTracker ord MAX_GENOME_COUNT elapsed s with
  | .ok _ => true
  | .error _ => false

/-- A critter of age 1 and fitness 1. -/
def liveCritter (genome speciesID : Nat) : Critter :=
  { genome := genome, age := 1, energy := 0, fitness := 1, speciesID := speciesID }

/-- An empty slot. -/
def deadCritter : Critter :=
  { genome := 0, age := 0, energy := 0, fitness := 0, speciesID := 0 }

/-- A grid whose cell `(0, 0)` holds the given critters; every other slot is empty. -/
def oneCell (slots : List Critter) : Nat → Nat → Nat → Critter :=
  fun n m c => if n = 0 ∧ m = 0 then slots.getD c deadCritter else deadCritter

/-- A species list entry with the given id and log node. -/
def entryOf (id : Nat) (log : Option Nat) : Species :=
  { Species.default with ID := id, logSpeciesStructure := log }

/-- Two species in one cell, in the basic mode: species 1 with the genomes 0, 65280 and 1,
species 2 with the genomes 0 and 1; `maxDifference` is 2, so that the genome 65280 is a group
of its own. The id counter is given. -/
def twoSpeciesState (nextSpeciesID : Nat) : Sim :=
  { gridX := 1, gridY := 1, slotsPerSquare := 5
    critters := oneCell [liveCritter 0 1, liveCritter 65280 1, liveCritter 1 1,
      liveCritter 0 2, liveCritter 1 2]
    totalFitness := fun _ _ => 5
    environment := fun _ _ _ => 0
    oldSpeciesList := [entryOf 1 none, entryOf 2 none]
    logSpecies := []
    logSpeciesByID := fun _ => none
    nextSpeciesID := nextSpeciesID
    iteration := 10
    speciesMode := 1
    maxDifference := 2
    warningCount := 0 }

/-- One species with the id 0 and the genomes 0, 65280, 16711680 and 1, which fall into three
groups for `maxDifference = 2`, and the id counter at its largest value. -/
def wrapState : Sim :=
  { gridX := 1, gridY := 1, slotsPerSquare := 4
    critters := oneCell [liveCritter 0 0, liveCritter 65280 0, liveCritter 16711680 0,
      liveCritter 1 0]
    totalFitness := fun _ _ => 4
    environment := fun _ _ _ => 0
    oldSpeciesList := [entryOf 0 none]
    logSpecies := []
    logSpeciesByID := fun _ => none
    nextSpeciesID := 2 ^ 64 - 1
    iteration := 10
    speciesMode := 1
    maxDifference := 2
    warningCount := 0 }

/-- The state `twoSpeciesState 3`, but the cell is marked as empty by its total fitness. -/
def skippedCellState : Sim :=
  { twoSpeciesState 3 with totalFitness := fun _ _ => 0 }

instance (s : Sim) : Decidable (FitsPacking s) := by
  unfold FitsPacking
  infer_instance

instance (s : Sim) : Decidable (AggregatesConsistent s) := by
  unfold AggregatesConsistent
  infer_instance

/-- The state `twoSpeciesState 3` without the entry of the first species in the species
list. -/
def unlistedState : Sim :=
  { twoSpeciesState 3 with oldSpeciesList := [entryOf 2 none] }

instance (s : Sim) : Decidable (WithinArrays s) := by
  unfold WithinArrays
  infer_instance

/-! ## The log of species -/

/-- The log nodes `L'` are the nodes `L` and possibly more, and what `f` reads of a node of
`L` is the same in `L'`. -/
def KeepsPrefix {β : Type} (f : LogSpecies → β) (L L' : List LogSpecies) : Prop :=
  L.length ≤ L'.length ∧ ∀ i : Nat, i < L.length → (L'[i]?).map f = (L[i]?).map f

/-- The log nodes `L'` are as many as the nodes `L`, and what `f` reads of a node is the
same in both. -/
def Keeps {β : Type} (f : LogSpecies → β) (L L' : List LogSpecies) : Prop :=
  L'.length = L.length ∧ ∀ i : Nat, (L'[i]?).map f = (L[i]?).map f

/-- What stays of a log node once it is made, but for its list of children: the id, the time
of first appearance and the parent. -/
def LogSpecies.origin (n : LogSpecies) : Nat × Nat × Option Nat :=
  (n.id, n.timeOfFirstAppearance, n.parent)

/-- What the loops over the groups leave of a log node that they do not make or give a
child: the origin, the children and `maxSize`. -/
def LogSpecies.core (n : LogSpecies) : (Nat × Nat × Option Nat) × List Nat × Nat :=
  (n.origin, n.children, n.maxSize)

/-- The invariant of the loops about the log nodes of the entries of the new species list,
in the phylogeny modes: `maxSize` of the nodes of before the pass is as it was, every entry
points to a node, an entry that points to a node of before the pass is the continuing entry
of a species of `kept`, and no two entries point to the same node. -/
structure LogInv (s : Sim) (kept : List Nat) (w : Work) : Prop where
  prefix_max : KeepsPrefix (fun n => n.maxSize) s.logSpecies w.logSpecies
  ptr_valid : ∀ sp ∈ w.newSpeciesList, ∀ p, sp.logSpeciesStructure = some p →
    p < w.logSpecies.length
  ptr_old : ∀ sp ∈ w.newSpeciesList, ∀ p, sp.logSpeciesStructure = some p →
    p < s.logSpecies.length →
    ∃ old ∈ s.oldSpeciesList, old.logSpeciesStructure = some p ∧ old.ID ∈ kept
  ptr_nodup : (w.newSpeciesList.filterMap (fun sp => sp.logSpeciesStructure)).Nodup

/-- All of a log node but `maxSize`. -/
def LogSpecies.unsized (n : LogSpecies) :
    Nat × Nat × Nat × Option Nat × List Nat × List LogSpeciesDataItem :=
  (n.id, n.timeOfFirstAppearance, n.timeOfLastAppearance, n.parent, n.children, n.dataItems)

/-- A property of the work record that every round of the loops keeps: the split-off branch
(under the pass invariant, for a species below the id counter of the entry and an id counter
that does not wrap), the continuing branch, and every change that leaves the critters, the
sizes, the id counter, the new species list and the core of the log nodes alone. -/
structure StepKeeps (s : Sim) (J : Work → Prop) : Prop where
  split : ∀ (pending : Nat × Nat × Nat → Prop) (kept : List Nat) (w w' : Work)
    (speciesID : Nat) (thislogspecies : Option Nat) (gs : List Nat) (codes : List Int)
    (slots : Nat → List Nat) (groupcode : Int),
    PassInv s pending kept w → speciesID < s.nextSpeciesID → w.nextSpeciesID + 1 < 2 ^ 64 →
    J w → splitOffGroup s speciesID thislogspecies gs codes slots groupcode w = .ok w' → J w'
  continuing : ∀ (w w' : Work) (speciesID : Nat) (gs : List Nat) (codes : List Int)
    (maxcountkey groupcode : Int),
    J w → continueGroup s speciesID gs codes maxcountkey groupcode w = .ok w' → J w'
  frame : ∀ (w w' : Work), J w → w'.speciesSizes = w.speciesSizes →
    w'.nextSpeciesID = w.nextSpeciesID → w'.newSpeciesList = w.newSpeciesList →
    Keeps LogSpecies.core w.logSpecies w'.logSpecies → J w'

/-- The invariant of the loops about the log nodes made during the pass, in the phylogeny
modes: an entry of the new species list whose node is not of before the pass has an id handed
out in the pass, and the `maxSize` of its node is its size in the hash of sizes. -/
structure NewNodeInv (s : Sim) (w : Work) : Prop where
  len_ge : s.logSpecies.length ≤ w.logSpecies.length
  sized : ∀ sp ∈ w.newSpeciesList, ∀ p, sp.logSpeciesStructure = some p →
    s.logSpecies.length ≤ p →
    (s.nextSpeciesID ≤ sp.ID ∧ sp.ID < w.nextSpeciesID) ∧
    ∃ node, w.logSpecies[p]? = some node ∧ node.maxSize = toUInt32 (w.speciesSizes sp.ID)

/-! ## The state after `SimManager::setupRun` (simmanager.cpp) -/

/-- Lines 481-499 of setupRun: the first data item of the root of the log, for the seeded
cell `(n, m)` with `aliveCount` live critters. `sampleGenome` is the local `generation`,
which line 465 has set to 0. -/
def setupDataItem (s : Sim) (n m aliveCount : Nat) : LogSpeciesDataItem :=
  { iteration := 0, sampleGenome := 0, size := aliveCount, genomicDiversity := 1,
    cellsOccupied := 0, geographicalRange := 0, centroidRangeX := n, centroidRangeY := m,
    meanFitness := toUInt16 ((s.totalFitness n m * 1000 / aliveCount : Nat) : Int),
    minEnvironment := (s.environment n m 0, s.environment n m 1, s.environment n m 2),
    maxEnvironment := (s.environment n m 0, s.environment n m 1, s.environment n m 2),
    meanEnvironment := (s.environment n m 0, s.environment n m 1, s.environment n m 2) }

/-- Lines 474-523 of setupRun, on a state whose critters and cell aggregates are in place:
the root of the log with the id 1 (`nextspeciesid` at that point), the hash with that one
node, the species list with the one species 1, the id counter moved on to 2, and the warning
counter reset. -/
def setupLog (s : Sim) (n m aliveCount : Nat) : Sim :=
  { s with
    logSpecies := [{ id := 1, timeOfFirstAppearance := 0, timeOfLastAppearance := 0,
                     parent := none, children := [], maxSize := aliveCount,
                     dataItems := [setupDataItem s n m aliveCount] }]
    logSpeciesByID := fun k => if k = 1 then some 0 else none
    oldSpeciesList := [{ Species.default with
                         ID := 1, originTime := 0, parent := 0,
                         size := (s.slotsPerSquare : Int), type := 0,
                         logSpeciesStructure := some 0 }]
    nextSpeciesID := 2
    warningCount := 0 }

/-- The place of a log node in the tree: its id, its parent and its children. -/
def LogSpecies.tree (n : LogSpecies) : Nat × Option Nat × List Nat :=
  (n.id, n.parent, n.children)

/-- What the claims about the new list read of a species: its id, the id of its parent and
its log node. -/
def Species.link (sp : Species) : Nat × Nat × Option Nat :=
  (sp.ID, sp.parent, sp.logSpeciesStructure)

/-- The value of a computation that has run to its end; `d` if it has faulted. -/
def resultOr {α : Type} (x : Except Fault α) (d : α) : α :=
  match x with
  | .ok a => a
  | .error _ => d

/-- Whether a computation has run to its end. -/
def succeeds {α : Type} (x : Except Fault α) : Bool :=
  match x with
  | .ok _ => true
  | .error _ => false

/-- The work record with which the pass enters the loop over the species. -/
def firstWork (s : Sim) : Work :=
  { critters := s.critters, speciesSizes := (gather s).speciesSizes,
    nextSpeciesID := s.nextSpeciesID, newSpeciesList := [], logSpecies := s.logSpecies,
    logSpeciesByID := s.logSpeciesByID, logspeciespointers := fun _ => none }

/-- A grid of `genomes.length` cells with one slot each, the cell `(n, 0)` holding a live
critter of the species 1 with the `n`-th genome, before the log is set up. -/
def seededGrid (genomes : List Nat) (maxDifference : Int) (speciesMode : Nat) : Sim :=
  { gridX := genomes.length, gridY := 1, slotsPerSquare := 1
    critters := fun n m c =>
      if n < genomes.length ∧ m = 0 ∧ c = 0 then liveCritter (genomes.getD n 0) 1
      else deadCritter
    totalFitness := fun _ _ => 1
    environment := fun _ _ _ => 0
    oldSpeciesList := []
    logSpecies := []
    logSpeciesByID := fun _ => none
    nextSpeciesID := 1
    iteration := 10
    speciesMode := speciesMode
    maxDifference := maxDifference
    warningCount := 0 }

/-- The state of the split test: the seeded grid with the log and the species list of
setupRun. -/
def splitTestState (genomes : List Nat) (maxDifference : Int) (speciesMode : Nat) : Sim :=
  setupLog (seededGrid genomes maxDifference speciesMode) 0 0 1

/-- Two species in one cell in the phylogeny mode, three critters of the species 1 and two of
the species 2, with entries in the species list that share the one node of the log. -/
def sharedNodeState : Sim :=
  { gridX := 1, gridY := 1, slotsPerSquare := 5
    critters := oneCell [liveCritter 0 1, liveCritter 1 1, liveCritter 0 1,
      liveCritter 0 2, liveCritter 1 2]
    totalFitness := fun _ _ => 5
    environment := fun _ _ _ => 0
    oldSpeciesList := [entryOf 1 (some 0), entryOf 2 (some 0)]
    logSpecies := [{ id := 1, timeOfFirstAppearance := 0, timeOfLastAppearance := 0,
                     parent := none, children := [], maxSize := 1, dataItems := [] }]
    logSpeciesByID := fun k => if k = 1 ∨ k = 2 then some 0 else none
    nextSpeciesID := 3
    iteration := 10
    speciesMode := SPECIES_MODE_PHYLOGENY
    maxDifference := 2
    warningCount := 0 }

/-- The work record after the group of the genome 65280 is split from the species 1 of the
split test with the genomes 0, 65280 and 1. -/
def splitExampleWork : Work :=
  resultOr
    (splitOffGroup (splitTestState [0, 65280, 1] 2 2) 1 (some 0) [0, 65280, 1] [0, 1, 0]
      ((gather (splitTestState [0, 65280, 1] 2 2)).slotswithgenome 1) 1
      (firstWork (splitTestState [0, 65280, 1] 2 2)))
    (firstWork (splitTestState [0, 65280, 1] 2 2))

/-! ## Runs: `setupRun`, ticks and passes of the identifier -/

/-- The times of the log at the tick `t`: no node first appears later than it last appears
or later than `t`, and the parent of a node is a node of the log that first appears no later
than the node. -/
def TimesInv (t : Nat) (L : List LogSpecies) : Prop :=
  ∀ (i : Nat) (node : LogSpecies), L[i]? = some node →
    node.timeOfFirstAppearance ≤ node.timeOfLastAppearance ∧
    node.timeOfFirstAppearance ≤ t ∧
    ∀ p, node.parent = some p →
      ∃ pn, L[p]? = some pn ∧ pn.timeOfFirstAppearance ≤ node.timeOfFirstAppearance

/-- The two times and the parent of a log node. -/
def LogSpecies.times (n : LogSpecies) : Nat × Nat × Option Nat :=
  (n.timeOfFirstAppearance, n.timeOfLastAppearance, n.parent)

/-- The states of a run. `setupRun` makes the log anew on whatever state it finds; between
two passes of the identifier the ticks (and the user) write everything but the log, and the
tick counter does not go back; a pass of the identifier that runs to its end yields the next
state, for any iteration order of the hashes and any size of the static arrays. -/
inductive Reachable : Sim → Prop
  | setup (s : Sim) (n m aliveCount : Nat) : Reachable (setupLog s n m aliveCount)
  | ticks (s s' : Sim) : Reachable s → s'.logSpecies = s.logSpecies →
      s.iteration ≤ s'.iteration → Reachable s'
  | pass (ord : HashOrder) (M : Nat) (elapsed : Int) (s s' : Sim) : Reachable s →
      groupsGenealogicalTracker ord M elapsed s = .ok s' → Reachable s'

/-! ## The geographical range, as the specification words it -/

/-- The cells `(x, y)` of the live slots of the grid whose critter carries the species id
`id`. -/
def cellsOf (s : Sim) (id : Nat) : List (Nat × Nat) :=
  ((liveSlots s).filter fun p => decide ((critterAt s.critters p).speciesID = id)).map
    fun p => (p.1, p.2.1)

/-- The largest value of a list minus its smallest value (`0` for the empty list). -/
def extent (l : List Nat) : Nat :=
  l.foldl max 0 - l.foldl min (l.headD 0)

/-- The geographical range of the specification for a group that lives in the cells `cells`:
`max(max_x - min_x, max_y - min_y)`. -/
def rangeOfCells (cells : List (Nat × Nat)) : Nat :=
  max (extent (cells.map fun c => c.1)) (extent (cells.map fun c => c.2))

/-- The geographical range in the latest data item of the log node `p`. -/
def storedRange (s : Sim) (p : Nat) : Option Nat :=
  match s.logSpecies[p]? with
  | none => none
  | some node => node.dataItems.getLast?.map fun item => item.geographicalRange

/-- One species in the phylogeny and metrics mode whose two live critters, with the genomes 0
and 1, sit in the cells `(0, 0)` and `(0, 3)` of a grid of one column and four rows. -/
def columnState : Sim :=
  { gridX := 1, gridY := 4, slotsPerSquare := 1
    critters := fun n m c =>
      if n = 0 ∧ c = 0 ∧ m = 0 then liveCritter 0 1
      else if n = 0 ∧ c = 0 ∧ m = 3 then liveCritter 1 1
      else deadCritter
    totalFitness := fun n m => if n = 0 ∧ (m = 0 ∨ m = 3) then 1 else 0
    environment := fun _ _ _ => 0
    oldSpeciesList := [entryOf 1 (some 0)]
    logSpecies := [{ id := 1, timeOfFirstAppearance := 0, timeOfLastAppearance := 0,
                     parent := none, children := [], maxSize := 2,
                     dataItems := [newDataItem 0] }]
    logSpeciesByID := fun k => if k = 1 then some 0 else none
    nextSpeciesID := 2
    iteration := 10
    speciesMode := SPECIES_MODE_PHYLOGENY_AND_METRICS
    maxDifference := 2
    warningCount := 0 }

/-- The two species of `twoSpeciesState` in the phylogeny mode, with an empty log: no live
species is in the log hash. -/
def unloggedState : Sim :=
  { twoSpeciesState 3 with speciesMode := SPECIES_MODE_PHYLOGENY }

/-- The fault with which a computation has ended, if it has. -/
def faultOf {α : Type} (x : Except Fault α) : Option Fault :=
  match x with
  | .ok _ => none
  | .error e => some e

/-! ## The environment (simmanager.cpp, lines 241-375) -/

/-- Qt's `qRed`: the bits 16 to 23 of a `QRgb`. -/
def qRed (rgb : Nat) : Nat := rgb / 65536 % 256

/-- Qt's `qGreen`: the bits 8 to 15 of a `QRgb`. -/
def qGreen (rgb : Nat) : Nat := rgb / 256 % 256

/-- Qt's `qBlue`: the bits 0 to 7 of a `QRgb`. -/
def qBlue (rgb : Nat) : Nat := rgb % 256

/-- An image as a `QImage` holds it. `pixel i j` is what `pixel(i, j)` returns, a `QRgb`
(Qt defines no value for a pixel outside the image); `scaled w h i j` is the pixel `(i, j)`
of the image that `scaled(QSize(w, h), Qt::IgnoreAspectRatio)` returns. `QImage::scaled`
belongs to Qt: what it returns is part of the data of the image. -/
structure QImage where
  width : Int
  height : Int
  pixel : Nat → Nat → Nat
  scaled : Nat → Nat → Nat → Nat → Nat

/-- The globals of the environment. An entry of `environmentFiles` stands for the image
that `QImage LoadImage(environmentFiles[...])` reads from that file (lines 249 and 308).
The three planes are indexed by cell and channel. `toFloat` and `toDouble` are the rounding
of the result of an operation to a `float` and to a `double`, which the platform fixes. -/
structure EnvState where
  gridX : Nat
  gridY : Nat
  environmentChangeRate : Int
  environmentFiles : List QImage
  currentEnvironmentFile : Int
  EnvChangeCounter : Int
  EnvChangeForward : Bool
  environment : Nat → Nat → Nat → Nat
  environmentlast : Nat → Nat → Nat → Nat
  environmentnext : Nat → Nat → Nat → Nat
  toFloat : ℚ → ℚ
  toDouble : ℚ → ℚ

/-- Lines 468-469 of setupRun: the countdown starts at the change rate, going forward. -/
def setupEnvironment (e : EnvState) : EnvState :=
  { e with EnvChangeCounter := e.environmentChangeRate, EnvChangeForward := true }

/-- The entry `environmentFiles[i]`. -/
def fileAt (environmentFiles : List QImage) (i : Int) : Except Fault QImage :=
  if i < 0 then .error .indexOutOfRange
  else
    match environmentFiles[i.toNat]? with
    | some img => .ok img
    | none => .error .indexOutOfRange

/-- Lines 256-260 and 309-310: the pixels of the image `img` after
`if (xsize < gridX || ysize < gridY) img = img.scaled(QSize(gridX, gridY), ...)`, where
`xsize` and `ysize` are the width and the height that line 256 and line 257 have read. -/
def rescaled (gridX gridY : Nat) (xsize ysize : Int) (img : QImage) : Nat → Nat → Nat :=
  if xsize < gridX ∨ ysize < gridY then img.scaled gridX gridY else img.pixel

/-- The loops of lines 263-269 (and 272-278, 282-288, 312-318): the three channels of every
pixel of the run-time grid go into the plane. -/
def storeImage (gridX gridY : Nat) (img : Nat → Nat → Nat) (plane : Nat → Nat → Nat → Nat) :
    Nat → Nat → Nat → Nat :=
  fun i j k =>
    if i < gridX ∧ j < gridY then
      if k = 0 then qRed (img i j)
      else if k = 1 then qGreen (img i j)
      else if k = 2 then qBlue (img i j)
      else plane i j k
    else plane i j k

/-- Lines 291-306: the file of the next keyframe. For a mode other than 1, 2 and 3 the
variable is read without having been written. -/
def nextFile (emode : Int) (e : EnvState) : Except Fault Int :=
  if e.EnvChangeForward then
    if e.currentEnvironmentFile + 1 < e.environmentFiles.length then
      .ok (e.currentEnvironmentFile + 1)
    else
      let n0 : Option Int := none
      let n1 : Option Int := if emode = 1 then some e.currentEnvironmentFile else n0
      let n2 : Option Int := if emode = 2 then some 0 else n1
      let n3 : Option Int := if emode = 3 then some (e.currentEnvironmentFile - 1) else n2
      match n3 with
      | some nextfile => .ok nextfile
      | none => .error .uninitialised
  else if e.currentEnvironmentFile > 0 then .ok (e.currentEnvironmentFile - 1)
  else .ok 1

/-- `SimManager::loadEnvironmentFromFile`. The images are taken as read (a file that cannot
be opened ends the program at line 253). `xsize` and `ysize` are the width and the height
of the image of the current file, and line 309 tests them again for the image of the next
file. -/
def loadEnvironmentFromFile (emode : Int) (e : EnvState) : Except Fault EnvState :=
  if e.currentEnvironmentFile ≥ e.environmentFiles.length then .ok e
  else
    match fileAt e.environmentFiles e.currentEnvironmentFile with
    | .error x => .error x
    | .ok LoadImage =>
      let xsize := LoadImage.width
      let ysize := LoadImage.height
      let img := rescaled e.gridX e.gridY xsize ysize LoadImage
      let e1 : EnvState :=
        { e with
          environment := storeImage e.gridX e.gridY img e.environment
          environmentlast := storeImage e.gridX e.gridY img e.environmentlast }
      if emode = 0 ∨ e.environmentFiles.length = 1 then
        .ok { e1 with environmentnext := storeImage e.gridX e.gridY img e.environmentnext }
      else
        match nextFile emode e with
        | .error x => .error x
        | .ok nextfile =>
          match fileAt e.environmentFiles nextfile with
          | .error x => .error x
          | .ok LoadImage2 =>
            .ok { e1 with
                  environmentnext :=
                    storeImage e.gridX e.gridY
                      (rescaled e.gridX e.gridY xsize ysize LoadImage2) e.environmentnext }

/-- The conversion of a real number to an integer type: the fraction is dropped. -/
def truncate (q : ℚ) : Int := if 0 ≤ q then Rat.floor q else Rat.ceil q

/-- Lines 359-360 and 364-369 for one channel:
`invprogress = (float)(EnvChangeCounter + 1) / (float)environmentChangeRate`,
`progress = 1 - invprogress` and `qint8(0.5 + last * invprogress + next * progress)`, stored
in a `quint8`. The quotient, the difference and the two products are operations on
`float`s, the two sums are operations on `double`s; the conversion of a `quint8` to a
`float` is exact. -/
def interpolateChannel (toFloat toDouble : ℚ → ℚ) (EnvChangeCounter environmentChangeRate : Int)
    (last next : Nat) : Nat :=
  let invprogress : ℚ :=
    toFloat (toFloat ((EnvChangeCounter + 1 : Int) : ℚ) / toFloat (environmentChangeRate : ℚ))
  let progress : ℚ := toFloat (1 - invprogress)
  toUInt8 (truncate
    (toDouble (toDouble ((1 / 2 : ℚ) + toFloat ((last : ℚ) * invprogress)) +
      toFloat ((next : ℚ) * progress))))

/-- Lines 362-370: the interpolated plane, for every cell of the run-time grid. -/
def interpolatePlane (e : EnvState) : Nat → Nat → Nat → Nat :=
  fun i j k =>
    if i < e.gridX ∧ j < e.gridY ∧ k < 3 then
      interpolateChannel e.toFloat e.toDouble e.EnvChangeCounter e.environmentChangeRate
        (e.environmentlast i j k) (e.environmentnext i j k)
    else e.environment i j k

/-- Lines 353-354: the countdown is reset and the planes are loaded; no halt. -/
def resetAndLoad (emode : Int) (e : EnvState) : Except Fault (Bool × EnvState) :=
  match loadEnvironmentFromFile emode
      { e with EnvChangeCounter := e.environmentChangeRate } with
  | .error x => .error x
  | .ok e' => .ok (false, e')

/-- `SimManager::regenerateEnvironment`: the returned flag (true when the run is over) and
the globals after the call. -/
def regenerateEnvironment (emode : Int) (interpolate : Bool) (e : EnvState) :
    Except Fault (Bool × EnvState) :=
  if e.environmentChangeRate = 0 ∨ emode = 0 ∨ e.environmentFiles.length = 1 then
    .ok (false, e)
  else
    let e1 : EnvState := { e with EnvChangeCounter := e.EnvChangeCounter - 1 }
    if e1.EnvChangeCounter ≤ 0 then
      let e2 : EnvState :=
        if emode ≠ 3 ∧ e1.EnvChangeForward = false then { e1 with EnvChangeForward := true }
        else e1
      if e2.EnvChangeForward then
        let e3 : EnvState :=
          { e2 with currentEnvironmentFile := e2.currentEnvironmentFile + 1 }
        if e3.currentEnvironmentFile ≥ e3.environmentFiles.length then
          if emode = 1 then .ok (true, e3)
          else
            let e4 : EnvState :=
              if emode = 2 then { e3 with currentEnvironmentFile := 0 } else e3
            let e5 : EnvState :=
              if emode = 3 then
                { e4 with
                  currentEnvironmentFile := e4.currentEnvironmentFile - 2
                  EnvChangeForward := false }
              else e4
            resetAndLoad emode e5
        else resetAndLoad emode e3
      else
        let e3 : EnvState :=
          { e2 with currentEnvironmentFile := e2.currentEnvironmentFile - 1 }
        let e4 : EnvState :=
          if e3.currentEnvironmentFile < 0 then
            { e3 with currentEnvironmentFile := 1, EnvChangeForward := true }
          else e3
        resetAndLoad emode e4
    else if interpolate then .ok (false, { e1 with environment := interpolatePlane e1 })
    else .ok (false, e1)

/-- The calls of `regenerateEnvironment` of `count` ticks (line 706 of `iterate`), one after
the other: the flags that the calls return, in order, and the globals after the last. -/
def regenerateTimes (emode : Int) (interpolate : Bool) :
    Nat → EnvState → Except Fault (List Bool × EnvState)
  | 0, e => .ok ([], e)
  | count + 1, e =>
    match regenerateTimes emode interpolate count e with
    | .error x => .error x
    | .ok (flags, e1) =>
      match regenerateEnvironment emode interpolate e1 with
      | .error x => .error x
      | .ok (flag, e2) => .ok (flags ++ [flag], e2)

/-! ## Notions used to state what the environment does -/

/-- The channels of the image of the file `file` as the loops of
`loadEnvironmentFromFile` store them when the rescaling is decided by the size of the
image of the file `sized` (`0` where there is no such file or channel). -/
def planeAs (e : EnvState) (sized file : Int) : Nat → Nat → Nat → Nat :=
  fun i j k =>
    match fileAt e.environmentFiles sized, fileAt e.environmentFiles file with
    | .ok first, .ok img =>
      if k = 0 then qRed (rescaled e.gridX e.gridY first.width first.height img i j)
      else if k = 1 then qGreen (rescaled e.gridX e.gridY first.width first.height img i j)
      else if k = 2 then qBlue (rescaled e.gridX e.gridY first.width first.height img i j)
      else 0
    | _, _ => 0

/-- The channels of the image of the file `file` as `loadEnvironmentFromFile` stores them
when the file is the current file: the image is rescaled when it is itself too small. -/
def planeOf (e : EnvState) (file : Int) : Nat → Nat → Nat → Nat := planeAs e file file

/-- The images of the files are all too small for the grid or none is, as when they all
have one size: the test of line 309 on the size of the current image then decides for the
next image what the test on its own size would. -/
def SizesAgree (e : EnvState) : Prop :=
  ∀ a ∈ e.environmentFiles, ∀ b ∈ e.environmentFiles,
    ((a.width < e.gridX ∨ a.height < e.gridY) ↔ (b.width < e.gridX ∨ b.height < e.gridY))

/-- The arithmetic of the interpolation is exact: no operation on `float`s or `double`s
rounds its result. -/
def ExactArithmetic (e : EnvState) : Prop :=
  ∀ q : ℚ, e.toFloat q = q ∧ e.toDouble q = q

/-- Two planes agree in every channel of every cell of the run-time grid. -/
def SamePlane (gridX gridY : Nat) (a b : Nat → Nat → Nat → Nat) : Prop :=
  ∀ i j k, i < gridX → j < gridY → k < 3 → a i j k = b i j k

/-- The keyframe cursor of the bounce mode after `q` changes of keyframe, for `n` keyframes:
the triangle wave `0, 1, ..., n-1, n-2, ..., 1, 0, 1, ...`. -/
def triangleWave (n q : Nat) : Nat :=
  if q % (2 * (n - 1)) < n then q % (2 * (n - 1)) else 2 * (n - 1) - q % (2 * (n - 1))

/-- The invariant of a run of the environment in the mode `emode` with interpolation and
exact arithmetic: the cursor points to a file, the countdown lies in
`1..environmentChangeRate`, the direction is forward but in the bounce mode, the plane of
the last keyframe is the image of the cursor, the plane of the next keyframe is the image
of the file that `loadEnvironmentFromFile` works out, rescaled as the size of the image of
the cursor decides, and the current plane is the plane of the last keyframe right after a
change of keyframe and the interpolated plane on every other tick. -/
structure EnvInv (emode : Int) (e : EnvState) : Prop where
  cursor_lo : 0 ≤ e.currentEnvironmentFile
  cursor_hi : e.currentEnvironmentFile < e.environmentFiles.length
  counter_lo : 1 ≤ e.EnvChangeCounter
  counter_hi : e.EnvChangeCounter ≤ e.environmentChangeRate
  forward : emode ≠ 3 → e.EnvChangeForward = true
  last_eq : SamePlane e.gridX e.gridY e.environmentlast (planeOf e e.currentEnvironmentFile)
  next_eq : ∀ nextfile, nextFile emode e = .ok nextfile →
    SamePlane e.gridX e.gridY e.environmentnext (planeAs e e.currentEnvironmentFile nextfile)
  exact : ExactArithmetic e
  current_eq : SamePlane e.gridX e.gridY e.environment
    (if e.EnvChangeCounter = e.environmentChangeRate then e.environmentlast
     else interpolatePlane e)

/-- An image of `w` by `h` pixels whose pixel `(i, j)` has the colour that `colour` gives,
and whose rescaling takes the pixel `(i, j)` of the result from `sample i j`. -/
def imageOf (w h : Int) (colour : Nat → Nat → Nat) (sample : Nat → Nat → Nat) : QImage :=
  { width := w, height := h, pixel := colour, scaled := fun _ _ => sample }

/-- A grid of two cells with `n` environment files of two pixels by one, the change rate `r`
and the cursor at the first file; the pixel `(i, j)` of the file `f` has the colour
`(40 f, 30 f, 20 f + i)`. The arithmetic is exact. Nothing has been loaded yet. -/
def keyframes (n : Nat) (r : Int) : EnvState :=
  { gridX := 2, gridY := 1, environmentChangeRate := r
    environmentFiles :=
      (List.range n).map fun f =>
        imageOf 2 1 (fun i _ => 65536 * (40 * f) + 256 * (30 * f) + (20 * f + i))
          (fun i _ => 65536 * (40 * f) + 256 * (30 * f) + (20 * f + i))
    currentEnvironmentFile := 0, EnvChangeCounter := 0, EnvChangeForward := false
    environment := fun _ _ _ => 0
    environmentlast := fun _ _ _ => 0
    environmentnext := fun _ _ _ => 0
    toFloat := fun q => q
    toDouble := fun q => q }

/-- Two keyframes of different sizes for a grid of two cells: the first has one black pixel
and is too small, the second has four pixels by one, two black ones and then two of the red
200, and is large enough; rescaled to two pixels by one it is a black pixel and a red one.
The change rate is `r`. -/
def mixedKeyframes (r : Int) : EnvState :=
  { keyframes 0 r with
    environmentFiles :=
      [imageOf 1 1 (fun _ _ => 0) (fun _ _ => 0),
       imageOf 4 1 (fun i _ => if i < 2 then 0 else 65536 * 200)
         (fun i _ => if i < 1 then 0 else 65536 * 200)] }

/-- The state of `keyframes` after lines 468-469 of setupRun and the load of the planes in
the mode `emode`. -/
def loadedKeyframes (emode : Int) (n : Nat) (r : Int) : EnvState :=
  resultOr (loadEnvironmentFromFile emode (setupEnvironment (keyframes n r)))
    (keyframes n r)

/-- The state of `mixedKeyframes` after lines 468-469 of setupRun and the load of the
planes in the loop mode. -/
def mixedLoaded (r : Int) : EnvState :=
  resultOr (loadEnvironmentFromFile 2 (setupEnvironment (mixedKeyframes r)))
    (mixedKeyframes r)

/-! ## The parallel tick (simmanager.cpp, lines 526-596 and 708-732) -/

/-- Line 714 of `iterate`: `positionadd`, the part of the nursery arrays of each worker.
`ProcessorCount` lies in 1..256 (lines 138-140). -/
def positionadd (ProcessorCount : Nat) : Nat :=
  (GRID_X * GRID_Y * SLOTS_PER_GRID_SQUARE * 2) / ProcessorCount

/-- Line 716 of `iterate`: `newgenomecounts_starts[i]`. -/
def newgenomecounts_starts (ProcessorCount i : Nat) : Nat := i * positionadd ProcessorCount

/-- Line 725 of `iterate`: the first column of the worker `i`. -/
def firstx (i gridX ProcessorCount : Nat) : Int := ((i * gridX / ProcessorCount : Nat) : Int)

/-- Line 725 of `iterate`: the last column of the worker `i`. -/
def lastx (i gridX ProcessorCount : Nat) : Int :=
  (((i + 1) * gridX / ProcessorCount : Nat) : Int) - 1

/-- The columns that the loop `for (n = firstx; n <= lastx; n++)` of line 535 visits, in
order. -/
def stripColumns (firstx lastx : Int) : List Nat :=
  (List.range (lastx + 1 - firstx).toNat).map fun (d : Nat) => (firstx + (d : Int)).toNat

/-- What `iterateParallel` reads. `maxused` and `totalfit` are the arrays as they stand at
line 561 (after the recalculation of lines 541-556 when it is on). `breeds n m c` is what
`crit[c].iterateParallel` returns in the cell `(n, m)`, `partner n m c` is the partner of
the entry `c` of `breedlist` (lines 580-581: `c` itself, or `Rand8() / divider`), and
`bred n m c` is whether the breeding of that entry yields a child. -/
structure TickInput where
  gridY : Nat
  maxused : Nat → Nat → Int
  totalfit : Nat → Nat → Nat
  breeds : Nat → Nat → Nat → Bool
  partner : Nat → Nat → Nat → Nat
  bred : Nat → Nat → Nat → Bool

/-- Modelled from the spec: `Critter::breedWithParallel` of critter.cpp, which is not among
the sources, as far as the nursery goes. The spec has a breeding that succeeds "emit one
nursery record", written "at thread-private offsets", the worker returning "its final
offset": the child goes to the index `newGenomeCountLocal` of the nursery arrays, and the
counter moves on by one. The pair is (indices written so far, `newGenomeCountLocal`). -/
def breedWithParallel (child : Bool) (st : List Nat × Nat) : List Nat × Nat :=
  if child then (st.1 ++ [st.2], st.2 + 1) else st

/-- Lines 576-589: the loop over `breedlist`, on the pair (indices of the nursery written so
far, `newGenomeCountLocal`): an entry whose partner is an entry of the list breeds. -/
def breedCell (breedlistentries : Nat) (partner : Nat → Nat) (bred : Nat → Bool)
    (st : List Nat × Nat) : List Nat × Nat :=
  (List.range breedlistentries).foldl
    (fun acc c => if partner c < breedlistentries then breedWithParallel (bred c) acc else acc)
    st

/-- Lines 561-592 for the cell `(n, m)`. -/
def tickCell (t : TickInput) (n m : Nat) (st : List Nat × Nat) : List Nat × Nat :=
  if t.totalfit n m = 0 then st
  else
    let maxv := t.maxused n m
    let breedlistentries := ((List.range (maxv + 1).toNat).filter (t.breeds n m)).length
    breedCell breedlistentries (t.partner n m) (t.bred n m) st

/-- `SimManager::iterateParallel`, as far as the nursery goes: the indices of the nursery
arrays that the worker writes, in order, and the `newGenomeCountLocal` that it returns. -/
def iterateParallel (t : TickInput) (firstx lastx : Int) (newGenomeCountLocal : Nat) :
    List Nat × Nat :=
  (stripColumns firstx lastx).foldl
    (fun st n => (List.range t.gridY).foldl (fun st m => tickCell t n m st) st)
    ([], newGenomeCountLocal)

/-- The worker `i` of `iterate` (lines 723-726). -/
def worker (t : TickInput) (gridX ProcessorCount i : Nat) : List Nat × Nat :=
  iterateParallel t (firstx i gridX ProcessorCount) (lastx i gridX ProcessorCount)
    (newgenomecounts_starts ProcessorCount i)

/-- A tick in which every slot of every cell breeds with itself and yields a child. -/
def fullTick (gridY slotsPerSquare : Nat) : TickInput :=
  { gridY := gridY, maxused := fun _ _ => (slotsPerSquare : Int) - 1, totalfit := fun _ _ => 1
    breeds := fun _ _ _ => true, partner := fun _ _ c => c, bred := fun _ _ _ => true }

/-! ## One cell of `iterateParallel` (simmanager.cpp, lines 537-590)

`Critter::recalculateFitness` and `Critter::breedWithParallel` belong to critter.cpp, which
is not among the sources: what they return and what they do to the critters is a parameter
of the definitions below. Signed `int` arithmetic is taken without overflow. -/

/-- The table `randoms` of pre-rolled bytes and its cursor: `Rand8` (lines 394-397) returns
`randoms[nextrandom++]`, the cursor being a `quint16`. -/
def Rand8 (randoms : Nat → Nat) (nextrandom : Nat) : Nat × Nat :=
  (randoms nextrandom % 256, (nextrandom + 1) % 65536)

/-- What the recalculation of lines 541-556 reads and writes of one cell `(n, m)`: the slots
`crit`, `totalfit[n][m]`, `maxused[n][m]` and `*killCountLocal`. -/
structure RecalcCell where
  crit : Nat → Critter
  totalfit : Nat
  maxused : Int
  killCountLocal : Int

/-- The locals of the loop of lines 545-552, with the slots and `totalfit[n][m]`. -/
structure RecalcLoop where
  crit : Nat → Critter
  totalfit : Nat
  maxalive : Int
  deathcount : Int

/-- Lines 546-551: the body of the loop for the slot `c`. `recalc cr` is what
`cr.recalculateFitness(environment[n][m])` returns, with the critter it leaves. -/
def recalcSlot (recalc : Critter → Nat × Critter) (l : RecalcLoop) (c : Nat) : RecalcLoop :=
  if (l.crit c).age ≠ 0 then
    let f := (recalc (l.crit c)).1
    { crit := fun k => if k = c then (recalc (l.crit c)).2 else l.crit k
      totalfit := l.totalfit + f
      maxalive := if f > 0 then (c : Int) else l.maxalive
      deathcount := if f > 0 then l.deathcount else l.deathcount + 1 }
  else l

/-- Lines 541-556 with `recalculateFitness` set: `totalfit[n][m] = 0; maxalive = 0;
deathcount = 0;`, the loop over `c = 0 .. maxv`, and the three assignments after it. -/
def recalculateStep (recalc : Critter → Nat × Critter) (s : RecalcCell) : RecalcCell :=
  let l := (List.range (s.maxused + 1).toNat).foldl (recalcSlot recalc)
    { crit := s.crit, totalfit := 0, maxalive := 0, deathcount := 0 }
  { crit := l.crit, totalfit := l.totalfit, maxused := l.maxalive,
    killCountLocal := s.killCountLocal + l.deathcount }

/-- The slots `0 .. slotsPerSquare - 1` of a cell that are alive. -/
def aliveSlots (slotsPerSquare : Nat) (crit : Nat → Critter) : List Nat :=
  (List.range slotsPerSquare).filter fun c => decide ((crit c).age ≠ 0)

/-- The largest member of a list of slot indices, or -1 when it has none. -/
def largestOr (xs : List Nat) : Int :=
  xs.foldl (fun (acc : Int) (c : Nat) => max acc (c : Int)) (-1)

/-- What the breeding loop of lines 573-590 reads and writes of one cell: the slots, the
counter `breedfails[n][m]`, the nursery cursor `newGenomeCountLocal`, the cursor of `Rand8`;
`invoked` lists the calls of `breedWithParallel` made so far, each as the slot of the
breeder and the slot of the partner. -/
structure BreedCell where
  crit : Nat → Critter
  breedfails : Int
  newGenomeCountLocal : Nat
  nextrandom : Nat
  invoked : List (Nat × Nat)

/-- What a call `crit[a].breedWithParallel(n, m, &crit[b], &newGenomeCountLocal)` returns
and leaves of the slots, of the nursery cursor and of the cursor of `Rand8`. -/
abbrev BreedCall := Nat → Nat → (Nat → Critter) × Nat × Nat → Bool × (Nat → Critter) × Nat × Nat

/-- Line 574: `quint8 divider = 255 / breedlistentries`. -/
def divider (breedlistentries : Nat) : Nat := toUInt8 ((255 / breedlistentries : Nat) : Int)

/-- Lines 577-581: the partner of the entry `c` of `breedlist`, with the state after the
draw. The division by a `divider` that is 0 is a fault. -/
def choosePartner (asexual : Bool) (randoms : Nat → Nat) (breedlistentries c : Nat)
    (s : BreedCell) : Except Fault (Nat × BreedCell) :=
  if asexual then .ok (c, s)
  else if divider breedlistentries = 0 then .error .divideByZero
  else .ok ((Rand8 randoms s.nextrandom).1 / divider breedlistentries,
            { s with nextrandom := (Rand8 randoms s.nextrandom).2 })

/-- Lines 583-588: what is done with the entry `c` once its partner is known. -/
def breedOrRefund (breedCost : Int) (call : BreedCall) (breedlist : List Nat) (c partner : Nat)
    (s : BreedCell) : BreedCell :=
  if partner < breedlist.length then
    let r := call (breedlist.getD c 0) (breedlist.getD partner 0)
      (s.crit, s.newGenomeCountLocal, s.nextrandom)
    { crit := r.2.1
      breedfails := if r.1 then s.breedfails + 1 else s.breedfails
      newGenomeCountLocal := r.2.2.1
      nextrandom := r.2.2.2
      invoked := s.invoked ++ [(breedlist.getD c 0, breedlist.getD partner 0)] }
  else
    { s with crit := fun k =>
        if k = breedlist.getD c 0 then
          { s.crit k with energy := (s.crit k).energy + breedCost }
        else s.crit k }

/-- Lines 577-589: the body of the breeding loop for the entry `c` of `breedlist`. -/
def breedEntry (asexual : Bool) (breedCost : Int) (randoms : Nat → Nat) (call : BreedCall)
    (breedlist : List Nat) (c : Nat) (s : BreedCell) : Except Fault BreedCell :=
  match choosePartner asexual randoms breedlist.length c s with
  | .error e => .error e
  | .ok (partner, s') => .ok (breedOrRefund breedCost call breedlist c partner s')

/-- Lines 573-590: the breeding of one cell, `breedlist` holding the slots that
`crit[c].iterateParallel` has reported, in order. -/
def breedLoop (asexual : Bool) (breedCost : Int) (randoms : Nat → Nat) (call : BreedCall)
    (breedlist : List Nat) (s : BreedCell) : Except Fault BreedCell :=
  if breedlist.length > 0 then
    forRange (breedEntry asexual breedCost randoms call breedlist) 0 breedlist.length s
  else .ok s

/-- What `crit[c].recalculateFitness(environment[n][m])` returns for the slot `c` of the
cell as it stands on entry. -/
def recomputed (recalc : Critter → Nat × Critter) (crit : Nat → Critter) (c : Nat) : Nat :=
  (recalc (crit c)).1

/-- The slots that are alive on entry and whose recomputed fitness is positive. -/
def survivors (recalc : Critter → Nat × Critter) (slotsPerSquare : Nat) (crit : Nat → Critter) :
    List Nat :=
  (aliveSlots slotsPerSquare crit).filter fun c => decide (0 < recomputed recalc crit c)

/-- The slots that are alive on entry and whose recomputed fitness is 0. -/
def casualties (recalc : Critter → Nat × Critter) (slotsPerSquare : Nat) (crit : Nat → Critter) :
    List Nat :=
  (aliveSlots slotsPerSquare crit).filter fun c => decide (recomputed recalc crit c = 0)

/-- A critter that is alive, with the genome `g` and the fitness `f`. -/
def critterOf (g f : Nat) : Critter :=
  { genome := g, age := 15, energy := 0, fitness := f, speciesID := 1 }

/-- A recalculation under which no critter is fit any more: it returns 0 and leaves the
critter dead. -/
def starve (cr : Critter) : Nat × Critter := (0, { cr with fitness := 0, age := 0 })

/-- A recalculation that leaves every critter as fit as it is. -/
def sustain (cr : Critter) : Nat × Critter := (cr.fitness, cr)

/-- A cell whose slot 0 alone is alive, with the aggregates that go with it. -/
def loneCell : RecalcCell :=
  { crit := fun c => if c = 0 then critterOf 5 3 else deadCritter
    totalfit := 3, maxused := 0, killCountLocal := 0 }

/-- A cell of three slots, the slots 0 and 2 alive. -/
def pairCell : RecalcCell :=
  { crit := fun c => if c = 0 ∨ c = 2 then critterOf 5 3 else deadCritter
    totalfit := 6, maxused := 2, killCountLocal := 0 }

/-- A breeding under which every call succeeds and changes nothing. -/
def idleCall : BreedCall := fun _ _ st => (false, st)

/-- The cell of a breeding loop: every slot alive, no breeding done yet. -/
def breedStart : BreedCell :=
  { crit := fun _ => critterOf 5 3, breedfails := 0, newGenomeCountLocal := 0,
    nextrandom := 0, invoked := [] }

/-! ## Settlement (simmanager.cpp, lines 598-685)

`Critter::initialise` belongs to critter.cpp, which is not among the sources: the critter
it leaves in a slot is a parameter of the definitions below. The per-cell mutex serialises
the writers of a cell, so one offspring is settled at a time. The displacement tables hold
values between -240 and 240 (line 226) and the origins are columns and rows of the grid,
so the `int` arithmetic of lines 640-651 is taken without overflow. -/

/-- What a call `crit.initialise(genome, environment[x][y], x, y, z, species)` leaves of the
critter: the arguments are the genome, the three channels of the cell, `x`, `y`, the slot
`z`, the species id, and the critter as it stood. -/
abbrev Init := Nat → Nat × Nat × Nat → Nat → Nat → Nat → Nat → Critter → Critter

/-- The three channels `environment[x][y]` of a cell. -/
def cellEnvironment (environment : Nat → Nat → Nat → Nat) (x y : Nat) : Nat × Nat × Nat :=
  (environment x y 0, environment x y 1, environment x y 2)

/-- The entry `n` of the nursery arrays `newgenomes`, `newgenomeX`, `newgenomeY`,
`newgenomeDisp` (an `int`) and `newgenomespecies` (lines 92-96). -/
structure NurseryRecord where
  genome : Nat
  X : Nat
  Y : Nat
  Disp : Int
  species : Nat

/-- What `settle_parallel` reads and does not write: the settings, the environment, the
displacement tables, the table of `Rand8`, and what `initialise` does. -/
structure SettleInput where
  gridX : Nat
  gridY : Nat
  slotsPerSquare : Nat
  nonspatial : Bool
  toroidal : Bool
  environment : Nat → Nat → Nat → Nat
  xdisp : Nat → Nat → Int
  ydisp : Nat → Nat → Int
  randoms : Nat → Nat
  initialise : Init

/-- What `settle_parallel` writes: the critters, the cell aggregates `totalfit` and
`maxused`, the counters `settles` and `settlefails` of the cells, the three counters of the
worker, and the cursor of `Rand8`. -/
structure SettleState where
  critters : Nat → Nat → Nat → Critter
  totalfit : Nat → Nat → Nat
  maxused : Nat → Nat → Int
  settles : Nat → Nat → Int
  settlefails : Nat → Nat → Int
  trycount_local : Int
  settlecount_local : Int
  birthcounts_local : Int
  nextrandom : Nat

/-- The array `a` with the entry of the cell `(x, y)` replaced. -/
def setCell {α : Type} (a : Nat → Nat → α) (x y : Nat) (v : α) : Nat → Nat → α :=
  fun i j => if i = x ∧ j = y then v else a i j

/-- The critters with the slot `(x, y, z)` replaced. -/
def setSlot (critters : Nat → Nat → Nat → Critter) (x y z : Nat) (cr : Critter) :
    Nat → Nat → Nat → Critter :=
  fun i j k => if i = x ∧ j = y ∧ k = z then cr else critters i j k

/-- The scan of lines 663-665: the first slot `m < slotsPerSquare` with `age == 0`. -/
def firstEmpty (slotsPerSquare : Nat) (crit : Nat → Critter) : Option Nat :=
  (List.range slotsPerSquare).find? fun m => decide ((crit m).age = 0)

/-- Line 668 (and 618): the critter that `initialise` leaves in the slot `m` of the cell
`(x, y)` for the offspring `r`. -/
def newcomer (e : SettleInput) (r : NurseryRecord) (x y m : Nat) (s : SettleState) : Critter :=
  e.initialise r.genome (cellEnvironment e.environment x y) x y m r.species (s.critters x y m)

/-- Lines 659-680 (and 609-630): the section under the mutex of the cell `(x, y)`, for the
offspring `r`: count the try, scan for the first empty slot, initialise the critter there,
and count it as settled when it is alive afterwards, as failed when it is not. Nothing but
the try is counted when the cell has no empty slot. -/
def place (e : SettleInput) (r : NurseryRecord) (x y : Nat) (s : SettleState) : SettleState :=
  let s1 := { s with trycount_local := s.trycount_local + 1 }
  match firstEmpty e.slotsPerSquare (s.critters x y) with
  | none => s1
  | some m =>
    if (newcomer e r x y m s).age ≠ 0 then
      { s1 with
        critters := setSlot s.critters x y m (newcomer e r x y m s)
        totalfit := setCell s.totalfit x y (s.totalfit x y + (newcomer e r x y m s).fitness)
        birthcounts_local := s.birthcounts_local + 1
        maxused := if (m : Int) > s.maxused x y then setCell s.maxused x y (m : Int)
                   else s.maxused
        settles := setCell s.settles x y (s.settles x y + 1)
        settlecount_local := s.settlecount_local + 1 }
    else
      { s1 with
        critters := setSlot s.critters x y m (newcomer e r x y m s)
        settlefails := setCell s.settlefails x y (s.settlefails x y + 1) }

/-- Lines 637-643: the position `(xPosition, yPosition)` of the offspring `r` in the spatial
mode before the edges of the grid are looked at, for a `newgenomeDisp[n]` other than 0: the
origin plus the displacement over the dispersal index, the divisions truncating. -/
def rawTarget (e : SettleInput) (r : NurseryRecord) (nextrandom : Nat) : Int × Int :=
  let t1 := Rand8 e.randoms nextrandom
  let t2 := Rand8 e.randoms t1.2
  (Int.tdiv (e.xdisp t1.1 t2.1) r.Disp + (r.X : Int),
   Int.tdiv (e.ydisp t1.1 t2.1) r.Disp + (r.Y : Int))

/-- Lines 637-657: the target of the offspring `r` in the spatial mode, with the cursor of
`Rand8` after the two draws; `none` stands for the `continue` of lines 653-656. A
`newgenomeDisp[n]` of 0 is a fault. -/
def spatialTarget (e : SettleInput) (r : NurseryRecord) (nextrandom : Nat) :
    Except Fault (Option (Int × Int) × Nat) :=
  let cursor := (Rand8 e.randoms (Rand8 e.randoms nextrandom).2).2
  if r.Disp = 0 then .error .divideByZero
  else
    let xPosition := (rawTarget e r nextrandom).1
    let yPosition := (rawTarget e r nextrandom).2
    if e.toroidal then
      let x1 := if xPosition < 0 then xPosition + (e.gridX : Int) else xPosition
      let x2 := if x1 ≥ (e.gridX : Int) then x1 - (e.gridX : Int) else x1
      let y1 := if yPosition < 0 then yPosition + (e.gridY : Int) else yPosition
      let y2 := if y1 ≥ (e.gridY : Int) then y1 - (e.gridY : Int) else y1
      .ok (some (x2, y2), cursor)
    else if xPosition < 0 then .ok (none, cursor)
    else if xPosition ≥ (e.gridX : Int) then .ok (none, cursor)
    else if yPosition < 0 then .ok (none, cursor)
    else if yPosition ≥ (e.gridY : Int) then .ok (none, cursor)
    else .ok (some (xPosition, yPosition), cursor)

/-- Lines 604-607: the target of an offspring in the non-spatial mode, `draw` being the two
values of `Rand32()`. -/
def randomTarget (e : SettleInput) (draw : Nat × Nat) : Int × Int :=
  ((((draw.1 % 2 ^ 32) * e.gridX % 2 ^ 64 / 2 ^ 32 : Nat) : Int),
   (((draw.2 % 2 ^ 32) * e.gridY % 2 ^ 64 / 2 ^ 32 : Nat) : Int))

/-- The access to the arrays at the cell `(x, y)`: a fault outside the arrays. -/
def placeAt (e : SettleInput) (r : NurseryRecord) (x y : Int) (s : SettleState) :
    Except Fault SettleState :=
  if x < 0 ∨ (GRID_X : Int) ≤ x ∨ y < 0 ∨ (GRID_Y : Int) ≤ y then .error .indexOutOfRange
  else .ok (place e r x.toNat y.toNat s)

/-- Lines 604-607 and 637-657: the target of the offspring `r` in either mode, with the
cursor of `Rand8` afterwards; `draw` holds the two values of `Rand32()` that the non-spatial
mode reads. -/
def targetOf (e : SettleInput) (r : NurseryRecord) (draw : Nat × Nat) (nextrandom : Nat) :
    Except Fault (Option (Int × Int) × Nat) :=
  if e.nonspatial then .ok (some (randomTarget e draw), nextrandom)
  else spatialTarget e r nextrandom

/-- The body of the loops of lines 603-631 and 634-682: the settling of the one offspring
`r`. -/
def settleOne (e : SettleInput) (r : NurseryRecord) (draw : Nat × Nat) (s : SettleState) :
    Except Fault SettleState :=
  match targetOf e r draw s.nextrandom with
  | .error f => .error f
  | .ok (none, cursor) => .ok { s with nextrandom := cursor }
  | .ok (some (x, y), cursor) => placeAt e r x y { s with nextrandom := cursor }

/-- The function `settle_parallel` (lines 598-685) for the nursery entries
`newgenomecounts_start .. newgenomecounts_end - 1`. -/
def settle_parallel (e : SettleInput) (nursery : Nat → NurseryRecord) (draws : Nat → Nat × Nat)
    (newgenomecounts_start newgenomecounts_end : Nat) (s : SettleState) :
    Except Fault SettleState :=
  forRange (fun n st => settleOne e (nursery n) (draws n) st) newgenomecounts_start
    (newgenomecounts_end - newgenomecounts_start) s

/-- The sum of the fitness over the alive slots of a cell. -/
def aliveFitness (slotsPerSquare : Nat) (crit : Nat → Critter) : Nat :=
  ((aliveSlots slotsPerSquare crit).map fun c => (crit c).fitness).sum

/-- The cell-aggregate invariant: in every cell `totalfit` is the sum of the fitness over
the alive slots and `maxused` is the largest alive slot, or -1 when the cell has none. -/
def CellAggregates (slotsPerSquare : Nat) (critters : Nat → Nat → Nat → Critter)
    (totalfit : Nat → Nat → Nat) (maxused : Nat → Nat → Int) : Prop :=
  ∀ x y, totalfit x y = aliveFitness slotsPerSquare (critters x y) ∧
    maxused x y = largestOr (aliveSlots slotsPerSquare (critters x y))

/-- An `initialise` for the examples: a genome that is even is viable, with the fitness 2;
an odd one is not. -/
def sampleInit : Init := fun genome _ _ _ _ species cr =>
  if genome % 2 = 0 then
    { genome := genome, age := 15, energy := 0, fitness := 2, speciesID := species }
  else { cr with genome := genome, fitness := 0, age := 0 }

/-- A bounded spatial grid of 4 by 4 cells with 3 slots each, whose displacement tables
send every offspring 3 columns to the left. -/
def sampleInput : SettleInput :=
  { gridX := 4, gridY := 4, slotsPerSquare := 3, nonspatial := false, toroidal := false
    environment := fun _ _ _ => 0
    xdisp := fun _ _ => -3, ydisp := fun _ _ => 0
    randoms := fun _ => 0, initialise := sampleInit }

/-- A grid whose cell `(0, 0)` holds one critter in its slot 0, with its aggregates. -/
def sampleState : SettleState :=
  { critters := fun x y z => if x = 0 ∧ y = 0 ∧ z = 0 then critterOf 5 3 else deadCritter
    totalfit := fun x y => if x = 0 ∧ y = 0 then 3 else 0
    maxused := fun x y => if x = 0 ∧ y = 0 then 0 else -1
    settles := fun _ _ => 0, settlefails := fun _ _ => 0
    trycount_local := 0, settlecount_local := 0, birthcounts_local := 0, nextrandom := 0 }

/-- An offspring with the genome `g` launched from the cell `(X, 0)` with the dispersal
index 1. -/
def offspringAt (g X : Nat) : NurseryRecord :=
  { genome := g, X := X, Y := 0, Disp := 1, species := 2 }

/-! ## `SimManager::setupRun` (simmanager.cpp, lines 399-524) -/

/-- The globals of simmanager.cpp that `setupRun` and `iterate` read or write. `sim` holds
those that the identifier reads as well: the grid sizes, the critters, `totalfit`, the plane
`environment`, the log, `nextspeciesid`, `generation`, `speciesMode` and `warning_count`.
`env` holds the globals of the environment; the plane `environment` that the critters are
fitted to is the one of `sim`. -/
structure Manager where
  sim : Sim
  env : EnvState
  maxused : Nat → Nat → Int
  breedattempts : Nat → Nat → Int
  breedfails : Nat → Nat → Int
  settles : Nat → Nat → Int
  settlefails : Nat → Nat → Int
  aliveCount : Int
  reseedKnown : Bool
  reseedGenome : Nat
  nextrandom : Nat

/-- Lines 406-421: every slot of the run-time grid is killed, the aggregates and counters of
every cell of the run-time grid are reset, and `nextspeciesid` is 1. -/
def killAll (m : Manager) : Manager :=
  { m with
    sim := { m.sim with
      critters := fun n k c =>
        if n < m.sim.gridX ∧ k < m.sim.gridY ∧ c < m.sim.slotsPerSquare then
          { m.sim.critters n k c with age := 0, fitness := 0 }
        else m.sim.critters n k c
      totalFitness := fun n k =>
        if n < m.sim.gridX ∧ k < m.sim.gridY then 0 else m.sim.totalFitness n k
      nextSpeciesID := 1 }
    maxused := fun n k => if n < m.sim.gridX ∧ k < m.sim.gridY then -1 else m.maxused n k
    breedattempts := fun n k =>
      if n < m.sim.gridX ∧ k < m.sim.gridY then 0 else m.breedattempts n k
    breedfails := fun n k => if n < m.sim.gridX ∧ k < m.sim.gridY then 0 else m.breedfails n k
    settles := fun n k => if n < m.sim.gridX ∧ k < m.sim.gridY then 0 else m.settles n k
    settlefails := fun n k =>
      if n < m.sim.gridX ∧ k < m.sim.gridY then 0 else m.settlefails n k }

/-- The call `critters[n][k][c].initialise(genome, environment[n][k], n, k, c,
nextspeciesid)` of lines 427, 443 and 455. -/
def initialiseSlot (init : Init) (genome n k c : Nat) (m : Manager) : Manager :=
  { m with sim := { m.sim with
      critters := setSlot m.sim.critters n k c
        (init genome (cellEnvironment m.sim.environment n k) n k c m.sim.nextSpeciesID
          (m.sim.critters n k c)) } }

/-- Line 443: `while (critters[n][k][0].fitness < 1) critters[n][k][0].initialise(Rand64(),
...)`. `genomes j` is the value of the call `j` of `Rand64()`, `drawn` the number of calls
made so far; `fuel` bounds the number of rounds. -/
def founderLoop (init : Init) (genomes : Nat → Nat) (n k : Nat) :
    Nat → Nat → Manager → Except Fault Manager
  | 0, _, m => if (m.sim.critters n k 0).fitness < 1 then .error .noFounder else .ok m
  | fuel + 1, drawn, m =>
    if (m.sim.critters n k 0).fitness < 1 then
      founderLoop init genomes n k fuel (drawn + 1) (initialiseSlot init (genomes drawn) n k 0 m)
    else .ok m

/-- Lines 455-463: the body of the loop that fills the seeded cell, for the slot `c`;
`generation` is the local of line 451, the genome of the founder. -/
def fillSlot (init : Init) (randoms : Nat → Nat) (generation n k : Nat) (m : Manager)
    (c : Nat) : Manager :=
  let m1 := initialiseSlot init generation n k c m
  if (m1.sim.critters n k c).age > 0 then
    { m1 with
      sim := { m1.sim with
        critters := setSlot m1.sim.critters n k c
          { m1.sim.critters n k c with
            age := (m1.sim.critters n k c).age / ((Rand8 randoms m.nextrandom).1 / 10 + 1)
                     + 10 }
        totalFitness := setCell m1.sim.totalFitness n k
          (m1.sim.totalFitness n k + (m1.sim.critters n k c).fitness) }
      nextrandom := (Rand8 randoms m.nextrandom).2
      aliveCount := m1.aliveCount + 1
      maxused := setCell m1.maxused n k (c : Int) }
  else m1

/-- Lines 448-523: what `setupRun` does once the founder is in the slot 0 of the cell
`(n, k)`: `totalfit` of the cell is the fitness of the founder, `aliveCount` is 1, the cell
is filled with the genome of the founder, the countdown of the environment is reset, and
the log, the species list, `nextspeciesid` and `warning_count` are set up (`setupLog`; the
local `generation` is 0 by then, line 466). -/
def fillAndLog (init : Init) (randoms : Nat → Nat) (n k : Nat) (m : Manager) : Manager :=
  let m1 : Manager :=
    { m with
      sim := { m.sim with
        totalFitness := setCell m.sim.totalFitness n k (m.sim.critters n k 0).fitness }
      aliveCount := 1 }
  let generation := (m.sim.critters n k 0).genome
  let m2 := (List.range' 1 (m.sim.slotsPerSquare - 1)).foldl
    (fillSlot init randoms generation n k) m1
  { m2 with
    sim := setupLog m2.sim n k m2.aliveCount.toNat
    env := setupEnvironment m2.env }

/-- Lines 443-523: the branch of `setupRun` without a known genome, after the reset. -/
def seedRandom (init : Init) (randoms genomes : Nat → Nat) (fuel : Nat) (m : Manager) :
    Except Fault Manager :=
  match founderLoop init genomes (m.sim.gridX / 2) (m.sim.gridY / 2) fuel 0 m with
  | .error f => .error f
  | .ok m1 => .ok (fillAndLog init randoms (m.sim.gridX / 2) (m.sim.gridY / 2) m1)

/-- The function `setupRun`. With `reseedKnown` set, the founder is initialised with
`reseedGenome`; when that leaves the fitness 0, `reseedKnown` is cleared and `setupRun` is
called again (lines 432-434), which then takes the other branch. -/
def setupRun (init : Init) (randoms genomes : Nat → Nat) (fuel : Nat) (m : Manager) :
    Except Fault Manager :=
  let m1 := killAll m
  if m1.reseedKnown then
    let m2 := initialiseSlot init m1.reseedGenome (m1.sim.gridX / 2) (m1.sim.gridY / 2) 0 m1
    if (m2.sim.critters (m1.sim.gridX / 2) (m1.sim.gridY / 2) 0).fitness = 0 then
      seedRandom init randoms genomes fuel (killAll { m2 with reseedKnown := false })
    else .ok (fillAndLog init randoms (m1.sim.gridX / 2) (m1.sim.gridY / 2) m2)
  else seedRandom init randoms genomes fuel m1

/-- Modelled from the spec: `Critter::initialise` of critter.cpp, which is not among the
sources. The spec has "compute fitness; if below viability (zero), set age=0 and return.
Otherwise set age=`start_age`, energy=initial budget derived from fitness, record
species_id", and a critter holds its genome. The fitness function and the energy budget,
which the spec leaves to tables that are drawn at random, are the parameters `fitnessOf`
and `energyOf`; `startAge` is the setting of line 46. -/
def initialise (fitnessOf : Nat → Nat × Nat × Nat → Nat) (startAge : Nat)
    (energyOf : Nat → Int) : Init :=
  fun genome env _ _ _ species cr =>
    if fitnessOf genome env = 0 then { cr with fitness := 0, age := 0 }
    else
      { genome := genome, age := startAge, energy := energyOf (fitnessOf genome env),
        fitness := fitnessOf genome env, speciesID := species }

/-- The genome `g` is the founder that `setupRun` seeds the state `m` with: the known
genome when `reseedKnown` is set and that genome is viable in the centre cell, and else the
first of the drawn genomes that is viable there, which comes within `fuel` draws. -/
def FounderIs (fitnessOf : Nat → Nat × Nat × Nat → Nat) (genomes : Nat → Nat) (fuel : Nat)
    (m : Manager) (g : Nat) : Prop :=
  (m.reseedKnown = true ∧
    0 < fitnessOf m.reseedGenome
      (cellEnvironment m.sim.environment (m.sim.gridX / 2) (m.sim.gridY / 2)) ∧
    g = m.reseedGenome) ∨
  ((m.reseedKnown = false ∨
      fitnessOf m.reseedGenome
        (cellEnvironment m.sim.environment (m.sim.gridX / 2) (m.sim.gridY / 2)) = 0) ∧
    ∃ d, d < fuel ∧
      (∀ j, j < d → fitnessOf (genomes j)
        (cellEnvironment m.sim.environment (m.sim.gridX / 2) (m.sim.gridY / 2)) = 0) ∧
      0 < fitnessOf (genomes d)
        (cellEnvironment m.sim.environment (m.sim.gridX / 2) (m.sim.gridY / 2)) ∧
      g = genomes d)

/-- A fitness function for the examples: a genome that is even has the fitness 2 everywhere,
an odd one is not viable. -/
def evenFit (genome : Nat) (_ : Nat × Nat × Nat) : Nat := if genome % 2 = 0 then 2 else 0

/-- A grid of 2 by 2 cells with the given number of slots per cell, empty, before
`setupRun`, to be seeded with the known genome 6. -/
def blankManager (slotsPerSquare : Nat) : Manager :=
  { sim :=
      { gridX := 2, gridY := 2, slotsPerSquare := slotsPerSquare
        critters := fun _ _ _ => deadCritter
        totalFitness := fun _ _ => 0
        environment := fun _ _ _ => 0
        oldSpeciesList := [], logSpecies := [], logSpeciesByID := fun _ => none
        nextSpeciesID := 0, iteration := 0, speciesMode := 1, maxDifference := 2
        warningCount := 0 }
    env :=
      { gridX := 2, gridY := 2, environmentChangeRate := 0, environmentFiles := []
        currentEnvironmentFile := 0, EnvChangeCounter := 0, EnvChangeForward := true
        environment := fun _ _ _ => 0, environmentlast := fun _ _ _ => 0
        environmentnext := fun _ _ _ => 0
        toFloat := fun q => q, toDouble := fun q => q }
    maxused := fun _ _ => -1
    breedattempts := fun _ _ => 0, breedfails := fun _ _ => 0
    settles := fun _ _ => 0, settlefails := fun _ _ => 0
    aliveCount := 0, reseedKnown := true, reseedGenome := 6, nextrandom := 0 }

/-- The state after `setupRun` on the example grid, with the modelled `initialise`, the
fitness `evenFit` and the start age 15; the state before it when `setupRun` faults. -/
def seeded (slotsPerSquare : Nat) : Manager :=
  resultOr (setupRun (initialise evenFit 15 (fun _ => 0)) (fun _ => 0) (fun _ => 0) 1
    (blankManager slotsPerSquare)) (blankManager slotsPerSquare)

/-- The state `m1` is a reset of the state `m` (lines 406-421): the sizes of the grid and
the environment are those of `m`, `nextspeciesid` is 1, and in every cell of the run-time
grid the slots are dead with the fitness 0, `totalfit` is 0 and `maxused` is -1. -/
structure IsReset (m m1 : Manager) : Prop where
  gridX : m1.sim.gridX = m.sim.gridX
  gridY : m1.sim.gridY = m.sim.gridY
  slots : m1.sim.slotsPerSquare = m.sim.slotsPerSquare
  environment : m1.sim.environment = m.sim.environment
  nextid : m1.sim.nextSpeciesID = 1
  dead : ∀ x y c, x < m.sim.gridX → y < m.sim.gridY → c < m.sim.slotsPerSquare →
    (m1.sim.critters x y c).age = 0 ∧ (m1.sim.critters x y c).fitness = 0
  totalfit : ∀ x y, x < m.sim.gridX → y < m.sim.gridY → m1.sim.totalFitness x y = 0
  maxused : ∀ x y, x < m.sim.gridX → y < m.sim.gridY → m1.maxused x y = -1

/-- What `setupRun` leaves of the state `m` when the founder has the genome `g` and the
fitness `f`: the facts about the critters, `aliveCount`, the aggregates of the cells, and
the log. The seeded cell is `(gridX / 2, gridY / 2)`. -/
structure IsSeeded (m m' : Manager) (g f : Nat) : Prop where
  gridX : m'.sim.gridX = m.sim.gridX
  gridY : m'.sim.gridY = m.sim.gridY
  slots : m'.sim.slotsPerSquare = m.sim.slotsPerSquare
  centre : ∀ c, c < m.sim.slotsPerSquare →
    (m'.sim.critters (m.sim.gridX / 2) (m.sim.gridY / 2) c).age > 0 ∧
    (m'.sim.critters (m.sim.gridX / 2) (m.sim.gridY / 2) c).genome = g ∧
    (m'.sim.critters (m.sim.gridX / 2) (m.sim.gridY / 2) c).speciesID = 1 ∧
    (m'.sim.critters (m.sim.gridX / 2) (m.sim.gridY / 2) c).fitness = f
  others : ∀ x y c, x < m.sim.gridX → y < m.sim.gridY → c < m.sim.slotsPerSquare →
    ¬ (x = m.sim.gridX / 2 ∧ y = m.sim.gridY / 2) → (m'.sim.critters x y c).age = 0
  aliveCount : m'.aliveCount = (m.sim.slotsPerSquare : Int)
  totalfit_centre :
    m'.sim.totalFitness (m.sim.gridX / 2) (m.sim.gridY / 2) = m.sim.slotsPerSquare * f
  totalfit_others : ∀ x y, x < m.sim.gridX → y < m.sim.gridY →
    ¬ (x = m.sim.gridX / 2 ∧ y = m.sim.gridY / 2) → m'.sim.totalFitness x y = 0
  maxused_centre :
    m'.maxused (m.sim.gridX / 2) (m.sim.gridY / 2)
      = if m.sim.slotsPerSquare = 1 then -1 else (m.sim.slotsPerSquare : Int) - 1
  maxused_others : ∀ x y, x < m.sim.gridX → y < m.sim.gridY →
    ¬ (x = m.sim.gridX / 2 ∧ y = m.sim.gridY / 2) → m'.maxused x y = -1
  log : ∃ s, m'.sim
    = setupLog s (m.sim.gridX / 2) (m.sim.gridY / 2) m.sim.slotsPerSquare

/-- What the loop of lines 454-464 has done to the state `b` once it has filled the slots
`1 .. j` of the cell `(n, k)` with the genome `g` of the fitness `f`. -/
structure IsFilled (b m' : Manager) (n k j g f : Nat) : Prop where
  gridX : m'.sim.gridX = b.sim.gridX
  gridY : m'.sim.gridY = b.sim.gridY
  slots : m'.sim.slotsPerSquare = b.sim.slotsPerSquare
  environment : m'.sim.environment = b.sim.environment
  nextid : m'.sim.nextSpeciesID = b.sim.nextSpeciesID
  filled : ∀ c, 1 ≤ c → c ≤ j →
    (m'.sim.critters n k c).age > 0 ∧ (m'.sim.critters n k c).genome = g ∧
    (m'.sim.critters n k c).speciesID = b.sim.nextSpeciesID ∧
    (m'.sim.critters n k c).fitness = f
  rest : ∀ x y c, ¬ (x = n ∧ y = k ∧ 1 ≤ c ∧ c ≤ j) →
    m'.sim.critters x y c = b.sim.critters x y c
  aliveCount : m'.aliveCount = b.aliveCount + (j : Int)
  totalfit : m'.sim.totalFitness n k = b.sim.totalFitness n k + j * f
  totalfit_rest : ∀ x y, ¬ (x = n ∧ y = k) → m'.sim.totalFitness x y = b.sim.totalFitness x y
  maxused : m'.maxused n k = if j = 0 then b.maxused n k else (j : Int)
  maxused_rest : ∀ x y, ¬ (x = n ∧ y = k) → m'.maxused x y = b.maxused x y

/-! ## `SimManager::iterate` (simmanager.cpp, lines 688-777) -/

/-- Lines 708-776 of `iterate`: the parallel tick and the settling. What they leave of the
critters, the cell aggregates, the counters of the cells, `aliveCount` and the cursor of
`Rand8` is given by `tick`; they write nothing else of the state. -/
def tickAndSettle (tick : Manager → Manager) (m : Manager) : Manager :=
  { m with
    sim := { m.sim with
      critters := (tick m).sim.critters
      totalFitness := (tick m).sim.totalFitness }
    maxused := (tick m).maxused
    breedattempts := (tick m).breedattempts
    breedfails := (tick m).breedfails
    settles := (tick m).settles
    settlefails := (tick m).settlefails
    aliveCount := (tick m).aliveCount
    nextrandom := (tick m).nextrandom }

/-- Lines 693-704 of `iterate`: when `warning_count` is 1 the question about the species
search is put, `speciesMode` is cleared on the answer yes, and `warning_count` moves on. The
flag tells whether the question has been put. -/
def warningGate (answerYes : Bool) (m : Manager) : Bool × Manager :=
  if m.sim.warningCount = 1 then
    (true,
     { m with sim := { m.sim with
         speciesMode := if answerYes then 0 else m.sim.speciesMode
         warningCount := m.sim.warningCount + 1 } })
  else (false, m)

/-- The function `iterate`: `generation++` on the `quint64` of line 89, the question of
lines 693-704, `regenerateEnvironment`, whose flag ends the call when it is set, and the
tick. The result is the returned flag, whether the question has been put, and the state
after the call; `answerYes` is the answer that the user gives when asked. -/
def iterate (answerYes : Bool) (emode : Int) (interpolate : Bool) (tick : Manager → Manager)
    (m : Manager) : Except Fault (Bool × Bool × Manager) :=
  let m1 : Manager := { m with sim := { m.sim with iteration := (m.sim.iteration + 1) % 2 ^ 64 } }
  let m2 := warningGate answerYes m1
  match regenerateEnvironment emode interpolate m2.2.env with
  | .error f => .error f
  | .ok (true, e) =>
    .ok (true, m2.1, { m2.2 with env := e, sim := { m2.2.sim with environment := e.environment } })
  | .ok (false, e) =>
    .ok (false, m2.1,
      tickAndSettle tick
        { m2.2 with env := e, sim := { m2.2.sim with environment := e.environment } })

/-- The states of a run that starts in the state `m0`, with the number of calls of `iterate`
made and the number of times the question of lines 693-704 has been put: a run is any
sequence of calls of `iterate` (with any arguments, any answer and any tick) and of passes
of the identifier (with any reading of the timer) that return. -/
inductive RunFrom (m0 : Manager) : Nat → Nat → Manager → Prop
  | start : RunFrom m0 0 0 m0
  | tick (calls asked : Nat) (m m' : Manager) (answerYes : Bool) (emode : Int)
      (interpolate : Bool) (t : Manager → Manager) (halt put : Bool) :
      RunFrom m0 calls asked m →
      iterate answerYes emode interpolate t m = .ok (halt, put, m') →
      RunFrom m0 (calls + 1) (asked + (if put then 1 else 0)) m'
  | pass (calls asked : Nat) (m : Manager) (ord : HashOrder) (M : Nat) (elapsed : Int)
      (s' : Sim) :
      RunFrom m0 calls asked m →
      groupsGenealogicalTracker ord M elapsed m.sim = .ok s' →
      RunFrom m0 calls asked { m with sim := s' }

/-- The example grid after `setupRun`, one tick before the last image of its two images is
used up: with the mode 1 the next call of `iterate` returns the flag. -/
def ending : Manager :=
  { seeded 3 with
    env := { (seeded 3).env with
      environmentChangeRate := 1, environmentFiles :=
        [imageOf 2 2 (fun _ _ => 0) (fun _ _ => 0), imageOf 2 2 (fun _ _ => 0) (fun _ _ => 0)]
      currentEnvironmentFile := 1, EnvChangeCounter := 1 } }

/-- A tick that changes the genome of the slot 0 of the cell `(1, 1)` to 7 and leaves the
rest of the grid as it is. -/
def mutate (m : Manager) : Manager :=
  { m with sim := { m.sim with
      critters := setSlot m.sim.critters 1 1 0 { m.sim.critters 1 1 0 with genome := 7 } } }

/-- The result of a call of `iterate` in the mode 1 with the answer no and the tick `t`;
the state before the call, with no flag, when the call faults. -/
def iterated (t : Manager → Manager) (m : Manager) : Bool × Bool × Manager :=
  resultOr (iterate false 1 false t m) (false, false, m)

/-- The state after a pass of the identifier that has taken 6 seconds; the state before it
when the pass faults. -/
def slowPass (m : Manager) : Manager :=
  { m with sim := stateAfter insertionOrder 100 6000 m.sim }

/-! ## Examples for the settling with wrap-around -/

/-- A spatial grid of 10 by 10 cells with wrap-around, whose displacement tables send every
offspring 240 columns to the left. -/
def torusInput : SettleInput :=
  { gridX := 10, gridY := 10, slotsPerSquare := 3, nonspatial := false, toroidal := true
    environment := fun _ _ _ => 0
    xdisp := fun _ _ => -240, ydisp := fun _ _ => 0
    randoms := fun _ => 0, initialise := sampleInit }

/-- A grid whose cell `(0, 0)` is full: its three slots are alive. -/
def fullState : SettleState :=
  { critters := fun x y z => if x = 0 ∧ y = 0 ∧ z < 3 then critterOf 5 3 else deadCritter
    totalfit := fun x y => if x = 0 ∧ y = 0 then 9 else 0
    maxused := fun x y => if x = 0 ∧ y = 0 then 2 else -1
    settles := fun _ _ => 0, settlefails := fun _ _ => 0
    trycount_local := 0, settlecount_local := 0, birthcounts_local := 0, nextrandom := 0 }

/-! ## The keyframes of the environment, whatever the interpolation -/

/-- The part of the invariant of a run of the environment that does not depend on the
interpolation: the cursor points to a file, the countdown lies in
`1..environmentChangeRate`, the direction is forward but in the bounce mode, the plane of
the last keyframe is the image of the cursor, and the plane of the next keyframe is the
image of the file that `loadEnvironmentFromFile` works out, rescaled as the size of the
image of the cursor decides. -/
structure KeyInv (emode : Int) (e : EnvState) : Prop where
  cursor_lo : 0 ≤ e.currentEnvironmentFile
  cursor_hi : e.currentEnvironmentFile < e.environmentFiles.length
  counter_lo : 1 ≤ e.EnvChangeCounter
  counter_hi : e.EnvChangeCounter ≤ e.environmentChangeRate
  forward : emode ≠ 3 → e.EnvChangeForward = true
  last_eq : SamePlane e.gridX e.gridY e.environmentlast (planeOf e e.currentEnvironmentFile)
  next_eq : ∀ nextfile, nextFile emode e = .ok nextfile →
    SamePlane e.gridX e.gridY e.environmentnext (planeAs e e.currentEnvironmentFile nextfile)

/-! ## The closest sample of a time list (analysistools.cpp, lines 399-427)

The conversion `(float)` of a `quint64` is a parameter `toFloat`; `lookFor` and `slotWidth`
are taken as rationals, the sum `lookFor + .5` being exact. -/

/-- The difference `a - b` of two `quint64`, with the wrap at `2 ^ 64`. -/
def sub64 (a b : Nat) : Nat := (a % 2 ^ 64 + (2 ^ 64 - b % 2 ^ 64)) % 2 ^ 64

/-- Line 401: `quint64 look_for_int = (quint64)(lookFor + .5)`, for a `lookFor` that the
conversion takes into the `quint64`. -/
def look_for_int (lookFor : ℚ) : Nat := (truncate (lookFor + 1 / 2)).toNat % 2 ^ 64

/-- Lines 414-425: the loop over `ii`, from `ii` for `count` rounds, and the `return -2`
after it. -/
def findBetween (timeList : List Nat) (look : Nat) : Nat → Nat → Int
  | _, 0 => -2
  | ii, count + 1 =>
    if timeList.getD ii 0 ≤ look ∧ timeList.getD (ii + 1) 0 > look then
      if sub64 look (timeList.getD ii 0) > sub64 (timeList.getD (ii + 1) 0) look then
        ((ii + 1 : Nat) : Int)
      else (ii : Int)
    else findBetween timeList look (ii + 1) count

/-- Lines 399-427: `findClosestIndex`. `timeList[0]` and `timeList.last()` of an empty list
are a fault. -/
def findClosestIndex (toFloat : Nat → ℚ) (timeList : List Nat) (lookFor slotWidth : ℚ) :
    Except Fault Int :=
  match timeList.head?, timeList.getLast? with
  | some first, some last =>
    if look_for_int lookFor ≤ first then .ok 0
    else if look_for_int lookFor ≥ last then
      if toFloat (sub64 last (look_for_int lookFor)) > slotWidth then .ok (-1)
      else .ok ((timeList.length : Int) - 1)
    else .ok (findBetween timeList (look_for_int lookFor) 0 (timeList.length - 1))
  | _, _ => .error .indexOutOfRange

/-! ## The xor masks of `MakeLookups` (simmanager.cpp, lines 161-175 and 197-208)

`qrand k` is what the `k`-th call of `qrand()` after the `qsrand` of line 195 returns. The
constant `PORTABLE_RAND_MAX` is defined in a header that is not among the sources and is a
parameter. -/

/-- Lines 161-175: the `k`-th result of `portable_rand`, for a `RAND_MAX` of at least 32767:
`r & 32767` above 32767, and `qrand()` itself, which is in `0 .. 32767`, at 32767. -/
def portable_rand (qrand : Nat → Nat) (k : Nat) : Nat := qrand k % 32768

/-- The table `xormasks[256][3]` and the number of calls of `portable_rand` made so far. -/
structure Lookups where
  xormasks : Nat → Nat → Nat
  drawn : Nat

/-- Lines 199-201: `xormasks[0][c] = portable_rand() * portable_rand() * 2`, stored in a
`quint32`. -/
def seedMask (qrand : Nat → Nat) (c : Nat) (s : Lookups) : Lookups :=
  { xormasks := fun n k =>
      if n = 0 ∧ k = c then
        (portable_rand qrand s.drawn * portable_rand qrand (s.drawn + 1) * 2) % 2 ^ 32
      else s.xormasks n k
    drawn := s.drawn + 2 }

/-- The entry `tweakers[i]` of the array `quint32 tweakers[32]`. -/
def tweakerAt (i : Nat) : Except Fault Nat :=
  match tweakers[i]? with
  | some t => .ok t
  | none => .error .indexOutOfRange

/-- Lines 205-207, one of the three:
`xormasks[n][c] = xormasks[n - 1][c] ^ tweakers[portable_rand() / (PORTABLE_RAND_MAX / 32)]`. -/
def flipMask (PORTABLE_RAND_MAX : Nat) (qrand : Nat → Nat) (n c : Nat) (s : Lookups) :
    Except Fault Lookups :=
  if PORTABLE_RAND_MAX / 32 = 0 then .error .divideByZero
  else
    match tweakerAt (portable_rand qrand s.drawn / (PORTABLE_RAND_MAX / 32)) with
    | .error e => .error e
    | .ok t =>
      .ok { xormasks := fun i k =>
              if i = n ∧ k = c then s.xormasks (n - 1) c ^^^ t else s.xormasks i k
            drawn := s.drawn + 1 }

/-- Lines 205-207: the body of the loop for the row `n`. -/
def flipRow (PORTABLE_RAND_MAX : Nat) (qrand : Nat → Nat) (n : Nat) (s : Lookups) :
    Except Fault Lookups :=
  match flipMask PORTABLE_RAND_MAX qrand n 0 s with
  | .error e => .error e
  | .ok s0 =>
    match flipMask PORTABLE_RAND_MAX qrand n 1 s0 with
    | .error e => .error e
    | .ok s1 => flipMask PORTABLE_RAND_MAX qrand n 2 s1

/-- Lines 199-208: the table `xormasks` as `MakeLookups` builds it. -/
def makeXormasks (PORTABLE_RAND_MAX : Nat) (qrand : Nat → Nat) : Except Fault Lookups :=
  forRange (flipRow PORTABLE_RAND_MAX qrand) 1 255
    (seedMask qrand 2 (seedMask qrand 1 (seedMask qrand 0
      { xormasks := fun _ _ => 0, drawn := 0 })))

/-! ## The match of a new species with the old ones (analyser.cpp, lines 847-901)

`groupsWithHistoryModal` looks, for every species of `newSpeciesList`, for the closest
species of `oldSpeciesListCombined`. -/

/-- Lines 859-863: the body of the loop over one archived list, for its entry `sp`; `st`
holds the ids of the set `IDs` and the list `oldSpeciesListCombined`. -/
def appendUnseen (st : List Nat × List Species) (sp : Species) : List Nat × List Species :=
  if sp.ID ∈ st.1 then st else (sp.ID :: st.1, st.2 ++ [sp])

/-- Lines 847-864: `oldSpeciesListCombined`, the old list followed by the species of the
first `timeSliceConnect - 1` archived lists whose id has not been met yet. -/
def oldSpeciesListCombined (timeSliceConnect : Int) (oldSpeciesList : List Species)
    (archivedSpeciesLists : List (List Species)) : List Species :=
  ((archivedSpeciesLists.take (timeSliceConnect - 1).toNat).foldl
    (fun st l => l.foldl appendUnseen st)
    (oldSpeciesList.map fun sp => sp.ID, oldSpeciesList)).2

/-- Lines 875-879: the distance `t1` of the type genomes of an old and a new species, from
the four look-ups in `bitCounts`. -/
def typeDistance (oldType newType : Nat) : Int :=
  let g1x := oldType ^^^ newType
  let g1xl := (g1x &&& (65536 * 65536 - 1)) % 2 ^ 32
  let t1 : Int := ((bitCounts (g1xl / 65536) + bitCounts (g1xl &&& 65535) : Nat) : Int)
  let g1xu := (g1x / (65536 * 65536)) % 2 ^ 32
  t1 + ((bitCounts (g1xu / 65536) + bitCounts (g1xu &&& 65535) : Nat) : Int)

/-- The locals `bestDistance`, `closestOld` and `bestSize` of the loop of lines 872-901. -/
structure MatchScan where
  bestDistance : Int
  closestOld : Int
  bestSize : Int
  deriving DecidableEq, Repr

/-- Lines 868-870: `bestDistance = 999; closestOld = -1; bestSize = -1`. -/
def scanStart : MatchScan := { bestDistance := 999, closestOld := -1, bestSize := -1 }

/-- Lines 875-900: the body of the loop for the entry `j` of the combined list, `o`. -/
def matchStep (newType : Nat) (o : Species) (j : Nat) (st : MatchScan) : MatchScan :=
  let t1 := typeDistance o.type newType
  let st1 : MatchScan :=
    if t1 = st.bestDistance then
      if o.size > st.bestSize then
        { bestDistance := t1, closestOld := (j : Int), bestSize := o.size }
      else st
    else st
  if t1 < st1.bestDistance then
    { bestDistance := t1, closestOld := (j : Int), bestSize := o.size }
  else st1

/-- Lines 872-901: the loop over the combined list, from the entry `j` on. -/
def closestScan (newType : Nat) : List Species → Nat → MatchScan → MatchScan
  | [], _, st => st
  | o :: rest, j, st => closestScan newType rest (j + 1) (matchStep newType o j st)

/-- Lines 847-903: the value `closestOld` that `parents[i]` gets for a new species of the
type `newType`. The loop is run only for a non-empty `oldSpeciesList` (line 866). -/
def legacyMatch (timeSliceConnect : Int) (oldSpeciesList : List Species)
    (archivedSpeciesLists : List (List Species)) (newType : Nat) : MatchScan :=
  closestScan newType
    (oldSpeciesListCombined timeSliceConnect oldSpeciesList archivedSpeciesLists) 0 scanStart

/-- An old species of the type `t`, the id `i` and the size `n`. -/
def oldSpecies (t i : Nat) (n : Int) : Species :=
  { Species.default with type := t, ID := i, size := n }

/-- What the locals of the scan hold once the entries `done` have been looked at: the
smallest distance met, the largest size among the entries at that distance, and the index
of an entry that has both. -/
structure ScanInv (newType : Nat) (done : List Species) (st : MatchScan) : Prop where
  least : ∀ o ∈ done, st.bestDistance ≤ typeDistance o.type newType ∧
    (typeDistance o.type newType = st.bestDistance → o.size ≤ st.bestSize)
  fresh : done = [] → st.bestDistance = 999
  held : done ≠ [] → ∃ (idx : Nat) (o : Species), st.closestOld = (idx : Int) ∧ done[idx]? = some o ∧
    typeDistance o.type newType = st.bestDistance ∧ o.size = st.bestSize


/-! ## The grouping loop of the legacy identifier (analyser.cpp, lines 710-814)

`groupsWithHistoryModal` starts from `genomeList` and `genomeCount`. `maxDifference` and
`speciesSensitivity` are globals; the order in which `QHashIterator` visits `merge_species`
is a parameter `order`, applied to the entries in the order of their insertion. -/

/-- The variables that the rounds of the do-while loop share: `speciesID`, `speciesSizes`,
`species_type` and `nextID`. -/
structure LegacyState where
  speciesID : List Int
  speciesSizes : List Int
  species_type : List Int
  nextID : Int
  deriving DecidableEq, Repr

/-- Lines 711-724: `speciesSizes` and `species_type` get an entry 0, `speciesID` is blanked,
`nextID = 1`. -/
def legacyStart (genome_list_count : Nat) : LegacyState :=
  { speciesID := List.replicate genome_list_count 0, speciesSizes := [0], species_type := [0],
    nextID := 1 }

/-- Lines 735-741: the body of the loop that looks for the largest count among the genomes
without a species; the state is `largest` and `largestIndex`. -/
def largestStep (genomeCount speciesID : List Int) (i : Nat) (st : Int × Int) :
    Except Fault (Int × Int) :=
  match readAt speciesID i with
  | .error e => .error e
  | .ok sid =>
    if sid = 0 then
      match readAt genomeCount i with
      | .error e => .error e
      | .ok cnt => if cnt > st.1 then .ok (cnt, (i : Int)) else .ok st
    else .ok st

/-- Lines 731-741: `largest = -1; largestIndex = -1` and the loop over the genomes. -/
def findLargest (genomeCount : List Int) (s : LegacyState) (genome_list_count : Nat) :
    Except Fault (Int × Int) :=
  forRange (largestStep genomeCount s.speciesID) 0 genome_list_count (-1, -1)

/-- The locals and variables of the loop of lines 751-774: `speciesID`, the hash
`merge_species` as its entries in the order of their insertion, and `thisSpeciesSize`. -/
structure CompareState where
  speciesID : List Int
  merge_species : List (Int × Int)
  thisSpeciesSize : Int

/-- The value `merge_species[key]`, when the hash contains the key. -/
def mergeValue (m : List (Int × Int)) (key : Int) : Option Int :=
  (m.find? fun e => e.1 == key).map fun e => e.2

/-- The call `merge_species.insert(key, sum)`: the value of the key is replaced, or the
entry is added. -/
def mergeInsert (m : List (Int × Int)) (key sum : Int) : List (Int × Int) :=
  if (mergeValue m key).isSome then m.map fun e => if e.1 = key then (key, sum) else e
  else m ++ [(key, sum)]

/-- Lines 753-773: the body of the loop that compares `mygenome` with the genome `i`. -/
def compareGenome (maxDifference : Int) (genomeList : List Nat) (genomeCount : List Int)
    (mygenome : Nat) (nextID : Int) (i : Nat) (c : CompareState) : Except Fault CompareState :=
  if withinTolerance maxDifference mygenome (genomeList.getD i 0) then
    match readAt c.speciesID i with
    | .error e => .error e
    | .ok sid =>
      match readAt genomeCount i with
      | .error e => .error e
      | .ok cnt =>
        if sid > 0 then
          .ok { c with
                merge_species := mergeInsert c.merge_species sid
                  (match mergeValue c.merge_species sid with
                   | some v => cnt + v
                   | none => cnt) }
        else
          match writeAt c.speciesID i nextID with
          | .error e => .error e
          | .ok ids => .ok { c with thisSpeciesSize := c.thisSpeciesSize + cnt, speciesID := ids }
  else .ok c

/-- The variables of the loop of lines 781-801: `speciesID`, `speciesSizes`,
`thisSpeciesSize`, `highestCount` and `highestCountIndex`. -/
structure MergeState where
  speciesID : List Int
  speciesSizes : List Int
  thisSpeciesSize : Int
  highestCount : Int
  highestCountIndex : Int

/-- Lines 783-800: the body of the loop over `merge_species`, for the entry `entry` (the key
`toMerge` and its value). The division by a `useSize` that is 0 is a fault. -/
def mergeStep (speciesSensitivity : Int) (genomeCount species_type : List Int) (nextID : Int)
    (entry : Int × Int) (m : MergeState) : Except Fault MergeState :=
  match readAt m.speciesSizes entry.1 with
  | .error e => .error e
  | .ok size =>
    if min m.thisSpeciesSize size = 0 then .error .divideByZero
    else if Int.tdiv (entry.2 * 100) (min m.thisSpeciesSize size) ≥ speciesSensitivity then
      match readAt species_type entry.1 with
      | .error e => .error e
      | .ok t =>
        match readAt genomeCount t with
        | .error e => .error e
        | .ok cnt =>
          match writeAt m.speciesSizes entry.1 0 with
          | .error e => .error e
          | .ok sizes =>
            .ok { speciesID := m.speciesID.map fun id => if id = entry.1 then nextID else id
                  speciesSizes := sizes
                  thisSpeciesSize := m.thisSpeciesSize + size
                  highestCount := if cnt > m.highestCount then cnt else m.highestCount
                  highestCountIndex := if cnt > m.highestCount then t else m.highestCountIndex }
    else .ok m

/-- Lines 746-809: one round of the do-while loop after the test of line 743, `largest` and
`largestIndex` being what the search has found. -/
def legacyRound (order : List (Int × Int) → List (Int × Int))
    (maxDifference speciesSensitivity : Int) (genomeList : List Nat) (genomeCount : List Int)
    (largest largestIndex : Int) (s : LegacyState) : Except Fault LegacyState :=
  if largestIndex < 0 ∨ (genomeList.length : Int) ≤ largestIndex then .error .indexOutOfRange
  else
    match forRange
      (compareGenome maxDifference genomeList genomeCount
        (genomeList.getD largestIndex.toNat 0) s.nextID)
      0 genomeList.length
      { speciesID := s.speciesID, merge_species := [], thisSpeciesSize := 0 } with
    | .error e => .error e
    | .ok c =>
      match forEach (mergeStep speciesSensitivity genomeCount s.species_type s.nextID)
        (order c.merge_species)
        { speciesID := c.speciesID, speciesSizes := s.speciesSizes
          thisSpeciesSize := c.thisSpeciesSize, highestCount := largest
          highestCountIndex := largestIndex } with
      | .error e => .error e
      | .ok m =>
        .ok { speciesID := m.speciesID
              speciesSizes := m.speciesSizes ++ [m.thisSpeciesSize]
              species_type := s.species_type ++ [m.highestCountIndex]
              nextID := s.nextID + 1 }

/-- Lines 728-814: the do-while loop, run for at most `fuel` passes through its body. The
result lists the states at the end of the rounds that ran to their end, in order, and the
state at the `break` of line 744. A loop that has not reached the `break` when the fuel is
spent answers `Fault.noFixpoint`. -/
def legacyLoop (order : List (Int × Int) → List (Int × Int))
    (maxDifference speciesSensitivity : Int) (genomeList : List Nat) (genomeCount : List Int) :
    Nat → LegacyState → Except Fault (List LegacyState × LegacyState)
  | 0, _ => .error .noFixpoint
  | fuel + 1, s =>
    match findLargest genomeCount s genomeList.length with
    | .error e => .error e
    | .ok (largest, largestIndex) =>
      if largest = -1 then .ok ([], s)
      else
        match legacyRound order maxDifference speciesSensitivity genomeList genomeCount
          largest largestIndex s with
        | .error e => .error e
        | .ok s' =>
          match legacyLoop order maxDifference speciesSensitivity genomeList genomeCount
            fuel s' with
          | .error e => .error e
          | .ok (rounds, final) => .ok (s' :: rounds, final)

/-- Lines 710-814: the set-up and the do-while loop of `groupsWithHistoryModal`. -/
def legacyGrouping (order : List (Int × Int) → List (Int × Int))
    (maxDifference speciesSensitivity : Int) (genomeList : List Nat) (genomeCount : List Int)
    (fuel : Nat) : Except Fault (List LegacyState × LegacyState) :=
  legacyLoop order maxDifference speciesSensitivity genomeList genomeCount fuel
    (legacyStart genomeList.length)

/-! ## Notions used to state what the grouping loop does -/

/-- The number of genomes without a species. -/
def unassigned (speciesID : List Int) : Nat := speciesID.countP fun id => id == 0

/-- What holds of the shared variables between two rounds, for `n` genomes: the arrays have
their sizes, every genome has no species yet or a species of `1 .. nextID - 1` whose
recorded size is positive, and the type specimen of every species is a genome. -/
structure LegacyInv (n : Nat) (s : LegacyState) : Prop where
  ids_length : s.speciesID.length = n
  next_pos : 1 ≤ s.nextID
  sizes_length : (s.speciesSizes.length : Int) = s.nextID
  types_length : (s.species_type.length : Int) = s.nextID
  ids : ∀ j id, readAt s.speciesID j = .ok id →
    id = 0 ∨ (1 ≤ id ∧ id < s.nextID ∧ ∃ size, readAt s.speciesSizes id = .ok size ∧ 0 < size)
  types : ∀ k, 1 ≤ k → k < s.nextID →
    ∃ t, readAt s.species_type k = .ok t ∧ 0 ≤ t ∧ t < n

/-- What a round does to the genome that the search of lines 731-741 finds: on entry the
genome `largestIndex` has no species and the largest count `largest` among the genomes
without a species, and at the end of the round it belongs to the new species, whose recorded
size is positive. -/
def RoundAssigns (genomeCount : List Int) (n : Nat) (s s' : LegacyState) : Prop :=
  ∃ largest largestIndex,
    findLargest genomeCount s n = .ok (largest, largestIndex) ∧
    1 ≤ largest ∧
    readAt s.speciesID largestIndex = .ok 0 ∧
    readAt genomeCount largestIndex = .ok largest ∧
    (∀ i cnt, readAt s.speciesID i = .ok 0 → readAt genomeCount i = .ok cnt → cnt ≤ largest) ∧
    readAt s'.speciesID largestIndex = .ok s.nextID ∧
    s'.nextID = s.nextID + 1 ∧
    (∃ size, readAt s'.speciesSizes s.nextID = .ok size ∧ 0 < size) ∧
    unassigned s'.speciesID < unassigned s.speciesID

/-- What holds in the loop of lines 751-774 before the genome `i` is compared, `s` being the
state on entry of the round and `idx` the genome that the search has found. -/
structure CompareInv (n : Nat) (s : LegacyState) (idx : Int) (i : Nat) (c : CompareState) :
    Prop where
  ids_length : c.speciesID.length = n
  ahead : ∀ j : Nat, i ≤ j → readAt c.speciesID j = readAt s.speciesID j
  kept : ∀ j id, readAt s.speciesID j = .ok id → id ≠ 0 → readAt c.speciesID j = .ok id
  fresh : ∀ j, readAt s.speciesID j = .ok 0 →
    readAt c.speciesID j = .ok 0 ∨ readAt c.speciesID j = .ok s.nextID
  found : idx < i → readAt c.speciesID idx = .ok s.nextID ∧ 1 ≤ c.thisSpeciesSize
  size_nonneg : 0 ≤ c.thisSpeciesSize
  keys_nodup : (c.merge_species.map Prod.fst).Nodup
  keys : ∀ e ∈ c.merge_species, 0 < e.1 ∧ ∃ j, readAt s.speciesID j = .ok e.1

/-- What holds in the loop of lines 781-801 while the entries `remaining` of `merge_species`
are still to be visited, `s` being the state on entry of the round, `idx` the genome that
the search has found and `u` the number of genomes without a species after the loop of the
comparisons. -/
structure MergeInv (n : Nat) (s : LegacyState) (idx : Int) (u : Nat)
    (remaining : List (Int × Int)) (m : MergeState) : Prop where
  ids_length : m.speciesID.length = n
  sizes_length : m.speciesSizes.length = s.speciesSizes.length
  size_pos : 1 ≤ m.thisSpeciesSize
  index : 0 ≤ m.highestCountIndex ∧ m.highestCountIndex < n
  ids : ∀ j id, readAt m.speciesID j = .ok id →
    id = 0 ∨ id = s.nextID ∨
      (1 ≤ id ∧ id < s.nextID ∧ ∃ size, readAt m.speciesSizes id = .ok size ∧ 0 < size)
  found : readAt m.speciesID idx = .ok s.nextID
  zeros : unassigned m.speciesID = u
  rest : ∀ e ∈ remaining, 1 ≤ e.1 ∧ e.1 < s.nextID ∧
    ∃ size, readAt m.speciesSizes e.1 = .ok size ∧ 0 < size

/-! ## The sorted list of genomes (analyser.cpp, lines 59-154)

`addGenomeFast` keeps `genomeList` sorted, with the counts in `genomeCount` and their sum in
`genomesTotalCount`. -/

/-- The members `genomeList`, `genomeCount` and `genomesTotalCount` of the analyser. -/
structure AnalyserState where
  genomeList : List Nat
  genomeCount : List Int
  genomesTotalCount : Int
  deriving DecidableEq, Repr

/-- The locals `minp`, `maxp` and `lookingat` of the search. -/
structure SearchState where
  minp : Int
  maxp : Int
  lookingat : Int
  deriving DecidableEq, Repr

/-- The entry `genomeList[i]`. -/
def genomeAt (genomeList : List Nat) (i : Int) : Except Fault Nat :=
  if i < 0 then .error .indexOutOfRange
  else
    match genomeList[i.toNat]? with
    | some v => .ok v
    | none => .error .indexOutOfRange

/-- The call `list.insert(i, value)` of a `QList`: the value gets the index `i`, and a value
inserted at the size of the list is appended. -/
def insertAt {α : Type} (l : List α) (i : Int) (value : α) : List α :=
  l.take i.toNat ++ value :: l.drop i.toNat

/-- Lines 76-147: the body of the loop. The left result is the state at a `return` or at a
`goto done`, the right result the locals for the next round. -/
def addStep (genome : Nat) (s : AnalyserState) (l : SearchState) :
    Except Fault (AnalyserState ⊕ SearchState) :=
  match genomeAt s.genomeList l.lookingat with
  | .error e => .error e
  | .ok v =>
    if v = genome then
      match readAt s.genomeCount l.lookingat with
      | .error e => .error e
      | .ok c =>
        match writeAt s.genomeCount l.lookingat (c + 1) with
        | .error e => .error e
        | .ok counts =>
          .ok (.inl { s with genomeCount := counts
                             genomesTotalCount := s.genomesTotalCount + 1 })
    else if v < genome then
      if l.lookingat + 1 = (s.genomeCount.length : Int) then
        .ok (.inl { genomeList := s.genomeList ++ [genome]
                    genomeCount := s.genomeCount ++ [1]
                    genomesTotalCount := s.genomesTotalCount + 1 })
      else
        match genomeAt s.genomeList (l.lookingat + 1) with
        | .error e => .error e
        | .ok w =>
          if w > genome then
            .ok (.inl { genomeList := insertAt s.genomeList (l.lookingat + 1) genome
                        genomeCount := insertAt s.genomeCount (l.lookingat + 1) 1
                        genomesTotalCount := s.genomesTotalCount + 1 })
          else
            .ok (.inr { minp := l.lookingat
                        maxp := l.maxp
                        lookingat :=
                          if Int.tdiv (l.maxp + l.lookingat) 2 = l.lookingat then
                            Int.tdiv (l.maxp + l.lookingat) 2 + 1
                          else Int.tdiv (l.maxp + l.lookingat) 2 })
    else
      if l.lookingat - 1 = -1 then
        .ok (.inl { genomeList := genome :: s.genomeList
                    genomeCount := 1 :: s.genomeCount
                    genomesTotalCount := s.genomesTotalCount + 1 })
      else
        match genomeAt s.genomeList (l.lookingat - 1) with
        | .error e => .error e
        | .ok w =>
          if w < genome then
            .ok (.inl { genomeList := insertAt s.genomeList l.lookingat genome
                        genomeCount := insertAt s.genomeCount l.lookingat 1
                        genomesTotalCount := s.genomesTotalCount + 1 })
          else
            .ok (.inr { minp := l.minp
                        maxp := l.lookingat
                        lookingat :=
                          if Int.tdiv (l.lookingat + l.minp) 2 =
                              l.lookingat - Int.tdiv (l.lookingat + l.minp) 2 then
                            Int.tdiv (l.lookingat + l.minp) 2 - 1
                          else Int.tdiv (l.lookingat + l.minp) 2 })

/-- Lines 75-148: `while (counter++ < 100)`, with `rounds` rounds left. A loop that runs out
of rounds falls to line 151 and returns with the lists as they were. -/
def searchLoop (genome : Nat) (s : AnalyserState) : Nat → SearchState → Except Fault AnalyserState
  | 0, _ => .ok s
  | rounds + 1, l =>
    match addStep genome s l with
    | .error e => .error e
    | .ok (.inl s') => .ok s'
    | .ok (.inr l') => searchLoop genome s rounds l'

/-- Lines 59-154: `addGenomeFast`. -/
def addGenomeFast (genome : Nat) (s : AnalyserState) : Except Fault AnalyserState :=
  if s.genomeList.length = 0 then
    .ok { genomeList := s.genomeList ++ [genome]
          genomeCount := s.genomeCount ++ [1]
          genomesTotalCount := s.genomesTotalCount + 1 }
  else
    searchLoop genome s 100
      { minp := 0
        maxp := (s.genomeList.length : Int) - 1
        lookingat := Int.tdiv ((s.genomeList.length : Int) - 1 + 0) 2 }

/-! ## Notions used to state what `addGenomeFast` does -/

/-- The count that the lists hold for the genome `g`: the entry of `genomeCount` at the
first place of `g` in `genomeList`, and 0 for a genome that is not in the list. -/
def countOf : List Nat → List Int → Nat → Int
  | a :: genomeList, c :: genomeCount, g => if a = g then c else countOf genomeList genomeCount g
  | _, _, _ => 0

/-- What the claim says of the state `s'` after `addGenomeFast(g)` from the state `s`. -/
structure Added (g : Nat) (s s' : AnalyserState) : Prop where
  sorted : s'.genomeList.Pairwise fun a b => a < b
  parallel : s'.genomeCount.length = s'.genomeList.length
  present : g ∈ s'.genomeList
  counted : countOf s'.genomeList s'.genomeCount g =
    countOf s.genomeList s.genomeCount g + 1
  absent : g ∉ s.genomeList → countOf s'.genomeList s'.genomeCount g = 1
  others : ∀ h, h ≠ g →
    countOf s'.genomeList s'.genomeCount h = countOf s.genomeList s.genomeCount h
  total : s'.genomesTotalCount = s.genomesTotalCount + 1
  total_sum : s'.genomesTotalCount = s'.genomeCount.sum

/-- The genome at the index `i`, and 0 outside the list. -/
def keyAt (genomeList : List Nat) (i : Int) : Nat := genomeList.getD i.toNat 0

/-- The search goes on upwards from `lookingat`: the genome there and the next one are not
above `g`. -/
def UpCont (genomeList : List Nat) (g : Nat) (l : SearchState) : Prop :=
  keyAt genomeList l.lookingat < g ∧ l.lookingat + 1 < genomeList.length ∧
    keyAt genomeList (l.lookingat + 1) ≤ g

/-- The search goes on downwards from `lookingat`: the genome there and the one before are
not below `g`. -/
def DownCont (genomeList : List Nat) (g : Nat) (l : SearchState) : Prop :=
  g < keyAt genomeList l.lookingat ∧ 1 ≤ l.lookingat ∧
    g ≤ keyAt genomeList (l.lookingat - 1)

instance (genomeList : List Nat) (g : Nat) (l : SearchState) :
    Decidable (UpCont genomeList g l) := by
  unfold UpCont
  exact inferInstance

instance (genomeList : List Nat) (g : Nat) (l : SearchState) :
    Decidable (DownCont genomeList g l) := by
  unfold DownCont
  exact inferInstance

/-- The measure of the search: three times the width of the window, plus 2 before a round
that goes down from `maxp` and 1 before a round that goes up from `minp`, the rounds that
leave the width as it is. -/
def searchMeasure (genomeList : List Nat) (g : Nat) (l : SearchState) : Int :=
  3 * (l.maxp - l.minp) +
    (if DownCont genomeList g l ∧ l.lookingat = l.maxp then 2
     else if UpCont genomeList g l ∧ l.lookingat = l.minp then 1
     else 0)

/-- The invariant of the search: the window is inside the list with `lookingat` inside the
window and no further from either end than half the width and one; a `minp` above 0 and a
`maxp` below the last index have been left by a round that went on. -/
structure SearchInv (genomeList : List Nat) (g : Nat) (l : SearchState) : Prop where
  lo : 0 ≤ l.minp
  lo_at : l.minp ≤ l.lookingat
  at_hi : l.lookingat ≤ l.maxp
  hi : l.maxp < genomeList.length
  below : l.minp = 0 ∨
    (keyAt genomeList l.minp < g ∧ keyAt genomeList (l.minp + 1) ≤ g)
  above : l.maxp = (genomeList.length : Int) - 1 ∨
    (g < keyAt genomeList l.maxp ∧ g ≤ keyAt genomeList (l.maxp - 1))
  near_lo : l.lookingat - l.minp ≤ (l.maxp - l.minp + 1) / 2 + 1
  near_hi : l.maxp - l.lookingat ≤ (l.maxp - l.minp + 1) / 2 + 1

/-! ## Bit counting lemmas -/



theorem tweakers_getD (m : Nat) (hm : m < 32) : tweakers.getD m 0 = 2 ^ m := by
  have h : tweakers[m]? = some ((fun t => t * 2)^[m] 1) :=
    List.getElem?_iterate _ _ _ _ hm
  rw [List.getD_eq_getElem?_getD, h, Option.getD_some]
  clear h hm
  induction m with
  | zero => rfl
  | succ k ih => rw [Function.iterate_succ_apply', ih, pow_succ]

theorem and_two_pow_ne_zero (n m : Nat) : (n &&& 2 ^ m ≠ 0) ↔ n.testBit m = true := by
  rw [Nat.and_two_pow]
  cases h : n.testBit m <;> simp

theorem countBits16_loop (n k : Nat) (hk : k ≤ 32) :
    (List.range k).foldl
      (fun count m => if n &&& tweakers.getD m 0 ≠ 0 then count + 1 else count) 0
      = lowBits k n := by
  induction k with
  | zero => rfl
  | succ k ih =>
    have hk' : k < 32 := hk
    rw [List.range_succ, List.foldl_append, ih (Nat.le_of_lt hk')]
    unfold lowBits
    rw [List.range_succ, List.countP_append]
    simp only [List.foldl_cons, List.foldl_nil, List.countP_cons, List.countP_nil]
    rw [tweakers_getD k hk']
    by_cases h : n.testBit k = true
    · rw [if_pos ((and_two_pow_ne_zero n k).2 h)]; simp [h]
    · rw [if_neg (fun hh => h ((and_two_pow_ne_zero n k).1 hh))]; simp [h]

theorem bitCounts_eq_lowBits (n : Nat) : bitCounts n = lowBits 16 n :=
  countBits16_loop n 16 (by decide)

theorem lowBits_add (k m x : Nat) : lowBits (k + m) x = lowBits k x + lowBits m (x / 2 ^ k) := by
  unfold lowBits
  rw [List.range_add, List.countP_append, List.countP_map]
  congr 1
  apply List.countP_congr
  intro i _
  simp only [Function.comp_apply]
  rw [← Nat.shiftRight_eq_div_pow, Nat.testBit_shiftRight]

theorem lowBits_mod (k j x : Nat) (h : k ≤ j) : lowBits k (x % 2 ^ j) = lowBits k x := by
  unfold lowBits
  apply List.countP_congr
  intro i hi
  have hij : i < j := lt_of_lt_of_le (List.mem_range.1 hi) h
  rw [Nat.testBit_mod_two_pow]
  simp [hij]

theorem lowBits_of_lt (k j x : Nat) (hx : x < 2 ^ k) (h : k ≤ j) : lowBits j x = lowBits k x := by
  obtain ⟨m, rfl⟩ := Nat.exists_eq_add_of_le h
  rw [lowBits_add, Nat.div_eq_of_lt hx]
  have : lowBits m 0 = 0 := by
    unfold lowBits
    simp
  rw [this, Nat.add_zero]

/-- Every entry of the table built by `MakeLookups` is the Hamming weight of its index. -/
theorem bitCounts_eq_popcount (v : Nat) (hv : v < 65536) : bitCounts v = popcount v := by
  rw [bitCounts_eq_lowBits]
  exact (lowBits_of_lt 16 64 v hv (by decide)).symm

/-- The four 16-bit table lookups of the linking test add up to the 64-bit Hamming weight. -/
theorem popcount_split (x : Nat) (hx : x < 2 ^ 64) :
    popcount x =
      (bitCounts (((x &&& (65536 * 65536 - 1)) % 2 ^ 32) / 65536)
        + bitCounts (((x &&& (65536 * 65536 - 1)) % 2 ^ 32) &&& 65535))
      + (bitCounts (((x / (65536 * 65536)) % 2 ^ 32) / 65536)
        + bitCounts (((x / (65536 * 65536)) % 2 ^ 32) &&& 65535)) := by
  have e1 : x &&& (65536 * 65536 - 1) = x % 2 ^ 32 :=
    Nat.and_pow_two_sub_one_eq_mod x 32
  have e2 : ∀ y : Nat, y &&& 65535 = y % 2 ^ 16 :=
    fun y => Nat.and_pow_two_sub_one_eq_mod y 16
  have e3 : (65536 : Nat) = 2 ^ 16 := by norm_num
  have e4 : (65536 * 65536 : Nat) = 2 ^ 32 := by norm_num
  have hu : x / 2 ^ 32 < 2 ^ 32 := by
    apply Nat.div_lt_of_lt_mul
    calc x < 2 ^ 64 := hx
      _ = 2 ^ 32 * 2 ^ 32 := by norm_num
  rw [e1, e2, e2, e4, Nat.mod_mod, Nat.mod_eq_of_lt hu, e3]
  simp only [bitCounts_eq_lowBits]
  rw [lowBits_mod 16 16 _ le_rfl, lowBits_mod 16 16 _ le_rfl]
  have hp : popcount x = lowBits (32 + 32) x := rfl
  rw [hp, lowBits_add 32 32 x]
  have h32 : ∀ y : Nat, lowBits (16 + 16) y = lowBits 16 y + lowBits 16 (y / 2 ^ 16) :=
    fun y => lowBits_add 16 16 y
  have hl : lowBits 32 x = lowBits 32 (x % 2 ^ 32) := (lowBits_mod 32 32 x le_rfl).symm
  rw [hl]
  have h32a := h32 (x % 2 ^ 32)
  have h32b := h32 (x / 2 ^ 32)
  norm_num at h32a h32b ⊢
  omega

/-- The linking test as a comparison of the Hamming distance with `maxDifference`. -/
theorem withinTolerance_iff (maxDifference : Int) (a b : Nat)
    (ha : a < 2 ^ 64) (hb : b < 2 ^ 64) :
    withinTolerance maxDifference a b = true ↔ (hammingDistance a b : Int) ≤ maxDifference := by
  have hx : a ^^^ b < 2 ^ 64 := Nat.xor_lt_two_pow ha hb
  have hs := popcount_split (a ^^^ b) hx
  unfold withinTolerance hammingDistance
  simp only []
  rw [hs]
  push_cast
  split_ifs with h1 h2
  · simp only [true_iff]; exact h2
  · simp only [Bool.false_eq_true, false_iff]; exact h2
  · simp only [Bool.false_eq_true, false_iff]
    intro h
    apply h1
    have : (0 : Int) ≤ (bitCounts (((a ^^^ b) / (65536 * 65536)) % 2 ^ 32 / 65536) : Int)
        + (bitCounts (((a ^^^ b) / (65536 * 65536)) % 2 ^ 32 &&& 65535) : Int) := by positivity
    omega

/-! ## Basic facts about the static arrays and the loops -/

theorem readAt_eq_ok {a : List Int} {i v : Int} :
    readAt a i = .ok v ↔ 0 ≤ i ∧ a[i.toNat]? = some v := by
  unfold readAt
  by_cases h : i < 0
  · rw [if_pos h]
    constructor
    · intro hh; cases hh
    · intro hh; omega
  · rw [if_neg h]
    cases hg : a[i.toNat]? with
    | none => simp
    | some w =>
      simp only [Option.some.injEq]
      constructor
      · intro hh; cases hh; exact ⟨by omega, rfl⟩
      · intro hh; rw [hh.2]

theorem readAt_neg {a : List Int} {i : Int} (h : i < 0) :
    readAt a i = .error .indexOutOfRange := by
  unfold readAt
  rw [if_pos h]

theorem readAt_range {a : List Int} {i v : Int} (h : readAt a i = .ok v) :
    0 ≤ i ∧ i < a.length := by
  obtain ⟨h0, h1⟩ := readAt_eq_ok.1 h
  refine ⟨h0, ?_⟩
  have := (List.getElem?_eq_some_iff.1 h1).1
  omega

theorem readAt_of_range {a : List Int} {i : Int} (h0 : 0 ≤ i) (h1 : i < a.length) :
    ∃ v, readAt a i = .ok v := by
  have h : i.toNat < a.length := by omega
  exact ⟨a[i.toNat], readAt_eq_ok.2 ⟨h0, List.getElem?_eq_getElem h⟩⟩

theorem writeAt_eq_ok {a a' : List Int} {i v : Int} :
    writeAt a i v = .ok a' ↔ 0 ≤ i ∧ i < a.length ∧ a' = a.set i.toNat v := by
  unfold writeAt
  by_cases h : i < 0
  · rw [if_pos h]
    constructor
    · intro hh; cases hh
    · intro hh; omega
  · rw [if_neg h]
    by_cases h2 : i.toNat < a.length
    · rw [if_pos h2]
      constructor
      · intro hh; cases hh; exact ⟨by omega, by omega, rfl⟩
      · intro hh; rw [hh.2.2]
    · rw [if_neg h2]
      constructor
      · intro hh; cases hh
      · intro hh; omega

theorem writeAt_of_range {a : List Int} {i : Int} (v : Int) (h0 : 0 ≤ i) (h1 : i < a.length) :
    writeAt a i v = .ok (a.set i.toNat v) :=
  writeAt_eq_ok.2 ⟨h0, h1, rfl⟩

theorem writeAt_length {a a' : List Int} {i v : Int} (h : writeAt a i v = .ok a') :
    a'.length = a.length := by
  obtain ⟨_, _, rfl⟩ := writeAt_eq_ok.1 h
  exact List.length_set ..

theorem readAt_writeAt_same {a a' : List Int} {i v : Int} (h : writeAt a i v = .ok a') :
    readAt a' i = .ok v := by
  obtain ⟨h0, h1, rfl⟩ := writeAt_eq_ok.1 h
  apply readAt_eq_ok.2
  refine ⟨h0, ?_⟩
  exact List.getElem?_set_self (by omega)

theorem readAt_writeAt_ne {a a' : List Int} {i j v : Int} (h : writeAt a i v = .ok a')
    (hij : j ≠ i) : readAt a' j = readAt a j := by
  obtain ⟨h0, h1, rfl⟩ := writeAt_eq_ok.1 h
  unfold readAt
  by_cases hj : j < 0
  · rw [if_pos hj, if_pos hj]
  · rw [if_neg hj, if_neg hj]
    have : i.toNat ≠ j.toNat := by omega
    rw [List.getElem?_set_ne this]

/-- Loop rule: an invariant that every round keeps (and under which no round faults) holds
when the loop ends, and the loop does end without a fault. -/
theorem forRange_total {σ : Type} (body : Nat → σ → Except Fault σ) (P : Nat → σ → Prop)
    (count : Nat) : ∀ (lo : Nat) (s : σ), P lo s →
    (∀ i t, lo ≤ i → i < lo + count → P i t → ∃ t', body i t = .ok t' ∧ P (i + 1) t') →
    ∃ s', forRange body lo count s = .ok s' ∧ P (lo + count) s' := by
  induction count with
  | zero => intro lo s h0 _; exact ⟨s, rfl, h0⟩
  | succ k ih =>
    intro lo s h0 hstep
    obtain ⟨t', hb, hP⟩ := hstep lo s le_rfl (by omega) h0
    obtain ⟨s', hf, hQ⟩ := ih (lo + 1) t' hP (fun i t h1 h2 h3 => hstep i t (by omega) (by omega) h3)
    refine ⟨s', ?_, ?_⟩
    · simp only [forRange, hb]; exact hf
    · have : lo + (k + 1) = lo + 1 + k := by omega
      rw [this]; exact hQ

/-- Loop rule for a loop that may fault: an invariant kept by every round that does not fault
holds at the end of a loop that ran to its end. -/
theorem forRange_ok {σ : Type} (body : Nat → σ → Except Fault σ) (P : Nat → σ → Prop)
    (count : Nat) : ∀ (lo : Nat) (s s' : σ), P lo s →
    (∀ i t t', lo ≤ i → i < lo + count → P i t → body i t = .ok t' → P (i + 1) t') →
    forRange body lo count s = .ok s' → P (lo + count) s' := by
  induction count with
  | zero => intro lo s s' h0 _ h; cases h; exact h0
  | succ k ih =>
    intro lo s s' h0 hstep h
    simp only [forRange] at h
    cases hb : body lo s with
    | error e => rw [hb] at h; cases h
    | ok t =>
      rw [hb] at h
      have hP := hstep lo s t le_rfl (by omega) h0 hb
      have := ih (lo + 1) t s' hP (fun i u u' h1 h2 h3 h4 => hstep i u u' (by omega) (by omega) h3 h4) h
      have e : lo + (k + 1) = lo + 1 + k := by omega
      rw [e]; exact this

/-! ## Roots of the `grouplookup` forest: lemmas -/

theorem ReachesRoot.unique {lk : List Int} {c r k} (h : ReachesRoot lk c r k) :
    ∀ {r' k'}, ReachesRoot lk c r' k' → r = r' ∧ k = k' := by
  induction h with
  | root h0 =>
    intro r' k' h'
    cases h' with
    | root _ => exact ⟨rfl, rfl⟩
    | step h1 hne _ => rw [h0] at h1; cases h1; exact absurd rfl hne
  | step h0 hne _ ih =>
    intro r' k' h'
    cases h' with
    | root h1 => rw [h0] at h1; cases h1; exact absurd rfl hne
    | step h1 _ h2 =>
      rw [h0] at h1; cases h1
      obtain ⟨e1, e2⟩ := ih h2
      exact ⟨e1, by rw [e2]⟩

theorem ReachesRoot.isRoot {lk : List Int} {c r k} (h : ReachesRoot lk c r k) :
    readAt lk r = .ok r := by
  induction h with
  | root h0 => exact h0
  | step _ _ _ ih => exact ih

theorem ReachesRoot.inRange {lk : List Int} {c r k} (h : ReachesRoot lk c r k) :
    0 ≤ c ∧ c < lk.length := by
  cases h with
  | root h0 => exact readAt_range h0
  | step h0 _ _ => exact readAt_range h0

theorem ReachesRoot.of_root {lk : List Int} {c r k} (h : ReachesRoot lk c r k)
    (hc : readAt lk c = .ok c) : r = c ∧ k = 0 := by
  obtain ⟨e1, e2⟩ := (ReachesRoot.root hc).unique h
  exact ⟨e1.symm, e2.symm⟩

/-- The nodes of a path to a root are pairwise different entries of the table. -/
theorem ReachesRoot.path {lk : List Int} {c r k} (h : ReachesRoot lk c r k) :
    ∃ l : List Int, l.length = k + 1 ∧ l.Nodup ∧
      ∀ x ∈ l, (0 ≤ x ∧ x < lk.length) ∧ ∃ j, j ≤ k ∧ ReachesRoot lk x r j := by
  induction h with
  | @root c h0 =>
    refine ⟨[c], rfl, List.nodup_singleton c, ?_⟩
    intro x hx
    rw [List.mem_singleton] at hx
    subst hx
    exact ⟨readAt_range h0, 0, le_rfl, ReachesRoot.root h0⟩
  | @step c p r k h0 hne hp ih =>
    obtain ⟨l, hl, hnd, hall⟩ := ih
    refine ⟨c :: l, by simp [hl], ?_, ?_⟩
    · refine List.nodup_cons.2 ⟨?_, hnd⟩
      intro hc
      obtain ⟨_, j, hj, hr⟩ := hall c hc
      have := (hr.unique (ReachesRoot.step h0 hne hp)).2
      omega
    · intro x hx
      rcases List.mem_cons.1 hx with rfl | hx
      · exact ⟨readAt_range h0, k + 1, le_rfl, ReachesRoot.step h0 hne hp⟩
      · obtain ⟨hr, j, hj, hrr⟩ := hall x hx
        exact ⟨hr, j, by omega, hrr⟩

/-- A root is reached in fewer steps than the table has entries. -/
theorem ReachesRoot.steps_lt {lk : List Int} {c r k} (h : ReachesRoot lk c r k) :
    k < lk.length := by
  obtain ⟨l, hl, hnd, hall⟩ := h.path
  have hnd' : (l.map Int.toNat).Nodup := by
    apply List.Nodup.map_on _ hnd
    intro x hx y hy hxy
    have := (hall x hx).1
    have := (hall y hy).1
    omega
  have hsub : l.map Int.toNat ⊆ List.range lk.length := by
    intro x hx
    obtain ⟨y, hy, rfl⟩ := List.mem_map.1 hx
    have := (hall y hy).1
    exact List.mem_range.2 (by omega)
  have := (List.subperm_of_subset hnd' hsub).length_le
  rw [List.length_map, List.length_range, hl] at this
  omega

theorem chaseFrom_of_reaches {lk : List Int} {c r k} (h : ReachesRoot lk c r k) :
    ∀ rounds, k < rounds → chaseFrom lk rounds c = .ok r := by
  induction h with
  | root h0 =>
    intro rounds hr
    obtain ⟨m, rfl⟩ : ∃ m, rounds = m + 1 := ⟨rounds - 1, by omega⟩
    simp [chaseFrom, h0]
  | step h0 hne _ ih =>
    intro rounds hr
    obtain ⟨m, rfl⟩ : ∃ m, rounds = m + 1 := ⟨rounds - 1, by omega⟩
    simp only [chaseFrom, h0, ne_eq, hne, not_false_eq_true, if_true]
    exact ih m (by omega)

/-- The chase loop ends at the root whenever there is one. -/
theorem chase_of_reaches {lk : List Int} {c r k} (h : ReachesRoot lk c r k) :
    chase lk c = .ok r :=
  chaseFrom_of_reaches h _ h.steps_lt

theorem reaches_of_chaseFrom {lk : List Int} : ∀ (rounds : Nat) (c r : Int),
    chaseFrom lk rounds c = .ok r → ∃ k, ReachesRoot lk c r k := by
  intro rounds
  induction rounds with
  | zero => intro c r h; cases h
  | succ m ih =>
    intro c r h
    simp only [chaseFrom] at h
    cases hr : readAt lk c with
    | error e => rw [hr] at h; cases h
    | ok p =>
      rw [hr] at h
      by_cases hp : p = c
      · subst hp
        simp at h
        subst h
        exact ⟨0, ReachesRoot.root hr⟩
      · simp only [ne_eq, hp, not_false_eq_true, if_true] at h
        obtain ⟨k, hk⟩ := ih p r h
        exact ⟨k + 1, ReachesRoot.step hr hp hk⟩

/-- A result of the chase loop is the root of the code it started from. -/
theorem reaches_of_chase {lk : List Int} {c r : Int} (h : chase lk c = .ok r) :
    ∃ k, ReachesRoot lk c r k :=
  reaches_of_chaseFrom _ c r h

/-! ## How the roots move when `grouplookup` is written -/

/-- Path compression (`grouplookup[x] = root of x`) keeps every root. -/
theorem reaches_compress {lk lk' : List Int} {x rx : Int} {kx : Nat}
    (hx : ReachesRoot lk x rx kx) (hw : writeAt lk x rx = .ok lk') {c r : Int} {k : Nat}
    (h : ReachesRoot lk c r k) : ∃ k', ReachesRoot lk' c r k' := by
  induction h with
  | @root c h0 =>
    by_cases hc : c = x
    · subst hc
      obtain ⟨e, _⟩ := hx.of_root h0
      subst e
      exact ⟨0, ReachesRoot.root (readAt_writeAt_same hw)⟩
    · exact ⟨0, ReachesRoot.root (by rw [readAt_writeAt_ne hw hc]; exact h0)⟩
  | @step c p r k h0 hne hp ih =>
    obtain ⟨k', hk'⟩ := ih
    by_cases hc : c = x
    · subst hc
      obtain ⟨e, _⟩ := hx.unique (ReachesRoot.step h0 hne hp)
      subst e
      have hrr : readAt lk rx = .ok rx := hp.isRoot
      have hrc : rx ≠ c := by
        intro e
        rw [e, h0] at hrr
        cases hrr
        exact hne rfl
      refine ⟨1, ReachesRoot.step (readAt_writeAt_same hw) hrc (ReachesRoot.root ?_)⟩
      rw [readAt_writeAt_ne hw hrc]; exact hrr
    · exact ⟨k' + 1, ReachesRoot.step (by rw [readAt_writeAt_ne hw hc]; exact h0) hne hk'⟩

/-- Merging root `a` into root `b` (`grouplookup[a] = b`) sends the root `a` to `b` and keeps
every other root. -/
theorem reaches_union {lk lk' : List Int} {a b : Int} (ha : readAt lk a = .ok a)
    (hb : readAt lk b = .ok b) (hab : a ≠ b) (hw : writeAt lk a b = .ok lk') {c r : Int}
    {k : Nat} (h : ReachesRoot lk c r k) :
    ∃ k', ReachesRoot lk' c (if r = a then b else r) k' := by
  have hb' : readAt lk' b = .ok b := by rw [readAt_writeAt_ne hw (Ne.symm hab)]; exact hb
  induction h with
  | @root c h0 =>
    by_cases hc : c = a
    · subst hc
      rw [if_pos rfl]
      exact ⟨1, ReachesRoot.step (readAt_writeAt_same hw) (Ne.symm hab) (ReachesRoot.root hb')⟩
    · rw [if_neg hc]
      exact ⟨0, ReachesRoot.root (by rw [readAt_writeAt_ne hw hc]; exact h0)⟩
  | @step c p r k h0 hne _ ih =>
    obtain ⟨k', hk'⟩ := ih
    have hc : c ≠ a := by
      intro e
      rw [e, ha] at h0
      cases h0
      exact hne e.symm
    exact ⟨k' + 1, ReachesRoot.step (by rw [readAt_writeAt_ne hw hc]; exact h0) hne hk'⟩

theorem WellFormed.reaches_lt {n : Nat} {s : Groups} (hwf : WellFormed n s) {c r : Int}
    {k : Nat} (h : ReachesRoot s.grouplookup c r k) (hc : c < s.nextGroup) :
    0 ≤ r ∧ r < s.nextGroup := by
  induction h with
  | root h0 => exact ⟨(readAt_range h0).1, hc⟩
  | step h0 _ _ ih => exact ih (hwf.lookup_lt _ _ h0 hc).2

/-! ## The structural invariant under the writes of the sweep -/

theorem wellFormed_init (n : Nat) : WellFormed n (initGroups n) := by
  have hread : ∀ (c p : Int), readAt (initGroups n).grouplookup c = .ok p → p = c := by
    intro c p h
    obtain ⟨h0, h1⟩ := readAt_eq_ok.1 h
    simp only [initGroups, List.getElem?_map] at h1
    rcases hr : (List.range n)[c.toNat]? with _ | w
    · rw [hr] at h1; cases h1
    · rw [hr] at h1
      have := (List.getElem?_eq_some_iff.1 hr)
      obtain ⟨hlt, hw⟩ := this
      rw [List.getElem_range] at hw
      simp only [Option.map_some', Option.some.injEq] at h1
      omega
  refine ⟨by simp [initGroups], by simp [initGroups], le_rfl, ?_, ?_, ?_, ?_⟩
  · intro i v h
    obtain ⟨_, h1⟩ := readAt_eq_ok.1 h
    left
    have := List.getElem?_eq_some_iff.1 h1
    obtain ⟨hlt, hw⟩ := this
    simp only [initGroups] at hw
    rw [List.getElem_replicate] at hw
    exact hw.symm
  · intro c p h hc
    have := (readAt_range h).1
    simp only [initGroups] at hc
    omega
  · intro c p h _
    exact hread c p h
  · intro c h0 h1
    obtain ⟨v, hv⟩ := readAt_of_range (a := (initGroups n).grouplookup) h0
      (by simp [initGroups]; exact h1)
    have := hread c v hv
    subst this
    exact ⟨v, 0, ReachesRoot.root hv⟩

theorem WellFormed.setCode_wf {n : Nat} {s : Groups} (hwf : WellFormed n s) {i v : Int}
    {gc : List Int} (hw : writeAt s.groupcodes i v = .ok gc)
    (hv : v = -1 ∨ (0 ≤ v ∧ v < s.nextGroup)) :
    WellFormed n { s with groupcodes := gc } := by
  refine ⟨by rw [← hwf.len_codes]; exact writeAt_length hw, hwf.len_lookup, hwf.next_nonneg,
    ?_, hwf.lookup_lt, hwf.lookup_ge, hwf.rooted⟩
  intro j w h
  by_cases hj : j = i
  · subst hj
    have h' : readAt gc j = .ok v := readAt_writeAt_same hw
    rw [h] at h'
    cases h'
    exact hv
  · have h' : readAt gc j = readAt s.groupcodes j := readAt_writeAt_ne hw hj
    rw [h] at h'
    exact hwf.codes j w h'.symm

theorem WellFormed.openCode_wf {n : Nat} {s : Groups} (hwf : WellFormed n s) {i : Int}
    {gc : List Int} (hw : writeAt s.groupcodes i s.nextGroup = .ok gc) :
    WellFormed n { s with groupcodes := gc, nextGroup := s.nextGroup + 1 } := by
  have hn := hwf.next_nonneg
  refine ⟨by rw [← hwf.len_codes]; exact writeAt_length hw, hwf.len_lookup, ?_,
    ?_, ?_, ?_, hwf.rooted⟩
  · show 0 ≤ s.nextGroup + 1
    omega
  · intro j w h
    show w = -1 ∨ (0 ≤ w ∧ w < s.nextGroup + 1)
    by_cases hj : j = i
    · subst hj
      have h' : readAt gc j = .ok s.nextGroup := readAt_writeAt_same hw
      rw [h] at h'
      cases h'
      right; omega
    · have h' : readAt gc j = readAt s.groupcodes j := readAt_writeAt_ne hw hj
      rw [h] at h'
      rcases hwf.codes j w h'.symm with h1 | h1
      · left; exact h1
      · right; omega
  · intro c p h hc
    show 0 ≤ p ∧ p < s.nextGroup + 1
    have hc' : c < s.nextGroup + 1 := hc
    by_cases hlt : c < s.nextGroup
    · have := hwf.lookup_lt c p h hlt
      omega
    · have := hwf.lookup_ge c p h (by omega)
      omega
  · intro c p h hc
    have hc' : s.nextGroup + 1 ≤ c := hc
    exact hwf.lookup_ge c p h (by omega)

theorem WellFormed.setLookup_wf {n : Nat} {s : Groups} (hwf : WellFormed n s) {x v : Int}
    {lk : List Int} (hw : writeAt s.grouplookup x v = .ok lk) (hx : x < s.nextGroup)
    (hv : 0 ≤ v ∧ v < s.nextGroup)
    (hroot : ∀ (c r : Int) (k : Nat), ReachesRoot s.grouplookup c r k →
      ∃ r' k', ReachesRoot lk c r' k') :
    WellFormed n { s with grouplookup := lk } := by
  refine ⟨hwf.len_codes, by rw [← hwf.len_lookup]; exact writeAt_length hw, hwf.next_nonneg,
    hwf.codes, ?_, ?_, ?_⟩
  · intro c p h hc
    by_cases hcx : c = x
    · subst hcx
      have h' : readAt lk c = .ok v := readAt_writeAt_same hw
      rw [h] at h'
      cases h'
      exact hv
    · have h' : readAt lk c = readAt s.grouplookup c := readAt_writeAt_ne hw hcx
      rw [h] at h'
      exact hwf.lookup_lt c p h'.symm hc
  · intro c p h hc
    have hc' : s.nextGroup ≤ c := hc
    have hcx : c ≠ x := by omega
    have h' : readAt lk c = readAt s.grouplookup c := readAt_writeAt_ne hw hcx
    rw [h] at h'
    exact hwf.lookup_ge c p h'.symm hc
  · intro c h0 h1
    obtain ⟨r, k, hr⟩ := hwf.rooted c h0 h1
    exact hroot c r k hr

/-! ## Chains of linked positions -/

theorem Joined.refl (md : Int) (gs : List Nat) (i : Nat) : Joined md gs i i :=
  Relation.ReflTransGen.refl

theorem Joined.symm {md : Int} {gs : List Nat} {i j : Nat} (h : Joined md gs i j) :
    Joined md gs j i :=
  Relation.ReflTransGen.symmetric (fun _ _ hab => Or.symm hab) h

theorem Joined.trans {md : Int} {gs : List Nat} {i j k : Nat} (h1 : Joined md gs i j)
    (h2 : Joined md gs j k) : Joined md gs i k :=
  Relation.ReflTransGen.trans h1 h2

theorem Joined.of_linked {md : Int} {gs : List Nat} {i j : Nat} (h : Linked md gs i j) :
    Joined md gs i j :=
  Relation.ReflTransGen.single (Or.inl h)

/-! ## `SameGroup` under the writes of the sweep -/

theorem SameGroup.setCode_same {s : Groups} {a b : Nat} (h : SameGroup s a b) {i o v : Int}
    {gc : List Int} (ho : readAt s.groupcodes i = .ok o)
    (hw : writeAt s.groupcodes i v = .ok gc)
    (hkeep : ∀ (r : Int) (k : Nat), ReachesRoot s.grouplookup o r k →
      ∃ k', ReachesRoot s.grouplookup v r k') (ng : Int) :
    SameGroup { s with groupcodes := gc, nextGroup := ng } a b := by
  have key : ∀ (x : Nat) (c r : Int) (k : Nat), readAt s.groupcodes x = .ok c →
      ReachesRoot s.grouplookup c r k →
      ∃ c' k', readAt gc x = .ok c' ∧ ReachesRoot s.grouplookup c' r k' := by
    intro x c r k hx hr
    by_cases hxi : (x : Int) = i
    · rw [hxi, ho] at hx
      cases hx
      obtain ⟨k', hk'⟩ := hkeep r k hr
      exact ⟨v, k', by rw [hxi]; exact readAt_writeAt_same hw, hk'⟩
    · exact ⟨c, k, by rw [readAt_writeAt_ne hw hxi]; exact hx, hr⟩
  obtain ⟨ci, cj, r, k, k', h1, h2, h3, h4⟩ := h
  obtain ⟨ci', k1, e1, e2⟩ := key a ci r k h1 h3
  obtain ⟨cj', k2, e3, e4⟩ := key b cj r k' h2 h4
  exact ⟨ci', cj', r, k1, k2, e1, e3, e2, e4⟩

theorem SameGroup.setLookup_same {s : Groups} {a b : Nat} (h : SameGroup s a b) {lk : List Int}
    (f : Int → Int)
    (hmove : ∀ (c r : Int) (k : Nat), ReachesRoot s.grouplookup c r k →
      ∃ k', ReachesRoot lk c (f r) k') :
    SameGroup { s with grouplookup := lk } a b := by
  obtain ⟨ci, cj, r, k, k', h1, h2, h3, h4⟩ := h
  obtain ⟨k1, e1⟩ := hmove ci r k h3
  obtain ⟨k2, e2⟩ := hmove cj r k' h4
  exact ⟨ci, cj, f r, k1, k2, h1, h2, e1, e2⟩

/-! ## `Sound` under the writes of the sweep -/

theorem Sound.along {md : Int} {gs : List Nat} {own : Int → Nat} {s : Groups}
    (hs : Sound md gs own s) {c r : Int} {k : Nat} (h : ReachesRoot s.grouplookup c r k) :
    Joined md gs (own c) (own r) := by
  induction h with
  | root _ => exact Joined.refl _ _ _
  | step h0 _ _ ih => exact (hs.2 _ _ h0).trans ih

theorem Sound.setCode_sound {md : Int} {gs : List Nat} {own : Int → Nat} {s : Groups}
    (hs : Sound md gs own s) {i : Nat} {v : Int} {gc : List Int}
    (hw : writeAt s.groupcodes i v = .ok gc) (hj : v ≠ -1 → Joined md gs i (own v)) :
    Sound md gs own { s with groupcodes := gc } := by
  refine ⟨?_, hs.2⟩
  intro j w h hne
  by_cases hji : (j : Int) = (i : Int)
  · have h' : readAt gc j = .ok v := by rw [hji]; exact readAt_writeAt_same hw
    rw [h] at h'
    cases h'
    have : j = i := by omega
    subst this
    exact hj hne
  · have h' : readAt gc j = readAt s.groupcodes j := readAt_writeAt_ne hw hji
    rw [h] at h'
    exact hs.1 j w h'.symm hne

theorem Sound.setLookup_sound {md : Int} {gs : List Nat} {own : Int → Nat} {s : Groups}
    (hs : Sound md gs own s) {c p : Int} {lk : List Int}
    (hw : writeAt s.grouplookup c p = .ok lk) (hj : Joined md gs (own c) (own p)) :
    Sound md gs own { s with grouplookup := lk } := by
  refine ⟨hs.1, ?_⟩
  intro d q h
  by_cases hd : d = c
  · subst hd
    have h' : readAt lk d = .ok p := readAt_writeAt_same hw
    rw [h] at h'
    cases h'
    exact hj
  · have h' : readAt lk d = readAt s.grouplookup d := readAt_writeAt_ne hw hd
    rw [h] at h'
    exact hs.2 d q h'.symm

theorem Sound.openCode_sound {md : Int} {gs : List Nat} {own : Int → Nat} {s : Groups} {n : Nat}
    (hwf : WellFormed n s) (hs : Sound md gs own s) {first : Nat} {gc : List Int}
    (hw : writeAt s.groupcodes first s.nextGroup = .ok gc) :
    Sound md gs (Function.update own s.nextGroup first)
      { s with groupcodes := gc, nextGroup := s.nextGroup + 1 } := by
  constructor
  · intro j w h hne
    by_cases hji : (j : Int) = (first : Int)
    · have h' : readAt gc j = .ok s.nextGroup := by rw [hji]; exact readAt_writeAt_same hw
      have h2 : readAt gc j = .ok w := h
      rw [h2] at h'
      cases h'
      have : j = first := by omega
      subst this
      rw [Function.update_same]
      exact Joined.refl _ _ _
    · have h' : readAt gc j = readAt s.groupcodes j := readAt_writeAt_ne hw hji
      have h2 : readAt gc j = .ok w := h
      rw [h2] at h'
      have hw' : w ≠ s.nextGroup := by
        rcases hwf.codes j w h'.symm with h1 | h1
        · exact absurd h1 hne
        · omega
      rw [Function.update_noteq hw']
      exact hs.1 j w h'.symm hne
  · intro c p h
    have h' : readAt s.grouplookup c = .ok p := h
    by_cases hc : c = s.nextGroup
    · have hp : p = c := hwf.lookup_ge c p h' (by omega)
      rw [hp]
      exact Joined.refl _ _ _
    · have hp : p ≠ s.nextGroup := by
        by_cases hlt : c < s.nextGroup
        · have := hwf.lookup_lt c p h' hlt
          omega
        · have := hwf.lookup_ge c p h' (by omega)
          omega
      rw [Function.update_noteq hc, Function.update_noteq hp]
      exact hs.2 c p h'

/-! ## The rounds of the sweep keep the invariants -/

theorem not_reaches_neg_one {lk : List Int} {r : Int} {k : Nat} :
    ¬ ReachesRoot lk (-1) r k := by
  intro h
  have := h.inRange
  omega

/-- Assembling the inner invariant for the next round from what a round has changed. -/
theorem InnerInv.next {md : Int} {gs : List Nat} {own : Int → Nat} {first second : Nat}
    {fgc : Int} {s t : Groups} (hinv : InnerInv md gs own first fgc second s)
    (hlt : first < second)
    (hwf : WellFormed gs.length t) (hnext : t.nextGroup = s.nextGroup)
    (hrf : readAt t.grouplookup fgc = .ok fgc) (hsound : Sound md gs own t)
    (hsame : ∀ a b, SameGroup s a b → SameGroup t a b)
    (hnew : Linked md gs first second → SameGroup t first second)
    (hcodes : ∀ (j : Nat), (j ≠ second → readAt t.groupcodes j = readAt s.groupcodes j) ∧
      (readAt t.groupcodes second = readAt s.groupcodes second ∨
        (Linked md gs first second ∧ ∃ v, readAt t.groupcodes second = .ok v))) :
    InnerInv md gs own first fgc (second + 1) t := by
  have hne : first ≠ second := by omega
  refine ⟨hwf, by rw [hnext]; exact hinv.next_le, ?_, hrf, hsound, ?_, ?_, ?_⟩
  · rw [(hcodes first).1 hne]; exact hinv.code_first
  · intro i j hij hj hc hl
    by_cases hnew' : i = first ∧ j = second
    · obtain ⟨rfl, rfl⟩ := hnew'
      exact hnew hl
    · apply hsame
      apply hinv.done i j hij hj _ hl
      rcases hc with hc | ⟨hc1, hc2⟩
      · left; exact hc
      · right
        refine ⟨hc1, ?_⟩
        have : j ≠ second := fun e => hnew' ⟨hc1, e⟩
        omega
  · intro j v h hv
    by_cases hjs : j = second
    · subst hjs
      rcases (hcodes j).2 with h2 | ⟨hl, _⟩
      · rw [h2] at h
        exact hinv.assigned j v h hv
      · right; exact ⟨first, hlt, hl⟩
    · rw [(hcodes j).1 hjs] at h
      exact hinv.assigned j v h hv
  · intro j hj hjn
    have hjs : j ≠ second := by omega
    rw [(hcodes j).1 hjs]
    exact hinv.early j hj hjn

theorem InnerInv.first_code_lt {md : Int} {gs : List Nat} {own : Int → Nat}
    {first second : Nat} {fgc : Int} {s : Groups}
    (hinv : InnerInv md gs own first fgc second s) : 0 ≤ fgc ∧ fgc < s.nextGroup := by
  have h0 := (readAt_range hinv.root_first).1
  rcases hinv.wf.codes _ _ hinv.code_first with h | h
  · omega
  · exact h

/-- One round of the inner loop does not fault and keeps the inner invariant. -/
theorem compareStep_inv {md : Int} {gs : List Nat} {own : Int → Nat} {first second : Nat}
    {fgc : Int} {s : Groups} (hlt : first < second) (hsec : second < gs.length)
    (hinv : InnerInv md gs own first fgc second s) :
    ∃ s', compareStep md gs (gs.getD first 0) fgc second s = .ok s' ∧
      InnerInv md gs own first fgc (second + 1) s' := by
  have hwf := hinv.wf
  have hfg := hinv.first_code_lt
  have hne : (first : Int) ≠ (second : Int) := by omega
  obtain ⟨gcs0, hread⟩ := readAt_of_range (a := s.groupcodes) (i := (second : Int))
    (by omega) (by rw [hwf.len_codes]; omega)
  by_cases hun : gcs0 = -1
  · -- `second` has no group yet
    subst hun
    by_cases hwt : withinTolerance md (gs.getD first 0) (gs.getD second 0) = true
    · have hl : Linked md gs first second := ⟨by omega, hsec, hwt⟩
      have hw := writeAt_of_range (a := s.groupcodes) (i := (second : Int)) fgc (by omega)
        (by rw [hwf.len_codes]; omega)
      refine ⟨{ s with groupcodes := s.groupcodes.set (second : Int).toNat fgc }, ?_, ?_⟩
      · simp [-List.getD_eq_getElem?_getD, compareStep, hread, linkPair, hwt, hw]
      · have hcf : readAt (s.groupcodes.set (second : Int).toNat fgc) first = .ok fgc := by
          rw [readAt_writeAt_ne hw hne]; exact hinv.code_first
        apply hinv.next hlt (hwf.setCode_wf hw (Or.inr hfg)) rfl hinv.root_first
        · apply hinv.sound.setCode_sound hw
          intro _
          exact (Joined.of_linked hl).symm.trans
            (hinv.sound.1 first fgc hinv.code_first (by omega))
        · intro a b hab
          exact hab.setCode_same hread hw (fun r k hr => absurd hr not_reaches_neg_one) s.nextGroup
        · intro _
          exact ⟨fgc, fgc, fgc, 0, 0, hcf, readAt_writeAt_same hw,
            ReachesRoot.root hinv.root_first, ReachesRoot.root hinv.root_first⟩
        · intro j
          refine ⟨fun hj => readAt_writeAt_ne hw (by omega), Or.inr ⟨hl, fgc, ?_⟩⟩
          exact readAt_writeAt_same hw
    · refine ⟨s, ?_, ?_⟩
      · simp [-List.getD_eq_getElem?_getD, compareStep, hread, linkPair, hwt]
      · apply hinv.next hlt hwf rfl hinv.root_first hinv.sound (fun _ _ h => h)
        · intro hl; exact absurd hl.2.2 hwt
        · intro j; exact ⟨fun _ => rfl, Or.inl rfl⟩
  · -- `second` is in a group: compress, then compare the roots
    have hg0 : 0 ≤ gcs0 ∧ gcs0 < s.nextGroup := by
      rcases hwf.codes _ _ hread with h | h
      · exact absurd h hun
      · exact h
    have hnl := hinv.next_le
    obtain ⟨r, k, hreach⟩ := hwf.rooted gcs0 hg0.1 (by omega)
    have hchase := chase_of_reaches hreach
    have hr := hwf.reaches_lt hreach hg0.2
    have hw := writeAt_of_range (a := s.grouplookup) (i := gcs0) r hg0.1
      (by rw [hwf.len_lookup]; omega)
    have hwf1 : WellFormed gs.length { s with grouplookup := s.grouplookup.set gcs0.toNat r } :=
      hwf.setLookup_wf hw hg0.2 hr (fun c r' k' h => ⟨r', reaches_compress hreach hw h⟩)
    have hrf1 : readAt (s.grouplookup.set gcs0.toNat r) fgc = .ok fgc := by
      obtain ⟨_, h⟩ := reaches_compress hreach hw (ReachesRoot.root hinv.root_first)
      exact h.isRoot
    have hsound1 := hinv.sound.setLookup_sound hw (hinv.sound.along hreach)
    have hsame1 : ∀ a b, SameGroup s a b →
        SameGroup { s with grouplookup := s.grouplookup.set gcs0.toNat r } a b :=
      fun a b hab => hab.setLookup_same id (fun c r' k' h => reaches_compress hreach hw h)
    obtain ⟨k1, hreach1⟩ := reaches_compress hreach hw hreach
    by_cases hrf : r = fgc
    · subst hrf
      refine ⟨{ s with grouplookup := s.grouplookup.set gcs0.toNat r }, ?_, ?_⟩
      · simp [-List.getD_eq_getElem?_getD, compareStep, hread, hun, hchase, hw]
      · apply hinv.next hlt hwf1 rfl hrf1 hsound1 hsame1
        · intro _
          exact ⟨r, gcs0, r, 0, k1, hinv.code_first, hread, ReachesRoot.root hrf1, hreach1⟩
        · intro j; exact ⟨fun _ => rfl, Or.inl rfl⟩
    · have hrn : r ≠ -1 := by omega
      by_cases hwt : withinTolerance md (gs.getD first 0) (gs.getD second 0) = true
      · have hl : Linked md gs first second := ⟨by omega, hsec, hwt⟩
        have hw2 := writeAt_of_range (a := s.grouplookup.set gcs0.toNat r) (i := r) fgc hr.1
          (by rw [List.length_set, hwf.len_lookup]; omega)
        have hroot_r : readAt (s.grouplookup.set gcs0.toNat r) r = .ok r := hreach1.isRoot
        have hmove : ∀ (c r' : Int) (k' : Nat),
            ReachesRoot (s.grouplookup.set gcs0.toNat r) c r' k' →
            ∃ k'', ReachesRoot ((s.grouplookup.set gcs0.toNat r).set r.toNat fgc) c
              (if r' = r then fgc else r') k'' :=
          fun c r' k' h => reaches_union hroot_r hrf1 hrf hw2 h
        have hrf2 : readAt ((s.grouplookup.set gcs0.toNat r).set r.toNat fgc) fgc = .ok fgc := by
          rw [readAt_writeAt_ne hw2 (Ne.symm hrf)]; exact hrf1
        refine ⟨{ s with grouplookup := (s.grouplookup.set gcs0.toNat r).set r.toNat fgc },
          ?_, ?_⟩
        · simp [-List.getD_eq_getElem?_getD, compareStep, hread, hun, hchase, hw, hrf, linkPair, hwt, hrn, hw2]
        · refine InnerInv.next
            (t := { s with grouplookup := (s.grouplookup.set gcs0.toNat r).set r.toNat fgc })
            hinv hlt ?_ rfl hrf2 ?_ ?_ ?_ (fun j => ⟨fun _ => rfl, Or.inl rfl⟩)
          · exact WellFormed.setLookup_wf (s := { s with grouplookup := s.grouplookup.set gcs0.toNat r })
              hwf1 hw2 hr.2 hfg (fun c r' k' h => ⟨_, hmove c r' k' h⟩)
          · apply Sound.setLookup_sound (s := { s with grouplookup := s.grouplookup.set gcs0.toNat r })
              hsound1 hw2
            have j1 : Joined md gs second (own gcs0) := hinv.sound.1 second gcs0 hread hun
            have j2 : Joined md gs (own gcs0) (own r) := hinv.sound.along hreach
            have j3 : Joined md gs first (own fgc) :=
              hinv.sound.1 first fgc hinv.code_first (by omega)
            exact ((j1.trans j2).symm.trans (Joined.of_linked hl).symm).trans j3
          · intro a b hab
            exact SameGroup.setLookup_same
              (s := { s with grouplookup := s.grouplookup.set gcs0.toNat r })
              (hsame1 a b hab) (fun r' => if r' = r then fgc else r') hmove
          · intro _
            obtain ⟨k2, hk2⟩ := hmove gcs0 r k1 hreach1
            rw [if_pos rfl] at hk2
            exact ⟨fgc, gcs0, fgc, 0, k2, hinv.code_first, hread, ReachesRoot.root hrf2, hk2⟩
      · refine ⟨{ s with grouplookup := s.grouplookup.set gcs0.toNat r }, ?_, ?_⟩
        · simp [-List.getD_eq_getElem?_getD, compareStep, hread, hun, hchase, hw, hrf, linkPair, hwt]
        · apply hinv.next hlt hwf1 rfl hrf1 hsound1 hsame1
          · intro hl; exact absurd hl.2.2 hwt
          · intro j; exact ⟨fun _ => rfl, Or.inl rfl⟩

/-- Lines 335-336 do not fault; afterwards `first` has a group code. -/
theorem openGroup_spec {md : Int} {gs : List Nat} {first : Nat} {s : Groups}
    (hf : first < gs.length) (hinv : OuterInv md gs first s) :
    ∃ (s1 : Groups) (own : Int → Nat) (fg0 : Int), openGroup first s = .ok s1 ∧
      WellFormed gs.length s1 ∧ s1.nextGroup ≤ first + 1 ∧
      readAt s1.groupcodes first = .ok fg0 ∧ (0 ≤ fg0 ∧ fg0 < s1.nextGroup) ∧
      Sound md gs own s1 ∧ (∀ a b, SameGroup s a b → SameGroup s1 a b) ∧
      (∀ (j : Nat) (v : Int), readAt s1.groupcodes j = .ok v → v ≠ -1 →
        j ≤ first ∨ ∃ i, i < j ∧ Linked md gs i j) ∧
      (∀ (j : Nat), j < first → j < gs.length → ∃ v, readAt s1.groupcodes j = .ok v ∧ v ≠ -1) := by
  have hwf := hinv.wf
  have hnl := hinv.next_le
  obtain ⟨own, hsound⟩ := hinv.sound
  obtain ⟨gc0, hread⟩ := readAt_of_range (a := s.groupcodes) (i := (first : Int))
    (by omega) (by rw [hwf.len_codes]; omega)
  by_cases hun : gc0 = -1
  · subst hun
    have hw := writeAt_of_range (a := s.groupcodes) (i := (first : Int)) s.nextGroup (by omega)
      (by rw [hwf.len_codes]; omega)
    have hn := hwf.next_nonneg
    refine ⟨{ s with groupcodes := s.groupcodes.set (first : Int).toNat s.nextGroup,
                     nextGroup := s.nextGroup + 1 },
      Function.update own s.nextGroup first, s.nextGroup, ?_, hwf.openCode_wf hw, ?_,
      readAt_writeAt_same hw, ?_, hsound.openCode_sound hwf hw, ?_, ?_, ?_⟩
    · simp [openGroup, hread, hw]
    · show s.nextGroup + 1 ≤ first + 1
      omega
    · show 0 ≤ s.nextGroup ∧ s.nextGroup < s.nextGroup + 1
      omega
    · intro a b hab
      exact hab.setCode_same hread hw (fun r k hr => absurd hr not_reaches_neg_one) _
    · intro j v h hv
      by_cases hj : j = first
      · left; omega
      · have h' : readAt (s.groupcodes.set (first : Int).toNat s.nextGroup) j = .ok v := h
        rw [readAt_writeAt_ne hw (by omega)] at h'
        rcases hinv.assigned j v h' hv with h1 | h1
        · left; omega
        · right; exact h1
    · intro j hj hjn
      show ∃ v, readAt (s.groupcodes.set (first : Int).toNat s.nextGroup) j = .ok v ∧ v ≠ -1
      rw [readAt_writeAt_ne hw (by omega)]
      exact hinv.early j hj hjn
  · have hg0 : 0 ≤ gc0 ∧ gc0 < s.nextGroup := by
      rcases hwf.codes _ _ hread with h | h
      · exact absurd h hun
      · exact h
    refine ⟨s, own, gc0, ?_, hwf, by omega, hread, hg0, hsound, fun _ _ h => h, ?_, hinv.early⟩
    · simp [openGroup, hread, hun]
    · intro j v h hv
      rcases hinv.assigned j v h hv with h1 | h1
      · left; omega
      · right; exact h1

/-- One round of the outer loop does not fault and keeps the outer invariant. -/
theorem firstStep_inv {md : Int} {gs : List Nat} {first : Nat} {s : Groups}
    (hf : first + 1 < gs.length) (hinv : OuterInv md gs first s) :
    ∃ s', firstStep md gs first s = .ok s' ∧ OuterInv md gs (first + 1) s' := by
  obtain ⟨s1, own, fg0, hopen, hwf1, hnl1, hread1, hfg0, hsound1, hsame1, hasg1, hearly1⟩ :=
    openGroup_spec (by omega) hinv
  obtain ⟨r, k, hreach⟩ := hwf1.rooted fg0 hfg0.1 (by omega)
  have hchase := chase_of_reaches hreach
  have hr := hwf1.reaches_lt hreach hfg0.2
  have hw := writeAt_of_range (a := s1.groupcodes) (i := (first : Int)) r (by omega)
    (by rw [hwf1.len_codes]; omega)
  have hstart : InnerInv md gs own first r (first + 1)
      { s1 with groupcodes := s1.groupcodes.set (first : Int).toNat r } := by
    refine ⟨hwf1.setCode_wf hw (Or.inr hr), hnl1, readAt_writeAt_same hw, hreach.isRoot, ?_, ?_,
      ?_, ?_⟩
    · apply hsound1.setCode_sound hw
      intro _
      exact (hsound1.1 first fg0 hread1 (by omega)).trans (hsound1.along hreach)
    · intro i j hij hj hc hl
      have hi : i < first := by
        rcases hc with hc | ⟨hc1, hc2⟩
        · exact hc
        · omega
      have h0 := hsame1 i j (hinv.done i j hij hj hi hl)
      refine h0.setCode_same hread1 hw ?_ s1.nextGroup
      intro r' k' hr'
      obtain ⟨e, _⟩ := hreach.unique hr'
      subst e
      exact ⟨0, ReachesRoot.root hreach.isRoot⟩
    · intro j v h hv
      by_cases hj : j = first
      · left; omega
      · have h' : readAt (s1.groupcodes.set (first : Int).toNat r) j = .ok v := h
        rw [readAt_writeAt_ne hw (by omega)] at h'
        exact hasg1 j v h' hv
    · intro j hj hjn
      by_cases hjf : j = first
      · subst hjf
        exact ⟨r, readAt_writeAt_same hw, by omega⟩
      · show ∃ v, readAt (s1.groupcodes.set (first : Int).toNat r) j = .ok v ∧ v ≠ -1
        rw [readAt_writeAt_ne hw (by omega)]
        exact hearly1 j (by omega) hjn
  obtain ⟨s', hloop, hend⟩ := forRange_total
    (compareStep md gs (gs.getD first 0) r) (fun second t => InnerInv md gs own first r second t)
    (gs.length - (first + 1)) (first + 1) _ hstart
    (fun i t h1 h2 h3 => compareStep_inv (by omega) (by omega) h3)
  have hlen : first + 1 + (gs.length - (first + 1)) = gs.length := by omega
  rw [hlen] at hend
  refine ⟨s', ?_, ?_⟩
  · simp only [firstStep, hopen, hread1, hchase, hw]
    exact hloop
  · refine ⟨hend.wf, ?_, ⟨own, hend.sound⟩, ?_, ?_, ?_⟩
    · have := hend.next_le
      push_cast
      exact this
    · intro i j hij hj hi hl
      apply hend.done i j hij hj _ hl
      by_cases h : i < first
      · left; exact h
      · right; exact ⟨by omega, hj⟩
    · intro j v h hv
      rcases hend.assigned j v h hv with h1 | h1
      · left; omega
      · right; exact h1
    · intro j hj hjn
      exact hend.early j (by omega) hjn

theorem outerInv_init (md : Int) (gs : List Nat) : OuterInv md gs 0 (initGroups gs.length) := by
  have hcode : ∀ (j v : Int), readAt (initGroups gs.length).groupcodes j = .ok v → v = -1 := by
    intro j v h
    rcases (wellFormed_init gs.length).codes j v h with h1 | h1
    · exact h1
    · have : (initGroups gs.length).nextGroup = 0 := rfl
      omega
  refine ⟨wellFormed_init _, le_rfl, ⟨fun _ => 0, ?_, ?_⟩, ?_, ?_, ?_⟩
  · intro i v h hv
    exact absurd (hcode _ _ h) hv
  · intro c p h
    have := (wellFormed_init gs.length).lookup_ge c p h (readAt_range h).1
    rw [this]
    exact Joined.refl _ _ _
  · intro i j _ _ hi
    omega
  · intro j v h hv
    exact absurd (hcode _ _ h) hv
  · intro j hj
    omega

/-- The pairwise sweep never faults, and at its end the outer invariant holds for
`first = arrayMax - 1`. -/
theorem pairwiseSweep_inv (md : Int) (gs : List Nat) :
    ∃ s, pairwiseSweep md gs = .ok s ∧ OuterInv md gs (gs.length - 1) s := by
  obtain ⟨s, hs, hinv⟩ := forRange_total (firstStep md gs)
    (fun first t => OuterInv md gs first t) (gs.length - 1) 0 _ (outerInv_init md gs)
    (fun i t _ h2 h3 => firstStep_inv (by omega) h3)
  rw [Nat.zero_add] at hinv
  exact ⟨s, hs, hinv⟩

/-! ## The "fix all groups" loop -/

theorem fixedCode_eq_ok {s : Groups} {i : Nat} {c : Int} :
    fixedCode s i = .ok c ↔
      ∃ (ci : Int) (k : Nat), readAt s.groupcodes i = .ok ci ∧
        ReachesRoot s.grouplookup ci c k := by
  unfold fixedCode
  constructor
  · intro h
    cases hr : readAt s.groupcodes i with
    | error e => rw [hr] at h; cases h
    | ok ci =>
      rw [hr] at h
      obtain ⟨k, hk⟩ := reaches_of_chase h
      exact ⟨ci, k, rfl, hk⟩
  · rintro ⟨ci, k, h1, h2⟩
    rw [h1]
    exact chase_of_reaches h2

theorem sameGroup_iff_fixedCode {s : Groups} {i j : Nat} :
    SameGroup s i j ↔ ∃ c, fixedCode s i = .ok c ∧ fixedCode s j = .ok c := by
  constructor
  · rintro ⟨ci, cj, r, k, k', h1, h2, h3, h4⟩
    exact ⟨r, fixedCode_eq_ok.2 ⟨ci, k, h1, h3⟩, fixedCode_eq_ok.2 ⟨cj, k', h2, h4⟩⟩
  · rintro ⟨c, h1, h2⟩
    obtain ⟨ci, k, e1, e2⟩ := fixedCode_eq_ok.1 h1
    obtain ⟨cj, k', e3, e4⟩ := fixedCode_eq_ok.1 h2
    exact ⟨ci, cj, c, k, k', e1, e3, e2, e4⟩

theorem fixInv_init (s : Groups) : FixInv s 0 (s.groupcodes, -1) :=
  ⟨rfl, fun j hj => absurd hj (Nat.not_lt_zero j), fun _ _ => rfl, Or.inl rfl⟩

/-- A round of the "fix all groups" loop that does not fault keeps its invariant. -/
theorem fixStep_inv {s : Groups} {i : Nat} {st st' : List Int × Int} (hinv : FixInv s i st)
    (h : fixStep s.grouplookup i st = .ok st') : FixInv s (i + 1) st' := by
  unfold fixStep at h
  cases hr : readAt st.1 i with
  | error e => rw [hr] at h; cases h
  | ok gci0 =>
    rw [hr] at h
    simp only at h
    cases hc : chase s.grouplookup gci0 with
    | error e => rw [hc] at h; cases h
    | ok gci =>
      rw [hc] at h
      simp only at h
      cases hw : writeAt st.1 i gci with
      | error e => rw [hw] at h; cases h
      | ok gc =>
        rw [hw] at h
        simp only [Except.ok.injEq] at h
        subst h
        have hfix : fixedCode s i = .ok gci := by
          unfold fixedCode
          rw [← hinv.rest i le_rfl, hr]
          exact hc
        have hmax : ∀ c : Int, c ≤ st.2 → c ≤ (if gci > st.2 then gci else st.2) := by
          intro c hcle
          split_ifs <;> omega
        refine ⟨by rw [← hinv.len]; exact writeAt_length hw, ?_, ?_, ?_⟩
        · intro j hj
          by_cases hji : j = i
          · subst hji
            refine ⟨gci, hfix, readAt_writeAt_same hw, ?_⟩
            show gci ≤ (if gci > st.2 then gci else st.2)
            split_ifs <;> omega
          · obtain ⟨c, h1, h2, h3⟩ := hinv.fixed j (by omega)
            refine ⟨c, h1, ?_, hmax c h3⟩
            show readAt gc j = .ok c
            rw [readAt_writeAt_ne hw (by omega)]
            exact h2
        · intro j hj
          show readAt gc j = _
          rw [readAt_writeAt_ne hw (by omega)]
          exact hinv.rest j (by omega)
        · show (if gci > st.2 then gci else st.2) = -1 ∨
            ∃ (j : Nat), j < i + 1 ∧ readAt gc j = .ok (if gci > st.2 then gci else st.2)
          by_cases hgt : gci > st.2
          · rw [if_pos hgt]
            exact Or.inr ⟨i, by omega, readAt_writeAt_same hw⟩
          · rw [if_neg hgt]
            rcases hinv.maxcode with h1 | ⟨j, hj, h1⟩
            · exact Or.inl h1
            · refine Or.inr ⟨j, by omega, ?_⟩
              rw [readAt_writeAt_ne hw (by omega)]
              exact h1

/-- A round of the "fix all groups" loop does not fault when its position has a rooted code. -/
theorem fixStep_total {s : Groups} {i : Nat} {st : List Int × Int} (hinv : FixInv s i st)
    (hi : i < s.groupcodes.length) {c : Int} (hc : fixedCode s i = .ok c) :
    ∃ st', fixStep s.grouplookup i st = .ok st' := by
  obtain ⟨ci, k, h1, h2⟩ := fixedCode_eq_ok.1 hc
  have hr : readAt st.1 i = .ok ci := by rw [hinv.rest i le_rfl]; exact h1
  have hw := writeAt_of_range (a := st.1) (i := (i : Int)) c (by omega)
    (by rw [hinv.len]; omega)
  exact ⟨(st.1.set (i : Int).toNat c, if c > st.2 then c else st.2),
    by simp only [fixStep, hr, chase_of_reaches h2, hw]⟩

/-- When it ends, the "fix all groups" loop has stored the fixed code at every position. -/
theorem fixAllGroups_ok {s : Groups} {st : List Int × Int} (h : fixAllGroups s = .ok st) :
    FixInv s s.groupcodes.length st := by
  have := forRange_ok (fixStep s.grouplookup) (fun i t => FixInv s i t) s.groupcodes.length 0
    (s.groupcodes, -1) st (fixInv_init s) (fun i t t' _ _ h3 h4 => fixStep_inv h3 h4) h
  rw [Nat.zero_add] at this
  exact this

/-- The "fix all groups" loop ends when every position has a rooted code. -/
theorem fixAllGroups_total {s : Groups}
    (hall : ∀ (i : Nat), i < s.groupcodes.length → ∃ c, fixedCode s i = .ok c) :
    ∃ st, fixAllGroups s = .ok st := by
  obtain ⟨st, hst, _⟩ := forRange_total (fixStep s.grouplookup) (fun i t => FixInv s i t)
    s.groupcodes.length 0 (s.groupcodes, -1) (fixInv_init s)
    (fun i t _ h2 h3 => by
      obtain ⟨c, hc⟩ := hall i (by omega)
      obtain ⟨t', ht'⟩ := fixStep_total h3 (by omega) hc
      exact ⟨t', ht', fixStep_inv h3 ht'⟩)
  exact ⟨st, hst⟩

theorem forRange_succ_last {σ : Type} (body : Nat → σ → Except Fault σ) (count : Nat) :
    ∀ (lo : Nat) (s : σ), forRange body lo (count + 1) s =
      match forRange body lo count s with
      | .ok s' => body (lo + count) s'
      | .error e => .error e := by
  induction count with
  | zero =>
    intro lo s
    simp only [forRange, Nat.add_zero]
    cases body lo s <;> rfl
  | succ k ih =>
    intro lo s
    rw [forRange]
    cases hb : body lo s with
    | error e => simp [forRange, hb]
    | ok t =>
      simp only []
      rw [ih (lo + 1) t]
      have e : lo + 1 + k = lo + (k + 1) := by omega
      rw [e]
      conv_rhs => rw [forRange]
      simp only [hb]

/-! ## What the grouping of one species achieves -/

theorem withinTolerance_comm (md : Int) (a b : Nat) :
    withinTolerance md a b = withinTolerance md b a := by
  unfold withinTolerance
  rw [Nat.xor_comm]

theorem hammingDistance_comm (a b : Nat) : hammingDistance a b = hammingDistance b a := by
  unfold hammingDistance
  rw [Nat.xor_comm]

theorem Linked.swap {md : Int} {gs : List Nat} {i j : Nat} (h : Linked md gs i j) :
    Linked md gs j i :=
  ⟨h.2.1, h.1, by rw [withinTolerance_comm]; exact h.2.2⟩

theorem getD_mem {gs : List Nat} {i : Nat} (h : i < gs.length) : gs.getD i 0 ∈ gs := by
  rw [List.getD_eq_getElem _ _ h]
  exact List.getElem_mem h

theorem Linked.distance {md : Int} {gs : List Nat} (h64 : ∀ g ∈ gs, g < 2 ^ 64) {i j : Nat}
    (h : Linked md gs i j) : (hammingDistance (gs.getD i 0) (gs.getD j 0) : Int) ≤ md :=
  (withinTolerance_iff md _ _ (h64 _ (getD_mem h.1)) (h64 _ (getD_mem h.2.1))).1 h.2.2

theorem linked_of_distance {md : Int} {gs : List Nat} (h64 : ∀ g ∈ gs, g < 2 ^ 64) {i j : Nat}
    (hi : i < gs.length) (hj : j < gs.length)
    (h : (hammingDistance (gs.getD i 0) (gs.getD j 0) : Int) ≤ md) : Linked md gs i j :=
  ⟨hi, hj, (withinTolerance_iff md _ _ (h64 _ (getD_mem hi)) (h64 _ (getD_mem hj))).2 h⟩

/-- A chain of linked positions gives a chain of genomes of the set. -/
theorem Joined.chain {md : Int} {gs : List Nat} (h64 : ∀ g ∈ gs, g < 2 ^ 64) {i j : Nat}
    (hj : j < gs.length) (h : Joined md gs i j) :
    ∃ chain, IsChain md gs (gs.getD i 0) (gs.getD j 0) chain := by
  induction h using Relation.ReflTransGen.head_induction_on with
  | refl =>
    refine ⟨[gs.getD j 0], rfl, rfl, ?_, List.chain'_singleton _⟩
    intro g hg
    rw [List.mem_singleton] at hg
    rw [hg]
    exact getD_mem hj
  | @head a c hac _ ih =>
    obtain ⟨chain, h1, h2, h3, h4⟩ := ih
    have hl : Linked md gs a c := by
      rcases hac with h | h
      · exact h
      · exact h.swap
    obtain ⟨y, ys, rfl⟩ : ∃ y ys, chain = y :: ys := by
      cases chain with
      | nil => cases h1
      | cons y ys => exact ⟨y, ys, rfl⟩
    simp only [List.head?_cons, Option.some.injEq] at h1
    subst h1
    refine ⟨gs.getD a 0 :: gs.getD c 0 :: ys, rfl, ?_, ?_, ?_⟩
    · rw [List.getLast?_cons_cons]; exact h2
    · intro g hg
      rcases List.mem_cons.1 hg with rfl | hg
      · exact getD_mem hl.1
      · exact h3 g hg
    · exact List.Chain'.cons (hl.distance h64) h4

/-- After the sweep every position but the last has a group code, and the last one has a code
exactly when it is linked to an earlier position. -/
theorem sweep_codes {md : Int} {gs : List Nat} {s : Groups}
    (hinv : OuterInv md gs (gs.length - 1) s) (j : Nat) (hj : j < gs.length) :
    (j + 1 < gs.length ∨ ∃ i, i < j ∧ Linked md gs i j) ∧ (∃ c, fixedCode s j = .ok c) ∨
    (j + 1 = gs.length ∧ (∀ i, i < j → ¬ Linked md gs i j)) ∧
      readAt s.groupcodes j = .ok (-1) := by
  have hwf := hinv.wf
  have hnl := hinv.next_le
  obtain ⟨v, hv⟩ := readAt_of_range (a := s.groupcodes) (i := (j : Int))
    (by omega) (by rw [hwf.len_codes]; omega)
  by_cases hun : v = -1
  · subst hun
    right
    have hnofix : ¬ ∃ c, fixedCode s j = .ok c := by
      rintro ⟨c, hc⟩
      obtain ⟨ci, k, h1, h2⟩ := fixedCode_eq_ok.1 hc
      rw [hv] at h1
      cases h1
      exact not_reaches_neg_one h2
    refine ⟨⟨?_, ?_⟩, hv⟩
    · by_contra hlast
      obtain ⟨w, hw1, hw2⟩ := hinv.early j (by omega) hj
      rw [hv] at hw1
      cases hw1
      exact hw2 rfl
    · intro i hi hl
      have hi' : i < gs.length - 1 := by omega
      obtain ⟨c, _, hc⟩ := sameGroup_iff_fixedCode.1 (hinv.done i j hi hj hi' hl)
      exact hnofix ⟨c, hc⟩
  · left
    constructor
    · rcases hinv.assigned j v hv hun with h | h
      · left; omega
      · right; exact h
    · have hg : 0 ≤ v ∧ v < s.nextGroup := by
        rcases hwf.codes _ _ hv with h | h
        · exact absurd h hun
        · exact h
      obtain ⟨r, k, hr⟩ := hwf.rooted v hg.1 (by omega)
      exact ⟨r, fixedCode_eq_ok.2 ⟨v, k, hv, hr⟩⟩

/-- Soundness of the sweep: positions with the same fixed code are joined by a chain. -/
theorem sweep_sound {md : Int} {gs : List Nat} {s : Groups} {first : Nat}
    (hinv : OuterInv md gs first s) {i j : Nat} {c : Int} (hi : fixedCode s i = .ok c)
    (hj : fixedCode s j = .ok c) : Joined md gs i j := by
  obtain ⟨own, hsound⟩ := hinv.sound
  obtain ⟨ci, k, h1, h2⟩ := fixedCode_eq_ok.1 hi
  obtain ⟨cj, k', h3, h4⟩ := fixedCode_eq_ok.1 hj
  have n1 : ci ≠ -1 := fun e => not_reaches_neg_one (e ▸ h2)
  have n2 : cj ≠ -1 := fun e => not_reaches_neg_one (e ▸ h4)
  have j1 := (hsound.1 i ci h1 n1).trans (hsound.along h2)
  have j2 := (hsound.1 j cj h3 n2).trans (hsound.along h4)
  exact j1.trans j2.symm

/-- Completeness of the sweep: two different linked positions get the same fixed code. -/
theorem sweep_complete {md : Int} {gs : List Nat} {s : Groups}
    (hinv : OuterInv md gs (gs.length - 1) s) {i j : Nat} (hij : i ≠ j)
    (hl : Linked md gs i j) : ∃ c, fixedCode s i = .ok c ∧ fixedCode s j = .ok c := by
  rcases Nat.lt_or_gt_of_ne hij with h | h
  · exact sameGroup_iff_fixedCode.1 (hinv.done i j h hl.2.1 (by have := hl.2.1; omega) hl)
  · obtain ⟨c, h1, h2⟩ :=
      sameGroup_iff_fixedCode.1 (hinv.done j i h hl.1 (by have := hl.1; omega) hl.swap)
    exact ⟨c, h2, h1⟩

/-- Completeness for whole components: two different positions joined by a chain get the same
fixed code. -/
theorem sweep_complete_chain {md : Int} {gs : List Nat} {s : Groups}
    (hinv : OuterInv md gs (gs.length - 1) s) {i j : Nat} (hij : i ≠ j)
    (h : Joined md gs i j) : ∃ c, fixedCode s i = .ok c ∧ fixedCode s j = .ok c := by
  induction h with
  | refl => exact absurd rfl hij
  | @tail b c _ hbc ih =>
    have hl : Linked md gs b c := by
      rcases hbc with h | h
      · exact h
      · exact h.swap
    by_cases hib : i = b
    · subst hib
      exact sweep_complete hinv hij hl
    · obtain ⟨c1, h1, h2⟩ := ih hib
      by_cases hbc' : b = c
      · subst hbc'
        exact ⟨c1, h1, h2⟩
      · obtain ⟨c2, h3, h4⟩ := sweep_complete hinv hbc' hl
        rw [h2] at h3
        cases h3
        exact ⟨c1, h1, h4⟩

/-- The codes that `groupGenomes` returns are the fixed codes of the positions. -/
theorem groupGenomes_codes {md : Int} {gs : List Nat} {codes : List Int} {maxcode : Int}
    (h : groupGenomes md gs = .ok (codes, maxcode)) :
    codes.length = gs.length ∧
    ∀ (i : Nat) (c : Int), readAt codes i = .ok c ↔ EndsWithCode md gs i c := by
  obtain ⟨s, hs, hinv⟩ := pairwiseSweep_inv md gs
  unfold groupGenomes at h
  rw [hs] at h
  have hfix := fixAllGroups_ok h
  have hlen : codes.length = gs.length := by
    have := hfix.len
    rw [hinv.wf.len_codes] at this
    exact this
  refine ⟨hlen, ?_⟩
  intro i c
  constructor
  · intro hr
    have hi : i < gs.length := by
      have := (readAt_range hr).2
      omega
    obtain ⟨c', h1, h2, _⟩ := hfix.fixed i (by rw [hinv.wf.len_codes]; exact hi)
    have h2' : readAt codes i = .ok c' := h2
    rw [hr] at h2'
    cases h2'
    exact ⟨s, hs, h1⟩
  · rintro ⟨s', hs', hc⟩
    rw [hs] at hs'
    cases hs'
    have hi : i < gs.length := by
      obtain ⟨ci, k, h1, _⟩ := fixedCode_eq_ok.1 hc
      have := (readAt_range h1).2
      rw [hinv.wf.len_codes] at this
      omega
    obtain ⟨c', h1, h2, _⟩ := hfix.fixed i (by rw [hinv.wf.len_codes]; exact hi)
    rw [hc] at h1
    cases h1
    exact h2

/-- The grouping of one species returns its codes when the last genome of the static array is
linked to an earlier one. -/
theorem groupGenomes_total {md : Int} {gs : List Nat}
    (hlast : ∃ i, i + 1 < gs.length ∧ Linked md gs i (gs.length - 1)) :
    ∃ codes maxcode, groupGenomes md gs = .ok (codes, maxcode) := by
  obtain ⟨s, hs, hinv⟩ := pairwiseSweep_inv md gs
  have hall : ∀ (i : Nat), i < s.groupcodes.length → ∃ c, fixedCode s i = .ok c := by
    intro i hi
    rw [hinv.wf.len_codes] at hi
    rcases sweep_codes hinv i hi with ⟨_, h⟩ | ⟨⟨h1, h2⟩, _⟩
    · exact h
    · obtain ⟨i0, h3, h4⟩ := hlast
      have e : gs.length - 1 = i := by omega
      rw [e] at h4
      exact absurd h4 (h2 i0 (by omega))
  obtain ⟨st, hst⟩ := fixAllGroups_total hall
  refine ⟨st.1, st.2, ?_⟩
  unfold groupGenomes
  rw [hs]
  exact hst

theorem chase_neg_one {lk : List Int} (h : 0 < lk.length) :
    chase lk (-1) = .error .indexOutOfRange := by
  unfold chase
  obtain ⟨m, hm⟩ : ∃ m, lk.length = m + 1 := ⟨lk.length - 1, by omega⟩
  rw [hm]
  simp [chaseFrom, readAt_neg]

/-- The grouping of one species reads `grouplookup[-1]` when the last genome of the static
array is linked to no earlier one: the sweep leaves its code at `-1`. -/
theorem groupGenomes_fault {md : Int} {gs : List Nat} (hn : 1 ≤ gs.length)
    (hlast : ∀ i, i + 1 < gs.length → ¬ Linked md gs i (gs.length - 1)) :
    ∃ s, pairwiseSweep md gs = .ok s ∧
      readAt s.groupcodes ((gs.length - 1 : Nat) : Int) = .ok (-1) ∧
      groupGenomes md gs = .error .indexOutOfRange := by
  obtain ⟨s, hs, hinv⟩ := pairwiseSweep_inv md gs
  have hcode : readAt s.groupcodes ((gs.length - 1 : Nat) : Int) = .ok (-1) := by
    rcases sweep_codes hinv (gs.length - 1) (by omega) with ⟨h1, _⟩ | ⟨_, h⟩
    · rcases h1 with h1 | ⟨i, hi, hl⟩
      · omega
      · exact absurd hl (hlast i (by omega))
    · exact h
  refine ⟨s, hs, hcode, ?_⟩
  have hlen := hinv.wf.len_codes
  obtain ⟨st, hst, hfinv⟩ := forRange_total (fixStep s.grouplookup) (fun i t => FixInv s i t)
    (gs.length - 1) 0 (s.groupcodes, -1) (fixInv_init s)
    (fun i t _ h2 h3 => by
      have hi : i < gs.length := by omega
      rcases sweep_codes hinv i hi with ⟨_, ⟨c, hc⟩⟩ | ⟨⟨h1, _⟩, _⟩
      · obtain ⟨t', ht'⟩ := fixStep_total h3 (by omega) hc
        exact ⟨t', ht', fixStep_inv h3 ht'⟩
      · omega)
  rw [Nat.zero_add] at hfinv
  unfold groupGenomes
  rw [hs]
  show fixAllGroups s = _
  unfold fixAllGroups
  have e : s.groupcodes.length = (gs.length - 1) + 1 := by omega
  rw [e, forRange_succ_last, hst]
  simp only [Nat.zero_add]
  have hr : readAt st.1 ((gs.length - 1 : Nat) : Int) = .ok (-1) := by
    rw [hfinv.rest _ le_rfl]; exact hcode
  unfold fixStep
  rw [hr]
  simp only []
  rw [chase_neg_one (by rw [hinv.wf.len_lookup]; omega)]


/-! ## Claims C1 to C4: the grouping of the genomes of one species -/

theorem getD_inj {gs : List Nat} (hnd : gs.Nodup) {i j : Nat} (hi : i < gs.length)
    (hj : j < gs.length) (h : gs.getD i 0 = gs.getD j 0) : i = j := by
  rw [List.getD_eq_getElem _ _ hi, List.getD_eq_getElem _ _ hj] at h
  exact (List.Nodup.getElem_inj_iff hnd).1 h

theorem exists_getD_of_mem {gs : List Nat} {g : Nat} (h : g ∈ gs) :
    ∃ i, i < gs.length ∧ gs.getD i 0 = g := by
  obtain ⟨i, hi, rfl⟩ := List.getElem_of_mem h
  exact ⟨i, hi, List.getD_eq_getElem _ _ hi⟩

/-- A chain of genomes of the set gives a chain of linked positions. -/
theorem joined_of_isChain {md : Int} {gs : List Nat} (hnd : gs.Nodup)
    (h64 : ∀ g ∈ gs, g < 2 ^ 64) {j : Nat} (hj : j < gs.length) (chain : List Nat) :
    ∀ (i : Nat), i < gs.length → IsChain md gs (gs.getD i 0) (gs.getD j 0) chain →
      Joined md gs i j := by
  induction chain with
  | nil => intro i _ h; cases h.1
  | cons x rest ih =>
    intro i hi h
    obtain ⟨h1, h2, h3, h4⟩ := h
    simp only [List.head?_cons, Option.some.injEq] at h1
    cases rest with
    | nil =>
      simp only [List.getLast?_singleton, Option.some.injEq] at h2
      have : i = j := getD_inj hnd hi hj (h1.symm.trans h2)
      rw [this]
      exact Joined.refl _ _ _
    | cons y rest' =>
      obtain ⟨iy, hiy, hy⟩ := exists_getD_of_mem (h3 y (by simp))
      have hxy : (hammingDistance x y : Int) ≤ md := (List.chain'_cons.1 h4).1
      have hl : Linked md gs i iy := by
        apply linked_of_distance h64 hi hiy
        rw [← h1, hy]
        exact hxy
      refine (Joined.of_linked hl).trans (ih iy hiy ⟨?_, ?_, ?_, ?_⟩)
      · rw [hy]; rfl
      · rw [List.getLast?_cons_cons] at h2; exact h2
      · intro g hg; exact h3 g (List.mem_cons_of_mem _ hg)
      · exact (List.chain'_cons.1 h4).2

/-- C1. In groupsGenealogicalTracker, for every set of genomes of a species and every
maxDifference: two genomes for which the final "fix all groups" pass stores the same group
code are joined by a chain of genomes of that set in which every consecutive pair has 64-bit
Hamming distance at most maxDifference. The first part is about the code that the pass stores
at each position that the sweep has given a code, the second about the codes of a pass that
has run to its end. The third part is where this stops: when the last genome is within
maxDifference of no earlier genome, the sweep leaves it without a code and the pass reads
`grouplookup[-1]`, so that the code the last genome ends with is not one the sweep has
made; the species of the two genomes 0 and 255 with the tolerance 2 is such a set. -/
theorem C1_same_code_is_joined (maxDifference : Int) (genomes : List Nat)
    (h64 : ∀ g ∈ genomes, g < 2 ^ 64) :
    (∀ (i j : Nat) (c : Int), EndsWithCode maxDifference genomes i c →
        EndsWithCode maxDifference genomes j c →
        ∃ chain, IsChain maxDifference genomes (genomes.getD i 0) (genomes.getD j 0) chain) ∧
    (∀ (codes : List Int) (maxcode : Int),
        groupGenomes maxDifference genomes = .ok (codes, maxcode) →
        ∀ (i j : Nat) (c : Int), readAt codes i = .ok c → readAt codes j = .ok c →
        ∃ chain, IsChain maxDifference genomes (genomes.getD i 0) (genomes.getD j 0) chain) ∧
    ((1 ≤ genomes.length →
        (∀ i, i < genomes.length - 1 →
          ¬ (hammingDistance (genomes.getD i 0) (genomes.getD (genomes.length - 1) 0) : Int)
              ≤ maxDifference) →
        ∃ s, pairwiseSweep maxDifference genomes = .ok s ∧
          readAt s.groupcodes ((genomes.length - 1 : Nat) : Int) = .ok (-1) ∧
          fixedCode s (genomes.length - 1) = .error .indexOutOfRange ∧
          groupGenomes maxDifference genomes = .error .indexOutOfRange) ∧
      groupGenomes 2 [0, 255] = .error .indexOutOfRange ∧
      ¬ (hammingDistance 0 255 : Int) ≤ 2) := by
  have main : ∀ (i j : Nat) (c : Int), EndsWithCode maxDifference genomes i c →
      EndsWithCode maxDifference genomes j c →
      ∃ chain, IsChain maxDifference genomes (genomes.getD i 0) (genomes.getD j 0) chain := by
    rintro i j c ⟨s, hs, hi⟩ ⟨s', hs', hj⟩
    rw [hs] at hs'
    cases hs'
    obtain ⟨t, ht, hinv⟩ := pairwiseSweep_inv maxDifference genomes
    rw [hs] at ht
    cases ht
    have hjl : j < genomes.length := by
      obtain ⟨cj, k, h1, _⟩ := fixedCode_eq_ok.1 hj
      have := (readAt_range h1).2
      rw [hinv.wf.len_codes] at this
      omega
    exact (sweep_sound hinv hi hj).chain h64 hjl
  refine ⟨main, ?_, ⟨?_, by decide, by decide⟩⟩
  · intro codes maxcode h i j c hi hj
    have hc := (groupGenomes_codes h).2
    exact main i j c ((hc i c).1 hi) ((hc j c).1 hj)
  · intro hn hlast
    obtain ⟨s, hs, hcode, hfault⟩ :=
      groupGenomes_fault hn (fun i hi hl => hlast i (by omega) (hl.distance h64))
    obtain ⟨t, ht, hinv⟩ := pairwiseSweep_inv maxDifference genomes
    rw [hs] at ht
    cases ht
    refine ⟨s, hs, hcode, ?_, hfault⟩
    unfold fixedCode
    rw [hcode]
    exact chase_neg_one (by rw [hinv.wf.len_lookup]; omega)

/-- Witness for C1: six genomes, two groups; and the two genomes 0 and 255, whose pass reads
outside the table. -/
theorem C1_same_code_is_joined_witness :
    groupGenomes 2 [0, 65280, 1, 65281, 65283, 3] = .ok ([0, 1, 0, 1, 1, 0], 1) ∧
    (∃ chain, IsChain 2 [0, 65280, 1, 65281, 65283, 3] 0 3 chain) ∧
    groupGenomes 2 [0, 255] = .error .indexOutOfRange :=
  ⟨by decide,
   (C1_same_code_is_joined 2 [0, 65280, 1, 65281, 65283, 3] (by decide)).2.1
     [0, 1, 0, 1, 1, 0] 1 (by decide) 0 5 0 (by decide) (by decide),
   (C1_same_code_is_joined 2 [0, 255] (by decide)).2.2.2.1⟩

/-- C2. In groupsGenealogicalTracker, for every set of distinct genomes of a species and
every maxDifference: any two genomes of the set whose 64-bit Hamming distance is at most
maxDifference end the final "fix all groups" pass with the same group code, and so do any two
genomes joined by a chain of such pairs (a connected component of the threshold graph lies
inside one group). The last part is about the codes of a pass that has run to its end. -/
theorem C2_linked_genomes_share_code (maxDifference : Int) (genomes : List Nat)
    (hdistinct : genomes.Nodup) (h64 : ∀ g ∈ genomes, g < 2 ^ 64) :
    (∀ (i j : Nat), i < genomes.length → j < genomes.length → i ≠ j →
        (hammingDistance (genomes.getD i 0) (genomes.getD j 0) : Int) ≤ maxDifference →
        ∃ c, EndsWithCode maxDifference genomes i c ∧ EndsWithCode maxDifference genomes j c) ∧
    (∀ (i j : Nat) (chain : List Nat), i < genomes.length → j < genomes.length → i ≠ j →
        IsChain maxDifference genomes (genomes.getD i 0) (genomes.getD j 0) chain →
        ∃ c, EndsWithCode maxDifference genomes i c ∧ EndsWithCode maxDifference genomes j c) ∧
    (∀ (codes : List Int) (maxcode : Int),
        groupGenomes maxDifference genomes = .ok (codes, maxcode) →
        ∀ (i j : Nat), i < genomes.length → j < genomes.length →
        (hammingDistance (genomes.getD i 0) (genomes.getD j 0) : Int) ≤ maxDifference →
        ∃ c, readAt codes i = .ok c ∧ readAt codes j = .ok c) := by
  obtain ⟨s, hs, hinv⟩ := pairwiseSweep_inv maxDifference genomes
  have pair : ∀ (i j : Nat), i < genomes.length → j < genomes.length → i ≠ j →
      (hammingDistance (genomes.getD i 0) (genomes.getD j 0) : Int) ≤ maxDifference →
      ∃ c, EndsWithCode maxDifference genomes i c ∧ EndsWithCode maxDifference genomes j c := by
    intro i j hi hj hij hd
    obtain ⟨c, h1, h2⟩ := sweep_complete hinv hij (linked_of_distance h64 hi hj hd)
    exact ⟨c, ⟨s, hs, h1⟩, ⟨s, hs, h2⟩⟩
  refine ⟨pair, ?_, ?_⟩
  · intro i j chain hi hj hij hch
    obtain ⟨c, h1, h2⟩ :=
      sweep_complete_chain hinv hij (joined_of_isChain hdistinct h64 hj chain i hi hch)
    exact ⟨c, ⟨s, hs, h1⟩, ⟨s, hs, h2⟩⟩
  · intro codes maxcode h i j hi hj hd
    have hc := groupGenomes_codes h
    by_cases hij : i = j
    · subst hij
      obtain ⟨c, hr⟩ := readAt_of_range (a := codes) (i := (i : Int)) (by omega)
        (by rw [hc.1]; omega)
      exact ⟨c, hr, hr⟩
    · obtain ⟨c, h1, h2⟩ := pair i j hi hj hij hd
      exact ⟨c, (hc.2 i c).2 h1, (hc.2 j c).2 h2⟩

/-- Witness for C2: positions 1 and 3 hold genomes at distance 1 and both end with code 1;
here the pass as a whole runs to its end. -/
theorem C2_linked_genomes_share_code_witness :
    groupGenomes 2 [0, 65280, 1, 65281, 65283, 3] = .ok ([0, 1, 0, 1, 1, 0], 1) ∧
    ∃ c, readAt [0, 1, 0, 1, 1, 0] 1 = .ok c ∧ readAt [0, 1, 0, 1, 1, 0] 3 = .ok c :=
  ⟨by decide,
   (C2_linked_genomes_share_code 2 [0, 65280, 1, 65281, 65283, 3] (by decide)
     (by decide)).2.2 [0, 1, 0, 1, 1, 0] 1 (by decide) 1 3 (by decide) (by decide)
     (by decide)⟩

/-- C3. What the code does where the claim fails: when the last genome of the static array is
within maxDifference of no earlier genome (in particular when the species has one genome),
the pairwise sweep ends with `groupcodes[n - 1] = -1`, and the "fix all groups" pass reads
`grouplookup[-1]`. -/
theorem C3_last_genome_left_unassigned (maxDifference : Int) (genomes : List Nat)
    (h64 : ∀ g ∈ genomes, g < 2 ^ 64) (hn : 1 ≤ genomes.length)
    (hlast : ∀ i, i < genomes.length - 1 →
      ¬ (hammingDistance (genomes.getD i 0) (genomes.getD (genomes.length - 1) 0) : Int)
          ≤ maxDifference) :
    ∃ s, pairwiseSweep maxDifference genomes = .ok s ∧
      readAt s.groupcodes ((genomes.length - 1 : Nat) : Int) = .ok (-1) ∧
      groupGenomes maxDifference genomes = .error .indexOutOfRange :=
  groupGenomes_fault hn (fun i hi hl => hlast i (by omega) (hl.distance h64))

/-- Witness for C3: a species with the two genomes 0 and 255, at distance 8. -/
theorem C3_last_genome_left_unassigned_witness :
    ∃ s, pairwiseSweep 2 [0, 255] = .ok s ∧ readAt s.groupcodes 1 = .ok (-1) ∧
      groupGenomes 2 [0, 255] = .error .indexOutOfRange :=
  C3_last_genome_left_unassigned 2 [0, 255] (by decide) (by decide) (by decide)

/-- C4. With `bitcounts` built by MakeLookups, every entry `bitcounts[v]`, `v` in 0..65535, is
the Hamming weight of `v`, and the linking test of the identifier accepts a pair of 64-bit
genomes exactly when their Hamming distance `popcount(a XOR b)` is at most maxDifference. -/
theorem C4_linking_test_is_hamming_threshold :
    (∀ v : Nat, v < 65536 → bitCounts v = popcount v) ∧
    (∀ (maxDifference : Int) (a b : Nat), a < 2 ^ 64 → b < 2 ^ 64 →
      (withinTolerance maxDifference a b = true ↔
        (hammingDistance a b : Int) ≤ maxDifference)) :=
  ⟨bitCounts_eq_popcount, withinTolerance_iff⟩

/-- Witness for C4: the table entry of 65535 and the test on two genomes at distance 64. -/
theorem C4_linking_test_is_hamming_threshold_witness :
    bitCounts 65535 = popcount 65535 ∧
    (withinTolerance 64 18446744073709551615 0 = true ↔
      (hammingDistance 18446744073709551615 0 : Int) ≤ 64) :=
  ⟨C4_linking_test_is_hamming_threshold.1 65535 (by decide),
   C4_linking_test_is_hamming_threshold.2 64 18446744073709551615 0 (by decide) (by decide)⟩

/-! ## Loops over lists -/

/-- Loop rule for `forEach`: a property of the entries done so far and the state, kept by
every round that does not fault, holds at the end of a loop that ran to its end. -/
theorem forEach_inv {α σ : Type} (body : α → σ → Except Fault σ) (full : List α)
    (Q : List α → σ → Prop)
    (hstep : ∀ (d : List α) (a : α) (r : List α) (t t' : σ), full = d ++ a :: r → Q d t →
      body a t = .ok t' → Q (d ++ [a]) t') :
    ∀ (l d : List α) (s s' : σ), full = d ++ l → Q d s → forEach body l s = .ok s' →
      Q full s' := by
  intro l
  induction l with
  | nil =>
    intro d s s' hfull hQ h
    simp only [forEach, Except.ok.injEq] at h
    subst h
    rw [hfull, List.append_nil]
    exact hQ
  | cons a rest ih =>
    intro d s s' hfull hQ h
    simp only [forEach] at h
    cases hb : body a s with
    | error e => rw [hb] at h; cases h
    | ok t =>
      rw [hb] at h
      exact ih (d ++ [a]) t s' (by rw [hfull]; simp) (hstep d a rest s t hfull hQ hb) h

/-- A `forEach` loop whose rounds do not fault under an invariant runs to its end. -/
theorem forEach_total {α σ : Type} (body : α → σ → Except Fault σ) (P : σ → Prop)
    (l : List α) : ∀ (s : σ), P s →
    (∀ a t, a ∈ l → P t → ∃ t', body a t = .ok t' ∧ P t') →
    ∃ s', forEach body l s = .ok s' ∧ P s' := by
  induction l with
  | nil => intro s h _; exact ⟨s, rfl, h⟩
  | cons a rest ih =>
    intro s h hstep
    obtain ⟨t, hb, hP⟩ := hstep a s (List.mem_cons_self _ _) h
    obtain ⟨s', hf, hQ⟩ := ih t hP (fun b u hb' hu => hstep b u (List.mem_cons_of_mem _ hb') hu)
    exact ⟨s', by simp only [forEach, hb]; exact hf, hQ⟩

/-! ## Packed positions -/

theorem unpack_packPosition {n m c : Nat} (hn : n < 65536) (hm : m < 256) (hc : c < 256) :
    unpack (packPosition n m c) = (n, m, c) := by
  have h : (n * 65536 + m * 256 + c) % 2 ^ 32 = n * 65536 + m * 256 + c := by
    apply Nat.mod_eq_of_lt
    norm_num
    omega
  unfold unpack unpackX unpackY unpackZ packPosition
  rw [h]
  refine Prod.ext ?_ (Prod.ext ?_ ?_) <;> simp only <;> omega

/-! ## Writing a species id into the slots of a group -/

theorem relabelSlots_apply (updatelist : List Nat) (newID : Nat) :
    ∀ (critters : Nat → Nat → Nat → Critter) (x y z : Nat),
    relabelSlots updatelist newID critters x y z =
      if (x, y, z) ∈ updatelist.map unpack then { critters x y z with speciesID := newID }
      else critters x y z := by
  induction updatelist with
  | nil => intro critters x y z; simp [relabelSlots]
  | cons v rest ih =>
    intro critters x y z
    have hstep : relabelSlots (v :: rest) newID critters =
        relabelSlots rest newID (setSpeciesID critters v newID) := rfl
    rw [hstep, ih]
    simp only [List.map_cons, List.mem_cons]
    by_cases hr : (x, y, z) ∈ rest.map unpack
    · simp only [hr, or_true, if_true]
      unfold setSpeciesID
      split_ifs <;> rfl
    · simp only [hr, or_false, if_false]
      unfold setSpeciesID unpack
      by_cases hv : x = unpackX v ∧ y = unpackY v ∧ z = unpackZ v
      · rw [if_pos hv, if_pos (by rw [hv.1, hv.2.1, hv.2.2])]
      · rw [if_neg hv, if_neg]
        intro h
        apply hv
        simp only [Prod.mk.injEq] at h
        exact h

theorem relabelSlots_append (l1 l2 : List Nat) (newID : Nat)
    (critters : Nat → Nat → Nat → Critter) :
    relabelSlots (l1 ++ l2) newID critters = relabelSlots l2 newID (relabelSlots l1 newID critters) := by
  unfold relabelSlots
  rw [List.foldl_append]

/-- The packed positions of the group `groupcode`: the position lists of its genomes, in the
order of the static arrays. -/
theorem relabelGroup_eq (slots : Nat → List Nat) (groupcode : Int) (newID : Nat) :
    ∀ (pairs : List (Nat × Int)) (acc : (Nat → Nat → Nat → Critter) × Nat × Nat),
    ((pairs.foldl
      (fun acc gc =>
        if gc.2 = groupcode then
          (relabelSlots (slots gc.1) newID acc.1, acc.2.1 + (slots gc.1).length, gc.1)
        else acc) acc).1 =
      relabelSlots ((pairs.filter fun gc => decide (gc.2 = groupcode)).flatMap
        fun gc => slots gc.1) newID acc.1) ∧
    ((pairs.foldl
      (fun acc gc =>
        if gc.2 = groupcode then
          (relabelSlots (slots gc.1) newID acc.1, acc.2.1 + (slots gc.1).length, gc.1)
        else acc) acc).2.1 =
      acc.2.1 + ((pairs.filter fun gc => decide (gc.2 = groupcode)).flatMap
        fun gc => slots gc.1).length) := by
  intro pairs
  induction pairs with
  | nil => intro acc; simp [relabelSlots]
  | cons gc rest ih =>
    intro acc
    simp only [List.foldl_cons]
    by_cases h : gc.2 = groupcode
    · rw [if_pos h]
      obtain ⟨h1, h2⟩ := ih (relabelSlots (slots gc.1) newID acc.1,
        acc.2.1 + (slots gc.1).length, gc.1)
      rw [h1, h2]
      have hf : (List.filter (fun gc => decide (gc.2 = groupcode)) (gc :: rest)) =
          gc :: List.filter (fun gc => decide (gc.2 = groupcode)) rest := by
        rw [List.filter_cons_of_pos]
        simp [h]
      rw [hf, List.flatMap_cons, relabelSlots_append, List.length_append]
      exact ⟨rfl, by simp only; omega⟩
    · rw [if_neg h]
      obtain ⟨h1, h2⟩ := ih acc
      rw [h1, h2]
      have hf : (List.filter (fun gc => decide (gc.2 = groupcode)) (gc :: rest)) =
          List.filter (fun gc => decide (gc.2 = groupcode)) rest := by
        rw [List.filter_cons_of_neg]
        simp [h]
      rw [hf]
      exact ⟨rfl, rfl⟩

/-! ## What the first loop gathers -/

theorem gatherInv_fold (s : Sim) (visited : List (Nat × Nat × Nat)) :
    GatherInv s visited
      (visited.foldl
        (fun g p => gatherCritter (s.critters p.1 p.2.1 p.2.2) p.1 p.2.1 p.2.2 g)
        Gathered.empty) := by
  induction visited using List.reverseRecOn with
  | nil =>
    refine ⟨List.nodup_nil, ?_, fun _ => List.nodup_nil, ?_, ?_, ?_⟩ <;>
      simp [Gathered.empty]
  | append_singleton l p ih =>
    rw [List.foldl_append]
    simp only [List.foldl_cons, List.foldl_nil]
    generalize (l.foldl
      (fun g p => gatherCritter (s.critters p.1 p.2.1 p.2.2) p.1 p.2.1 p.2.2 g)
      Gathered.empty) = g at ih ⊢
    have hcr : s.critters p.1 p.2.1 p.2.2 = critterAt s.critters p := rfl
    rw [hcr]
    refine ⟨?_, ?_, ?_, ?_, ?_, ?_⟩
    · show (if (critterAt s.critters p).speciesID ∈ g.speciesKeys then g.speciesKeys
        else g.speciesKeys ++ [(critterAt s.critters p).speciesID]).Nodup
      split_ifs with h
      · exact ih.keys_nodup
      · exact List.Nodup.append ih.keys_nodup (List.nodup_singleton _)
          (by simpa [List.disjoint_singleton] using h)
    · intro k
      show k ∈ (if (critterAt s.critters p).speciesID ∈ g.speciesKeys then g.speciesKeys
        else g.speciesKeys ++ [(critterAt s.critters p).speciesID]) ↔ _
      simp only [List.mem_append, List.mem_singleton]
      split_ifs with h
      · rw [ih.keys_mem]
        constructor
        · rintro ⟨q, hq, e⟩; exact ⟨q, Or.inl hq, e⟩
        · rintro ⟨q, hq | hq, e⟩
          · exact ⟨q, hq, e⟩
          · subst hq; rw [← e]; exact (ih.keys_mem _).1 h
      · rw [List.mem_append, List.mem_singleton, ih.keys_mem]
        constructor
        · rintro (⟨q, hq, e⟩ | e)
          · exact ⟨q, Or.inl hq, e⟩
          · exact ⟨p, Or.inr rfl, e.symm⟩
        · rintro ⟨q, hq | hq, e⟩
          · exact Or.inl ⟨q, hq, e⟩
          · subst hq; exact Or.inr e.symm
    · intro k
      show (if k = (critterAt s.critters p).speciesID then
          (if (critterAt s.critters p).genome ∈ g.genomedata k then g.genomedata k
           else g.genomedata k ++ [(critterAt s.critters p).genome])
        else g.genomedata k).Nodup
      split_ifs with h1 h2
      · exact ih.genomes_nodup k
      · exact List.Nodup.append (ih.genomes_nodup k) (List.nodup_singleton _)
          (by simpa [List.disjoint_singleton] using h2)
      · exact ih.genomes_nodup k
    · intro k q
      show q ∈ (if k = (critterAt s.critters p).speciesID then
          (if (critterAt s.critters p).genome ∈ g.genomedata k then g.genomedata k
           else g.genomedata k ++ [(critterAt s.critters p).genome])
        else g.genomedata k) ↔ _
      simp only [List.mem_append, List.mem_singleton]
      split_ifs with h1 h2
      · rw [ih.genomes_mem]
        constructor
        · rintro ⟨r, hr, e⟩; exact ⟨r, Or.inl hr, e⟩
        · rintro ⟨r, hr | hr, e1, e2⟩
          · exact ⟨r, hr, e1, e2⟩
          · subst hr; rw [← e2]; exact (ih.genomes_mem _ _).1 h2
      · rw [List.mem_append, List.mem_singleton, ih.genomes_mem]
        constructor
        · rintro (⟨r, hr, e⟩ | e)
          · exact ⟨r, Or.inl hr, e⟩
          · exact ⟨p, Or.inr rfl, h1.symm, e.symm⟩
        · rintro ⟨r, hr | hr, e1, e2⟩
          · exact Or.inl ⟨r, hr, e1, e2⟩
          · subst hr; exact Or.inr e2.symm
      · rw [ih.genomes_mem]
        constructor
        · rintro ⟨r, hr, e⟩; exact ⟨r, Or.inl hr, e⟩
        · rintro ⟨r, hr | hr, e1, e2⟩
          · exact ⟨r, hr, e1, e2⟩
          · subst hr; exact absurd e1.symm h1
    · intro k q
      show (if k = (critterAt s.critters p).speciesID ∧ q = (critterAt s.critters p).genome
        then g.slotswithgenome k q ++ [packPosition p.1 p.2.1 p.2.2]
        else g.slotswithgenome k q) = _
      rw [List.filter_append, List.map_append, ← ih.slots_eq]
      by_cases h : k = (critterAt s.critters p).speciesID ∧ q = (critterAt s.critters p).genome
      · rw [if_pos h, List.filter_cons_of_pos (by simp [h.1, h.2])]
        rfl
      · rw [if_neg h, List.filter_cons_of_neg]
        · simp
        · simp only [decide_eq_true_eq]
          rintro ⟨e1, e2⟩
          exact h ⟨e1.symm, e2.symm⟩
    · intro k
      show (if k = (critterAt s.critters p).speciesID then g.speciesSizes k + 1
        else g.speciesSizes k) = _
      rw [List.countP_append, ih.sizes_eq]
      by_cases h : k = (critterAt s.critters p).speciesID
      · rw [if_pos h]
        simp [h]
      · rw [if_neg h]
        have : ¬ (critterAt s.critters p).speciesID = k := fun e => h e.symm
        simp [this]

theorem gather_inv (s : Sim) : GatherInv s (gatheredSlots s) (gather s) :=
  gatherInv_fold s (gatheredSlots s)

theorem mem_gatheredSlots {s : Sim} {p : Nat × Nat × Nat} :
    p ∈ gatheredSlots s ↔ p.1 < s.gridX ∧ p.2.1 < s.gridY ∧ p.2.2 < s.slotsPerSquare ∧
      s.totalFitness p.1 p.2.1 ≠ 0 ∧ (critterAt s.critters p).age > 0 := by
  obtain ⟨x, y, z⟩ := p
  unfold gatheredSlots critterAt
  simp only [List.mem_flatMap, List.mem_range]
  constructor
  · rintro ⟨n, hn, m, hm, h⟩
    by_cases ht : s.totalFitness n m = 0
    · rw [if_pos ht] at h; cases h
    · rw [if_neg ht] at h
      simp only [List.mem_map, List.mem_filter, List.mem_range, decide_eq_true_eq,
        Prod.mk.injEq] at h
      obtain ⟨c, ⟨hc, ha⟩, rfl, rfl, rfl⟩ := h
      exact ⟨hn, hm, hc, ht, ha⟩
  · rintro ⟨hx, hy, hz, ht, ha⟩
    refine ⟨x, hx, y, hy, ?_⟩
    rw [if_neg ht]
    exact List.mem_map.2 ⟨z, List.mem_filter.2 ⟨List.mem_range.2 hz, by simpa using ha⟩, rfl⟩

theorem mem_liveSlots {s : Sim} {p : Nat × Nat × Nat} :
    p ∈ liveSlots s ↔ p.1 < s.gridX ∧ p.2.1 < s.gridY ∧ p.2.2 < s.slotsPerSquare ∧
      (critterAt s.critters p).age > 0 := by
  obtain ⟨x, y, z⟩ := p
  unfold liveSlots critterAt
  simp only [List.mem_flatMap, List.mem_range, List.mem_map, List.mem_filter,
    decide_eq_true_eq, Prod.mk.injEq]
  constructor
  · rintro ⟨n, hn, m, hm, c, ⟨hc, ha⟩, rfl, rfl, rfl⟩
    exact ⟨hn, hm, hc, ha⟩
  · rintro ⟨hx, hy, hz, ha⟩
    exact ⟨x, hx, y, hy, z, ⟨hz, ha⟩, rfl, rfl, rfl⟩

theorem nodup_slotList (f : Nat → Nat → List Nat) (hf : ∀ n m, (f n m).Nodup) (gx gy : Nat) :
    ((List.range gx).flatMap fun n =>
      (List.range gy).flatMap fun m => (f n m).map fun c => (n, m, c)).Nodup := by
  rw [List.nodup_flatMap]
  constructor
  · intro n _
    rw [List.nodup_flatMap]
    constructor
    · intro m _
      exact (hf n m).map (fun a b h => by simpa using h)
    · apply List.Nodup.pairwise_of_forall_ne (List.nodup_range gy)
      intro a _ b _ hab
      intro p hp1 hp2
      simp only [List.mem_map] at hp1 hp2
      obtain ⟨c1, _, rfl⟩ := hp1
      obtain ⟨c2, _, h⟩ := hp2
      simp only [Prod.mk.injEq] at h
      exact hab h.2.1.symm
  · apply List.Nodup.pairwise_of_forall_ne (List.nodup_range gx)
    intro a _ b _ hab
    intro p hp1 hp2
    simp only [List.mem_flatMap, List.mem_map] at hp1 hp2
    obtain ⟨m1, _, c1, _, rfl⟩ := hp1
    obtain ⟨m2, _, c2, _, h⟩ := hp2
    simp only [Prod.mk.injEq] at h
    exact hab h.1.symm

theorem gatheredSlots_nodup (s : Sim) : (gatheredSlots s).Nodup := by
  have := nodup_slotList
    (fun n m => if s.totalFitness n m = 0 then []
      else (List.range s.slotsPerSquare).filter fun c => decide ((s.critters n m c).age > 0))
    (fun n m => by
      show (if s.totalFitness n m = 0 then []
        else (List.range s.slotsPerSquare).filter
          fun c => decide ((s.critters n m c).age > 0)).Nodup
      split_ifs
      · exact List.nodup_nil
      · exact (List.nodup_range _).filter _) s.gridX s.gridY
  unfold gatheredSlots
  convert this using 6
  split_ifs <;> rfl

theorem liveSlots_nodup (s : Sim) : (liveSlots s).Nodup :=
  nodup_slotList
    (fun n m => (List.range s.slotsPerSquare).filter fun c => decide ((s.critters n m c).age > 0))
    (fun _ _ => (List.nodup_range _).filter _) s.gridX s.gridY

/-! ## The hash `groups` and the 'find biggest' loop -/

theorem countGroups_spec (groupcodes : List Int) :
    (countGroups groupcodes).keys.Nodup ∧
    (∀ k, k ∈ (countGroups groupcodes).keys ↔ k ∈ groupcodes) ∧
    (∀ k, (countGroups groupcodes).count k = (groupcodes.count k : Int)) := by
  unfold countGroups
  induction groupcodes using List.reverseRecOn with
  | nil => simp
  | append_singleton l c ih =>
    rw [List.foldl_append]
    simp only [List.foldl_cons, List.foldl_nil]
    generalize (l.foldl
      (fun g code =>
        ({ keys := if code ∈ g.keys then g.keys else g.keys ++ [code]
           count := fun k => if k = code then g.count k + 1 else g.count k } : GroupCounts))
      { keys := [], count := fun _ => 0 }) = g at ih ⊢
    obtain ⟨h1, h2, h3⟩ := ih
    refine ⟨?_, ?_, ?_⟩
    · show (if c ∈ g.keys then g.keys else g.keys ++ [c]).Nodup
      split_ifs with h
      · exact h1
      · exact List.Nodup.append h1 (List.nodup_singleton _)
          (by simpa [List.disjoint_singleton] using h)
    · intro k
      show k ∈ (if c ∈ g.keys then g.keys else g.keys ++ [c]) ↔ _
      split_ifs with h
      · rw [h2, List.mem_append, List.mem_singleton]
        constructor
        · intro hk; exact Or.inl hk
        · rintro (hk | hk)
          · exact hk
          · subst hk; exact (h2 _).1 h
      · simp only [List.mem_append, List.mem_singleton, h2]
    · intro k
      show (if k = c then g.count k + 1 else g.count k) = _
      rw [List.count_append, h3]
      by_cases h : k = c
      · subst h; simp
      · rw [if_neg h]
        have : List.count k [c] = 0 := by
          rw [List.count_eq_zero]
          simpa using h
        rw [this]
        simp

theorem count_pos_of_key {groupcodes : List Int} {k : Int}
    (h : k ∈ (countGroups groupcodes).keys) : 1 ≤ (countGroups groupcodes).count k := by
  obtain ⟨_, h2, h3⟩ := countGroups_spec groupcodes
  rw [h3]
  have := List.count_pos_iff.2 ((h2 k).1 h)
  omega

/-- The 'find biggest' loop returns a key of largest count. -/
theorem findBiggest_spec (groups : GroupCounts) (order : List Int)
    (hpos : ∀ k ∈ order, 1 ≤ groups.count k) (hne : order ≠ []) :
    (findBiggest groups order).2 ∈ order ∧
    (findBiggest groups order).1 = groups.count (findBiggest groups order).2 ∧
    ∀ k ∈ order, groups.count k ≤ groups.count (findBiggest groups order).2 := by
  unfold findBiggest
  have key : ∀ (l : List Int), (∀ k ∈ l, 1 ≤ groups.count k) →
      (l = [] ∧ l.foldl (fun acc k => if groups.count k > acc.1 then (groups.count k, k)
          else acc) (-1, -1) = ((-1 : Int), (-1 : Int))) ∨
      ((l.foldl (fun acc k => if groups.count k > acc.1 then (groups.count k, k)
          else acc) ((-1 : Int), (-1 : Int))).2 ∈ l ∧
        (l.foldl (fun acc k => if groups.count k > acc.1 then (groups.count k, k)
          else acc) ((-1 : Int), (-1 : Int))).1 =
          groups.count (l.foldl (fun acc k => if groups.count k > acc.1 then (groups.count k, k)
          else acc) ((-1 : Int), (-1 : Int))).2 ∧
        ∀ k ∈ l, groups.count k ≤ (l.foldl (fun acc k => if groups.count k > acc.1 then
          (groups.count k, k) else acc) ((-1 : Int), (-1 : Int))).1) := by
    intro l
    induction l using List.reverseRecOn with
    | nil => intro _; exact Or.inl ⟨rfl, rfl⟩
    | append_singleton l c ih =>
      intro hl
      right
      rw [List.foldl_append]
      simp only [List.foldl_cons, List.foldl_nil]
      have hc : 1 ≤ groups.count c := hl c (by simp)
      rcases ih (fun k hk => hl k (List.mem_append_left _ hk)) with ⟨hnil, h0⟩ | ⟨h1, h2, h3⟩
      · rw [h0]
        have : groups.count c > ((-1 : Int), (-1 : Int)).1 := by
          show groups.count c > -1
          omega
        rw [if_pos this]
        refine ⟨by simp, rfl, ?_⟩
        intro k hk
        rcases List.mem_append.1 hk with hk | hk
        · rw [hnil] at hk; cases hk
        · rw [List.mem_singleton] at hk; rw [hk]
      · generalize (l.foldl (fun acc k => if groups.count k > acc.1 then (groups.count k, k)
          else acc) ((-1 : Int), (-1 : Int))) = acc at h1 h2 h3 ⊢
        by_cases hgt : groups.count c > acc.1
        · rw [if_pos hgt]
          refine ⟨by simp, rfl, ?_⟩
          intro k hk
          rcases List.mem_append.1 hk with hk | hk
          · have := h3 k hk
            show groups.count k ≤ groups.count c
            omega
          · rw [List.mem_singleton] at hk; rw [hk]
        · rw [if_neg hgt]
          refine ⟨List.mem_append_left _ h1, h2, ?_⟩
          intro k hk
          rcases List.mem_append.1 hk with hk | hk
          · exact h3 k hk
          · rw [List.mem_singleton] at hk; rw [hk]; omega
  rcases key order hpos with ⟨h, _⟩ | ⟨h1, h2, h3⟩
  · exact absurd h hne
  · exact ⟨h1, h2, fun k hk => h2 ▸ h3 k hk⟩

/-! ## Genomes and their group codes -/

theorem zip_functional {gs : List Nat} (hnd : gs.Nodup) :
    ∀ {codes : List Int} {q : Nat} {k k' : Int}, (q, k) ∈ gs.zip codes →
      (q, k') ∈ gs.zip codes → k = k' := by
  induction gs with
  | nil => intro codes q k k' h; simp at h
  | cons a rest ih =>
    intro codes q k k' h h'
    cases codes with
    | nil => simp at h
    | cons b crest =>
      simp only [List.zip_cons_cons, List.mem_cons, Prod.mk.injEq] at h h'
      have hnd' := List.nodup_cons.1 hnd
      rcases h with ⟨rfl, rfl⟩ | h
      · rcases h' with ⟨_, rfl⟩ | h'
        · rfl
        · exact absurd (List.of_mem_zip h').1 hnd'.1
      · rcases h' with ⟨rfl, rfl⟩ | h'
        · exact absurd (List.of_mem_zip h).1 hnd'.1
        · exact ih hnd'.2 h h'

theorem exists_code_of_mem {gs : List Nat} :
    ∀ {codes : List Int}, gs.length = codes.length → ∀ {q : Nat}, q ∈ gs →
      ∃ k, (q, k) ∈ gs.zip codes := by
  induction gs with
  | nil => intro codes _ q h; cases h
  | cons a rest ih =>
    intro codes hlen q h
    cases codes with
    | nil => simp at hlen
    | cons b crest =>
      rcases List.mem_cons.1 h with rfl | h
      · exact ⟨b, by simp⟩
      · obtain ⟨k, hk⟩ := ih (by simpa using hlen) h
        exact ⟨k, by simp [hk]⟩

theorem exists_genome_of_code {gs : List Nat} :
    ∀ {codes : List Int}, gs.length = codes.length → ∀ {k : Int}, k ∈ codes →
      ∃ q, (q, k) ∈ gs.zip codes := by
  induction gs with
  | nil =>
    intro codes hlen k h
    cases codes with
    | nil => cases h
    | cons b crest => simp at hlen
  | cons a rest ih =>
    intro codes hlen k h
    cases codes with
    | nil => cases h
    | cons b crest =>
      rcases List.mem_cons.1 h with rfl | h
      · exact ⟨a, by simp⟩
      · obtain ⟨q, hq⟩ := ih (by simpa using hlen) h
        exact ⟨q, by simp [hq]⟩

theorem zip_nodup {gs : List Nat} (hnd : gs.Nodup) {codes : List Int}
    (hlen : gs.length = codes.length) : (gs.zip codes).Nodup := by
  apply List.Nodup.of_map Prod.fst
  rw [List.map_fst_zip _ _ (le_of_eq hlen)]
  exact hnd

/-! ## The slots of a group -/

/-- Under the compile-time bounds, the position list recorded for a genome decodes to the
gathered slots of that species and genome. -/
theorem slots_unpack {s : Sim} (hfit : FitsPacking s) (k q : Nat) :
    ((gather s).slotswithgenome k q).map unpack =
      (gatheredSlots s).filter fun p => decide ((critterAt s.critters p).speciesID = k ∧
        (critterAt s.critters p).genome = q) := by
  rw [(gather_inv s).slots_eq, List.map_map]
  have : ∀ p ∈ (gatheredSlots s).filter (fun p =>
      decide ((critterAt s.critters p).speciesID = k ∧ (critterAt s.critters p).genome = q)),
      (unpack ∘ fun p => packPosition p.1 p.2.1 p.2.2) p = id p := by
    intro p hp
    have hm := mem_gatheredSlots.1 (List.mem_filter.1 hp).1
    obtain ⟨h1, h2, h3⟩ := hfit
    obtain ⟨x, y, z⟩ := p
    have hx : x < s.gridX := hm.1
    have hy : y < s.gridY := hm.2.1
    have hz : z < s.slotsPerSquare := hm.2.2.1
    exact unpack_packPosition (n := x) (m := y) (c := z) (by omega) (by omega) (by omega)
  rw [List.map_congr_left this, List.map_id]

/-- The slots that line 452 writes for the group `groupcode` are, each once, the gathered
slots of the species whose genome has that group code. -/
theorem group_slots {s : Sim} (hfit : FitsPacking s) (speciesID : Nat) {gs : List Nat}
    (hnd : gs.Nodup) {codes : List Int} (hlen : gs.length = codes.length) (groupcode : Int) :
    ((((gs.zip codes).filter fun gc => decide (gc.2 = groupcode)).flatMap
        fun gc => (gather s).slotswithgenome speciesID gc.1).map unpack).Perm
      ((gatheredSlots s).filter (inGroup s speciesID gs codes groupcode)) := by
  rw [List.map_flatMap]
  simp only [slots_unpack hfit]
  have hzn : ((gs.zip codes).filter fun gc => decide (gc.2 = groupcode)).Nodup :=
    (zip_nodup hnd hlen).filter _
  apply (List.perm_ext_iff_of_nodup _ ((gatheredSlots_nodup s).filter _)).2
  · intro p
    simp only [List.mem_flatMap, List.mem_filter, decide_eq_true_eq, inGroup]
    constructor
    · rintro ⟨⟨q, c⟩, ⟨hz, hc⟩, hp, h1, h2⟩
      simp only at hc h1 h2
      subst hc
      exact ⟨hp, h1, by rw [h2]; exact hz⟩
    · rintro ⟨hp, h1, h2⟩
      exact ⟨((critterAt s.critters p).genome, groupcode), ⟨h2, rfl⟩, hp, h1, rfl⟩
  · rw [List.nodup_flatMap]
    constructor
    · intro gc _
      exact (gatheredSlots_nodup s).filter _
    · apply List.Nodup.pairwise_of_forall_ne hzn
      intro a ha b hb hab
      intro p hp1 hp2
      simp only [List.mem_filter, decide_eq_true_eq] at hp1 hp2 ha hb
      apply hab
      have e1 : a.1 = b.1 := by rw [← hp1.2.2, ← hp2.2.2]
      have e2 : a.2 = b.2 := by rw [ha.2, hb.2]
      exact Prod.ext e1 e2

/-- The effect of lines 435-457 on the critters and on `speciesSize`, slot by slot. -/
theorem relabelGroup_spec {s : Sim} (hfit : FitsPacking s) (speciesID : Nat) {gs : List Nat}
    (hnd : gs.Nodup) {codes : List Int} (hlen : gs.length = codes.length) (groupcode : Int)
    (newID : Nat) (critters : Nat → Nat → Nat → Critter) :
    (∀ p : Nat × Nat × Nat,
      critterAt (relabelGroup gs codes ((gather s).slotswithgenome speciesID) groupcode newID
          critters).1 p =
        if p ∈ gatheredSlots s ∧ inGroup s speciesID gs codes groupcode p = true then
          { critterAt critters p with speciesID := newID }
        else critterAt critters p) ∧
    (relabelGroup gs codes ((gather s).slotswithgenome speciesID) groupcode newID critters).2.1
      = (gatheredSlots s).countP (inGroup s speciesID gs codes groupcode) := by
  obtain ⟨h1, h2⟩ := relabelGroup_eq ((gather s).slotswithgenome speciesID) groupcode newID
    (gs.zip codes) (critters, 0, 0)
  have hperm := group_slots hfit speciesID hnd hlen groupcode
  unfold relabelGroup
  constructor
  · intro p
    unfold critterAt
    rw [h1, relabelSlots_apply]
    have hmem : (p.1, p.2.1, p.2.2) ∈ List.map unpack
        ((List.filter (fun gc => decide (gc.2 = groupcode)) (gs.zip codes)).flatMap
          fun gc => (gather s).slotswithgenome speciesID gc.1) ↔
        p ∈ gatheredSlots s ∧ inGroup s speciesID gs codes groupcode p = true := by
      rw [hperm.mem_iff, List.mem_filter]
    by_cases h : p ∈ gatheredSlots s ∧ inGroup s speciesID gs codes groupcode p = true
    · rw [if_pos h, if_pos (hmem.2 h)]
    · rw [if_neg h, if_neg (fun hh => h (hmem.1 hh))]
  · rw [h2, List.countP_eq_length_filter, ← hperm.length_eq, List.length_map]
    simp

/-! ## What one round of the loop over the groups writes -/

theorem toInt32_of_small {m : Nat} (h : m < 2 ^ 31) : toInt32 (m : Int) = (m : Int) := by
  unfold toInt32
  have h1 : (0 : Int) ≤ (m : Int) + 2 ^ 31 := by positivity
  have h2 : (m : Int) + 2 ^ 31 < 2 ^ 32 := by
    have : (m : Int) < 2 ^ 31 := by exact_mod_cast h
    linarith
  rw [Int.emod_eq_of_lt h1 h2]
  ring

theorem toUInt32_of_small {m : Nat} (h : m < 2 ^ 32) : toUInt32 (m : Int) = m := by
  unfold toUInt32
  have h2 : (m : Int) < 2 ^ 32 := by exact_mod_cast h
  rw [Int.emod_eq_of_lt (by positivity) h2]
  simp

/-- The fields that `splitOffGroup` writes, in every species mode. -/
theorem splitOffGroup_effect {s : Sim} {speciesID : Nat} {thislogspecies : Option Nat}
    {genomes : List Nat} {groupcodes : List Int} {slots : Nat → List Nat} {groupcode : Int}
    {w w' : Work}
    (h : splitOffGroup s speciesID thislogspecies genomes groupcodes slots groupcode w = .ok w') :
    w'.critters = (relabelGroup genomes groupcodes slots groupcode w.nextSpeciesID w.critters).1 ∧
    (∀ id, w'.speciesSizes id =
      if id = speciesID then
        (if speciesID = w.nextSpeciesID then
          toInt32 ((relabelGroup genomes groupcodes slots groupcode w.nextSpeciesID
            w.critters).2.1 : Int)
         else w.speciesSizes speciesID) -
        toInt32 ((relabelGroup genomes groupcodes slots groupcode w.nextSpeciesID
          w.critters).2.1 : Int)
      else if id = w.nextSpeciesID then
        toInt32 ((relabelGroup genomes groupcodes slots groupcode w.nextSpeciesID
          w.critters).2.1 : Int)
      else w.speciesSizes id) ∧
    w'.nextSpeciesID = (w.nextSpeciesID + 1) % 2 ^ 64 ∧
    ∃ sp : Species, w'.newSpeciesList = w.newSpeciesList ++ [sp] ∧ sp.ID = w.nextSpeciesID ∧
      sp.parent = speciesID ∧ sp.originTime = toInt32 s.iteration ∧
      sp.type = (relabelGroup genomes groupcodes slots groupcode w.nextSpeciesID
        w.critters).2.2 := by
  unfold splitOffGroup at h
  dsimp only at h
  by_cases hmode : s.speciesMode ≥ SPECIES_MODE_PHYLOGENY
  · rw [if_pos hmode] at h
    cases thislogspecies with
    | none => cases h
    | some p =>
      dsimp only at h
      cases hp : w.logSpecies[p]? with
      | none => rw [hp] at h; cases h
      | some parentNode =>
        rw [hp] at h
        have h' := Except.ok.inj h
        subst h'
        exact ⟨rfl, fun id => rfl, rfl, _, rfl, rfl, rfl, rfl, rfl⟩
  · rw [if_neg hmode] at h
    have h' := Except.ok.inj h
    subst h'
    exact ⟨rfl, fun id => rfl, rfl, _, rfl, rfl, rfl, rfl, rfl⟩

/-- The loop over `oldSpeciesList` of the continuing branch leaves the critters, the sizes,
the id counter and the new species list alone; `newsp` ends as the default species or as an
old entry with the id looked for. -/
theorem copyOldSpecies_loop {s : Sim} {speciesID : Nat} {groupcode : Int} :
    ∀ (olds : List Species) (st st' : Species × Work),
    forEach (copyOldSpecies s speciesID groupcode) olds st = .ok st' →
      st'.2.critters = st.2.critters ∧ st'.2.speciesSizes = st.2.speciesSizes ∧
      st'.2.nextSpeciesID = st.2.nextSpeciesID ∧
      st'.2.newSpeciesList = st.2.newSpeciesList ∧
      st'.2.logSpeciesByID = st.2.logSpeciesByID ∧
      (st'.1 = st.1 ∧ (∀ sp ∈ olds, sp.ID ≠ speciesID) ∨
        (st'.1 ∈ olds ∧ st'.1.ID = speciesID)) := by
  intro olds
  induction olds with
  | nil =>
    intro st st' h
    simp only [forEach, Except.ok.injEq] at h
    subst h
    exact ⟨rfl, rfl, rfl, rfl, rfl, Or.inl ⟨rfl, fun _ h => by cases h⟩⟩
  | cons old rest ih =>
    intro st st' h
    simp only [forEach] at h
    cases hb : copyOldSpecies s speciesID groupcode old st with
    | error e => rw [hb] at h; cases h
    | ok t =>
      rw [hb] at h
      obtain ⟨h1, h2, h3, h4, h5, h6⟩ := ih t st' h
      have ht : t.2.critters = st.2.critters ∧ t.2.speciesSizes = st.2.speciesSizes ∧
          t.2.nextSpeciesID = st.2.nextSpeciesID ∧
          t.2.newSpeciesList = st.2.newSpeciesList ∧
          t.2.logSpeciesByID = st.2.logSpeciesByID ∧
          ((old.ID ≠ speciesID ∧ t.1 = st.1) ∨ (old.ID = speciesID ∧ t.1 = old)) := by
        unfold copyOldSpecies at hb
        split_ifs at hb with hid hmode
        · cases hl : old.logSpeciesStructure with
          | none => rw [hl] at hb; cases hb
          | some p =>
            rw [hl] at hb
            simp only at hb
            cases hn : st.2.logSpecies[p]? with
            | none => rw [hn] at hb; cases hb
            | some node =>
              rw [hn] at hb
              simp only [Except.ok.injEq] at hb
              subst hb
              exact ⟨rfl, rfl, rfl, rfl, rfl, Or.inr ⟨hid, rfl⟩⟩
        · simp only [Except.ok.injEq] at hb
          subst hb
          exact ⟨rfl, rfl, rfl, rfl, rfl, Or.inr ⟨hid, rfl⟩⟩
        · simp only [Except.ok.injEq] at hb
          subst hb
          exact ⟨rfl, rfl, rfl, rfl, rfl, Or.inl ⟨hid, rfl⟩⟩
      obtain ⟨t1, t2, t3, t4, t5, t6⟩ := ht
      refine ⟨h1.trans t1, h2.trans t2, h3.trans t3, h4.trans t4, h5.trans t5, ?_⟩
      rcases h6 with ⟨e, hall⟩ | ⟨hm, hid⟩
      · rcases t6 with ⟨hne, e'⟩ | ⟨heq, e'⟩
        · left
          refine ⟨e.trans e', ?_⟩
          intro sp hsp
          rcases List.mem_cons.1 hsp with rfl | hsp
          · exact hne
          · exact hall sp hsp
        · right
          rw [e, e']
          exact ⟨List.mem_cons_self _ _, heq⟩
      · right
        exact ⟨List.mem_cons_of_mem _ hm, hid⟩

theorem pickType_ID (genomes : List Nat) (groupcodes : List Int) (maxcountkey : Int)
    (newsp : Species) : (pickType genomes groupcodes maxcountkey newsp).ID = newsp.ID ∧
    (pickType genomes groupcodes maxcountkey newsp).parent = newsp.parent ∧
    (pickType genomes groupcodes maxcountkey newsp).logSpeciesStructure
      = newsp.logSpeciesStructure := by
  unfold pickType
  split <;> exact ⟨rfl, rfl, rfl⟩

/-- The fields that `continueGroup` writes, in every species mode. -/
theorem continueGroup_effect {s : Sim} {speciesID : Nat} {genomes : List Nat}
    {groupcodes : List Int} {maxcountkey groupcode : Int} {w w' : Work}
    (h : continueGroup s speciesID genomes groupcodes maxcountkey groupcode w = .ok w') :
    w'.critters = w.critters ∧ w'.speciesSizes = w.speciesSizes ∧
    w'.nextSpeciesID = w.nextSpeciesID ∧ w'.logSpeciesByID = w.logSpeciesByID ∧
    ∃ sp : Species, w'.newSpeciesList = w.newSpeciesList ++ [sp] ∧
      ((∀ old ∈ s.oldSpeciesList, old.ID ≠ speciesID) ∧ sp.ID = 0 ∧
          sp.logSpeciesStructure = none ∨
        ∃ old ∈ s.oldSpeciesList, old.ID = speciesID ∧ sp.ID = speciesID ∧
          sp.parent = old.parent ∧ sp.logSpeciesStructure = old.logSpeciesStructure) := by
  unfold continueGroup at h
  cases hf : forEach (copyOldSpecies s speciesID groupcode) s.oldSpeciesList
      (Species.default, w) with
  | error e => rw [hf] at h; cases h
  | ok st =>
    rw [hf] at h
    simp only [Except.ok.injEq] at h
    subst h
    obtain ⟨h1, h2, h3, h4, h5, h6⟩ := copyOldSpecies_loop _ _ _ hf
    obtain ⟨p1, p2, p3⟩ := pickType_ID genomes groupcodes maxcountkey st.1
    refine ⟨h1, h2, h3, h5, _, by rw [h4], ?_⟩
    rcases h6 with ⟨e, hall⟩ | ⟨hm, hid⟩
    · left
      refine ⟨hall, ?_, ?_⟩
      · rw [p1, e]; rfl
      · rw [p3, e]; rfl
    · right
      exact ⟨st.1, hm, hid, by rw [p1, hid], p2, p3⟩

/-- `recordMetrics` writes log nodes only. -/
theorem recordMetrics_effect {s : Sim} {genomes : List Nat} {groupcodes : List Int}
    {slots : Nat → List Nat} {groupcode : Int} {w w' : Work}
    (h : recordMetrics s genomes groupcodes slots groupcode w = .ok w') :
    w'.critters = w.critters ∧ w'.speciesSizes = w.speciesSizes ∧
    w'.nextSpeciesID = w.nextSpeciesID ∧ w'.newSpeciesList = w.newSpeciesList ∧
    w'.logSpeciesByID = w.logSpeciesByID ∧ w'.logspeciespointers = w.logspeciespointers := by
  unfold recordMetrics at h
  cases hp : w.logspeciespointers groupcode with
  | none => rw [hp] at h; cases h
  | some p =>
    rw [hp] at h
    simp only at h
    cases hn : w.logSpecies[p]? with
    | none => rw [hn] at h; cases h
    | some node =>
      rw [hn] at h
      simp only at h
      cases hl : node.dataItems.getLast? with
      | none => rw [hl] at h; cases h
      | some item =>
        rw [hl] at h
        simp only at h
        split_ifs at h
        simp only [Except.ok.injEq] at h
        subst h
        exact ⟨rfl, rfl, rfl, rfl, rfl, rfl⟩

/-! ## The pass invariant under one round of the loop over the groups -/

theorem countP_split {α : Type} (P Q : α → Bool) (l : List α) :
    l.countP P = l.countP (fun x => P x && Q x) + l.countP (fun x => P x && !Q x) := by
  induction l with
  | nil => rfl
  | cons a rest ih =>
    simp only [List.countP_cons, ih]
    cases P a <;> cases Q a <;> simp <;> omega

theorem PassInv.congr_pending {s : Sim} {pending pending' : Nat × Nat × Nat → Prop}
    {kept : List Nat} {w : Work} (hinv : PassInv s pending kept w)
    (h : ∀ p ∈ gatheredSlots s, pending p ↔ pending' p) : PassInv s pending' kept w :=
  { hinv with
    pend := fun p hp hpp => hinv.pend p hp ((h p hp).2 hpp)
    done := fun hL p hp hpp => hinv.done hL p hp (fun hh => hpp ((h p hp).1 hh))
    carried := fun hL id hid => by
      obtain ⟨p, hp, h1, h2⟩ := hinv.carried hL id hid
      exact ⟨p, hp, fun hh => h1 ((h p hp).2 hh), h2⟩
    range_carried := fun id h1 h2 => by
      obtain ⟨p, hp, h3, h4⟩ := hinv.range_carried id h1 h2
      exact ⟨p, hp, fun hh => h3 ((h p hp).2 hh), h4⟩ }

theorem PassInv.congr_work {s : Sim} {pending : Nat × Nat × Nat → Prop} {kept : List Nat}
    {w w' : Work} (hinv : PassInv s pending kept w) (h1 : w'.critters = w.critters)
    (h2 : w'.speciesSizes = w.speciesSizes) (h3 : w'.nextSpeciesID = w.nextSpeciesID)
    (h4 : w'.newSpeciesList = w.newSpeciesList) : PassInv s pending kept w' := by
  obtain ⟨a1, a2, a3, a4, a5, a6, a7, a8, a9, a10, a11, a12, a13, a14, a15, a16⟩ := hinv
  refine ⟨?_, ?_, ?_, ?_, ?_, ?_, ?_, ?_, ?_, ?_, ?_, ?_, ?_, a14, ?_, ?_⟩ <;>
    simp only [h1, h2, h3, h4] <;> assumption

/-- Splitting a group off keeps the pass invariant, and moves the id counter on by one. -/
theorem splitOffGroup_inv {s : Sim} (hfit : FitsPacking s)
    {pending : Nat × Nat × Nat → Prop} {kept : List Nat} {w w' : Work}
    (hinv : PassInv s pending kept w) {speciesID : Nat} {thislogspecies : Option Nat}
    {gs : List Nat} {codes : List Int} {groupcode : Int} (hnd : gs.Nodup)
    (hlen : gs.length = codes.length)
    (hQpend : ∀ p ∈ gatheredSlots s, inGroup s speciesID gs codes groupcode p = true → pending p)
    (hQne : ∃ p ∈ gatheredSlots s, inGroup s speciesID gs codes groupcode p = true)
    (hsid : speciesID < s.nextSpeciesID) (hwrap : w.nextSpeciesID + 1 < 2 ^ 64)
    (h : splitOffGroup s speciesID thislogspecies gs codes
      ((gather s).slotswithgenome speciesID) groupcode w = .ok w') :
    PassInv s (fun p => pending p ∧ inGroup s speciesID gs codes groupcode p = false) kept w' ∧
      w'.nextSpeciesID = w.nextSpeciesID + 1 := by
  obtain ⟨hc, hs, hn, sp, hl, hID, hpar, _⟩ := splitOffGroup_effect h
  obtain ⟨hrel, hm⟩ := relabelGroup_spec hfit speciesID hnd hlen groupcode w.nextSpeciesID
    w.critters
  rw [hm] at hs
  have hnext : w'.nextSpeciesID = w.nextSpeciesID + 1 := by
    rw [hn]; exact Nat.mod_eq_of_lt hwrap
  have hcr : ∀ p, critterAt w'.critters p =
      if p ∈ gatheredSlots s ∧ inGroup s speciesID gs codes groupcode p = true then
        { critterAt w.critters p with speciesID := w.nextSpeciesID }
      else critterAt w.critters p := by
    intro p; rw [hc]; exact hrel p
  have hid : ∀ p ∈ gatheredSlots s, (critterAt w'.critters p).speciesID =
      if inGroup s speciesID gs codes groupcode p = true then w.nextSpeciesID
      else (critterAt w.critters p).speciesID := by
    intro p hp
    rw [hcr p]
    by_cases hq : inGroup s speciesID gs codes groupcode p = true
    · rw [if_pos ⟨hp, hq⟩, if_pos hq]
    · rw [if_neg (fun hh => hq hh.2), if_neg hq]
  have hQsid : ∀ p ∈ gatheredSlots s, inGroup s speciesID gs codes groupcode p = true →
      (critterAt w.critters p).speciesID = speciesID := by
    intro p hp hq
    rw [hinv.pend p hp (hQpend p hp hq)]
    unfold inGroup at hq
    simp only [decide_eq_true_eq] at hq
    exact hq.1
  have hlist : w'.newSpeciesList.map (fun sp => sp.ID) =
      w.newSpeciesList.map (fun sp => sp.ID) ++ [w.nextSpeciesID] := by
    rw [hl, List.map_append, List.map_cons, List.map_nil, hID]
  have hne : speciesID ≠ w.nextSpeciesID := by
    have := hinv.next_ge
    omega
  have hold_lt : ∀ id ∈ w.newSpeciesList.map (fun sp => sp.ID), s.nextSpeciesID ≤ id →
      id < w.nextSpeciesID := by
    intro id hid' hge
    have hmem : id ∈ (w.newSpeciesList.map (fun sp => sp.ID)).filter
        (fun id => decide (s.nextSpeciesID ≤ id)) :=
      List.mem_filter.2 ⟨hid', by simpa using hge⟩
    rw [hinv.new_ids, List.mem_range'_1] at hmem
    have := hinv.next_ge
    omega
  refine ⟨⟨?_, ?_, ?_, ?_, ?_, ?_, ?_, ?_, ?_, ?_, ?_, ?_, ?_, hinv.kept_old, ?_, ?_⟩, hnext⟩
  · -- frame
    intro p
    rw [hcr p]
    split_ifs
    · have := hinv.frame p
      rw [this]
    · exact hinv.frame p
  · -- outside
    intro p hp
    rw [hcr p, if_neg (fun hh => hp hh.1)]
    exact hinv.outside p hp
  · -- pend
    intro p hp hpp
    rw [hid p hp, if_neg (by rw [hpp.2]; simp)]
    exact hinv.pend p hp hpp.1
  · -- done
    intro hL p hp hpp
    rw [hid p hp, hlist]
    by_cases hq : inGroup s speciesID gs codes groupcode p = true
    · rw [if_pos hq]; simp
    · rw [if_neg hq]
      have : ¬ pending p := fun hh => hpp ⟨hh, by simpa using hq⟩
      exact List.mem_append_left _ (hinv.done hL p hp this)
  · -- tally
    intro hsmall id
    have hmsmall : (gatheredSlots s).countP (inGroup s speciesID gs codes groupcode) < 2 ^ 31 :=
      lt_of_le_of_lt (List.countP_le_length _) hsmall
    rw [hs id]
    rw [if_neg hne, toInt32_of_small hmsmall, hinv.tally hsmall speciesID,
      hinv.tally hsmall id]
    unfold countID
    by_cases h1 : id = speciesID
    · subst h1
      rw [if_pos rfl]
      have e1 := countP_split (fun p => decide ((critterAt w.critters p).speciesID = id))
        (inGroup s id gs codes groupcode) (gatheredSlots s)
      have e2 : (gatheredSlots s).countP (fun p =>
          decide ((critterAt w.critters p).speciesID = id) &&
            inGroup s id gs codes groupcode p) =
          (gatheredSlots s).countP (inGroup s id gs codes groupcode) := by
        apply List.countP_congr
        intro p hp
        simp only [Bool.and_eq_true, decide_eq_true_eq]
        exact ⟨fun hh => hh.2, fun hh => ⟨hQsid p hp hh, hh⟩⟩
      have e3 : (gatheredSlots s).countP (fun p =>
          decide ((critterAt w.critters p).speciesID = id) &&
            !inGroup s id gs codes groupcode p) =
          (gatheredSlots s).countP (fun p =>
            decide ((critterAt w'.critters p).speciesID = id)) := by
        apply List.countP_congr
        intro p hp
        rw [hid p hp]
        by_cases hq : inGroup s id gs codes groupcode p = true
        · simp [hq, Ne.symm hne]
        · simp [hq]
      rw [e2, e3] at e1
      rw [e1]
      push_cast
      ring
    · rw [if_neg h1]
      by_cases h2 : id = w.nextSpeciesID
      · subst h2
        rw [if_pos rfl]
        congr 1
        apply List.countP_congr
        intro p hp
        rw [hid p hp]
        by_cases hq : inGroup s speciesID gs codes groupcode p = true
        · simp [hq]
        · have := hinv.fresh p hp
          rw [if_neg hq]
          simp only [decide_eq_true_eq]
          constructor
          · intro hh; exact absurd hh hq
          · intro hh; omega
      · rw [if_neg h2]
        congr 1
        apply List.countP_congr
        intro p hp
        rw [hid p hp]
        by_cases hq : inGroup s speciesID gs codes groupcode p = true
        · have := hQsid p hp hq
          rw [if_pos hq]
          simp only [decide_eq_true_eq]
          constructor
          · intro hh; exact absurd (this.symm.trans hh).symm h1
          · intro hh; exact absurd hh.symm h2
        · simp [hq]
  · -- carried
    intro hL id hid'
    rw [hlist] at hid'
    rcases List.mem_append.1 hid' with hold | hnew
    · obtain ⟨p, hp, h1, h2⟩ := hinv.carried hL id hold
      have hq : ¬ inGroup s speciesID gs codes groupcode p = true := fun hh => h1 (hQpend p hp hh)
      exact ⟨p, hp, fun hh => h1 hh.1, by rw [hid p hp, if_neg hq]; exact h2⟩
    · rw [List.mem_singleton] at hnew
      obtain ⟨p, hp, hq⟩ := hQne
      refine ⟨p, hp, fun hh => ?_, by rw [hid p hp, if_pos hq, hnew]⟩
      rw [hq] at hh
      exact absurd hh.2 (by simp)
  · -- ids_nodup
    intro hL
    rw [hlist]
    apply List.Nodup.append (hinv.ids_nodup hL) (List.nodup_singleton _)
    rw [List.disjoint_singleton]
    intro hmem
    exact absurd (hold_lt _ hmem hinv.next_ge) (lt_irrefl _)
  · -- ids
    intro hL id hid'
    rw [hlist] at hid'
    rw [hnext]
    rcases List.mem_append.1 hid' with hold | hnew
    · rcases hinv.ids hL id hold with hk | ⟨h1, h2⟩
      · exact Or.inl hk
      · exact Or.inr ⟨h1, by omega⟩
    · rw [List.mem_singleton] at hnew
      have := hinv.next_ge
      exact Or.inr ⟨by omega, by omega⟩
  · -- kept_listed
    intro hL id hk
    rw [hlist]
    exact List.mem_append_left _ (hinv.kept_listed hL id hk)
  · -- new_ids
    have hge := hinv.next_ge
    rw [hlist, List.filter_append, hinv.new_ids, hnext]
    have h1 : List.filter (fun id => decide (s.nextSpeciesID ≤ id)) [w.nextSpeciesID] =
        [w.nextSpeciesID] := by
      simp [hge]
    have h2 : w.nextSpeciesID + 1 - s.nextSpeciesID =
        (w.nextSpeciesID - s.nextSpeciesID) + 1 := by omega
    have h3 : s.nextSpeciesID + (w.nextSpeciesID - s.nextSpeciesID) = w.nextSpeciesID := by
      omega
    rw [h1, h2, List.range'_1_concat, h3]
  · -- range_carried
    intro id h1 h2
    rw [hnext] at h2
    by_cases h3 : id = w.nextSpeciesID
    · obtain ⟨p, hp, hq⟩ := hQne
      refine ⟨p, hp, fun hh => ?_, by rw [hid p hp, if_pos hq, h3]⟩
      rw [hq] at hh
      exact absurd hh.2 (by simp)
    · obtain ⟨p, hp, h4, h5⟩ := hinv.range_carried id h1 (by omega)
      have hq : ¬ inGroup s speciesID gs codes groupcode p = true := fun hh => h4 (hQpend p hp hh)
      exact ⟨p, hp, fun hh => h4 hh.1, by rw [hid p hp, if_neg hq]; exact h5⟩
  · -- next_ge
    have := hinv.next_ge
    omega
  · -- fresh
    intro p hp
    rw [hid p hp, hnext]
    split_ifs
    · omega
    · have := hinv.fresh p hp
      omega
  · -- parent_new
    intro sp' hsp' hge p hp hcar
    rw [hid p hp] at hcar
    rw [hl] at hsp'
    rcases List.mem_append.1 hsp' with hold | hnew
    · have hlt := hold_lt sp'.ID (List.mem_map.2 ⟨sp', hold, rfl⟩) hge
      by_cases hq : inGroup s speciesID gs codes groupcode p = true
      · rw [if_pos hq] at hcar
        omega
      · rw [if_neg hq] at hcar
        exact hinv.parent_new sp' hold hge p hp hcar
    · rw [List.mem_singleton] at hnew
      subst hnew
      by_cases hq : inGroup s speciesID gs codes groupcode p = true
      · rw [hpar]
        unfold inGroup at hq
        simp only [decide_eq_true_eq] at hq
        exact hq.1
      · rw [if_neg hq, hID] at hcar
        have := hinv.fresh p hp
        omega
  · -- kept_same
    intro p hp hlt
    rw [hid p hp] at hlt ⊢
    have := hinv.next_ge
    by_cases hq : inGroup s speciesID gs codes groupcode p = true
    · rw [if_pos hq] at hlt
      omega
    · rw [if_neg hq] at hlt ⊢
      exact hinv.kept_same p hp hlt

/-- The continuing branch keeps the pass invariant; the species joins the kept ones. -/
theorem continueGroup_inv {s : Sim}
    {pending : Nat × Nat × Nat → Prop} {kept : List Nat} {w w' : Work}
    (hinv : PassInv s pending kept w) {speciesID : Nat} {gs : List Nat} {codes : List Int}
    {maxcountkey groupcode : Int}
    (hQpend : ∀ p ∈ gatheredSlots s, inGroup s speciesID gs codes groupcode p = true → pending p)
    (hQne : ∃ p ∈ gatheredSlots s, inGroup s speciesID gs codes groupcode p = true)
    (hsid : speciesID < s.nextSpeciesID) (hnew : speciesID ∉ kept)
    (h : continueGroup s speciesID gs codes maxcountkey groupcode w = .ok w') :
    PassInv s (fun p => pending p ∧ inGroup s speciesID gs codes groupcode p = false)
      (kept ++ [speciesID]) w' ∧ w'.nextSpeciesID = w.nextSpeciesID := by
  obtain ⟨hc, hs, hn, _, sp, hl, hsp⟩ := continueGroup_effect h
  have hIDlt : sp.ID < s.nextSpeciesID := by
    rcases hsp with ⟨_, h0, _⟩ | ⟨old, _, _, h2, _⟩
    · omega
    · omega
  have hlist : Listed s → w'.newSpeciesList.map (fun sp => sp.ID) =
      w.newSpeciesList.map (fun sp => sp.ID) ++ [speciesID] := by
    intro hL
    have hID : sp.ID = speciesID := by
      rcases hsp with ⟨hall, _⟩ | ⟨old, _, _, h2, _⟩
      · obtain ⟨p, hp, hq⟩ := hQne
        obtain ⟨old, ho, he⟩ := hL p hp
        unfold inGroup at hq
        simp only [decide_eq_true_eq] at hq
        rw [hq.1] at he
        exact absurd he (hall old ho)
      · exact h2
    rw [hl, List.map_append, List.map_cons, List.map_nil, hID]
  have hQsid : ∀ p ∈ gatheredSlots s, inGroup s speciesID gs codes groupcode p = true →
      (critterAt w.critters p).speciesID = speciesID := by
    intro p hp hq
    rw [hinv.pend p hp (hQpend p hp hq)]
    unfold inGroup at hq
    simp only [decide_eq_true_eq] at hq
    exact hq.1
  refine ⟨⟨?_, ?_, ?_, ?_, ?_, ?_, ?_, ?_, ?_, ?_, ?_, ?_, ?_, ?_, ?_, ?_⟩, hn⟩
  · intro p; rw [hc]; exact hinv.frame p
  · intro p hp; rw [hc]; exact hinv.outside p hp
  · intro p hp hpp; rw [hc]; exact hinv.pend p hp hpp.1
  · intro hL p hp hpp
    rw [hc, hlist hL]
    by_cases hq : inGroup s speciesID gs codes groupcode p = true
    · rw [hQsid p hp hq]; simp
    · have : ¬ pending p := fun hh => hpp ⟨hh, by simpa using hq⟩
      exact List.mem_append_left _ (hinv.done hL p hp this)
  · intro hsmall id; rw [hs, hc]; exact hinv.tally hsmall id
  · intro hL id hid'
    rw [hlist hL] at hid'
    rw [hc]
    rcases List.mem_append.1 hid' with hold | hnew'
    · obtain ⟨p, hp, h1, h2⟩ := hinv.carried hL id hold
      exact ⟨p, hp, fun hh => h1 hh.1, h2⟩
    · rw [List.mem_singleton] at hnew'
      obtain ⟨p, hp, hq⟩ := hQne
      refine ⟨p, hp, fun hh => ?_, by rw [hQsid p hp hq, hnew']⟩
      rw [hq] at hh
      exact absurd hh.2 (by simp)
  · intro hL
    rw [hlist hL]
    apply List.Nodup.append (hinv.ids_nodup hL) (List.nodup_singleton _)
    rw [List.disjoint_singleton]
    intro hmem
    rcases hinv.ids hL _ hmem with hk | ⟨h1, _⟩
    · exact hnew hk
    · omega
  · intro hL id hid'
    rw [hlist hL] at hid'
    rw [hn]
    rcases List.mem_append.1 hid' with hold | hnew'
    · rcases hinv.ids hL id hold with hk | hr
      · exact Or.inl (List.mem_append_left _ hk)
      · exact Or.inr hr
    · exact Or.inl (List.mem_append_right _ hnew')
  · intro hL id hk
    rw [hlist hL]
    rcases List.mem_append.1 hk with hk | hk
    · exact List.mem_append_left _ (hinv.kept_listed hL id hk)
    · exact List.mem_append_right _ hk
  · rw [hl, List.map_append, List.filter_append, hinv.new_ids, hn]
    have : List.filter (fun id => decide (s.nextSpeciesID ≤ id))
        (List.map (fun sp => sp.ID) [sp]) = [] := by
      simp only [List.map_cons, List.map_nil, List.filter_cons, List.filter_nil]
      rw [if_neg (by simp only [decide_eq_true_eq]; omega)]
    rw [this, List.append_nil]
  · intro id h1 h2
    rw [hn] at h2
    rw [hc]
    obtain ⟨p, hp, h3, h4⟩ := hinv.range_carried id h1 h2
    exact ⟨p, hp, fun hh => h3 hh.1, h4⟩
  · rw [hn]; exact hinv.next_ge
  · intro p hp; rw [hc, hn]; exact hinv.fresh p hp
  · intro id hk
    rcases List.mem_append.1 hk with hk | hk
    · exact hinv.kept_old id hk
    · rw [List.mem_singleton] at hk; rw [hk]; exact hsid
  · intro sp' hsp' hge p hp hcar
    rw [hc] at hcar
    rw [hl] at hsp'
    rcases List.mem_append.1 hsp' with hold | hnew'
    · exact hinv.parent_new sp' hold hge p hp hcar
    · rw [List.mem_singleton] at hnew'
      subst hnew'
      omega
  · intro p hp hlt
    rw [hc] at hlt ⊢
    exact hinv.kept_same p hp hlt
/-! ## Which slots share an id -/

theorem GroupInv.of_pending_iff {ord : HashOrder} {s : Sim}
    {pending pending' : Nat × Nat × Nat → Prop} {w : Work} (hG : GroupInv ord s pending w)
    (h : ∀ p ∈ gatheredSlots s, pending p ↔ pending' p) : GroupInv ord s pending' w :=
  { kept_iff := fun p hp hpp => hG.kept_iff p hp (fun hh => hpp ((h p hp).1 hh))
    same_iff := fun p hp q hq hpp hqq =>
      hG.same_iff p hp q hq (fun hh => hpp ((h p hp).1 hh)) (fun hh => hqq ((h q hq).1 hh))
    grouped := fun p hp hpp => hG.grouped p hp (fun hh => hpp ((h p hp).1 hh)) }

theorem GroupInv.of_same_critters {ord : HashOrder} {s : Sim}
    {pending : Nat × Nat × Nat → Prop}
    {w w' : Work} (hG : GroupInv ord s pending w) (h1 : w'.critters = w.critters) :
    GroupInv ord s pending w' := by
  obtain ⟨a1, a2, a3⟩ := hG
  refine ⟨?_, ?_, a3⟩ <;> simp only [h1] <;> assumption

/-- Splitting a group off relabels exactly the gathered slots of the group. -/
theorem splitOffGroup_ids {s : Sim} (hfit : FitsPacking s) {w w' : Work} {speciesID : Nat}
    {thislogspecies : Option Nat} {gs : List Nat} {codes : List Int} {groupcode : Int}
    (hnd : gs.Nodup) (hlen : gs.length = codes.length)
    (h : splitOffGroup s speciesID thislogspecies gs codes
      ((gather s).slotswithgenome speciesID) groupcode w = .ok w') :
    ∀ p ∈ gatheredSlots s, (critterAt w'.critters p).speciesID =
      if inGroup s speciesID gs codes groupcode p = true then w.nextSpeciesID
      else (critterAt w.critters p).speciesID := by
  obtain ⟨hc, _⟩ := splitOffGroup_effect h
  obtain ⟨hrel, _⟩ := relabelGroup_spec hfit speciesID hnd hlen groupcode w.nextSpeciesID
    w.critters
  intro p hp
  rw [hc, hrel p]
  by_cases hq : inGroup s speciesID gs codes groupcode p = true
  · rw [if_pos ⟨hp, hq⟩, if_pos hq]
  · rw [if_neg (fun hh => hq hh.2), if_neg hq]

/-- For a slot of the species, lying in a group of the species is lying in that group of the
grouping of its own species. -/
theorem slotInGroup_eq {ord : HashOrder} {s : Sim} {speciesID : Nat} (k : Int)
    {p : Nat × Nat × Nat} (hp : idAt s p = speciesID) :
    slotInGroup ord s k p =
      inGroup s speciesID (speciesGenomes ord s speciesID) (speciesCodes ord s speciesID) k p := by
  unfold slotInGroup
  rw [hp]

/-- A slot in a group of the species belongs to the species. -/
theorem inGroup_species {s : Sim} {speciesID : Nat} {gs : List Nat} {codes : List Int} {k : Int}
    {p : Nat × Nat × Nat} (h : inGroup s speciesID gs codes k p = true) :
    idAt s p = speciesID := by
  unfold inGroup at h
  simp only [decide_eq_true_eq] at h
  exact h.1

/-- A slot lies in one group only. -/
theorem inGroup_unique {s : Sim} {speciesID : Nat} {gs : List Nat} (hnd : gs.Nodup)
    {codes : List Int} {k k' : Int} {p : Nat × Nat × Nat}
    (h : inGroup s speciesID gs codes k p = true)
    (h' : inGroup s speciesID gs codes k' p = true) : k = k' := by
  unfold inGroup at h h'
  simp only [decide_eq_true_eq] at h h'
  exact zip_functional hnd h.2 h'.2

/-- A round of the loop over the groups keeps the invariant about the slots that share an
id. -/
theorem groupStep_ginv {ord : HashOrder} {s : Sim} (hfit : FitsPacking s)
    {pending : Nat × Nat × Nat → Prop} {kept : List Nat} {w w' : Work}
    (hinv : PassInv s pending kept w) (hG : GroupInv ord s pending w) {speciesID : Nat}
    {thislogspecies : Option Nat} {groupcode : Int}
    (hnd : (speciesGenomes ord s speciesID).Nodup)
    (hlen : (speciesGenomes ord s speciesID).length = (speciesCodes ord s speciesID).length)
    (hQpend : ∀ p ∈ gatheredSlots s,
      inGroup s speciesID (speciesGenomes ord s speciesID) (speciesCodes ord s speciesID)
        groupcode p = true → pending p)
    (hsid : speciesID < s.nextSpeciesID)
    (hgr : ∃ maxcode, groupGenomes s.maxDifference (speciesGenomes ord s speciesID) =
      .ok (speciesCodes ord s speciesID, maxcode))
    (h : groupStep s speciesID thislogspecies (speciesGenomes ord s speciesID)
      (speciesCodes ord s speciesID) ((gather s).slotswithgenome speciesID)
      (keptGroup ord s speciesID) groupcode w = .ok w') :
    GroupInv ord s (fun p => pending p ∧
      inGroup s speciesID (speciesGenomes ord s speciesID) (speciesCodes ord s speciesID)
        groupcode p = false) w' := by
  -- the ids after the round
  have hids : ∀ p ∈ gatheredSlots s, (critterAt w'.critters p).speciesID =
      if inGroup s speciesID (speciesGenomes ord s speciesID) (speciesCodes ord s speciesID)
          groupcode p = true then
        (if groupcode ≠ keptGroup ord s speciesID then w.nextSpeciesID else speciesID)
      else (critterAt w.critters p).speciesID := by
    intro p hp
    unfold groupStep at h
    by_cases hk : groupcode ≠ keptGroup ord s speciesID
    · rw [if_pos hk] at h
      rw [splitOffGroup_ids hfit hnd hlen h p hp, if_pos hk]
    · rw [if_neg hk] at h
      obtain ⟨hc, _⟩ := continueGroup_effect h
      rw [hc, if_neg hk]
      by_cases hq : inGroup s speciesID (speciesGenomes ord s speciesID)
          (speciesCodes ord s speciesID) groupcode p = true
      · rw [if_pos hq, hinv.pend p hp (hQpend p hp hq)]
        exact inGroup_species hq
      · rw [if_neg hq]
  have hdone : ∀ p ∈ gatheredSlots s, ¬ (pending p ∧
      inGroup s speciesID (speciesGenomes ord s speciesID) (speciesCodes ord s speciesID)
        groupcode p = false) →
      (inGroup s speciesID (speciesGenomes ord s speciesID) (speciesCodes ord s speciesID)
        groupcode p = true) ∨
      (¬ pending p ∧ inGroup s speciesID (speciesGenomes ord s speciesID)
        (speciesCodes ord s speciesID) groupcode p = false) := by
    intro p hp hn
    by_cases hq : inGroup s speciesID (speciesGenomes ord s speciesID)
        (speciesCodes ord s speciesID) groupcode p = true
    · exact Or.inl hq
    · have hq' := Bool.eq_false_iff.2 hq
      exact Or.inr ⟨fun hpp => hn ⟨hpp, hq'⟩, hq'⟩
  have hnext := hinv.next_ge
  refine ⟨?_, ?_, ?_⟩
  · -- kept_iff
    intro p hp hn
    rw [hids p hp]
    rcases hdone p hp hn with hq | ⟨hnp, hq⟩
    · have hsp := inGroup_species hq
      rw [if_pos hq, slotInGroup_eq _ hsp, hsp]
      by_cases hk : groupcode ≠ keptGroup ord s speciesID
      · rw [if_pos hk]
        constructor
        · intro he; omega
        · intro hq'
          exact absurd (inGroup_unique hnd hq hq') hk
      · rw [if_neg hk]
        have hk' : groupcode = keptGroup ord s speciesID := not_not.1 hk
        rw [← hk']
        exact ⟨fun _ => hq, fun _ => rfl⟩
    · rw [hq]
      simp only [Bool.false_eq_true, if_false]
      exact hG.kept_iff p hp hnp
  · -- same_iff
    intro p hp q hq hnp hnq hsame
    rw [hids p hp, hids q hq]
    have key : ∀ a ∈ gatheredSlots s, ∀ b ∈ gatheredSlots s, idAt s a = idAt s b →
        inGroup s speciesID (speciesGenomes ord s speciesID) (speciesCodes ord s speciesID)
          groupcode a = true →
        ¬ pending b →
        inGroup s speciesID (speciesGenomes ord s speciesID) (speciesCodes ord s speciesID)
          groupcode b = false →
        ((if groupcode ≠ keptGroup ord s speciesID then w.nextSpeciesID else speciesID) ≠
          (critterAt w.critters b).speciesID) ∧
        ¬ ∃ k, slotInGroup ord s k a = true ∧ slotInGroup ord s k b = true := by
      intro a _ b hb hab ha hnb hqb
      have hsa := inGroup_species ha
      have hsb : idAt s b = speciesID := by rw [← hab]; exact hsa
      constructor
      · by_cases hk : groupcode ≠ keptGroup ord s speciesID
        · rw [if_pos hk]
          have := hinv.fresh b hb
          omega
        · rw [if_neg hk]
          have hk' : groupcode = keptGroup ord s speciesID := not_not.1 hk
          intro he
          have h1 := (hG.kept_iff b hb hnb).1 (by rw [← he, hsb])
          rw [slotInGroup_eq _ hsb, hsb, ← hk', hqb] at h1
          cases h1
      · rintro ⟨k, h1, h2⟩
        rw [slotInGroup_eq _ hsa] at h1
        rw [slotInGroup_eq _ hsb] at h2
        have := inGroup_unique hnd ha h1
        rw [← this, hqb] at h2
        cases h2
    rcases hdone p hp hnp with hqp | ⟨hpp, hqp⟩
    · rcases hdone q hq hnq with hqq | ⟨hpq, hqq⟩
      · rw [if_pos hqp, if_pos hqq]
        refine ⟨fun _ => ⟨groupcode, ?_, ?_⟩, fun _ => rfl⟩
        · rw [slotInGroup_eq _ (inGroup_species hqp)]; exact hqp
        · rw [slotInGroup_eq _ (inGroup_species hqq)]; exact hqq
      · obtain ⟨k1, k2⟩ := key p hp q hq hsame hqp hpq hqq
        rw [if_pos hqp, hqq]
        simp only [Bool.false_eq_true, if_false]
        exact ⟨fun he => absurd he k1, fun he => absurd he k2⟩
    · rcases hdone q hq hnq with hqq | ⟨hpq, hqq⟩
      · obtain ⟨k1, k2⟩ := key q hq p hp hsame.symm hqq hpp hqp
        rw [if_pos hqq, hqp]
        simp only [Bool.false_eq_true, if_false]
        refine ⟨fun he => absurd he.symm k1, fun he => absurd ?_ k2⟩
        obtain ⟨k, h1, h2⟩ := he
        exact ⟨k, h2, h1⟩
      · rw [hqp, hqq]
        simp only [Bool.false_eq_true, if_false]
        exact hG.same_iff p hp q hq hpp hpq hsame
  · -- grouped
    intro p hp hn
    rcases hdone p hp hn with hq | ⟨hnp, _⟩
    · rw [inGroup_species hq]
      exact hgr
    · exact hG.grouped p hp hnp
/-! ## The id counter stays within the number of gathered slots -/

/-- While some gathered slot is still pending, fewer ids have been handed out than there are
gathered slots: every id handed out is carried by a slot that is done. -/
theorem PassInv.next_lt {s : Sim} {pending : Nat × Nat × Nat → Prop} {kept : List Nat}
    {w : Work} (hinv : PassInv s pending kept w) (hp : ∃ p ∈ gatheredSlots s, pending p) :
    w.nextSpeciesID < s.nextSpeciesID + (gatheredSlots s).length := by
  classical
  have hsub : List.range' s.nextSpeciesID (w.nextSpeciesID - s.nextSpeciesID) ⊆
      ((gatheredSlots s).filter (fun p => decide (¬ pending p))).map
        (fun p => (critterAt w.critters p).speciesID) := by
    intro id hid
    rw [List.mem_range'_1] at hid
    obtain ⟨p, hp, hnp, hc⟩ :=
      hinv.range_carried id hid.1 (by have := hinv.next_ge; omega)
    exact List.mem_map.2 ⟨p, List.mem_filter.2 ⟨hp, by simpa using hnp⟩, hc⟩
  have h1 := (List.subperm_of_subset (List.nodup_range' _ _) hsub).length_le
  have h2 : ((gatheredSlots s).filter (fun p => decide (¬ pending p))).length <
      (gatheredSlots s).length := by
    apply List.length_filter_lt_length_iff_exists.2
    obtain ⟨p, hp, hpp⟩ := hp
    exact ⟨p, hp, by simpa using hpp⟩
  rw [List.length_range', List.length_map] at h1
  have := hinv.next_ge
  omega

/-! ## The loop over the groups of one species -/

/-- The slots that are still pending while the groups `dk` of the species `speciesID` have
been visited, after the species `d`. -/
theorem pendingGroups_append {s : Sim} {speciesID : Nat} {gs : List Nat} {codes : List Int}
    (d : List Nat) (dk : List Int) (k : Int) (p : Nat × Nat × Nat) :
    ((((critterAt s.critters p).speciesID ∉ d ∧
        ∀ k' ∈ dk, inGroup s speciesID gs codes k' p = false) ∧
        inGroup s speciesID gs codes k p = false) ↔
      ((critterAt s.critters p).speciesID ∉ d ∧
        ∀ k' ∈ dk ++ [k], inGroup s speciesID gs codes k' p = false)) := by
  constructor
  · rintro ⟨⟨h1, h2⟩, h3⟩
    refine ⟨h1, ?_⟩
    intro k' hk'
    rcases List.mem_append.1 hk' with hk' | hk'
    · exact h2 k' hk'
    · rw [List.mem_singleton] at hk'; rw [hk']; exact h3
  · rintro ⟨h1, h2⟩
    exact ⟨⟨h1, fun k' hk' => h2 k' (List.mem_append_left _ hk')⟩,
      h2 k (List.mem_append_right _ (List.mem_singleton_self k))⟩

/-- The slots of a group that has not been visited are pending. -/
theorem group_pending {s : Sim} {speciesID : Nat} {gs : List Nat} {codes : List Int}
    (hnd : gs.Nodup) {d : List Nat} (hd : speciesID ∉ d) {dk : List Int} {k : Int}
    (hk : k ∉ dk) :
    ∀ p ∈ gatheredSlots s, inGroup s speciesID gs codes k p = true →
      ((critterAt s.critters p).speciesID ∉ d ∧
        ∀ k' ∈ dk, inGroup s speciesID gs codes k' p = false) := by
  intro p _ hq
  have hsp : (critterAt s.critters p).speciesID = speciesID := inGroup_species hq
  refine ⟨by rw [hsp]; exact hd, ?_⟩
  intro k' hk'
  by_contra hne
  have ht : inGroup s speciesID gs codes k' p = true := by
    cases hb : inGroup s speciesID gs codes k' p with
    | true => rfl
    | false => exact absurd hb hne
  have := inGroup_unique hnd hq ht
  rw [this] at hk
  exact hk hk'

/-- A round of the loop over the groups keeps the pass invariant. -/
theorem groupStep_inv {s : Sim} (hfit : FitsPacking s)
    (hwrap : s.nextSpeciesID + (gatheredSlots s).length < 2 ^ 64)
    {speciesID : Nat} {thislogspecies : Option Nat} {gs : List Nat} {codes : List Int}
    (hnd : gs.Nodup) (hlen : gs.length = codes.length)
    (hgs : ∀ q ∈ gs, ∃ p ∈ gatheredSlots s, (critterAt s.critters p).speciesID = speciesID ∧
      (critterAt s.critters p).genome = q)
    (hsid : speciesID < s.nextSpeciesID)
    {maxcountkey : Int} {d : List Nat} (hd : speciesID ∉ d) {dk : List Int} {k : Int}
    (hk : k ∉ dk) (hkc : k ∈ codes) {t t' : Work}
    (hQ : PassInv s (fun p => (critterAt s.critters p).speciesID ∉ d ∧
        ∀ k ∈ dk, inGroup s speciesID gs codes k p = false)
      (if maxcountkey ∈ dk then d ++ [speciesID] else d) t)
    {J : Work → Prop} (hJ : StepKeeps s J) (hJt : J t)
    (hb : groupStep s speciesID thislogspecies gs codes
      ((gather s).slotswithgenome speciesID) maxcountkey k t = .ok t') :
    PassInv s (fun p => (critterAt s.critters p).speciesID ∉ d ∧
        ∀ k' ∈ dk ++ [k], inGroup s speciesID gs codes k' p = false)
      (if maxcountkey ∈ dk ++ [k] then d ++ [speciesID] else d) t' ∧ J t' := by
  have hQpend : ∀ p ∈ gatheredSlots s, inGroup s speciesID gs codes k p = true →
      ((critterAt s.critters p).speciesID ∉ d ∧
        ∀ k' ∈ dk, inGroup s speciesID gs codes k' p = false) := group_pending hnd hd hk
  have hQne : ∃ p ∈ gatheredSlots s, inGroup s speciesID gs codes k p = true := by
    obtain ⟨q, hq⟩ := exists_genome_of_code hlen hkc
    obtain ⟨p, hp, h1, h2⟩ := hgs q (List.of_mem_zip hq).1
    refine ⟨p, hp, ?_⟩
    unfold inGroup
    simp only [decide_eq_true_eq]
    exact ⟨h1, by rw [h2]; exact hq⟩
  unfold groupStep at hb
  by_cases hkm : k ≠ maxcountkey
  · rw [if_pos hkm] at hb
    have hnext := hQ.next_lt (by
      obtain ⟨p, hp, hq⟩ := hQne
      exact ⟨p, hp, hQpend p hp hq⟩)
    obtain ⟨hres, _⟩ := splitOffGroup_inv hfit hQ hnd hlen hQpend hQne hsid
      (by omega) hb
    have hkept : (if maxcountkey ∈ dk ++ [k] then d ++ [speciesID] else d) =
        (if maxcountkey ∈ dk then d ++ [speciesID] else d) := by
      have : maxcountkey ∈ dk ++ [k] ↔ maxcountkey ∈ dk := by
        simp only [List.mem_append, List.mem_singleton]
        constructor
        · rintro (h1 | h1)
          · exact h1
          · exact absurd h1.symm hkm
        · exact fun h1 => Or.inl h1
      simp only [this]
    rw [hkept]
    exact ⟨hres.congr_pending (fun p _ => pendingGroups_append d dk k p),
      hJ.split _ _ _ _ _ _ _ _ _ _ hQ hsid (by omega) hJt hb⟩
  · rw [if_neg hkm] at hb
    have hkm' : k = maxcountkey := not_not.1 hkm
    have hnotin : maxcountkey ∉ dk := by rw [← hkm']; exact hk
    rw [if_neg hnotin] at hQ
    obtain ⟨hres, _⟩ := continueGroup_inv hQ hQpend hQne hsid hd hb
    have hin : maxcountkey ∈ dk ++ [k] := by rw [hkm']; simp
    rw [if_pos hin]
    exact ⟨hres.congr_pending (fun p _ => pendingGroups_append d dk k p),
      hJ.continuing _ _ _ _ _ _ _ hJt hb⟩
/-! ## The log nodes under the rounds of the loops -/

theorem Keeps.id_keeps {β : Type} (f : LogSpecies → β) (L : List LogSpecies) : Keeps f L L :=
  ⟨rfl, fun _ => rfl⟩

theorem Keeps.seq {β : Type} {f : LogSpecies → β} {L1 L2 L3 : List LogSpecies}
    (h1 : Keeps f L1 L2) (h2 : Keeps f L2 L3) : Keeps f L1 L3 :=
  ⟨h2.1.trans h1.1, fun i => (h2.2 i).trans (h1.2 i)⟩

theorem Keeps.toPrefix {β : Type} {f : LogSpecies → β} {L L' : List LogSpecies}
    (h : Keeps f L L') : KeepsPrefix f L L' :=
  ⟨le_of_eq h.1.symm, fun i _ => h.2 i⟩

theorem Keeps.comp {β γ : Type} {f : LogSpecies → β} (g : β → γ) {L L' : List LogSpecies}
    (h : Keeps f L L') : Keeps (fun n => g (f n)) L L' := by
  refine ⟨h.1, fun i => ?_⟩
  have := congrArg (Option.map g) (h.2 i)
  simpa [Option.map_map, Function.comp] using this

theorem KeepsPrefix.id_prefix {β : Type} (f : LogSpecies → β) (L : List LogSpecies) :
    KeepsPrefix f L L :=
  ⟨le_refl _, fun _ _ => rfl⟩

theorem KeepsPrefix.seq_prefix {β : Type} {f : LogSpecies → β} {L1 L2 L3 : List LogSpecies}
    (h1 : KeepsPrefix f L1 L2) (h2 : KeepsPrefix f L2 L3) : KeepsPrefix f L1 L3 :=
  ⟨le_trans h1.1 h2.1, fun i hi =>
    (h2.2 i (lt_of_lt_of_le hi h1.1)).trans (h1.2 i hi)⟩

/-- Writing a node back with the same reading keeps the reading of all nodes. -/
theorem keeps_set {β : Type} (f : LogSpecies → β) {L : List LogSpecies} {p : Nat}
    {node node' : LogSpecies} (hp : L[p]? = some node) (hf : f node' = f node) :
    Keeps f L (L.set p node') := by
  refine ⟨List.length_set _ _ _, fun i => ?_⟩
  by_cases hi : p = i
  · subst hi
    have hlt : p < L.length := by
      rcases Nat.lt_or_ge p L.length with h | h
      · exact h
      · rw [List.getElem?_eq_none h] at hp; cases hp
    rw [List.getElem?_set_self hlt, hp]
    simp [hf]
  · rw [List.getElem?_set_ne hi]

/-- The loop over `oldSpeciesList` of the continuing branch keeps the core of every log
node. -/
theorem copyOldSpecies_logs {s : Sim} {speciesID : Nat} {groupcode : Int} :
    ∀ (olds : List Species) (st st' : Species × Work),
    forEach (copyOldSpecies s speciesID groupcode) olds st = .ok st' →
      Keeps LogSpecies.core st.2.logSpecies st'.2.logSpecies := by
  intro olds
  induction olds with
  | nil =>
    intro st st' h
    simp only [forEach, Except.ok.injEq] at h
    subst h
    exact Keeps.id_keeps _ _
  | cons old rest ih =>
    intro st st' h
    simp only [forEach] at h
    cases hb : copyOldSpecies s speciesID groupcode old st with
    | error e => rw [hb] at h; cases h
    | ok t =>
      rw [hb] at h
      refine Keeps.seq ?_ (ih t st' h)
      unfold copyOldSpecies at hb
      split_ifs at hb with hid hmode
      · cases hl : old.logSpeciesStructure with
        | none => rw [hl] at hb; cases hb
        | some p =>
          rw [hl] at hb
          simp only at hb
          cases hn : st.2.logSpecies[p]? with
          | none => rw [hn] at hb; cases hb
          | some node =>
            rw [hn] at hb
            simp only [Except.ok.injEq] at hb
            subst hb
            exact keeps_set _ hn rfl
      · simp only [Except.ok.injEq] at hb
        subst hb
        exact Keeps.id_keeps _ _
      · simp only [Except.ok.injEq] at hb
        subst hb
        exact Keeps.id_keeps _ _

theorem continueGroup_logs {s : Sim} {speciesID : Nat} {genomes : List Nat}
    {groupcodes : List Int} {maxcountkey groupcode : Int} {w w' : Work}
    (h : continueGroup s speciesID genomes groupcodes maxcountkey groupcode w = .ok w') :
    Keeps LogSpecies.core w.logSpecies w'.logSpecies := by
  unfold continueGroup at h
  cases hf : forEach (copyOldSpecies s speciesID groupcode) s.oldSpeciesList
      (Species.default, w) with
  | error e => rw [hf] at h; cases h
  | ok st =>
    rw [hf] at h
    simp only [Except.ok.injEq] at h
    subst h
    exact copyOldSpecies_logs _ _ _ hf

theorem recordMetrics_logs {s : Sim} {genomes : List Nat} {groupcodes : List Int}
    {slots : Nat → List Nat} {groupcode : Int} {w w' : Work}
    (h : recordMetrics s genomes groupcodes slots groupcode w = .ok w') :
    Keeps LogSpecies.core w.logSpecies w'.logSpecies := by
  unfold recordMetrics at h
  cases hp : w.logspeciespointers groupcode with
  | none => rw [hp] at h; cases h
  | some p =>
    rw [hp] at h
    simp only at h
    cases hn : w.logSpecies[p]? with
    | none => rw [hn] at h; cases h
    | some node =>
      rw [hn] at h
      simp only at h
      cases hl : node.dataItems.getLast? with
      | none => rw [hl] at h; cases h
      | some item =>
        rw [hl] at h
        simp only at h
        split_ifs at h
        simp only [Except.ok.injEq] at h
        subst h
        exact keeps_set _ hn rfl

theorem metricsLoop_logs {s : Sim} {genomes : List Nat} {groupcodes : List Int}
    {slots : Nat → List Nat} (order : List Int) {w w' : Work}
    (h : forEach (recordMetrics s genomes groupcodes slots) order w = .ok w') :
    Keeps LogSpecies.core w.logSpecies w'.logSpecies := by
  refine forEach_inv _ order (fun _ t => Keeps LogSpecies.core w.logSpecies t.logSpecies) ?_
    order [] w w' rfl (Keeps.id_keeps _ _) h
  intro dk k r t t' _ hQ hb
  exact hQ.seq (recordMetrics_logs hb)

/-- The split-off branch in the phylogeny modes: the node it makes, the child it gives to the
node of the species, and the entry of the hash. -/
theorem splitOffGroup_log {s : Sim} {speciesID : Nat} {thislogspecies : Option Nat}
    {genomes : List Nat} {groupcodes : List Int} {slots : Nat → List Nat} {groupcode : Int}
    {w w' : Work} (hmode : s.speciesMode ≥ SPECIES_MODE_PHYLOGENY)
    (h : splitOffGroup s speciesID thislogspecies genomes groupcodes slots groupcode w = .ok w') :
    ∃ p parentNode, thislogspecies = some p ∧ w.logSpecies[p]? = some parentNode ∧
      w'.logSpecies =
        w.logSpecies.set p { parentNode with children := parentNode.children ++
          [w.logSpecies.length] } ++
        [{ id := w.nextSpeciesID, timeOfFirstAppearance := s.iteration,
           timeOfLastAppearance := s.iteration, parent := some p, children := [],
           maxSize := toUInt32 ((relabelGroup genomes groupcodes slots groupcode
             w.nextSpeciesID w.critters).2.1 : Int),
           dataItems := [newDataItem s.iteration] }] ∧
      w'.logSpeciesByID = (fun k =>
        if k = w.nextSpeciesID then some w.logSpecies.length else w.logSpeciesByID k) ∧
      w'.logspeciespointers = (fun k =>
        if k = groupcode then some w.logSpecies.length else w.logspeciespointers k) ∧
      ∃ sp, w'.newSpeciesList = w.newSpeciesList ++ [sp] ∧ sp.ID = w.nextSpeciesID ∧
        sp.parent = speciesID ∧ sp.logSpeciesStructure = some w.logSpecies.length := by
  unfold splitOffGroup at h
  dsimp only at h
  rw [if_pos hmode] at h
  cases ht : thislogspecies with
  | none => rw [ht] at h; cases h
  | some p =>
    rw [ht] at h
    dsimp only at h
    cases hn : w.logSpecies[p]? with
    | none => rw [hn] at h; cases h
    | some parentNode =>
      rw [hn] at h
      dsimp only at h
      have h' := Except.ok.inj h
      subst h'
      exact ⟨p, parentNode, rfl, hn, rfl, rfl, rfl, _, rfl, rfl, rfl, rfl⟩
/-! ## One round of the loop over the species -/

/-- What a round of the loop over the species that ran to its end went through: the log node
was found, the genomes fit the static arrays, the grouping ran to its end, and so did the
loop over the groups. -/
theorem processSpecies_ok {ord : HashOrder} {M : Nat} {s : Sim} {g : Gathered}
    {speciesID : Nat} {w w' : Work} (h : processSpecies ord M s g speciesID w = .ok w') :
    ∃ thislogspecies codes w1,
      findLogSpecies s speciesID w = .ok thislogspecies ∧
      (ord.genomes (g.genomedata speciesID)).length < M ∧
      groupGenomes s.maxDifference (ord.genomes (g.genomedata speciesID)) = .ok codes ∧
      forEach (groupStep s speciesID thislogspecies (ord.genomes (g.genomedata speciesID))
          codes.1 (g.slotswithgenome speciesID)
          (findBiggest (countGroups codes.1) (ord.groups (countGroups codes.1).keys)).2)
        (ord.groups (countGroups codes.1).keys)
        { w with logspeciespointers := fun _ => none } = .ok w1 ∧
      ((s.speciesMode = SPECIES_MODE_PHYLOGENY_AND_METRICS ∧
        forEach (recordMetrics s (ord.genomes (g.genomedata speciesID)) codes.1
          (g.slotswithgenome speciesID)) (ord.groups (countGroups codes.1).keys) w1 = .ok w') ∨
       (s.speciesMode ≠ SPECIES_MODE_PHYLOGENY_AND_METRICS ∧ w' = w1)) := by
  unfold processSpecies at h
  cases hf : findLogSpecies s speciesID w with
  | error e => rw [hf] at h; cases h
  | ok t =>
    rw [hf] at h
    dsimp only at h
    by_cases hM : (ord.genomes (g.genomedata speciesID)).length ≥ M
    · rw [if_pos hM] at h; cases h
    · rw [if_neg hM] at h
      cases hg : groupGenomes s.maxDifference (ord.genomes (g.genomedata speciesID)) with
      | error e => rw [hg] at h; cases h
      | ok codes =>
        rw [hg] at h
        dsimp only at h
        cases hl : forEach (groupStep s speciesID t (ord.genomes (g.genomedata speciesID))
            codes.1 (g.slotswithgenome speciesID)
            (findBiggest (countGroups codes.1) (ord.groups (countGroups codes.1).keys)).2)
          (ord.groups (countGroups codes.1).keys)
          { w with logspeciespointers := fun _ => none } with
        | error e => rw [hl] at h; cases h
        | ok w1 =>
          rw [hl] at h
          dsimp only at h
          refine ⟨t, codes, w1, rfl, by omega, rfl, hl, ?_⟩
          by_cases hm : s.speciesMode = SPECIES_MODE_PHYLOGENY_AND_METRICS
          · rw [if_pos hm] at h
            exact Or.inl ⟨hm, h⟩
          · rw [if_neg hm] at h
            exact Or.inr ⟨hm, (Except.ok.inj h).symm⟩

/-- The metrics loop changes the log nodes only. -/
theorem metricsLoop_effect {s : Sim} {genomes : List Nat} {groupcodes : List Int}
    {slots : Nat → List Nat} (order : List Int) {w w' : Work}
    (h : forEach (recordMetrics s genomes groupcodes slots) order w = .ok w') :
    w'.critters = w.critters ∧ w'.speciesSizes = w.speciesSizes ∧
    w'.nextSpeciesID = w.nextSpeciesID ∧ w'.newSpeciesList = w.newSpeciesList ∧
    w'.logSpeciesByID = w.logSpeciesByID := by
  refine forEach_inv _ order
    (fun _ t => t.critters = w.critters ∧ t.speciesSizes = w.speciesSizes ∧
      t.nextSpeciesID = w.nextSpeciesID ∧ t.newSpeciesList = w.newSpeciesList ∧
      t.logSpeciesByID = w.logSpeciesByID) ?_ order [] w w' rfl ⟨rfl, rfl, rfl, rfl, rfl⟩ h
  intro dk k r t t' _ hQ hb
  obtain ⟨h1, h2, h3, h4, h5, _⟩ := recordMetrics_effect hb
  obtain ⟨q1, q2, q3, q4, q5⟩ := hQ
  exact ⟨h1.trans q1, h2.trans q2, h3.trans q3, h4.trans q4, h5.trans q5⟩

/-- The grouping data of a species of the first loop, as the loop over its groups needs
them. -/
theorem species_grouping {ord : HashOrder} (hord : ord.Valid) {s : Sim} {speciesID : Nat}
    (hkey : speciesID ∈ (gather s).speciesKeys) {codes : List Int × Int}
    (hg : groupGenomes s.maxDifference (ord.genomes ((gather s).genomedata speciesID)) =
      .ok codes) :
    (ord.genomes ((gather s).genomedata speciesID)).Nodup ∧
    (ord.genomes ((gather s).genomedata speciesID)).length = codes.1.length ∧
    (∀ q, q ∈ ord.genomes ((gather s).genomedata speciesID) ↔
      ∃ p ∈ gatheredSlots s, (critterAt s.critters p).speciesID = speciesID ∧
        (critterAt s.critters p).genome = q) ∧
    (ord.groups (countGroups codes.1).keys).Nodup ∧
    (∀ k, k ∈ ord.groups (countGroups codes.1).keys ↔ k ∈ codes.1) ∧
    (findBiggest (countGroups codes.1) (ord.groups (countGroups codes.1).keys)).2 ∈
      ord.groups (countGroups codes.1).keys ∧
    (∀ k, codes.1.count k ≤ codes.1.count
      (findBiggest (countGroups codes.1) (ord.groups (countGroups codes.1).keys)).2) := by
  have G := gather_inv s
  have hpg := hord.2.1 ((gather s).genomedata speciesID)
  have hpo := hord.2.2 (countGroups codes.1).keys
  obtain ⟨c1, c2, c3⟩ := countGroups_spec codes.1
  have hlen : (ord.genomes ((gather s).genomedata speciesID)).length = codes.1.length := by
    cases codes with
    | mk c m => exact (groupGenomes_codes hg).1.symm
  have hmemq : ∀ q, q ∈ ord.genomes ((gather s).genomedata speciesID) ↔
      ∃ p ∈ gatheredSlots s, (critterAt s.critters p).speciesID = speciesID ∧
        (critterAt s.critters p).genome = q := by
    intro q
    rw [hpg.mem_iff, G.genomes_mem]
  have hmemk : ∀ k, k ∈ ord.groups (countGroups codes.1).keys ↔ k ∈ codes.1 := by
    intro k
    rw [hpo.mem_iff, c2]
  have hne : ord.groups (countGroups codes.1).keys ≠ [] := by
    obtain ⟨p, hp, hsp⟩ := (G.keys_mem speciesID).1 hkey
    have hq := (hmemq _).2 ⟨p, hp, hsp, rfl⟩
    obtain ⟨k, hk⟩ := exists_code_of_mem hlen hq
    have := (hmemk k).2 (List.of_mem_zip hk).2
    exact List.ne_nil_of_mem this
  have hpos : ∀ k ∈ ord.groups (countGroups codes.1).keys, 1 ≤ (countGroups codes.1).count k :=
    fun k hk => count_pos_of_key (hpo.mem_iff.1 hk)
  obtain ⟨f1, _, f3⟩ := findBiggest_spec (countGroups codes.1) _ hpos hne
  refine ⟨hpg.nodup_iff.2 (G.genomes_nodup speciesID), hlen, hmemq, hpo.nodup_iff.2 c1, hmemk,
    f1, ?_⟩
  intro k
  by_cases hk : k ∈ codes.1
  · have := f3 k ((hmemk k).2 hk)
    rw [c3, c3] at this
    exact_mod_cast this
  · rw [List.count_eq_zero_of_not_mem hk]
    exact Nat.zero_le _

/-- The codes of a species whose grouping ran to its end. -/
theorem speciesCodes_of_ok {ord : HashOrder} {s : Sim} {speciesID : Nat}
    {codes : List Int × Int}
    (hg : groupGenomes s.maxDifference (ord.genomes ((gather s).genomedata speciesID)) =
      .ok codes) : speciesCodes ord s speciesID = codes.1 := by
  unfold speciesCodes speciesGenomes
  rw [hg]

/-- The loop over the groups of a species keeps the invariants: the slots of the species are
done, and the species has its continuing entry. -/
theorem groupLoop_inv {ord : HashOrder} (hord : ord.Valid) {s : Sim}
    (hfit : FitsPacking s)
    (hwrap : s.nextSpeciesID + (gatheredSlots s).length < 2 ^ 64) {speciesID : Nat}
    (hkey : speciesID ∈ (gather s).speciesKeys) (hsid : speciesID < s.nextSpeciesID)
    {thislogspecies : Option Nat}
    {codes : List Int × Int}
    (hg : groupGenomes s.maxDifference (ord.genomes ((gather s).genomedata speciesID)) =
      .ok codes)
    {d : List Nat} (hd : speciesID ∉ d) {w w' : Work}
    (hinv : PassInv s (fun p => (critterAt s.critters p).speciesID ∉ d) d w)
    (hG : GroupInv ord s (fun p => (critterAt s.critters p).speciesID ∉ d) w)
    {J : Work → Prop} (hJ : StepKeeps s J) (hJw : J w)
    (h : forEach (groupStep s speciesID thislogspecies
        (ord.genomes ((gather s).genomedata speciesID)) codes.1
        ((gather s).slotswithgenome speciesID)
        (findBiggest (countGroups codes.1) (ord.groups (countGroups codes.1).keys)).2)
      (ord.groups (countGroups codes.1).keys) w = .ok w') :
    PassInv s (fun p => (critterAt s.critters p).speciesID ∉ d ++ [speciesID])
      (d ++ [speciesID]) w' ∧
    GroupInv ord s (fun p => (critterAt s.critters p).speciesID ∉ d ++ [speciesID]) w' ∧
    J w' := by
  obtain ⟨hnd, hlen, hmemq, hond, hmemk, hmax, _⟩ := species_grouping hord hkey hg
  have hcodes := speciesCodes_of_ok hg
  have hgr : ∃ maxcode, groupGenomes s.maxDifference (speciesGenomes ord s speciesID) =
      .ok (speciesCodes ord s speciesID, maxcode) := by
    refine ⟨codes.2, ?_⟩
    rw [hcodes]
    exact hg
  rw [← hcodes] at hlen hond hmemk hmax h
  have hmain := forEach_inv _ (ord.groups (countGroups (speciesCodes ord s speciesID)).keys)
    (fun dk t =>
      PassInv s (fun p => (critterAt s.critters p).speciesID ∉ d ∧
          ∀ k ∈ dk, inGroup s speciesID (speciesGenomes ord s speciesID)
            (speciesCodes ord s speciesID) k p = false)
        (if keptGroup ord s speciesID ∈ dk then d ++ [speciesID] else d) t ∧
      GroupInv ord s (fun p => (critterAt s.critters p).speciesID ∉ d ∧
          ∀ k ∈ dk, inGroup s speciesID (speciesGenomes ord s speciesID)
            (speciesCodes ord s speciesID) k p = false) t ∧ J t) ?_
    (ord.groups (countGroups (speciesCodes ord s speciesID)).keys) [] w w' rfl ?_ h
  · obtain ⟨h1, h2, h3⟩ := hmain
    have hmax' : keptGroup ord s speciesID ∈
        ord.groups (countGroups (speciesCodes ord s speciesID)).keys := hmax
    rw [if_pos hmax'] at h1
    have hpend : ∀ p ∈ gatheredSlots s,
        (((critterAt s.critters p).speciesID ∉ d ∧
          ∀ k ∈ ord.groups (countGroups (speciesCodes ord s speciesID)).keys,
            inGroup s speciesID (speciesGenomes ord s speciesID)
              (speciesCodes ord s speciesID) k p = false) ↔
        (critterAt s.critters p).speciesID ∉ d ++ [speciesID]) := by
      intro p hp
      constructor
      · rintro ⟨hnd', hall⟩ hin
        rcases List.mem_append.1 hin with hin | hin
        · exact hnd' hin
        · rw [List.mem_singleton] at hin
          have hq := (hmemq _).2 ⟨p, hp, hin, rfl⟩
          obtain ⟨k, hk⟩ := exists_code_of_mem hlen hq
          have := hall k ((hmemk k).2 (List.of_mem_zip hk).2)
          unfold inGroup at this
          simp only [decide_eq_false_iff_not, not_and] at this
          exact this hin hk
      · intro hnot
        refine ⟨fun hin => hnot (List.mem_append_left _ hin), ?_⟩
        intro k _
        unfold inGroup
        simp only [decide_eq_false_iff_not, not_and]
        intro hin
        exact absurd (List.mem_append_right _ (List.mem_singleton.2 hin)) hnot
    exact ⟨h1.congr_pending hpend, h2.of_pending_iff hpend, h3⟩
  · intro dk k r t t' hfull hQ hb
    have hk : k ∉ dk := by
      rw [hfull] at hond
      have := (List.nodup_cons.1 (List.nodup_middle.1 hond)).1
      exact fun hc => this (List.mem_append_left _ hc)
    have hkc : k ∈ speciesCodes ord s speciesID := (hmemk k).1 (by rw [hfull]; simp)
    obtain ⟨r1, r2⟩ := groupStep_inv hfit hwrap hnd hlen (fun q hq => (hmemq q).1 hq) hsid
      hd hk hkc hQ.1 hJ hQ.2.2 hb
    refine ⟨r1, ?_, r2⟩
    have := groupStep_ginv hfit hQ.1 hQ.2.1 hnd hlen (group_pending hnd hd hk) hsid hgr hb
    exact this.of_pending_iff (fun p _ => pendingGroups_append d dk k p)
  · simp only [List.not_mem_nil, if_false]
    exact ⟨hinv.congr_pending (fun p _ => by simp), hG.of_pending_iff (fun p _ => by simp),
      hJw⟩

/-- A round of the loop over the species keeps the invariants: the slots of the species
are done, and the species has its continuing entry. -/
theorem processSpecies_inv {ord : HashOrder} (hord : ord.Valid) {M : Nat} {s : Sim}
    (hfit : FitsPacking s)
    (hwrap : s.nextSpeciesID + (gatheredSlots s).length < 2 ^ 64) {speciesID : Nat}
    (hkey : speciesID ∈ (gather s).speciesKeys) (hsid : speciesID < s.nextSpeciesID)
    {d : List Nat} (hd : speciesID ∉ d) {w w' : Work}
    (hinv : PassInv s (fun p => (critterAt s.critters p).speciesID ∉ d) d w)
    (hG : GroupInv ord s (fun p => (critterAt s.critters p).speciesID ∉ d) w)
    {J : Work → Prop} (hJ : StepKeeps s J) (hJw : J w)
    (h : processSpecies ord M s (gather s) speciesID w = .ok w') :
    PassInv s (fun p => (critterAt s.critters p).speciesID ∉ d ++ [speciesID])
      (d ++ [speciesID]) w' ∧
    GroupInv ord s (fun p => (critterAt s.critters p).speciesID ∉ d ++ [speciesID]) w' ∧
    J w' := by
  obtain ⟨t, codes, w1, _, _, hg, hl, hmet⟩ := processSpecies_ok h
  have h0 : PassInv s (fun p => (critterAt s.critters p).speciesID ∉ d) d
      { w with logspeciespointers := fun _ => none } := hinv.congr_work rfl rfl rfl rfl
  have g0 : GroupInv ord s (fun p => (critterAt s.critters p).speciesID ∉ d)
      { w with logspeciespointers := fun _ => none } := hG.of_same_critters rfl
  have j0 : J { w with logspeciespointers := fun _ => none } :=
    hJ.frame _ _ hJw rfl rfl rfl (Keeps.id_keeps _ _)
  obtain ⟨h2, g2, j2⟩ := groupLoop_inv hord hfit hwrap hkey hsid hg hd h0 g0 hJ j0 hl
  rcases hmet with ⟨_, hm⟩ | ⟨_, hm⟩
  · obtain ⟨e1, e2, e3, e4, _⟩ := metricsLoop_effect _ hm
    exact ⟨h2.congr_work e1 e2 e3 e4, g2.of_same_critters e1,
      hJ.frame _ _ j2 e2 e3 e4 (metricsLoop_logs _ hm)⟩
  · rw [hm]; exact ⟨h2, g2, j2⟩

/-! ## The loop over the species -/

/-- The state in which the loop over the species starts. -/
theorem passInv_init {s : Sim}
    (hfresh : ∀ p ∈ gatheredSlots s, (critterAt s.critters p).speciesID < s.nextSpeciesID) :
    PassInv s (fun p => (critterAt s.critters p).speciesID ∉ ([] : List Nat)) []
      { critters := s.critters, speciesSizes := (gather s).speciesSizes,
        nextSpeciesID := s.nextSpeciesID, newSpeciesList := [], logSpecies := s.logSpecies,
        logSpeciesByID := s.logSpeciesByID, logspeciespointers := fun _ => none } := by
  refine
    { frame := fun _ => rfl, outside := fun _ _ => rfl, pend := fun _ _ _ => rfl, done := ?_,
      tally := ?_, carried := ?_, ids_nodup := fun _ => List.nodup_nil, ids := ?_,
      kept_listed := ?_, new_ids := ?_, range_carried := ?_, next_ge := le_refl _,
      fresh := hfresh, kept_old := ?_, parent_new := ?_, kept_same := fun _ _ _ => rfl }
  · intro _ p _ hn
    exact absurd (List.not_mem_nil _) hn
  · intro _ id
    exact (gather_inv s).sizes_eq id
  · intro _ id hid
    cases hid
  · intro _ id hid
    cases hid
  · intro _ id hid
    cases hid
  · simp
  · intro id h1 h2
    dsimp only at h2
    omega
  · intro id hid
    cases hid
  · intro sp hsp
    cases hsp

/-- No slot is done when the loop over the species starts. -/
theorem groupInv_init (ord : HashOrder) (s : Sim) (w : Work) :
    GroupInv ord s (fun p => (critterAt s.critters p).speciesID ∉ ([] : List Nat)) w :=
  { kept_iff := fun _ _ hn => absurd (List.not_mem_nil _) hn
    same_iff := fun _ _ _ _ hn => absurd (List.not_mem_nil _) hn
    grouped := fun _ _ hn => absurd (List.not_mem_nil _) hn }

/-- The loop over the species leaves every gathered slot done. -/
theorem speciesLoop_inv {ord : HashOrder} (hord : ord.Valid) {M : Nat} {s : Sim}
    (hfit : FitsPacking s)
    (hwrap : s.nextSpeciesID + (gatheredSlots s).length < 2 ^ 64)
    (hfresh : ∀ p ∈ gatheredSlots s, (critterAt s.critters p).speciesID < s.nextSpeciesID)
    {J : Work → Prop} (hJ : StepKeeps s J)
    (hJ0 : J (firstWork s))
    {w : Work}
    (h : forEach (processSpecies ord M s (gather s)) (ord.species (gather s).speciesKeys)
      { critters := s.critters, speciesSizes := (gather s).speciesSizes,
        nextSpeciesID := s.nextSpeciesID, newSpeciesList := [], logSpecies := s.logSpecies,
        logSpeciesByID := s.logSpeciesByID, logspeciespointers := fun _ => none } = .ok w) :
    PassInv s (fun _ => False) (ord.species (gather s).speciesKeys) w ∧
    GroupInv ord s (fun _ => False) w ∧ J w := by
  have G := gather_inv s
  have hperm := hord.1 (gather s).speciesKeys
  have hmain := forEach_inv _ (ord.species (gather s).speciesKeys)
    (fun d t => PassInv s (fun p => (critterAt s.critters p).speciesID ∉ d) d t ∧
      GroupInv ord s (fun p => (critterAt s.critters p).speciesID ∉ d) t ∧ J t) ?_
    (ord.species (gather s).speciesKeys) [] _ w rfl
    ⟨passInv_init hfresh, groupInv_init ord s _, hJ0⟩ h
  · have hpend : ∀ p ∈ gatheredSlots s,
        ((critterAt s.critters p).speciesID ∉ ord.species (gather s).speciesKeys ↔ False) := by
      intro p hp
      constructor
      · intro hn
        exact hn (hperm.mem_iff.2 ((G.keys_mem _).2 ⟨p, hp, rfl⟩))
      · intro hf
        exact hf.elim
    exact ⟨hmain.1.congr_pending hpend, hmain.2.1.of_pending_iff hpend, hmain.2.2⟩
  · intro d sid r t t' hfull hQ hb
    have hnd : (ord.species (gather s).speciesKeys).Nodup := hperm.nodup_iff.2 G.keys_nodup
    have hsd : sid ∉ d := by
      rw [hfull] at hnd
      have := (List.nodup_cons.1 (List.nodup_middle.1 hnd)).1
      exact fun hc => this (List.mem_append_left _ hc)
    have hkey : sid ∈ (gather s).speciesKeys :=
      hperm.mem_iff.1 (by rw [hfull]; simp)
    obtain ⟨p, hp, hsp⟩ := (G.keys_mem sid).1 hkey
    exact processSpecies_inv hord hfit hwrap hkey (by rw [← hsp]; exact hfresh p hp)
      hsd hQ.1 hQ.2.1 hJ hQ.2.2 hb
/-! ## The last loop and the pass as a whole -/

/-- With consistent cell aggregates the first loop reaches every live critter. -/
theorem gatheredSlots_eq_liveSlots {s : Sim} (h : AggregatesConsistent s) :
    gatheredSlots s = liveSlots s := by
  unfold gatheredSlots liveSlots
  apply List.flatMap_congr
  intro n hn
  apply List.flatMap_congr
  intro m hm
  by_cases h0 : s.totalFitness n m = 0
  · rw [if_pos h0]
    symm
    rw [List.map_eq_nil_iff, List.filter_eq_nil_iff]
    intro c hc hage
    have hl : (n, m, c) ∈ liveSlots s :=
      mem_liveSlots.2 ⟨List.mem_range.1 hn, List.mem_range.1 hm, List.mem_range.1 hc,
        by simpa using hage⟩
    exact h (n, m, c) hl h0
  · rw [if_neg h0]

/-- The last loop copies the entries of `newSpeciesList`, each with its size from the
hash. -/
theorem recordSize_list {s : Sim} {speciesSizes : Nat → Int} :
    ∀ (l : List Species) (st st' : List Species × List LogSpecies),
      forEach (recordSize s speciesSizes) l st = .ok st' →
      st'.1 = st.1 ++ l.map (fun sp =>
        { sp with size := toInt32 ((toUInt32 (speciesSizes sp.ID) : Nat) : Int) }) := by
  intro l
  induction l with
  | nil =>
    intro st st' h
    simp only [forEach, Except.ok.injEq] at h
    subst h
    simp
  | cons a rest ih =>
    intro st st' h
    simp only [forEach] at h
    cases hb : recordSize s speciesSizes a st with
    | error e => rw [hb] at h; cases h
    | ok t =>
      rw [hb] at h
      have h1 : t.1 = st.1 ++ [{ a with
          size := toInt32 ((toUInt32 (speciesSizes a.ID) : Nat) : Int) }] := by
        unfold recordSize at hb
        dsimp only at hb
        split at hb
        · split at hb
          · cases hb
          · split at hb
            · cases hb
            · split at hb
              · cases hb; rfl
              · cases hb; rfl
        · cases hb; rfl
      rw [ih t st' h, h1]
      simp

/-- A pass that ran to its end: the loop over the species and the last loop ran to their
ends, and the state is put together from what they wrote. -/
theorem pass_ok {ord : HashOrder} {M : Nat} {elapsed : Int} {s s' : Sim}
    (h : groupsGenealogicalTracker ord M elapsed s = .ok s') :
    ∃ w st,
      forEach (processSpecies ord M s (gather s)) (ord.species (gather s).speciesKeys)
        { critters := s.critters, speciesSizes := (gather s).speciesSizes,
          nextSpeciesID := s.nextSpeciesID, newSpeciesList := [], logSpecies := s.logSpecies,
          logSpeciesByID := s.logSpeciesByID, logspeciespointers := fun _ => none } = .ok w ∧
      forEach (recordSize s w.speciesSizes) w.newSpeciesList ([], w.logSpecies) = .ok st ∧
      s' = { s with
             critters := w.critters
             oldSpeciesList := st.1
             logSpecies := st.2
             logSpeciesByID := w.logSpeciesByID
             nextSpeciesID := w.nextSpeciesID
             warningCount := if elapsed > 5000 then s.warningCount + 1 else s.warningCount } := by
  unfold groupsGenealogicalTracker at h
  dsimp only at h
  cases h1 : forEach (processSpecies ord M s (gather s)) (ord.species (gather s).speciesKeys)
      { critters := s.critters, speciesSizes := (gather s).speciesSizes,
        nextSpeciesID := s.nextSpeciesID, newSpeciesList := [], logSpecies := s.logSpecies,
        logSpeciesByID := s.logSpeciesByID, logspeciespointers := fun _ => none } with
  | error e => rw [h1] at h; cases h
  | ok w =>
    rw [h1] at h
    dsimp only at h
    cases h2 : forEach (recordSize s w.speciesSizes) w.newSpeciesList ([], w.logSpecies) with
    | error e => rw [h2] at h; cases h
    | ok st =>
      rw [h2] at h
      exact ⟨w, st, rfl, h2, (Except.ok.inj h).symm⟩

/-- The live critters stay where they are when only species ids are rewritten. -/
theorem liveSlots_congr {s s' : Sim} (hx : s'.gridX = s.gridX) (hy : s'.gridY = s.gridY)
    (hz : s'.slotsPerSquare = s.slotsPerSquare)
    (hage : ∀ n m c, (s'.critters n m c).age = (s.critters n m c).age) :
    liveSlots s' = liveSlots s := by
  unfold liveSlots
  rw [hx, hy, hz]
  have : ∀ n m, (fun c => decide ((s'.critters n m c).age > 0)) =
      (fun c => decide ((s.critters n m c).age > 0)) := by
    intro n m
    funext c
    rw [hage]
  simp only [this]


/-- The ids handed out so far are at most as many as the gathered slots. -/
theorem PassInv.next_le {s : Sim} {pending : Nat × Nat × Nat → Prop} {kept : List Nat}
    {w : Work} (hinv : PassInv s pending kept w) :
    w.nextSpeciesID ≤ s.nextSpeciesID + (gatheredSlots s).length := by
  have hsub : List.range' s.nextSpeciesID (w.nextSpeciesID - s.nextSpeciesID) ⊆
      (gatheredSlots s).map (fun p => (critterAt w.critters p).speciesID) := by
    intro id hid
    rw [List.mem_range'_1] at hid
    obtain ⟨p, hp, _, hc⟩ := hinv.range_carried id hid.1 (by have := hinv.next_ge; omega)
    exact List.mem_map.2 ⟨p, hp, hc⟩
  have h1 := (List.subperm_of_subset (List.nodup_range' _ _) hsub).length_le
  rw [List.length_range', List.length_map] at h1
  have := hinv.next_ge
  omega

/-- The number of slots that carry an id is at most the number of gathered slots. -/
theorem countID_le (s : Sim) (critters : Nat → Nat → Nat → Critter) (id : Nat) :
    countID s critters id ≤ (gatheredSlots s).length := by
  unfold countID
  exact List.countP_le_length _

/-- The first loop reaches live critters only. -/
theorem gatheredSlots_subset (s : Sim) : gatheredSlots s ⊆ liveSlots s := by
  intro p hp
  obtain ⟨h1, h2, h3, _, h5⟩ := mem_gatheredSlots.1 hp
  exact mem_liveSlots.2 ⟨h1, h2, h3, h5⟩

theorem gatheredSlots_length_le (s : Sim) :
    (gatheredSlots s).length ≤ (liveSlots s).length :=
  (List.subperm_of_subset (gatheredSlots_nodup s) (gatheredSlots_subset s)).length_le

/-- Every round keeps the property that always holds. -/
theorem stepKeeps_true (s : Sim) : StepKeeps s (fun _ => True) :=
  ⟨fun _ _ _ _ _ _ _ _ _ _ _ _ _ _ _ => trivial, fun _ _ _ _ _ _ _ _ _ => trivial,
    fun _ _ _ _ _ _ _ => trivial⟩

/-- A pass that ran to its end, the id counter having been above the ids of the gathered
critters and far enough from its largest value: the ids after the pass, the new species list
and the id counter. -/
theorem pass_result {ord : HashOrder} (hord : ord.Valid) {M : Nat} {elapsed : Int}
    {s s' : Sim} (hfit : FitsPacking s)
    (hfresh : ∀ p ∈ gatheredSlots s, idAt s p < s.nextSpeciesID)
    (hwrap : s.nextSpeciesID + (gatheredSlots s).length < 2 ^ 64)
    (h : groupsGenealogicalTracker ord M elapsed s = .ok s') :
    PassResult s s' ∧ GroupResult ord s s' := by
  obtain ⟨w, st, hloop, hlast, hs'⟩ := pass_ok h
  obtain ⟨hinv, hG, _⟩ := speciesLoop_inv hord hfit hwrap hfresh (stepKeeps_true s) trivial hloop
  have hlist := recordSize_list _ _ _ hlast
  simp only [List.nil_append] at hlist
  have hIDs : s'.oldSpeciesList.map (fun sp => sp.ID) =
      w.newSpeciesList.map (fun sp => sp.ID) := by
    rw [hs']
    dsimp only
    rw [hlist, List.map_map]
    rfl
  have hcr : s'.critters = w.critters := by rw [hs']
  have hnext : s'.nextSpeciesID = w.nextSpeciesID := by rw [hs']
  have hidAt : ∀ p, idAt s' p = (critterAt w.critters p).speciesID := by
    intro p; unfold idAt; rw [hcr]
  have hx : s'.gridX = s.gridX := by rw [hs']
  have hy : s'.gridY = s.gridY := by rw [hs']
  have hz : s'.slotsPerSquare = s.slotsPerSquare := by rw [hs']
  have hlive : liveSlots s' = liveSlots s := by
    apply liveSlots_congr hx hy hz
    intro n m c
    rw [hcr]
    have := congrArg Critter.age (hinv.frame (n, m, c))
    exact this
  have hentries : ∀ sp ∈ s'.oldSpeciesList, ∃ sp0 ∈ w.newSpeciesList,
      sp = { sp0 with size := toInt32 ((toUInt32 (w.speciesSizes sp0.ID) : Nat) : Int) } := by
    intro sp hsp
    have hsp' : sp ∈ w.newSpeciesList.map (fun sp =>
        { sp with size := toInt32 ((toUInt32 (w.speciesSizes sp.ID) : Nat) : Int) }) := by
      rw [← hlist, hs'] at *
      exact hsp
    obtain ⟨sp0, h0, he⟩ := List.mem_map.1 hsp'
    exact ⟨sp0, h0, he.symm⟩
  have G := gather_inv s
  have hperm := hord.1 (gather s).speciesKeys
  have hfacts : ∀ p ∈ gatheredSlots s,
      (∃ k, slotInGroup ord s k p = true) ∧
      ∀ k, (speciesCodes ord s (idAt s p)).count k ≤
        (speciesCodes ord s (idAt s p)).count (keptGroup ord s (idAt s p)) := by
    intro p hp
    obtain ⟨m, hg⟩ := hG.grouped p hp (fun hf => hf)
    have hkey : idAt s p ∈ (gather s).speciesKeys := (G.keys_mem _).2 ⟨p, hp, rfl⟩
    obtain ⟨_, hlen, hmemq, _, _, _, hbig⟩ := species_grouping hord hkey hg
    constructor
    · have hq := (hmemq _).2 ⟨p, hp, rfl, rfl⟩
      obtain ⟨k, hk⟩ := exists_code_of_mem hlen hq
      refine ⟨k, ?_⟩
      unfold slotInGroup inGroup
      simp only [decide_eq_true_eq]
      exact ⟨rfl, hk⟩
    · exact hbig
  constructor
  · refine
      { gridX := hx, gridY := hy, slots := hz, fitness := by rw [hs'], live := hlive,
        frame := ?_, outside := ?_, listed := ?_, carried := ?_, ids_nodup := ?_, sizes := ?_,
        new_ids := ?_, range_carried := ?_, next_ge := ?_, next_le := ?_, fresh := ?_,
        parent_new := ?_, kept_same := ?_ }
    · intro p
      rw [hidAt, hcr]
      exact hinv.frame p
    · intro p hp
      rw [hcr]
      exact hinv.outside p hp
    · intro hL p hp
      rw [hidAt, hIDs]
      exact hinv.done hL p hp (fun hf => hf)
    · intro hL id hid
      rw [hIDs] at hid
      obtain ⟨p, hp, _, hc⟩ := hinv.carried hL id hid
      exact ⟨p, hp, by rw [hidAt]; exact hc⟩
    · intro hL
      rw [hIDs]; exact hinv.ids_nodup hL
    · intro hsmall sp hsp
      obtain ⟨sp0, _, he⟩ := hentries sp hsp
      have hcount : countID s w.critters sp0.ID < 2 ^ 31 := by
        have := countID_le s w.critters sp0.ID
        omega
      rw [he, hcr]
      dsimp only
      rw [hinv.tally hsmall, toUInt32_of_small (by omega), toInt32_of_small hcount]
    · rw [hIDs, hnext]; exact hinv.new_ids
    · intro id h1 h2
      obtain ⟨p, hp, _, hc⟩ := hinv.range_carried id h1 (by rw [← hnext]; exact h2)
      exact ⟨p, hp, by rw [hidAt]; exact hc⟩
    · rw [hnext]; exact hinv.next_ge
    · rw [hnext]; exact hinv.next_le
    · intro p hp
      rw [hidAt, hnext]
      exact hinv.fresh p hp
    · intro sp hsp hge p hp hcar
      obtain ⟨sp0, hsp0, he⟩ := hentries sp hsp
      rw [he] at hge hcar ⊢
      rw [hidAt] at hcar
      exact hinv.parent_new sp0 hsp0 hge p hp hcar
    · intro p hp hlt
      rw [hidAt] at hlt ⊢
      exact hinv.kept_same p hp hlt
  · refine ⟨?_, ?_, ?_, ?_, ?_⟩
    · intro p hp
      exact hG.grouped p hp (fun hf => hf)
    · intro p hp
      exact (hfacts p hp).1
    · intro p hp
      exact (hfacts p hp).2
    · intro p hp
      rw [hidAt]
      exact hG.kept_iff p hp (fun hf => hf)
    · intro p hp q hq hsame
      rw [hidAt, hidAt]
      exact hG.same_iff p hp q hq (fun hf => hf) (fun hf => hf) hsame

/-- Every round of a loop that ran to its end ran to its end. -/
theorem forEach_mem_ok {α σ : Type} (body : α → σ → Except Fault σ) :
    ∀ (l : List α) (s s' : σ), forEach body l s = .ok s' →
      ∀ a ∈ l, ∃ t t', body a t = .ok t' := by
  intro l
  induction l with
  | nil => intro _ _ _ a ha; cases ha
  | cons b rest ih =>
    intro s s' h a ha
    simp only [forEach] at h
    cases hb : body b s with
    | error e => rw [hb] at h; cases h
    | ok t =>
      rw [hb] at h
      rcases List.mem_cons.1 ha with rfl | hr
      · exact ⟨s, t, hb⟩
      · exact ih t s' h a hr

/-- In a pass that ran to its end the grouping of every species ran to its end, and the group
picked to continue the species is one of the most genomes. -/
theorem pass_grouped {ord : HashOrder} (hord : ord.Valid) {M : Nat} {elapsed : Int}
    {s s' : Sim} (h : groupsGenealogicalTracker ord M elapsed s = .ok s') :
    ∀ speciesID ∈ (gather s).speciesKeys,
      (∃ maxcode, groupGenomes s.maxDifference (speciesGenomes ord s speciesID) =
        .ok (speciesCodes ord s speciesID, maxcode)) ∧
      ∀ k, (speciesCodes ord s speciesID).count k ≤
        (speciesCodes ord s speciesID).count (keptGroup ord s speciesID) := by
  obtain ⟨w, st, hloop, _, _⟩ := pass_ok h
  intro sid hsid
  obtain ⟨t, t', hb⟩ := forEach_mem_ok _ _ _ _ hloop sid ((hord.1 _).mem_iff.2 hsid)
  obtain ⟨_, codes, _, _, _, hg, _, _⟩ := processSpecies_ok hb
  have hcodes := speciesCodes_of_ok hg
  obtain ⟨_, _, _, _, _, _, hbig⟩ := species_grouping hord hsid hg
  constructor
  · refine ⟨codes.2, ?_⟩
    rw [hcodes]
    exact hg
  · intro k
    unfold keptGroup
    rw [hcodes]
    exact hbig k
/-! ## Running the pass on a given state -/

theorem ok_stateAfter {ord : HashOrder} {M : Nat} {elapsed : Int} {s : Sim}
    (h : completes ord M elapsed s = true) :
    groupsGenealogicalTracker ord M elapsed s = .ok (stateAfter ord M elapsed s) := by
  unfold completes at h
  unfold stateAfter
  cases hp : groupsGenealogicalTracker ord M elapsed s with
  | ok s' => rfl
  | error e => rw [hp] at h; cases h

theorem insertionOrder_valid : insertionOrder.Valid :=
  ⟨fun _ => List.Perm.refl _, fun _ => List.Perm.refl _, fun _ => List.Perm.refl _⟩

/-! ## Sizes of a species and of the species split from it -/

/-- Counting the entries with one of two properties that exclude each other. -/
theorem countP_or_of_disjoint {β : Type} (P Q : β → Bool) :
    ∀ (L : List β), (∀ b ∈ L, ¬ (P b = true ∧ Q b = true)) →
      L.countP (fun b => P b || Q b) = L.countP P + L.countP Q := by
  intro L
  induction L with
  | nil => intro _; rfl
  | cons b rest ih =>
    intro hd
    have hrest := ih (fun x hx => hd x (List.mem_cons_of_mem _ hx))
    have hb := hd b (List.mem_cons_self _ _)
    rw [List.countP_cons, List.countP_cons, List.countP_cons, hrest]
    cases hP : P b <;> cases hQ : Q b <;> simp_all <;> omega

/-- The slots that carry one of several distinct ids, counted id by id. -/
theorem sum_countP_ids {β : Type} (L : List β) (g : β → Nat) :
    ∀ (A : List Nat), A.Nodup →
      (A.map (fun a => ((L.countP (fun b => decide (g b = a)) : Nat) : Int))).sum =
        ((L.countP (fun b => decide (g b ∈ A)) : Nat) : Int) := by
  intro A
  induction A with
  | nil =>
    intro _
    simp
  | cons a rest ih =>
    intro hnd
    obtain ⟨ha, hrest⟩ := List.nodup_cons.1 hnd
    rw [List.map_cons, List.sum_cons, ih hrest]
    have hsplit : L.countP (fun b => decide (g b ∈ a :: rest)) =
        L.countP (fun b => decide (g b = a) || decide (g b ∈ rest)) := by
      apply List.countP_congr
      intro b _
      simp
    rw [hsplit, countP_or_of_disjoint (fun b => decide (g b = a)) (fun b => decide (g b ∈ rest))]
    · push_cast
      rfl
    · intro b _ hb
      simp only [decide_eq_true_eq] at hb
      rw [hb.1] at hb
      exact ha hb.2

/-! ## The grid within the static arrays -/

theorem WithinArrays.fits {s : Sim} (h : WithinArrays s) : FitsPacking s := by
  obtain ⟨h1, h2, h3⟩ := h
  unfold GRID_X at h1
  unfold GRID_Y at h2
  unfold SLOTS_PER_GRID_SQUARE at h3
  exact ⟨by omega, h2, h3⟩

/-- A grid within the static arrays holds fewer critters than an `int` can count. -/
theorem WithinArrays.small {s : Sim} (h : WithinArrays s) : (liveSlots s).length < 2 ^ 31 := by
  obtain ⟨h1, h2, h3⟩ := h
  unfold GRID_X at h1
  unfold GRID_Y at h2
  unfold SLOTS_PER_GRID_SQUARE at h3
  have hsub : liveSlots s ⊆
      List.range s.gridX ×ˢ (List.range s.gridY ×ˢ List.range s.slotsPerSquare) := by
    intro p hp
    obtain ⟨hx, hy, hz, _⟩ := mem_liveSlots.1 hp
    obtain ⟨x, y, z⟩ := p
    exact List.mem_product.2 ⟨List.mem_range.2 hx,
      List.mem_product.2 ⟨List.mem_range.2 hy, List.mem_range.2 hz⟩⟩
  have hle := (List.subperm_of_subset (liveSlots_nodup s) hsub).length_le
  rw [List.length_product, List.length_product, List.length_range, List.length_range,
    List.length_range] at hle
  have hyz : s.gridY * s.slotsPerSquare ≤ 256 * 256 := Nat.mul_le_mul h2 h3
  have hxyz : s.gridX * (s.gridY * s.slotsPerSquare) ≤ 256 * (256 * 256) :=
    Nat.mul_le_mul h1 hyz
  omega
/-! ## Claims about the ids and the sizes after a pass -/

/-- C5 (amended). For a pass of groupsGenealogicalTracker that runs to its end (on a grid
within the static arrays): for every species processed, the group that
keeps the species id has at least as many genomes as every other group of that species;
a group that is split off receives the value that the id counter has at that moment, and
the counter moves on by one (modulo 2^64). Provided the counter exceeded every id in use on
entry and cannot reach 2^64 during the pass: exactly the critters of the kept group keep
their id, every other critter ends with an id between the old and the new value of the
counter, two critters end with the same id exactly if they had the same id and lie in the
same group, the ids handed out are the consecutive values of the counter (so pairwise
distinct), each carried by some critter, and they differ from every id in use on entry. -/
theorem C5_kept_group_and_fresh_ids (ord : HashOrder) (hord : ord.Valid) (M : Nat)
    (elapsed : Int) (s s' : Sim) (harr : WithinArrays s)
    (h : groupsGenealogicalTracker ord M elapsed s = .ok s') :
    (∀ speciesID ∈ (gather s).speciesKeys,
      (∃ maxcode, groupGenomes s.maxDifference (speciesGenomes ord s speciesID) =
        .ok (speciesCodes ord s speciesID, maxcode)) ∧
      ∀ k, (speciesCodes ord s speciesID).count k ≤
        (speciesCodes ord s speciesID).count (keptGroup ord s speciesID)) ∧
    (∀ (speciesID : Nat) (thislogspecies : Option Nat) (gs : List Nat) (codes : List Int)
      (groupcode : Int) (w w' : Work), gs.Nodup → gs.length = codes.length →
      splitOffGroup s speciesID thislogspecies gs codes ((gather s).slotswithgenome speciesID)
        groupcode w = .ok w' →
      (∃ sp, w'.newSpeciesList = w.newSpeciesList ++ [sp] ∧ sp.ID = w.nextSpeciesID ∧
        sp.parent = speciesID) ∧
      w'.nextSpeciesID = (w.nextSpeciesID + 1) % 2 ^ 64 ∧
      ∀ p ∈ gatheredSlots s, (critterAt w'.critters p).speciesID =
        if inGroup s speciesID gs codes groupcode p = true then w.nextSpeciesID
        else (critterAt w.critters p).speciesID) ∧
    ((∀ p ∈ liveSlots s, idAt s p < s.nextSpeciesID) →
      s.nextSpeciesID + (liveSlots s).length < 2 ^ 64 →
      (∀ p ∈ gatheredSlots s,
        (idAt s' p = idAt s p ↔ slotInGroup ord s (keptGroup ord s (idAt s p)) p = true)) ∧
      (∀ p ∈ gatheredSlots s, idAt s' p ≠ idAt s p →
        s.nextSpeciesID ≤ idAt s' p ∧ idAt s' p < s'.nextSpeciesID) ∧
      (∀ p ∈ gatheredSlots s, ∀ q ∈ gatheredSlots s,
        (idAt s' p = idAt s' q ↔
          idAt s p = idAt s q ∧
            ∃ k, slotInGroup ord s k p = true ∧ slotInGroup ord s k q = true)) ∧
      ((s'.oldSpeciesList.map (fun sp => sp.ID)).filter
          (fun id => decide (s.nextSpeciesID ≤ id)) =
        List.range' s.nextSpeciesID (s'.nextSpeciesID - s.nextSpeciesID)) ∧
      (∀ id, s.nextSpeciesID ≤ id → id < s'.nextSpeciesID →
        ∃ p ∈ gatheredSlots s, idAt s' p = id) ∧
      (∀ id, s.nextSpeciesID ≤ id → ∀ p ∈ liveSlots s, idAt s p ≠ id)) := by
  refine ⟨pass_grouped hord h, ?_, ?_⟩
  · intro speciesID t gs codes groupcode w w' hnd hlen hstep
    obtain ⟨_, _, hn, sp, hl, hID, hpar, _⟩ := splitOffGroup_effect hstep
    exact ⟨⟨sp, hl, hID, hpar⟩, hn, splitOffGroup_ids harr.fits hnd hlen hstep⟩
  · intro hfresh hwrap
    have hlen := gatheredSlots_length_le s
    obtain ⟨R, G⟩ := pass_result hord harr.fits
      (fun p hp => hfresh p (gatheredSlots_subset s hp)) (by omega) h
    refine ⟨G.kept_iff, ?_, ?_, R.new_ids, R.range_carried, ?_⟩
    · intro p hp hne
      have hlt := R.fresh p hp
      by_cases hlow : idAt s' p < s.nextSpeciesID
      · exact absurd (R.kept_same p hp hlow) hne
      · exact ⟨by omega, hlt⟩
    · intro p hp q hq
      constructor
      · intro he
        have hsame : idAt s p = idAt s q := by
          by_cases hlow : idAt s' p < s.nextSpeciesID
          · rw [← R.kept_same p hp hlow, ← R.kept_same q hq (by rw [← he]; exact hlow), he]
          · have hmem : idAt s' p ∈ (s'.oldSpeciesList.map (fun sp => sp.ID)).filter
                (fun id => decide (s.nextSpeciesID ≤ id)) := by
              rw [R.new_ids, List.mem_range'_1]
              have := R.fresh p hp
              omega
            obtain ⟨sp, hsp, hid⟩ := List.mem_map.1 (List.mem_filter.1 hmem).1
            have hid' : sp.ID = idAt s' p := hid
            have h1 := R.parent_new sp hsp (by rw [hid']; omega) p hp hid'.symm
            have h2 := R.parent_new sp hsp (by rw [hid']; omega) q hq (by rw [hid', he])
            rw [h1, h2]
        exact ⟨hsame, (G.same_iff p hp q hq hsame).1 he⟩
      · rintro ⟨hsame, hk⟩
        exact (G.same_iff p hp q hq hsame).2 hk
    · intro id hge p hp he
      have := hfresh p hp
      omega

/-- The counter of C5 when it wraps: a species with the id 0 and three groups, the id counter
at 2^64 - 1 (above the one id in use). The two groups that are split off receive 2^64 - 1
and 0, and 0 is the id of the species itself: the new list has two entries with the id 0, and
the critters of two groups carry it. -/
theorem C5_counter_wraps_counterexample :
    (∀ p ∈ liveSlots wrapState, idAt wrapState p < wrapState.nextSpeciesID) ∧
    (∀ sp ∈ wrapState.oldSpeciesList, sp.ID < wrapState.nextSpeciesID) ∧
    (groupsGenealogicalTracker insertionOrder 100 0 wrapState).map
      (fun s' => (s'.oldSpeciesList.map (fun sp => sp.ID),
        (liveSlots s').map (fun p => idAt s' p), s'.nextSpeciesID)) =
      .ok ([0, 2 ^ 64 - 1, 0], [0, 2 ^ 64 - 1, 0, 0], 1) := by
  decide

/-- Witness for C5: two species in one cell, the first with a group that is split off and
receives the id 3 of the counter. -/
theorem C5_kept_group_and_fresh_ids_witness :
    WithinArrays (twoSpeciesState 3) ∧
    groupsGenealogicalTracker insertionOrder 100 0 (twoSpeciesState 3) =
      .ok (stateAfter insertionOrder 100 0 (twoSpeciesState 3)) ∧
    (((stateAfter insertionOrder 100 0 (twoSpeciesState 3)).oldSpeciesList.map
        (fun sp => sp.ID)).filter (fun id => decide ((twoSpeciesState 3).nextSpeciesID ≤ id)) =
      List.range' (twoSpeciesState 3).nextSpeciesID
        ((stateAfter insertionOrder 100 0 (twoSpeciesState 3)).nextSpeciesID -
          (twoSpeciesState 3).nextSpeciesID)) :=
  ⟨by decide, ok_stateAfter (by decide),
   ((C5_kept_group_and_fresh_ids insertionOrder insertionOrder_valid 100 0 (twoSpeciesState 3)
     (stateAfter insertionOrder 100 0 (twoSpeciesState 3)) (by decide)
     (ok_stateAfter (by decide))).2.2 (by decide) (by decide)).2.2.2.1⟩

/-- C6 (amended). Invariant of groupsGenealogicalTracker (on a grid within the static
arrays): if on entry every live critter's species id occurs in the working species
list, the cell aggregates are consistent, and the id counter lies above every id of a live
critter and cannot reach 2^64 during the pass, then a pass that runs to its end leaves a
species list with exactly one entry for each species id carried by some live critter and no
entry for any other id. -/
theorem C6_one_entry_per_live_id (ord : HashOrder) (hord : ord.Valid) (M : Nat)
    (elapsed : Int) (s s' : Sim) (harr : WithinArrays s)
    (hlisted : ∀ p ∈ liveSlots s, ∃ old ∈ s.oldSpeciesList, old.ID = idAt s p)
    (hagg : AggregatesConsistent s)
    (hfresh : ∀ p ∈ liveSlots s, idAt s p < s.nextSpeciesID)
    (hwrap : s.nextSpeciesID + (liveSlots s).length < 2 ^ 64)
    (h : groupsGenealogicalTracker ord M elapsed s = .ok s') :
    (s'.oldSpeciesList.map (fun sp => sp.ID)).Nodup ∧
    ∀ id, id ∈ s'.oldSpeciesList.map (fun sp => sp.ID) ↔ ∃ p ∈ liveSlots s', idAt s' p = id := by
  have hgl := gatheredSlots_eq_liveSlots hagg
  have hL : Listed s := by
    intro p hp
    rw [hgl] at hp
    exact hlisted p hp
  obtain ⟨R, _⟩ := pass_result hord harr.fits (by rw [hgl]; exact hfresh)
    (by rw [hgl]; exact hwrap) h
  refine ⟨R.ids_nodup hL, ?_⟩
  intro id
  rw [R.live, ← hgl]
  constructor
  · exact R.carried hL id
  · rintro ⟨p, hp, he⟩
    rw [← he]
    exact R.listed hL p hp

/-- The invariant of C6 with a stale id counter: every live critter's id occurs exactly once
in the list and the aggregates are consistent, but the counter holds the id of the second
species. The group split from the first species receives that id, and the new list has two
entries with the id 2. -/
theorem C6_stale_counter_counterexample :
    (∀ p ∈ liveSlots (twoSpeciesState 2),
      ((twoSpeciesState 2).oldSpeciesList.map (fun sp => sp.ID)).count
        (idAt (twoSpeciesState 2) p) = 1) ∧
    AggregatesConsistent (twoSpeciesState 2) ∧
    (groupsGenealogicalTracker insertionOrder 100 0 (twoSpeciesState 2)).map
      (fun s' => s'.oldSpeciesList.map (fun sp => sp.ID)) = .ok [1, 2, 2] := by
  decide

/-- Witness for C6: two species in one cell, the first with a group that is split off. -/
theorem C6_one_entry_per_live_id_witness :
    WithinArrays (twoSpeciesState 3) ∧
    (∀ p ∈ liveSlots (twoSpeciesState 3),
      ∃ old ∈ (twoSpeciesState 3).oldSpeciesList, old.ID = idAt (twoSpeciesState 3) p) ∧
    AggregatesConsistent (twoSpeciesState 3) ∧
    (∀ p ∈ liveSlots (twoSpeciesState 3),
      idAt (twoSpeciesState 3) p < (twoSpeciesState 3).nextSpeciesID) ∧
    (twoSpeciesState 3).nextSpeciesID + (liveSlots (twoSpeciesState 3)).length < 2 ^ 64 ∧
    groupsGenealogicalTracker insertionOrder 100 0 (twoSpeciesState 3) =
      .ok (stateAfter insertionOrder 100 0 (twoSpeciesState 3)) ∧
    ((stateAfter insertionOrder 100 0 (twoSpeciesState 3)).oldSpeciesList.map
      (fun sp => sp.ID)).Nodup ∧
    ∀ id, id ∈ (stateAfter insertionOrder 100 0 (twoSpeciesState 3)).oldSpeciesList.map
        (fun sp => sp.ID) ↔
      ∃ p ∈ liveSlots (stateAfter insertionOrder 100 0 (twoSpeciesState 3)),
        idAt (stateAfter insertionOrder 100 0 (twoSpeciesState 3)) p = id :=
  ⟨by decide, by decide, by decide, by decide, by decide, ok_stateAfter (by decide),
   C6_one_entry_per_live_id insertionOrder insertionOrder_valid 100 0 (twoSpeciesState 3)
     (stateAfter insertionOrder 100 0 (twoSpeciesState 3)) (by decide) (by decide) (by decide)
     (by decide) (by decide) (ok_stateAfter (by decide))⟩

/-- C7 (amended). After a pass of groupsGenealogicalTracker that runs to its end from a state
(on a grid within the static arrays) in which the cell aggregates are consistent and the id
counter lies above every id of a live critter and cannot reach 2^64 during the pass: the size
of every entry of the new species list is the number of live critter slots that carry its id
after the write-back; a live critter either keeps its id or carries the id of a new entry
whose parent is its old id; and, if every live critter's species is in the species list on
entry, the sizes of a species and of the species split from it sum to the occupancy of the
species before the pass. -/
theorem C7_sizes_are_occupancies (ord : HashOrder) (hord : ord.Valid) (M : Nat)
    (elapsed : Int) (s s' : Sim) (harr : WithinArrays s) (hagg : AggregatesConsistent s)
    (hfresh : ∀ p ∈ liveSlots s, idAt s p < s.nextSpeciesID)
    (hwrap : s.nextSpeciesID + (liveSlots s).length < 2 ^ 64)
    (h : groupsGenealogicalTracker ord M elapsed s = .ok s') :
    (∀ sp ∈ s'.oldSpeciesList, sp.size = (occupancy s' sp.ID : Int)) ∧
    (∀ p ∈ liveSlots s, idAt s' p = idAt s p ∨
      ∃ sp ∈ s'.oldSpeciesList, sp.ID = idAt s' p ∧ s.nextSpeciesID ≤ sp.ID ∧
        sp.parent = idAt s p) ∧
    ((∀ p ∈ liveSlots s, ∃ old ∈ s.oldSpeciesList, old.ID = idAt s p) →
      ∀ p ∈ liveSlots s,
        ((s'.oldSpeciesList.filter (fun sp => decide (sp.ID = idAt s p ∨
            (s.nextSpeciesID ≤ sp.ID ∧ sp.parent = idAt s p)))).map (fun sp => sp.size)).sum =
          (occupancy s (idAt s p) : Int)) := by
  have hgl := gatheredSlots_eq_liveSlots hagg
  have hsmall := harr.small
  obtain ⟨R, _⟩ := pass_result hord harr.fits (by rw [hgl]; exact hfresh)
    (by rw [hgl]; exact hwrap) h
  have hocc : ∀ id, occupancy s' id =
      (liveSlots s).countP (fun p => decide (idAt s' p = id)) := by
    intro id
    unfold occupancy
    rw [R.live]
    rfl
  have hsizes : ∀ sp ∈ s'.oldSpeciesList, sp.size = (occupancy s' sp.ID : Int) := by
    intro sp hsp
    rw [R.sizes (by rw [hgl]; exact hsmall) sp hsp, hocc]
    unfold countID
    rw [hgl]
    rfl
  have hentry : ∀ p ∈ liveSlots s, s.nextSpeciesID ≤ idAt s' p →
      ∃ sp ∈ s'.oldSpeciesList, sp.ID = idAt s' p := by
    intro p hp hge
    have hmem : idAt s' p ∈ (s'.oldSpeciesList.map (fun sp => sp.ID)).filter
        (fun id => decide (s.nextSpeciesID ≤ id)) := by
      rw [R.new_ids, List.mem_range'_1]
      have := R.fresh p (by rw [hgl]; exact hp)
      omega
    obtain ⟨sp, hsp, hid⟩ := List.mem_map.1 (List.mem_filter.1 hmem).1
    exact ⟨sp, hsp, hid⟩
  refine ⟨hsizes, ?_, ?_⟩
  · intro p hp
    have hp' : p ∈ gatheredSlots s := by rw [hgl]; exact hp
    by_cases hlow : idAt s' p < s.nextSpeciesID
    · exact Or.inl (R.kept_same p hp' hlow)
    · obtain ⟨sp, hsp, hid⟩ := hentry p hp (by omega)
      have hge : s.nextSpeciesID ≤ sp.ID := by rw [hid]; omega
      exact Or.inr ⟨sp, hsp, hid, hge, (R.parent_new sp hsp hge p hp' hid.symm).symm⟩
  · intro hlisted p0 hp0
    have hL : Listed s := by
      intro p hp
      rw [hgl] at hp
      exact hlisted p hp
    have hstep1 : (s'.oldSpeciesList.filter (fun sp => decide (sp.ID = idAt s p0 ∨
          (s.nextSpeciesID ≤ sp.ID ∧ sp.parent = idAt s p0)))).map (fun sp => sp.size) =
        ((s'.oldSpeciesList.filter (fun sp => decide (sp.ID = idAt s p0 ∨
          (s.nextSpeciesID ≤ sp.ID ∧ sp.parent = idAt s p0)))).map (fun sp => sp.ID)).map
          (fun a => (((liveSlots s).countP (fun p => decide (idAt s' p = a)) : Nat) : Int)) := by
      rw [List.map_map]
      apply List.map_congr_left
      intro sp hsp
      rw [hsizes sp (List.mem_filter.1 hsp).1, hocc]
      rfl
    have hnd : ((s'.oldSpeciesList.filter (fun sp => decide (sp.ID = idAt s p0 ∨
        (s.nextSpeciesID ≤ sp.ID ∧ sp.parent = idAt s p0)))).map (fun sp => sp.ID)).Nodup :=
      List.Nodup.sublist ((List.filter_sublist _).map _) (R.ids_nodup hL)
    rw [hstep1, sum_countP_ids _ _ _ hnd]
    unfold occupancy
    congr 1
    apply List.countP_congr
    intro p hp
    have hp' : p ∈ gatheredSlots s := by rw [hgl]; exact hp
    simp only [decide_eq_true_eq, List.mem_map, List.mem_filter]
    constructor
    · rintro ⟨sp, ⟨hsp, hcond⟩, hid⟩
      rcases hcond with hkept | ⟨hge, hpar⟩
      · have hlow : idAt s' p < s.nextSpeciesID := by
          rw [← hid, hkept]; exact hfresh p0 hp0
        have := R.kept_same p hp' hlow
        rw [← hid, hkept] at this
        exact this.symm
      · have := R.parent_new sp hsp hge p hp' hid.symm
        rw [hpar] at this
        exact this
    · intro hsame
      have hsame' : idAt s p = idAt s p0 := hsame
      obtain ⟨sp, hsp, hid⟩ := List.mem_map.1 (R.listed hL p hp')
      refine ⟨sp, ⟨hsp, ?_⟩, hid⟩
      by_cases hlow : idAt s' p < s.nextSpeciesID
      · left
        rw [hid, R.kept_same p hp' hlow, hsame']
      · right
        have hge : s.nextSpeciesID ≤ sp.ID := by rw [hid]; omega
        exact ⟨hge, by rw [← R.parent_new sp hsp hge p hp' hid.symm, hsame']⟩

/-- The sizes of C7 where the entry conditions fail, as triples (id, size, number of live
critters with the id) of the entries of the new list. With a stale id counter (the counter
holds the id 2 of a live species) the two entries with the id 2 have the size 1, and three
live critters carry the id 2. With an inconsistent cell aggregate (five live critters in a
cell of total fitness 0) the critters are not counted at all. With the counter at 2^64 - 1
the entries with the id 0 have the size 0, and three live critters carry the id 0. Without
an entry for the species 1 in the old list, the continuing entry has the id 0 and the size
0, and no entry holds the two critters that stay in the species. -/
theorem C7_sizes_counterexample :
    (groupsGenealogicalTracker insertionOrder 100 0 (twoSpeciesState 2)).map
      (fun s' => s'.oldSpeciesList.map (fun sp => (sp.ID, sp.size, occupancy s' sp.ID))) =
      .ok [(1, 2, 2), (2, 1, 3), (2, 1, 3)] ∧
    (groupsGenealogicalTracker insertionOrder 100 0 skippedCellState).map
      (fun s' => (s'.oldSpeciesList, (liveSlots s').length)) = .ok ([], 5) ∧
    (groupsGenealogicalTracker insertionOrder 100 0 wrapState).map
      (fun s' => s'.oldSpeciesList.map (fun sp => (sp.ID, sp.size, occupancy s' sp.ID))) =
      .ok [(0, 0, 3), (2 ^ 64 - 1, 1, 1), (0, 0, 3)] ∧
    (groupsGenealogicalTracker insertionOrder 100 0 unlistedState).map
      (fun s' => s'.oldSpeciesList.map (fun sp => (sp.ID, sp.size, occupancy s' sp.ID))) =
      .ok [(0, 0, 0), (3, 1, 1), (2, 2, 2)] := by
  decide

/-- Witness for C7: two species in one cell, the first with a group that is split off. -/
theorem C7_sizes_are_occupancies_witness :
    WithinArrays (twoSpeciesState 3) ∧
    AggregatesConsistent (twoSpeciesState 3) ∧
    (∀ p ∈ liveSlots (twoSpeciesState 3),
      idAt (twoSpeciesState 3) p < (twoSpeciesState 3).nextSpeciesID) ∧
    (twoSpeciesState 3).nextSpeciesID + (liveSlots (twoSpeciesState 3)).length < 2 ^ 64 ∧
    groupsGenealogicalTracker insertionOrder 100 0 (twoSpeciesState 3) =
      .ok (stateAfter insertionOrder 100 0 (twoSpeciesState 3)) ∧
    ∀ sp ∈ (stateAfter insertionOrder 100 0 (twoSpeciesState 3)).oldSpeciesList,
      sp.size = (occupancy (stateAfter insertionOrder 100 0 (twoSpeciesState 3)) sp.ID : Int) :=
  ⟨by decide, by decide, by decide, by decide, ok_stateAfter (by decide),
   (C7_sizes_are_occupancies insertionOrder insertionOrder_valid 100 0 (twoSpeciesState 3)
     (stateAfter insertionOrder 100 0 (twoSpeciesState 3)) (by decide) (by decide) (by decide)
     (by decide) (ok_stateAfter (by decide))).1⟩
/-! ## The log nodes of the entries of the new species list -/

theorem getElem?_lt_length {α : Type} {L : List α} {p : Nat} {a : α} (h : L[p]? = some a) :
    p < L.length := by
  rcases Nat.lt_or_ge p L.length with hlt | hge
  · exact hlt
  · rw [List.getElem?_eq_none hge] at h; cases h

/-- Writing a node back with the same reading and adding nodes keeps the reading of the nodes
of before. -/
theorem keepsPrefix_set_append {β : Type} (f : LogSpecies → β) {L : List LogSpecies} {p : Nat}
    {node node' : LogSpecies} (hp : L[p]? = some node) (hf : f node' = f node)
    (extra : List LogSpecies) : KeepsPrefix f L (L.set p node' ++ extra) := by
  have hk := keeps_set f hp hf
  refine ⟨by rw [List.length_append, List.length_set]; omega, fun i hi => ?_⟩
  rw [List.getElem?_append_left (by rw [List.length_set]; exact hi)]
  exact hk.2 i

/-- Splitting a group off keeps the invariant of the log nodes. -/
theorem splitOffGroup_loginv {s : Sim} {speciesID : Nat} {thislogspecies : Option Nat}
    {genomes : List Nat} {groupcodes : List Int} {slots : Nat → List Nat} {groupcode : Int}
    {kept : List Nat} {w w' : Work} (hmode : s.speciesMode ≥ SPECIES_MODE_PHYLOGENY)
    (hinv : LogInv s kept w)
    (h : splitOffGroup s speciesID thislogspecies genomes groupcodes slots groupcode w = .ok w') :
    LogInv s kept w' := by
  obtain ⟨p, parentNode, _, hn, hlog, _, _, sp, hl, _, _, hptr⟩ := splitOffGroup_log hmode h
  have hlen : w'.logSpecies.length = w.logSpecies.length + 1 := by
    rw [hlog, List.length_append, List.length_set]
    rfl
  have hge := hinv.prefix_max.1
  refine ⟨?_, ?_, ?_, ?_⟩
  · rw [hlog]
    refine hinv.prefix_max.seq_prefix ?_
    refine keepsPrefix_set_append _ hn ?_ _
    rfl
  · intro sp' hsp' q hq
    rw [hl] at hsp'
    rcases List.mem_append.1 hsp' with hold | hnew
    · have := hinv.ptr_valid sp' hold q hq
      omega
    · rw [List.mem_singleton] at hnew
      rw [hnew, hptr] at hq
      cases hq
      omega
  · intro sp' hsp' q hq hlt
    rw [hl] at hsp'
    rcases List.mem_append.1 hsp' with hold | hnew
    · exact hinv.ptr_old sp' hold q hq hlt
    · rw [List.mem_singleton] at hnew
      rw [hnew, hptr] at hq
      cases hq
      omega
  · rw [hl, List.filterMap_append]
    have : List.filterMap (fun sp => sp.logSpeciesStructure) [sp] = [w.logSpecies.length] := by
      simp [List.filterMap_cons, hptr]
    rw [this]
    apply List.Nodup.append hinv.ptr_nodup (List.nodup_singleton _)
    rw [List.disjoint_singleton]
    intro hmem
    obtain ⟨sp', hsp', hq⟩ := List.mem_filterMap.1 hmem
    have := hinv.ptr_valid sp' hsp' _ hq
    omega

/-- The continuing branch keeps the invariant of the log nodes, when the entries of the old
list point to nodes of the log and entries with different ids point to different nodes. -/
theorem continueGroup_loginv {s : Sim} {speciesID : Nat} {genomes : List Nat}
    {groupcodes : List Int} {maxcountkey groupcode : Int} {kept : List Nat} {w w' : Work}
    (hV : ∀ old ∈ s.oldSpeciesList, ∀ p, old.logSpeciesStructure = some p →
      p < s.logSpecies.length)
    (hU : ∀ a ∈ s.oldSpeciesList, ∀ b ∈ s.oldSpeciesList, ∀ p,
      a.logSpeciesStructure = some p → b.logSpeciesStructure = some p → a.ID = b.ID)
    (hinv : LogInv s kept w) (hnew : speciesID ∉ kept)
    (h : continueGroup s speciesID genomes groupcodes maxcountkey groupcode w = .ok w') :
    LogInv s (kept ++ [speciesID]) w' := by
  obtain ⟨_, _, _, _, sp, hl, hsp⟩ := continueGroup_effect h
  have hk := continueGroup_logs h
  have hge := hinv.prefix_max.1
  have hspold : ∀ q, sp.logSpeciesStructure = some q →
      ∃ old ∈ s.oldSpeciesList, old.ID = speciesID ∧ old.logSpeciesStructure = some q := by
    intro q hq
    rcases hsp with ⟨_, _, hnone⟩ | ⟨old, ho, hid, _, _, hptr⟩
    · rw [hnone] at hq; cases hq
    · exact ⟨old, ho, hid, by rw [← hptr]; exact hq⟩
  refine ⟨?_, ?_, ?_, ?_⟩
  · exact hinv.prefix_max.seq_prefix
      (hk.comp (fun c : (Nat × Nat × Option Nat) × List Nat × Nat => c.2.2)).toPrefix
  · intro sp' hsp' q hq
    rw [hk.1]
    rw [hl] at hsp'
    rcases List.mem_append.1 hsp' with hold | hnew'
    · exact hinv.ptr_valid sp' hold q hq
    · rw [List.mem_singleton] at hnew'
      rw [hnew'] at hq
      obtain ⟨old, ho, _, hptr⟩ := hspold q hq
      have := hV old ho q hptr
      omega
  · intro sp' hsp' q hq hlt
    rw [hl] at hsp'
    rcases List.mem_append.1 hsp' with hold | hnew'
    · obtain ⟨old, ho, h1, h2⟩ := hinv.ptr_old sp' hold q hq hlt
      exact ⟨old, ho, h1, List.mem_append_left _ h2⟩
    · rw [List.mem_singleton] at hnew'
      rw [hnew'] at hq
      obtain ⟨old, ho, hid, hptr⟩ := hspold q hq
      exact ⟨old, ho, hptr, List.mem_append_right _ (by rw [hid]; simp)⟩
  · rw [hl, List.filterMap_append]
    cases hq : sp.logSpeciesStructure with
    | none =>
      have : List.filterMap (fun sp => sp.logSpeciesStructure) [sp] = [] := by
        simp [List.filterMap_cons, hq]
      rw [this, List.append_nil]
      exact hinv.ptr_nodup
    | some q =>
      have : List.filterMap (fun sp => sp.logSpeciesStructure) [sp] = [q] := by
        simp [List.filterMap_cons, hq]
      rw [this]
      apply List.Nodup.append hinv.ptr_nodup (List.nodup_singleton _)
      rw [List.disjoint_singleton]
      intro hmem
      obtain ⟨sp', hsp', hq'⟩ := List.mem_filterMap.1 hmem
      obtain ⟨old, ho, hid, hptr⟩ := hspold q hq
      obtain ⟨old', ho', hptr', hk'⟩ := hinv.ptr_old sp' hsp' q hq' (hV old ho q hptr)
      have := hU old ho old' ho' q hptr hptr'
      rw [← this, hid] at hk'
      exact hnew hk'

/-- A change of the log nodes that keeps their cores keeps the invariant of the log nodes. -/
theorem LogInv.of_keeps {s : Sim} {kept : List Nat} {w w' : Work} (hinv : LogInv s kept w)
    (hk : Keeps LogSpecies.core w.logSpecies w'.logSpecies)
    (hl : w'.newSpeciesList = w.newSpeciesList) : LogInv s kept w' := by
  refine ⟨?_, ?_, ?_, ?_⟩
  · exact hinv.prefix_max.seq_prefix
      (hk.comp (fun c : (Nat × Nat × Option Nat) × List Nat × Nat => c.2.2)).toPrefix
  · intro sp hsp q hq
    rw [hk.1]
    rw [hl] at hsp
    exact hinv.ptr_valid sp hsp q hq
  · intro sp hsp q hq hlt
    rw [hl] at hsp
    exact hinv.ptr_old sp hsp q hq hlt
  · rw [hl]; exact hinv.ptr_nodup

/-- A round of the loop over the species keeps the invariant of the log nodes. -/
theorem processSpecies_loginv {ord : HashOrder} (hord : ord.Valid) {M : Nat} {s : Sim}
    (hmode : s.speciesMode ≥ SPECIES_MODE_PHYLOGENY)
    (hV : ∀ old ∈ s.oldSpeciesList, ∀ p, old.logSpeciesStructure = some p →
      p < s.logSpecies.length)
    (hU : ∀ a ∈ s.oldSpeciesList, ∀ b ∈ s.oldSpeciesList, ∀ p,
      a.logSpeciesStructure = some p → b.logSpeciesStructure = some p → a.ID = b.ID)
    {speciesID : Nat} (hkey : speciesID ∈ (gather s).speciesKeys) {d : List Nat}
    (hd : speciesID ∉ d) {w w' : Work} (hinv : LogInv s d w)
    (h : processSpecies ord M s (gather s) speciesID w = .ok w') :
    LogInv s (d ++ [speciesID]) w' := by
  obtain ⟨t, codes, w1, _, _, hg, hl, hmet⟩ := processSpecies_ok h
  obtain ⟨_, _, _, hond, _, hmax, _⟩ := species_grouping hord hkey hg
  have h0 : LogInv s d { w with logspeciespointers := fun _ => none } :=
    hinv.of_keeps (Keeps.id_keeps _ _) rfl
  have hmain := forEach_inv _ (ord.groups (countGroups codes.1).keys)
    (fun dk t => LogInv s
      (if (findBiggest (countGroups codes.1) (ord.groups (countGroups codes.1).keys)).2 ∈ dk
        then d ++ [speciesID] else d) t) ?_
    (ord.groups (countGroups codes.1).keys) [] _ w1 rfl ?_ hl
  · beta_reduce at hmain
    rw [if_pos hmax] at hmain
    rcases hmet with ⟨_, hm⟩ | ⟨_, hm⟩
    · have e := metricsLoop_effect _ hm
      exact hmain.of_keeps (metricsLoop_logs _ hm) e.2.2.2.1
    · rw [hm]; exact hmain
  · intro dk k r t1 t2 hfull hQ hb
    have hk : k ∉ dk := by
      rw [hfull] at hond
      have := (List.nodup_cons.1 (List.nodup_middle.1 hond)).1
      exact fun hc => this (List.mem_append_left _ hc)
    unfold groupStep at hb
    by_cases hkm : k ≠ (findBiggest (countGroups codes.1)
        (ord.groups (countGroups codes.1).keys)).2
    · rw [if_pos hkm] at hb
      have hres := splitOffGroup_loginv hmode hQ hb
      have hiff : (findBiggest (countGroups codes.1)
            (ord.groups (countGroups codes.1).keys)).2 ∈ dk ++ [k] ↔
          (findBiggest (countGroups codes.1)
            (ord.groups (countGroups codes.1).keys)).2 ∈ dk := by
        simp only [List.mem_append, List.mem_singleton]
        constructor
        · rintro (h1 | h1)
          · exact h1
          · exact absurd h1.symm hkm
        · exact fun h1 => Or.inl h1
      simp only [hiff]
      exact hres
    · rw [if_neg hkm] at hb
      have hkm' := not_not.1 hkm
      have hnotin : (findBiggest (countGroups codes.1)
          (ord.groups (countGroups codes.1).keys)).2 ∉ dk := by rw [← hkm']; exact hk
      rw [if_neg hnotin] at hQ
      have hres := continueGroup_loginv hV hU hQ hd hb
      have hin : (findBiggest (countGroups codes.1)
          (ord.groups (countGroups codes.1).keys)).2 ∈ dk ++ [k] := by rw [← hkm']; simp
      rw [if_pos hin]
      exact hres
  · simp only [List.not_mem_nil, if_false]
    exact h0

/-- The loop over the species ends with the invariant of the log nodes. -/
theorem speciesLoop_loginv {ord : HashOrder} (hord : ord.Valid) {M : Nat} {s : Sim}
    (hmode : s.speciesMode ≥ SPECIES_MODE_PHYLOGENY)
    (hV : ∀ old ∈ s.oldSpeciesList, ∀ p, old.logSpeciesStructure = some p →
      p < s.logSpecies.length)
    (hU : ∀ a ∈ s.oldSpeciesList, ∀ b ∈ s.oldSpeciesList, ∀ p,
      a.logSpeciesStructure = some p → b.logSpeciesStructure = some p → a.ID = b.ID)
    {w : Work}
    (h : forEach (processSpecies ord M s (gather s)) (ord.species (gather s).speciesKeys)
      { critters := s.critters, speciesSizes := (gather s).speciesSizes,
        nextSpeciesID := s.nextSpeciesID, newSpeciesList := [], logSpecies := s.logSpecies,
        logSpeciesByID := s.logSpeciesByID, logspeciespointers := fun _ => none } = .ok w) :
    LogInv s (ord.species (gather s).speciesKeys) w := by
  have G := gather_inv s
  have hperm := hord.1 (gather s).speciesKeys
  refine forEach_inv _ (ord.species (gather s).speciesKeys) (fun d t => LogInv s d t) ?_
    (ord.species (gather s).speciesKeys) [] _ w rfl ?_ h
  · intro d sid r t t' hfull hQ hb
    have hnd : (ord.species (gather s).speciesKeys).Nodup := hperm.nodup_iff.2 G.keys_nodup
    have hsd : sid ∉ d := by
      rw [hfull] at hnd
      have := (List.nodup_cons.1 (List.nodup_middle.1 hnd)).1
      exact fun hc => this (List.mem_append_left _ hc)
    have hkey : sid ∈ (gather s).speciesKeys := hperm.mem_iff.1 (by rw [hfull]; simp)
    exact processSpecies_loginv hord hmode hV hU hkey hsd hQ hb
  · exact
      { prefix_max := KeepsPrefix.id_prefix _ _
        ptr_valid := fun sp hsp => by cases hsp
        ptr_old := fun sp hsp => by cases hsp
        ptr_nodup := List.nodup_nil }
/-! ## The last loop and `maxSize` -/

/-- A round of the last loop in the phylogeny modes: the node of the entry gets the larger of
its `maxSize` and the size of the entry. -/
theorem recordSize_step {s : Sim} {speciesSizes : Nat → Int} {sp : Species}
    {st st' : List Species × List LogSpecies}
    (hmode : s.speciesMode ≥ SPECIES_MODE_PHYLOGENY)
    (h : recordSize s speciesSizes sp st = .ok st') :
    ∃ p node, sp.logSpeciesStructure = some p ∧ st.2[p]? = some node ∧
      st'.2 = st.2.set p
        { node with maxSize := max node.maxSize (toUInt32 (speciesSizes sp.ID)) } := by
  unfold recordSize at h
  dsimp only at h
  rw [if_pos hmode] at h
  cases hp : sp.logSpeciesStructure with
  | none => rw [hp] at h; cases h
  | some p =>
    rw [hp] at h
    dsimp only at h
    cases hn : st.2[p]? with
    | none => rw [hn] at h; cases h
    | some node =>
      rw [hn] at h
      dsimp only at h
      refine ⟨p, node, rfl, hn, ?_⟩
      by_cases hgt : toUInt32 (speciesSizes sp.ID) > node.maxSize
      · rw [if_pos hgt] at h
        have h' := Except.ok.inj h
        rw [← h', max_eq_right (le_of_lt hgt)]
      · rw [if_neg hgt] at h
        have h' := Except.ok.inj h
        rw [← h', max_eq_left (not_lt.1 hgt)]
        dsimp only
        apply List.ext_getElem?
        intro i
        by_cases hi : p = i
        · subst hi
          rw [List.getElem?_set_self (getElem?_lt_length hn), hn]
        · rw [List.getElem?_set_ne hi]

/-- The last loop in the phylogeny modes never lowers `maxSize`, and leaves the node of every
entry with a `maxSize` of at least the size of the entry. -/
theorem recordSize_ge {s : Sim} {speciesSizes : Nat → Int}
    (hmode : s.speciesMode ≥ SPECIES_MODE_PHYLOGENY) :
    ∀ (l : List Species) (st st' : List Species × List LogSpecies),
      forEach (recordSize s speciesSizes) l st = .ok st' →
      (∀ (i : Nat) (node : LogSpecies), st.2[i]? = some node →
        ∃ node', st'.2[i]? = some node' ∧ node.maxSize ≤ node'.maxSize) ∧
      (∀ sp ∈ l, ∃ p node', sp.logSpeciesStructure = some p ∧ st'.2[p]? = some node' ∧
        toUInt32 (speciesSizes sp.ID) ≤ node'.maxSize) := by
  intro l
  induction l with
  | nil =>
    intro st st' h
    simp only [forEach, Except.ok.injEq] at h
    subst h
    exact ⟨fun i node hn => ⟨node, hn, le_refl _⟩, fun sp hsp => by cases hsp⟩
  | cons a rest ih =>
    intro st st' h
    simp only [forEach] at h
    cases hb : recordSize s speciesSizes a st with
    | error e => rw [hb] at h; cases h
    | ok t =>
      rw [hb] at h
      obtain ⟨p, node, hp, hn, ht⟩ := recordSize_step hmode hb
      obtain ⟨ih1, ih2⟩ := ih t st' h
      have hstep : ∀ (i : Nat) (n0 : LogSpecies), st.2[i]? = some n0 →
          ∃ n1, t.2[i]? = some n1 ∧ n0.maxSize ≤ n1.maxSize := by
        intro i n0 hi
        rw [ht]
        by_cases hpi : p = i
        · subst hpi
          rw [List.getElem?_set_self (getElem?_lt_length hn)]
          rw [hn] at hi
          cases hi
          exact ⟨_, rfl, le_max_left _ _⟩
        · rw [List.getElem?_set_ne hpi]
          exact ⟨n0, hi, le_refl _⟩
      constructor
      · intro i n0 hi
        obtain ⟨n1, h1, hle1⟩ := hstep i n0 hi
        obtain ⟨n2, h2, hle2⟩ := ih1 i n1 h1
        exact ⟨n2, h2, le_trans hle1 hle2⟩
      · intro sp hsp
        rcases List.mem_cons.1 hsp with rfl | hr
        · have h1 : t.2[p]? = some
              { node with maxSize := max node.maxSize (toUInt32 (speciesSizes sp.ID)) } := by
            rw [ht, List.getElem?_set_self (getElem?_lt_length hn)]
          obtain ⟨n2, h2, hle2⟩ := ih1 p _ h1
          exact ⟨p, n2, hp, h2, le_trans (le_max_right _ _) hle2⟩
        · exact ih2 sp hr

/-- The last loop in the phylogeny modes, when no two entries point to the same node: the
node of every entry gets the larger of its `maxSize` and the size of the entry, and nothing
else changes. -/
theorem recordSize_logs {s : Sim} {speciesSizes : Nat → Int}
    (hmode : s.speciesMode ≥ SPECIES_MODE_PHYLOGENY) :
    ∀ (l : List Species) (st st' : List Species × List LogSpecies),
      forEach (recordSize s speciesSizes) l st = .ok st' →
      (l.filterMap (fun sp => sp.logSpeciesStructure)).Nodup →
      Keeps LogSpecies.unsized st.2 st'.2 ∧
      (∀ sp ∈ l, ∃ p node, sp.logSpeciesStructure = some p ∧ st.2[p]? = some node ∧
        st'.2[p]? = some
          { node with maxSize := max node.maxSize (toUInt32 (speciesSizes sp.ID)) }) ∧
      (∀ i : Nat, (∀ sp ∈ l, sp.logSpeciesStructure ≠ some i) → st'.2[i]? = st.2[i]?) := by
  intro l
  induction l with
  | nil =>
    intro st st' h _
    simp only [forEach, Except.ok.injEq] at h
    subst h
    refine ⟨Keeps.id_keeps _ _, ?_, fun _ _ => rfl⟩
    intro sp hsp
    cases hsp
  | cons a rest ih =>
    intro st st' h hnd
    simp only [forEach] at h
    cases hb : recordSize s speciesSizes a st with
    | error e => rw [hb] at h; cases h
    | ok t =>
      rw [hb] at h
      obtain ⟨p, node, hp, hn, ht⟩ := recordSize_step hmode hb
      have hfm : List.filterMap (fun sp => sp.logSpeciesStructure) (a :: rest) =
          p :: List.filterMap (fun sp => sp.logSpeciesStructure) rest := by
        simp [List.filterMap_cons, hp]
      rw [hfm] at hnd
      obtain ⟨hpn, hndr⟩ := List.nodup_cons.1 hnd
      obtain ⟨ih1, ih2, ih3⟩ := ih t st' h hndr
      have hprest : ∀ sp ∈ rest, sp.logSpeciesStructure ≠ some p := by
        intro sp hsp hq
        exact hpn (List.mem_filterMap.2 ⟨sp, hsp, hq⟩)
      have hk : Keeps LogSpecies.unsized st.2 t.2 := by
        rw [ht]
        exact keeps_set _ hn rfl
      refine ⟨hk.seq ih1, ?_, ?_⟩
      · intro sp hsp
        rcases List.mem_cons.1 hsp with rfl | hr
        · refine ⟨p, node, hp, hn, ?_⟩
          rw [ih3 p hprest, ht, List.getElem?_set_self (getElem?_lt_length hn)]
        · obtain ⟨q, nq, hq, hnq, hfin⟩ := ih2 sp hr
          have hqp : p ≠ q := by
            intro he
            rw [← he] at hq
            exact hprest sp hr hq
          rw [ht, List.getElem?_set_ne hqp] at hnq
          exact ⟨q, nq, hq, hnq, hfin⟩
      · intro i hi
        have hip : p ≠ i := by
          intro he
          rw [← he] at hi
          exact hi _ (List.mem_cons_self _ _) hp
        rw [ih3 i (fun sp hsp => hi sp (List.mem_cons_of_mem _ hsp)), ht,
          List.getElem?_set_ne hip]
/-! ## Casts of the sizes -/

theorem toUInt32_lt (x : Int) : toUInt32 x < 2 ^ 32 := by
  unfold toUInt32
  omega

theorem toUInt32_toInt32 {n : Nat} (h : n < 2 ^ 32) : toUInt32 (toInt32 (n : Int)) = n := by
  unfold toUInt32 toInt32
  omega

theorem toInt32_le (n : Nat) : toInt32 (n : Int) ≤ (n : Int) := by
  unfold toInt32
  omega

/-! ## The tree of the log and the links of the species list -/

theorem keeps_map {β : Type} {f : LogSpecies → β} {L L' : List LogSpecies}
    (h : Keeps f L L') : L'.map f = L.map f := by
  apply List.ext_getElem?
  intro i
  rw [List.getElem?_map, List.getElem?_map]
  exact h.2 i

theorem keeps_core_tree {L L' : List LogSpecies} (h : Keeps LogSpecies.core L L') :
    L'.map LogSpecies.tree = L.map LogSpecies.tree :=
  keeps_map (h.comp (fun c : (Nat × Nat × Option Nat) × List Nat × Nat =>
    (c.1.1, c.1.2.2, c.2.1)))

theorem keeps_unsized_tree {L L' : List LogSpecies} (h : Keeps LogSpecies.unsized L L') :
    L'.map LogSpecies.tree = L.map LogSpecies.tree :=
  keeps_map (h.comp
    (fun c : Nat × Nat × Nat × Option Nat × List Nat × List LogSpeciesDataItem =>
      (c.1, c.2.2.2.1, c.2.2.2.2.1)))

/-- The last loop changes `maxSize` only. -/
theorem recordSize_keeps {s : Sim} {speciesSizes : Nat → Int} :
    ∀ (l : List Species) (st st' : List Species × List LogSpecies),
      forEach (recordSize s speciesSizes) l st = .ok st' →
      Keeps LogSpecies.unsized st.2 st'.2 := by
  intro l
  induction l with
  | nil =>
    intro st st' h
    simp only [forEach, Except.ok.injEq] at h
    subst h
    exact Keeps.id_keeps _ _
  | cons a rest ih =>
    intro st st' h
    simp only [forEach] at h
    cases hb : recordSize s speciesSizes a st with
    | error e => rw [hb] at h; cases h
    | ok t =>
      rw [hb] at h
      refine Keeps.seq ?_ (ih t st' h)
      by_cases hmode : s.speciesMode ≥ SPECIES_MODE_PHYLOGENY
      · obtain ⟨p, node, _, hn, ht⟩ := recordSize_step hmode hb
        rw [ht]
        exact keeps_set _ hn rfl
      · unfold recordSize at hb
        dsimp only at hb
        rw [if_neg hmode] at hb
        have hb' := Except.ok.inj hb
        rw [← hb']
        exact Keeps.id_keeps _ _

/-- The links of the entries of the species list after the pass are those of the new species
list of the loops. -/
theorem pass_links {ord : HashOrder} {M : Nat} {elapsed : Int} {s s' : Sim}
    (h : groupsGenealogicalTracker ord M elapsed s = .ok s') :
    ∃ w, forEach (processSpecies ord M s (gather s)) (ord.species (gather s).speciesKeys)
        { critters := s.critters, speciesSizes := (gather s).speciesSizes,
          nextSpeciesID := s.nextSpeciesID, newSpeciesList := [], logSpecies := s.logSpecies,
          logSpeciesByID := s.logSpeciesByID, logspeciespointers := fun _ => none } = .ok w ∧
      s'.oldSpeciesList.map Species.link = w.newSpeciesList.map Species.link ∧
      s'.logSpecies.map LogSpecies.tree = w.logSpecies.map LogSpecies.tree ∧
      s'.logSpeciesByID = w.logSpeciesByID := by
  obtain ⟨w, st, hloop, hlast, hs'⟩ := pass_ok h
  refine ⟨w, hloop, ?_, ?_, by rw [hs']⟩
  · have hlist := recordSize_list _ _ _ hlast
    simp only [List.nil_append] at hlist
    rw [hs']
    dsimp only
    rw [hlist, List.map_map]
    rfl
  · rw [hs']
    exact keeps_unsized_tree (recordSize_keeps _ _ _ hlast)

/-- The continuing branch, when the species is the single entry of the old list: the entry is
copied, and the tree of the log stays. -/
theorem continueGroup_links {s : Sim} {genomes : List Nat} {groupcodes : List Int}
    {maxcountkey groupcode : Int} {w w' : Work} {e : Species}
    (hlist : s.oldSpeciesList = [e])
    (h : continueGroup s e.ID genomes groupcodes maxcountkey groupcode w = .ok w') :
    w'.newSpeciesList.map Species.link = w.newSpeciesList.map Species.link ++ [e.link] ∧
    w'.logSpecies.map LogSpecies.tree = w.logSpecies.map LogSpecies.tree ∧
    w'.nextSpeciesID = w.nextSpeciesID := by
  obtain ⟨_, _, hn, _, sp, hl, hsp⟩ := continueGroup_effect h
  refine ⟨?_, keeps_core_tree (continueGroup_logs h), hn⟩
  rw [hl, List.map_append, List.map_cons, List.map_nil]
  congr 2
  rcases hsp with ⟨hall, _⟩ | ⟨old, ho, _, h1, h2, h3⟩
  · exact absurd rfl (hall e (by rw [hlist]; simp))
  · rw [hlist, List.mem_singleton] at ho
    subst ho
    unfold Species.link
    rw [h1, h2, h3]

/-- The split-off branch in the phylogeny modes, on the links and the tree. -/
theorem splitOffGroup_links {s : Sim} {speciesID : Nat} {p : Nat}
    {genomes : List Nat} {groupcodes : List Int} {slots : Nat → List Nat} {groupcode : Int}
    {w w' : Work} (hmode : s.speciesMode ≥ SPECIES_MODE_PHYLOGENY)
    (h : splitOffGroup s speciesID (some p) genomes groupcodes slots groupcode w = .ok w') :
    ∃ parentNode, w.logSpecies[p]? = some parentNode ∧
    w'.newSpeciesList.map Species.link =
      w.newSpeciesList.map Species.link ++
        [(w.nextSpeciesID, speciesID, some w.logSpecies.length)] ∧
    w'.logSpecies.map LogSpecies.tree =
      (w.logSpecies.map LogSpecies.tree).set p
        (parentNode.id, parentNode.parent, parentNode.children ++ [w.logSpecies.length]) ++
        [(w.nextSpeciesID, some p, [])] ∧
    w'.nextSpeciesID = (w.nextSpeciesID + 1) % 2 ^ 64 := by
  obtain ⟨q, parentNode, hq, hn, hlog, _, _, sp, hl, h1, h2, h3⟩ := splitOffGroup_log hmode h
  cases hq
  obtain ⟨_, _, hnext, _⟩ := splitOffGroup_effect h
  refine ⟨parentNode, hn, ?_, ?_, hnext⟩
  · rw [hl, List.map_append, List.map_cons, List.map_nil]
    unfold Species.link
    rw [h1, h2, h3]
  · rw [hlog, List.map_append, List.map_set]
    rfl

theorem eq_singleton_of_all_eq {l : List Nat} {a : Nat} (hnd : l.Nodup) (hne : l ≠ [])
    (hall : ∀ x ∈ l, x = a) : l = [a] := by
  cases l with
  | nil => exact absurd rfl hne
  | cons x rest =>
    have hx := hall x (List.mem_cons_self _ _)
    subst hx
    cases rest with
    | nil => rfl
    | cons y rest' =>
      have hy := hall y (List.mem_cons_of_mem _ (List.mem_cons_self _ _))
      subst hy
      exact absurd (List.mem_cons_self _ _) (List.nodup_cons.1 hnd).1
/-! ## One species with two groups -/

/-- A pass in a phylogeny mode over a single species that is the one entry of the species
list, whose log node is the one node of the log, when the genomes of the species fall into
exactly two groups and the pass runs to its end: the new list holds the entry of the species
and one new species, whose parent is the species and whose node is the new node 1; the node
of the species gets this one child. -/
theorem single_species_split {ord : HashOrder} (hord : ord.Valid) {M : Nat} {elapsed : Int}
    {s s' : Sim} (hmode : s.speciesMode ≥ SPECIES_MODE_PHYLOGENY) {e : Species}
    (hlist : s.oldSpeciesList = [e]) {root : LogSpecies} (hlog : s.logSpecies = [root])
    (hby : s.logSpeciesByID e.ID = some 0) (hnext : s.nextSpeciesID + 1 < 2 ^ 64)
    (hsingle : ∀ p ∈ gatheredSlots s, idAt s p = e.ID)
    (htwo : (countGroups (speciesCodes ord s e.ID)).keys.length = 2)
    (h : groupsGenealogicalTracker ord M elapsed s = .ok s') :
    (s'.oldSpeciesList.map Species.link = [e.link, (s.nextSpeciesID, e.ID, some 1)] ∨
      s'.oldSpeciesList.map Species.link = [(s.nextSpeciesID, e.ID, some 1), e.link]) ∧
    s'.logSpecies.map LogSpecies.tree =
      [(root.id, root.parent, root.children ++ [1]), (s.nextSpeciesID, some 0, [])] ∧
    s'.nextSpeciesID = s.nextSpeciesID + 1 := by
  obtain ⟨w, hloop, hlinks, htree, _⟩ := pass_links h
  have hnx : s'.nextSpeciesID = w.nextSpeciesID := by
    obtain ⟨w2, st, hloop2, _, hs'⟩ := pass_ok h
    rw [hloop] at hloop2
    cases hloop2
    rw [hs']
  rw [hlinks, htree, hnx]
  have G := gather_inv s
  -- the one species
  have hkall : ∀ k ∈ (gather s).speciesKeys, k = e.ID := by
    intro k hk
    obtain ⟨p, hp, hsp⟩ := (G.keys_mem k).1 hk
    rw [← hsp]
    exact hsingle p hp
  have hkne : (gather s).speciesKeys ≠ [] := by
    intro hnil
    have hgd : (gather s).genomedata e.ID = [] := by
      apply List.eq_nil_iff_forall_not_mem.2
      intro q hq
      obtain ⟨p, hp, hsp, _⟩ := (G.genomes_mem e.ID q).1 hq
      have := (G.keys_mem e.ID).2 ⟨p, hp, hsp⟩
      rw [hnil] at this
      cases this
    have hgs : speciesGenomes ord s e.ID = [] := by
      unfold speciesGenomes
      rw [hgd]
      exact (hord.2.1 []).eq_nil
    have hc : speciesCodes ord s e.ID = [] := by
      unfold speciesCodes
      cases hg : groupGenomes s.maxDifference (speciesGenomes ord s e.ID) with
      | error _ => rfl
      | ok codes =>
        have hpair : groupGenomes s.maxDifference (speciesGenomes ord s e.ID) =
            .ok (codes.1, codes.2) := hg
        have := (groupGenomes_codes hpair).1
        rw [hgs] at this
        exact List.length_eq_zero.1 this
    rw [hc] at htwo
    have hkeys := (countGroups_spec []).2.1
    have : (countGroups []).keys = [] := by
      apply List.eq_nil_iff_forall_not_mem.2
      intro k hk
      exact absurd ((hkeys k).1 hk) (List.not_mem_nil _)
    rw [this] at htwo
    cases htwo
  have hkeys : ord.species (gather s).speciesKeys = [e.ID] := by
    rw [eq_singleton_of_all_eq G.keys_nodup hkne hkall]
    exact List.perm_singleton.1 (hord.1 [e.ID])
  have hkey : e.ID ∈ (gather s).speciesKeys := by
    rw [eq_singleton_of_all_eq G.keys_nodup hkne hkall]
    exact List.mem_singleton_self _
  rw [hkeys] at hloop
  simp only [forEach] at hloop
  cases hps : processSpecies ord M s (gather s) e.ID
      { critters := s.critters, speciesSizes := (gather s).speciesSizes,
        nextSpeciesID := s.nextSpeciesID, newSpeciesList := [], logSpecies := s.logSpecies,
        logSpeciesByID := s.logSpeciesByID, logspeciespointers := fun _ => none } with
  | error err => rw [hps] at hloop; cases hloop
  | ok w2 =>
    rw [hps] at hloop
    cases hloop
    obtain ⟨t, codes, w1, hfind, _, hg, hgl, hmet⟩ := processSpecies_ok hps
    have ht : t = some 0 := by
      unfold findLogSpecies at hfind
      rw [if_pos hmode] at hfind
      dsimp only at hfind
      rw [hby] at hfind
      cases hfind
      rfl
    subst ht
    obtain ⟨_, _, _, hond, _, hmax, _⟩ := species_grouping hord hkey hg
    have hcodes := speciesCodes_of_ok hg
    rw [hcodes] at htwo
    have hlen2 : (ord.groups (countGroups codes.1).keys).length = 2 := by
      rw [(hord.2.2 _).length_eq]; exact htwo
    -- the two rounds of the loop over the groups
    obtain ⟨a, b, hab⟩ : ∃ a b, ord.groups (countGroups codes.1).keys = [a, b] := by
      match hm : ord.groups (countGroups codes.1).keys, hlen2 with
      | [a, b], _ => exact ⟨a, b, rfl⟩
    generalize hmk : (findBiggest (countGroups codes.1)
      (ord.groups (countGroups codes.1).keys)).2 = mk at hgl hmax
    rw [hab] at hgl hond hmax
    have hne : a ≠ b := by
      intro he
      rw [he] at hond
      exact (List.nodup_cons.1 hond).1 (List.mem_singleton_self _)
    simp only [forEach] at hgl
    cases h1 : groupStep s e.ID (some 0) (ord.genomes ((gather s).genomedata e.ID)) codes.1
        ((gather s).slotswithgenome e.ID) mk a
        { critters := s.critters, speciesSizes := (gather s).speciesSizes,
          nextSpeciesID := s.nextSpeciesID, newSpeciesList := [], logSpecies := s.logSpecies,
          logSpeciesByID := s.logSpeciesByID, logspeciespointers := fun _ => none } with
    | error err => rw [h1] at hgl; cases hgl
    | ok wa =>
      rw [h1] at hgl
      dsimp only at hgl
      cases h2 : groupStep s e.ID (some 0) (ord.genomes ((gather s).genomedata e.ID)) codes.1
          ((gather s).slotswithgenome e.ID) mk b wa with
      | error err => rw [h2] at hgl; cases hgl
      | ok wb =>
        rw [h2] at hgl
        dsimp only at hgl
        cases hgl
        -- the metrics loop changes neither the links nor the tree
        have hfinal : w.newSpeciesList.map Species.link = w1.newSpeciesList.map Species.link ∧
            w.logSpecies.map LogSpecies.tree = w1.logSpecies.map LogSpecies.tree ∧
            w.nextSpeciesID = w1.nextSpeciesID := by
          rcases hmet with ⟨_, hm⟩ | ⟨_, hm⟩
          · obtain ⟨_, _, e3, e4, _⟩ := metricsLoop_effect _ hm
            exact ⟨by rw [e4], keeps_core_tree (metricsLoop_logs _ hm), e3⟩
          · rw [hm]; exact ⟨rfl, rfl, rfl⟩
        rw [hfinal.1, hfinal.2.1, hfinal.2.2]
        unfold groupStep at h1 h2
        rcases List.mem_cons.1 hmax with hma | hmb
        · -- the first group continues the species, the second is split off
          rw [hma] at h1 h2
          rw [if_neg (fun hh => hh rfl)] at h1
          rw [if_pos (fun hh => hne hh.symm)] at h2
          obtain ⟨c1, c2, c3⟩ := continueGroup_links hlist h1
          obtain ⟨pn, hpn, d1, d2, d3⟩ := splitOffGroup_links hmode h2
          dsimp only at c1 c2 c3
          rw [hlog] at c2
          have hwl : wa.logSpecies.length = 1 := by
            have := congrArg List.length c2
            simpa using this
          have hpt : (pn.id, pn.parent, pn.children) = (root.id, root.parent, root.children) := by
            have h0 := congrArg (fun l => l[0]?) c2
            simp only [List.getElem?_map, hpn, List.map_cons, List.map_nil,
              List.getElem?_cons_zero, Option.map_some', Option.some.injEq] at h0
            exact h0
          simp only [Prod.mk.injEq] at hpt
          rw [c1, c3] at d1
          rw [c2, hwl, c3] at d2
          rw [c3] at d3
          refine ⟨Or.inl ?_, ?_, ?_⟩
          · rw [d1, hwl]; rfl
          · rw [d2, hpt.1, hpt.2.1, hpt.2.2]; rfl
          · rw [d3]; exact Nat.mod_eq_of_lt hnext
        · -- the first group is split off, the second continues the species
          rw [List.mem_singleton] at hmb
          rw [hmb] at h1 h2
          rw [if_pos (fun hh => hne hh)] at h1
          rw [if_neg (fun hh => hh rfl)] at h2
          obtain ⟨pn, hpn, d1, d2, d3⟩ := splitOffGroup_links hmode h1
          obtain ⟨c1, c2, c3⟩ := continueGroup_links hlist h2
          dsimp only at d1 d2 d3 hpn
          rw [hlog] at hpn d2
          simp only [List.getElem?_cons_zero, Option.some.injEq] at hpn
          subst hpn
          rw [hlog] at d1
          rw [d1] at c1
          rw [d2] at c2
          rw [d3] at c3
          refine ⟨Or.inr ?_, ?_, ?_⟩
          · rw [c1]; rfl
          · rw [c2]; rfl
          · rw [c3]; exact Nat.mod_eq_of_lt hnext
/-! ## The log nodes made during the pass -/

theorem toUInt32_toInt32_int (x : Int) : toUInt32 (toInt32 x) = toUInt32 x := by
  unfold toUInt32 toInt32
  omega

/-- A change that keeps `maxSize` of all nodes keeps it of each node. -/
theorem keeps_maxSize_node {L L' : List LogSpecies}
    (hk : Keeps (fun n => n.maxSize) L L') {q : Nat} {node : LogSpecies}
    (hq : L[q]? = some node) : ∃ node', L'[q]? = some node' ∧ node'.maxSize = node.maxSize := by
  have := hk.2 q
  rw [hq] at this
  cases hq' : L'[q]? with
  | none => rw [hq'] at this; cases this
  | some node' =>
    rw [hq'] at this
    simp only [Option.map_some', Option.some.injEq] at this
    exact ⟨node', rfl, this⟩

theorem keeps_core_maxSize {L L' : List LogSpecies} (hk : Keeps LogSpecies.core L L') :
    Keeps (fun n => n.maxSize) L L' :=
  hk.comp (fun c : (Nat × Nat × Option Nat) × List Nat × Nat => c.2.2)

/-- Every round keeps the invariant of the log nodes made during the pass, in the phylogeny
modes, when the entries of the old list point to nodes of the log. -/
theorem stepKeeps_newNode {s : Sim} (hmode : s.speciesMode ≥ SPECIES_MODE_PHYLOGENY)
    (hV : ∀ old ∈ s.oldSpeciesList, ∀ p, old.logSpeciesStructure = some p →
      p < s.logSpecies.length) : StepKeeps s (NewNodeInv s) := by
  refine ⟨?_, ?_, ?_⟩
  · intro pending kept w w' speciesID t gs codes slots groupcode hinv hsid hw hJ h
    obtain ⟨p, parentNode, _, hn, hlog, _, _, sp, hl, hID, _, hptr⟩ := splitOffGroup_log hmode h
    obtain ⟨_, hs, hnx, _⟩ := splitOffGroup_effect h
    have hnext : w'.nextSpeciesID = w.nextSpeciesID + 1 := by
      rw [hnx]; exact Nat.mod_eq_of_lt hw
    have hge := hinv.next_ge
    have hlen : w'.logSpecies.length = w.logSpecies.length + 1 := by
      rw [hlog, List.length_append, List.length_set]
      rfl
    have hset : Keeps (fun n => n.maxSize) w.logSpecies
        (w.logSpecies.set p { parentNode with children := parentNode.children ++
          [w.logSpecies.length] }) := keeps_set _ hn rfl
    refine ⟨by have := hJ.len_ge; omega, ?_⟩
    intro sp' hsp' q hq hqs
    rw [hl] at hsp'
    rcases List.mem_append.1 hsp' with hold | hnew
    · obtain ⟨⟨h1, h2⟩, node, hnode, hmax⟩ := hJ.sized sp' hold q hq hqs
      refine ⟨⟨h1, by omega⟩, ?_⟩
      obtain ⟨node', hnode', hmax'⟩ := keeps_maxSize_node hset hnode
      refine ⟨node', ?_, ?_⟩
      · rw [hlog, List.getElem?_append_left
          (by rw [List.length_set]; exact getElem?_lt_length hnode)]
        exact hnode'
      · rw [hmax', hmax, hs sp'.ID, if_neg (by omega), if_neg (by omega)]
    · rw [List.mem_singleton] at hnew
      subst hnew
      rw [hptr] at hq
      cases hq
      have hnode : w'.logSpecies[w.logSpecies.length]? = some
          { id := w.nextSpeciesID, timeOfFirstAppearance := s.iteration,
            timeOfLastAppearance := s.iteration, parent := some p, children := [],
            maxSize := toUInt32 ((relabelGroup gs codes slots groupcode
              w.nextSpeciesID w.critters).2.1 : Int),
            dataItems := [newDataItem s.iteration] } := by
        rw [hlog, List.getElem?_append_right (by rw [List.length_set]), List.length_set,
          Nat.sub_self]
        rfl
      refine ⟨⟨by omega, by omega⟩, _, hnode, ?_⟩
      dsimp only
      rw [hs sp'.ID, if_neg (by omega), if_pos hID, toUInt32_toInt32_int]
  · intro w w' speciesID gs codes maxcountkey groupcode hJ h
    obtain ⟨_, hs, hnx, _, sp, hl, hsp⟩ := continueGroup_effect h
    have hk := keeps_core_maxSize (continueGroup_logs h)
    refine ⟨by rw [hk.1]; exact hJ.len_ge, ?_⟩
    intro sp' hsp' q hq hqs
    rw [hl] at hsp'
    rcases List.mem_append.1 hsp' with hold | hnew
    · obtain ⟨hid, node, hnode, hmax⟩ := hJ.sized sp' hold q hq hqs
      obtain ⟨node', hnode', hmax'⟩ := keeps_maxSize_node hk hnode
      exact ⟨by rw [hnx]; exact hid, node', hnode', by rw [hmax', hmax, hs]⟩
    · rw [List.mem_singleton] at hnew
      subst hnew
      rcases hsp with ⟨_, _, hnone⟩ | ⟨old, ho, _, _, _, hptr⟩
      · rw [hnone] at hq; cases hq
      · rw [hptr] at hq
        have := hV old ho q hq
        omega
  · intro w w' hJ hs hnx hl hk
    have hk' := keeps_core_maxSize hk
    refine ⟨by rw [hk'.1]; exact hJ.len_ge, ?_⟩
    intro sp' hsp' q hq hqs
    rw [hl] at hsp'
    obtain ⟨hid, node, hnode, hmax⟩ := hJ.sized sp' hsp' q hq hqs
    obtain ⟨node', hnode', hmax'⟩ := keeps_maxSize_node hk' hnode
    exact ⟨by rw [hnx]; exact hid, node', hnode', by rw [hmax', hmax, hs]⟩

theorem newNodeInv_init (s : Sim) : NewNodeInv s (firstWork s) :=
  ⟨le_refl _, fun sp hsp => by cases hsp⟩
/-! ## Claims about the log of species -/

theorem eq_ok_of_succeeds {α : Type} {x : Except Fault α} (d : α) (h : succeeds x = true) :
    x = .ok (resultOr x d) := by
  cases x with
  | ok a => rfl
  | error e => cases h

/-- C8 (amended). Split test: starting from a post-setup state with a single species whose
live critters carry genomes that fall into exactly two groups, a pass of
groupsGenealogicalTracker in a phylogeny mode that runs to its end produces a new species list
with exactly two species: the species 1 itself, with the parent id 0 and the root of the log
as its node, and the new species 2, with the parent id 1 and a new node whose parent is the
root; the root has this one child. -/
theorem C8_split_gives_root_one_child (ord : HashOrder) (hord : ord.Valid) (M : Nat)
    (elapsed : Int) (s0 : Sim) (n m aliveCount : Nat) (s' : Sim)
    (hmode : s0.speciesMode ≥ SPECIES_MODE_PHYLOGENY)
    (hsingle : ∀ p ∈ gatheredSlots (setupLog s0 n m aliveCount),
      idAt (setupLog s0 n m aliveCount) p = 1)
    (htwo : (countGroups (speciesCodes ord (setupLog s0 n m aliveCount) 1)).keys.length = 2)
    (h : groupsGenealogicalTracker ord M elapsed (setupLog s0 n m aliveCount) = .ok s') :
    (s'.oldSpeciesList.map Species.link = [(1, 0, some 0), (2, 1, some 1)] ∨
      s'.oldSpeciesList.map Species.link = [(2, 1, some 1), (1, 0, some 0)]) ∧
    s'.logSpecies.map LogSpecies.tree = [(1, none, [1]), (2, some 0, [])] := by
  have hnext : (setupLog s0 n m aliveCount).nextSpeciesID + 1 < 2 ^ 64 := by
    show 2 + 1 < 2 ^ 64
    norm_num
  have hres := single_species_split hord (s := setupLog s0 n m aliveCount) hmode rfl rfl rfl
    hnext hsingle htwo h
  exact ⟨hres.1, hres.2.1⟩

/-- The split test of C8 as stated and as amended. With two genomes at distance 8 in two
cells and `maxDifference = 2` the pass does not run to its end: the second genome is the last
of the static array and is linked to no other, and 'fix all groups' reads `grouplookup[-1]`.
With a third genome that is within `maxDifference` of the first, the pass produces the two
species, and the root of the log has one child: the species 1 keeps the root as its node. -/
theorem C8_split_test_counterexample :
    (hammingDistance 0 255 : Int) > 2 ∧
    groupGenomes 2 [0, 255] = .error .indexOutOfRange ∧
    (groupsGenealogicalTracker insertionOrder 100 0 (splitTestState [0, 255] 2 2)).map
      (fun s' => s'.oldSpeciesList.map Species.link) = .error .indexOutOfRange ∧
    (groupsGenealogicalTracker insertionOrder 100 0 (splitTestState [0, 65280, 1] 2 2)).map
      (fun s' => s'.oldSpeciesList.map Species.link) =
      .ok [(1, 0, some 0), (2, 1, some 1)] ∧
    (groupsGenealogicalTracker insertionOrder 100 0 (splitTestState [0, 65280, 1] 2 2)).map
      (fun s' => s'.logSpecies.map LogSpecies.tree) =
      .ok [(1, none, [1]), (2, some 0, [])] := by
  decide

/-- Witness for C8: three genomes in three cells, the first and the third within
`maxDifference`. -/
theorem C8_split_gives_root_one_child_witness :
    (seededGrid [0, 65280, 1] 2 2).speciesMode ≥ SPECIES_MODE_PHYLOGENY ∧
    (∀ p ∈ gatheredSlots (splitTestState [0, 65280, 1] 2 2),
      idAt (splitTestState [0, 65280, 1] 2 2) p = 1) ∧
    (countGroups (speciesCodes insertionOrder (splitTestState [0, 65280, 1] 2 2) 1)).keys.length
      = 2 ∧
    groupsGenealogicalTracker insertionOrder 100 0 (splitTestState [0, 65280, 1] 2 2) =
      .ok (stateAfter insertionOrder 100 0 (splitTestState [0, 65280, 1] 2 2)) ∧
    (stateAfter insertionOrder 100 0 (splitTestState [0, 65280, 1] 2 2)).logSpecies.map
      LogSpecies.tree = [(1, none, [1]), (2, some 0, [])] :=
  ⟨by decide, by decide, by decide, ok_stateAfter (by decide),
   (C8_split_gives_root_one_child insertionOrder insertionOrder_valid 100 0
     (seededGrid [0, 65280, 1] 2 2) 0 0 1
     (stateAfter insertionOrder 100 0 (splitTestState [0, 65280, 1] 2 2))
     (by decide) (by decide) (by decide) (ok_stateAfter (by decide))).2⟩

/-- C9. In the phylogeny modes, a group that groupsGenealogicalTracker splits off at the
iteration t makes exactly one log node, with the id of the new species, t as its time of first
and of last appearance, the node of the species it is split from as its parent (the node that
the hash holds for that species when its round starts), the split-off population as maxSize
and exactly one data item, stamped with t; the list of children of the parent grows by
exactly that node, no other node changes, and the hash maps the new id to the node. -/
theorem C9_split_registers_log_node (s : Sim) (speciesID : Nat)
    (thislogspecies : Option Nat) (genomes : List Nat) (groupcodes : List Int)
    (slots : Nat → List Nat) (groupcode : Int) (w w' : Work)
    (hmode : s.speciesMode ≥ SPECIES_MODE_PHYLOGENY)
    (h : splitOffGroup s speciesID thislogspecies genomes groupcodes slots groupcode w = .ok w') :
    (∃ p parentNode, thislogspecies = some p ∧ w.logSpecies[p]? = some parentNode ∧
      w'.logSpecies.length = w.logSpecies.length + 1 ∧
      w'.logSpecies[w.logSpecies.length]? = some
        { id := w.nextSpeciesID, timeOfFirstAppearance := s.iteration,
          timeOfLastAppearance := s.iteration, parent := some p, children := [],
          maxSize := toUInt32 ((relabelGroup genomes groupcodes slots groupcode
            w.nextSpeciesID w.critters).2.1 : Int),
          dataItems := [newDataItem s.iteration] } ∧
      (newDataItem s.iteration).iteration = s.iteration ∧
      w'.logSpecies[p]? = some
        { parentNode with children := parentNode.children ++ [w.logSpecies.length] } ∧
      (∀ i : Nat, i < w.logSpecies.length → i ≠ p → w'.logSpecies[i]? = w.logSpecies[i]?) ∧
      w'.logSpeciesByID w.nextSpeciesID = some w.logSpecies.length ∧
      (∀ id, id ≠ w.nextSpeciesID → w'.logSpeciesByID id = w.logSpeciesByID id) ∧
      ∃ sp, w'.newSpeciesList = w.newSpeciesList ++ [sp] ∧ sp.ID = w.nextSpeciesID ∧
        sp.parent = speciesID ∧ sp.logSpeciesStructure = some w.logSpecies.length) ∧
    (∀ (w0 : Work) (t : Option Nat), findLogSpecies s speciesID w0 = .ok t →
      ∃ q, t = some q ∧ w0.logSpeciesByID speciesID = some q) ∧
    (FitsPacking s → genomes.Nodup → genomes.length = groupcodes.length →
      slots = (gather s).slotswithgenome speciesID →
      (relabelGroup genomes groupcodes slots groupcode w.nextSpeciesID w.critters).2.1 =
        (gatheredSlots s).countP (inGroup s speciesID genomes groupcodes groupcode)) := by
  refine ⟨?_, ?_, ?_⟩
  · obtain ⟨p, parentNode, hp, hn, hlog, hby, _, hsp⟩ := splitOffGroup_log hmode h
    have hlt := getElem?_lt_length hn
    refine ⟨p, parentNode, hp, hn, ?_, ?_, rfl, ?_, ?_, ?_, ?_, hsp⟩
    · rw [hlog, List.length_append, List.length_set]
      rfl
    · rw [hlog, List.getElem?_append_right (by rw [List.length_set]), List.length_set,
        Nat.sub_self]
      rfl
    · rw [hlog, List.getElem?_append_left (by rw [List.length_set]; exact hlt),
        List.getElem?_set_self hlt]
    · intro i hi hip
      rw [hlog, List.getElem?_append_left (by rw [List.length_set]; exact hi),
        List.getElem?_set_ne (fun hh => hip hh.symm)]
    · rw [hby]
      simp
    · intro id hid
      rw [hby]
      simp [hid]
  · intro w0 t hfind
    unfold findLogSpecies at hfind
    rw [if_pos hmode] at hfind
    cases hq : w0.logSpeciesByID speciesID with
    | none => rw [hq] at hfind; cases hfind
    | some q =>
      rw [hq] at hfind
      cases hfind
      exact ⟨q, rfl, rfl⟩
  · intro hfit hnd hlen hslots
    rw [hslots]
    exact (relabelGroup_spec hfit speciesID hnd hlen groupcode w.nextSpeciesID w.critters).2

/-- Witness for C9: the group of the genome 65280 is split from the species 1 of the split
test, at the iteration 10. -/
theorem C9_split_registers_log_node_witness :
    (splitTestState [0, 65280, 1] 2 2).speciesMode ≥ SPECIES_MODE_PHYLOGENY ∧
    splitOffGroup (splitTestState [0, 65280, 1] 2 2) 1 (some 0) [0, 65280, 1] [0, 1, 0]
        ((gather (splitTestState [0, 65280, 1] 2 2)).slotswithgenome 1) 1
        (firstWork (splitTestState [0, 65280, 1] 2 2)) = .ok splitExampleWork ∧
    ∀ (w0 : Work) (t : Option Nat),
      findLogSpecies (splitTestState [0, 65280, 1] 2 2) 1 w0 = .ok t →
      ∃ q, t = some q ∧ w0.logSpeciesByID 1 = some q :=
  ⟨by decide, eq_ok_of_succeeds _ (by decide),
   (C9_split_registers_log_node (splitTestState [0, 65280, 1] 2 2) 1 (some 0)
     [0, 65280, 1] [0, 1, 0]
     ((gather (splitTestState [0, 65280, 1] 2 2)).slotswithgenome 1) 1
     (firstWork (splitTestState [0, 65280, 1] 2 2)) splitExampleWork (by decide)
     (eq_ok_of_succeeds _ (by decide))).2.1⟩

/-- C10 (amended). In the phylogeny modes, after a pass of groupsGenealogicalTracker that
runs to its end, every species of the new list has a log node whose maxSize is at least the
size just observed. If on entry the entries of the species list point to nodes of the log,
entries with different ids to different nodes, then the maxSize of the node of a species of
the new list whose node existed before the pass equals max(its maxSize before the pass, its
current size), and the pass changes the maxSize of no other node of before the pass; if
moreover the grid lies within the static arrays and the id counter lies above every id of a
live critter and cannot reach 2^64 during the pass, the node of a species that the pass has
split off has its current size as maxSize. -/
theorem C10_max_size_covers_size (ord : HashOrder) (hord : ord.Valid) (M : Nat)
    (elapsed : Int) (s s' : Sim) (hmode : s.speciesMode ≥ SPECIES_MODE_PHYLOGENY)
    (h : groupsGenealogicalTracker ord M elapsed s = .ok s') :
    (∀ sp ∈ s'.oldSpeciesList, ∃ p node, sp.logSpeciesStructure = some p ∧
      s'.logSpecies[p]? = some node ∧ toUInt32 sp.size ≤ node.maxSize ∧
      sp.size ≤ (node.maxSize : Int)) ∧
    ((∀ old ∈ s.oldSpeciesList, ∀ p, old.logSpeciesStructure = some p →
        p < s.logSpecies.length) →
      (∀ a ∈ s.oldSpeciesList, ∀ b ∈ s.oldSpeciesList, ∀ p,
        a.logSpeciesStructure = some p → b.logSpeciesStructure = some p → a.ID = b.ID) →
      (∀ sp ∈ s'.oldSpeciesList, ∀ p node0, sp.logSpeciesStructure = some p →
        s.logSpecies[p]? = some node0 →
        ∃ node, s'.logSpecies[p]? = some node ∧
          node.maxSize = max node0.maxSize (toUInt32 sp.size)) ∧
      (∀ (i : Nat) (node0 : LogSpecies), s.logSpecies[i]? = some node0 →
        (∀ sp ∈ s'.oldSpeciesList, sp.logSpeciesStructure ≠ some i) →
        ∃ node, s'.logSpecies[i]? = some node ∧ node.maxSize = node0.maxSize) ∧
      (WithinArrays s → (∀ p ∈ liveSlots s, idAt s p < s.nextSpeciesID) →
        s.nextSpeciesID + (liveSlots s).length < 2 ^ 64 →
        ∀ sp ∈ s'.oldSpeciesList, ∀ p, sp.logSpeciesStructure = some p →
          s.logSpecies.length ≤ p →
          ∃ node, s'.logSpecies[p]? = some node ∧ node.maxSize = toUInt32 sp.size)) := by
  obtain ⟨w, st, hloop, hlast, hs'⟩ := pass_ok h
  have hlist := recordSize_list _ _ _ hlast
  simp only [List.nil_append] at hlist
  have hL : s'.oldSpeciesList = w.newSpeciesList.map (fun sp =>
      { sp with size := toInt32 ((toUInt32 (w.speciesSizes sp.ID) : Nat) : Int) }) := by
    rw [hs']; exact hlist
  have hlog : s'.logSpecies = st.2 := by rw [hs']
  have hentries : ∀ sp ∈ s'.oldSpeciesList, ∃ sp0 ∈ w.newSpeciesList,
      sp.logSpeciesStructure = sp0.logSpeciesStructure ∧
      toUInt32 sp.size = toUInt32 (w.speciesSizes sp0.ID) ∧
      sp.size = toInt32 ((toUInt32 (w.speciesSizes sp0.ID) : Nat) : Int) := by
    intro sp hsp
    rw [hL] at hsp
    obtain ⟨sp0, h0, he⟩ := List.mem_map.1 hsp
    refine ⟨sp0, h0, by rw [← he], ?_, by rw [← he]⟩
    rw [← he]
    exact toUInt32_toInt32 (toUInt32_lt _)
  have hPtrMap : s'.oldSpeciesList.map (fun sp => sp.logSpeciesStructure) =
      w.newSpeciesList.map (fun sp => sp.logSpeciesStructure) := by
    rw [hL, List.map_map]
    rfl
  have hptrs : ∀ i : Nat, (∀ sp ∈ s'.oldSpeciesList, sp.logSpeciesStructure ≠ some i) →
      ∀ sp0 ∈ w.newSpeciesList, sp0.logSpeciesStructure ≠ some i := by
    intro i hi sp0 h0 he
    have hmem : sp0.logSpeciesStructure ∈
        s'.oldSpeciesList.map (fun sp => sp.logSpeciesStructure) := by
      rw [hPtrMap]
      exact List.mem_map.2 ⟨sp0, h0, rfl⟩
    obtain ⟨sp, hsp, hq⟩ := List.mem_map.1 hmem
    exact hi sp hsp (hq.trans he)
  constructor
  · intro sp hsp
    obtain ⟨sp0, h0, hptr, hsz, hsize⟩ := hentries sp hsp
    obtain ⟨p, node', hp, hn, hle⟩ := (recordSize_ge hmode _ _ _ hlast).2 sp0 h0
    refine ⟨p, node', by rw [hptr]; exact hp, by rw [hlog]; exact hn, by rw [hsz]; exact hle, ?_⟩
    rw [hsize]
    have := toInt32_le (toUInt32 (w.speciesSizes sp0.ID))
    have hle' : ((toUInt32 (w.speciesSizes sp0.ID) : Nat) : Int) ≤ (node'.maxSize : Int) := by
      exact_mod_cast hle
    omega
  · intro hV hU
    have hinv := speciesLoop_loginv hord hmode hV hU hloop
    obtain ⟨_, hset, hrest⟩ := recordSize_logs hmode _ _ _ hlast hinv.ptr_nodup
    have hold : ∀ (i : Nat) (node0 : LogSpecies), s.logSpecies[i]? = some node0 →
        ∃ nodeW, w.logSpecies[i]? = some nodeW ∧ nodeW.maxSize = node0.maxSize := by
      intro i node0 hi
      have := hinv.prefix_max.2 i (getElem?_lt_length hi)
      rw [hi] at this
      cases hw : w.logSpecies[i]? with
      | none => rw [hw] at this; cases this
      | some nodeW =>
        rw [hw] at this
        simp only [Option.map_some', Option.some.injEq] at this
        exact ⟨nodeW, rfl, this⟩
    refine ⟨?_, ?_, ?_⟩
    · intro sp hsp p node0 hp hn0
      obtain ⟨sp0, h0, hptr, hsz, _⟩ := hentries sp hsp
      obtain ⟨q, nodeW, hq, hnq, hfin⟩ := hset sp0 h0
      rw [hptr, hq] at hp
      cases hp
      obtain ⟨nodeW', hw', hmax⟩ := hold p node0 hn0
      dsimp only at hnq
      rw [hw'] at hnq
      cases hnq
      refine ⟨_, by rw [hlog]; exact hfin, ?_⟩
      dsimp only
      rw [hmax, hsz]
    · intro i node0 hi hnone
      obtain ⟨nodeW, hw, hmax⟩ := hold i node0 hi
      refine ⟨nodeW, ?_, hmax⟩
      rw [hlog, hrest i (hptrs i hnone)]
      exact hw
    · intro harr hfresh hwrap sp hsp p hp hge
      have hlen := gatheredSlots_length_le s
      obtain ⟨_, _, hJ⟩ := speciesLoop_inv hord harr.fits (by omega)
        (fun q hq => hfresh q (gatheredSlots_subset s hq)) (stepKeeps_newNode hmode hV)
        (newNodeInv_init s) hloop
      obtain ⟨sp0, h0, hptr, hsz, _⟩ := hentries sp hsp
      obtain ⟨q, nodeW, hq, hnq, hfin⟩ := hset sp0 h0
      rw [hptr, hq] at hp
      cases hp
      obtain ⟨_, nodeW', hw', hmax⟩ := hJ.sized sp0 h0 p hq hge
      rw [hw'] at hnq
      cases hnq
      refine ⟨_, by rw [hlog]; exact hfin, ?_⟩
      dsimp only
      rw [hmax, hsz, max_self]

/-- The maxSize of C10 when two entries of the species list share a log node: the species 1
(three critters) and the species 2 (two critters) both point to the node 0, whose maxSize
is 1 before the pass. After the pass the maxSize of the node is 3, which is not
max(1, 2) for the species 2. -/
theorem C10_shared_node_counterexample :
    sharedNodeState.speciesMode ≥ SPECIES_MODE_PHYLOGENY ∧
    sharedNodeState.logSpecies.map (fun n => n.maxSize) = [1] ∧
    (groupsGenealogicalTracker insertionOrder 100 0 sharedNodeState).map
      (fun s' => s'.oldSpeciesList.map
        (fun sp => (sp.ID, sp.size, sp.logSpeciesStructure))) =
      .ok [(1, 3, some 0), (2, 2, some 0)] ∧
    (groupsGenealogicalTracker insertionOrder 100 0 sharedNodeState).map
      (fun s' => s'.logSpecies.map (fun n => n.maxSize)) = .ok [3] := by
  decide

/-- Witness for C10: the split test with three genomes in the phylogeny mode. The entry
conditions of every part hold there, and so does each part. -/
theorem C10_max_size_covers_size_witness :
    (splitTestState [0, 65280, 1] 2 2).speciesMode ≥ SPECIES_MODE_PHYLOGENY ∧
    groupsGenealogicalTracker insertionOrder 100 0 (splitTestState [0, 65280, 1] 2 2) =
      .ok (stateAfter insertionOrder 100 0 (splitTestState [0, 65280, 1] 2 2)) ∧
    (∀ sp ∈ (stateAfter insertionOrder 100 0 (splitTestState [0, 65280, 1] 2 2)).oldSpeciesList,
      ∃ p node, sp.logSpeciesStructure = some p ∧
        (stateAfter insertionOrder 100 0 (splitTestState [0, 65280, 1] 2 2)).logSpecies[p]? =
          some node ∧
        toUInt32 sp.size ≤ node.maxSize ∧ sp.size ≤ (node.maxSize : Int)) ∧
    (∀ sp ∈ (stateAfter insertionOrder 100 0 (splitTestState [0, 65280, 1] 2 2)).oldSpeciesList,
      ∀ p node0, sp.logSpeciesStructure = some p →
        (splitTestState [0, 65280, 1] 2 2).logSpecies[p]? = some node0 →
        ∃ node,
          (stateAfter insertionOrder 100 0 (splitTestState [0, 65280, 1] 2 2)).logSpecies[p]? =
            some node ∧
          node.maxSize = max node0.maxSize (toUInt32 sp.size)) ∧
    (∀ sp ∈ (stateAfter insertionOrder 100 0 (splitTestState [0, 65280, 1] 2 2)).oldSpeciesList,
      ∀ p, sp.logSpeciesStructure = some p →
        (splitTestState [0, 65280, 1] 2 2).logSpecies.length ≤ p →
        ∃ node,
          (stateAfter insertionOrder 100 0 (splitTestState [0, 65280, 1] 2 2)).logSpecies[p]? =
            some node ∧
          node.maxSize = toUInt32 sp.size) := by
  have hV : ∀ old ∈ (splitTestState [0, 65280, 1] 2 2).oldSpeciesList, ∀ p,
      old.logSpeciesStructure = some p →
      p < (splitTestState [0, 65280, 1] 2 2).logSpecies.length := by
    intro old ho p hp
    have ho' : old ∈ [_] := ho
    rw [List.mem_singleton] at ho'
    subst ho'
    cases hp
    decide
  have hU : ∀ a ∈ (splitTestState [0, 65280, 1] 2 2).oldSpeciesList,
      ∀ b ∈ (splitTestState [0, 65280, 1] 2 2).oldSpeciesList, ∀ p,
      a.logSpeciesStructure = some p → b.logSpeciesStructure = some p → a.ID = b.ID := by
    intro a ha b hb p _ _
    have ha' : a ∈ [_] := ha
    have hb' : b ∈ [_] := hb
    rw [List.mem_singleton] at ha' hb'
    rw [ha', hb']
  have hall := C10_max_size_covers_size insertionOrder insertionOrder_valid 100 0
    (splitTestState [0, 65280, 1] 2 2)
    (stateAfter insertionOrder 100 0 (splitTestState [0, 65280, 1] 2 2)) (by decide)
    (ok_stateAfter (by decide))
  exact ⟨by decide, ok_stateAfter (by decide), hall.1, (hall.2 hV hU).1,
    (hall.2 hV hU).2.2 (by decide) (by decide) (by decide)⟩

/-! ## The times of the log nodes -/

theorem timesInv_mono {t t' : Nat} {L : List LogSpecies} (ht : t ≤ t') (h : TimesInv t L) :
    TimesInv t' L := by
  intro i node hn
  obtain ⟨h1, h2, h3⟩ := h i node hn
  exact ⟨h1, le_trans h2 ht, h3⟩

/-- A change of the log that keeps the times and the parent of every node keeps the
invariant of the times. -/
theorem timesInv_of_keeps {t : Nat} {L L' : List LogSpecies}
    (hk : Keeps LogSpecies.times L L') (h : TimesInv t L) : TimesInv t L' := by
  have hback : ∀ (i : Nat) (node' : LogSpecies), L'[i]? = some node' →
      ∃ node, L[i]? = some node ∧ node.times = node'.times := by
    intro i node' hn'
    have := hk.2 i
    rw [hn'] at this
    cases hn : L[i]? with
    | none => rw [hn] at this; cases this
    | some node =>
      rw [hn] at this
      simp only [Option.map_some', Option.some.injEq] at this
      exact ⟨node, rfl, this.symm⟩
  have hfwd : ∀ (i : Nat) (node : LogSpecies), L[i]? = some node →
      ∃ node', L'[i]? = some node' ∧ node'.times = node.times := by
    intro i node hn
    have := hk.2 i
    rw [hn] at this
    cases hn' : L'[i]? with
    | none => rw [hn'] at this; cases this
    | some node' =>
      rw [hn'] at this
      simp only [Option.map_some', Option.some.injEq] at this
      exact ⟨node', rfl, this⟩
  intro i node' hn'
  obtain ⟨node, hn, heq⟩ := hback i node' hn'
  obtain ⟨h1, h2, h3⟩ := h i node hn
  simp only [LogSpecies.times, Prod.mk.injEq] at heq
  obtain ⟨e1, e2, e3⟩ := heq
  refine ⟨by omega, by omega, ?_⟩
  intro p hp
  obtain ⟨pn, hpn, hle⟩ := h3 p (by rw [e3]; exact hp)
  obtain ⟨pn', hpn', heq'⟩ := hfwd p pn hpn
  simp only [LogSpecies.times, Prod.mk.injEq] at heq'
  exact ⟨pn', hpn', by omega⟩

/-- Writing back a node with the same time of first appearance and the same parent, and a
time of last appearance that is not earlier, keeps the invariant of the times. -/
theorem timesInv_set {t : Nat} {L : List LogSpecies} {p : Nat} {node node' : LogSpecies}
    (h : TimesInv t L) (hp : L[p]? = some node)
    (hfirst : node'.timeOfFirstAppearance = node.timeOfFirstAppearance)
    (hparent : node'.parent = node.parent)
    (hlast : node'.timeOfFirstAppearance ≤ node'.timeOfLastAppearance) :
    TimesInv t (L.set p node') := by
  have hlt : p < L.length := by
    rcases Nat.lt_or_ge p L.length with h | h
    · exact h
    · rw [List.getElem?_eq_none h] at hp; cases hp
  have hget : ∀ (i : Nat) (n : LogSpecies), L[i]? = some n →
      ∃ n', (L.set p node')[i]? = some n' ∧
        n'.timeOfFirstAppearance = n.timeOfFirstAppearance := by
    intro i n hn
    by_cases hi : p = i
    · subst hi
      rw [hp] at hn
      cases hn
      exact ⟨node', List.getElem?_set_self hlt, hfirst⟩
    · exact ⟨n, by rw [List.getElem?_set_ne hi]; exact hn, rfl⟩
  intro i n' hn'
  by_cases hi : p = i
  · subst hi
    rw [List.getElem?_set_self hlt] at hn'
    cases hn'
    obtain ⟨_, h2, h3⟩ := h p node hp
    refine ⟨hlast, by omega, ?_⟩
    intro q hq
    obtain ⟨pn, hpn, hle⟩ := h3 q (by rw [← hparent]; exact hq)
    obtain ⟨pn', hpn', heq⟩ := hget q pn hpn
    exact ⟨pn', hpn', by omega⟩
  · rw [List.getElem?_set_ne hi] at hn'
    obtain ⟨h1, h2, h3⟩ := h i n' hn'
    refine ⟨h1, h2, ?_⟩
    intro q hq
    obtain ⟨pn, hpn, hle⟩ := h3 q hq
    obtain ⟨pn', hpn', heq⟩ := hget q pn hpn
    exact ⟨pn', hpn', by omega⟩

/-- A new node at the end of the log keeps the invariant of the times when its own times
are in order and its parent is a node of the log that is no younger. -/
theorem timesInv_append {t : Nat} {L : List LogSpecies} {new : LogSpecies}
    (h : TimesInv t L)
    (hlast : new.timeOfFirstAppearance ≤ new.timeOfLastAppearance)
    (ht : new.timeOfFirstAppearance ≤ t)
    (hparent : ∀ p, new.parent = some p →
      ∃ pn, L[p]? = some pn ∧ pn.timeOfFirstAppearance ≤ new.timeOfFirstAppearance) :
    TimesInv t (L ++ [new]) := by
  have hold : ∀ (i : Nat) (n : LogSpecies), L[i]? = some n → (L ++ [new])[i]? = some n := by
    intro i n hn
    have hlt : i < L.length := by
      rcases Nat.lt_or_ge i L.length with h | h
      · exact h
      · rw [List.getElem?_eq_none h] at hn; cases hn
    rw [List.getElem?_append_left hlt]
    exact hn
  intro i n hn
  rcases Nat.lt_or_ge i L.length with hlt | hge
  · rw [List.getElem?_append_left hlt] at hn
    obtain ⟨h1, h2, h3⟩ := h i n hn
    refine ⟨h1, h2, ?_⟩
    intro q hq
    obtain ⟨pn, hpn, hle⟩ := h3 q hq
    exact ⟨pn, hold q pn hpn, hle⟩
  · rw [List.getElem?_append_right hge] at hn
    have h0 : i - L.length = 0 := by
      rcases Nat.eq_zero_or_pos (i - L.length) with h0 | hpos
      · exact h0
      · rw [List.getElem?_eq_none (by simp only [List.length_singleton]; omega)] at hn
        cases hn
    rw [h0] at hn
    simp only [List.getElem?_cons_zero, Option.some.injEq] at hn
    subst hn
    refine ⟨hlast, ht, ?_⟩
    intro q hq
    obtain ⟨pn, hpn, hle⟩ := hparent q hq
    exact ⟨pn, hold q pn hpn, hle⟩

theorem copyOldSpecies_times {s : Sim} {speciesID : Nat} {groupcode : Int} :
    ∀ (olds : List Species) (st st' : Species × Work),
    forEach (copyOldSpecies s speciesID groupcode) olds st = .ok st' →
      TimesInv s.iteration st.2.logSpecies → TimesInv s.iteration st'.2.logSpecies := by
  intro olds
  induction olds with
  | nil =>
    intro st st' h hinv
    simp only [forEach, Except.ok.injEq] at h
    subst h
    exact hinv
  | cons old rest ih =>
    intro st st' h hinv
    simp only [forEach] at h
    cases hb : copyOldSpecies s speciesID groupcode old st with
    | error e => rw [hb] at h; cases h
    | ok t =>
      rw [hb] at h
      refine ih t st' h ?_
      unfold copyOldSpecies at hb
      split_ifs at hb with hid hmode
      · cases hl : old.logSpeciesStructure with
        | none => rw [hl] at hb; cases hb
        | some p =>
          rw [hl] at hb
          simp only at hb
          cases hn : st.2.logSpecies[p]? with
          | none => rw [hn] at hb; cases hb
          | some node =>
            rw [hn] at hb
            simp only [Except.ok.injEq] at hb
            subst hb
            exact timesInv_set hinv hn rfl rfl (hinv p node hn).2.1
      · simp only [Except.ok.injEq] at hb
        subst hb
        exact hinv
      · simp only [Except.ok.injEq] at hb
        subst hb
        exact hinv

theorem continueGroup_times {s : Sim} {speciesID : Nat} {genomes : List Nat}
    {groupcodes : List Int} {maxcountkey groupcode : Int} {w w' : Work}
    (h : continueGroup s speciesID genomes groupcodes maxcountkey groupcode w = .ok w')
    (hinv : TimesInv s.iteration w.logSpecies) : TimesInv s.iteration w'.logSpecies := by
  unfold continueGroup at h
  cases hf : forEach (copyOldSpecies s speciesID groupcode) s.oldSpeciesList
      (Species.default, w) with
  | error e => rw [hf] at h; cases h
  | ok st =>
    rw [hf] at h
    simp only [Except.ok.injEq] at h
    subst h
    exact copyOldSpecies_times _ _ _ hf hinv

theorem splitOffGroup_times {s : Sim} {speciesID : Nat} {thislogspecies : Option Nat}
    {genomes : List Nat} {groupcodes : List Int} {slots : Nat → List Nat} {groupcode : Int}
    {w w' : Work}
    (h : splitOffGroup s speciesID thislogspecies genomes groupcodes slots groupcode w = .ok w')
    (hinv : TimesInv s.iteration w.logSpecies) : TimesInv s.iteration w'.logSpecies := by
  by_cases hmode : s.speciesMode ≥ SPECIES_MODE_PHYLOGENY
  · obtain ⟨p, parentNode, _, hn, hlog, _⟩ := splitOffGroup_log hmode h
    rw [hlog]
    have hset : TimesInv s.iteration (w.logSpecies.set p
        { parentNode with children := parentNode.children ++ [w.logSpecies.length] }) :=
      timesInv_set hinv hn rfl rfl (hinv p parentNode hn).1
    refine timesInv_append hset (le_refl _) (le_refl _) ?_
    intro q hq
    simp only [Option.some.injEq] at hq
    subst hq
    have hlt : p < w.logSpecies.length := by
      rcases Nat.lt_or_ge p w.logSpecies.length with h | h
      · exact h
      · rw [List.getElem?_eq_none h] at hn; cases hn
    exact ⟨_, List.getElem?_set_self hlt, (hinv p parentNode hn).2.1⟩
  · unfold splitOffGroup at h
    dsimp only at h
    rw [if_neg hmode] at h
    have h' := Except.ok.inj h
    subst h'
    exact hinv

theorem recordMetrics_times {s : Sim} {genomes : List Nat} {groupcodes : List Int}
    {slots : Nat → List Nat} {groupcode : Int} {w w' : Work}
    (h : recordMetrics s genomes groupcodes slots groupcode w = .ok w') :
    Keeps LogSpecies.times w.logSpecies w'.logSpecies := by
  unfold recordMetrics at h
  cases hp : w.logspeciespointers groupcode with
  | none => rw [hp] at h; cases h
  | some p =>
    rw [hp] at h
    simp only at h
    cases hn : w.logSpecies[p]? with
    | none => rw [hn] at h; cases h
    | some node =>
      rw [hn] at h
      simp only at h
      cases hl : node.dataItems.getLast? with
      | none => rw [hl] at h; cases h
      | some item =>
        rw [hl] at h
        simp only at h
        split_ifs at h
        simp only [Except.ok.injEq] at h
        subst h
        exact keeps_set _ hn rfl

/-- A round of the loop over the species keeps the invariant of the times. -/
theorem processSpecies_times {ord : HashOrder} {M : Nat} {s : Sim} {g : Gathered}
    {speciesID : Nat} {w w' : Work} (h : processSpecies ord M s g speciesID w = .ok w')
    (hinv : TimesInv s.iteration w.logSpecies) : TimesInv s.iteration w'.logSpecies := by
  obtain ⟨thislogspecies, codes, w1, _, _, _, hloop, hmet⟩ := processSpecies_ok h
  have h1 : TimesInv s.iteration w1.logSpecies := by
    refine forEach_inv _ _ (fun _ t => TimesInv s.iteration t.logSpecies) ?_
      _ [] _ w1 rfl hinv hloop
    intro d k r t t' _ hQ hb
    unfold groupStep at hb
    split_ifs at hb
    · exact splitOffGroup_times hb hQ
    · exact continueGroup_times hb hQ
  rcases hmet with ⟨_, hm⟩ | ⟨_, hm⟩
  · refine forEach_inv _ _ (fun _ t => TimesInv s.iteration t.logSpecies) ?_
      _ [] _ w' rfl h1 hm
    intro d k r t t' _ hQ hb
    exact timesInv_of_keeps (recordMetrics_times hb) hQ
  · rw [hm]
    exact h1

/-- A pass of the identifier that runs to its end keeps the invariant of the times. -/
theorem pass_times {ord : HashOrder} {M : Nat} {elapsed : Int} {s s' : Sim}
    (h : groupsGenealogicalTracker ord M elapsed s = .ok s')
    (hinv : TimesInv s.iteration s.logSpecies) :
    TimesInv s'.iteration s'.logSpecies := by
  obtain ⟨w, st, hloop, hlast, hs'⟩ := pass_ok h
  have hw : TimesInv s.iteration w.logSpecies := by
    refine forEach_inv _ _ (fun _ t => TimesInv s.iteration t.logSpecies) ?_
      _ [] _ w rfl hinv hloop
    intro d k r t t' _ hQ hb
    exact processSpecies_times hb hQ
  have hk := (recordSize_keeps _ _ _ hlast).comp
    (fun c : Nat × Nat × Nat × Option Nat × List Nat × List LogSpeciesDataItem =>
      (c.2.1, c.2.2.1, c.2.2.2.1))
  have hst : TimesInv s.iteration st.2 := timesInv_of_keeps hk hw
  rw [hs']
  exact hst

/-- The log of every state of a run satisfies the invariant of the times at the tick of the
state. -/
theorem reachable_times {s : Sim} (h : Reachable s) : TimesInv s.iteration s.logSpecies := by
  induction h with
  | setup s n m aliveCount =>
    intro i node hn
    have hi : i = 0 := by
      rcases Nat.eq_zero_or_pos i with h0 | hpos
      · exact h0
      · have : (setupLog s n m aliveCount).logSpecies[i]? = none :=
          List.getElem?_eq_none (by simp only [setupLog, List.length_singleton]; omega)
        rw [this] at hn
        cases hn
    subst hi
    simp only [setupLog, List.getElem?_cons_zero, Option.some.injEq] at hn
    subst hn
    refine ⟨le_refl _, Nat.zero_le _, ?_⟩
    intro p hp
    cases hp
  | ticks s s' _ hlog hle ih =>
    rw [hlog]
    exact timesInv_mono hle ih
  | pass ord M elapsed s s' _ hpass ih =>
    exact pass_times hpass ih

/-! ## Which fault ends a pass -/

theorem readAt_other (a : List Int) (i : Int) :
    readAt a i ≠ .error .staticArrayTooSmall := by
  unfold readAt
  intro h
  split_ifs at h
  · cases h
  · split at h <;> cases h

theorem writeAt_other (a : List Int) (i : Int) (v : Int) :
    writeAt a i v ≠ .error .staticArrayTooSmall := by
  unfold writeAt
  intro h
  split_ifs at h <;> cases h

theorem chaseFrom_other (lk : List Int) :
    ∀ (rounds : Nat) (g : Int), chaseFrom lk rounds g ≠ .error .staticArrayTooSmall := by
  intro rounds
  induction rounds with
  | zero => intro g h; cases h
  | succ k ih =>
    intro g h
    unfold chaseFrom at h
    cases hr : readAt lk g with
    | error e =>
      rw [hr] at h
      simp only [Except.error.injEq] at h
      subst h
      exact readAt_other _ _ hr
    | ok p =>
      rw [hr] at h
      simp only at h
      split_ifs at h
      exact ih p h

theorem chase_other (lk : List Int) (g : Int) : chase lk g ≠ .error .staticArrayTooSmall :=
  chaseFrom_other lk _ g

/-- A loop over a range ends with a fault that no round ends with only if it does not. -/
theorem forRange_other {σ : Type} (body : Nat → σ → Except Fault σ) (e : Fault)
    (hbody : ∀ i s, body i s ≠ .error e) :
    ∀ (count lo : Nat) (s : σ), forRange body lo count s ≠ .error e := by
  intro count
  induction count with
  | zero => intro lo s h; cases h
  | succ k ih =>
    intro lo s h
    unfold forRange at h
    cases hb : body lo s with
    | error e' =>
      rw [hb] at h
      simp only [Except.error.injEq] at h
      subst h
      exact hbody _ _ hb
    | ok s' =>
      rw [hb] at h
      exact ih _ _ h

/-- A `forEach` loop that ends with a fault: the rounds before ran to their ends and one
round ended with the fault. -/
theorem forEach_error {α σ : Type} (body : α → σ → Except Fault σ) (e : Fault) :
    ∀ (l : List α) (s : σ), forEach body l s = .error e ↔
      ∃ pre a post s', l = pre ++ a :: post ∧ forEach body pre s = .ok s' ∧
        body a s' = .error e := by
  intro l
  induction l with
  | nil =>
    intro s
    constructor
    · intro h; cases h
    · rintro ⟨pre, a, post, s', hl, _, _⟩
      cases pre <;> cases hl
  | cons x rest ih =>
    intro s
    constructor
    · intro h
      simp only [forEach] at h
      cases hb : body x s with
      | error e' =>
        rw [hb] at h
        simp only [Except.error.injEq] at h
        subst h
        exact ⟨[], x, rest, s, rfl, rfl, hb⟩
      | ok t =>
        rw [hb] at h
        obtain ⟨pre, a, post, s', hl, hpre, ha⟩ := (ih t).1 h
        refine ⟨x :: pre, a, post, s', by rw [hl]; rfl, ?_, ha⟩
        simp only [forEach, hb]
        exact hpre
    · rintro ⟨pre, a, post, s', hl, hpre, ha⟩
      cases pre with
      | nil =>
        simp only [List.nil_append, List.cons.injEq] at hl
        obtain ⟨hx, _⟩ := hl
        subst hx
        simp only [forEach, Except.ok.injEq] at hpre
        subst hpre
        simp only [forEach, ha]
      | cons y pre' =>
        simp only [List.cons_append, List.cons.injEq] at hl
        obtain ⟨hx, hrest⟩ := hl
        subst hx
        simp only [forEach] at hpre
        cases hb : body x s with
        | error e' => rw [hb] at hpre; cases hpre
        | ok t =>
          rw [hb] at hpre
          simp only [forEach, hb]
          exact (ih t).2 ⟨pre', a, post, s', hrest, hpre, ha⟩

theorem forEach_other {α σ : Type} (body : α → σ → Except Fault σ) (e : Fault)
    (hbody : ∀ a s, body a s ≠ .error e) (l : List α) (s : σ) :
    forEach body l s ≠ .error e := by
  intro h
  obtain ⟨_, a, _, s', _, _, ha⟩ := (forEach_error body e l s).1 h
  exact hbody a s' ha

theorem eq_error_of_faultOf {α : Type} {x : Except Fault α} {e : Fault}
    (h : faultOf x = some e) : x = .error e := by
  cases x with
  | ok a => cases h
  | error e' =>
    simp only [faultOf, Option.some.injEq] at h
    rw [h]

theorem linkPair_other (maxDifference : Int) (firstgenome secondgenome : Nat)
    (firstgroupcode : Int) (second : Nat) (gcs : Int) (s : Groups) :
    linkPair maxDifference firstgenome secondgenome firstgroupcode second gcs s ≠
      .error .staticArrayTooSmall := by
  intro h
  unfold linkPair at h
  split_ifs at h
  · cases hw : writeAt s.groupcodes second firstgroupcode with
    | error e =>
      rw [hw] at h
      simp only [Except.error.injEq] at h
      subst h
      exact writeAt_other _ _ _ hw
    | ok gc => rw [hw] at h; cases h
  · cases hw : writeAt s.grouplookup gcs firstgroupcode with
    | error e =>
      rw [hw] at h
      simp only [Except.error.injEq] at h
      subst h
      exact writeAt_other _ _ _ hw
    | ok lk => rw [hw] at h; cases h

theorem compareStep_other (maxDifference : Int) (genomes : List Nat) (firstgenome : Nat)
    (firstgroupcode : Int) (second : Nat) (s : Groups) :
    compareStep maxDifference genomes firstgenome firstgroupcode second s ≠
      .error .staticArrayTooSmall := by
  intro h
  unfold compareStep at h
  cases hr : readAt s.groupcodes second with
  | error e =>
    rw [hr] at h
    simp only [Except.error.injEq] at h
    subst h
    exact readAt_other _ _ hr
  | ok gcs0 =>
    rw [hr] at h
    simp only at h
    split_ifs at h
    · cases hc : chase s.grouplookup gcs0 with
      | error e =>
        rw [hc] at h
        simp only [Except.error.injEq] at h
        subst h
        exact chase_other _ _ hc
      | ok gcs =>
        rw [hc] at h
        simp only at h
        cases hw : writeAt s.grouplookup gcs0 gcs with
        | error e =>
          rw [hw] at h
          simp only [Except.error.injEq] at h
          subst h
          exact writeAt_other _ _ _ hw
        | ok lk =>
          rw [hw] at h
          simp only at h
          split_ifs at h
          exact linkPair_other _ _ _ _ _ _ _ h
    · exact linkPair_other _ _ _ _ _ _ _ h

theorem openGroup_other (first : Nat) (s : Groups) :
    openGroup first s ≠ .error .staticArrayTooSmall := by
  intro h
  unfold openGroup at h
  cases hr : readAt s.groupcodes first with
  | error e =>
    rw [hr] at h
    simp only [Except.error.injEq] at h
    subst h
    exact readAt_other _ _ hr
  | ok gc0 =>
    rw [hr] at h
    simp only at h
    split_ifs at h
    cases hw : writeAt s.groupcodes first s.nextGroup with
    | error e =>
      rw [hw] at h
      simp only [Except.error.injEq] at h
      subst h
      exact writeAt_other _ _ _ hw
    | ok gc => rw [hw] at h; cases h

theorem firstStep_other (maxDifference : Int) (genomes : List Nat) (first : Nat)
    (s : Groups) : firstStep maxDifference genomes first s ≠ .error .staticArrayTooSmall := by
  intro h
  unfold firstStep at h
  cases ho : openGroup first s with
  | error e =>
    rw [ho] at h
    simp only [Except.error.injEq] at h
    subst h
    exact openGroup_other _ _ ho
  | ok s1 =>
    rw [ho] at h
    simp only at h
    cases hr : readAt s1.groupcodes first with
    | error e =>
      rw [hr] at h
      simp only [Except.error.injEq] at h
      subst h
      exact readAt_other _ _ hr
    | ok fg0 =>
      rw [hr] at h
      simp only at h
      cases hc : chase s1.grouplookup fg0 with
      | error e =>
        rw [hc] at h
        simp only [Except.error.injEq] at h
        subst h
        exact chase_other _ _ hc
      | ok firstgroupcode =>
        rw [hc] at h
        simp only at h
        cases hw : writeAt s1.groupcodes first firstgroupcode with
        | error e =>
          rw [hw] at h
          simp only [Except.error.injEq] at h
          subst h
          exact writeAt_other _ _ _ hw
        | ok gc =>
          rw [hw] at h
          simp only at h
          exact forRange_other _ _ (compareStep_other _ _ _ _) _ _ _ h

theorem fixStep_other (grouplookup : List Int) (i : Nat) (st : List Int × Int) :
    fixStep grouplookup i st ≠ .error .staticArrayTooSmall := by
  intro h
  unfold fixStep at h
  cases hr : readAt st.1 i with
  | error e =>
    rw [hr] at h
    simp only [Except.error.injEq] at h
    subst h
    exact readAt_other _ _ hr
  | ok gci0 =>
    rw [hr] at h
    simp only at h
    cases hc : chase grouplookup gci0 with
    | error e =>
      rw [hc] at h
      simp only [Except.error.injEq] at h
      subst h
      exact chase_other _ _ hc
    | ok gci =>
      rw [hc] at h
      simp only at h
      cases hw : writeAt st.1 i gci with
      | error e =>
        rw [hw] at h
        simp only [Except.error.injEq] at h
        subst h
        exact writeAt_other _ _ _ hw
      | ok gc => rw [hw] at h; cases h

/-- The grouping of the genomes of a species never ends with the capacity fault. -/
theorem groupGenomes_other (maxDifference : Int) (genomes : List Nat) :
    groupGenomes maxDifference genomes ≠ .error .staticArrayTooSmall := by
  intro h
  unfold groupGenomes at h
  cases hp : pairwiseSweep maxDifference genomes with
  | error e =>
    rw [hp] at h
    simp only [Except.error.injEq] at h
    subst h
    exact forRange_other _ _ (firstStep_other _ _) _ _ _ hp
  | ok s =>
    rw [hp] at h
    exact forRange_other _ _ (fixStep_other _) _ _ _ h

theorem splitOffGroup_other (s : Sim) (speciesID : Nat) (thislogspecies : Option Nat)
    (genomes : List Nat) (groupcodes : List Int) (slots : Nat → List Nat) (groupcode : Int)
    (w : Work) :
    splitOffGroup s speciesID thislogspecies genomes groupcodes slots groupcode w ≠
      .error .staticArrayTooSmall := by
  intro h
  unfold splitOffGroup at h
  dsimp only at h
  by_cases hmode : s.speciesMode ≥ SPECIES_MODE_PHYLOGENY
  · rw [if_pos hmode] at h
    cases ht : thislogspecies with
    | none => rw [ht] at h; cases h
    | some p =>
      rw [ht] at h
      dsimp only at h
      cases hn : w.logSpecies[p]? with
      | none => rw [hn] at h; cases h
      | some parentNode => rw [hn] at h; cases h
  · rw [if_neg hmode] at h
    cases h

theorem copyOldSpecies_other (s : Sim) (speciesID : Nat) (groupcode : Int) (old : Species)
    (st : Species × Work) :
    copyOldSpecies s speciesID groupcode old st ≠ .error .staticArrayTooSmall := by
  intro h
  unfold copyOldSpecies at h
  by_cases hid : old.ID = speciesID
  · rw [if_pos hid] at h
    by_cases hmode : s.speciesMode ≥ SPECIES_MODE_PHYLOGENY
    · rw [if_pos hmode] at h
      cases hl : old.logSpeciesStructure with
      | none => rw [hl] at h; cases h
      | some p =>
        rw [hl] at h
        dsimp only at h
        cases hn : st.2.logSpecies[p]? with
        | none => rw [hn] at h; cases h
        | some node => rw [hn] at h; cases h
    · rw [if_neg hmode] at h
      cases h
  · rw [if_neg hid] at h
    cases h

theorem groupStep_other (s : Sim) (speciesID : Nat) (thislogspecies : Option Nat)
    (genomes : List Nat) (groupcodes : List Int) (slots : Nat → List Nat)
    (maxcountkey groupcode : Int) (w : Work) :
    groupStep s speciesID thislogspecies genomes groupcodes slots maxcountkey groupcode w ≠
      .error .staticArrayTooSmall := by
  intro h
  unfold groupStep at h
  split_ifs at h
  · exact splitOffGroup_other _ _ _ _ _ _ _ _ h
  · unfold continueGroup at h
    cases hf : forEach (copyOldSpecies s speciesID groupcode) s.oldSpeciesList
        (Species.default, w) with
    | error e =>
      rw [hf] at h
      simp only [Except.error.injEq] at h
      subst h
      exact forEach_other _ _ (copyOldSpecies_other _ _ _) _ _ hf
    | ok st => rw [hf] at h; cases h

theorem recordMetrics_other (s : Sim) (genomes : List Nat) (groupcodes : List Int)
    (slots : Nat → List Nat) (groupcode : Int) (w : Work) :
    recordMetrics s genomes groupcodes slots groupcode w ≠ .error .staticArrayTooSmall := by
  intro h
  unfold recordMetrics at h
  cases hp : w.logspeciespointers groupcode with
  | none => rw [hp] at h; cases h
  | some p =>
    rw [hp] at h
    dsimp only at h
    cases hn : w.logSpecies[p]? with
    | none => rw [hn] at h; cases h
    | some node =>
      rw [hn] at h
      dsimp only at h
      cases hl : node.dataItems.getLast? with
      | none => rw [hl] at h; cases h
      | some item =>
        rw [hl] at h
        dsimp only at h
        split_ifs at h
        cases h

theorem recordSize_other (s : Sim) (speciesSizes : Nat → Int) (sp : Species)
    (st : List Species × List LogSpecies) :
    recordSize s speciesSizes sp st ≠ .error .staticArrayTooSmall := by
  intro h
  unfold recordSize at h
  dsimp only at h
  by_cases hmode : s.speciesMode ≥ SPECIES_MODE_PHYLOGENY
  · rw [if_pos hmode] at h
    cases hp : sp.logSpeciesStructure with
    | none => rw [hp] at h; cases h
    | some p =>
      rw [hp] at h
      dsimp only at h
      cases hn : st.2[p]? with
      | none => rw [hn] at h; cases h
      | some ls =>
        rw [hn] at h
        dsimp only at h
        split_ifs at h
  · rw [if_neg hmode] at h
    cases h

theorem findLogSpecies_other (s : Sim) (speciesID : Nat) (w : Work) :
    findLogSpecies s speciesID w ≠ .error .staticArrayTooSmall := by
  intro h
  unfold findLogSpecies at h
  by_cases hmode : s.speciesMode ≥ SPECIES_MODE_PHYLOGENY
  · rw [if_pos hmode] at h
    cases hl : w.logSpeciesByID speciesID with
    | none => rw [hl] at h; cases h
    | some p => rw [hl] at h; cases h
  · rw [if_neg hmode] at h
    cases h

/-- A round of the loop over the species ends with the capacity fault exactly if the log
node of the species is found (in the phylogeny modes) and its genomes are at least as many
as the static arrays have entries. -/
theorem processSpecies_capacity (ord : HashOrder) (M : Nat) (s : Sim) (g : Gathered)
    (speciesID : Nat) (w : Work) :
    processSpecies ord M s g speciesID w = .error .staticArrayTooSmall ↔
      (∃ t, findLogSpecies s speciesID w = .ok t) ∧
        M ≤ (ord.genomes (g.genomedata speciesID)).length := by
  unfold processSpecies
  cases hf : findLogSpecies s speciesID w with
  | error e =>
    constructor
    · intro h
      have he : e = Fault.staticArrayTooSmall := Except.error.inj h
      subst he
      exact absurd hf (findLogSpecies_other _ _ _)
    · rintro ⟨⟨t, ht⟩, _⟩
      cases ht
  | ok t =>
    dsimp only
    by_cases hM : (ord.genomes (g.genomedata speciesID)).length ≥ M
    · rw [if_pos hM]
      exact ⟨fun _ => ⟨⟨t, rfl⟩, hM⟩, fun _ => rfl⟩
    · rw [if_neg hM]
      constructor
      · intro h
        exfalso
        cases hg : groupGenomes s.maxDifference (ord.genomes (g.genomedata speciesID)) with
        | error e =>
          rw [hg] at h
          simp only [Except.error.injEq] at h
          subst h
          exact groupGenomes_other _ _ hg
        | ok codes =>
          rw [hg] at h
          dsimp only at h
          cases hl : forEach
              (groupStep s speciesID t (ord.genomes (g.genomedata speciesID)) codes.1
                (g.slotswithgenome speciesID)
                (findBiggest (countGroups codes.1) (ord.groups (countGroups codes.1).keys)).2)
              (ord.groups (countGroups codes.1).keys)
              { w with logspeciespointers := fun _ => none } with
          | error e =>
            rw [hl] at h
            simp only [Except.error.injEq] at h
            subst h
            exact forEach_other _ _ (groupStep_other _ _ _ _ _ _ _) _ _ hl
          | ok w1 =>
            rw [hl] at h
            dsimp only at h
            split_ifs at h
            exact forEach_other _ _ (recordMetrics_other _ _ _ _) _ _ h
      · rintro ⟨_, h⟩
        exact absurd h hM

/-- A pass ends with the capacity fault exactly if its loop over the species does. -/
theorem pass_capacity (ord : HashOrder) (M : Nat) (elapsed : Int) (s : Sim) :
    groupsGenealogicalTracker ord M elapsed s = .error .staticArrayTooSmall ↔
      forEach (processSpecies ord M s (gather s)) (ord.species (gather s).speciesKeys)
        (firstWork s) = .error .staticArrayTooSmall := by
  unfold groupsGenealogicalTracker firstWork
  dsimp only
  cases hl : forEach (processSpecies ord M s (gather s)) (ord.species (gather s).speciesKeys)
      { critters := s.critters, speciesSizes := (gather s).speciesSizes,
        nextSpeciesID := s.nextSpeciesID, newSpeciesList := [], logSpecies := s.logSpecies,
        logSpeciesByID := s.logSpeciesByID, logspeciespointers := fun _ => none } with
  | error e => simp only [Except.error.injEq]
  | ok w =>
    dsimp only
    refine ⟨fun h => ?_, fun h => by cases h⟩
    exfalso
    cases hr : forEach (recordSize s w.speciesSizes) w.newSpeciesList ([], w.logSpecies) with
    | error e =>
      rw [hr] at h
      simp only [Except.error.injEq] at h
      subst h
      exact forEach_other _ _ (recordSize_other _ _) _ _ hr
    | ok st => rw [hr] at h; cases h

/-! ## Claims C11 to C14 -/

/-- C11. In every state of a run (setupRun, then ticks and passes of the identifier at tick
numbers that do not decrease), every node of the log has a time of first appearance no later
than its time of last appearance, and the parent of every node that is not the root is a
node of the log whose time of first appearance is no later than that of the node. -/
theorem C11_log_times_ordered (s : Sim) (h : Reachable s) :
    ∀ (i : Nat) (node : LogSpecies), s.logSpecies[i]? = some node →
      node.timeOfFirstAppearance ≤ node.timeOfLastAppearance ∧
      ∀ p, node.parent = some p →
        ∃ pn, s.logSpecies[p]? = some pn ∧
          pn.timeOfFirstAppearance ≤ node.timeOfFirstAppearance := by
  intro i node hn
  obtain ⟨h1, _, h3⟩ := reachable_times h i node hn
  exact ⟨h1, h3⟩

/-- Witness for C11: the state after setupRun and one pass at the tick 10 that splits a
species off; its log has the root and a node whose parent is the root. -/
theorem C11_log_times_ordered_witness :
    Reachable (stateAfter insertionOrder 100 0 (splitTestState [0, 65280, 1] 2 2)) ∧
    ((stateAfter insertionOrder 100 0 (splitTestState [0, 65280, 1] 2 2)).logSpecies.map
      LogSpecies.times = [(0, 10, none), (10, 10, some 0)]) ∧
    ∀ (i : Nat) (node : LogSpecies),
      (stateAfter insertionOrder 100 0 (splitTestState [0, 65280, 1] 2 2)).logSpecies[i]? =
        some node →
      node.timeOfFirstAppearance ≤ node.timeOfLastAppearance ∧
      ∀ p, node.parent = some p →
        ∃ pn, (stateAfter insertionOrder 100 0
            (splitTestState [0, 65280, 1] 2 2)).logSpecies[p]? = some pn ∧
          pn.timeOfFirstAppearance ≤ node.timeOfFirstAppearance :=
  ⟨Reachable.pass insertionOrder 100 0 _ _ (Reachable.setup _ 0 0 1)
      (ok_stateAfter (by decide)),
   by decide,
   C11_log_times_ordered _
    (Reachable.pass insertionOrder 100 0 _ _ (Reachable.setup _ 0 0 1)
      (ok_stateAfter (by decide)))⟩

/-- The loop over the slots of a group never raises `maxy` above its initial value. -/
theorem metricsGroup_maxy (s : Sim) (critters : Nat → Nat → Nat → Critter)
    (genomes : List Nat) (groupcodes : List Int) (slots : Nat → List Nat) (groupcode : Int) :
    (metricsGroup s critters genomes groupcodes slots groupcode).maxy = -1 := by
  have hslot : ∀ (l : List Nat) (acc : Metrics), acc.maxy = -1 →
      (l.foldl (metricsSlot s critters) acc).maxy = -1 := by
    intro l
    induction l with
    | nil => intro acc h; exact h
    | cons v rest ih =>
      intro acc h
      rw [List.foldl_cons]
      apply ih
      simp only [metricsSlot]
      rw [h, if_neg (by omega)]
  have hgroup : ∀ (l : List (Nat × Int)) (acc : Metrics), acc.maxy = -1 →
      (l.foldl
        (fun acc gc =>
          if gc.2 = groupcode then
            let acc1 := { acc with
              genomicDiversity := acc.genomicDiversity + 1
              speciesSize := acc.speciesSize + (slots gc.1).length }
            { (slots gc.1).foldl (metricsSlot s critters) acc1 with samplegenome := gc.1 }
          else acc) acc).maxy = -1 := by
    intro l
    induction l with
    | nil => intro acc h; exact h
    | cons gc rest ih =>
      intro acc h
      rw [List.foldl_cons]
      apply ih
      split_ifs
      · exact hslot _ _ h
      · exact h
  exact hgroup _ _ rfl

/-- C12 (defect of the code). The metrics loop never raises `maxy`: line 587 tests
`y < maxy` where line 586 tests `x > maxx`, so `maxy` stays at -1 and the stored range is the
extent in x alone. On a species that lives in the cells (0, 0) and (0, 3) a pass in the
phylogeny and metrics mode runs to its end, leaves the species in those two cells, and
stores the geographical range 0 in the latest data item of its node, where
max(max_x - min_x, max_y - min_y) is 3. -/
theorem C12_range_ignores_rows :
    (∀ (s : Sim) (critters : Nat → Nat → Nat → Critter) (genomes : List Nat)
      (groupcodes : List Int) (slots : Nat → List Nat) (groupcode : Int),
      (metricsGroup s critters genomes groupcodes slots groupcode).maxy = -1) ∧
    completes insertionOrder 100 0 columnState = true ∧
    (stateAfter insertionOrder 100 0 columnState).oldSpeciesList.map Species.link =
      [(1, 0, some 0)] ∧
    cellsOf (stateAfter insertionOrder 100 0 columnState) 1 = [(0, 0), (0, 3)] ∧
    storedRange (stateAfter insertionOrder 100 0 columnState) 0 = some 0 ∧
    rangeOfCells (cellsOf (stateAfter insertionOrder 100 0 columnState) 1) = 3 :=
  ⟨metricsGroup_maxy, by decide, by decide, by decide, by decide, by decide⟩

/-- C13. For x, y and slot in 0..255 the packed position of line 235 is
x*65536 + y*256 + slot, a 32-bit value; decoding it as in lines 448-451 (x = v / 65536,
y = (v mod 65536) / 256, z = v mod 256) returns (x, y, slot); and two triples that pack to
the same value are the same triple. -/
theorem C13_packing_round_trip (x y slot : Nat) (hx : x < 256) (hy : y < 256)
    (hs : slot < 256) :
    packPosition x y slot = x * 65536 + y * 256 + slot ∧
    packPosition x y slot < 2 ^ 32 ∧
    unpackX (packPosition x y slot) = x ∧
    unpackY (packPosition x y slot) = y ∧
    unpackZ (packPosition x y slot) = slot ∧
    ∀ x' y' slot' : Nat, x' < 256 → y' < 256 → slot' < 256 →
      packPosition x' y' slot' = packPosition x y slot → x' = x ∧ y' = y ∧ slot' = slot := by
  have hround := unpack_packPosition (show x < 65536 by omega) hy hs
  simp only [unpack, Prod.mk.injEq] at hround
  have hval : packPosition x y slot = x * 65536 + y * 256 + slot := by
    unfold packPosition
    apply Nat.mod_eq_of_lt
    norm_num
    omega
  refine ⟨hval, ?_, hround.1, hround.2.1, hround.2.2, ?_⟩
  · unfold packPosition
    exact Nat.mod_lt _ (by norm_num)
  · intro x' y' slot' hx' hy' hs' heq
    have hround' := unpack_packPosition (show x' < 65536 by omega) hy' hs'
    simp only [unpack, Prod.mk.injEq] at hround'
    rw [heq] at hround'
    exact ⟨hround'.1.symm.trans hround.1, hround'.2.1.symm.trans hround.2.1,
      hround'.2.2.symm.trans hround.2.2⟩

/-- Witness for C13: the slot 255 of the cell (3, 200). -/
theorem C13_packing_round_trip_witness :
    packPosition 3 200 255 = 3 * 65536 + 200 * 256 + 255 ∧
    packPosition 3 200 255 < 2 ^ 32 ∧
    unpackX (packPosition 3 200 255) = 3 ∧
    unpackY (packPosition 3 200 255) = 200 ∧
    unpackZ (packPosition 3 200 255) = 255 ∧
    ∀ x' y' slot' : Nat, x' < 256 → y' < 256 → slot' < 256 →
      packPosition x' y' slot' = packPosition 3 200 255 →
      x' = 3 ∧ y' = 200 ∧ slot' = 255 :=
  C13_packing_round_trip 3 200 255 (by decide) (by decide) (by decide)

/-- C14 (amended). A pass of groupsGenealogicalTracker ends with the capacity error exactly
if its loop over the species, every earlier species processed to its end, comes to a species
that (in the phylogeny modes) is in the log hash and has at least MAX_GENOME_COUNT distinct
genomes. So a pass that ends with the capacity error has a species with at least
MAX_GENOME_COUNT distinct genomes, and a pass on a state with such a species does not run to
its end. The genomes counted for a species are, without repetition, the genomes of its live
critters in the cells the first loop visits. -/
theorem C14_capacity_abort (ord : HashOrder) (hord : ord.Valid) (M : Nat) (elapsed : Int)
    (s : Sim) :
    (groupsGenealogicalTracker ord M elapsed s = .error .staticArrayTooSmall ↔
      ∃ pre k post w, ord.species (gather s).speciesKeys = pre ++ k :: post ∧
        forEach (processSpecies ord M s (gather s)) pre (firstWork s) = .ok w ∧
        (s.speciesMode ≥ SPECIES_MODE_PHYLOGENY → ∃ p, w.logSpeciesByID k = some p) ∧
        M ≤ ((gather s).genomedata k).length) ∧
    (groupsGenealogicalTracker ord M elapsed s = .error .staticArrayTooSmall →
      ∃ k ∈ (gather s).speciesKeys, M ≤ ((gather s).genomedata k).length) ∧
    ((∃ k ∈ (gather s).speciesKeys, M ≤ ((gather s).genomedata k).length) →
      ∀ s', groupsGenealogicalTracker ord M elapsed s ≠ .ok s') ∧
    (∀ k, ((gather s).genomedata k).Nodup ∧
      ∀ q, q ∈ (gather s).genomedata k ↔
        ∃ p ∈ gatheredSlots s, (critterAt s.critters p).speciesID = k ∧
          (critterAt s.critters p).genome = q) := by
  have hlen : ∀ k, (ord.genomes ((gather s).genomedata k)).length =
      ((gather s).genomedata k).length := fun k => (hord.2.1 _).length_eq
  have hfind : ∀ (k : Nat) (w : Work), (∃ t, findLogSpecies s k w = .ok t) ↔
      (s.speciesMode ≥ SPECIES_MODE_PHYLOGENY → ∃ p, w.logSpeciesByID k = some p) := by
    intro k w
    unfold findLogSpecies
    by_cases hmode : s.speciesMode ≥ SPECIES_MODE_PHYLOGENY
    · rw [if_pos hmode]
      cases hl : w.logSpeciesByID k with
      | none =>
        constructor
        · rintro ⟨t, ht⟩; cases ht
        · intro h
          obtain ⟨p, hp⟩ := h hmode
          cases hp
      | some p => exact ⟨fun _ _ => ⟨p, rfl⟩, fun _ => ⟨_, rfl⟩⟩
    · rw [if_neg hmode]
      exact ⟨fun _ h => absurd h hmode, fun _ => ⟨_, rfl⟩⟩
  have hiff : groupsGenealogicalTracker ord M elapsed s = .error .staticArrayTooSmall ↔
      ∃ pre k post w, ord.species (gather s).speciesKeys = pre ++ k :: post ∧
        forEach (processSpecies ord M s (gather s)) pre (firstWork s) = .ok w ∧
        (s.speciesMode ≥ SPECIES_MODE_PHYLOGENY → ∃ p, w.logSpeciesByID k = some p) ∧
        M ≤ ((gather s).genomedata k).length := by
    rw [pass_capacity, forEach_error]
    constructor
    · rintro ⟨pre, k, post, w, hl, hpre, hk⟩
      obtain ⟨hf, hM⟩ := (processSpecies_capacity _ _ _ _ _ _).1 hk
      exact ⟨pre, k, post, w, hl, hpre, (hfind k w).1 hf, by rw [← hlen]; exact hM⟩
    · rintro ⟨pre, k, post, w, hl, hpre, hf, hM⟩
      exact ⟨pre, k, post, w, hl, hpre,
        (processSpecies_capacity _ _ _ _ _ _).2 ⟨(hfind k w).2 hf, by rw [hlen]; exact hM⟩⟩
  refine ⟨hiff, ?_, ?_, ?_⟩
  · intro h
    obtain ⟨pre, k, post, w, hl, _, _, hM⟩ := hiff.1 h
    refine ⟨k, ?_, hM⟩
    have hk : k ∈ ord.species (gather s).speciesKeys := by
      rw [hl]
      simp
    exact (hord.1 _).mem_iff.1 hk
  · rintro ⟨k, hk, hM⟩ s' hok
    obtain ⟨w, st, hloop, _, _⟩ := pass_ok hok
    have hk' : k ∈ ord.species (gather s).speciesKeys := (hord.1 _).mem_iff.2 hk
    obtain ⟨t, t', hb⟩ := forEach_mem_ok _ _ _ _ hloop k hk'
    obtain ⟨_, _, _, _, hlt, _⟩ := processSpecies_ok hb
    rw [hlen] at hlt
    omega
  · intro k
    exact ⟨(gather_inv s).genomes_nodup k, (gather_inv s).genomes_mem k⟩

/-- The claim C14 as it is written fails in both directions. With static arrays of three
entries, the species 1 of `twoSpeciesState` has exactly three distinct genomes and the
species 2 has two, so no species has more genomes than the cap, and yet the pass ends with
the capacity error. With static arrays of two entries and the phylogeny mode, the species 1
has more genomes than the cap, and the pass ends with the error of a species that is not in
the log hash. -/
theorem C14_capacity_counterexample :
    (groupsGenealogicalTracker insertionOrder 3 0 (twoSpeciesState 3) =
        .error .staticArrayTooSmall ∧
      (gather (twoSpeciesState 3)).speciesKeys = [1, 2] ∧
      (gather (twoSpeciesState 3)).genomedata 1 = [0, 65280, 1] ∧
      (gather (twoSpeciesState 3)).genomedata 2 = [0, 1]) ∧
    (groupsGenealogicalTracker insertionOrder 2 0 unloggedState = .error .speciesNotInLog ∧
      (gather unloggedState).speciesKeys = [1, 2] ∧
      (gather unloggedState).genomedata 1 = [0, 65280, 1]) :=
  ⟨⟨eq_error_of_faultOf (by decide), by decide, by decide, by decide⟩,
   eq_error_of_faultOf (by decide), by decide, by decide⟩

/-- Witness for C14: static arrays of three entries and the two species of
`twoSpeciesState`. -/
theorem C14_capacity_abort_witness :
    insertionOrder.Valid ∧
    (groupsGenealogicalTracker insertionOrder 3 0 (twoSpeciesState 3) =
        .error .staticArrayTooSmall ↔
      ∃ pre k post w,
        insertionOrder.species (gather (twoSpeciesState 3)).speciesKeys = pre ++ k :: post ∧
        forEach (processSpecies insertionOrder 3 (twoSpeciesState 3)
          (gather (twoSpeciesState 3))) pre (firstWork (twoSpeciesState 3)) = .ok w ∧
        ((twoSpeciesState 3).speciesMode ≥ SPECIES_MODE_PHYLOGENY →
          ∃ p, w.logSpeciesByID k = some p) ∧
        3 ≤ ((gather (twoSpeciesState 3)).genomedata k).length) ∧
    (∃ k ∈ (gather (twoSpeciesState 3)).speciesKeys,
      3 ≤ ((gather (twoSpeciesState 3)).genomedata k).length) ∧
    ∀ s', groupsGenealogicalTracker insertionOrder 3 0 (twoSpeciesState 3) ≠ .ok s' :=
  ⟨insertionOrder_valid,
   (C14_capacity_abort insertionOrder insertionOrder_valid 3 0 (twoSpeciesState 3)).1,
   ⟨1, by decide, by decide⟩,
   (C14_capacity_abort insertionOrder insertionOrder_valid 3 0 (twoSpeciesState 3)).2.2.1
     ⟨1, by decide, by decide⟩⟩

/-! ## The environment: one call of `regenerateEnvironment` -/

theorem fileAt_ok {files : List QImage} {i : Int} (hlo : 0 ≤ i)
    (hhi : i < files.length) : ∃ img, fileAt files i = .ok img := by
  unfold fileAt
  rw [if_neg (by omega)]
  have hlt : i.toNat < files.length := by omega
  rw [List.getElem?_eq_getElem hlt]
  exact ⟨_, rfl⟩

/-- In the modes 1, 2 and 3 and with two files or more, the file of the next keyframe is a
file of the list. -/
theorem nextFile_ok {emode : Int} {e : EnvState}
    (hmode : emode = 1 ∨ emode = 2 ∨ emode = 3) (hn : 2 ≤ e.environmentFiles.length)
    (hlo : 0 ≤ e.currentEnvironmentFile)
    (hhi : e.currentEnvironmentFile < e.environmentFiles.length) :
    ∃ nextfile, nextFile emode e = .ok nextfile ∧ 0 ≤ nextfile ∧
      nextfile < e.environmentFiles.length ∧
      nextfile =
        (if e.EnvChangeForward then
          if e.currentEnvironmentFile + 1 < e.environmentFiles.length then
            e.currentEnvironmentFile + 1
          else if emode = 1 then e.currentEnvironmentFile
          else if emode = 2 then 0
          else e.currentEnvironmentFile - 1
        else if e.currentEnvironmentFile > 0 then e.currentEnvironmentFile - 1 else 1) := by
  unfold nextFile
  cases hf : e.EnvChangeForward
  · simp only [Bool.false_eq_true, if_false]
    by_cases hc : e.currentEnvironmentFile > 0
    · simp only [if_pos hc]
      exact ⟨_, rfl, by omega, by omega, rfl⟩
    · simp only [if_neg hc]
      exact ⟨_, rfl, by omega, by omega, rfl⟩
  · simp only [if_true]
    by_cases hc : e.currentEnvironmentFile + 1 < e.environmentFiles.length
    · simp only [if_pos hc]
      exact ⟨_, rfl, by omega, by omega, rfl⟩
    · simp only [if_neg hc]
      rcases hmode with h | h | h
      · subst h
        simp only [if_true]
        refine ⟨_, rfl, by omega, by omega, ?_⟩
        norm_num
      · subst h
        simp only [if_true]
        refine ⟨_, rfl, by omega, by omega, ?_⟩
        norm_num
      · subst h
        simp only [if_true]
        refine ⟨_, rfl, by omega, by omega, ?_⟩
        norm_num

/-- The planes after `loadEnvironmentFromFile` in the modes 1, 2 and 3 with two files or
more. -/
theorem loadEnvironmentFromFile_spec {emode : Int} {e : EnvState}
    (hmode : emode = 1 ∨ emode = 2 ∨ emode = 3) (hn : 2 ≤ e.environmentFiles.length)
    (hlo : 0 ≤ e.currentEnvironmentFile)
    (hhi : e.currentEnvironmentFile < e.environmentFiles.length) :
    ∃ nextfile img img2, nextFile emode e = .ok nextfile ∧
      fileAt e.environmentFiles e.currentEnvironmentFile = .ok img ∧
      fileAt e.environmentFiles nextfile = .ok img2 ∧
      loadEnvironmentFromFile emode e =
        .ok { e with
              environment :=
                storeImage e.gridX e.gridY (rescaled e.gridX e.gridY img.width img.height img)
                  e.environment
              environmentlast :=
                storeImage e.gridX e.gridY (rescaled e.gridX e.gridY img.width img.height img)
                  e.environmentlast
              environmentnext :=
                storeImage e.gridX e.gridY (rescaled e.gridX e.gridY img.width img.height img2)
                  e.environmentnext } := by
  obtain ⟨nextfile, hnf, hnlo, hnhi, _⟩ := nextFile_ok hmode hn hlo hhi
  obtain ⟨img, himg⟩ := fileAt_ok hlo hhi
  obtain ⟨img2, himg2⟩ := fileAt_ok hnlo hnhi
  refine ⟨nextfile, img, img2, hnf, himg, himg2, ?_⟩
  unfold loadEnvironmentFromFile
  rw [if_neg (by omega), himg]
  dsimp only
  rw [if_neg (by omega), hnf]
  dsimp only
  rw [himg2]

/-- A call that does not bring the countdown to zero: the countdown goes down by one and,
with interpolation, the current plane is interpolated. -/
theorem regenerate_countdown (emode : Int) (interpolate : Bool) (e : EnvState)
    (hrate : e.environmentChangeRate ≠ 0) (hmode : emode ≠ 0)
    (hfiles : e.environmentFiles.length ≠ 1) (hc : 1 < e.EnvChangeCounter) :
    regenerateEnvironment emode interpolate e =
      .ok (false,
        if interpolate then
          { e with
            EnvChangeCounter := e.EnvChangeCounter - 1
            environment := interpolatePlane { e with EnvChangeCounter := e.EnvChangeCounter - 1 } }
        else { e with EnvChangeCounter := e.EnvChangeCounter - 1 }) := by
  unfold regenerateEnvironment
  rw [if_neg (by simp only [hrate, hmode, hfiles, or_self, not_false_eq_true])]
  dsimp only
  rw [if_neg (by omega)]
  cases interpolate <;> rfl

/-- A call that brings the countdown to zero. In the once mode at the last file it returns
the halt flag; otherwise the cursor moves to the next file, in the direction that the mode
and the flag give, and the planes are loaded. -/
theorem regenerate_advance (emode : Int) (interpolate : Bool) (e : EnvState)
    (hrate : e.environmentChangeRate ≠ 0) (hmode : emode = 1 ∨ emode = 2 ∨ emode = 3)
    (hn : 2 ≤ e.environmentFiles.length) (hlo : 0 ≤ e.currentEnvironmentFile)
    (hhi : e.currentEnvironmentFile < e.environmentFiles.length)
    (hc : e.EnvChangeCounter ≤ 1) :
    (emode = 1 ∧ e.currentEnvironmentFile + 1 = e.environmentFiles.length ∧
      regenerateEnvironment emode interpolate e =
        .ok (true,
          { e with
            EnvChangeCounter := e.EnvChangeCounter - 1
            EnvChangeForward := true
            currentEnvironmentFile := e.currentEnvironmentFile + 1 })) ∨
    (¬(emode = 1 ∧ e.currentEnvironmentFile + 1 = e.environmentFiles.length) ∧
      ∃ (nextfile : Int) (forward : Bool), 0 ≤ nextfile ∧
        nextfile < e.environmentFiles.length ∧
        nextfile =
          (if emode ≠ 3 ∨ e.EnvChangeForward = true then
            if e.currentEnvironmentFile + 1 < e.environmentFiles.length then
              e.currentEnvironmentFile + 1
            else if emode = 2 then 0
            else e.currentEnvironmentFile - 1
          else if e.currentEnvironmentFile > 0 then e.currentEnvironmentFile - 1 else 1) ∧
        forward =
          (if emode ≠ 3 ∨ e.EnvChangeForward = true then
            if e.currentEnvironmentFile + 1 < e.environmentFiles.length then true
            else if emode = 3 then false else true
          else if e.currentEnvironmentFile > 0 then false else true) ∧
        ((emode ≠ 3 → e.EnvChangeForward = true) → nextFile emode e = .ok nextfile) ∧
        regenerateEnvironment emode interpolate e =
          resetAndLoad emode
            { e with
              EnvChangeCounter := e.EnvChangeCounter - 1
              currentEnvironmentFile := nextfile
              EnvChangeForward := forward }) := by
  have hfiles : e.environmentFiles.length ≠ 1 := by omega
  have hc' : e.EnvChangeCounter - 1 ≤ 0 := by omega
  by_cases hend : e.currentEnvironmentFile + 1 < e.environmentFiles.length
  · -- not at the last file
    have hge : ¬(e.currentEnvironmentFile + 1 ≥ e.environmentFiles.length) := by omega
    by_cases heff : emode ≠ 3 ∨ e.EnvChangeForward = true
    · right
      refine ⟨by omega, e.currentEnvironmentFile + 1, true, by omega, by omega, ?_, ?_, ?_, ?_⟩
      · simp only [heff, hend, if_true]
      · simp only [heff, hend, if_true]
      · intro hfwd
        have hf : e.EnvChangeForward = true := by
          rcases heff with h | h
          · exact hfwd h
          · exact h
        simp only [nextFile, hf, hend, if_true]
      · have hm0 : emode ≠ 0 := by omega
        rcases heff with h | hf
        · cases hf : e.EnvChangeForward
          · simp [regenerateEnvironment, hrate, hfiles, hc', hge, hm0, hf, h]
          · simp [regenerateEnvironment, hrate, hfiles, hc', hge, hm0, hf]
        · simp [regenerateEnvironment, hrate, hfiles, hc', hge, hm0, hf]
    · have h3 : emode = 3 := by
        by_contra h
        exact heff (Or.inl h)
      have hf : e.EnvChangeForward = false := by
        cases hb : e.EnvChangeForward
        · rfl
        · exact absurd (Or.inr hb) heff
      subst h3
      right
      by_cases hpos : e.currentEnvironmentFile > 0
      · have hneg : ¬(e.currentEnvironmentFile - 1 < 0) := by omega
        refine ⟨by omega, e.currentEnvironmentFile - 1, false, by omega, by omega, ?_, ?_, ?_,
          ?_⟩
        · simp [hf, hpos]
        · simp [hf, hpos]
        · intro _
          simp [nextFile, hf, hpos]
        · simp [regenerateEnvironment, hrate, hfiles, hc', hf, hneg]
      · have hneg : e.currentEnvironmentFile - 1 < 0 := by omega
        refine ⟨by omega, 1, true, by omega, by omega, ?_, ?_, ?_, ?_⟩
        · simp [hf, hpos]
        · simp [hf, hpos]
        · intro _
          simp [nextFile, hf, hpos]
        · simp [regenerateEnvironment, hrate, hfiles, hc', hf, hneg]
  · -- at the last file
    have hge : e.currentEnvironmentFile + 1 ≥ e.environmentFiles.length := by omega
    have hpos : e.currentEnvironmentFile > 0 := by omega
    have hneg : ¬(e.currentEnvironmentFile - 1 < 0) := by omega
    rcases hmode with h | h | h
    · subst h
      left
      refine ⟨rfl, by omega, ?_⟩
      cases hf : e.EnvChangeForward
      · simp [regenerateEnvironment, hrate, hfiles, hc', hge, hf]
      · simp [regenerateEnvironment, hrate, hfiles, hc', hge, hf]
    · subst h
      right
      refine ⟨by omega, 0, true, by omega, by omega, ?_, ?_, ?_, ?_⟩
      · simp [hend]
      · simp [hend]
      · intro hfwd
        simp [nextFile, hfwd (by norm_num), hend]
      · cases hf : e.EnvChangeForward
        · simp [regenerateEnvironment, hrate, hfiles, hc', hge, hf]
        · simp [regenerateEnvironment, hrate, hfiles, hc', hge, hf]
    · subst h
      right
      cases hf : e.EnvChangeForward
      · refine ⟨by omega, e.currentEnvironmentFile - 1, false, by omega, by omega, ?_, ?_, ?_,
          ?_⟩
        · simp [hpos]
        · simp [hpos]
        · intro _
          simp [nextFile, hf, hpos]
        · simp [regenerateEnvironment, hrate, hfiles, hc', hf, hneg]
      · refine ⟨by omega, e.currentEnvironmentFile - 1, false, by omega, by omega, ?_, ?_, ?_,
          ?_⟩
        · simp [hend]
        · simp [hend]
        · intro _
          simp [nextFile, hf, hend]
        · simp [regenerateEnvironment, hrate, hfiles, hc', hge, hf]
          ring_nf

/-- The planes after the reset of the countdown and the load, in the modes 1, 2 and 3 with
two files or more. -/
theorem resetAndLoad_spec {emode : Int} {e : EnvState}
    (hmode : emode = 1 ∨ emode = 2 ∨ emode = 3) (hn : 2 ≤ e.environmentFiles.length)
    (hlo : 0 ≤ e.currentEnvironmentFile)
    (hhi : e.currentEnvironmentFile < e.environmentFiles.length) :
    ∃ nextfile img img2, nextFile emode e = .ok nextfile ∧
      fileAt e.environmentFiles e.currentEnvironmentFile = .ok img ∧
      fileAt e.environmentFiles nextfile = .ok img2 ∧
      resetAndLoad emode e =
        .ok (false,
          { e with
            EnvChangeCounter := e.environmentChangeRate
            environment :=
              storeImage e.gridX e.gridY (rescaled e.gridX e.gridY img.width img.height img)
                e.environment
            environmentlast :=
              storeImage e.gridX e.gridY (rescaled e.gridX e.gridY img.width img.height img)
                e.environmentlast
            environmentnext :=
              storeImage e.gridX e.gridY (rescaled e.gridX e.gridY img.width img.height img2)
                e.environmentnext }) := by
  obtain ⟨nextfile, img, img2, hnf, himg, himg2, hload⟩ :=
    loadEnvironmentFromFile_spec (e := { e with EnvChangeCounter := e.environmentChangeRate })
      hmode hn hlo hhi
  refine ⟨nextfile, img, img2, hnf, himg, himg2, ?_⟩
  unfold resetAndLoad
  rw [hload]

/-- One call of `regenerateEnvironment` in the modes 1, 2 and 3 with two files or more, a
cursor that points to a file and a countdown of at least one: the flag it returns, and the
cursor, the countdown and the direction after it. -/
theorem regenerate_control (emode : Int) (interpolate : Bool) (e : EnvState)
    (hrate : 1 ≤ e.environmentChangeRate) (hmode : emode = 1 ∨ emode = 2 ∨ emode = 3)
    (hn : 2 ≤ e.environmentFiles.length) (hlo : 0 ≤ e.currentEnvironmentFile)
    (hhi : e.currentEnvironmentFile < e.environmentFiles.length)
    (hclo : 1 ≤ e.EnvChangeCounter) :
    ∃ flag e', regenerateEnvironment emode interpolate e = .ok (flag, e') ∧
      e'.environmentFiles = e.environmentFiles ∧
      e'.environmentChangeRate = e.environmentChangeRate ∧
      e'.gridX = e.gridX ∧ e'.gridY = e.gridY ∧
      (1 < e.EnvChangeCounter → flag = false ∧
        e'.currentEnvironmentFile = e.currentEnvironmentFile ∧
        e'.EnvChangeCounter = e.EnvChangeCounter - 1 ∧
        e'.EnvChangeForward = e.EnvChangeForward) ∧
      (e.EnvChangeCounter = 1 →
        (emode = 1 ∧ e.currentEnvironmentFile + 1 = e.environmentFiles.length →
          flag = true) ∧
        (¬(emode = 1 ∧ e.currentEnvironmentFile + 1 = e.environmentFiles.length) →
          flag = false ∧ e'.EnvChangeCounter = e.environmentChangeRate ∧
          e'.currentEnvironmentFile =
            (if emode ≠ 3 ∨ e.EnvChangeForward = true then
              if e.currentEnvironmentFile + 1 < e.environmentFiles.length then
                e.currentEnvironmentFile + 1
              else if emode = 2 then 0
              else e.currentEnvironmentFile - 1
            else if e.currentEnvironmentFile > 0 then e.currentEnvironmentFile - 1 else 1) ∧
          e'.EnvChangeForward =
            (if emode ≠ 3 ∨ e.EnvChangeForward = true then
              if e.currentEnvironmentFile + 1 < e.environmentFiles.length then true
              else if emode = 3 then false else true
            else if e.currentEnvironmentFile > 0 then false else true))) := by
  have hrate0 : e.environmentChangeRate ≠ 0 := by omega
  by_cases hc : 1 < e.EnvChangeCounter
  · have h := regenerate_countdown emode interpolate e hrate0
      (by omega) (by omega) hc
    refine ⟨_, _, h, ?_, ?_, ?_, ?_, ?_, ?_⟩
    · cases interpolate <;> rfl
    · cases interpolate <;> rfl
    · cases interpolate <;> rfl
    · cases interpolate <;> rfl
    · intro _
      refine ⟨rfl, ?_, ?_, ?_⟩ <;> cases interpolate <;> rfl
    · intro h1
      omega
  · rcases regenerate_advance emode interpolate e hrate0 hmode hn hlo hhi
      (by omega) with ⟨h1, hend, hres⟩ | ⟨hnot, nextfile, forward, hnlo, hnhi, hnval, hfval,
        _, hres⟩
    · refine ⟨_, _, hres, rfl, rfl, rfl, rfl, ?_, ?_⟩
      · intro h; exact absurd h hc
      · intro _
        exact ⟨fun _ => rfl, fun h => absurd ⟨h1, hend⟩ h⟩
    · obtain ⟨nf2, img, img2, _, _, _, hload⟩ := resetAndLoad_spec
        (e := { e with
                EnvChangeCounter := e.EnvChangeCounter - 1
                currentEnvironmentFile := nextfile
                EnvChangeForward := forward }) hmode hn hnlo hnhi
      rw [hload] at hres
      refine ⟨_, _, hres, rfl, rfl, rfl, rfl, ?_, ?_⟩
      · intro h; exact absurd h hc
      · intro _
        exact ⟨fun h => absurd h hnot, fun _ => ⟨rfl, rfl, hnval, hfval⟩⟩

/-! ## The environment: runs of calls -/

theorem regenerateTimes_succ {emode : Int} {interpolate : Bool} {k : Nat} {e e1 e2 : EnvState}
    {flags : List Bool} {flag : Bool}
    (h1 : regenerateTimes emode interpolate k e = .ok (flags, e1))
    (h2 : regenerateEnvironment emode interpolate e1 = .ok (flag, e2)) :
    regenerateTimes emode interpolate (k + 1) e = .ok (flags ++ [flag], e2) := by
  simp only [regenerateTimes, h1, h2]

/-- Quotient and remainder of the successor. -/
theorem succ_div_mod (k r : Nat) (hr : 0 < r) :
    (k % r + 1 < r → (k + 1) / r = k / r ∧ (k + 1) % r = k % r + 1) ∧
    (¬(k % r + 1 < r) → (k + 1) / r = k / r + 1 ∧ (k + 1) % r = 0) := by
  have hk := Nat.div_add_mod k r
  have hlt := Nat.mod_lt k hr
  constructor
  · intro h
    have hu := (Nat.div_mod_unique hr (a := k + 1) (b := r) (c := k % r + 1)
      (d := k / r)).2 ⟨by omega, h⟩
    exact ⟨hu.1, hu.2⟩
  · intro h
    have hu := (Nat.div_mod_unique hr (a := k + 1) (b := r) (c := 0)
      (d := k / r + 1)).2 ⟨by rw [Nat.mul_succ]; omega, hr⟩
    exact ⟨hu.1, hu.2⟩

theorem replicate_succ_false (k : Nat) :
    List.replicate k false ++ [false] = List.replicate (k + 1) false := by
  rw [List.replicate_succ']

/-- The once mode: the calls before the last keyframe has had its ticks return no halt, and
after `k` of them the cursor is `k / r` and the countdown `r - k % r`. -/
theorem once_run (interpolate : Bool) (e : EnvState) (n r : Nat) (hn : 2 ≤ n) (hr : 1 ≤ r)
    (hfiles : e.environmentFiles.length = n) (hrate : e.environmentChangeRate = r)
    (hcur : e.currentEnvironmentFile = 0) (hcount : e.EnvChangeCounter = r) :
    ∀ k, k < n * r → ∃ e', regenerateTimes 1 interpolate k e = .ok (List.replicate k false, e') ∧
      e'.environmentFiles = e.environmentFiles ∧ e'.environmentChangeRate = r ∧
      e'.currentEnvironmentFile = ((k / r : Nat) : Int) ∧
      e'.EnvChangeCounter = (r : Int) - ((k % r : Nat) : Int) := by
  intro k
  induction k with
  | zero =>
    intro _
    refine ⟨e, rfl, rfl, hrate, ?_, ?_⟩
    · rw [hcur]; simp
    · rw [hcount]; simp
  | succ k ih =>
    intro hk
    obtain ⟨e1, hrun, hf1, hr1, hc1, hcnt1⟩ := ih (by omega)
    have hmod := Nat.mod_lt k (show 0 < r by omega)
    have hqn : (0 : Int) ≤ ((k / r : Nat) : Int) := Int.natCast_nonneg _
    have hmn : (0 : Int) ≤ ((k % r : Nat) : Int) := Int.natCast_nonneg _
    have hdiv : (k + 1) / r < n := Nat.div_lt_of_lt_mul (by rw [Nat.mul_comm]; exact hk)
    obtain ⟨hs1, hs2⟩ := succ_div_mod k r (by omega)
    obtain ⟨flag, e2, hstep, hf2, hr2, _, _, hgt, heq⟩ :=
      regenerate_control 1 interpolate e1
        (by rw [hr1]; omega) (Or.inl rfl) (by rw [hf1, hfiles]; exact hn)
        (by rw [hc1]; omega)
        (by
          rw [hc1, hf1, hfiles]
          have : k / r ≤ (k + 1) / r := Nat.div_le_div_right (by omega)
          omega)
        (by rw [hcnt1]; omega)
    by_cases hlt : k % r + 1 < r
    · obtain ⟨hflag, hcur2, hcnt2, _⟩ := hgt (by rw [hcnt1]; omega)
      obtain ⟨hq, hm⟩ := hs1 hlt
      refine ⟨e2, ?_, hf2.trans hf1, hr2.trans hr1, ?_, ?_⟩
      · rw [regenerateTimes_succ hrun hstep, hflag, replicate_succ_false]
      · rw [hcur2, hc1, hq]
      · rw [hcnt2, hcnt1, hm]
        omega
    · obtain ⟨hq, hm⟩ := hs2 hlt
      obtain ⟨_, hno⟩ := heq (by rw [hcnt1]; omega)
      obtain ⟨hflag, hcnt2, hcur2, _⟩ := hno (by
        rintro ⟨_, hend⟩
        rw [hc1, hf1, hfiles] at hend
        omega)
      refine ⟨e2, ?_, hf2.trans hf1, hr2.trans hr1, ?_, ?_⟩
      · rw [regenerateTimes_succ hrun hstep, hflag, replicate_succ_false]
      · rw [hcur2, hc1, hq, hf1, hfiles]
        rw [if_pos (Or.inl (by norm_num)), if_pos (by omega)]
        push_cast
        rfl
      · rw [hcnt2, hr1, hm]
        simp

/-- The once mode: the call after them returns the halt. -/
theorem once_halt (interpolate : Bool) (e : EnvState) (n r : Nat) (hn : 2 ≤ n) (hr : 1 ≤ r)
    (hfiles : e.environmentFiles.length = n) (hrate : e.environmentChangeRate = r)
    (hcur : e.currentEnvironmentFile = 0) (hcount : e.EnvChangeCounter = r) :
    ∃ e', regenerateTimes 1 interpolate (n * r) e =
      .ok (List.replicate (n * r - 1) false ++ [true], e') := by
  have hpos : 0 < n * r := Nat.mul_pos (by omega) (by omega)
  obtain ⟨e1, hrun, hf1, hr1, hc1, hcnt1⟩ :=
    once_run interpolate e n r hn hr hfiles hrate hcur hcount (n * r - 1) (by omega)
  obtain ⟨hs1, hs2⟩ := succ_div_mod (n * r - 1) r (by omega)
  have hsucc : n * r - 1 + 1 = n * r := by omega
  have hq : (n * r) / r = n := Nat.mul_div_cancel n (by omega)
  have hm : (n * r) % r = 0 := Nat.mul_mod_left n r
  have hnot : ¬((n * r - 1) % r + 1 < r) := by
    intro h
    have := (hs1 h).2
    rw [hsucc, hm] at this
    omega
  have hq' := (hs2 hnot).1
  rw [hsucc, hq] at hq'
  have hmod := Nat.mod_lt (n * r - 1) (show 0 < r by omega)
  have hqn : (0 : Int) ≤ (((n * r - 1) / r : Nat) : Int) := Int.natCast_nonneg _
  have hmn : (0 : Int) ≤ (((n * r - 1) % r : Nat) : Int) := Int.natCast_nonneg _
  obtain ⟨flag, e2, hstep, _, _, _, _, _, heq⟩ :=
    regenerate_control 1 interpolate e1
      (by rw [hr1]; omega) (Or.inl rfl) (by rw [hf1, hfiles]; exact hn)
      (by rw [hc1]; omega) (by rw [hc1, hf1, hfiles]; omega) (by rw [hcnt1]; omega)
  obtain ⟨hyes, _⟩ := heq (by rw [hcnt1]; omega)
  have hflag := hyes ⟨rfl, by rw [hc1, hf1, hfiles]; omega⟩
  refine ⟨e2, ?_⟩
  have := regenerateTimes_succ hrun hstep
  rw [hsucc, hflag] at this
  exact this

/-- The loop mode: no call returns the halt, and after `k` calls the cursor is
`(k / r) % n` and the countdown `r - k % r`. -/
theorem loop_run (interpolate : Bool) (e : EnvState) (n r : Nat) (hn : 2 ≤ n) (hr : 1 ≤ r)
    (hfiles : e.environmentFiles.length = n) (hrate : e.environmentChangeRate = r)
    (hcur : e.currentEnvironmentFile = 0) (hcount : e.EnvChangeCounter = r) :
    ∀ k, ∃ e', regenerateTimes 2 interpolate k e = .ok (List.replicate k false, e') ∧
      e'.environmentFiles = e.environmentFiles ∧ e'.environmentChangeRate = r ∧
      e'.currentEnvironmentFile = (((k / r) % n : Nat) : Int) ∧
      e'.EnvChangeCounter = (r : Int) - ((k % r : Nat) : Int) := by
  intro k
  induction k with
  | zero =>
    refine ⟨e, rfl, rfl, hrate, ?_, ?_⟩
    · rw [hcur]; simp
    · rw [hcount]; simp
  | succ k ih =>
    obtain ⟨e1, hrun, hf1, hr1, hc1, hcnt1⟩ := ih
    have hmod := Nat.mod_lt k (show 0 < r by omega)
    have hmodn := Nat.mod_lt (k / r) (show 0 < n by omega)
    have hqn : (0 : Int) ≤ (((k / r) % n : Nat) : Int) := Int.natCast_nonneg _
    have hmn : (0 : Int) ≤ ((k % r : Nat) : Int) := Int.natCast_nonneg _
    obtain ⟨hs1, hs2⟩ := succ_div_mod k r (by omega)
    obtain ⟨hn1, hn2⟩ := succ_div_mod (k / r) n (by omega)
    obtain ⟨flag, e2, hstep, hf2, hr2, _, _, hgt, heq⟩ :=
      regenerate_control 2 interpolate e1
        (by rw [hr1]; omega) (Or.inr (Or.inl rfl)) (by rw [hf1, hfiles]; exact hn)
        (by rw [hc1]; omega) (by rw [hc1, hf1, hfiles]; omega) (by rw [hcnt1]; omega)
    by_cases hlt : k % r + 1 < r
    · obtain ⟨hflag, hcur2, hcnt2, _⟩ := hgt (by rw [hcnt1]; omega)
      obtain ⟨hq, hm⟩ := hs1 hlt
      refine ⟨e2, ?_, hf2.trans hf1, hr2.trans hr1, ?_, ?_⟩
      · rw [regenerateTimes_succ hrun hstep, hflag, replicate_succ_false]
      · rw [hcur2, hc1, hq]
      · rw [hcnt2, hcnt1, hm]
        omega
    · obtain ⟨hq, hm⟩ := hs2 hlt
      obtain ⟨_, hno⟩ := heq (by rw [hcnt1]; omega)
      obtain ⟨hflag, hcnt2, hcur2, _⟩ := hno (by rintro ⟨h, _⟩; norm_num at h)
      refine ⟨e2, ?_, hf2.trans hf1, hr2.trans hr1, ?_, ?_⟩
      · rw [regenerateTimes_succ hrun hstep, hflag, replicate_succ_false]
      · rw [hcur2, hc1, hq, hf1, hfiles]
        rw [if_pos (Or.inl (by norm_num))]
        by_cases hw : (k / r) % n + 1 < n
        · rw [if_pos (by omega), (hn1 hw).2]
          push_cast
          rfl
        · rw [if_neg (by omega), if_pos rfl, (hn2 hw).2]
          rfl
      · rw [hcnt2, hr1, hm]
        simp

/-- The triangle wave one keyframe on. -/
theorem triangleWave_succ (n q : Nat) (hn : 2 ≤ n) :
    (q % (2 * (n - 1)) + 1 < n → triangleWave n (q + 1) = triangleWave n q + 1) ∧
    (¬(q % (2 * (n - 1)) + 1 < n) → triangleWave n (q + 1) + 1 = triangleWave n q) ∧
    triangleWave n q < n ∧
    (q % (2 * (n - 1)) = 0 → triangleWave n q = 0) := by
  have hP : 0 < 2 * (n - 1) := by omega
  have hmod := Nat.mod_lt q hP
  obtain ⟨h1, h2⟩ := succ_div_mod q (2 * (n - 1)) hP
  unfold triangleWave
  generalize q % (2 * (n - 1)) = m at *
  by_cases hw : m + 1 < 2 * (n - 1)
  · rw [(h1 hw).2]
    refine ⟨?_, ?_, ?_, ?_⟩
    · intro h
      rw [if_pos (by omega), if_pos (by omega)]
    · intro h
      rw [if_neg (by omega)]
      by_cases hm : m < n
      · rw [if_pos hm]; omega
      · rw [if_neg hm]; omega
    · by_cases hm : m < n
      · rw [if_pos hm]; exact hm
      · rw [if_neg hm]; omega
    · intro h
      rw [if_pos (by omega)]
      exact h
  · rw [(h2 hw).2]
    refine ⟨?_, ?_, ?_, ?_⟩
    · intro h
      omega
    · intro h
      rw [if_pos (by omega)]
      by_cases hm : m < n
      · rw [if_pos hm]; omega
      · rw [if_neg hm]; omega
    · by_cases hm : m < n
      · rw [if_pos hm]; exact hm
      · rw [if_neg hm]; omega
    · intro h
      rw [if_pos (by omega)]
      exact h

/-- The bounce mode: no call returns the halt, and after `k` calls the cursor is the
triangle wave at `k / r` and the countdown `r - k % r`; the direction is forward on the way
up and backward on the way down. -/
theorem bounce_run (interpolate : Bool) (e : EnvState) (n r : Nat) (hn : 2 ≤ n) (hr : 1 ≤ r)
    (hfiles : e.environmentFiles.length = n) (hrate : e.environmentChangeRate = r)
    (hcur : e.currentEnvironmentFile = 0) (hcount : e.EnvChangeCounter = r) :
    ∀ k, ∃ e', regenerateTimes 3 interpolate k e = .ok (List.replicate k false, e') ∧
      e'.environmentFiles = e.environmentFiles ∧ e'.environmentChangeRate = r ∧
      e'.currentEnvironmentFile = ((triangleWave n (k / r) : Nat) : Int) ∧
      e'.EnvChangeCounter = (r : Int) - ((k % r : Nat) : Int) ∧
      (0 < (k / r) % (2 * (n - 1)) → (k / r) % (2 * (n - 1)) < n →
        e'.EnvChangeForward = true) ∧
      (n ≤ (k / r) % (2 * (n - 1)) → e'.EnvChangeForward = false) := by
  have hP : 0 < 2 * (n - 1) := by omega
  intro k
  induction k with
  | zero =>
    refine ⟨e, rfl, rfl, hrate, ?_, ?_, ?_, ?_⟩
    · rw [hcur]
      unfold triangleWave
      rw [Nat.zero_div, Nat.zero_mod, if_pos (by omega)]
      rfl
    · rw [hcount]; simp
    · intro h; simp at h
    · intro h; simp at h; omega
  | succ k ih =>
    obtain ⟨e1, hrun, hf1, hr1, hc1, hcnt1, hup, hdown⟩ := ih
    have hmod := Nat.mod_lt k (show 0 < r by omega)
    have hmn : (0 : Int) ≤ ((k % r : Nat) : Int) := Int.natCast_nonneg _
    obtain ⟨hs1, hs2⟩ := succ_div_mod k r (by omega)
    obtain ⟨ht1, ht2, htlt, ht0⟩ := triangleWave_succ n (k / r) hn
    obtain ⟨hp1, hp2⟩ := succ_div_mod (k / r) (2 * (n - 1)) hP
    have hmP := Nat.mod_lt (k / r) hP
    obtain ⟨flag, e2, hstep, hf2, hr2, _, _, hgt, heq⟩ :=
      regenerate_control 3 interpolate e1
        (by rw [hr1]; omega) (Or.inr (Or.inr rfl)) (by rw [hf1, hfiles]; exact hn)
        (by rw [hc1]; omega) (by rw [hc1, hf1, hfiles]; omega) (by rw [hcnt1]; omega)
    by_cases hlt : k % r + 1 < r
    · obtain ⟨hflag, hcur2, hcnt2, hfwd2⟩ := hgt (by rw [hcnt1]; omega)
      obtain ⟨hq, hm⟩ := hs1 hlt
      refine ⟨e2, ?_, hf2.trans hf1, hr2.trans hr1, ?_, ?_, ?_, ?_⟩
      · rw [regenerateTimes_succ hrun hstep, hflag, replicate_succ_false]
      · rw [hcur2, hc1, hq]
      · rw [hcnt2, hcnt1, hm]
        omega
      · rw [hq, hfwd2]; exact hup
      · rw [hq, hfwd2]; exact hdown
    · obtain ⟨hq, hm⟩ := hs2 hlt
      obtain ⟨_, hno⟩ := heq (by rw [hcnt1]; omega)
      obtain ⟨hflag, hcnt2, hcur2, hfwd2⟩ := hno (by rintro ⟨h, _⟩; norm_num at h)
      rw [hc1, hf1, hfiles] at hcur2 hfwd2
      have hne : ¬((3 : Int) ≠ 3) := by norm_num
      have hne2 : ¬((3 : Int) = 2) := by norm_num
      simp only [hne, hne2, false_or, if_true, if_false] at hcur2 hfwd2
      have htm : triangleWave n (k / r) =
          if (k / r) % (2 * (n - 1)) < n then (k / r) % (2 * (n - 1))
          else 2 * (n - 1) - (k / r) % (2 * (n - 1)) := rfl
      rw [hq]
      generalize (k / r + 1) % (2 * (n - 1)) = m' at *
      generalize triangleWave n (k / r + 1) = t' at *
      generalize (k / r) % (2 * (n - 1)) = m at *
      generalize triangleWave n (k / r) = t at *
      have hdir : e1.EnvChangeForward = true ∨ (e1.EnvChangeForward = false ∧ (m = 0 ∨ n ≤ m)) := by
        cases hfw : e1.EnvChangeForward
        · right
          refine ⟨rfl, ?_⟩
          by_contra hcon
          have := hup (by omega) (by omega)
          rw [hfw] at this
          cases this
        · left; rfl
      have hdir2 : e1.EnvChangeForward = true → m < n := by
        intro hfw
        by_contra hcon
        have := hdown (by omega)
        rw [hfw] at this
        cases this
      refine ⟨e2, ?_, hf2.trans hf1, hr2.trans hr1, ?_, ?_, ?_, ?_⟩
      · rw [regenerateTimes_succ hrun hstep, hflag, replicate_succ_false]
      · rw [hcur2]
        rcases hdir with hfw | ⟨hfw, hm0⟩
        · have := hdir2 hfw
          rw [hfw]
          simp only [if_true]
          split_ifs at htm ⊢ <;> omega
        · rw [hfw]
          simp only [Bool.false_eq_true, if_false]
          split_ifs at htm ⊢ <;> omega
      · rw [hcnt2, hr1, hm]
        simp
      · intro h0 hlt'
        rw [hfwd2]
        rcases hdir with hfw | ⟨hfw, hm0⟩
        · have := hdir2 hfw
          rw [hfw]
          simp only [if_true]
          split_ifs at htm ⊢ <;> first | rfl | (exfalso; omega)
        · rw [hfw]
          simp only [Bool.false_eq_true, if_false]
          split_ifs at htm ⊢ <;> first | rfl | (exfalso; omega)
      · intro hge
        rw [hfwd2]
        rcases hdir with hfw | ⟨hfw, hm0⟩
        · have := hdir2 hfw
          rw [hfw]
          simp only [if_true]
          split_ifs at htm ⊢ <;> first | rfl | (exfalso; omega)
        · rw [hfw]
          simp only [Bool.false_eq_true, if_false]
          split_ifs at htm ⊢ <;> first | rfl | (exfalso; omega)

/-! ## The environment: the planes -/

theorem ratFloor_add_half (v : Nat) : Rat.floor ((1 / 2 : ℚ) + (v : ℚ)) = (v : Int) := by
  have h : ⌊(1 / 2 : ℚ) + (v : ℚ)⌋ = (v : Int) := by
    rw [Int.floor_eq_iff]
    constructor
    · push_cast
      linarith
    · push_cast
      linarith
  exact h

theorem truncate_add_half (v : Nat) : truncate ((1 / 2 : ℚ) + (v : ℚ)) = (v : Int) := by
  unfold truncate
  have h0 : (0 : ℚ) ≤ (1 / 2 : ℚ) + (v : ℚ) := by positivity
  rw [if_pos h0]
  exact ratFloor_add_half v

theorem toUInt8_of_lt {v : Nat} (h : v < 256) : toUInt8 (v : Int) = v := by
  unfold toUInt8
  have : ((v : Int) % 2 ^ 8) = (v : Int) := by
    apply Int.emod_eq_of_lt <;> omega
  rw [this]
  simp

/-- With exact arithmetic and the countdown one below the change rate the interpolated
channel is the channel of the last keyframe. -/
theorem interpolateChannel_last {toFloat toDouble : ℚ → ℚ} (hf : ∀ q, toFloat q = q)
    (hd : ∀ q, toDouble q = q) {r : Int} (hr : 1 ≤ r) {last : Nat} (next : Nat)
    (hl : last < 256) : interpolateChannel toFloat toDouble (r - 1) r last next = last := by
  unfold interpolateChannel
  simp only [hf, hd]
  have hr0 : (r : ℚ) ≠ 0 := by
    have : (1 : ℚ) ≤ (r : ℚ) := by exact_mod_cast hr
    linarith
  have hinv : (((r - 1 + 1 : Int) : ℚ)) / (r : ℚ) = 1 := by
    rw [sub_add_cancel]
    exact div_self hr0
  simp only [hinv]
  have hv : (1 / 2 : ℚ) + (last : ℚ) * 1 + (next : ℚ) * (1 - 1) = (1 / 2 : ℚ) + (last : ℚ) := by
    ring
  rw [hv, truncate_add_half, toUInt8_of_lt hl]

/-- With exact arithmetic the interpolated channel between two equal keyframes is their
channel. -/
theorem interpolateChannel_same {toFloat toDouble : ℚ → ℚ} (hf : ∀ q, toFloat q = q)
    (hd : ∀ q, toDouble q = q) (c r : Int) {v : Nat} (hv : v < 256) :
    interpolateChannel toFloat toDouble c r v v = v := by
  unfold interpolateChannel
  simp only [hf, hd]
  have hval : ∀ x : ℚ, (1 / 2 : ℚ) + (v : ℚ) * x + (v : ℚ) * (1 - x) = (1 / 2 : ℚ) + (v : ℚ) := by
    intro x
    ring
  simp only [hval]
  rw [truncate_add_half, toUInt8_of_lt hv]

theorem planeAs_lt (e : EnvState) (sized file : Int) (i j k : Nat) :
    planeAs e sized file i j k < 256 := by
  unfold planeAs
  cases fileAt e.environmentFiles sized with
  | error x => simp
  | ok first =>
    cases fileAt e.environmentFiles file with
    | error x => simp
    | ok img =>
      simp only
      unfold qRed qGreen qBlue
      split_ifs <;> omega

theorem planeOf_lt (e : EnvState) (file : Int) (i j k : Nat) : planeOf e file i j k < 256 :=
  planeAs_lt e file file i j k

/-- The plane that the loops of `loadEnvironmentFromFile` store for a file, rescaled as the
size of the image of the file `sized` decides. -/
theorem storeImage_planeAs {e : EnvState} {sized file : Int} {first img : QImage}
    (h1 : fileAt e.environmentFiles sized = .ok first)
    (h2 : fileAt e.environmentFiles file = .ok img) (plane : Nat → Nat → Nat → Nat) :
    SamePlane e.gridX e.gridY
      (storeImage e.gridX e.gridY (rescaled e.gridX e.gridY first.width first.height img)
        plane)
      (planeAs e sized file) := by
  intro i j k hi hj hk
  unfold storeImage planeAs
  rw [h1, h2, if_pos ⟨hi, hj⟩]
  simp only
  have hk' : k = 0 ∨ k = 1 ∨ k = 2 := by omega
  rcases hk' with h0 | h1 | h2
  · subst h0; simp
  · subst h1; simp
  · subst h2; simp

/-- The plane that the loops of `loadEnvironmentFromFile` store for the current file is the
plane of the file. -/
theorem storeImage_plane {e : EnvState} {file : Int} {img : QImage}
    (h : fileAt e.environmentFiles file = .ok img) (plane : Nat → Nat → Nat → Nat) :
    SamePlane e.gridX e.gridY
      (storeImage e.gridX e.gridY (rescaled e.gridX e.gridY img.width img.height img) plane)
      (planeOf e file) :=
  storeImage_planeAs h h plane

theorem fileAt_mem {files : List QImage} {i : Int} {img : QImage}
    (h : fileAt files i = .ok img) : img ∈ files := by
  unfold fileAt at h
  split_ifs at h
  cases hg : files[i.toNat]? with
  | none => rw [hg] at h; cases h
  | some v =>
    rw [hg] at h
    cases h
    exact List.mem_iff_getElem?.2 ⟨_, hg⟩

/-- When the images are all too small or none is, a file gives the same plane as the next
keyframe and as the current one. -/
theorem planeAs_agree {e : EnvState} (hs : SizesAgree e) (sized file : Int)
    (h1 : 0 ≤ sized) (h2 : sized < e.environmentFiles.length) :
    planeAs e sized file = planeOf e file := by
  obtain ⟨first, hfirst⟩ := fileAt_ok h1 h2
  unfold planeOf planeAs
  rw [hfirst]
  cases himg : fileAt e.environmentFiles file with
  | error x => rfl
  | ok img =>
    have hiff := hs first (fileAt_mem hfirst) img (fileAt_mem himg)
    have hres : rescaled e.gridX e.gridY first.width first.height img =
        rescaled e.gridX e.gridY img.width img.height img := by
      unfold rescaled
      by_cases ht : first.width < e.gridX ∨ first.height < e.gridY
      · rw [if_pos ht, if_pos (hiff.1 ht)]
      · rw [if_neg ht, if_neg (fun h => ht (hiff.2 h))]
    simp only [hres]

theorem SamePlane.symm_plane {gridX gridY : Nat} {a b : Nat → Nat → Nat → Nat}
    (h : SamePlane gridX gridY a b) : SamePlane gridX gridY b a :=
  fun i j k hi hj hk => (h i j k hi hj hk).symm

theorem SamePlane.trans_plane {gridX gridY : Nat} {a b c : Nat → Nat → Nat → Nat}
    (h1 : SamePlane gridX gridY a b) (h2 : SamePlane gridX gridY b c) :
    SamePlane gridX gridY a c :=
  fun i j k hi hj hk => (h1 i j k hi hj hk).trans (h2 i j k hi hj hk)

/-- The state after `loadEnvironmentFromFile`, called with the countdown at the change rate,
satisfies the invariant of the run. -/
theorem load_inv {emode : Int} {e e' : EnvState}
    (hmode : emode = 1 ∨ emode = 2 ∨ emode = 3) (hn : 2 ≤ e.environmentFiles.length)
    (hlo : 0 ≤ e.currentEnvironmentFile)
    (hhi : e.currentEnvironmentFile < e.environmentFiles.length)
    (hrate : 1 ≤ e.environmentChangeRate) (hcount : e.EnvChangeCounter = e.environmentChangeRate)
    (hfwd : emode ≠ 3 → e.EnvChangeForward = true) (hexact : ExactArithmetic e)
    (h : loadEnvironmentFromFile emode e = .ok e') :
    EnvInv emode e' ∧ e'.environmentFiles = e.environmentFiles ∧
      e'.environmentChangeRate = e.environmentChangeRate ∧
      e'.gridX = e.gridX ∧ e'.gridY = e.gridY ∧
      SamePlane e.gridX e.gridY e'.environment (planeOf e e.currentEnvironmentFile) := by
  obtain ⟨nextfile, img, img2, hnf, himg, himg2, hload⟩ :=
    loadEnvironmentFromFile_spec hmode hn hlo hhi
  rw [hload] at h
  have h' := Except.ok.inj h
  subst h'
  refine ⟨?_, rfl, rfl, rfl, rfl, storeImage_plane himg _⟩
  refine
    { cursor_lo := hlo, cursor_hi := hhi, counter_lo := ?_, counter_hi := ?_, forward := hfwd,
      last_eq := storeImage_plane (e := e) himg _, next_eq := ?_, exact := hexact,
      current_eq := ?_ }
  · show 1 ≤ e.EnvChangeCounter
    omega
  · show e.EnvChangeCounter ≤ e.environmentChangeRate
    omega
  · intro nf' hnf'
    have hsame : nextFile emode e = .ok nf' := hnf'
    rw [hnf] at hsame
    have := Except.ok.inj hsame
    subst this
    exact storeImage_planeAs (e := e) himg himg2 _
  · show SamePlane e.gridX e.gridY (storeImage e.gridX e.gridY _ e.environment)
      (if e.EnvChangeCounter = e.environmentChangeRate then
        storeImage e.gridX e.gridY _ e.environmentlast
       else _)
    rw [if_pos hcount]
    exact (storeImage_plane (e := e) himg _).trans_plane
      (storeImage_plane (e := e) himg _).symm_plane

/-- One call with interpolation that does not return the halt keeps the invariant of the
run. It also gives the current plane after the call: the plane of the last keyframe when the
countdown stood at the change rate and, when the images are all too small or none is, the
plane held as next keyframe when the countdown stood at one. -/
theorem regenerate_inv {emode : Int} {e e' : EnvState} {flag : Bool}
    (hmode : emode = 1 ∨ emode = 2 ∨ emode = 3) (hn : 2 ≤ e.environmentFiles.length)
    (hrate : 2 ≤ e.environmentChangeRate) (hinv : EnvInv emode e)
    (h : regenerateEnvironment emode true e = .ok (flag, e')) :
    e'.environmentFiles = e.environmentFiles ∧
    e'.environmentChangeRate = e.environmentChangeRate ∧
    e'.gridX = e.gridX ∧ e'.gridY = e.gridY ∧
    (flag = false → EnvInv emode e') ∧
    (e.EnvChangeCounter = e.environmentChangeRate →
      SamePlane e'.gridX e'.gridY e'.environment e'.environmentlast) ∧
    (e.EnvChangeCounter = 1 → SizesAgree e →
      SamePlane e'.gridX e'.gridY e'.environment e.environmentnext) := by
  have hrate0 : e.environmentChangeRate ≠ 0 := by omega
  have hclo := hinv.counter_lo
  have hchi := hinv.counter_hi
  by_cases hc : 1 < e.EnvChangeCounter
  · -- a tick between two keyframes
    have hstep := regenerate_countdown emode true e hrate0
      (by omega) (by omega) hc
    rw [hstep] at h
    simp only [if_true, Except.ok.injEq, Prod.mk.injEq] at h
    obtain ⟨hflag, he'⟩ := h
    subst he'
    refine ⟨rfl, rfl, rfl, rfl, ?_, ?_, ?_⟩
    · intro _
      refine
        { cursor_lo := hinv.cursor_lo, cursor_hi := hinv.cursor_hi, counter_lo := ?_,
          counter_hi := ?_, forward := hinv.forward, last_eq := hinv.last_eq,
          next_eq := ?_, exact := hinv.exact, current_eq := ?_ }
      · show 1 ≤ e.EnvChangeCounter - 1
        omega
      · show e.EnvChangeCounter - 1 ≤ e.environmentChangeRate
        omega
      · intro nf' hnf'
        exact hinv.next_eq nf' hnf'
      · show SamePlane e.gridX e.gridY _
          (if e.EnvChangeCounter - 1 = e.environmentChangeRate then e.environmentlast else _)
        rw [if_neg (by omega)]
        intro i j k hi hj hk
        simp only [interpolatePlane]
        rw [if_pos ⟨hi, hj, hk⟩, if_pos ⟨hi, hj, hk⟩]
    · intro hfull i j k hi hj hk
      show interpolatePlane _ i j k = e.environmentlast i j k
      simp only [interpolatePlane]
      rw [if_pos ⟨hi, hj, hk⟩, hfull]
      apply interpolateChannel_last (fun q => (hinv.exact q).1) (fun q => (hinv.exact q).2)
        (by omega)
      rw [hinv.last_eq i j k hi hj hk]
      exact planeOf_lt _ _ _ _ _
    · intro h1
      omega
  · -- the tick that brings the countdown to zero
    have hc1 : e.EnvChangeCounter = 1 := by omega
    have hne : e.EnvChangeCounter ≠ e.environmentChangeRate := by omega
    have hcur := hinv.current_eq
    rw [if_neg hne] at hcur
    rcases regenerate_advance emode true e hrate0 hmode hn hinv.cursor_lo
      hinv.cursor_hi (by omega) with ⟨h1, hend, hres⟩ | ⟨hnot, nextfile, forward, hnlo, hnhi,
        hnval, hfval, hnext, hres⟩
    · -- the once mode at the last file: the halt, and the planes stay
      rw [hres] at h
      simp only [Except.ok.injEq, Prod.mk.injEq] at h
      obtain ⟨hflag, he'⟩ := h
      subst he'
      refine ⟨rfl, rfl, rfl, rfl, fun hf => ?_, fun hfull => absurd hfull hne, fun _ _ => ?_⟩
      · rw [← hflag] at hf
        cases hf
      · show SamePlane e.gridX e.gridY e.environment e.environmentnext
        have hfw := hinv.forward (by omega)
        have hnf : nextFile emode e = .ok e.currentEnvironmentFile := by
          subst h1
          simp only [nextFile, hfw, if_true]
          rw [if_neg (by omega)]
          simp
        have hnx := hinv.next_eq _ hnf
        intro i j k hi hj hk
        rw [hcur i j k hi hj hk]
        simp only [interpolatePlane]
        rw [if_pos ⟨hi, hj, hk⟩, hnx i j k hi hj hk, hinv.last_eq i j k hi hj hk]
        exact interpolateChannel_same (fun q => (hinv.exact q).1) (fun q => (hinv.exact q).2)
          _ _ (planeOf_lt _ _ _ _ _)
    · -- the cursor moves on and the planes are loaded
      have hfwd' : emode ≠ 3 → forward = true := by
        intro h3
        rw [hfval, if_pos (Or.inl h3)]
        split_ifs <;> rfl
      have hnfe := hnext hinv.forward
      rw [hres] at h
      unfold resetAndLoad at h
      cases hl : loadEnvironmentFromFile emode
          { e with
            EnvChangeCounter := e.environmentChangeRate
            currentEnvironmentFile := nextfile
            EnvChangeForward := forward } with
      | error x =>
        have h2 : (match loadEnvironmentFromFile emode
            { e with
              EnvChangeCounter := e.environmentChangeRate
              currentEnvironmentFile := nextfile
              EnvChangeForward := forward } with
          | .error x => (.error x : Except Fault (Bool × EnvState))
          | .ok e' => .ok (false, e')) = .ok (flag, e') := h
        rw [hl] at h2
        cases h2
      | ok e2 =>
        have h2 : (match loadEnvironmentFromFile emode
            { e with
              EnvChangeCounter := e.environmentChangeRate
              currentEnvironmentFile := nextfile
              EnvChangeForward := forward } with
          | .error x => (.error x : Except Fault (Bool × EnvState))
          | .ok e' => .ok (false, e')) = .ok (flag, e') := h
        rw [hl] at h2
        simp only [Except.ok.injEq, Prod.mk.injEq] at h2
        obtain ⟨hflag, he'⟩ := h2
        subst he'
        obtain ⟨hinv2, hf2, hr2, hgx, hgy, hplane⟩ :=
          load_inv (e := { e with
            EnvChangeCounter := e.environmentChangeRate
            currentEnvironmentFile := nextfile
            EnvChangeForward := forward }) hmode hn hnlo hnhi
            (by show 1 ≤ e.environmentChangeRate; omega) rfl hfwd' hinv.exact hl
        refine ⟨hf2, hr2, hgx, hgy, fun _ => hinv2, fun hfull => absurd hfull hne,
          fun _ hsz => ?_⟩
        rw [hgx, hgy]
        have hnx := hinv.next_eq _ hnfe
        rw [planeAs_agree hsz _ _ hinv.cursor_lo hinv.cursor_hi] at hnx
        exact hplane.trans_plane hnx.symm_plane

theorem regenerateTimes_succ_ok {emode : Int} {interpolate : Bool} {k : Nat}
    {e e2 : EnvState} {flags : List Bool}
    (h : regenerateTimes emode interpolate (k + 1) e = .ok (flags, e2)) :
    ∃ flags0 e1 flag, regenerateTimes emode interpolate k e = .ok (flags0, e1) ∧
      regenerateEnvironment emode interpolate e1 = .ok (flag, e2) ∧
      flags = flags0 ++ [flag] := by
  simp only [regenerateTimes] at h
  cases h1 : regenerateTimes emode interpolate k e with
  | error x => rw [h1] at h; cases h
  | ok p =>
    obtain ⟨flags0, e1⟩ := p
    rw [h1] at h
    simp only at h
    cases h2 : regenerateEnvironment emode interpolate e1 with
    | error x => rw [h2] at h; cases h
    | ok p2 =>
      obtain ⟨flag, e3⟩ := p2
      rw [h2] at h
      simp only [Except.ok.injEq, Prod.mk.injEq] at h
      obtain ⟨hf, he⟩ := h
      subst he
      exact ⟨flags0, e1, flag, rfl, h2, hf.symm⟩

/-- The invariant of the run holds after any number of calls with interpolation none of
which has returned the halt. -/
theorem run_inv {emode : Int} {e1 : EnvState} (hmode : emode = 1 ∨ emode = 2 ∨ emode = 3)
    (hn : 2 ≤ e1.environmentFiles.length) (hrate : 2 ≤ e1.environmentChangeRate)
    (hinv : EnvInv emode e1) :
    ∀ (k : Nat) (flags : List Bool) (e : EnvState),
      regenerateTimes emode true k e1 = .ok (flags, e) → (∀ b ∈ flags, b = false) →
      EnvInv emode e ∧ e.environmentFiles = e1.environmentFiles ∧
        e.environmentChangeRate = e1.environmentChangeRate ∧
        e.gridX = e1.gridX ∧ e.gridY = e1.gridY := by
  intro k
  induction k with
  | zero =>
    intro flags e h _
    simp only [regenerateTimes, Except.ok.injEq, Prod.mk.injEq] at h
    obtain ⟨_, he⟩ := h
    subst he
    exact ⟨hinv, rfl, rfl, rfl, rfl⟩
  | succ k ih =>
    intro flags e h hflags
    obtain ⟨flags0, e0, flag, hrun, hstep, hfl⟩ := regenerateTimes_succ_ok h
    subst hfl
    obtain ⟨hinv0, hf0, hr0, hx0, hy0⟩ := ih flags0 e0 hrun
      (fun b hb => hflags b (List.mem_append_left _ hb))
    obtain ⟨hf, hr, hx, hy, hkeep, _, _⟩ := regenerate_inv hmode (by rw [hf0]; exact hn)
      (by rw [hr0]; exact hrate) hinv0 hstep
    exact ⟨hkeep (hflags flag (by simp)), hf.trans hf0, hr.trans hr0, hx.trans hx0,
      hy.trans hy0⟩

/-! ## Claims C15 to C18 -/

/-- C15. Once mode, from the state after setupRun (countdown = change rate, direction
forward) with the cursor at the first of n >= 2 keyframes and a change rate r >= 1: the
calls of regenerateEnvironment before call number n*r return false, and call number n*r
returns true, the halt. For n = 2 and r = 5 that is the tick 10. -/
theorem C15_once_halts_after_all_keyframes (interpolate : Bool) (e : EnvState) (n r : Nat)
    (hn : 2 ≤ n) (hr : 1 ≤ r) (hfiles : e.environmentFiles.length = n)
    (hrate : e.environmentChangeRate = r) (hcur : e.currentEnvironmentFile = 0) :
    (∀ k, k < n * r → ∃ e',
      regenerateTimes 1 interpolate k (setupEnvironment e) =
        .ok (List.replicate k false, e')) ∧
    ∃ e', regenerateTimes 1 interpolate (n * r) (setupEnvironment e) =
      .ok (List.replicate (n * r - 1) false ++ [true], e') := by
  constructor
  · intro k hk
    obtain ⟨e', h, _⟩ := once_run interpolate (setupEnvironment e) n r hn hr hfiles hrate hcur
      hrate k hk
    exact ⟨e', h⟩
  · exact once_halt interpolate (setupEnvironment e) n r hn hr hfiles hrate hcur hrate

/-- Witness for C15: two keyframes and the change rate 5; the halt comes with the tenth
call. -/
theorem C15_once_halts_after_all_keyframes_witness :
    (keyframes 2 5).environmentFiles.length = 2 ∧
    (keyframes 2 5).environmentChangeRate = ((5 : Nat) : Int) ∧
    (keyframes 2 5).currentEnvironmentFile = 0 ∧
    List.replicate (2 * 5 - 1) false ++ [true] =
      [false, false, false, false, false, false, false, false, false, true] ∧
    ∃ e', regenerateTimes 1 true (2 * 5) (setupEnvironment (keyframes 2 5)) =
      .ok (List.replicate (2 * 5 - 1) false ++ [true], e') :=
  ⟨by decide, by decide, by decide, by decide,
   (C15_once_halts_after_all_keyframes true (keyframes 2 5) 2 5 (by decide) (by decide)
     (by decide) (by decide) (by decide)).2⟩

/-- C16. Bounce mode, from the state after setupRun with the cursor at the first of n >= 2
keyframes and a change rate r >= 1: no call returns the halt, and after k calls the cursor is
the triangle wave 0, 1, ..., n-1, n-2, ..., 1, 0, 1, ... at k / r, so that every value is
held for r ticks and the next value is one more or one less. For three keyframes and the
change rate 2 the cursor before each of the first twelve ticks is
0, 0, 1, 1, 2, 2, 1, 1, 0, 0, 1, 1. -/
theorem C16_bounce_cursor_is_triangle_wave (interpolate : Bool) (e : EnvState) (n r : Nat)
    (hn : 2 ≤ n) (hr : 1 ≤ r) (hfiles : e.environmentFiles.length = n)
    (hrate : e.environmentChangeRate = r) (hcur : e.currentEnvironmentFile = 0) :
    (∀ k, ∃ e',
      regenerateTimes 3 interpolate k (setupEnvironment e) =
        .ok (List.replicate k false, e') ∧
      e'.currentEnvironmentFile = ((triangleWave n (k / r) : Nat) : Int)) ∧
    triangleWave n 0 = 0 ∧
    (∀ q, triangleWave n q < n ∧
      (triangleWave n (q + 1) = triangleWave n q + 1 ∨
        triangleWave n (q + 1) + 1 = triangleWave n q)) ∧
    (∀ q, q < n → triangleWave n q = q) ∧
    ((List.range 12).map fun k => triangleWave 3 (k / 2)) =
      [0, 0, 1, 1, 2, 2, 1, 1, 0, 0, 1, 1] := by
  refine ⟨?_, ?_, ?_, ?_, by decide⟩
  · intro k
    obtain ⟨e', h, _, _, hc, _⟩ :=
      bounce_run interpolate (setupEnvironment e) n r hn hr hfiles hrate hcur hrate k
    exact ⟨e', h, hc⟩
  · exact (triangleWave_succ n 0 hn).2.2.2 (Nat.zero_mod _)
  · intro q
    obtain ⟨h1, h2, h3, _⟩ := triangleWave_succ n q hn
    refine ⟨h3, ?_⟩
    by_cases hw : q % (2 * (n - 1)) + 1 < n
    · exact Or.inl (h1 hw)
    · exact Or.inr (h2 hw)
  · intro q hq
    unfold triangleWave
    rw [Nat.mod_eq_of_lt (by omega), if_pos hq]

/-- Witness for C16: three keyframes and the change rate 2. -/
theorem C16_bounce_cursor_is_triangle_wave_witness :
    (keyframes 3 2).environmentFiles.length = 3 ∧
    (keyframes 3 2).environmentChangeRate = ((2 : Nat) : Int) ∧
    (keyframes 3 2).currentEnvironmentFile = 0 ∧
    ∀ k, ∃ e',
      regenerateTimes 3 true k (setupEnvironment (keyframes 3 2)) =
        .ok (List.replicate k false, e') ∧
      e'.currentEnvironmentFile = ((triangleWave 3 (k / 2) : Nat) : Int) :=
  ⟨by decide, by decide, by decide,
   (C16_bounce_cursor_is_triangle_wave true (keyframes 3 2) 3 2 (by decide) (by decide)
     (by decide) (by decide) (by decide)).1⟩

/-- C17. Loop mode, from the cursor at the first of n >= 2 keyframes and the countdown at
the change rate r >= 1: no call of regenerateEnvironment returns the halt, after every call
the cursor lies in 0..n-1, and after j*r calls it is j mod n. -/
theorem C17_loop_cursor_wraps (interpolate : Bool) (e : EnvState) (n r : Nat)
    (hn : 2 ≤ n) (hr : 1 ≤ r) (hfiles : e.environmentFiles.length = n)
    (hrate : e.environmentChangeRate = r) (hcur : e.currentEnvironmentFile = 0)
    (hcount : e.EnvChangeCounter = r) :
    ∀ k, ∃ e', regenerateTimes 2 interpolate k e = .ok (List.replicate k false, e') ∧
      0 ≤ e'.currentEnvironmentFile ∧ e'.currentEnvironmentFile < n ∧
      e'.currentEnvironmentFile = (((k / r) % n : Nat) : Int) ∧
      ∀ j, k = j * r → e'.currentEnvironmentFile = ((j % n : Nat) : Int) := by
  intro k
  obtain ⟨e', h, _, _, hc, _⟩ := loop_run interpolate e n r hn hr hfiles hrate hcur hcount k
  have hlt := Nat.mod_lt (k / r) (show 0 < n by omega)
  refine ⟨e', h, ?_, ?_, hc, ?_⟩
  · rw [hc]; exact Int.natCast_nonneg _
  · rw [hc]; exact_mod_cast hlt
  · intro j hj
    rw [hc, hj, Nat.mul_div_cancel j (by omega)]

/-- Witness for C17: three keyframes and the change rate 2, from the state after
setupRun. -/
theorem C17_loop_cursor_wraps_witness :
    (setupEnvironment (keyframes 3 2)).environmentFiles.length = 3 ∧
    (setupEnvironment (keyframes 3 2)).environmentChangeRate = ((2 : Nat) : Int) ∧
    (setupEnvironment (keyframes 3 2)).currentEnvironmentFile = 0 ∧
    (setupEnvironment (keyframes 3 2)).EnvChangeCounter = ((2 : Nat) : Int) ∧
    ∀ k, ∃ e',
      regenerateTimes 2 false k (setupEnvironment (keyframes 3 2)) =
        .ok (List.replicate k false, e') ∧
      0 ≤ e'.currentEnvironmentFile ∧ e'.currentEnvironmentFile < ((3 : Nat) : Int) ∧
      e'.currentEnvironmentFile = (((k / 2) % 3 : Nat) : Int) ∧
      ∀ j, k = j * 2 → e'.currentEnvironmentFile = ((j % 3 : Nat) : Int) :=
  ⟨by decide, by decide, by decide, by decide,
   C17_loop_cursor_wraps false (setupEnvironment (keyframes 3 2)) 3 2 (by decide) (by decide)
     (by decide) (by decide) (by decide) (by decide)⟩

/-- The keyframes of the example have the size of the grid. -/
theorem keyframes_sizesAgree (n : Nat) (r : Int) : SizesAgree (keyframes n r) := by
  intro a ha b hb
  have hsize : ∀ c ∈ (keyframes n r).environmentFiles, c.width = 2 ∧ c.height = 1 := by
    intro c hc
    simp only [keyframes, List.mem_map] at hc
    obtain ⟨f, _, rfl⟩ := hc
    exact ⟨rfl, rfl⟩
  obtain ⟨ha1, ha2⟩ := hsize a ha
  obtain ⟨hb1, hb2⟩ := hsize b hb
  rw [ha1, ha2, hb1, hb2]

/-- C18. With the arithmetic of the interpolation taken as exact, interpolation on, a mode
among once, loop and bounce, two keyframes or more and a change rate of at least 2: in a run
that starts with the planes loaded in the state after setupRun, and in which no call has
returned the halt so far, the next call of regenerateEnvironment returns; if the countdown
stood at the change rate before it, every channel of the current plane is then that of the
plane of the last keyframe; if the countdown stood at one, so that the call brings it to
zero, and the images of the keyframes are all too small for the grid or none is, every
channel of the current plane is then that of the plane that was held as the next keyframe
before the call (exactly, hence within 1). The last part is a run with a keyframe that is
too small followed by one that is not: the plane held as next has the red 200 in the cell
`(1, 0)`, where the plane that the call at the countdown one makes current has the red 0,
since line 309 rescales the next image by the size of the current one. -/
theorem C18_interpolation_endpoints (emode : Int) (e0 e1 e : EnvState) (k : Nat)
    (flags : List Bool) (hmode : emode = 1 ∨ emode = 2 ∨ emode = 3)
    (hn : 2 ≤ e0.environmentFiles.length) (hrate : 2 ≤ e0.environmentChangeRate)
    (hlo : 0 ≤ e0.currentEnvironmentFile)
    (hhi : e0.currentEnvironmentFile < e0.environmentFiles.length)
    (hexact : ExactArithmetic e0)
    (hstart : loadEnvironmentFromFile emode (setupEnvironment e0) = .ok e1)
    (hrun : regenerateTimes emode true k e1 = .ok (flags, e))
    (hflags : ∀ b ∈ flags, b = false) :
    (∃ flag e', regenerateEnvironment emode true e = .ok (flag, e') ∧
      (e.EnvChangeCounter = e.environmentChangeRate →
        SamePlane e'.gridX e'.gridY e'.environment e'.environmentlast) ∧
      (e.EnvChangeCounter = 1 → SizesAgree e0 →
        SamePlane e'.gridX e'.gridY e'.environment e.environmentnext ∧
        ∀ i j c, i < e'.gridX → j < e'.gridY → c < 3 →
          ((e'.environment i j c : Int) - (e.environmentnext i j c : Int)).natAbs ≤ 1)) ∧
    ((resultOr (regenerateTimes 2 true 1 (mixedLoaded 2))
        ([], mixedLoaded 2)).2.EnvChangeCounter = 1 ∧
      (resultOr (regenerateTimes 2 true 1 (mixedLoaded 2))
        ([], mixedLoaded 2)).2.environmentnext 1 0 0 = 200 ∧
      (resultOr (regenerateTimes 2 true 2 (mixedLoaded 2))
        ([], mixedLoaded 2)).2.environment 1 0 0 = 0) := by
  refine ⟨?_, by decide, by decide, by decide⟩
  obtain ⟨hinv1, hf1, hr1, hx1, hy1, _⟩ :=
    load_inv (e := setupEnvironment e0) hmode hn hlo hhi
      (by show 1 ≤ e0.environmentChangeRate; omega) rfl (fun _ => rfl) hexact hstart
  have hn1 : 2 ≤ e1.environmentFiles.length := by rw [hf1]; exact hn
  have hrate1 : 2 ≤ e1.environmentChangeRate := by rw [hr1]; exact hrate
  obtain ⟨hinv, hf, hr, hx, hy⟩ := run_inv hmode hn1 hrate1 hinv1 k flags e hrun hflags
  have hne : 2 ≤ e.environmentFiles.length := by rw [hf]; exact hn1
  have hre : 2 ≤ e.environmentChangeRate := by rw [hr]; exact hrate1
  obtain ⟨flag, e', hstep, _⟩ := regenerate_control emode true e
    (by omega) hmode hne hinv.cursor_lo hinv.cursor_hi hinv.counter_lo
  obtain ⟨_, _, _, _, _, hfull, hzero⟩ := regenerate_inv hmode hne hre hinv hstep
  have hsz : SizesAgree e0 → SizesAgree e := by
    intro h0
    unfold SizesAgree
    rw [hf, hf1, hx, hx1, hy, hy1]
    exact h0
  refine ⟨flag, e', hstep, hfull, fun h1 h0 => ⟨hzero h1 (hsz h0), ?_⟩⟩
  intro i j c hi hj hc
  rw [hzero h1 (hsz h0) i j c hi hj hc]
  simp

/-- Witness for C18: three keyframes and the change rate 4 in the loop mode. Right after
the load the countdown stands at the change rate, and the call leaves the plane of the last
keyframe as the current plane; after three calls the countdown stands at one, and the next
call leaves the plane that was held as the next keyframe as the current plane. -/
theorem C18_interpolation_endpoints_witness :
    (2 : Int) ≤ (keyframes 3 4).environmentChangeRate ∧
    (loadedKeyframes 2 3 4).EnvChangeCounter = (loadedKeyframes 2 3 4).environmentChangeRate ∧
    (∃ flag e', regenerateEnvironment 2 true (loadedKeyframes 2 3 4) = .ok (flag, e') ∧
      SamePlane e'.gridX e'.gridY e'.environment e'.environmentlast) ∧
    (resultOr (regenerateTimes 2 true 3 (loadedKeyframes 2 3 4))
      ([], keyframes 3 4)).2.EnvChangeCounter = 1 ∧
    ∃ flag e',
      regenerateEnvironment 2 true
        (resultOr (regenerateTimes 2 true 3 (loadedKeyframes 2 3 4)) ([], keyframes 3 4)).2 =
        .ok (flag, e') ∧
      SamePlane e'.gridX e'.gridY e'.environment
        (resultOr (regenerateTimes 2 true 3 (loadedKeyframes 2 3 4))
          ([], keyframes 3 4)).2.environmentnext := by
  refine ⟨by decide, by decide, ?_, by decide, ?_⟩
  · obtain ⟨⟨flag, e', hcall, hfull, _⟩, _⟩ :=
      C18_interpolation_endpoints 2 (keyframes 3 4) (loadedKeyframes 2 3 4)
        (loadedKeyframes 2 3 4) 0 [] (Or.inr (Or.inl rfl)) (by decide) (by decide)
        (by decide) (by decide) (fun _ => ⟨rfl, rfl⟩)
        (eq_ok_of_succeeds (keyframes 3 4) (by decide)) rfl (by decide)
    exact ⟨flag, e', hcall, hfull (by decide)⟩
  · obtain ⟨⟨flag, e', hcall, _, hzero⟩, _⟩ :=
      C18_interpolation_endpoints 2 (keyframes 3 4) (loadedKeyframes 2 3 4)
        (resultOr (regenerateTimes 2 true 3 (loadedKeyframes 2 3 4)) ([], keyframes 3 4)).2 3
        (resultOr (regenerateTimes 2 true 3 (loadedKeyframes 2 3 4)) ([], keyframes 3 4)).1
        (Or.inr (Or.inl rfl)) (by decide) (by decide) (by decide) (by decide)
        (fun _ => ⟨rfl, rfl⟩)
        (eq_ok_of_succeeds (keyframes 3 4) (by decide))
        (eq_ok_of_succeeds ([], keyframes 3 4) (by decide)) (by decide)
    exact ⟨flag, e', hcall, (hzero (by decide) (keyframes_sizesAgree 3 4)).1⟩

/-! ## The strips of the workers -/

theorem strip_bounds (i gridX P : Nat) : i * gridX / P ≤ (i + 1) * gridX / P :=
  Nat.div_le_div_right (Nat.mul_le_mul_right gridX (Nat.le_succ i))

theorem mem_stripColumns (i gridX P c : Nat) :
    c ∈ stripColumns (firstx i gridX P) (lastx i gridX P) ↔
      i * gridX / P ≤ c ∧ c < (i + 1) * gridX / P := by
  have hab := strip_bounds i gridX P
  unfold stripColumns firstx lastx
  generalize i * gridX / P = a at *
  generalize (i + 1) * gridX / P = b at *
  simp only [List.mem_map, List.mem_range]
  constructor
  · rintro ⟨d, hd, hc⟩
    omega
  · rintro ⟨h1, h2⟩
    exact ⟨c - a, by omega, by omega⟩

theorem stripColumns_length (i gridX P : Nat) :
    (stripColumns (firstx i gridX P) (lastx i gridX P)).length =
      (i + 1) * gridX / P - i * gridX / P := by
  have hab := strip_bounds i gridX P
  unfold stripColumns firstx lastx
  generalize i * gridX / P = a at *
  generalize (i + 1) * gridX / P = b at *
  rw [List.length_map, List.length_range]
  omega

/-- The column `c` belongs to the strip of the worker `i` exactly if
`i * gridX < (c + 1) * P <= (i + 1) * gridX`. -/
theorem mem_strip_iff (i gridX P c : Nat) (hP : 0 < P) :
    c ∈ stripColumns (firstx i gridX P) (lastx i gridX P) ↔
      i * gridX < (c + 1) * P ∧ (c + 1) * P ≤ (i + 1) * gridX := by
  rw [mem_stripColumns]
  have h1 : i * gridX / P ≤ c ↔ i * gridX < (c + 1) * P := by
    rw [← Nat.lt_succ_iff, Nat.div_lt_iff_lt_mul hP]
  have h2 : c < (i + 1) * gridX / P ↔ (c + 1) * P ≤ (i + 1) * gridX := by
    rw [← Nat.succ_le_iff, Nat.le_div_iff_mul_le hP]
  rw [h1, h2]

/-- Every column of the grid lies in the strip of exactly one worker. -/
theorem strip_unique (gridX P c : Nat) (hg : 1 ≤ gridX) (hP : 0 < P) (hc : c < gridX) :
    ∃ i, i < P ∧ c ∈ stripColumns (firstx i gridX P) (lastx i gridX P) ∧
      ∀ j, c ∈ stripColumns (firstx j gridX P) (lastx j gridX P) → j = i := by
  have hX : 1 ≤ (c + 1) * P := Nat.mul_pos (by omega) hP
  have hdm := Nat.div_add_mod ((c + 1) * P - 1) gridX
  have hml := Nat.mod_lt ((c + 1) * P - 1) (show 0 < gridX by omega)
  generalize hq : ((c + 1) * P - 1) / gridX = q at *
  have hcomm : q * gridX = gridX * q := Nat.mul_comm _ _
  refine ⟨q, ?_, ?_, ?_⟩
  · have hle : (c + 1) * P ≤ gridX * P := Nat.mul_le_mul_right P (by omega)
    have hlt : (c + 1) * P - 1 < P * gridX := by
      rw [Nat.mul_comm P gridX]; omega
    rw [← hq]
    exact (Nat.div_lt_iff_lt_mul (by omega)).2 hlt
  · rw [mem_strip_iff _ _ _ _ hP, Nat.add_mul q 1 gridX, Nat.one_mul, hcomm]
    generalize (c + 1) * P = X at *
    generalize gridX * q = A at *
    omega
  · intro j hj
    rw [mem_strip_iff _ _ _ _ hP, Nat.add_mul j 1 gridX, Nat.one_mul] at hj
    obtain ⟨h1, h2⟩ := hj
    have hjq : j * gridX < (q + 1) * gridX := by
      rw [Nat.add_mul q 1 gridX, Nat.one_mul, hcomm]
      generalize (c + 1) * P = X at *
      generalize gridX * q = A at *
      generalize j * gridX = B at *
      omega
    have hqj : q * gridX < (j + 1) * gridX := by
      rw [Nat.add_mul j 1 gridX, Nat.one_mul, hcomm]
      generalize (c + 1) * P = X at *
      generalize gridX * q = A at *
      generalize j * gridX = B at *
      omega
    have := Nat.lt_of_mul_lt_mul_right hjq
    have := Nat.lt_of_mul_lt_mul_right hqj
    omega

/-- The strips of two workers that share a column are the strip of one worker. -/
theorem strip_inj (i j gridX P c : Nat) (hP : 0 < P)
    (hci : c ∈ stripColumns (firstx i gridX P) (lastx i gridX P))
    (hcj : c ∈ stripColumns (firstx j gridX P) (lastx j gridX P)) : i = j := by
  rw [mem_strip_iff _ _ _ _ hP] at hci hcj
  have hij : i * gridX < (j + 1) * gridX := lt_of_lt_of_le hci.1 hcj.2
  have hji : j * gridX < (i + 1) * gridX := lt_of_lt_of_le hcj.1 hci.2
  have := Nat.lt_of_mul_lt_mul_right hij
  have := Nat.lt_of_mul_lt_mul_right hji
  omega

/-! ## The nursery -/

/-- A loop each round of which keeps `Q` and moves the counter on by at most `b`. -/
theorem foldl_counter {α : Type} (f : List Nat × Nat → α → List Nat × Nat)
    (Q : List Nat × Nat → Prop) (b : Nat)
    (hstep : ∀ st a, Q st → Q (f st a) ∧ (f st a).2 ≤ st.2 + b) :
    ∀ (l : List α) (st : List Nat × Nat), Q st →
      Q (l.foldl f st) ∧ (l.foldl f st).2 ≤ st.2 + l.length * b := by
  intro l
  induction l with
  | nil => intro st h; exact ⟨h, by simp⟩
  | cons a rest ih =>
    intro st h
    obtain ⟨h1, h2⟩ := hstep st a h
    obtain ⟨h3, h4⟩ := ih (f st a) h1
    refine ⟨h3, ?_⟩
    rw [List.foldl_cons, List.length_cons, Nat.add_mul, Nat.one_mul]
    omega

/-- The indices written so far are the consecutive indices from `start` to the counter. -/
theorem breedCell_writes (start : Nat) (partner : Nat → Nat) (bred : Nat → Bool) :
    ∀ (breedlistentries : Nat) (st : List Nat × Nat),
      (st.1 = List.range' start (st.2 - start) ∧ start ≤ st.2) →
      ((breedCell breedlistentries partner bred st).1 =
          List.range' start ((breedCell breedlistentries partner bred st).2 - start) ∧
        start ≤ (breedCell breedlistentries partner bred st).2) ∧
      (breedCell breedlistentries partner bred st).2 ≤ st.2 + breedlistentries := by
  intro n st h
  have := foldl_counter
    (fun (acc : List Nat × Nat) (c : Nat) =>
      if partner c < n then breedWithParallel (bred c) acc else acc)
    (fun st => st.1 = List.range' start (st.2 - start) ∧ start ≤ st.2) 1 (by
      intro acc c hacc
      dsimp only
      by_cases hp : partner c < n
      · rw [if_pos hp]
        unfold breedWithParallel
        by_cases hs : bred c = true
        · rw [if_pos hs]
          refine ⟨⟨?_, by show start ≤ acc.2 + 1; omega⟩, le_refl _⟩
          show acc.1 ++ [acc.2] = List.range' start (acc.2 + 1 - start)
          have : acc.2 + 1 - start = (acc.2 - start) + 1 := by omega
          rw [this, List.range'_concat, hacc.1]
          congr 2
          omega
        · rw [if_neg hs]
          exact ⟨hacc, by omega⟩
      · rw [if_neg hp]
        exact ⟨hacc, by omega⟩) (List.range n) st h
  rw [List.length_range, Nat.mul_one] at this
  exact this

theorem tickCell_writes (start slotsPerSquare : Nat) (t : TickInput) (n m : Nat)
    (hmax : t.maxused n m < slotsPerSquare) (st : List Nat × Nat)
    (h : st.1 = List.range' start (st.2 - start) ∧ start ≤ st.2) :
    ((tickCell t n m st).1 = List.range' start ((tickCell t n m st).2 - start) ∧
      start ≤ (tickCell t n m st).2) ∧
    (tickCell t n m st).2 ≤ st.2 + slotsPerSquare := by
  unfold tickCell
  by_cases h0 : t.totalfit n m = 0
  · rw [if_pos h0]
    exact ⟨h, by omega⟩
  · rw [if_neg h0]
    dsimp only
    obtain ⟨h1, h2⟩ := breedCell_writes start (t.partner n m) (t.bred n m)
      ((List.range (t.maxused n m + 1).toNat).filter (t.breeds n m)).length st h
    refine ⟨h1, le_trans h2 ?_⟩
    have hlen : ((List.range (t.maxused n m + 1).toNat).filter (t.breeds n m)).length ≤
        (t.maxused n m + 1).toNat := by
      have := List.length_filter_le (t.breeds n m) (List.range (t.maxused n m + 1).toNat)
      rw [List.length_range] at this
      exact this
    omega

/-- The indices that a worker writes are the consecutive indices from its start, and they
are no more than the slots of its strip. -/
theorem iterateParallel_writes (t : TickInput) (slotsPerSquare : Nat)
    (hmax : ∀ n m, t.maxused n m < slotsPerSquare) (firstx lastx : Int) (start : Nat) :
    (iterateParallel t firstx lastx start).1 =
      List.range' start ((iterateParallel t firstx lastx start).2 - start) ∧
    start ≤ (iterateParallel t firstx lastx start).2 ∧
    (iterateParallel t firstx lastx start).2 ≤
      start + (stripColumns firstx lastx).length * (t.gridY * slotsPerSquare) := by
  unfold iterateParallel
  have hcol : ∀ (st : List Nat × Nat) (n : Nat),
      (st.1 = List.range' start (st.2 - start) ∧ start ≤ st.2) →
      (((List.range t.gridY).foldl (fun st m => tickCell t n m st) st).1 =
          List.range' start
            (((List.range t.gridY).foldl (fun st m => tickCell t n m st) st).2 - start) ∧
        start ≤ ((List.range t.gridY).foldl (fun st m => tickCell t n m st) st).2) ∧
      ((List.range t.gridY).foldl (fun st m => tickCell t n m st) st).2 ≤
        st.2 + t.gridY * slotsPerSquare := by
    intro st n h
    have := foldl_counter (fun (st : List Nat × Nat) (m : Nat) => tickCell t n m st)
      (fun st => st.1 = List.range' start (st.2 - start) ∧ start ≤ st.2) slotsPerSquare
      (fun st m hst => tickCell_writes start slotsPerSquare t n m (hmax n m) st hst)
      (List.range t.gridY) st h
    rw [List.length_range] at this
    exact this
  have := foldl_counter
    (fun (st : List Nat × Nat) (n : Nat) =>
      (List.range t.gridY).foldl (fun st m => tickCell t n m st) st)
    (fun st => st.1 = List.range' start (st.2 - start) ∧ start ≤ st.2)
    (t.gridY * slotsPerSquare) hcol (stripColumns firstx lastx) ([], start)
    ⟨by simp, le_refl _⟩
  exact ⟨this.1.1, this.1.2, this.2⟩

/-- The strip of a worker, on a grid of at most 256 columns, times the number of workers is
less than 512. -/
theorem strip_width (i gridX P : Nat) (hg : gridX ≤ 256) (hP1 : 1 ≤ P) (hP2 : P ≤ 256) :
    ((i + 1) * gridX / P - i * gridX / P) * P ≤ 511 := by
  have h1 := Nat.div_mul_le_self ((i + 1) * gridX) P
  have h2 := Nat.div_add_mod (i * gridX) P
  have h3 := Nat.mod_lt (i * gridX) (show 0 < P by omega)
  have h4 : (i + 1) * gridX = i * gridX + gridX := by rw [Nat.add_mul, Nat.one_mul]
  rw [Nat.sub_mul, Nat.mul_comm (i * gridX / P) P]
  generalize (i + 1) * gridX / P * P = A at *
  generalize P * (i * gridX / P) = B at *
  generalize (i + 1) * gridX = C at *
  generalize i * gridX = D at *
  omega

/-! ## Claims C19 and C20 -/

/-- C19. For every gridX >= 1 and every number P in 1..256 of workers, the column ranges
[i*gridX/P .. (i+1)*gridX/P - 1] that `iterate` hands to the workers i = 0..P-1 are pairwise
disjoint and their union is exactly 0..gridX-1: every column of the grid is in the range of
exactly one worker, every column of a range is a column of the grid, and the loop of a
worker visits each column of its range once. For a grid within the static arrays the
products of line 725 stay below 2^31. -/
theorem C19_strips_partition_columns (gridX P : Nat) (hg : 1 ≤ gridX) (hP1 : 1 ≤ P)
    (hP2 : P ≤ 256) :
    (∀ c, c < gridX → ∃ i, i < P ∧ c ∈ stripColumns (firstx i gridX P) (lastx i gridX P) ∧
      ∀ j, c ∈ stripColumns (firstx j gridX P) (lastx j gridX P) → j = i) ∧
    (∀ i, i < P → ∀ c ∈ stripColumns (firstx i gridX P) (lastx i gridX P), c < gridX) ∧
    (∀ i j, i ≠ j → ∀ c, c ∈ stripColumns (firstx i gridX P) (lastx i gridX P) →
      c ∉ stripColumns (firstx j gridX P) (lastx j gridX P)) ∧
    (∀ i, (stripColumns (firstx i gridX P) (lastx i gridX P)).Nodup) ∧
    (gridX ≤ GRID_X → ∀ i, i < P → (i + 1) * gridX < 2 ^ 31) := by
  have hP : 0 < P := by omega
  refine ⟨fun c hc => strip_unique gridX P c hg hP hc, ?_, ?_, ?_, ?_⟩
  · intro i hi c hc
    rw [mem_strip_iff _ _ _ _ hP] at hc
    have h1 : (i + 1) * gridX ≤ P * gridX := Nat.mul_le_mul_right gridX (by omega)
    have h2 : (c + 1) * P ≤ gridX * P := by
      rw [Nat.mul_comm gridX P]
      exact le_trans hc.2 h1
    have := Nat.le_of_mul_le_mul_right h2 hP
    omega
  · intro i j hij c hci hcj
    exact hij (strip_inj i j gridX P c hP hci hcj)
  · intro i
    unfold stripColumns
    apply List.Nodup.map_on
    · intro a ha b hb hab
      have := Int.natCast_nonneg (i * gridX / P)
      unfold firstx at hab
      omega
    · exact List.nodup_range _
  · intro hgx i hi
    have h1 : (i + 1) * gridX ≤ 256 * 256 :=
      Nat.mul_le_mul (by omega) hgx
    omega

/-- Witness for C19: ten columns and four workers; the ranges are 0..1, 2..4, 5..6 and
7..9. -/
theorem C19_strips_partition_columns_witness :
    ((List.range 4).map fun i => stripColumns (firstx i 10 4) (lastx i 10 4)) =
      [[0, 1], [2, 3, 4], [5, 6], [7, 8, 9]] ∧
    (∀ c, c < 10 → ∃ i, i < 4 ∧ c ∈ stripColumns (firstx i 10 4) (lastx i 10 4) ∧
      ∀ j, c ∈ stripColumns (firstx j 10 4) (lastx j 10 4) → j = i) ∧
    (∀ i, i < 4 → ∀ c ∈ stripColumns (firstx i 10 4) (lastx i 10 4), c < 10) :=
  ⟨by decide,
   (C19_strips_partition_columns 10 4 (by decide) (by decide) (by decide)).1,
   (C19_strips_partition_columns 10 4 (by decide) (by decide) (by decide)).2.1⟩

/-- C20. For every number P in 1..256 of workers and run-time sizes gridX, gridY and
slotsPerSquare of at most 256, with the stride s = floor(2*256*256*256 / P) of `iterate`:
the slots of the column strip of a worker, at most one child each, are no more than s; the
indices of the nursery that the worker i writes are consecutive from i*s, as many as it
returns, all of them in [i*s, (i+1)*s) and below the size of the nursery; and the indices of
two different workers are different. -/
theorem C20_nursery_segments (t : TickInput) (gridX slotsPerSquare P : Nat) (hP1 : 1 ≤ P)
    (hP2 : P ≤ 256) (hgx : gridX ≤ 256) (hgy : t.gridY ≤ 256) (hs : slotsPerSquare ≤ 256)
    (hmax : ∀ n m, t.maxused n m < slotsPerSquare) :
    positionadd P = 2 * 256 * 256 * 256 / P ∧
    (∀ i, i < P →
      (stripColumns (firstx i gridX P) (lastx i gridX P)).length * (t.gridY * slotsPerSquare) ≤
        positionadd P ∧
      (worker t gridX P i).1.length ≤ positionadd P ∧
      (worker t gridX P i).1 =
        List.range' (i * positionadd P) (worker t gridX P i).1.length ∧
      (worker t gridX P i).2 = i * positionadd P + (worker t gridX P i).1.length ∧
      ∀ idx ∈ (worker t gridX P i).1,
        i * positionadd P ≤ idx ∧ idx < (i + 1) * positionadd P ∧
        idx < GRID_X * GRID_Y * SLOTS_PER_GRID_SQUARE * 2) ∧
    ∀ i j, i < P → j < P → i ≠ j →
      ∀ idx ∈ (worker t gridX P i).1, idx ∉ (worker t gridX P j).1 := by
  have hP : 0 < P := by omega
  have hpos : positionadd P = 33554432 / P := by
    unfold positionadd GRID_X GRID_Y SLOTS_PER_GRID_SQUARE
    norm_num
  have hsP : positionadd P * P ≤ 33554432 := by
    rw [hpos]
    exact Nat.div_mul_le_self _ _
  have hworker : ∀ i, i < P →
      (stripColumns (firstx i gridX P) (lastx i gridX P)).length * (t.gridY * slotsPerSquare) ≤
        positionadd P ∧
      (worker t gridX P i).1.length ≤ positionadd P ∧
      (worker t gridX P i).1 =
        List.range' (i * positionadd P) (worker t gridX P i).1.length ∧
      (worker t gridX P i).2 = i * positionadd P + (worker t gridX P i).1.length ∧
      ∀ idx ∈ (worker t gridX P i).1,
        i * positionadd P ≤ idx ∧ idx < (i + 1) * positionadd P ∧
        idx < GRID_X * GRID_Y * SLOTS_PER_GRID_SQUARE * 2 := by
    intro i hi
    obtain ⟨hw1, hw2, hw3⟩ := iterateParallel_writes t slotsPerSquare hmax
      (firstx i gridX P) (lastx i gridX P) (newgenomecounts_starts P i)
    have hwidth := strip_width i gridX P hgx hP1 hP2
    rw [← stripColumns_length] at hwidth
    have hcell : t.gridY * slotsPerSquare ≤ 65536 := by
      have := Nat.mul_le_mul hgy hs
      omega
    have hstrip :
        (stripColumns (firstx i gridX P) (lastx i gridX P)).length *
          (t.gridY * slotsPerSquare) ≤ positionadd P := by
      rw [hpos, Nat.le_div_iff_mul_le hP]
      have h1 := Nat.mul_le_mul_left
        (stripColumns (firstx i gridX P) (lastx i gridX P)).length hcell
      have h2 := Nat.mul_le_mul_right 65536 hwidth
      have h3 := Nat.mul_le_mul_right P h1
      have h4 : (stripColumns (firstx i gridX P) (lastx i gridX P)).length * 65536 * P =
          (stripColumns (firstx i gridX P) (lastx i gridX P)).length * P * 65536 := by ring
      omega
    have hlen : (worker t gridX P i).1.length =
        (worker t gridX P i).2 - i * positionadd P := by
      unfold worker
      rw [hw1, List.length_range']
      rfl
    have hle : (worker t gridX P i).2 ≤ i * positionadd P +
        (stripColumns (firstx i gridX P) (lastx i gridX P)).length *
          (t.gridY * slotsPerSquare) := hw3
    have hge : i * positionadd P ≤ (worker t gridX P i).2 := hw2
    have hnext : (i + 1) * positionadd P = i * positionadd P + positionadd P := by
      rw [Nat.add_mul, Nat.one_mul]
    have htop : (i + 1) * positionadd P ≤ 33554432 := by
      have h1 : (i + 1) * positionadd P ≤ P * positionadd P :=
        Nat.mul_le_mul_right _ (by omega)
      rw [Nat.mul_comm P] at h1
      omega
    have hlist : (worker t gridX P i).1 =
        List.range' (i * positionadd P) (worker t gridX P i).1.length := by
      rw [hlen]
      exact hw1
    refine ⟨hstrip, by omega, hlist, by omega, ?_⟩
    intro idx hidx
    rw [hlist, List.mem_range'_1] at hidx
    have hsize : GRID_X * GRID_Y * SLOTS_PER_GRID_SQUARE * 2 = 33554432 := by
      unfold GRID_X GRID_Y SLOTS_PER_GRID_SQUARE
      norm_num
    rw [hsize]
    omega
  refine ⟨by rw [hpos], hworker, ?_⟩
  intro i j hi hj hij idx hidx hjdx
  obtain ⟨hi1, hi2, _⟩ := (hworker i hi).2.2.2.2 idx hidx
  obtain ⟨hj1, hj2, _⟩ := (hworker j hj).2.2.2.2 idx hjdx
  rcases Nat.lt_or_gt_of_ne hij with h | h
  · have : (i + 1) * positionadd P ≤ j * positionadd P := Nat.mul_le_mul_right _ h
    omega
  · have : (j + 1) * positionadd P ≤ i * positionadd P := Nat.mul_le_mul_right _ h
    omega

/-- Witness for C20: 255 workers on the full grid of 256 x 256 cells of 256 slots, every
slot yielding a child. -/
theorem C20_nursery_segments_witness :
    (fullTick 256 256).gridY ≤ 256 ∧
    (∀ n m, (fullTick 256 256).maxused n m < ((256 : Nat) : Int)) ∧
    positionadd 255 = 131586 ∧
    (stripColumns (firstx 254 256 255) (lastx 254 256 255)).length *
      ((fullTick 256 256).gridY * 256) = 131072 ∧
    ∀ i, i < 255 →
      (stripColumns (firstx i 256 255) (lastx i 256 255)).length *
          ((fullTick 256 256).gridY * 256) ≤ positionadd 255 ∧
      (worker (fullTick 256 256) 256 255 i).1.length ≤ positionadd 255 ∧
      (worker (fullTick 256 256) 256 255 i).1 =
        List.range' (i * positionadd 255) (worker (fullTick 256 256) 256 255 i).1.length ∧
      (worker (fullTick 256 256) 256 255 i).2 =
        i * positionadd 255 + (worker (fullTick 256 256) 256 255 i).1.length ∧
      ∀ idx ∈ (worker (fullTick 256 256) 256 255 i).1,
        i * positionadd 255 ≤ idx ∧ idx < (i + 1) * positionadd 255 ∧
        idx < GRID_X * GRID_Y * SLOTS_PER_GRID_SQUARE * 2 :=
  ⟨by decide, fun _ _ => by show ((256 : Nat) : Int) - 1 < ((256 : Nat) : Int); norm_num,
   by decide, by decide,
   (C20_nursery_segments (fullTick 256 256) 256 256 255 (by decide) (by decide) (by decide)
     (by decide) (by decide)
     (fun _ _ => by show ((256 : Nat) : Int) - 1 < ((256 : Nat) : Int); norm_num)).2.1⟩

/-! ## The recalculation of one cell -/

theorem largestOr_append (xs : List Nat) (c : Nat) :
    largestOr (xs ++ [c]) = max (largestOr xs) (c : Int) := by
  simp [largestOr, List.foldl_append]

theorem largestOr_lt (xs : List Nat) (k : Nat) (h : ∀ x ∈ xs, x < k) :
    largestOr xs < (k : Int) := by
  induction xs using List.reverseRecOn with
  | nil => simp [largestOr]; omega
  | append_singleton ys c ih =>
    rw [largestOr_append]
    have h1 := ih (fun x hx => h x (List.mem_append_left _ hx))
    have h2 := h c (by simp)
    omega

theorem aliveSlots_succ (crit : Nat → Critter) (k : Nat) :
    aliveSlots (k + 1) crit
      = aliveSlots k crit ++ (if (crit k).age ≠ 0 then [k] else []) := by
  unfold aliveSlots
  rw [List.range_succ, List.filter_append]
  by_cases h : (crit k).age ≠ 0 <;> simp [h]

theorem mem_aliveSlots (crit : Nat → Critter) (k c : Nat) :
    c ∈ aliveSlots k crit ↔ c < k ∧ (crit c).age ≠ 0 := by
  simp [aliveSlots]

theorem aliveSlots_eq (crit : Nat → Critter) (N slots : Nat) (hN : N ≤ slots)
    (h : ∀ c, c < slots → (crit c).age ≠ 0 → c < N) :
    aliveSlots slots crit = aliveSlots N crit := by
  obtain ⟨d, rfl⟩ := Nat.exists_eq_add_of_le hN
  unfold aliveSlots
  rw [List.range_add, List.filter_append]
  have : (List.map (fun x => N + x) (List.range d)).filter
      (fun c => decide ((crit c).age ≠ 0)) = [] := by
    rw [List.filter_eq_nil_iff]
    intro a ha
    simp only [List.mem_map, List.mem_range] at ha
    obtain ⟨x, hx, rfl⟩ := ha
    simp only [decide_eq_true_eq]
    intro hal
    have := h (N + x) (by omega) hal
    omega
  rw [this, List.append_nil]

theorem recalc_fold (recalc : Critter → Nat × Critter) (crit : Nat → Critter) (k : Nat) :
    (∀ j, k ≤ j →
      ((List.range k).foldl (recalcSlot recalc)
        { crit := crit, totalfit := 0, maxalive := 0, deathcount := 0 }).crit j = crit j) ∧
    ((List.range k).foldl (recalcSlot recalc)
        { crit := crit, totalfit := 0, maxalive := 0, deathcount := 0 }).totalfit
      = ((aliveSlots k crit).map (recomputed recalc crit)).sum ∧
    ((List.range k).foldl (recalcSlot recalc)
        { crit := crit, totalfit := 0, maxalive := 0, deathcount := 0 }).deathcount
      = ((casualties recalc k crit).length : Int) ∧
    ((List.range k).foldl (recalcSlot recalc)
        { crit := crit, totalfit := 0, maxalive := 0, deathcount := 0 }).maxalive
      = (if survivors recalc k crit = [] then 0 else largestOr (survivors recalc k crit)) := by
  induction k with
  | zero =>
    simp [aliveSlots, casualties, survivors]
  | succ k ih =>
    obtain ⟨h1, h2, h3, h4⟩ := ih
    rw [List.range_succ, List.foldl_append]
    simp only [List.foldl_cons, List.foldl_nil]
    generalize hl : (List.range k).foldl (recalcSlot recalc)
        { crit := crit, totalfit := 0, maxalive := 0, deathcount := 0 } = l at h1 h2 h3 h4 ⊢
    have hk : l.crit k = crit k := h1 k (le_refl _)
    have hlt : largestOr (survivors recalc k crit) < (k : Int) :=
      largestOr_lt _ _ (fun x hx => by
        have := (List.mem_filter.mp hx).1
        exact ((mem_aliveSlots _ _ _).mp this).1)
    unfold recalcSlot
    by_cases hal : (crit k).age ≠ 0
    · rw [if_pos (by rw [hk]; exact hal)]
      have ha : aliveSlots (k + 1) crit = aliveSlots k crit ++ [k] := by
        rw [aliveSlots_succ, if_pos hal]
      by_cases hf : 0 < recomputed recalc crit k
      · have hs : survivors recalc (k + 1) crit = survivors recalc k crit ++ [k] := by
          unfold survivors; rw [ha, List.filter_append]; simp [hf]
        have hc : casualties recalc (k + 1) crit = casualties recalc k crit := by
          unfold casualties; rw [ha, List.filter_append]
          have : ¬ recomputed recalc crit k = 0 := by omega
          simp [this]
        have hf2 : (recalc (l.crit k)).1 > 0 := by rw [hk]; exact hf
        refine ⟨?_, ?_, ?_, ?_⟩
        · intro j hj
          dsimp only
          rw [if_neg (by omega)]
          exact h1 j (by omega)
        · dsimp only
          rw [ha, List.map_append, List.sum_append, h2, hk]
          simp [recomputed]
        · dsimp only
          rw [if_pos hf2, hc, h3]
        · dsimp only
          rw [if_pos hf2, hs, largestOr_append, if_neg (by simp)]
          omega
      · have hf0 : recomputed recalc crit k = 0 := by omega
        have hs : survivors recalc (k + 1) crit = survivors recalc k crit := by
          unfold survivors; rw [ha, List.filter_append]; simp [hf0]
        have hc : casualties recalc (k + 1) crit = casualties recalc k crit ++ [k] := by
          unfold casualties; rw [ha, List.filter_append]; simp [hf0]
        have hf2 : ¬ (recalc (l.crit k)).1 > 0 := by
          rw [hk]; unfold recomputed at hf0; omega
        refine ⟨?_, ?_, ?_, ?_⟩
        · intro j hj
          dsimp only
          rw [if_neg (by omega)]
          exact h1 j (by omega)
        · dsimp only
          rw [ha, List.map_append, List.sum_append, h2, hk]
          simp [recomputed]
        · dsimp only
          rw [if_neg hf2, hc, h3]
          simp
        · dsimp only
          rw [if_neg hf2, hs, h4]
    · rw [if_neg (by rw [hk]; exact hal)]
      have ha : aliveSlots (k + 1) crit = aliveSlots k crit := by
        rw [aliveSlots_succ, if_neg hal, List.append_nil]
      refine ⟨fun j hj => h1 j (by omega), ?_, ?_, ?_⟩
      · rw [ha, h2]
      · unfold casualties; rw [ha]; exact h3
      · unfold survivors; rw [ha]; exact h4

/-! ## The breeding and the recalculation of one cell -/

/-- C21 (partner selection, lines 572-590): for a cell with `b ≥ 1` breeders and the entry
`c` of the breed list, when the mode is asexual or `b ≤ 255`, the body of the loop returns;
the partner index is `c` in asexual mode and `Rand8() / (255 / b)` otherwise;
`breedWithParallel` is invoked (once, for the slots of the breeder and of the partner)
exactly when the partner index is below `b`, and otherwise the energy of the breeder grows by
exactly `breedCost`, every other slot and field stays, the nursery cursor and `breedfails`
stay. With `b = 256` breeders outside asexual mode `divider` is `255 / 256 = 0` and the
division by it is a fault, so the body does not return. -/
theorem C21_partner_selection (asexual : Bool) (breedCost : Int) (randoms : Nat → Nat)
    (call : BreedCall) (breedlist : List Nat) (c : Nat) (s : BreedCell)
    (hb : 1 ≤ breedlist.length) (hc : c < breedlist.length) :
    (asexual = true ∨ breedlist.length ≤ 255 →
      ∃ s', breedEntry asexual breedCost randoms call breedlist c s = .ok s' ∧
        ((if asexual then c else (randoms s.nextrandom % 256) / (255 / breedlist.length))
            < breedlist.length →
          s'.invoked = s.invoked ++ [(breedlist.getD c 0, breedlist.getD
            (if asexual then c else (randoms s.nextrandom % 256) / (255 / breedlist.length))
            0)]) ∧
        (¬ (if asexual then c else (randoms s.nextrandom % 256) / (255 / breedlist.length))
            < breedlist.length →
          s'.invoked = s.invoked ∧
          s'.crit (breedlist.getD c 0)
            = { s.crit (breedlist.getD c 0) with
                energy := (s.crit (breedlist.getD c 0)).energy + breedCost } ∧
          (∀ k, k ≠ breedlist.getD c 0 → s'.crit k = s.crit k) ∧
          s'.newGenomeCountLocal = s.newGenomeCountLocal ∧
          s'.breedfails = s.breedfails)) ∧
    (asexual = false → breedlist.length = 256 →
      breedEntry asexual breedCost randoms call breedlist c s = .error .divideByZero) := by
  have hdiv : breedlist.length ≤ 255 → divider breedlist.length = 255 / breedlist.length ∧
      divider breedlist.length ≠ 0 := by
    intro h
    have h1 : 255 / breedlist.length ≤ 255 := Nat.div_le_self _ _
    have h2 : 0 < 255 / breedlist.length := Nat.div_pos h (by omega)
    have h3 : divider breedlist.length = 255 / breedlist.length := by
      unfold divider
      exact toUInt8_of_lt (by omega)
    exact ⟨h3, by omega⟩
  refine ⟨?_, ?_⟩
  · intro hcase
    cases hax : asexual with
    | true =>
      refine ⟨breedOrRefund breedCost call breedlist c c s, ?_, ?_, ?_⟩
      · simp [breedEntry, choosePartner]
      · intro _
        simp [breedOrRefund, hc]
      · intro hn
        simp only [if_true] at hn
        exact absurd hc hn
    | false =>
      have hlen : breedlist.length ≤ 255 := by
        rcases hcase with h | h
        · rw [hax] at h; cases h
        · exact h
      obtain ⟨hd1, hd2⟩ := hdiv hlen
      refine ⟨breedOrRefund breedCost call breedlist c
          ((randoms s.nextrandom % 256) / (255 / breedlist.length))
          { s with nextrandom := (Rand8 randoms s.nextrandom).2 }, ?_, ?_, ?_⟩
      · unfold breedEntry choosePartner
        simp only [Bool.false_eq_true, if_false]
        rw [if_neg hd2]
        dsimp only
        rw [hd1]
        rfl
      · intro hp
        simp only [Bool.false_eq_true, if_false] at hp
        simp [breedOrRefund, hp]
      · intro hp
        simp only [Bool.false_eq_true, if_false] at hp
        simp [breedOrRefund, hp]
        intro k hk hk2
        exact absurd hk2 hk
  · intro hax hlen
    have hd0 : divider breedlist.length = 0 := by
      rw [hlen]; simp [divider, toUInt8]
    simp [breedEntry, choosePartner, hax, hd0]

/-- C21, at an input: with two breeders and the byte 255 drawn, the partner index is
`255 / 127 = 2`, which is no entry of the list, and the breeder of the slot 4 is refunded. -/
theorem C21_partner_selection_witness :
    (∃ s', breedEntry false 7 (fun _ => 255) idleCall [4, 6] 0 breedStart = .ok s' ∧
        s'.invoked = [] ∧ (s'.crit 4).energy = 7 ∧ s'.breedfails = 0) ∧
      breedEntry false 7 (fun _ => 255) idleCall (List.range 256) 0 breedStart
        = .error .divideByZero := by
  have h := C21_partner_selection false 7 (fun _ => 255) idleCall [4, 6] 0 breedStart
    (by decide) (by decide)
  have hlen : (List.range 256).length = 256 := List.length_range 256
  refine ⟨?_, (C21_partner_selection false 7 (fun _ => 255) idleCall (List.range 256) 0
    breedStart (by rw [hlen]; omega) (by rw [hlen]; omega)).2 rfl hlen⟩
  obtain ⟨s', hs, _, hr⟩ := h.1 (Or.inr (by decide))
  obtain ⟨h1, h2, _, _, h5⟩ := hr (by decide)
  refine ⟨s', hs, ?_, ?_, ?_⟩
  · rw [h1]; rfl
  · have : [4, 6].getD 0 0 = 4 := rfl
    rw [this] at h2
    rw [h2]; rfl
  · rw [h5]; rfl

/-- C22 (recalculation of lines 541-556): for a cell whose `maxused` bounds its alive slots
on entry, after the step `totalfit` is the sum of the recomputed fitness over the slots that
were alive, the local kill count has grown by the number of those slots whose recomputed
fitness is 0, and `maxused` is the largest slot whose recomputed fitness is positive when
there is one; when no slot survives `maxused` is 0, the value `maxalive` starts from, and
not -1: so it is for the cell whose one critter dies in the step. -/
theorem C22_recalculation_step (recalc : Critter → Nat × Critter) (slotsPerSquare : Nat)
    (s : RecalcCell) (hmax : s.maxused < (slotsPerSquare : Int))
    (hbound : ∀ c, c < slotsPerSquare → (s.crit c).age ≠ 0 → (c : Int) ≤ s.maxused) :
    ((recalculateStep recalc s).totalfit
        = ((aliveSlots slotsPerSquare s.crit).map (recomputed recalc s.crit)).sum ∧
      (recalculateStep recalc s).killCountLocal
        = s.killCountLocal + ((casualties recalc slotsPerSquare s.crit).length : Int) ∧
      (recalculateStep recalc s).maxused
        = (if survivors recalc slotsPerSquare s.crit = [] then 0
           else largestOr (survivors recalc slotsPerSquare s.crit))) ∧
    (survivors starve 1 loneCell.crit = [] ∧
      largestOr (survivors starve 1 loneCell.crit) = -1 ∧
      (recalculateStep starve loneCell).maxused = 0) := by
  refine ⟨?_, by decide⟩
  have hN : (s.maxused + 1).toNat ≤ slotsPerSquare := by omega
  have ha : aliveSlots slotsPerSquare s.crit = aliveSlots (s.maxused + 1).toNat s.crit :=
    aliveSlots_eq _ _ _ hN (fun c hc hal => by
      have := hbound c hc hal
      omega)
  obtain ⟨_, h2, h3, h4⟩ := recalc_fold recalc s.crit (s.maxused + 1).toNat
  unfold survivors casualties
  rw [ha]
  exact ⟨h2, by simp only [recalculateStep]; rw [h3]; rfl, h4⟩

/-- C22, at an input: in a cell of three slots whose slots 0 and 2 are alive and stay as fit
as they are, the step leaves `totalfit = 6`, `maxused = 2` and no kill. -/
theorem C22_recalculation_step_witness :
    (recalculateStep sustain pairCell).totalfit = 6 ∧
      (recalculateStep sustain pairCell).killCountLocal = 0 ∧
      (recalculateStep sustain pairCell).maxused = 2 := by
  obtain ⟨h1, h2, h3⟩ := (C22_recalculation_step sustain 3 pairCell (by decide)
    (by intro c hc hal; have : c = 0 ∨ c = 1 ∨ c = 2 := by omega
        rcases this with rfl | rfl | rfl
        · decide
        · exact absurd rfl hal
        · decide)).1
  refine ⟨?_, ?_, ?_⟩
  · rw [h1]; decide
  · rw [h2]; decide
  · rw [h3]; decide

/-! ## Settlement: the scan for the first empty slot and the aggregates of a cell -/

theorem firstEmpty_some (k : Nat) (crit : Nat → Critter) :
    ∀ m, firstEmpty k crit = some m ↔
      m < k ∧ (crit m).age = 0 ∧ ∀ j, j < m → (crit j).age ≠ 0 := by
  induction k with
  | zero => intro m; simp [firstEmpty]
  | succ k ih =>
    intro m
    unfold firstEmpty at ih ⊢
    rw [List.range_succ, List.find?_append]
    cases hf : (List.range k).find? (fun m => decide ((crit m).age = 0)) with
    | some a =>
      obtain ⟨ha1, ha2, ha3⟩ := (ih a).mp hf
      simp only [Option.or, Option.some.injEq]
      constructor
      · rintro rfl
        exact ⟨by omega, ha2, ha3⟩
      · rintro ⟨_, hm2, hm3⟩
        rcases Nat.lt_trichotomy a m with h | h | h
        · exact absurd ha2 (hm3 a h)
        · exact h
        · exact absurd hm2 (ha3 m h)
    | none =>
      have hnone : ∀ j, j < k → (crit j).age ≠ 0 := by
        intro j hj
        have := List.find?_eq_none.mp hf j (List.mem_range.mpr hj)
        simpa using this
      simp only [Option.or]
      by_cases hk : (crit k).age = 0
      · simp only [List.find?_cons, hk, decide_True, Option.some.injEq]
        constructor
        · rintro rfl
          exact ⟨by omega, hk, hnone⟩
        · rintro ⟨hm1, hm2, _⟩
          by_contra hne
          exact hnone m (by omega) hm2
      · simp only [List.find?_cons, hk, decide_False, List.find?_nil]
        constructor
        · intro h; cases h
        · rintro ⟨hm1, hm2, _⟩
          exfalso
          by_cases hmk : m = k
          · rw [hmk] at hm2; exact hk hm2
          · exact hnone m (by omega) hm2

theorem firstEmpty_none (k : Nat) (crit : Nat → Critter) :
    firstEmpty k crit = none ↔ ∀ j, j < k → (crit j).age ≠ 0 := by
  unfold firstEmpty
  rw [List.find?_eq_none]
  simp

theorem firstEmpty_of_exists (k : Nat) (crit : Nat → Critter)
    (h : ∃ m, m < k ∧ (crit m).age = 0) : ∃ m0, firstEmpty k crit = some m0 := by
  cases hf : firstEmpty k crit with
  | some m0 => exact ⟨m0, rfl⟩
  | none =>
    obtain ⟨m, hm, h0⟩ := h
    exact absurd h0 ((firstEmpty_none k crit).mp hf m hm)

theorem largestOr_le_iff (xs : List Nat) (v : Int) :
    largestOr xs ≤ v ↔ -1 ≤ v ∧ ∀ x ∈ xs, (x : Int) ≤ v := by
  induction xs using List.reverseRecOn with
  | nil => simp [largestOr]
  | append_singleton ys c ih =>
    rw [largestOr_append, max_le_iff, ih]
    simp only [List.mem_append, List.mem_singleton]
    constructor
    · rintro ⟨⟨h1, h2⟩, h3⟩
      refine ⟨h1, fun x hx => ?_⟩
      rcases hx with hx | rfl
      · exact h2 x hx
      · exact h3
    · rintro ⟨h1, h2⟩
      exact ⟨⟨h1, fun x hx => h2 x (Or.inl hx)⟩, h2 c (Or.inr rfl)⟩

theorem largestOr_congr (xs ys : List Nat) (h : ∀ x, x ∈ xs ↔ x ∈ ys) :
    largestOr xs = largestOr ys := by
  apply eq_of_forall_ge_iff
  intro v
  rw [largestOr_le_iff, largestOr_le_iff]
  simp only [h]

theorem largestOr_insert (xs ys : List Nat) (m : Nat) (h : ∀ x, x ∈ ys ↔ x ∈ xs ∨ x = m) :
    largestOr ys = max (largestOr xs) (m : Int) := by
  apply eq_of_forall_ge_iff
  intro v
  rw [largestOr_le_iff, max_le_iff, largestOr_le_iff]
  constructor
  · rintro ⟨h1, h2⟩
    exact ⟨⟨h1, fun x hx => h2 x ((h x).mpr (Or.inl hx))⟩, h2 m ((h m).mpr (Or.inr rfl))⟩
  · rintro ⟨⟨h1, h2⟩, h3⟩
    refine ⟨h1, fun x hx => ?_⟩
    rcases (h x).mp hx with hx | rfl
    · exact h2 x hx
    · exact h3

theorem aliveSlots_congr (k : Nat) (crit crit2 : Nat → Critter)
    (h : ∀ c, c < k → crit2 c = crit c) : aliveSlots k crit2 = aliveSlots k crit := by
  unfold aliveSlots
  apply List.filter_congr
  intro c hc
  rw [h c (List.mem_range.mp hc)]

theorem aliveFitness_congr (k : Nat) (crit crit2 : Nat → Critter)
    (h : ∀ c, c < k → crit2 c = crit c) : aliveFitness k crit2 = aliveFitness k crit := by
  unfold aliveFitness
  rw [aliveSlots_congr k crit crit2 h]
  congr 1
  apply List.map_congr_left
  intro c hc
  rw [h c ((mem_aliveSlots _ _ _).mp hc).1]

theorem aliveFitness_succ (crit : Nat → Critter) (k : Nat) :
    aliveFitness (k + 1) crit
      = aliveFitness k crit + (if (crit k).age ≠ 0 then (crit k).fitness else 0) := by
  unfold aliveFitness
  rw [aliveSlots_succ]
  by_cases h : (crit k).age ≠ 0
  · simp [h]
  · simp [h]

/-- The sum of the fitness over the alive slots when one slot is replaced. -/
theorem aliveFitness_set (crit : Nat → Critter) (m : Nat) (cr : Critter) (k : Nat) :
    aliveFitness k (fun c => if c = m then cr else crit c)
        + (if m < k ∧ (crit m).age ≠ 0 then (crit m).fitness else 0)
      = aliveFitness k crit + (if m < k ∧ cr.age ≠ 0 then cr.fitness else 0) := by
  induction k with
  | zero => simp [aliveFitness, aliveSlots]
  | succ k ih =>
    rw [aliveFitness_succ, aliveFitness_succ]
    by_cases hm : m = k
    · subst hm
      have h1 : ¬ (m < m ∧ (crit m).age ≠ 0) := by omega
      have h2 : ¬ (m < m ∧ cr.age ≠ 0) := by omega
      rw [if_neg h1, if_neg h2] at ih
      simp only [if_true, Nat.lt_succ_self, true_and]
      omega
    · have hlt : m < k + 1 ↔ m < k := by omega
      have hkm : ¬ k = m := fun h => hm h.symm
      simp only [hlt, if_neg hkm]
      omega

theorem cell_after_set (crit : Nat → Critter) (k m : Nat) (cr : Critter) (hm : m < k)
    (hdead : (crit m).age = 0) :
    aliveFitness k (fun c => if c = m then cr else crit c)
        = aliveFitness k crit + (if cr.age ≠ 0 then cr.fitness else 0) ∧
      largestOr (aliveSlots k (fun c => if c = m then cr else crit c))
        = (if cr.age ≠ 0 then max (largestOr (aliveSlots k crit)) (m : Int)
           else largestOr (aliveSlots k crit)) := by
  constructor
  · have h := aliveFitness_set crit m cr k
    rw [if_neg (by intro h; exact h.2 hdead)] at h
    by_cases hal : cr.age ≠ 0
    · rw [if_pos ⟨hm, hal⟩] at h
      rw [if_pos hal]
      omega
    · rw [if_neg (by intro h; exact hal h.2)] at h
      rw [if_neg hal]
      omega
  · by_cases hal : cr.age ≠ 0
    · rw [if_pos hal]
      apply largestOr_insert
      intro c
      rw [mem_aliveSlots, mem_aliveSlots]
      by_cases hc : c = m
      · subst hc
        simp [hm, hal]
      · simp [hc]
    · rw [if_neg hal]
      apply largestOr_congr
      intro c
      rw [mem_aliveSlots, mem_aliveSlots]
      by_cases hc : c = m
      · subst hc
        simp only [if_true]
        have : cr.age = 0 := by omega
        simp [this, hdead]
      · simp [hc]

theorem place_none (e : SettleInput) (r : NurseryRecord) (x y : Nat) (s : SettleState)
    (hf : firstEmpty e.slotsPerSquare (s.critters x y) = none) :
    place e r x y s = { s with trycount_local := s.trycount_local + 1 } := by
  simp only [place, hf]

theorem place_alive (e : SettleInput) (r : NurseryRecord) (x y : Nat) (s : SettleState)
    (m : Nat) (hf : firstEmpty e.slotsPerSquare (s.critters x y) = some m)
    (hal : (newcomer e r x y m s).age ≠ 0) :
    place e r x y s =
      { s with
        trycount_local := s.trycount_local + 1
        critters := setSlot s.critters x y m
          (newcomer e r x y m s)
        totalfit := setCell s.totalfit x y (s.totalfit x y +
          (newcomer e r x y m s).fitness)
        birthcounts_local := s.birthcounts_local + 1
        maxused := if (m : Int) > s.maxused x y then setCell s.maxused x y (m : Int)
                   else s.maxused
        settles := setCell s.settles x y (s.settles x y + 1)
        settlecount_local := s.settlecount_local + 1 } := by
  simp only [place, hf, if_pos hal]

theorem place_dead (e : SettleInput) (r : NurseryRecord) (x y : Nat) (s : SettleState)
    (m : Nat) (hf : firstEmpty e.slotsPerSquare (s.critters x y) = some m)
    (hal : (newcomer e r x y m s).age = 0) :
    place e r x y s =
      { s with
        trycount_local := s.trycount_local + 1
        critters := setSlot s.critters x y m
          (newcomer e r x y m s)
        settlefails := setCell s.settlefails x y (s.settlefails x y + 1) } := by
  have : ¬ (newcomer e r x y m s).age ≠ 0 := by omega
  simp only [place, hf, if_neg this]

theorem setSlot_cell (critters : Nat → Nat → Nat → Critter) (x y z : Nat) (cr : Critter) :
    setSlot critters x y z cr x y = fun c => if c = z then cr else critters x y c := by
  funext c
  simp [setSlot]

theorem setSlot_other (critters : Nat → Nat → Nat → Critter) (x y z : Nat) (cr : Critter)
    (i j : Nat) (h : ¬ (i = x ∧ j = y)) : setSlot critters x y z cr i j = critters i j := by
  funext c
  unfold setSlot
  rw [if_neg (fun hh => h ⟨hh.1, hh.2.1⟩)]

/-- The section under the mutex keeps the cell-aggregate invariant. -/
theorem place_aggregates (e : SettleInput) (r : NurseryRecord) (x y : Nat) (s : SettleState)
    (h : CellAggregates e.slotsPerSquare s.critters s.totalfit s.maxused) :
    CellAggregates e.slotsPerSquare (place e r x y s).critters (place e r x y s).totalfit
      (place e r x y s).maxused := by
  cases hf : firstEmpty e.slotsPerSquare (s.critters x y) with
  | none => rw [place_none e r x y s hf]; exact h
  | some m =>
    obtain ⟨hm, hdead, _⟩ := (firstEmpty_some _ _ m).mp hf
    obtain ⟨hfit, hmax⟩ := cell_after_set (s.critters x y) e.slotsPerSquare m
      (newcomer e r x y m s) hm hdead
    by_cases hal : (newcomer e r x y m s).age ≠ 0
    · rw [place_alive e r x y s m hf hal]
      intro i j
      dsimp only
      by_cases hij : i = x ∧ j = y
      · obtain ⟨rfl, rfl⟩ := hij
        rw [setSlot_cell, hfit, hmax, if_pos hal, if_pos hal, ← (h i j).1, ← (h i j).2]
        refine ⟨by simp [setCell], ?_⟩
        by_cases hgt : (m : Int) > s.maxused i j
        · rw [if_pos hgt]
          simp only [setCell, and_self, if_true]
          omega
        · rw [if_neg hgt]
          omega
      · rw [setSlot_other _ _ _ _ _ _ _ hij]
        refine ⟨by simp only [setCell, if_neg hij]; exact (h i j).1, ?_⟩
        by_cases hgt : (m : Int) > s.maxused x y
        · rw [if_pos hgt]
          simp only [setCell, if_neg hij]
          exact (h i j).2
        · rw [if_neg hgt]
          exact (h i j).2
    · have hal0 : (newcomer e r x y m s).age = 0 := by omega
      rw [place_dead e r x y s m hf hal0]
      intro i j
      dsimp only
      by_cases hij : i = x ∧ j = y
      · obtain ⟨rfl, rfl⟩ := hij
        rw [setSlot_cell, hfit, hmax, if_neg hal, if_neg hal]
        exact ⟨by rw [(h i j).1]; omega, (h i j).2⟩
      · rw [setSlot_other _ _ _ _ _ _ _ hij]
        exact h i j

theorem placeAt_ok (e : SettleInput) (r : NurseryRecord) (x y : Nat) (s : SettleState)
    (hx : x < GRID_X) (hy : y < GRID_Y) :
    placeAt e r (x : Int) (y : Int) s = .ok (place e r x y s) := by
  unfold placeAt
  rw [if_neg (by omega)]
  simp

theorem settleOne_placed (e : SettleInput) (r : NurseryRecord) (draw : Nat × Nat)
    (s : SettleState) (x y cursor : Nat) (hx : x < GRID_X) (hy : y < GRID_Y)
    (ht : targetOf e r draw s.nextrandom = .ok (some ((x : Int), (y : Int)), cursor)) :
    settleOne e r draw s = .ok (place e r x y { s with nextrandom := cursor }) := by
  unfold settleOne
  rw [ht]
  exact placeAt_ok e r x y _ hx hy

/-! ## Settlement -/

/-- C23 (settlement slot choice, lines 659-680 and 609-630): for every offspring whose
target cell `(x, y)` has a slot with age 0 among `0 .. slotsPerSquare - 1`, the settling
returns, the offspring is initialised in the lowest such slot `m0`, and every other slot of
that cell and of every other cell is as it was, as are the aggregates and the counters of
every other cell. -/
theorem C23_lowest_empty_slot (e : SettleInput) (r : NurseryRecord) (draw : Nat × Nat)
    (s : SettleState) (x y cursor : Nat) (hx : x < GRID_X) (hy : y < GRID_Y)
    (ht : targetOf e r draw s.nextrandom = .ok (some ((x : Int), (y : Int)), cursor))
    (hempty : ∃ m, m < e.slotsPerSquare ∧ (s.critters x y m).age = 0) :
    ∃ s' m0, settleOne e r draw s = .ok s' ∧
      m0 < e.slotsPerSquare ∧ (s.critters x y m0).age = 0 ∧
      (∀ j, j < m0 → (s.critters x y j).age ≠ 0) ∧
      s'.critters x y m0
        = e.initialise r.genome (cellEnvironment e.environment x y) x y m0 r.species
            (s.critters x y m0) ∧
      (∀ i j k, ¬ (i = x ∧ j = y ∧ k = m0) → s'.critters i j k = s.critters i j k) ∧
      (∀ i j, ¬ (i = x ∧ j = y) →
        s'.totalfit i j = s.totalfit i j ∧ s'.maxused i j = s.maxused i j ∧
        s'.settles i j = s.settles i j ∧ s'.settlefails i j = s.settlefails i j) := by
  obtain ⟨m0, hf⟩ := firstEmpty_of_exists _ _ hempty
  obtain ⟨h1, h2, h3⟩ := (firstEmpty_some _ _ m0).mp hf
  have hf2 : firstEmpty e.slotsPerSquare
      (({ s with nextrandom := cursor } : SettleState).critters x y) = some m0 := hf
  refine ⟨_, m0, settleOne_placed e r draw s x y cursor hx hy ht, h1, h2, h3, ?_, ?_, ?_⟩
  · by_cases hal : (newcomer e r x y m0 { s with nextrandom := cursor }).age ≠ 0
    · rw [place_alive e r x y { s with nextrandom := cursor } m0 hf2 hal]
      simp [setSlot, newcomer]
    · rw [place_dead e r x y { s with nextrandom := cursor } m0 hf2 (by omega)]
      simp [setSlot, newcomer]
  · intro i j k hne
    by_cases hal : (newcomer e r x y m0 { s with nextrandom := cursor }).age ≠ 0
    · rw [place_alive e r x y { s with nextrandom := cursor } m0 hf2 hal]
      simp only [setSlot, if_neg hne]
    · rw [place_dead e r x y { s with nextrandom := cursor } m0 hf2 (by omega)]
      simp only [setSlot, if_neg hne]
  · intro i j hne
    by_cases hal : (newcomer e r x y m0 { s with nextrandom := cursor }).age ≠ 0
    · rw [place_alive e r x y { s with nextrandom := cursor } m0 hf2 hal]
      dsimp only
      refine ⟨by simp only [setCell, if_neg hne], ?_, by simp only [setCell, if_neg hne], rfl⟩
      split_ifs
      · simp only [setCell, if_neg hne]
      · rfl
    · rw [place_dead e r x y { s with nextrandom := cursor } m0 hf2 (by omega)]
      exact ⟨rfl, rfl, rfl, by simp only [setCell, if_neg hne]⟩

/-- C23, at an input: the offspring aimed at the cell `(0, 0)`, whose slot 0 is taken, is
initialised in the slot 1. -/
theorem C23_lowest_empty_slot_witness :
    ∃ s' m0, settleOne sampleInput (offspringAt 4 3) (0, 0) sampleState = .ok s' ∧
      m0 < 3 ∧ (sampleState.critters 0 0 m0).age = 0 ∧
      (∀ j, j < m0 → (sampleState.critters 0 0 j).age ≠ 0) ∧
      s'.critters 0 0 m0
        = sampleInit 4 (0, 0, 0) 0 0 m0 2 (sampleState.critters 0 0 m0) ∧
      (∀ i j k, ¬ (i = 0 ∧ j = 0 ∧ k = m0) →
        s'.critters i j k = sampleState.critters i j k) ∧
      (∀ i j, ¬ (i = 0 ∧ j = 0) →
        s'.totalfit i j = sampleState.totalfit i j ∧
        s'.maxused i j = sampleState.maxused i j ∧
        s'.settles i j = sampleState.settles i j ∧
        s'.settlefails i j = sampleState.settlefails i j) :=
  C23_lowest_empty_slot sampleInput (offspringAt 4 3) (0, 0) sampleState 0 0 2
    (by decide) (by decide) (by decide) ⟨1, by decide, by decide⟩

/-- C24 (settlement keeps the cell-aggregate invariant, lines 659-680), as the code has it:
when every cell has `totalfit` equal to the sum of the fitness over its alive slots and
`maxused` equal to its largest alive slot (or -1) before one offspring is settled, every
cell has so after it, whatever `initialise` does; and for an offspring whose target cell
`(x, y)` has the first empty slot `m0` the settling returns, and when the newcomer is alive
(line 669) `totalfit` of the cell grows by its fitness and `settles` of the cell and the
birth count grow by one, and when it is not, `settlefails` of the cell and the count of
tries of line 660 grow by one while `totalfit`, `maxused`, `settles`, the birth count and
the settle count stay. -/
theorem C24_settlement_keeps_aggregates (e : SettleInput) (r : NurseryRecord)
    (draw : Nat × Nat) (s : SettleState)
    (h : CellAggregates e.slotsPerSquare s.critters s.totalfit s.maxused) :
    (∀ s', settleOne e r draw s = .ok s' →
      CellAggregates e.slotsPerSquare s'.critters s'.totalfit s'.maxused) ∧
    (∀ x y cursor m0, x < GRID_X → y < GRID_Y →
      targetOf e r draw s.nextrandom = .ok (some ((x : Int), (y : Int)), cursor) →
      firstEmpty e.slotsPerSquare (s.critters x y) = some m0 →
      ∃ s', settleOne e r draw s = .ok s' ∧
        ((newcomer e r x y m0 s).age ≠ 0 →
          s'.totalfit x y = s.totalfit x y + (newcomer e r x y m0 s).fitness ∧
          s'.settles x y = s.settles x y + 1 ∧
          s'.birthcounts_local = s.birthcounts_local + 1 ∧
          s'.settlefails = s.settlefails) ∧
        ((newcomer e r x y m0 s).age = 0 →
          s'.settlefails x y = s.settlefails x y + 1 ∧
          (∀ i j, ¬ (i = x ∧ j = y) → s'.settlefails i j = s.settlefails i j) ∧
          s'.totalfit = s.totalfit ∧ s'.maxused = s.maxused ∧ s'.settles = s.settles ∧
          s'.birthcounts_local = s.birthcounts_local ∧
          s'.settlecount_local = s.settlecount_local ∧
          s'.trycount_local = s.trycount_local + 1)) := by
  constructor
  · intro s' hs
    unfold settleOne at hs
    cases ht : targetOf e r draw s.nextrandom with
    | error f => rw [ht] at hs; cases hs
    | ok p =>
      obtain ⟨t, cursor⟩ := p
      rw [ht] at hs
      cases t with
      | none =>
        cases hs
        exact h
      | some xy =>
        obtain ⟨x, y⟩ := xy
        dsimp only at hs
        unfold placeAt at hs
        split_ifs at hs
        cases hs
        exact place_aggregates e r x.toNat y.toNat { s with nextrandom := cursor } h
  · intro x y cursor m0 hx hy ht hf
    refine ⟨_, settleOne_placed e r draw s x y cursor hx hy ht, ?_, ?_⟩
    · intro hal
      rw [place_alive e r x y { s with nextrandom := cursor } m0 hf hal]
      refine ⟨by simp [setCell, newcomer], by simp [setCell], rfl, rfl⟩
    · intro hal
      rw [place_dead e r x y { s with nextrandom := cursor } m0 hf hal]
      refine ⟨by simp [setCell], ?_, rfl, rfl, rfl, rfl, rfl, rfl⟩
      intro i j hij
      simp only [setCell, if_neg hij]

/-- The example grid satisfies the cell-aggregate invariant. -/
theorem sampleState_aggregates :
    CellAggregates 3 sampleState.critters sampleState.totalfit sampleState.maxused := by
  intro x y
  by_cases hxy : x = 0 ∧ y = 0
  · obtain ⟨rfl, rfl⟩ := hxy
    decide
  · have hc : sampleState.critters x y = fun _ => deadCritter := by
      funext z
      simp only [sampleState]
      rw [if_neg (fun hh => hxy ⟨hh.1, hh.2.1⟩)]
    rw [hc]
    simp only [sampleState, if_neg hxy]
    decide

/-- C24, at an input: settling a viable offspring in the example grid keeps the invariant
and adds its fitness 2 to the total of the cell `(0, 0)`. -/
theorem C24_settlement_keeps_aggregates_witness :
    (∀ s', settleOne sampleInput (offspringAt 4 3) (0, 0) sampleState = .ok s' →
      CellAggregates 3 s'.critters s'.totalfit s'.maxused) ∧
    (∃ s', settleOne sampleInput (offspringAt 4 3) (0, 0) sampleState = .ok s' ∧
      s'.totalfit 0 0 = 5 ∧ s'.settles 0 0 = 1 ∧ s'.birthcounts_local = 1) := by
  have h := C24_settlement_keeps_aggregates sampleInput (offspringAt 4 3) (0, 0) sampleState
    sampleState_aggregates
  refine ⟨h.1, ?_⟩
  obtain ⟨s', hs, hal, _⟩ := h.2 0 0 2 1 (by decide) (by decide) (by decide) (by decide)
  obtain ⟨h1, h2, h3, _⟩ := hal (by decide)
  exact ⟨s', hs, by rw [h1]; decide, by rw [h2]; decide, by rw [h3]; decide⟩

/-- C24 as it was stated fails: for the offspring with the genome 7, which is not viable,
aimed at the cell `(0, 0)` of the example grid, `settlefails` of the cell is not the only
counter that grows: the count of tries grows by one as well. -/
theorem C24_only_settlefails_counterexample :
    (newcomer sampleInput (offspringAt 7 3) 0 0 1 sampleState).age = 0 ∧
    ∃ s', settleOne sampleInput (offspringAt 7 3) (0, 0) sampleState = .ok s' ∧
      s'.settlefails 0 0 = sampleState.settlefails 0 0 + 1 ∧
      s'.trycount_local = sampleState.trycount_local + 1 := by
  refine ⟨by decide, _, settleOne_placed sampleInput (offspringAt 7 3) (0, 0) sampleState 0 0 2
    (by decide) (by decide) (by decide), by decide, by decide⟩

/-- C25 (bounded spatial settlement, lines 634-682), as the code has it: in the spatial mode
without wrap-around, an offspring whose target (origin plus displacement over the dispersal
index) lies outside `[0, gridX) x [0, gridY)` is dropped by the `continue` of lines 653-656:
the settling returns and nothing but the cursor of `Rand8` has moved, so no critter slot, no
cell aggregate and no counter is written, `settlefails` and the count of tries included; and
a target that is kept lies inside the grid, so nothing settles at `x < 0` or `y < 0`. -/
theorem C25_off_grid_is_dropped (e : SettleInput) (r : NurseryRecord) (draw : Nat × Nat)
    (s : SettleState) (hsp : e.nonspatial = false) (htor : e.toroidal = false)
    (hd : r.Disp ≠ 0) :
    ((rawTarget e r s.nextrandom).1 < 0 ∨ (e.gridX : Int) ≤ (rawTarget e r s.nextrandom).1 ∨
        (rawTarget e r s.nextrandom).2 < 0 ∨ (e.gridY : Int) ≤ (rawTarget e r s.nextrandom).2 →
      settleOne e r draw s
        = .ok { s with nextrandom := (Rand8 e.randoms (Rand8 e.randoms s.nextrandom).2).2 }) ∧
    (∀ x y cursor, targetOf e r draw s.nextrandom = .ok (some (x, y), cursor) →
      0 ≤ x ∧ x < (e.gridX : Int) ∧ 0 ≤ y ∧ y < (e.gridY : Int)) := by
  have ht : targetOf e r draw s.nextrandom = spatialTarget e r s.nextrandom := by
    unfold targetOf
    rw [hsp]
    rfl
  constructor
  · intro hout
    unfold settleOne
    rw [ht]
    unfold spatialTarget
    simp only [if_neg hd, htor, Bool.false_eq_true, if_false]
    by_cases h1 : (rawTarget e r s.nextrandom).1 < 0
    · rw [if_pos h1]
    · rw [if_neg h1]
      by_cases h2 : (rawTarget e r s.nextrandom).1 ≥ (e.gridX : Int)
      · rw [if_pos h2]
      · rw [if_neg h2]
        by_cases h3 : (rawTarget e r s.nextrandom).2 < 0
        · rw [if_pos h3]
        · rw [if_neg h3]
          by_cases h4 : (rawTarget e r s.nextrandom).2 ≥ (e.gridY : Int)
          · rw [if_pos h4]
          · exfalso
            omega
  · intro x y cursor hxy
    rw [ht] at hxy
    unfold spatialTarget at hxy
    simp only [if_neg hd, htor, Bool.false_eq_true, if_false] at hxy
    split_ifs at hxy with h1 h2 h3 h4 <;>
      simp only [Except.ok.injEq, Prod.mk.injEq, Option.some.injEq, reduceCtorEq,
        false_and] at hxy
    obtain ⟨⟨rfl, rfl⟩, _⟩ := hxy
    omega

/-- C25, at an input: the offspring launched from the cell `(0, 0)` of the example grid is
sent to the column -3 and dropped. -/
theorem C25_off_grid_is_dropped_witness :
    settleOne sampleInput (offspringAt 4 0) (0, 0) sampleState
      = .ok { sampleState with nextrandom := 2 } :=
  (C25_off_grid_is_dropped sampleInput (offspringAt 4 0) (0, 0) sampleState rfl rfl
    (by decide)).1 (Or.inl (by decide))

/-- C25 as it was stated fails: the offspring launched from the cell `(0, 0)` of the example
grid has its target at the column -3, outside the grid, and the settling leaves
`settlefails` of every cell as it was (and every other counter too). -/
theorem C25_off_grid_counterexample :
    (rawTarget sampleInput (offspringAt 4 0) sampleState.nextrandom).1 < 0 ∧
    ∃ s', settleOne sampleInput (offspringAt 4 0) (0, 0) sampleState = .ok s' ∧
      s'.settlefails = sampleState.settlefails ∧
      s'.trycount_local = sampleState.trycount_local ∧
      s'.critters = sampleState.critters := by
  refine ⟨by decide, { sampleState with nextrandom := 2 }, ?_, rfl, rfl, rfl⟩
  unfold settleOne
  rfl

/-! ## `setupRun`: the reset, the founder and the filling of the seeded cell -/

theorem killAll_reset (m : Manager) : IsReset m (killAll m) := by
  refine ⟨rfl, rfl, rfl, rfl, rfl, ?_, ?_, ?_⟩
  · intro x y c hx hy hc
    simp [killAll, hx, hy, hc]
  · intro x y hx hy
    simp [killAll, hx, hy]
  · intro x y hx hy
    simp [killAll, hx, hy]

theorem killAll_reset_again (m m1 : Manager) (h : IsReset m m1) : IsReset m (killAll m1) := by
  refine ⟨h.gridX, h.gridY, h.slots, h.environment, rfl, ?_, ?_, ?_⟩
  · intro x y c hx hy hc
    simp [killAll, h.gridX, h.gridY, h.slots, hx, hy, hc]
  · intro x y hx hy
    simp [killAll, h.gridX, h.gridY, hx, hy]
  · intro x y hx hy
    simp [killAll, h.gridX, h.gridY, hx, hy]

theorem initialise_viable (fitnessOf : Nat → Nat × Nat × Nat → Nat) (startAge : Nat)
    (energyOf : Nat → Int) (g : Nat) (env : Nat × Nat × Nat) (x y z species : Nat)
    (cr : Critter) (h : 0 < fitnessOf g env) :
    initialise fitnessOf startAge energyOf g env x y z species cr
      = { genome := g, age := startAge, energy := energyOf (fitnessOf g env),
          fitness := fitnessOf g env, speciesID := species } := by
  unfold initialise
  rw [if_neg (by omega)]

theorem initialise_not_viable (fitnessOf : Nat → Nat × Nat × Nat → Nat) (startAge : Nat)
    (energyOf : Nat → Int) (g : Nat) (env : Nat × Nat × Nat) (x y z species : Nat)
    (cr : Critter) (h : fitnessOf g env = 0) :
    initialise fitnessOf startAge energyOf g env x y z species cr
      = { cr with fitness := 0, age := 0 } := by
  unfold initialise
  rw [if_pos h]

/-- An `initialise` with a genome that is not viable leaves a slot that is dead with the
fitness 0 as it is. -/
theorem initialiseSlot_not_viable (fitnessOf : Nat → Nat × Nat × Nat → Nat) (startAge : Nat)
    (energyOf : Nat → Int) (g n k c : Nat) (m : Manager)
    (h : fitnessOf g (cellEnvironment m.sim.environment n k) = 0)
    (hage : (m.sim.critters n k c).age = 0) (hfit : (m.sim.critters n k c).fitness = 0) :
    initialiseSlot (initialise fitnessOf startAge energyOf) g n k c m = m := by
  have hc : setSlot m.sim.critters n k c
      (initialise fitnessOf startAge energyOf g (cellEnvironment m.sim.environment n k) n k c
        m.sim.nextSpeciesID (m.sim.critters n k c)) = m.sim.critters := by
    funext x y z
    unfold setSlot
    split_ifs with hxyz
    · obtain ⟨rfl, rfl, rfl⟩ := hxyz
      rw [initialise_not_viable _ _ _ _ _ _ _ _ _ _ h]
      cases hcr : m.sim.critters x y z with
      | mk genome age energy fitness speciesID =>
        rw [hcr] at hage hfit
        simp only at hage hfit
        simp [hage, hfit]
    · rfl
  unfold initialiseSlot
  rw [hc]

theorem founderLoop_finds (fitnessOf : Nat → Nat × Nat × Nat → Nat) (startAge : Nat)
    (energyOf : Nat → Int) (genomes : Nat → Nat) (n k : Nat) (m : Manager)
    (hage : (m.sim.critters n k 0).age = 0) (hfit : (m.sim.critters n k 0).fitness = 0) :
    ∀ (d fuel drawn : Nat), d < fuel →
      (∀ j, j < d → fitnessOf (genomes (drawn + j)) (cellEnvironment m.sim.environment n k) = 0) →
      0 < fitnessOf (genomes (drawn + d)) (cellEnvironment m.sim.environment n k) →
      founderLoop (initialise fitnessOf startAge energyOf) genomes n k fuel drawn m
        = .ok (initialiseSlot (initialise fitnessOf startAge energyOf) (genomes (drawn + d))
            n k 0 m) := by
  intro d
  induction d with
  | zero =>
    intro fuel drawn hfuel _ hv
    obtain ⟨fuel, rfl⟩ : ∃ t, fuel = t + 1 := ⟨fuel - 1, by omega⟩
    rw [founderLoop, if_pos (by omega)]
    have hfit2 : ¬ ((initialiseSlot (initialise fitnessOf startAge energyOf) (genomes drawn)
        n k 0 m).sim.critters n k 0).fitness < 1 := by
      simp only [initialiseSlot, setSlot, and_self, if_true]
      rw [initialise_viable _ _ _ _ _ _ _ _ _ _ (by simpa using hv)]
      simp only
      have := hv
      simp only [Nat.add_zero] at this
      omega
    cases fuel with
    | zero => rw [founderLoop, if_neg hfit2]; rfl
    | succ t => rw [founderLoop, if_neg hfit2]; rfl
  | succ d ih =>
    intro fuel drawn hfuel hnv hv
    obtain ⟨fuel, rfl⟩ : ∃ t, fuel = t + 1 := ⟨fuel - 1, by omega⟩
    rw [founderLoop, if_pos (by omega)]
    have h0 := hnv 0 (by omega)
    simp only [Nat.add_zero] at h0
    rw [initialiseSlot_not_viable _ _ _ _ _ _ _ _ h0 hage hfit]
    have := ih fuel (drawn + 1) (by omega)
      (fun j hj => by
        have := hnv (j + 1) (by omega)
        rwa [show drawn + (j + 1) = drawn + 1 + j by omega] at this)
      (by rwa [show drawn + (d + 1) = drawn + 1 + d by omega] at hv)
    rw [this, show drawn + 1 + d = drawn + (d + 1) by omega]

theorem fillSlot_viable (fitnessOf : Nat → Nat × Nat × Nat → Nat) (startAge : Nat)
    (energyOf : Nat → Int) (randoms : Nat → Nat) (g n k c : Nat) (m : Manager)
    (hage : 0 < startAge) (hv : 0 < fitnessOf g (cellEnvironment m.sim.environment n k)) :
    fillSlot (initialise fitnessOf startAge energyOf) randoms g n k m c =
      { m with
        sim := { m.sim with
          critters := setSlot m.sim.critters n k c
            { genome := g
              age := startAge / ((Rand8 randoms m.nextrandom).1 / 10 + 1) + 10
              energy := energyOf (fitnessOf g (cellEnvironment m.sim.environment n k))
              fitness := fitnessOf g (cellEnvironment m.sim.environment n k)
              speciesID := m.sim.nextSpeciesID }
          totalFitness := setCell m.sim.totalFitness n k
            (m.sim.totalFitness n k + fitnessOf g (cellEnvironment m.sim.environment n k)) }
        nextrandom := (Rand8 randoms m.nextrandom).2
        aliveCount := m.aliveCount + 1
        maxused := setCell m.maxused n k (c : Int) } := by
  have hcr : (initialiseSlot (initialise fitnessOf startAge energyOf) g n k c m).sim.critters
      n k c = { genome := g, age := startAge,
                energy := energyOf (fitnessOf g (cellEnvironment m.sim.environment n k)),
                fitness := fitnessOf g (cellEnvironment m.sim.environment n k),
                speciesID := m.sim.nextSpeciesID } := by
    simp only [initialiseSlot, setSlot, and_self, if_true]
    exact initialise_viable _ _ _ _ _ _ _ _ _ _ hv
  unfold fillSlot
  simp only [hcr]
  rw [if_pos hage]
  have hs : setSlot (initialiseSlot (initialise fitnessOf startAge energyOf) g n k c
      m).sim.critters n k c
        { genome := g
          age := startAge / ((Rand8 randoms m.nextrandom).1 / 10 + 1) + 10
          energy := energyOf (fitnessOf g (cellEnvironment m.sim.environment n k))
          fitness := fitnessOf g (cellEnvironment m.sim.environment n k)
          speciesID := m.sim.nextSpeciesID }
      = setSlot m.sim.critters n k c
        { genome := g
          age := startAge / ((Rand8 randoms m.nextrandom).1 / 10 + 1) + 10
          energy := energyOf (fitnessOf g (cellEnvironment m.sim.environment n k))
          fitness := fitnessOf g (cellEnvironment m.sim.environment n k)
          speciesID := m.sim.nextSpeciesID } := by
    funext x y z
    simp only [setSlot, initialiseSlot]
    split_ifs <;> rfl
  rw [hs]
  rfl

theorem fill_step (fitnessOf : Nat → Nat × Nat × Nat → Nat) (startAge : Nat)
    (energyOf : Nat → Int) (randoms : Nat → Nat) (b m' : Manager) (n k j g f : Nat)
    (hage : 0 < startAge) (hf : f = fitnessOf g (cellEnvironment b.sim.environment n k))
    (hv : 0 < f) (h : IsFilled b m' n k j g f) :
    IsFilled b (fillSlot (initialise fitnessOf startAge energyOf) randoms g n k m' (j + 1))
      n k (j + 1) g f := by
  have hv2 : 0 < fitnessOf g (cellEnvironment m'.sim.environment n k) := by
    rw [h.environment, ← hf]; exact hv
  have hf2 : fitnessOf g (cellEnvironment m'.sim.environment n k) = f := by
    rw [h.environment, ← hf]
  rw [fillSlot_viable _ _ _ _ _ _ _ _ _ hage hv2]
  refine ⟨h.gridX, h.gridY, h.slots, h.environment, h.nextid, ?_, ?_, ?_, ?_, ?_, ?_, ?_⟩
  · intro c hc1 hc2
    by_cases hc : c = j + 1
    · subst hc
      have hslot : ∀ (cr : Critter), setSlot m'.sim.critters n k (j + 1) cr n k (j + 1) = cr := by
        intro cr
        simp [setSlot]
      show (setSlot m'.sim.critters n k (j + 1) _ n k (j + 1)).age > 0 ∧
        (setSlot m'.sim.critters n k (j + 1) _ n k (j + 1)).genome = g ∧
        (setSlot m'.sim.critters n k (j + 1) _ n k (j + 1)).speciesID = b.sim.nextSpeciesID ∧
        (setSlot m'.sim.critters n k (j + 1) _ n k (j + 1)).fitness = f
      rw [hslot]
      exact ⟨Nat.lt_of_lt_of_le (by decide : 0 < 10) (Nat.le_add_left _ _), rfl, h.nextid, hf2⟩
    · have hslot : ∀ (cr : Critter),
          setSlot m'.sim.critters n k (j + 1) cr n k c = m'.sim.critters n k c := by
        intro cr
        simp [setSlot, hc]
      show (setSlot m'.sim.critters n k (j + 1) _ n k c).age > 0 ∧
        (setSlot m'.sim.critters n k (j + 1) _ n k c).genome = g ∧
        (setSlot m'.sim.critters n k (j + 1) _ n k c).speciesID = b.sim.nextSpeciesID ∧
        (setSlot m'.sim.critters n k (j + 1) _ n k c).fitness = f
      rw [hslot]
      exact h.filled c hc1 (by omega)
  · intro x y c hne
    have hne2 : ¬ (x = n ∧ y = k ∧ c = j + 1) := fun hh => hne ⟨hh.1, hh.2.1, by omega, by omega⟩
    simp only [setSlot, if_neg hne2]
    exact h.rest x y c (fun hh => hne ⟨hh.1, hh.2.1, hh.2.2.1, by omega⟩)
  · show m'.aliveCount + 1 = b.aliveCount + ((j + 1 : Nat) : Int)
    rw [h.aliveCount]
    push_cast
    omega
  · simp only [setCell, and_self, if_true]
    rw [h.totalfit, hf2]
    ring
  · intro x y hne
    simp only [setCell, if_neg hne]
    exact h.totalfit_rest x y hne
  · simp only [setCell, and_self, if_true]
    rw [if_neg (by omega)]
  · intro x y hne
    simp only [setCell, if_neg hne]
    exact h.maxused_rest x y hne

theorem fill_start (b : Manager) (n k g f : Nat) : IsFilled b b n k 0 g f := by
  refine ⟨rfl, rfl, rfl, rfl, rfl, ?_, fun _ _ _ _ => rfl, by simp, by simp,
    fun _ _ _ => rfl, by simp, fun _ _ _ => rfl⟩
  intro c h1 h2
  omega

theorem fill_loop (fitnessOf : Nat → Nat × Nat × Nat → Nat) (startAge : Nat)
    (energyOf : Nat → Int) (randoms : Nat → Nat) (b : Manager) (n k g f : Nat)
    (hage : 0 < startAge) (hf : f = fitnessOf g (cellEnvironment b.sim.environment n k))
    (hv : 0 < f) (t : Nat) :
    IsFilled b ((List.range' 1 t).foldl
      (fillSlot (initialise fitnessOf startAge energyOf) randoms g n k) b) n k t g f := by
  induction t with
  | zero => exact fill_start b n k g f
  | succ t ih =>
    rw [List.range'_concat, List.foldl_append]
    simp only [List.foldl_cons, List.foldl_nil]
    rw [show 1 + 1 * t = t + 1 by omega]
    exact fill_step _ _ _ _ _ _ _ _ _ _ _ hage hf hv ih

theorem fillAndLog_seeded (fitnessOf : Nat → Nat × Nat × Nat → Nat) (startAge : Nat)
    (energyOf : Nat → Int) (randoms : Nat → Nat) (m m1 : Manager) (g : Nat)
    (hX : 1 ≤ m.sim.gridX) (hY : 1 ≤ m.sim.gridY) (hS : 1 ≤ m.sim.slotsPerSquare)
    (hage : 0 < startAge) (hr : IsReset m m1)
    (hv : 0 < fitnessOf g
      (cellEnvironment m.sim.environment (m.sim.gridX / 2) (m.sim.gridY / 2))) :
    IsSeeded m
      (fillAndLog (initialise fitnessOf startAge energyOf) randoms (m.sim.gridX / 2)
        (m.sim.gridY / 2)
        (initialiseSlot (initialise fitnessOf startAge energyOf) g (m.sim.gridX / 2)
          (m.sim.gridY / 2) 0 m1))
      g (fitnessOf g (cellEnvironment m.sim.environment (m.sim.gridX / 2) (m.sim.gridY / 2))) := by
  generalize hn : m.sim.gridX / 2 = n at *
  generalize hk : m.sim.gridY / 2 = k at *
  generalize hfdef : fitnessOf g (cellEnvironment m.sim.environment n k) = f at *
  have hnlt : n < m.sim.gridX := by rw [← hn]; exact Nat.div_lt_self (by omega) (by decide)
  have hklt : k < m.sim.gridY := by rw [← hk]; exact Nat.div_lt_self (by omega) (by decide)
  -- the founder
  have hfounder : (initialiseSlot (initialise fitnessOf startAge energyOf) g n k 0
      m1).sim.critters n k 0
        = { genome := g, age := startAge, energy := energyOf f, fitness := f,
            speciesID := 1 } := by
    simp only [initialiseSlot, setSlot, and_self, if_true]
    rw [initialise_viable _ _ _ _ _ _ _ _ _ _ (by rw [hr.environment, hfdef]; exact hv),
      hr.environment, hfdef, hr.nextid]
  have hother : ∀ x y c, ¬ (x = n ∧ y = k ∧ c = 0) →
      (initialiseSlot (initialise fitnessOf startAge energyOf) g n k 0 m1).sim.critters x y c
        = m1.sim.critters x y c := by
    intro x y c hne
    simp only [initialiseSlot, setSlot, if_neg hne]
  -- the state that the loop starts from
  generalize hF : initialiseSlot (initialise fitnessOf startAge energyOf) g n k 0 m1 = mF
    at hfounder hother ⊢
  have hFsim : mF.sim.gridX = m.sim.gridX ∧ mF.sim.gridY = m.sim.gridY ∧
      mF.sim.slotsPerSquare = m.sim.slotsPerSquare ∧ mF.sim.environment = m.sim.environment ∧
      mF.sim.nextSpeciesID = 1 ∧ mF.sim.totalFitness = m1.sim.totalFitness ∧
      mF.maxused = m1.maxused ∧ mF.aliveCount = m1.aliveCount := by
    rw [← hF]
    exact ⟨hr.gridX, hr.gridY, hr.slots, hr.environment, hr.nextid, rfl, rfl, rfl⟩
  obtain ⟨hFx, hFy, hFs, hFe, hFid, hFt, hFm, _⟩ := hFsim
  have hfill := fill_loop fitnessOf startAge energyOf randoms
    { mF with
      sim := { mF.sim with
        totalFitness := setCell mF.sim.totalFitness n k (mF.sim.critters n k 0).fitness }
      aliveCount := 1 } n k g f hage
    (by show f = fitnessOf g (cellEnvironment mF.sim.environment n k); rw [hFe, hfdef])
    hv (mF.sim.slotsPerSquare - 1)
  unfold fillAndLog
  simp only [hfounder] at hfill ⊢
  generalize hm2 : (List.range' 1 (mF.sim.slotsPerSquare - 1)).foldl
    (fillSlot (initialise fitnessOf startAge energyOf) randoms g n k)
    { mF with
      sim := { mF.sim with totalFitness := setCell mF.sim.totalFitness n k f }
      aliveCount := 1 } = m2 at hfill ⊢
  have halive : m2.aliveCount = (m.sim.slotsPerSquare : Int) := by
    rw [hfill.aliveCount]
    show (1 : Int) + ((mF.sim.slotsPerSquare - 1 : Nat) : Int) = _
    rw [hFs]
    omega
  refine ⟨?_, ?_, ?_, ?_, ?_, halive, ?_, ?_, ?_, ?_, ?_⟩
  · show m2.sim.gridX = _
    rw [hfill.gridX]; exact hFx
  · show m2.sim.gridY = _
    rw [hfill.gridY]; exact hFy
  · show m2.sim.slotsPerSquare = _
    rw [hfill.slots]; exact hFs
  · intro c hc
    rw [hn, hk]
    show (m2.sim.critters n k c).age > 0 ∧ (m2.sim.critters n k c).genome = g ∧
      (m2.sim.critters n k c).speciesID = 1 ∧ (m2.sim.critters n k c).fitness = f
    by_cases hc0 : c = 0
    · subst hc0
      rw [hfill.rest n k 0 (by omega)]
      show (mF.sim.critters n k 0).age > 0 ∧ (mF.sim.critters n k 0).genome = g ∧
        (mF.sim.critters n k 0).speciesID = 1 ∧ (mF.sim.critters n k 0).fitness = f
      rw [hfounder]
      exact ⟨hage, rfl, rfl, rfl⟩
    · obtain ⟨h1, h2, h3, h4⟩ := hfill.filled c (by omega) (by rw [hFs]; omega)
      exact ⟨h1, h2, by rw [h3]; exact hFid, h4⟩
  · intro x y c hx hy hc hne
    rw [hn, hk] at hne
    show (m2.sim.critters x y c).age = 0
    rw [hfill.rest x y c (fun hh => hne ⟨hh.1, hh.2.1⟩)]
    show (mF.sim.critters x y c).age = 0
    rw [hother x y c (fun hh => hne ⟨hh.1, hh.2.1⟩)]
    exact (hr.dead x y c hx hy hc).1
  · rw [hn, hk]
    show m2.sim.totalFitness n k = _
    rw [hfill.totalfit]
    show setCell mF.sim.totalFitness n k f n k + (mF.sim.slotsPerSquare - 1) * f = _
    simp only [setCell, and_self, if_true]
    rw [hFs]
    obtain ⟨t, ht⟩ : ∃ t, m.sim.slotsPerSquare = t + 1 := ⟨m.sim.slotsPerSquare - 1, by omega⟩
    rw [ht]
    simp only [Nat.add_sub_cancel]
    ring
  · intro x y hx hy hne
    rw [hn, hk] at hne
    show m2.sim.totalFitness x y = 0
    rw [hfill.totalfit_rest x y hne]
    show setCell mF.sim.totalFitness n k f x y = 0
    simp only [setCell, if_neg hne]
    rw [hFt]
    exact hr.totalfit x y hx hy
  · rw [hn, hk]
    show m2.maxused n k = _
    rw [hfill.maxused]
    show (if mF.sim.slotsPerSquare - 1 = 0 then mF.maxused n k
      else ((mF.sim.slotsPerSquare - 1 : Nat) : Int)) = _
    rw [hFs, hFm, hr.maxused n k hnlt hklt]
    by_cases h1 : m.sim.slotsPerSquare = 1
    · rw [if_pos (by omega), if_pos h1]
    · rw [if_neg (by omega), if_neg h1]
      omega
  · intro x y hx hy hne
    rw [hn, hk] at hne
    show m2.maxused x y = -1
    rw [hfill.maxused_rest x y hne]
    show mF.maxused x y = -1
    rw [hFm]
    exact hr.maxused x y hx hy
  · refine ⟨m2.sim, ?_⟩
    rw [hn, hk]
    show setupLog m2.sim n k m2.aliveCount.toNat = _
    rw [halive]
    rfl

theorem seedRandom_seeded (fitnessOf : Nat → Nat × Nat × Nat → Nat) (startAge : Nat)
    (energyOf : Nat → Int) (randoms genomes : Nat → Nat) (fuel : Nat) (m m1 : Manager)
    (g : Nat) (hX : 1 ≤ m.sim.gridX) (hY : 1 ≤ m.sim.gridY) (hS : 1 ≤ m.sim.slotsPerSquare)
    (hage : 0 < startAge) (hr : IsReset m m1)
    (hd : ∃ d, d < fuel ∧
      (∀ j, j < d → fitnessOf (genomes j)
        (cellEnvironment m.sim.environment (m.sim.gridX / 2) (m.sim.gridY / 2)) = 0) ∧
      0 < fitnessOf (genomes d)
        (cellEnvironment m.sim.environment (m.sim.gridX / 2) (m.sim.gridY / 2)) ∧
      g = genomes d) :
    ∃ m', seedRandom (initialise fitnessOf startAge energyOf) randoms genomes fuel m1 = .ok m' ∧
      IsSeeded m m' g
        (fitnessOf g (cellEnvironment m.sim.environment (m.sim.gridX / 2) (m.sim.gridY / 2))) := by
  obtain ⟨d, hdf, hnv, hv, rfl⟩ := hd
  have hnlt : m.sim.gridX / 2 < m.sim.gridX := Nat.div_lt_self (by omega) (by decide)
  have hklt : m.sim.gridY / 2 < m.sim.gridY := Nat.div_lt_self (by omega) (by decide)
  have hdead := hr.dead (m.sim.gridX / 2) (m.sim.gridY / 2) 0 hnlt hklt (by omega)
  have hloop := founderLoop_finds fitnessOf startAge energyOf genomes (m.sim.gridX / 2)
    (m.sim.gridY / 2) m1 hdead.1 hdead.2 d fuel 0 hdf
    (fun j hj => by rw [hr.environment, Nat.zero_add]; exact hnv j hj)
    (by rw [hr.environment, Nat.zero_add]; exact hv)
  rw [Nat.zero_add] at hloop
  unfold seedRandom
  rw [hr.gridX, hr.gridY, hloop]
  exact ⟨_, rfl, fillAndLog_seeded fitnessOf startAge energyOf randoms m m1 (genomes d)
    hX hY hS hage hr hv⟩

/-- The function `setupRun` returns when a founder is found, with what it leaves. -/
theorem setupRun_seeded (fitnessOf : Nat → Nat × Nat × Nat → Nat) (startAge : Nat)
    (energyOf : Nat → Int) (randoms genomes : Nat → Nat) (fuel : Nat) (m : Manager) (g : Nat)
    (hX : 1 ≤ m.sim.gridX) (hY : 1 ≤ m.sim.gridY) (hS : 1 ≤ m.sim.slotsPerSquare)
    (hage : 0 < startAge) (hfound : FounderIs fitnessOf genomes fuel m g) :
    ∃ m', setupRun (initialise fitnessOf startAge energyOf) randoms genomes fuel m = .ok m' ∧
      IsSeeded m m' g
        (fitnessOf g (cellEnvironment m.sim.environment (m.sim.gridX / 2) (m.sim.gridY / 2))) := by
  have hnlt : m.sim.gridX / 2 < m.sim.gridX := Nat.div_lt_self (by omega) (by decide)
  have hklt : m.sim.gridY / 2 < m.sim.gridY := Nat.div_lt_self (by omega) (by decide)
  have hr := killAll_reset m
  have hdead := hr.dead (m.sim.gridX / 2) (m.sim.gridY / 2) 0 hnlt hklt (by omega)
  unfold setupRun
  show ∃ m', (if m.reseedKnown = true then _ else _) = Except.ok m' ∧ _
  rcases hfound with ⟨hk, hv, rfl⟩ | ⟨hcase, hd⟩
  · rw [if_pos hk]
    have hfit : ¬ ((initialiseSlot (initialise fitnessOf startAge energyOf) m.reseedGenome
        (m.sim.gridX / 2) (m.sim.gridY / 2) 0 (killAll m)).sim.critters (m.sim.gridX / 2)
        (m.sim.gridY / 2) 0).fitness = 0 := by
      simp only [initialiseSlot, setSlot, and_self, if_true]
      rw [initialise_viable _ _ _ _ _ _ _ _ _ _ (by rw [hr.environment]; exact hv),
        hr.environment]
      simp only
      omega
    show ∃ m', (if ((initialiseSlot (initialise fitnessOf startAge energyOf) m.reseedGenome
        (m.sim.gridX / 2) (m.sim.gridY / 2) 0 (killAll m)).sim.critters (m.sim.gridX / 2)
        (m.sim.gridY / 2) 0).fitness = 0 then _ else _) = Except.ok m' ∧ _
    rw [if_neg hfit]
    exact ⟨_, rfl, fillAndLog_seeded fitnessOf startAge energyOf randoms m (killAll m)
      m.reseedGenome hX hY hS hage hr hv⟩
  · by_cases hk : m.reseedKnown = true
    · rw [if_pos hk]
      have hnv : fitnessOf m.reseedGenome
          (cellEnvironment m.sim.environment (m.sim.gridX / 2) (m.sim.gridY / 2)) = 0 := by
        rcases hcase with h | h
        · rw [hk] at h; cases h
        · exact h
      have hsame := initialiseSlot_not_viable fitnessOf startAge energyOf m.reseedGenome
        (m.sim.gridX / 2) (m.sim.gridY / 2) 0 (killAll m)
        (by rw [hr.environment]; exact hnv) hdead.1 hdead.2
      show ∃ m', (if ((initialiseSlot (initialise fitnessOf startAge energyOf) m.reseedGenome
          (m.sim.gridX / 2) (m.sim.gridY / 2) 0 (killAll m)).sim.critters (m.sim.gridX / 2)
          (m.sim.gridY / 2) 0).fitness = 0 then
            seedRandom (initialise fitnessOf startAge energyOf) randoms genomes fuel
              (killAll { initialiseSlot (initialise fitnessOf startAge energyOf) m.reseedGenome
                (m.sim.gridX / 2) (m.sim.gridY / 2) 0 (killAll m) with reseedKnown := false })
          else _) = Except.ok m' ∧ _
      rw [hsame, if_pos hdead.2]
      have hr2 : IsReset m (killAll { killAll m with reseedKnown := false }) :=
        killAll_reset_again m { killAll m with reseedKnown := false }
          ⟨hr.gridX, hr.gridY, hr.slots, hr.environment, hr.nextid, hr.dead, hr.totalfit,
            hr.maxused⟩
      exact seedRandom_seeded fitnessOf startAge energyOf randoms genomes fuel m _ g
        hX hY hS hage hr2 hd
    · rw [if_neg hk]
      exact seedRandom_seeded fitnessOf startAge energyOf randoms genomes fuel m _ g
        hX hY hS hage hr hd

theorem aliveSlots_all (k : Nat) (crit : Nat → Critter) (h : ∀ c, c < k → (crit c).age > 0) :
    aliveSlots k crit = List.range k := by
  unfold aliveSlots
  rw [List.filter_eq_self]
  intro c hc
  have := h c (List.mem_range.mp hc)
  simp only [decide_eq_true_eq]
  omega

theorem aliveSlots_none (k : Nat) (crit : Nat → Critter) (h : ∀ c, c < k → (crit c).age = 0) :
    aliveSlots k crit = [] := by
  unfold aliveSlots
  rw [List.filter_eq_nil_iff]
  intro c hc
  have := h c (List.mem_range.mp hc)
  simp [this]

theorem largestOr_range (k : Nat) : largestOr (List.range (k + 1)) = (k : Int) := by
  rw [List.range_succ, largestOr_append]
  have := largestOr_lt (List.range k) k (fun x hx => List.mem_range.mp hx)
  omega

theorem aliveFitness_all (k : Nat) (crit : Nat → Critter) (f : Nat)
    (h : ∀ c, c < k → (crit c).age > 0 ∧ (crit c).fitness = f) :
    aliveFitness k crit = k * f := by
  induction k with
  | zero => simp [aliveFitness, aliveSlots]
  | succ k ih =>
    rw [aliveFitness_succ, ih (fun c hc => h c (by omega))]
    have := h k (by omega)
    rw [if_pos (by omega), this.2]
    ring

theorem aliveFitness_none (k : Nat) (crit : Nat → Critter)
    (h : ∀ c, c < k → (crit c).age = 0) : aliveFitness k crit = 0 := by
  unfold aliveFitness
  rw [aliveSlots_none k crit h]
  rfl

/-! ## The state after `setupRun` -/

/-- C26 (solo viability, lines 399-464): after `setupRun` with a founder genome `g` that is
viable in the centre cell (`initialise` leaves it alive, `startAge > 0`, with a positive
fitness), for every `slotsPerSquare ≥ 1`: `setupRun` returns, every slot of the centre cell
`(gridX / 2, gridY / 2)` holds a live critter with the genome `g` and the species id 1, so
that the cell has exactly `slotsPerSquare` live critters, every slot of every other cell of
the grid is dead, and `aliveCount = slotsPerSquare`. The founder is the known genome, or
the first viable one of the drawn genomes. -/
theorem C26_solo_viability (fitnessOf : Nat → Nat × Nat × Nat → Nat) (startAge : Nat)
    (energyOf : Nat → Int) (randoms genomes : Nat → Nat) (fuel : Nat) (m : Manager) (g : Nat)
    (hX : 1 ≤ m.sim.gridX) (hY : 1 ≤ m.sim.gridY) (hS : 1 ≤ m.sim.slotsPerSquare)
    (hage : 0 < startAge) (hfound : FounderIs fitnessOf genomes fuel m g) :
    ∃ m', setupRun (initialise fitnessOf startAge energyOf) randoms genomes fuel m = .ok m' ∧
      m'.sim.gridX = m.sim.gridX ∧ m'.sim.gridY = m.sim.gridY ∧
      m'.sim.slotsPerSquare = m.sim.slotsPerSquare ∧
      (∀ c, c < m.sim.slotsPerSquare →
        (m'.sim.critters (m.sim.gridX / 2) (m.sim.gridY / 2) c).age > 0 ∧
        (m'.sim.critters (m.sim.gridX / 2) (m.sim.gridY / 2) c).genome = g ∧
        (m'.sim.critters (m.sim.gridX / 2) (m.sim.gridY / 2) c).speciesID = 1) ∧
      (aliveSlots m.sim.slotsPerSquare
        (m'.sim.critters (m.sim.gridX / 2) (m.sim.gridY / 2))).length = m.sim.slotsPerSquare ∧
      (∀ x y c, x < m.sim.gridX → y < m.sim.gridY → c < m.sim.slotsPerSquare →
        ¬ (x = m.sim.gridX / 2 ∧ y = m.sim.gridY / 2) → (m'.sim.critters x y c).age = 0) ∧
      m'.aliveCount = (m.sim.slotsPerSquare : Int) := by
  obtain ⟨m', hrun, hs⟩ := setupRun_seeded fitnessOf startAge energyOf randoms genomes fuel m g
    hX hY hS hage hfound
  refine ⟨m', hrun, hs.gridX, hs.gridY, hs.slots,
    fun c hc => ⟨(hs.centre c hc).1, (hs.centre c hc).2.1, (hs.centre c hc).2.2.1⟩, ?_,
    hs.others, hs.aliveCount⟩
  rw [aliveSlots_all _ _ (fun c hc => (hs.centre c hc).1), List.length_range]

/-- C26, at an input: a grid of 2 by 2 cells with 3 slots each, seeded with the known genome
6, has its 3 live critters in the cell `(1, 1)`. -/
theorem C26_solo_viability_witness :
    ∃ m', setupRun (initialise evenFit 15 (fun _ => 0)) (fun _ => 0) (fun _ => 0) 1
        (blankManager 3) = .ok m' ∧
      m'.sim.gridX = 2 ∧ m'.sim.gridY = 2 ∧ m'.sim.slotsPerSquare = 3 ∧
      (∀ c, c < 3 →
        (m'.sim.critters 1 1 c).age > 0 ∧ (m'.sim.critters 1 1 c).genome = 6 ∧
        (m'.sim.critters 1 1 c).speciesID = 1) ∧
      (aliveSlots 3 (m'.sim.critters 1 1)).length = 3 ∧
      (∀ x y c, x < 2 → y < 2 → c < 3 → ¬ (x = 1 ∧ y = 1) → (m'.sim.critters x y c).age = 0) ∧
      m'.aliveCount = 3 :=
  C26_solo_viability evenFit 15 (fun _ => 0) (fun _ => 0) (fun _ => 0) 1 (blankManager 3) 6
    (by decide) (by decide) (by decide) (by decide) (Or.inl ⟨rfl, by decide, rfl⟩)

/-- C27 (cell aggregates after `setupRun`, lines 406-464): after `setupRun` with a viable
founder, in every cell of the grid `totalfit` is the sum of the fitness over the alive
slots; `maxused` is the largest alive slot (or -1) in every cell but the centre one, and in
the centre cell when `slotsPerSquare ≥ 2`. With `slotsPerSquare = 1` the centre cell holds
the founder in its slot 0 while its `maxused` is still the -1 of the reset: the loop of
lines 454-464, which alone writes `maxused`, starts at the slot 1. -/
theorem C27_setup_aggregates (fitnessOf : Nat → Nat × Nat × Nat → Nat) (startAge : Nat)
    (energyOf : Nat → Int) (randoms genomes : Nat → Nat) (fuel : Nat) (m : Manager) (g : Nat)
    (hX : 1 ≤ m.sim.gridX) (hY : 1 ≤ m.sim.gridY) (hS : 1 ≤ m.sim.slotsPerSquare)
    (hage : 0 < startAge) (hfound : FounderIs fitnessOf genomes fuel m g) :
    ∃ m', setupRun (initialise fitnessOf startAge energyOf) randoms genomes fuel m = .ok m' ∧
      (∀ x y, x < m.sim.gridX → y < m.sim.gridY →
        m'.sim.totalFitness x y = aliveFitness m.sim.slotsPerSquare (m'.sim.critters x y)) ∧
      (∀ x y, x < m.sim.gridX → y < m.sim.gridY →
        ¬ (x = m.sim.gridX / 2 ∧ y = m.sim.gridY / 2) →
        m'.maxused x y = largestOr (aliveSlots m.sim.slotsPerSquare (m'.sim.critters x y))) ∧
      (2 ≤ m.sim.slotsPerSquare →
        m'.maxused (m.sim.gridX / 2) (m.sim.gridY / 2)
          = largestOr (aliveSlots m.sim.slotsPerSquare
              (m'.sim.critters (m.sim.gridX / 2) (m.sim.gridY / 2)))) ∧
      (m.sim.slotsPerSquare = 1 →
        (m'.sim.critters (m.sim.gridX / 2) (m.sim.gridY / 2) 0).age > 0 ∧
        m'.maxused (m.sim.gridX / 2) (m.sim.gridY / 2) = -1 ∧
        largestOr (aliveSlots m.sim.slotsPerSquare
          (m'.sim.critters (m.sim.gridX / 2) (m.sim.gridY / 2))) = 0) := by
  obtain ⟨m', hrun, hs⟩ := setupRun_seeded fitnessOf startAge energyOf randoms genomes fuel m g
    hX hY hS hage hfound
  have hall : aliveSlots m.sim.slotsPerSquare
      (m'.sim.critters (m.sim.gridX / 2) (m.sim.gridY / 2)) = List.range m.sim.slotsPerSquare :=
    aliveSlots_all _ _ (fun c hc => (hs.centre c hc).1)
  obtain ⟨t, ht⟩ : ∃ t, m.sim.slotsPerSquare = t + 1 := ⟨m.sim.slotsPerSquare - 1, by omega⟩
  refine ⟨m', hrun, ?_, ?_, ?_, ?_⟩
  · intro x y hx hy
    by_cases hc : x = m.sim.gridX / 2 ∧ y = m.sim.gridY / 2
    · obtain ⟨rfl, rfl⟩ := hc
      rw [hs.totalfit_centre, aliveFitness_all _ _ _
        (fun c hc => ⟨(hs.centre c hc).1, (hs.centre c hc).2.2.2⟩)]
    · rw [hs.totalfit_others x y hx hy hc,
        aliveFitness_none _ _ (fun c hcs => hs.others x y c hx hy hcs hc)]
  · intro x y hx hy hc
    rw [hs.maxused_others x y hx hy hc,
      aliveSlots_none _ _ (fun c hcs => hs.others x y c hx hy hcs hc)]
    rfl
  · intro h2
    rw [hs.maxused_centre, if_neg (by omega), hall, ht, largestOr_range]
    push_cast
    omega
  · intro h1
    rw [hs.maxused_centre, if_pos h1, hall, h1]
    exact ⟨(hs.centre 0 (by omega)).1, rfl, by decide⟩

/-- C27, at an input: on a grid whose cells have one slot, `setupRun` leaves the founder
alive in the slot 0 of the cell `(1, 1)` and `maxused` of that cell at -1. -/
theorem C27_setup_aggregates_witness :
    ∃ m', setupRun (initialise evenFit 15 (fun _ => 0)) (fun _ => 0) (fun _ => 0) 1
        (blankManager 1) = .ok m' ∧
      (m'.sim.critters 1 1 0).age > 0 ∧ m'.maxused 1 1 = -1 ∧
      largestOr (aliveSlots 1 (m'.sim.critters 1 1)) = 0 := by
  obtain ⟨m', hrun, _, _, _, h1⟩ := C27_setup_aggregates evenFit 15 (fun _ => 0) (fun _ => 0)
    (fun _ => 0) 1 (blankManager 1) 6 (by decide) (by decide) (by decide) (by decide)
    (Or.inl ⟨rfl, by decide, rfl⟩)
  exact ⟨m', hrun, h1 rfl⟩

/-- C28 (the first data item of the log, lines 448-518): after `setupRun` with a viable
founder `g`, the slot 0 of the centre cell holds the genome `g`, the one data item of the
root of the log has the size `aliveCount`, and its sample genome is 0, as is the type genome
of the one entry of the species list: both are assigned from the local `generation`, which
line 466 has set to 0 by then. So they are not the genome of the founder unless that is 0;
the example grid seeded with the genome 6 shows it. -/
theorem C28_root_data_item (fitnessOf : Nat → Nat × Nat × Nat → Nat) (startAge : Nat)
    (energyOf : Nat → Int) (randoms genomes : Nat → Nat) (fuel : Nat) (m : Manager) (g : Nat)
    (hX : 1 ≤ m.sim.gridX) (hY : 1 ≤ m.sim.gridY) (hS : 1 ≤ m.sim.slotsPerSquare)
    (hage : 0 < startAge) (hfound : FounderIs fitnessOf genomes fuel m g) :
    (∃ m', setupRun (initialise fitnessOf startAge energyOf) randoms genomes fuel m = .ok m' ∧
      (m'.sim.critters (m.sim.gridX / 2) (m.sim.gridY / 2) 0).genome = g ∧
      m'.aliveCount = (m.sim.slotsPerSquare : Int) ∧
      m'.sim.logSpecies.map (fun l => (l.id, l.parent, l.dataItems.map
          fun d => (d.sampleGenome, d.size)))
        = [(1, none, [(0, m.sim.slotsPerSquare)])] ∧
      m'.sim.oldSpeciesList.map (fun sp => (sp.ID, sp.type)) = [(1, 0)]) ∧
    ((seeded 3).sim.critters 1 1 0).genome = 6 ∧
    (seeded 3).sim.logSpecies.map (fun l => l.dataItems.map fun d => d.sampleGenome)
      = [[0]] ∧
    (seeded 3).sim.oldSpeciesList.map (fun sp => sp.type) = [0] := by
  refine ⟨?_, by decide, by decide, by decide⟩
  obtain ⟨m', hrun, hs⟩ := setupRun_seeded fitnessOf startAge energyOf randoms genomes fuel m g
    hX hY hS hage hfound
  obtain ⟨s, hlog⟩ := hs.log
  refine ⟨m', hrun, (hs.centre 0 (by omega)).2.1, hs.aliveCount, ?_, ?_⟩
  · rw [hlog]; rfl
  · rw [hlog]; rfl

/-- C28, at an input: the example grid seeded with the known genome 6. -/
theorem C28_root_data_item_witness :
    ∃ m', setupRun (initialise evenFit 15 (fun _ => 0)) (fun _ => 0) (fun _ => 0) 1
        (blankManager 3) = .ok m' ∧
      (m'.sim.critters 1 1 0).genome = 6 ∧ m'.aliveCount = 3 ∧
      m'.sim.logSpecies.map (fun l => (l.id, l.parent, l.dataItems.map
          fun d => (d.sampleGenome, d.size))) = [(1, none, [(0, 3)])] ∧
      m'.sim.oldSpeciesList.map (fun sp => (sp.ID, sp.type)) = [(1, 0)] :=
  (C28_root_data_item evenFit 15 (fun _ => 0) (fun _ => 0) (fun _ => 0) 1 (blankManager 3) 6
    (by decide) (by decide) (by decide) (by decide) (Or.inl ⟨rfl, by decide, rfl⟩)).1

/-! ## `iterate`: the counter of the ticks and the warning -/

theorem warningGate_spec (answerYes : Bool) (m : Manager) :
    (warningGate answerYes m).1 = decide (m.sim.warningCount = 1) ∧
    (warningGate answerYes m).2.sim.iteration = m.sim.iteration ∧
    (warningGate answerYes m).2.sim.warningCount
      = (if m.sim.warningCount = 1 then 2 else m.sim.warningCount) ∧
    (warningGate answerYes m).2.env = m.env := by
  unfold warningGate
  by_cases h : m.sim.warningCount = 1
  · rw [if_pos h, if_pos h]
    refine ⟨by simp [h], rfl, ?_, rfl⟩
    show m.sim.warningCount + 1 = 2
    omega
  · rw [if_neg h, if_neg h]
    exact ⟨by simp [h], rfl, rfl, rfl⟩

/-- What a call of `iterate` that returns leaves of the two counters. -/
theorem iterate_counters (answerYes : Bool) (emode : Int) (interpolate : Bool)
    (t : Manager → Manager) (m m' : Manager) (halt put : Bool)
    (h : iterate answerYes emode interpolate t m = .ok (halt, put, m')) :
    m'.sim.iteration = (m.sim.iteration + 1) % 2 ^ 64 ∧
    put = decide (m.sim.warningCount = 1) ∧
    m'.sim.warningCount = (if m.sim.warningCount = 1 then 2 else m.sim.warningCount) := by
  obtain ⟨g1, g2, g3, _⟩ := warningGate_spec answerYes
    { m with sim := { m.sim with iteration := (m.sim.iteration + 1) % 2 ^ 64 } }
  unfold iterate at h
  dsimp only at h
  cases hr : regenerateEnvironment emode interpolate
      (warningGate answerYes
        { m with sim := { m.sim with iteration := (m.sim.iteration + 1) % 2 ^ 64 } }).2.env with
  | error f => rw [hr] at h; cases h
  | ok p =>
    obtain ⟨b, e⟩ := p
    rw [hr] at h
    cases b with
    | true =>
      simp only [Except.ok.injEq, Prod.mk.injEq] at h
      obtain ⟨_, hp, hm⟩ := h
      rw [← hm, ← hp]
      exact ⟨g2, g1, g3⟩
    | false =>
      simp only [Except.ok.injEq, Prod.mk.injEq] at h
      obtain ⟨_, hp, hm⟩ := h
      rw [← hm, ← hp]
      exact ⟨g2, g1, g3⟩

/-- A call of `iterate` returns whenever `regenerateEnvironment` does, with its flag. -/
theorem iterate_returns (answerYes : Bool) (emode : Int) (interpolate : Bool)
    (t : Manager → Manager) (m : Manager) (b : Bool) (e : EnvState)
    (h : regenerateEnvironment emode interpolate m.env = .ok (b, e)) :
    ∃ put m', iterate answerYes emode interpolate t m = .ok (b, put, m') := by
  obtain ⟨_, _, _, g4⟩ := warningGate_spec answerYes
    { m with sim := { m.sim with iteration := (m.sim.iteration + 1) % 2 ^ 64 } }
  unfold iterate
  dsimp only
  rw [g4, h]
  cases b with
  | true => exact ⟨_, _, rfl⟩
  | false => exact ⟨_, _, rfl⟩

theorem pass_counters {ord : HashOrder} {M : Nat} {elapsed : Int} {s s' : Sim}
    (h : groupsGenealogicalTracker ord M elapsed s = .ok s') :
    s'.iteration = s.iteration ∧
    s'.warningCount = (if elapsed > 5000 then s.warningCount + 1 else s.warningCount) := by
  obtain ⟨w, st, _, _, hs'⟩ := pass_ok h
  rw [hs']
  exact ⟨rfl, rfl⟩

theorem run_iteration (m0 : Manager) (h0 : m0.sim.iteration < 2 ^ 64) (calls asked : Nat)
    (m : Manager) (h : RunFrom m0 calls asked m) :
    m.sim.iteration = (m0.sim.iteration + calls) % 2 ^ 64 := by
  induction h with
  | start => rw [Nat.add_zero, Nat.mod_eq_of_lt h0]
  | tick calls asked m m' answerYes emode interpolate t halt put _ hit ih =>
    rw [(iterate_counters _ _ _ _ _ _ _ _ hit).1, ih]
    omega
  | pass calls asked m ord M elapsed s' _ hp ih =>
    show s'.iteration = _
    rw [(pass_counters hp).1, ih]

theorem run_latch (m0 : Manager) (h0 : m0.sim.warningCount = 0) (calls asked : Nat)
    (m : Manager) (h : RunFrom m0 calls asked m) :
    (asked = 0 ∧ 0 ≤ m.sim.warningCount) ∨ (asked = 1 ∧ 2 ≤ m.sim.warningCount) := by
  induction h with
  | start => left; exact ⟨rfl, by omega⟩
  | tick calls asked m m' answerYes emode interpolate t halt put _ hit ih =>
    obtain ⟨_, hput, hwc⟩ := iterate_counters _ _ _ _ _ _ _ _ hit
    by_cases h1 : m.sim.warningCount = 1
    · rw [if_pos h1] at hwc
      have hp : put = true := by rw [hput]; simp [h1]
      rw [hp, if_pos rfl]
      right
      rcases ih with ⟨ha, _⟩ | ⟨_, hb⟩
      · exact ⟨by omega, by omega⟩
      · omega
    · rw [if_neg h1] at hwc
      have hp : put = false := by rw [hput]; simp [h1]
      rw [hp]
      simp only [Bool.false_eq_true, if_false, Nat.add_zero]
      rw [hwc]
      exact ih
  | pass calls asked m ord M elapsed s' _ hp ih =>
    have hwc := (pass_counters hp).2
    show (asked = 0 ∧ 0 ≤ s'.warningCount) ∨ (asked = 1 ∧ 2 ≤ s'.warningCount)
    rw [hwc]
    by_cases hslow : elapsed > 5000
    · rw [if_pos hslow]
      rcases ih with ⟨ha, hb⟩ | ⟨ha, hb⟩
      · left; exact ⟨ha, by omega⟩
      · right; exact ⟨ha, by omega⟩
    · rw [if_neg hslow]
      exact ih

theorem setupRun_warning (init : Init) (randoms genomes : Nat → Nat) (fuel : Nat)
    (m m0 : Manager) (h : setupRun init randoms genomes fuel m = .ok m0) :
    m0.sim.warningCount = 0 := by
  have hseed : ∀ (x : Manager), seedRandom init randoms genomes fuel x = .ok m0 →
      m0.sim.warningCount = 0 := by
    intro x hx
    unfold seedRandom at hx
    cases hl : founderLoop init genomes (x.sim.gridX / 2) (x.sim.gridY / 2) fuel 0 x with
    | error f => rw [hl] at hx; cases hx
    | ok m1 =>
      rw [hl] at hx
      cases hx
      rfl
  unfold setupRun at h
  dsimp only at h
  split_ifs at h
  · exact hseed _ h
  · cases h
    rfl
  · exact hseed _ h

/-! ## The counter of the ticks and the warning -/

/-- C29 (the counter of the ticks, lines 688-706 and 89): every call of `iterate` that
returns, with the flag or without it, leaves the counter at its value plus one modulo
`2 ^ 64`; the call returns whenever `regenerateEnvironment` does, with its flag; and in a
run from the start of the program, where the counter of line 89 is 0, the counter after
`c` calls is `c` as long as `c < 2 ^ 64`, so that over the calls of a run of fewer than
`2 ^ 64` ticks it is strictly increasing (the passes of the identifier in between leave it
as it is). -/
theorem C29_iteration_counter (answerYes : Bool) (emode : Int) (interpolate : Bool)
    (t : Manager → Manager) (m : Manager) :
    (∀ halt put m', iterate answerYes emode interpolate t m = .ok (halt, put, m') →
      m'.sim.iteration = (m.sim.iteration + 1) % 2 ^ 64) ∧
    (∀ b e, regenerateEnvironment emode interpolate m.env = .ok (b, e) →
      ∃ put m', iterate answerYes emode interpolate t m = .ok (b, put, m') ∧
        m'.sim.iteration = (m.sim.iteration + 1) % 2 ^ 64) ∧
    (m.sim.iteration = 0 →
      ∀ c1 q1 m1 c2 q2 m2, RunFrom m c1 q1 m1 → RunFrom m1 c2 q2 m2 → 0 < c2 →
        c1 + c2 < 2 ^ 64 →
        m1.sim.iteration = c1 ∧ m2.sim.iteration = c1 + c2 ∧
        m1.sim.iteration < m2.sim.iteration) := by
  refine ⟨fun halt put m' h => (iterate_counters _ _ _ _ _ _ _ _ h).1, ?_, ?_⟩
  · intro b e h
    obtain ⟨put, m', hm⟩ := iterate_returns answerYes emode interpolate t m b e h
    exact ⟨put, m', hm, (iterate_counters _ _ _ _ _ _ _ _ hm).1⟩
  · intro h0 c1 q1 m1 c2 q2 m2 r1 r2 hpos hlt
    have e1 := run_iteration m (by rw [h0]; exact Nat.two_pow_pos 64) c1 q1 m1 r1
    rw [h0, Nat.zero_add, Nat.mod_eq_of_lt (by omega)] at e1
    have e2 := run_iteration m1 (by rw [e1]; omega) c2 q2 m2 r2
    rw [e1, Nat.mod_eq_of_lt hlt] at e2
    exact ⟨e1, e2, by omega⟩

/-- C29, at an input: on the example grid at its last image the call of `iterate` returns
the flag and leaves the counter at 1. -/
theorem C29_iteration_counter_witness :
    (iterated (fun x => x) ending).1 = true ∧
      (iterated (fun x => x) ending).2.2.sim.iteration = (ending.sim.iteration + 1) % 2 ^ 64 ∧
      (iterated (fun x => x) ending).2.2.sim.iteration = 1 :=
  ⟨by decide,
   (C29_iteration_counter false 1 false (fun x => x) ending).1 _ _ _
     (eq_ok_of_succeeds (false, false, ending) (by decide)),
   by decide⟩

/-- C30 (warning latch, lines 692-704 of `iterate`, 663-665 of the identifier, 522-523 of
`setupRun`): in every run after a `setupRun` that returns, made of calls of `iterate` and
passes of the identifier in any order, slow or fast, the question about the species search
is put at most once. -/
theorem C30_warning_latch (init : Init) (randoms genomes : Nat → Nat) (fuel : Nat)
    (m m0 : Manager) (hsetup : setupRun init randoms genomes fuel m = .ok m0)
    (calls asked : Nat) (m' : Manager) (hrun : RunFrom m0 calls asked m') : asked ≤ 1 := by
  rcases run_latch m0 (setupRun_warning init randoms genomes fuel m m0 hsetup) calls asked m'
    hrun with ⟨h, _⟩ | ⟨h, _⟩ <;> omega

/-- C30, at an input: the example grid after `setupRun`, a tick, a pass of 6 seconds, a tick
that puts the question, another pass of 6 seconds and a tick that does not put it. -/
theorem C30_warning_latch_witness :
    (iterated (fun x => x) (slowPass (iterated mutate (seeded 3)).2.2)).2.1 = true ∧
    (iterated (fun x => x)
      (slowPass (iterated (fun x => x) (slowPass (iterated mutate (seeded 3)).2.2)).2.2)).2.1
        = false ∧
    0 + (if (iterated mutate (seeded 3)).2.1 then 1 else 0)
        + (if (iterated (fun x => x) (slowPass (iterated mutate (seeded 3)).2.2)).2.1
            then 1 else 0)
        + (if (iterated (fun x => x) (slowPass (iterated (fun x => x)
            (slowPass (iterated mutate (seeded 3)).2.2)).2.2)).2.1 then 1 else 0) ≤ 1 :=
  ⟨by decide, by decide,
   C30_warning_latch (initialise evenFit 15 (fun _ => 0)) (fun _ => 0) (fun _ => 0) 1
     (blankManager 3) (seeded 3) (eq_ok_of_succeeds (blankManager 3) (by decide)) 3 _ _
     (RunFrom.tick 2 _ _ _ false 1 false (fun x => x) _ _
       (RunFrom.pass 2 _ _ insertionOrder 100 6000 _
         (RunFrom.tick 1 _ _ _ false 1 false (fun x => x) _ _
           (RunFrom.pass 1 _ _ insertionOrder 100 6000 _
             (RunFrom.tick 0 0 (seeded 3) _ false 1 false mutate _ _ RunFrom.start
               (eq_ok_of_succeeds (false, false, seeded 3) (by decide)))
             (ok_stateAfter (by decide)))
           (eq_ok_of_succeeds (false, false, (slowPass (iterated mutate (seeded 3)).2.2))
             (by decide)))
         (ok_stateAfter (by decide)))
       (eq_ok_of_succeeds (false, false,
         slowPass (iterated (fun x => x) (slowPass (iterated mutate (seeded 3)).2.2)).2.2)
         (by decide)))⟩

/-! ## Settling: wrap-around and full cells; the divider of the partner selection -/

/-- C37 (settling with wrap-around, lines 634-661), as the code has it: with a dispersal
index other than 0, the one wrap of lines 648-651 brings the target inside the grid exactly
when the target before the wrap lies within one grid width of the grid, that is in
`[-gridX, 2 gridX) x [-gridY, 2 gridY)`; it does so whenever the origin lies in the grid and
the displacement over the dispersal index is at most the size of the grid in absolute value,
and then the arrays are indexed inside the run-time grid. -/
theorem C37_single_wrap (e : SettleInput) (r : NurseryRecord) (nextrandom : Nat)
    (htor : e.toroidal = true) (hd : r.Disp ≠ 0) (hX : 1 ≤ e.gridX) (hY : 1 ≤ e.gridY) :
    ∃ x y cursor, spatialTarget e r nextrandom = .ok (some (x, y), cursor) ∧
      ((0 ≤ x ∧ x < (e.gridX : Int)) ↔
        (-(e.gridX : Int) ≤ (rawTarget e r nextrandom).1 ∧
          (rawTarget e r nextrandom).1 < 2 * (e.gridX : Int))) ∧
      ((0 ≤ y ∧ y < (e.gridY : Int)) ↔
        (-(e.gridY : Int) ≤ (rawTarget e r nextrandom).2 ∧
          (rawTarget e r nextrandom).2 < 2 * (e.gridY : Int))) ∧
      (r.X < e.gridX →
        |(rawTarget e r nextrandom).1 - (r.X : Int)| ≤ (e.gridX : Int) →
        0 ≤ x ∧ x < (e.gridX : Int)) ∧
      (r.Y < e.gridY →
        |(rawTarget e r nextrandom).2 - (r.Y : Int)| ≤ (e.gridY : Int) →
        0 ≤ y ∧ y < (e.gridY : Int)) := by
  unfold spatialTarget
  simp only [if_neg hd, htor, if_true]
  refine ⟨_, _, _, rfl, ?_, ?_, ?_, ?_⟩
  · constructor
    · intro h
      split_ifs at h <;> omega
    · intro h
      split_ifs <;> omega
  · constructor
    · intro h
      split_ifs at h <;> omega
    · intro h
      split_ifs <;> omega
  · intro h1 h2
    rw [abs_le] at h2
    split_ifs <;> omega
  · intro h1 h2
    rw [abs_le] at h2
    split_ifs <;> omega

/-- C37, at an input: on the grid of 10 by 10 cells an offspring launched from the column 3
and sent 240 columns to the left over the dispersal index 40, that is 6 columns, lands in
the column 7. -/
theorem C37_single_wrap_witness :
    ∃ x y cursor, spatialTarget torusInput
        { genome := 4, X := 3, Y := 0, Disp := 40, species := 2 } 0
          = .ok (some (x, y), cursor) ∧
      0 ≤ x ∧ x < 10 ∧ x = 7 := by
  obtain ⟨x, y, cursor, h, _, _, hx, _⟩ := C37_single_wrap torusInput
    { genome := 4, X := 3, Y := 0, Disp := 40, species := 2 } 0 rfl (by decide) (by decide)
    (by decide)
  have hin := hx (by decide) (by decide)
  refine ⟨x, y, cursor, h, hin.1, hin.2, ?_⟩
  have h2 : spatialTarget torusInput { genome := 4, X := 3, Y := 0, Disp := 40, species := 2 } 0
      = .ok (some (7, 0), 2) := by decide
  rw [h2] at h
  simp only [Except.ok.injEq, Prod.mk.injEq, Option.some.injEq] at h
  exact h.1.1.symm

/-- C37 as it was stated fails: on a grid of 10 by 10 cells, for the origin `(0, 0)`, the
displacement -240 of the table and the dispersal index 1, the target after the one wrap is
the column -230, and the settling indexes the arrays outside of them. -/
theorem C37_single_wrap_counterexample :
    spatialTarget torusInput (offspringAt 4 0) 0 = .ok (some (-230, 0), 2) ∧
    settleOne torusInput (offspringAt 4 0) (0, 0) sampleState = .error .indexOutOfRange := by
  constructor
  · decide
  · rfl

/-- C40 (settling into a full cell, lines 609-630 and 659-680): when the target cell has no
slot with age 0 among `0 .. slotsPerSquare - 1`, the settling returns and the state is as it
was but for the count of tries, which has grown by one (and for the cursor of `Rand8`, which
the draws of the spatial mode have moved): no critter has changed, `totalfit`, `maxused`,
`settles` and `settlefails` of every cell are as they were, and no birth and no settle is
counted. -/
theorem C40_full_cell_is_noop (e : SettleInput) (r : NurseryRecord) (draw : Nat × Nat)
    (s : SettleState) (x y cursor : Nat) (hx : x < GRID_X) (hy : y < GRID_Y)
    (ht : targetOf e r draw s.nextrandom = .ok (some ((x : Int), (y : Int)), cursor))
    (hfull : ∀ m, m < e.slotsPerSquare → (s.critters x y m).age ≠ 0) :
    settleOne e r draw s
        = .ok { s with nextrandom := cursor, trycount_local := s.trycount_local + 1 } ∧
    ∀ s', settleOne e r draw s = .ok s' →
      s'.critters = s.critters ∧ s'.totalfit = s.totalfit ∧ s'.maxused = s.maxused ∧
      s'.settles = s.settles ∧ s'.settlefails = s.settlefails ∧
      s'.birthcounts_local = s.birthcounts_local ∧
      s'.settlecount_local = s.settlecount_local ∧
      s'.trycount_local = s.trycount_local + 1 := by
  have hnone : firstEmpty e.slotsPerSquare
      (({ s with nextrandom := cursor } : SettleState).critters x y) = none :=
    (firstEmpty_none _ _).mpr hfull
  have hrun : settleOne e r draw s
      = .ok { s with nextrandom := cursor, trycount_local := s.trycount_local + 1 } := by
    rw [settleOne_placed e r draw s x y cursor hx hy ht,
      place_none e r x y { s with nextrandom := cursor } hnone]
  refine ⟨hrun, ?_⟩
  intro s' hs'
  rw [hrun] at hs'
  cases hs'
  exact ⟨rfl, rfl, rfl, rfl, rfl, rfl, rfl, rfl⟩

/-- C40, at an input: the offspring aimed at the full cell `(0, 0)` of the example. -/
theorem C40_full_cell_is_noop_witness :
    settleOne sampleInput (offspringAt 4 3) (0, 0) fullState
      = .ok { fullState with nextrandom := 2, trycount_local := 1 } :=
  (C40_full_cell_is_noop sampleInput (offspringAt 4 3) (0, 0) fullState 0 0 2 (by decide)
    (by decide) (by decide) (by
      intro m hm
      have hm3 : m < 3 := hm
      have : m = 0 ∨ m = 1 ∨ m = 2 := by omega
      rcases this with rfl | rfl | rfl <;> decide)).1

/-- C38 (the divider of the partner selection, lines 564-581): for a breeder count `b ≥ 1`
the 8-bit `divider = 255 / b` of line 574 is other than 0 exactly when `b ≤ 255`; it is 0 for
`b = 256`, which a cell of 256 slots admits, and then the draw of the partner outside the
asexual mode divides by zero. -/
theorem C38_divider_zero_at_256 (b : Nat) (hb : 1 ≤ b) :
    (divider b ≠ 0 ↔ b ≤ 255) ∧
    divider 256 = 0 ∧
    ∀ (randoms : Nat → Nat) (c : Nat) (s : BreedCell),
      faultOf (choosePartner false randoms 256 c s) = some .divideByZero := by
  have h256 : divider 256 = 0 := by simp [divider, toUInt8]
  refine ⟨?_, h256, ?_⟩
  · constructor
    · intro h
      by_contra hgt
      have hz : 255 / b = 0 := Nat.div_eq_of_lt (by omega)
      apply h
      unfold divider
      rw [hz]
      simp [toUInt8]
    · intro h
      have h1 : 255 / b ≤ 255 := Nat.div_le_self _ _
      have h2 : 0 < 255 / b := Nat.div_pos h (by omega)
      unfold divider
      rw [toUInt8_of_lt (by omega)]
      omega
  · intro randoms c s
    simp [choosePartner, h256, faultOf]

/-- C38, at an input: 255 breeders give the divider 1, 256 breeders the divider 0. -/
theorem C38_divider_zero_at_256_witness :
    (divider 255 ≠ 0 ↔ 255 ≤ 255) ∧ divider 255 = 1 ∧ divider 256 = 0 :=
  ⟨(C38_divider_zero_at_256 255 (by decide)).1, by simp [divider, toUInt8],
    (C38_divider_zero_at_256 255 (by decide)).2.1⟩

/-! ## The chases of the genealogical identifier end -/

/-- C34 (the root-chasing loops end, lines 332-393): after any number of rounds of the outer
loop of the pairwise sweep the rounds have returned, and from every entry of the parent
table following the parents reaches an entry that is its own parent in fewer than `n` steps
(`n` the number of genomes), so the chase loop from it returns that root; the sweep as a
whole returns, and so does the chase from every group code that it has assigned; and the
grouping never ends in a chase that does not stop. -/
theorem C34_root_chasing_terminates (md : Int) (gs : List Nat) :
    (∀ k, k ≤ gs.length - 1 →
      ∃ s, forRange (firstStep md gs) 0 k (initGroups gs.length) = .ok s ∧
        ∀ (c : Int), 0 ≤ c → c < gs.length →
          ∃ r j, ReachesRoot s.grouplookup c r j ∧ j < gs.length ∧
            chase s.grouplookup c = .ok r) ∧
    (∃ s, pairwiseSweep md gs = .ok s ∧
      ∀ (i : Nat) (c : Int), readAt s.groupcodes i = .ok c → c ≠ -1 →
        ∃ r j, ReachesRoot s.grouplookup c r j ∧ j < gs.length ∧
          chase s.grouplookup c = .ok r) ∧
    groupGenomes md gs ≠ .error .noFixpoint := by
  have hroot : ∀ (s : Groups), WellFormed gs.length s → ∀ (c : Int), 0 ≤ c → c < gs.length →
      ∃ r j, ReachesRoot s.grouplookup c r j ∧ j < gs.length ∧
        chase s.grouplookup c = .ok r := by
    intro s hwf c h0 h1
    obtain ⟨r, j, hr⟩ := hwf.rooted c h0 h1
    have hlt := hr.steps_lt
    rw [hwf.len_lookup] at hlt
    exact ⟨r, j, hr, hlt, chase_of_reaches hr⟩
  refine ⟨?_, ?_, ?_⟩
  · intro k hk
    obtain ⟨s, hs, hinv⟩ := forRange_total (firstStep md gs)
      (fun first t => OuterInv md gs first t) k 0 _ (outerInv_init md gs)
      (fun i t _ h2 h3 => firstStep_inv (by omega) h3)
    exact ⟨s, hs, hroot s hinv.wf⟩
  · obtain ⟨s, hs, hinv⟩ := pairwiseSweep_inv md gs
    refine ⟨s, hs, ?_⟩
    intro i c hc hne
    have hnl := hinv.next_le
    rcases hinv.wf.codes i c hc with h | ⟨h0, h1⟩
    · exact absurd h hne
    · have hlen : (i : Int) < gs.length := by
        have := (readAt_range hc).2
        rw [hinv.wf.len_codes] at this
        exact this
      exact hroot s hinv.wf c h0 (by omega)
  · by_cases hlast : ∃ i, i + 1 < gs.length ∧ Linked md gs i (gs.length - 1)
    · obtain ⟨codes, maxcode, h⟩ := groupGenomes_total hlast
      rw [h]
      intro hh
      cases hh
    · by_cases hn : 1 ≤ gs.length
      · obtain ⟨s, _, _, h⟩ := groupGenomes_fault hn
          (fun i hi hl => hlast ⟨i, hi, hl⟩)
        rw [h]
        intro hh
        cases hh
      · have hnil : gs = [] := List.length_eq_zero.mp (by omega)
        subst hnil
        intro hh
        cases hh

/-- C34, at an input: for three genomes of which the first two are linked, the sweep returns
and the chase from the code 0 returns the root 0. -/
theorem C34_root_chasing_terminates_witness :
    ∃ s, forRange (firstStep 1 [0, 1, 7]) 0 2 (initGroups 3) = .ok s ∧
      ∀ (c : Int), 0 ≤ c → c < 3 →
        ∃ r j, ReachesRoot s.grouplookup c r j ∧ j < 3 ∧ chase s.grouplookup c = .ok r :=
  (C34_root_chasing_terminates 1 [0, 1, 7]).1 2 (by decide)

/-! ## The keyframes of the environment -/

theorem planeAs_congr {e e0 : EnvState} (hf : e.environmentFiles = e0.environmentFiles)
    (hx : e.gridX = e0.gridX) (hy : e.gridY = e0.gridY) : planeAs e = planeAs e0 := by
  funext sized file
  unfold planeAs
  rw [hf, hx, hy]

/-- The state after `loadEnvironmentFromFile`, called with the countdown at the change rate,
satisfies the invariant of the keyframes, and its current plane is the plane of the file of
the cursor. -/
theorem key_load {emode : Int} {e : EnvState}
    (hmode : emode = 1 ∨ emode = 2 ∨ emode = 3) (hn : 2 ≤ e.environmentFiles.length)
    (hlo : 0 ≤ e.currentEnvironmentFile)
    (hhi : e.currentEnvironmentFile < e.environmentFiles.length)
    (hrate : 1 ≤ e.environmentChangeRate) (hcount : e.EnvChangeCounter = e.environmentChangeRate)
    (hfwd : emode ≠ 3 → e.EnvChangeForward = true) :
    ∃ e', loadEnvironmentFromFile emode e = .ok e' ∧ KeyInv emode e' ∧
      e'.environmentFiles = e.environmentFiles ∧
      e'.environmentChangeRate = e.environmentChangeRate ∧
      e'.gridX = e.gridX ∧ e'.gridY = e.gridY ∧
      e'.currentEnvironmentFile = e.currentEnvironmentFile ∧
      SamePlane e.gridX e.gridY e'.environment (planeOf e e.currentEnvironmentFile) ∧
      SamePlane e.gridX e.gridY e'.environmentlast (planeOf e e.currentEnvironmentFile) := by
  obtain ⟨nextfile, img, img2, hnf, himg, himg2, hload⟩ :=
    loadEnvironmentFromFile_spec hmode hn hlo hhi
  refine ⟨_, hload, ?_, rfl, rfl, rfl, rfl, rfl, storeImage_plane himg _,
    storeImage_plane himg _⟩
  refine
    { cursor_lo := hlo, cursor_hi := hhi, counter_lo := ?_, counter_hi := ?_, forward := hfwd,
      last_eq := storeImage_plane (e := e) himg _, next_eq := ?_ }
  · show 1 ≤ e.EnvChangeCounter
    omega
  · show e.EnvChangeCounter ≤ e.environmentChangeRate
    omega
  · intro nf' hnf'
    have hsame : nextFile emode e = .ok nf' := hnf'
    rw [hnf] at hsame
    have := Except.ok.inj hsame
    subst this
    exact storeImage_planeAs (e := e) himg himg2 _

/-- One call of `regenerateEnvironment` in the loop mode or the bounce mode: it returns
without the halt, the invariant of the keyframes is kept, a call that does not bring the
countdown to zero leaves the cursor and the file of the next keyframe as they are, and a
call that does moves the cursor to the file of the next keyframe and makes the plane of
that file the current plane and the plane of the last keyframe; that plane is the plane
held as next when the images are all too small or none is. -/
theorem key_step {emode : Int} (interpolate : Bool) {e : EnvState}
    (hmode : emode = 2 ∨ emode = 3) (hn : 2 ≤ e.environmentFiles.length)
    (hrate : 1 ≤ e.environmentChangeRate) (hinv : KeyInv emode e) :
    ∃ e' nf, regenerateEnvironment emode interpolate e = .ok (false, e') ∧
      nextFile emode e = .ok nf ∧ 0 ≤ nf ∧ nf < e.environmentFiles.length ∧
      KeyInv emode e' ∧
      e'.environmentFiles = e.environmentFiles ∧
      e'.environmentChangeRate = e.environmentChangeRate ∧
      e'.gridX = e.gridX ∧ e'.gridY = e.gridY ∧
      (1 < e.EnvChangeCounter →
        e'.currentEnvironmentFile = e.currentEnvironmentFile ∧
        nextFile emode e' = .ok nf ∧ e'.environmentnext = e.environmentnext) ∧
      (e.EnvChangeCounter = 1 →
        e'.currentEnvironmentFile = nf ∧
        SamePlane e.gridX e.gridY e'.environment (planeOf e nf) ∧
        SamePlane e.gridX e.gridY e'.environmentlast (planeOf e nf) ∧
        (SizesAgree e →
          SamePlane e.gridX e.gridY e'.environment e.environmentnext ∧
          SamePlane e.gridX e.gridY e'.environmentlast e.environmentnext)) := by
  have hmode3 : emode = 1 ∨ emode = 2 ∨ emode = 3 := Or.inr hmode
  have hrate0 : e.environmentChangeRate ≠ 0 := by omega
  have hclo := hinv.counter_lo
  obtain ⟨nf, hnf, hnflo, hnfhi, _⟩ := nextFile_ok hmode3 hn hinv.cursor_lo hinv.cursor_hi
  by_cases hc : 1 < e.EnvChangeCounter
  · have hstep := regenerate_countdown emode interpolate e hrate0 (by omega) (by omega) hc
    have hkey : ∀ (plane : Nat → Nat → Nat → Nat),
        KeyInv emode { e with EnvChangeCounter := e.EnvChangeCounter - 1, environment := plane } :=
      fun plane =>
        { cursor_lo := hinv.cursor_lo, cursor_hi := hinv.cursor_hi
          counter_lo := by show 1 ≤ e.EnvChangeCounter - 1; omega
          counter_hi := by
            have := hinv.counter_hi
            show e.EnvChangeCounter - 1 ≤ e.environmentChangeRate
            omega
          forward := hinv.forward, last_eq := hinv.last_eq
          next_eq := fun nf' hnf' => hinv.next_eq nf' hnf' }
    cases interpolate with
    | true =>
      refine ⟨_, nf, hstep, hnf, hnflo, hnfhi, hkey _, rfl, rfl, rfl, rfl,
        fun _ => ⟨rfl, hnf, rfl⟩, fun h1 => by omega⟩
    | false =>
      refine ⟨_, nf, hstep, hnf, hnflo, hnfhi, hkey e.environment, rfl, rfl, rfl, rfl,
        fun _ => ⟨rfl, hnf, rfl⟩, fun h1 => by omega⟩
  · have hc1 : e.EnvChangeCounter = 1 := by omega
    rcases regenerate_advance emode interpolate e hrate0 hmode3 hn hinv.cursor_lo
      hinv.cursor_hi (by omega) with ⟨h1, _, _⟩ | ⟨_, nextfile, forward, hnlo, hnhi,
        _, hfval, hnext, hres⟩
    · omega
    · have hfwd' : emode ≠ 3 → forward = true := by
        intro h3
        rw [hfval, if_pos (Or.inl h3)]
        split_ifs <;> rfl
      have hnfe := hnext hinv.forward
      have hsame : nextfile = nf := by
        rw [hnf] at hnfe
        exact (Except.ok.inj hnfe).symm
      subst hsame
      obtain ⟨e2, hload, hinv2, hf2, hr2, hgx, hgy, hcur2, hplane, hplast⟩ :=
        key_load (e := { e with
          EnvChangeCounter := e.environmentChangeRate
          currentEnvironmentFile := nextfile
          EnvChangeForward := forward }) hmode3 hn hnlo hnhi
          (by show 1 ≤ e.environmentChangeRate; omega) rfl hfwd'
      have hrun : regenerateEnvironment emode interpolate e = .ok (false, e2) := by
        rw [hres]
        unfold resetAndLoad
        show (match loadEnvironmentFromFile emode
            { e with
              EnvChangeCounter := e.environmentChangeRate
              currentEnvironmentFile := nextfile
              EnvChangeForward := forward } with
          | .error x => (.error x : Except Fault (Bool × EnvState))
          | .ok e' => .ok (false, e')) = _
        rw [hload]
      have hnx := hinv.next_eq _ hnf
      have hp1 : SamePlane e.gridX e.gridY e2.environment (planeOf e nextfile) := hplane
      have hp2 : SamePlane e.gridX e.gridY e2.environmentlast (planeOf e nextfile) := hplast
      refine ⟨e2, nextfile, hrun, hnf, hnflo, hnfhi, hinv2, hf2, hr2, hgx, hgy,
        fun h => absurd h hc, fun _ => ⟨hcur2, hp1, hp2, fun hsz => ?_⟩⟩
      rw [planeAs_agree hsz _ _ hinv.cursor_lo hinv.cursor_hi] at hnx
      exact ⟨hp1.trans_plane hnx.symm_plane, hp2.trans_plane hnx.symm_plane⟩

/-- Any number of calls of `regenerateEnvironment` in the loop mode or the bounce mode
return, none with the halt, and keep the invariant of the keyframes. -/
theorem key_run {emode : Int} (interpolate : Bool) {e1 : EnvState}
    (hmode : emode = 2 ∨ emode = 3) (hn : 2 ≤ e1.environmentFiles.length)
    (hrate : 1 ≤ e1.environmentChangeRate) (hinv : KeyInv emode e1) (k : Nat) :
    ∃ flags e, regenerateTimes emode interpolate k e1 = .ok (flags, e) ∧
      (∀ b ∈ flags, b = false) ∧ KeyInv emode e ∧
      e.environmentFiles = e1.environmentFiles ∧
      e.environmentChangeRate = e1.environmentChangeRate ∧
      e.gridX = e1.gridX ∧ e.gridY = e1.gridY := by
  induction k with
  | zero => exact ⟨[], e1, rfl, by simp, hinv, rfl, rfl, rfl, rfl⟩
  | succ k ih =>
    obtain ⟨flags, e, hrun, hfl, hk, hf, hr, hgx, hgy⟩ := ih
    obtain ⟨e', nf, hstep, _, _, _, hk', hf', hr', hgx', hgy', _, _⟩ :=
      key_step interpolate hmode (by rw [hf]; exact hn) (by rw [hr]; exact hrate) hk
    refine ⟨flags ++ [false], e', regenerateTimes_succ hrun hstep, ?_, hk',
      hf'.trans hf, hr'.trans hr, hgx'.trans hgx, hgy'.trans hgy⟩
    intro b hb
    rcases List.mem_append.mp hb with h | h
    · exact hfl b h
    · simpa using h

/-! ## The keyframe that is loaded as the next one is the keyframe that becomes current -/

/-- C36: in the loop mode and the bounce mode, with at least two keyframes, the run that
starts at the cursor 0 in the forward direction has this at every tick, whatever the
interpolation and the change rate: `loadEnvironmentFromFile` returns, and after any number
of calls of `regenerateEnvironment` the file that `loadEnvironmentFromFile` has loaded into
the plane of the next keyframe is a file `nf` of `0 .. n - 1`, the plane of the next
keyframe holds its image, rescaled as the size of the image of the cursor decides, the
following call returns without the halt, a call that is not an advance leaves the cursor and
`nf` as they are, and a call that is an advance moves the cursor to `nf` and makes the
plane of the file `nf` the current plane and the plane of the last keyframe; when the images
of the keyframes are all too small for the grid or none is, that plane is the plane held as
next. The last part is a run with a keyframe that is too small followed by one that is not:
the file of the next keyframe is the file 1 and the advance moves the cursor to it, but the
plane held as next has the red 200 in the cell `(1, 0)`, where the plane that becomes
current has the red 0, since line 309 rescales the next image by the size of the current
one. -/
theorem C36_keyframe_consistency (emode : Int) (interpolate : Bool) (e0 : EnvState)
    (hmode : emode = 2 ∨ emode = 3) (hn : 2 ≤ e0.environmentFiles.length)
    (hrate : 1 ≤ e0.environmentChangeRate) (hcur : e0.currentEnvironmentFile = 0)
    (hfwd : e0.EnvChangeForward = true)
    (hcount : e0.EnvChangeCounter = e0.environmentChangeRate) (k : Nat) :
    (∃ e1 flags e nf e', loadEnvironmentFromFile emode e0 = .ok e1 ∧
      regenerateTimes emode interpolate k e1 = .ok (flags, e) ∧
      nextFile emode e = .ok nf ∧ 0 ≤ nf ∧ nf < e0.environmentFiles.length ∧
      SamePlane e0.gridX e0.gridY e.environmentnext
        (planeAs e0 e.currentEnvironmentFile nf) ∧
      regenerateEnvironment emode interpolate e = .ok (false, e') ∧
      (1 < e.EnvChangeCounter →
        e'.currentEnvironmentFile = e.currentEnvironmentFile ∧
        nextFile emode e' = .ok nf ∧ e'.environmentnext = e.environmentnext) ∧
      (e.EnvChangeCounter = 1 →
        e'.currentEnvironmentFile = nf ∧
        SamePlane e0.gridX e0.gridY e'.environment (planeOf e0 nf) ∧
        SamePlane e0.gridX e0.gridY e'.environmentlast (planeOf e0 nf) ∧
        (SizesAgree e0 →
          SamePlane e0.gridX e0.gridY e'.environment e.environmentnext ∧
          SamePlane e0.gridX e0.gridY e'.environmentlast e.environmentnext))) ∧
    (nextFile 2 (mixedLoaded 1) = .ok 1 ∧
      (mixedLoaded 1).EnvChangeCounter = 1 ∧
      (mixedLoaded 1).environmentnext 1 0 0 = 200 ∧
      (resultOr (regenerateTimes 2 interpolate 1 (mixedLoaded 1))
        ([], mixedLoaded 1)).2.currentEnvironmentFile = 1 ∧
      (resultOr (regenerateTimes 2 interpolate 1 (mixedLoaded 1))
        ([], mixedLoaded 1)).2.environment 1 0 0 = 0) := by
  refine ⟨?_, by decide, by decide, by decide, by cases interpolate <;> decide,
    by cases interpolate <;> decide⟩
  have hmode3 : emode = 1 ∨ emode = 2 ∨ emode = 3 := Or.inr hmode
  have hlo : 0 ≤ e0.currentEnvironmentFile := by omega
  have hhi : e0.currentEnvironmentFile < e0.environmentFiles.length := by omega
  obtain ⟨e1, hload, hinv1, hf1, hr1, hgx1, hgy1, _, _, _⟩ :=
    key_load hmode3 hn hlo hhi hrate hcount (fun _ => hfwd)
  obtain ⟨flags, e, hrun, _, hk, hf, hr, hgx, hgy⟩ :=
    key_run interpolate hmode (by rw [hf1]; exact hn) (by rw [hr1]; exact hrate) hinv1 k
  have hfiles : e.environmentFiles = e0.environmentFiles := hf.trans hf1
  have hX : e.gridX = e0.gridX := hgx.trans hgx1
  have hY : e.gridY = e0.gridY := hgy.trans hgy1
  obtain ⟨e', nf, hstep, hnf, hnlo, hnhi, _, _, _, _, _, hstay, hadv⟩ :=
    key_step interpolate hmode (by rw [hfiles]; exact hn)
      (by rw [hr, hr1]; exact hrate) hk
  have hnext := hk.next_eq nf hnf
  have hpl : planeAs e = planeAs e0 := planeAs_congr hfiles hX hY
  have hsz : SizesAgree e0 → SizesAgree e := by
    intro h0
    unfold SizesAgree
    rw [hfiles, hX, hY]
    exact h0
  unfold planeOf at hadv
  rw [hX, hY, hpl] at hnext hadv
  rw [hfiles] at hnhi
  exact ⟨e1, flags, e, nf, e', hload, hrun, hnf, hnlo, hnhi, hnext, hstep, hstay,
    fun h1 => ⟨(hadv h1).1, (hadv h1).2.1, (hadv h1).2.2.1,
      fun h0 => (hadv h1).2.2.2 (hsz h0)⟩⟩

/-- Witness for C36: three keyframes in the bounce mode with the change rate 1, so that every
call is an advance, two calls after the load. -/
theorem C36_keyframe_consistency_witness :
    2 ≤ (setupEnvironment (keyframes 3 1)).environmentFiles.length ∧
    (1 : Int) ≤ (setupEnvironment (keyframes 3 1)).environmentChangeRate ∧
    SizesAgree (setupEnvironment (keyframes 3 1)) ∧
    ∃ e1 flags e nf e',
      loadEnvironmentFromFile 3 (setupEnvironment (keyframes 3 1)) = .ok e1 ∧
      regenerateTimes 3 false 2 e1 = .ok (flags, e) ∧
      nextFile 3 e = .ok nf ∧ 0 ≤ nf ∧
      nf < (setupEnvironment (keyframes 3 1)).environmentFiles.length ∧
      SamePlane (setupEnvironment (keyframes 3 1)).gridX (setupEnvironment (keyframes 3 1)).gridY
        e.environmentnext
        (planeAs (setupEnvironment (keyframes 3 1)) e.currentEnvironmentFile nf) ∧
      regenerateEnvironment 3 false e = .ok (false, e') ∧
      (1 < e.EnvChangeCounter →
        e'.currentEnvironmentFile = e.currentEnvironmentFile ∧
        nextFile 3 e' = .ok nf ∧ e'.environmentnext = e.environmentnext) ∧
      (e.EnvChangeCounter = 1 →
        e'.currentEnvironmentFile = nf ∧
        SamePlane (setupEnvironment (keyframes 3 1)).gridX
          (setupEnvironment (keyframes 3 1)).gridY e'.environment
          (planeOf (setupEnvironment (keyframes 3 1)) nf) ∧
        SamePlane (setupEnvironment (keyframes 3 1)).gridX
          (setupEnvironment (keyframes 3 1)).gridY e'.environmentlast
          (planeOf (setupEnvironment (keyframes 3 1)) nf) ∧
        (SizesAgree (setupEnvironment (keyframes 3 1)) →
          SamePlane (setupEnvironment (keyframes 3 1)).gridX
            (setupEnvironment (keyframes 3 1)).gridY e'.environment e.environmentnext ∧
          SamePlane (setupEnvironment (keyframes 3 1)).gridX
            (setupEnvironment (keyframes 3 1)).gridY e'.environmentlast e.environmentnext)) :=
  ⟨by decide, by decide, keyframes_sizesAgree 3 1,
   (C36_keyframe_consistency 3 false (setupEnvironment (keyframes 3 1)) (Or.inr rfl)
     (by decide) (by decide) rfl rfl rfl 2).1⟩

/-! ## The end of the time list in `findClosestIndex` -/

/-- The rounded value of a target that is a whole number. -/
theorem look_for_int_nat (v : Nat) (h : v < 2 ^ 64) : look_for_int (v : ℚ) = v := by
  unfold look_for_int
  rw [add_comm, truncate_add_half, Int.toNat_ofNat, Nat.mod_eq_of_lt h]

/-- C35: what `findClosestIndex` returns for a target whose rounded value is beyond the last
sample time (the list ascending, so that its first entry is no larger than its last).
`timeList.last() - look_for_int` is a difference of `quint64` and wraps, so for every
`slotWidth` below `2 ^ 63`, and a target no more than `2 ^ 63` beyond the last sample time,
the result is -1, however close the target is to the last sample; the last index is
returned only for a rounded value equal to the last sample time. -/
theorem C35_off_end_wraps (toFloat : Nat → ℚ) (timeList : List Nat) (lookFor slotWidth : ℚ)
    (first last : Nat) (hmono : Monotone toFloat) (hexact : toFloat (2 ^ 63) = 2 ^ 63)
    (hzero : toFloat 0 = 0) (hhead : timeList.head? = some first)
    (hlast : timeList.getLast? = some last) (hasc : first ≤ last) (hbound : last < 2 ^ 64)
    (hw0 : 0 ≤ slotWidth) (hw : slotWidth < 2 ^ 63) :
    (last < look_for_int lookFor → look_for_int lookFor - last ≤ 2 ^ 63 →
      findClosestIndex toFloat timeList lookFor slotWidth = .ok (-1)) ∧
    (look_for_int lookFor = last → first < last →
      findClosestIndex toFloat timeList lookFor slotWidth =
        .ok ((timeList.length : Int) - 1)) := by
  have hlk : look_for_int lookFor < 2 ^ 64 := Nat.mod_lt _ (by norm_num)
  constructor
  · intro hb hgap
    unfold findClosestIndex
    rw [hhead, hlast]
    dsimp only
    rw [if_neg (by omega), if_pos (by omega)]
    have hsub : 2 ^ 63 ≤ sub64 last (look_for_int lookFor) := by
      unfold sub64
      rw [Nat.mod_eq_of_lt hbound, Nat.mod_eq_of_lt hlk, Nat.mod_eq_of_lt (by omega)]
      omega
    have h1 := hmono hsub
    rw [hexact] at h1
    rw [if_pos (lt_of_lt_of_le hw h1)]
  · intro he hfl
    unfold findClosestIndex
    rw [hhead, hlast]
    dsimp only
    rw [if_neg (by omega), if_pos (by omega)]
    have hsub : sub64 last (look_for_int lookFor) = 0 := by
      unfold sub64
      rw [he, Nat.mod_eq_of_lt hbound]
      have : last + (2 ^ 64 - last) = 2 ^ 64 := by omega
      rw [this, Nat.mod_self]
    rw [hsub, hzero, if_neg (not_lt.mpr hw0)]

/-- Witness for C35: the sample times 0 and 10, the slot width 5 and the target 11, which is
1 beyond the last sample: the result is -1, not the last index 1. -/
theorem C35_off_end_wraps_witness :
    findClosestIndex (fun n => (n : ℚ)) [0, 10] 11 5 = .ok (-1) :=
  (C35_off_end_wraps (fun n => (n : ℚ)) [0, 10] 11 5 0 10 Nat.mono_cast (by norm_num)
    (by norm_num) rfl rfl (by decide) (by norm_num) (by norm_num) (by norm_num)).1
    (by have h := look_for_int_nat 11 (by norm_num); rw [Nat.cast_ofNat] at h; rw [h]; decide)
    (by have h := look_for_int_nat 11 (by norm_num); rw [Nat.cast_ofNat] at h; rw [h]; decide)

/-! ## The xor masks -/

theorem tweakerAt_lt {i : Nat} (h : i < 32) : tweakerAt i = .ok (2 ^ i) := by
  have h1 := tweakers_getD i h
  have hlen : tweakers.length = 32 := by simp [tweakers]
  unfold tweakerAt
  rw [List.getD_eq_getElem?_getD] at h1
  rw [List.getElem?_eq_getElem (by rw [hlen]; exact h)] at h1 ⊢
  simp only [Option.getD_some] at h1
  simp only [h1]

theorem tweakerAt_ge {i : Nat} (h : 32 ≤ i) : tweakerAt i = .error .indexOutOfRange := by
  have hlen : tweakers.length = 32 := by simp [tweakers]
  unfold tweakerAt
  rw [List.getElem?_eq_none (by rw [hlen]; exact h)]

/-- One flip with `PORTABLE_RAND_MAX = 32767`: a draw below 32736 flips the bit
`draw / 1023`, a draw of 32736 or more indexes `tweakers` at 32. -/
theorem flipMask_spec (qrand : Nat → Nat) (n c : Nat) (s : Lookups) :
    (portable_rand qrand s.drawn < 32736 →
      flipMask 32767 qrand n c s =
        .ok { xormasks := fun i k =>
                if i = n ∧ k = c then
                  s.xormasks (n - 1) c ^^^ 2 ^ (portable_rand qrand s.drawn / 1023)
                else s.xormasks i k
              drawn := s.drawn + 1 }) ∧
    (32736 ≤ portable_rand qrand s.drawn →
      flipMask 32767 qrand n c s = .error .indexOutOfRange) := by
  have hdiv : 32767 / 32 = 1023 := by norm_num
  constructor
  · intro h
    unfold flipMask
    rw [hdiv, if_neg (by norm_num), tweakerAt_lt (by omega)]
  · intro h
    unfold flipMask
    rw [hdiv, if_neg (by norm_num), tweakerAt_ge (by omega)]

/-- One row with `PORTABLE_RAND_MAX = 32767` and its three draws below 32736. -/
theorem flipRow_ok (qrand : Nat → Nat) (n : Nat) (s : Lookups)
    (h0 : portable_rand qrand s.drawn < 32736)
    (h1 : portable_rand qrand (s.drawn + 1) < 32736)
    (h2 : portable_rand qrand (s.drawn + 2) < 32736) :
    ∃ s', flipRow 32767 qrand n s = .ok s' ∧ s'.drawn = s.drawn + 3 ∧
      (∀ i k, i ≠ n → s'.xormasks i k = s.xormasks i k) ∧
      (1 ≤ n → ∀ c, c < 3 →
        s'.xormasks n c = s.xormasks (n - 1) c ^^^ 2 ^ (portable_rand qrand (s.drawn + c) / 1023)) := by
  unfold flipRow
  rw [(flipMask_spec qrand n 0 s).1 h0]
  dsimp only
  rw [(flipMask_spec qrand n 1 _).1 h1]
  dsimp only
  rw [(flipMask_spec qrand n 2 _).1 h2]
  refine ⟨_, rfl, rfl, ?_, ?_⟩
  · intro i k hi
    simp only [hi, false_and, if_false]
  · intro hn c hc
    have hne : n - 1 ≠ n := by omega
    interval_cases c <;> simp [hne]

/-- One row with `PORTABLE_RAND_MAX = 32767` and one of its three draws at 32736 or more. -/
theorem flipRow_fault (qrand : Nat → Nat) (n : Nat) (s : Lookups) (j : Nat) (hj : j < 3)
    (h : 32736 ≤ portable_rand qrand (s.drawn + j)) :
    flipRow 32767 qrand n s = .error .indexOutOfRange := by
  unfold flipRow
  by_cases h0 : portable_rand qrand s.drawn < 32736
  · rw [(flipMask_spec qrand n 0 s).1 h0]
    dsimp only
    by_cases h1 : portable_rand qrand (s.drawn + 1) < 32736
    · rw [(flipMask_spec qrand n 1 _).1 h1]
      dsimp only
      have hj2 : j = 2 := by
        interval_cases j
        · exact absurd h (by simpa using h0)
        · exact absurd h (by simpa using h1)
        · rfl
      subst hj2
      exact (flipMask_spec qrand n 2 _).2 h
    · rw [(flipMask_spec qrand n 1 _).2 (by simpa using h1)]
  · rw [(flipMask_spec qrand n 0 s).2 (by simpa using h0)]

/-- The loop over the rows faults as soon as one of its draws is 32736 or more. -/
theorem flipRows_fault (qrand : Nat → Nat) :
    ∀ (count lo : Nat) (s : Lookups) (j : Nat), j < 3 * count →
      32736 ≤ portable_rand qrand (s.drawn + j) →
      forRange (flipRow 32767 qrand) lo count s = .error .indexOutOfRange := by
  intro count
  induction count with
  | zero => intro lo s j hj; omega
  | succ k ih =>
    intro lo s j hj h
    unfold forRange
    by_cases hall : portable_rand qrand s.drawn < 32736 ∧
        portable_rand qrand (s.drawn + 1) < 32736 ∧ portable_rand qrand (s.drawn + 2) < 32736
    · obtain ⟨s', hs', hd, _, _⟩ := flipRow_ok qrand lo s hall.1 hall.2.1 hall.2.2
      rw [hs']
      dsimp only
      have hj3 : 3 ≤ j := by
        by_contra hlt
        have : j < 3 := by omega
        interval_cases j
        · exact absurd hall.1 (by simpa using h)
        · exact absurd hall.2.1 (by simpa using h)
        · exact absurd hall.2.2 (by simpa using h)
      refine ih (lo + 1) s' (j - 3) (by omega) ?_
      rw [hd]
      have : s.drawn + 3 + (j - 3) = s.drawn + j := by omega
      rw [this]
      exact h
    · have hex : ∃ i, i < 3 ∧ 32736 ≤ portable_rand qrand (s.drawn + i) := by
        by_contra hno
        apply hall
        refine ⟨?_, ?_, ?_⟩
        · by_contra hc; exact hno ⟨0, by norm_num, by simpa using hc⟩
        · by_contra hc; exact hno ⟨1, by norm_num, by simpa using hc⟩
        · by_contra hc; exact hno ⟨2, by norm_num, by simpa using hc⟩
      obtain ⟨i, hi, hbad⟩ := hex
      rw [flipRow_fault qrand lo s i hi hbad]

/-- The Hamming weight of a word with one bit set. -/
theorem popcount_two_pow (b : Nat) (hb : b < 64) : popcount (2 ^ b) = 1 := by
  unfold popcount
  have hfun : (fun i => (2 ^ b).testBit i) = fun i => i == b := by
    funext i
    rw [Nat.testBit_two_pow]
    by_cases h : b = i
    · subst h; simp
    · have h' : i ≠ b := fun e => h e.symm
      simp [h, h']
  rw [hfun]
  exact List.count_eq_one_of_mem (List.nodup_range 64) (List.mem_range.2 hb)

/-! ## The xor masks of consecutive rows -/

/-- C31: the table `xormasks` of `MakeLookups` with `PORTABLE_RAND_MAX = 32767`. When every
draw of the loop over the rows (the draws 6 to 770 of `portable_rand`) is below 32736, the
table is built and every entry of the rows 1 to 255 differs from the entry above it in
exactly one bit, the bit `draw / 1023`, which is in `0 .. 31`. A draw of the loop in
`32736 .. 32767` gives the index 32, and `tweakers[32]` is outside the array of 32 entries. -/
theorem C31_xormask_one_bit (qrand : Nat → Nat) :
    ((∀ k, 6 ≤ k → k < 771 → portable_rand qrand k < 32736) →
      ∃ s, makeXormasks 32767 qrand = .ok s ∧
        ∀ n c, 1 ≤ n → n < 256 → c < 3 →
          ∃ b, b < 32 ∧ b = portable_rand qrand (6 + 3 * (n - 1) + c) / 1023 ∧
            s.xormasks n c ^^^ s.xormasks (n - 1) c = 2 ^ b ∧
            hammingDistance (s.xormasks n c) (s.xormasks (n - 1) c) = 1) ∧
    (∀ k, 6 ≤ k → k < 771 → 32736 ≤ portable_rand qrand k →
      makeXormasks 32767 qrand = .error .indexOutOfRange) := by
  constructor
  · intro hdraws
    obtain ⟨s, hs, _, hrows⟩ := forRange_total (flipRow 32767 qrand)
      (fun i t => t.drawn = 3 * i + 3 ∧ ∀ n c, 1 ≤ n → n < i → c < 3 →
        t.xormasks n c =
          t.xormasks (n - 1) c ^^^ 2 ^ (portable_rand qrand (3 * n + 3 + c) / 1023))
      255 1
      (seedMask qrand 2 (seedMask qrand 1 (seedMask qrand 0
        { xormasks := fun _ _ => 0, drawn := 0 })))
      ⟨rfl, fun n c h1 h2 _ => by omega⟩
      (by
        intro i t hlo hhi ⟨hd, hrow⟩
        obtain ⟨t', ht', hd', hother, hnew⟩ := flipRow_ok qrand i t
          (hdraws _ (by omega) (by omega)) (hdraws _ (by omega) (by omega))
          (hdraws _ (by omega) (by omega))
        refine ⟨t', ht', by omega, ?_⟩
        intro n c h1 h2 hc
        by_cases hn : n = i
        · subst hn
          rw [hnew h1 c hc, hother (n - 1) c (by omega), hd]
        · rw [hother n c hn, hother (n - 1) c (by omega)]
          exact hrow n c h1 (by omega) hc)
    refine ⟨s, hs, ?_⟩
    intro n c h1 h2 hc
    have hidx : 6 + 3 * (n - 1) + c = 3 * n + 3 + c := by omega
    have hdraw := hdraws (3 * n + 3 + c) (by omega) (by omega)
    have hx : s.xormasks n c ^^^ s.xormasks (n - 1) c =
        2 ^ (portable_rand qrand (3 * n + 3 + c) / 1023) := by
      rw [hrows n c h1 (by omega) hc, Nat.xor_comm, Nat.xor_cancel_left]
    refine ⟨portable_rand qrand (3 * n + 3 + c) / 1023, by omega, by rw [hidx], hx, ?_⟩
    unfold hammingDistance
    rw [hx]
    exact popcount_two_pow _ (by omega)
  · intro k h1 h2 hbad
    unfold makeXormasks
    refine flipRows_fault qrand 255 1 _ (k - 6) (by omega) ?_
    have : (seedMask qrand 2 (seedMask qrand 1 (seedMask qrand 0
        { xormasks := fun _ _ => 0, drawn := 0 }))).drawn + (k - 6) = k := by
      show 0 + 2 + 2 + 2 + (k - 6) = k
      omega
    rw [this]
    exact hbad

/-- Witness for C31: a source that returns 32767 at every call; the first draw of the loop
gives the index `32767 / 1023 = 32`. -/
theorem C31_xormask_one_bit_witness :
    portable_rand (fun _ => 32767) 6 / (32767 / 32) = 32 ∧
    makeXormasks 32767 (fun _ => 32767) = .error .indexOutOfRange :=
  ⟨by decide, (C31_xormask_one_bit (fun _ => 32767)).2 6 (by decide) (by decide) (by decide)⟩

/-! ## The match of a new species with the old ones -/

/-- The four look-ups of lines 875-879 add up to the 64-bit Hamming distance. -/
theorem typeDistance_eq (a b : Nat) (ha : a < 2 ^ 64) (hb : b < 2 ^ 64) :
    typeDistance a b = (hammingDistance a b : Int) := by
  have hx : a ^^^ b < 2 ^ 64 := Nat.xor_lt_two_pow ha hb
  have hs := popcount_split (a ^^^ b) hx
  unfold typeDistance hammingDistance
  simp only []
  rw [hs]
  push_cast
  ring

theorem hammingDistance_le (a b : Nat) : hammingDistance a b ≤ 64 := by
  unfold hammingDistance popcount
  exact (List.countP_le_length _).trans (by rw [List.length_range])

theorem appendUnseen_fold (l : List Species) :
    ∀ st : List Nat × List Species, ∃ ext, (l.foldl appendUnseen st).2 = st.2 ++ ext := by
  induction l with
  | nil => intro st; exact ⟨[], by simp⟩
  | cons sp rest ih =>
    intro st
    obtain ⟨ext, hext⟩ := ih (appendUnseen st sp)
    rw [List.foldl_cons, hext]
    unfold appendUnseen
    split_ifs
    · exact ⟨ext, rfl⟩
    · exact ⟨[sp] ++ ext, by simp⟩

theorem appendUnseen_lists (ls : List (List Species)) :
    ∀ st : List Nat × List Species,
      ∃ ext, (ls.foldl (fun st l => l.foldl appendUnseen st) st).2 = st.2 ++ ext := by
  induction ls with
  | nil => intro st; exact ⟨[], by simp⟩
  | cons l rest ih =>
    intro st
    obtain ⟨ext, hext⟩ := ih (l.foldl appendUnseen st)
    obtain ⟨ext0, hext0⟩ := appendUnseen_fold l st
    rw [List.foldl_cons, hext, hext0]
    exact ⟨ext0 ++ ext, by simp⟩

/-- The combined list starts with the old list. -/
theorem combined_prefix (timeSliceConnect : Int) (old : List Species)
    (archived : List (List Species)) :
    ∃ ext, oldSpeciesListCombined timeSliceConnect old archived = old ++ ext :=
  appendUnseen_lists _ _

theorem matchStep_inv {newType : Nat} {done : List Species} {st : MatchScan} (o : Species)
    (hd : typeDistance o.type newType < 999) (hinv : ScanInv newType done st) :
    ScanInv newType (done ++ [o]) (matchStep newType o done.length st) := by
  have hself : (done ++ [o])[done.length]? = some o := by
    rw [List.getElem?_append_right le_rfl]
    simp
  have hkeep : done ≠ [] → ∃ (idx : Nat) (o' : Species), st.closestOld = (idx : Int) ∧
      (done ++ [o])[idx]? = some o' ∧
      typeDistance o'.type newType = st.bestDistance ∧ o'.size = st.bestSize := by
    intro hne
    obtain ⟨idx, o', h1, h2, h3, h4⟩ := hinv.held hne
    have hlt : idx < done.length := by
      by_contra hge
      rw [List.getElem?_eq_none (by omega)] at h2
      cases h2
    exact ⟨idx, o', h1, by rw [List.getElem?_append_left hlt]; exact h2, h3, h4⟩
  have hnil : done = [] → st.bestDistance = 999 := hinv.fresh
  unfold matchStep
  simp only []
  by_cases heq : typeDistance o.type newType = st.bestDistance
  · have hne : done ≠ [] := by
      intro h
      have := hnil h
      omega
    rw [if_pos heq]
    by_cases hsz : o.size > st.bestSize
    · rw [if_pos hsz, if_neg (lt_irrefl _)]
      refine ⟨?_, fun h => absurd h (by simp), fun _ => ⟨done.length, o, rfl, hself, rfl, rfl⟩⟩
      intro o' ho'
      rcases List.mem_append.mp ho' with h | h
      · obtain ⟨h1, h2⟩ := hinv.least o' h
        refine ⟨by show typeDistance o.type newType ≤ _; omega, fun h3 => ?_⟩
        have := h2 (h3.trans heq)
        show o'.size ≤ o.size
        omega
      · have : o' = o := by simpa using h
        subst this
        exact ⟨le_rfl, fun _ => le_rfl⟩
    · rw [if_neg hsz, if_neg (by omega)]
      refine ⟨?_, fun h => absurd h (by simp), fun _ => hkeep hne⟩
      intro o' ho'
      rcases List.mem_append.mp ho' with h | h
      · exact hinv.least o' h
      · have : o' = o := by simpa using h
        subst this
        exact ⟨by omega, fun _ => by omega⟩
  · rw [if_neg heq]
    by_cases hlt : typeDistance o.type newType < st.bestDistance
    · rw [if_pos hlt]
      refine ⟨?_, fun h => absurd h (by simp), fun _ => ⟨done.length, o, rfl, hself, rfl, rfl⟩⟩
      intro o' ho'
      rcases List.mem_append.mp ho' with h | h
      · obtain ⟨h1, _⟩ := hinv.least o' h
        refine ⟨by show typeDistance o.type newType ≤ _; omega, fun h3 => ?_⟩
        have h4 : typeDistance o'.type newType = typeDistance o.type newType := h3
        omega
      · have : o' = o := by simpa using h
        subst this
        exact ⟨le_rfl, fun _ => le_rfl⟩
    · rw [if_neg hlt]
      have hne : done ≠ [] := by
        intro h
        have := hnil h
        omega
      refine ⟨?_, fun h => absurd h (by simp), fun _ => hkeep hne⟩
      intro o' ho'
      rcases List.mem_append.mp ho' with h | h
      · exact hinv.least o' h
      · have : o' = o := by simpa using h
        subst this
        exact ⟨by omega, fun h3 => absurd h3 heq⟩

theorem closestScan_inv (newType : Nat) :
    ∀ (rest done : List Species) (st : MatchScan),
      (∀ o ∈ rest, typeDistance o.type newType < 999) → ScanInv newType done st →
      ScanInv newType (done ++ rest) (closestScan newType rest done.length st) := by
  intro rest
  induction rest with
  | nil => intro done st _ h; simpa [closestScan] using h
  | cons o rest ih =>
    intro done st hd hinv
    have h1 := matchStep_inv o (hd o (List.mem_cons_self _ _)) hinv
    have h2 := ih (done ++ [o]) _ (fun o' ho' => hd o' (List.mem_cons_of_mem _ ho')) h1
    rw [List.length_append, List.length_singleton, List.append_assoc] at h2
    exact h2

/-! ## The old species that a new species is matched with -/

/-- C32: the match of the legacy identifier, for a non-empty old list and type genomes of 64
bits. The value `closestOld` that `parents[i]` gets is the index of a species of the
combined old list (the old list followed by the archived species not met yet); that species
has the least 64-bit Hamming distance to the type genome of the new species among all the
species of the combined list, and the largest size among those at that least distance. -/
theorem C32_legacy_match_is_closest (timeSliceConnect : Int) (oldSpeciesList : List Species)
    (archivedSpeciesLists : List (List Species)) (newType : Nat)
    (hold : oldSpeciesList ≠ [])
    (htypes : ∀ o ∈ oldSpeciesListCombined timeSliceConnect oldSpeciesList archivedSpeciesLists,
      o.type < 2 ^ 64)
    (hnew : newType < 2 ^ 64) :
    ∃ (j : Nat) (chosen : Species),
      (legacyMatch timeSliceConnect oldSpeciesList archivedSpeciesLists newType).closestOld =
        (j : Int) ∧
      (oldSpeciesListCombined timeSliceConnect oldSpeciesList archivedSpeciesLists)[j]? =
        some chosen ∧
      (legacyMatch timeSliceConnect oldSpeciesList archivedSpeciesLists newType).bestDistance =
        (hammingDistance chosen.type newType : Int) ∧
      (legacyMatch timeSliceConnect oldSpeciesList archivedSpeciesLists newType).bestSize =
        chosen.size ∧
      (∀ o ∈ oldSpeciesListCombined timeSliceConnect oldSpeciesList archivedSpeciesLists,
        hammingDistance chosen.type newType ≤ hammingDistance o.type newType) ∧
      (∀ o ∈ oldSpeciesListCombined timeSliceConnect oldSpeciesList archivedSpeciesLists,
        hammingDistance o.type newType = hammingDistance chosen.type newType →
        o.size ≤ chosen.size) := by
  have hdist : ∀ o ∈ oldSpeciesListCombined timeSliceConnect oldSpeciesList
      archivedSpeciesLists, typeDistance o.type newType = (hammingDistance o.type newType : Int) :=
    fun o ho => typeDistance_eq _ _ (htypes o ho) hnew
  have hsmall : ∀ o ∈ oldSpeciesListCombined timeSliceConnect oldSpeciesList
      archivedSpeciesLists, typeDistance o.type newType < 999 := by
    intro o ho
    rw [hdist o ho]
    have := hammingDistance_le o.type newType
    omega
  have hinv : ScanInv newType
      (oldSpeciesListCombined timeSliceConnect oldSpeciesList archivedSpeciesLists)
      (closestScan newType
        (oldSpeciesListCombined timeSliceConnect oldSpeciesList archivedSpeciesLists) 0
        scanStart) := by
    have h := closestScan_inv newType _ [] scanStart hsmall
      ⟨fun o ho => (by cases ho), fun _ => rfl, fun h => absurd rfl h⟩
    rw [List.nil_append] at h
    exact h
  have hne : oldSpeciesListCombined timeSliceConnect oldSpeciesList archivedSpeciesLists ≠
      [] := by
    obtain ⟨ext, hext⟩ := combined_prefix timeSliceConnect oldSpeciesList archivedSpeciesLists
    rw [hext]
    intro h
    exact hold (List.append_eq_nil.mp h).1
  obtain ⟨j, chosen, hj, hget, hbd, hbs⟩ := hinv.held hne
  have hmem : chosen ∈ oldSpeciesListCombined timeSliceConnect oldSpeciesList
      archivedSpeciesLists := List.mem_iff_getElem?.2 ⟨j, hget⟩
  have hcd := hdist chosen hmem
  refine ⟨j, chosen, hj, hget, ?_, hbs.symm, ?_, ?_⟩
  · show (closestScan newType _ 0 scanStart).bestDistance = _
    rw [← hcd]
    exact hbd.symm
  · intro o ho
    have h1 := (hinv.least o ho).1
    rw [hdist o ho, ← hbd, hcd] at h1
    exact_mod_cast h1
  · intro o ho he
    have h2 := (hinv.least o ho).2
    rw [hdist o ho, ← hbd, hcd, ← hbs] at h2
    exact h2 (by rw [he])

/-- Witness for C32: two old species and one archived species; the new type 3 is at the
distance 1 of the types 1 and 7, and of these the archived species of the type 7 is the
larger. -/
theorem C32_legacy_match_is_closest_witness :
    oldSpeciesListCombined 5 [oldSpecies 1 10 4, oldSpecies 12 11 9]
      [[oldSpecies 12 11 9, oldSpecies 7 12 6]] =
      [oldSpecies 1 10 4, oldSpecies 12 11 9, oldSpecies 7 12 6] ∧
    (legacyMatch 5 [oldSpecies 1 10 4, oldSpecies 12 11 9]
      [[oldSpecies 12 11 9, oldSpecies 7 12 6]] 3).closestOld = 2 ∧
    ∃ (j : Nat) (chosen : Species),
      (legacyMatch 5 [oldSpecies 1 10 4, oldSpecies 12 11 9]
        [[oldSpecies 12 11 9, oldSpecies 7 12 6]] 3).closestOld = (j : Int) ∧
      (oldSpeciesListCombined 5 [oldSpecies 1 10 4, oldSpecies 12 11 9]
        [[oldSpecies 12 11 9, oldSpecies 7 12 6]])[j]? = some chosen ∧
      (legacyMatch 5 [oldSpecies 1 10 4, oldSpecies 12 11 9]
        [[oldSpecies 12 11 9, oldSpecies 7 12 6]] 3).bestDistance =
        (hammingDistance chosen.type 3 : Int) ∧
      (legacyMatch 5 [oldSpecies 1 10 4, oldSpecies 12 11 9]
        [[oldSpecies 12 11 9, oldSpecies 7 12 6]] 3).bestSize = chosen.size ∧
      (∀ o ∈ oldSpeciesListCombined 5 [oldSpecies 1 10 4, oldSpecies 12 11 9]
          [[oldSpecies 12 11 9, oldSpecies 7 12 6]],
        hammingDistance chosen.type 3 ≤ hammingDistance o.type 3) ∧
      (∀ o ∈ oldSpeciesListCombined 5 [oldSpecies 1 10 4, oldSpecies 12 11 9]
          [[oldSpecies 12 11 9, oldSpecies 7 12 6]],
        hammingDistance o.type 3 = hammingDistance chosen.type 3 → o.size ≤ chosen.size) :=
  ⟨by decide, by decide,
   C32_legacy_match_is_closest 5 [oldSpecies 1 10 4, oldSpecies 12 11 9]
     [[oldSpecies 12 11 9, oldSpecies 7 12 6]] 3 (by simp)
     (by
       have h : oldSpeciesListCombined 5 [oldSpecies 1 10 4, oldSpecies 12 11 9]
           [[oldSpecies 12 11 9, oldSpecies 7 12 6]] =
           [oldSpecies 1 10 4, oldSpecies 12 11 9, oldSpecies 7 12 6] := by decide
       rw [h]
       intro o ho
       simp only [List.mem_cons, List.mem_singleton, List.not_mem_nil, or_false] at ho
       rcases ho with rfl | rfl | rfl <;> decide)
     (by norm_num)⟩

/-! ## The grouping loop of the legacy identifier: the search for the largest count -/

theorem readAt_mem {a : List Int} {i v : Int} (h : readAt a i = .ok v) : v ∈ a :=
  List.mem_iff_getElem?.2 ⟨i.toNat, (readAt_eq_ok.1 h).2⟩

/-- The search of lines 731-741 returns; it finds no genome exactly when every genome has a
species, and otherwise a genome without a species whose count is the largest among those. -/
theorem findLargest_spec (genomeCount : List Int) (s : LegacyState) (n : Nat)
    (hids : s.speciesID.length = n) (hcnt : genomeCount.length = n)
    (hpos : ∀ c ∈ genomeCount, 0 < c) :
    ∃ largest idx, findLargest genomeCount s n = .ok (largest, idx) ∧
      ((largest = -1 ∧ ∀ j, readAt s.speciesID j ≠ .ok 0) ∨
       (1 ≤ largest ∧ readAt s.speciesID idx = .ok 0 ∧
        readAt genomeCount idx = .ok largest ∧
        ∀ i cnt, readAt s.speciesID i = .ok 0 → readAt genomeCount i = .ok cnt →
          cnt ≤ largest)) := by
  obtain ⟨st, hst, hP⟩ := forRange_total (largestStep genomeCount s.speciesID)
    (fun i st =>
      (st.1 = -1 ∧ ∀ j : Nat, j < i → readAt s.speciesID j ≠ .ok 0) ∨
      (1 ≤ st.1 ∧ readAt s.speciesID st.2 = .ok 0 ∧ readAt genomeCount st.2 = .ok st.1 ∧
        ∀ j : Nat, j < i → readAt s.speciesID j = .ok 0 →
          ∀ cnt, readAt genomeCount j = .ok cnt → cnt ≤ st.1))
    n 0 (-1, -1) (Or.inl ⟨rfl, fun j hj => by omega⟩)
    (by
      intro i st _ hi hP
      obtain ⟨v, hv⟩ := readAt_of_range (a := s.speciesID) (i := (i : Int)) (by omega)
        (by rw [hids]; exact_mod_cast (by omega : i < n))
      obtain ⟨c, hc⟩ := readAt_of_range (a := genomeCount) (i := (i : Int)) (by omega)
        (by rw [hcnt]; exact_mod_cast (by omega : i < n))
      have hcpos : 0 < c := hpos c (readAt_mem hc)
      unfold largestStep
      rw [hv]
      dsimp only
      by_cases hv0 : v = 0
      · subst hv0
        rw [if_pos rfl, hc]
        dsimp only
        by_cases hgt : c > st.1
        · rw [if_pos hgt]
          refine ⟨_, rfl, Or.inr ⟨by show 1 ≤ c; omega, hv, hc, ?_⟩⟩
          intro j hj hj0 cnt hcj
          by_cases hji : j = i
          · subst hji
            rw [hc] at hcj
            have := Except.ok.inj hcj
            show cnt ≤ c
            omega
          · rcases hP with ⟨_, hno⟩ | ⟨_, _, _, hle⟩
            · exact absurd hj0 (hno j (by omega))
            · have := hle j (by omega) hj0 cnt hcj
              show cnt ≤ c
              omega
        · rw [if_neg hgt]
          refine ⟨st, rfl, ?_⟩
          rcases hP with ⟨h1, _⟩ | ⟨h1, h2, h3, hle⟩
          · omega
          · refine Or.inr ⟨h1, h2, h3, ?_⟩
            intro j hj hj0 cnt hcj
            by_cases hji : j = i
            · subst hji
              rw [hc] at hcj
              have := Except.ok.inj hcj
              omega
            · exact hle j (by omega) hj0 cnt hcj
      · rw [if_neg hv0]
        refine ⟨st, rfl, ?_⟩
        have hnot : ∀ j : Nat, j = i → readAt s.speciesID j ≠ .ok 0 := by
          intro j hji h0
          subst hji
          rw [hv] at h0
          exact hv0 (Except.ok.inj h0)
        rcases hP with ⟨h1, hno⟩ | ⟨h1, h2, h3, hle⟩
        · refine Or.inl ⟨h1, fun j hj => ?_⟩
          by_cases hji : j = i
          · exact hnot j hji
          · exact hno j (by omega)
        · refine Or.inr ⟨h1, h2, h3, fun j hj hj0 => ?_⟩
          by_cases hji : j = i
          · exact absurd hj0 (hnot j hji)
          · exact hle j (by omega) hj0)
  rw [Nat.zero_add] at hP
  refine ⟨st.1, st.2, hst, ?_⟩
  rcases hP with ⟨h1, hno⟩ | ⟨h1, h2, h3, hle⟩
  · refine Or.inl ⟨h1, fun j hj => ?_⟩
    obtain ⟨h0, hlt⟩ := readAt_range hj
    have := hno j.toNat (by omega)
    rw [Int.toNat_of_nonneg h0] at this
    exact this hj
  · refine Or.inr ⟨h1, h2, h3, fun i cnt hi hc => ?_⟩
    obtain ⟨h0, hlt⟩ := readAt_range hi
    have := hle i.toNat (by omega)
    rw [Int.toNat_of_nonneg h0] at this
    exact this hi cnt hc

/-! ## The grouping loop of the legacy identifier: the comparison with the other genomes -/

theorem withinTolerance_self (maxDifference : Int) (h : 0 ≤ maxDifference) (a : Nat) :
    withinTolerance maxDifference a a = true := by
  have hb : bitCounts 0 = 0 := by decide
  unfold withinTolerance
  simp only [Nat.xor_self, Nat.zero_and, Nat.zero_mod, Nat.zero_div, hb]
  simp [h]

theorem mergeValue_none {m : List (Int × Int)} {key : Int} (h : mergeValue m key = none) :
    key ∉ m.map Prod.fst := by
  unfold mergeValue at h
  rw [Option.map_eq_none', List.find?_eq_none] at h
  intro hmem
  obtain ⟨e, he, hk⟩ := List.mem_map.1 hmem
  exact h e he (by simp [hk])

/-- The keys of the hash after an insertion: the keys of before, and the key inserted. -/
theorem mergeInsert_keys (m : List (Int × Int)) (key sum : Int)
    (hnd : (m.map Prod.fst).Nodup) :
    ((mergeInsert m key sum).map Prod.fst).Nodup ∧
    ∀ e ∈ mergeInsert m key sum, e.1 = key ∨ e.1 ∈ m.map Prod.fst := by
  unfold mergeInsert
  cases hv : mergeValue m key with
  | none =>
    have hnot := mergeValue_none hv
    simp only [Option.isSome_none, Bool.false_eq_true, if_false]
    constructor
    · rw [List.map_append, List.map_singleton]
      exact List.Nodup.append hnd (List.nodup_singleton _)
        (by
          intro a ha hb
          rw [List.mem_singleton] at hb
          subst hb
          exact hnot ha)
    · intro e he
      rcases List.mem_append.1 he with h | h
      · exact Or.inr (List.mem_map_of_mem _ h)
      · rw [List.mem_singleton] at h
        subst h
        exact Or.inl rfl
  | some v =>
    simp only [Option.isSome_some, if_true]
    have hkeys : (m.map fun e => if e.1 = key then (key, sum) else e).map Prod.fst =
        m.map Prod.fst := by
      rw [List.map_map]
      apply List.map_congr_left
      intro e _
      simp only [Function.comp_apply]
      split_ifs with h
      · exact h.symm
      · rfl
    constructor
    · rw [hkeys]
      exact hnd
    · intro e he
      right
      rw [← hkeys]
      exact List.mem_map_of_mem _ he

/-- One comparison of lines 753-773 returns and keeps the invariant of the loop. -/
theorem compareGenome_inv {maxDifference : Int} {genomeList : List Nat}
    {genomeCount : List Int} {s : LegacyState} {idx : Int} {i : Nat} {c : CompareState}
    (hmd : 0 ≤ maxDifference) (hcnt : genomeCount.length = genomeList.length)
    (hpos : ∀ v ∈ genomeCount, 0 < v) (hnn : ∀ j id, readAt s.speciesID j = .ok id → 0 ≤ id)
    (hfree : readAt s.speciesID idx = .ok 0)
    (hi : i < genomeList.length) (hinv : CompareInv genomeList.length s idx i c) :
    ∃ c', compareGenome maxDifference genomeList genomeCount
        (genomeList.getD idx.toNat 0) s.nextID i c = .ok c' ∧
      CompareInv genomeList.length s idx (i + 1) c' := by
  have hlen := hinv.ids_length
  obtain ⟨sid, hsid⟩ := readAt_of_range (a := c.speciesID) (i := (i : Int)) (by omega)
    (by rw [hlen]; exact_mod_cast hi)
  obtain ⟨cnt, hc⟩ := readAt_of_range (a := genomeCount) (i := (i : Int)) (by omega)
    (by rw [hcnt]; exact_mod_cast hi)
  have hcpos : 0 < cnt := hpos cnt (readAt_mem hc)
  have hsid0 : readAt s.speciesID i = .ok sid := by rw [← hinv.ahead i le_rfl]; exact hsid
  have hsidnn := hnn _ _ hsid0
  unfold compareGenome
  by_cases hw : withinTolerance maxDifference (genomeList.getD idx.toNat 0)
      (genomeList.getD i 0) = true
  · rw [if_pos hw, hsid]
    dsimp only
    rw [hc]
    dsimp only
    by_cases hpos' : sid > 0
    · rw [if_pos hpos']
      have hne : idx ≠ (i : Int) := by
        intro h
        rw [h, hsid0] at hfree
        have := Except.ok.inj hfree
        omega
      obtain ⟨hk1, hk2⟩ := mergeInsert_keys c.merge_species sid
        (match mergeValue c.merge_species sid with
         | some v => cnt + v
         | none => cnt) hinv.keys_nodup
      refine ⟨_, rfl, ⟨hlen, fun j hj => hinv.ahead j (by omega), hinv.kept, hinv.fresh,
        fun h => hinv.found (by omega), hinv.size_nonneg, hk1, ?_⟩⟩
      intro e he
      rcases hk2 e he with h | h
      · rw [h]
        exact ⟨hpos', i, hsid0⟩
      · obtain ⟨e', he', hfst⟩ := List.mem_map.1 h
        rw [← hfst]
        exact hinv.keys e' he'
    · rw [if_neg hpos']
      have hz : sid = 0 := by omega
      subst hz
      have hwr := writeAt_of_range (a := c.speciesID) (i := (i : Int)) s.nextID (by omega)
        (by rw [hlen]; exact_mod_cast hi)
      rw [hwr]
      refine ⟨_, rfl, ⟨?_, ?_, ?_, ?_, ?_, ?_, hinv.keys_nodup, hinv.keys⟩⟩
      · show (c.speciesID.set _ _).length = _
        rw [List.length_set]
        exact hlen
      · intro j hj
        show readAt (c.speciesID.set _ _) j = _
        rw [readAt_writeAt_ne hwr (by omega)]
        exact hinv.ahead j (by omega)
      · intro j id hj hid
        have hji : j ≠ (i : Int) := by
          intro h
          rw [h, hsid0] at hj
          exact hid (Except.ok.inj hj).symm
        show readAt (c.speciesID.set _ _) j = _
        rw [readAt_writeAt_ne hwr hji]
        exact hinv.kept j id hj hid
      · intro j hj
        by_cases hji : j = (i : Int)
        · right
          rw [hji]
          exact readAt_writeAt_same hwr
        · show readAt (c.speciesID.set _ _) j = _ ∨ readAt (c.speciesID.set _ _) j = _
          rw [readAt_writeAt_ne hwr hji]
          exact hinv.fresh j hj
      · intro hlt
        by_cases hji : idx = (i : Int)
        · rw [hji]
          refine ⟨readAt_writeAt_same hwr, ?_⟩
          have := hinv.size_nonneg
          show 1 ≤ c.thisSpeciesSize + cnt
          omega
        · obtain ⟨h1, h2⟩ := hinv.found (by omega)
          refine ⟨?_, ?_⟩
          · show readAt (c.speciesID.set _ _) idx = _
            rw [readAt_writeAt_ne hwr hji]
            exact h1
          · show 1 ≤ c.thisSpeciesSize + cnt
            omega
      · have := hinv.size_nonneg
        show 0 ≤ c.thisSpeciesSize + cnt
        omega
  · rw [if_neg hw]
    have hne : idx ≠ (i : Int) := by
      intro h
      apply hw
      have : idx.toNat = i := by omega
      rw [this]
      exact withinTolerance_self maxDifference hmd _
    exact ⟨c, rfl, ⟨hlen, fun j hj => hinv.ahead j (by omega), hinv.kept, hinv.fresh,
      fun h => hinv.found (by omega), hinv.size_nonneg, hinv.keys_nodup, hinv.keys⟩⟩

/-- The loop of lines 751-774 returns; the genome that the search has found is in the new
species, the genomes that had a species keep it, and the keys of `merge_species` are
species of genomes, each once. -/
theorem compare_loop {maxDifference : Int} {genomeList : List Nat}
    {genomeCount : List Int} {s : LegacyState} {idx : Int}
    (hmd : 0 ≤ maxDifference) (hcnt : genomeCount.length = genomeList.length)
    (hpos : ∀ v ∈ genomeCount, 0 < v) (hnn : ∀ j id, readAt s.speciesID j = .ok id → 0 ≤ id)
    (hlen : s.speciesID.length = genomeList.length)
    (hfree : readAt s.speciesID idx = .ok 0) :
    ∃ c, forRange (compareGenome maxDifference genomeList genomeCount
        (genomeList.getD idx.toNat 0) s.nextID) 0 genomeList.length
        { speciesID := s.speciesID, merge_species := [], thisSpeciesSize := 0 } = .ok c ∧
      CompareInv genomeList.length s idx genomeList.length c := by
  obtain ⟨hidx0, _⟩ := readAt_range hfree
  obtain ⟨c, hc, hinv⟩ := forRange_total
    (compareGenome maxDifference genomeList genomeCount (genomeList.getD idx.toNat 0) s.nextID)
    (fun i c => CompareInv genomeList.length s idx i c) genomeList.length 0
    { speciesID := s.speciesID, merge_species := [], thisSpeciesSize := 0 }
    ⟨hlen, fun _ _ => rfl, fun _ _ h _ => h, fun _ h => Or.inl h,
      fun h => by omega, le_rfl, List.nodup_nil, fun e he => by cases he⟩
    (fun i t _ hi hinv =>
      compareGenome_inv hmd hcnt hpos hnn hfree (by omega) hinv)
  rw [Nat.zero_add] at hinv
  exact ⟨c, hc, hinv⟩

/-! ## The grouping loop of the legacy identifier: the merging of the species -/

theorem readAt_map (f : Int → Int) (l : List Int) (j v : Int) :
    readAt (l.map f) j = .ok v ↔ ∃ u, readAt l j = .ok u ∧ v = f u := by
  rw [readAt_eq_ok]
  constructor
  · rintro ⟨h0, h⟩
    rw [List.getElem?_map] at h
    cases hu : l[j.toNat]? with
    | none => rw [hu] at h; cases h
    | some u =>
      rw [hu] at h
      simp only [Option.map_some', Option.some.injEq] at h
      exact ⟨u, readAt_eq_ok.2 ⟨h0, hu⟩, h.symm⟩
  · rintro ⟨u, hu, rfl⟩
    obtain ⟨h0, h⟩ := readAt_eq_ok.1 hu
    refine ⟨h0, ?_⟩
    rw [List.getElem?_map, h]
    rfl

theorem unassigned_relabel (l : List Int) (key next : Int) (hkey : key ≠ 0) (hnext : next ≠ 0) :
    unassigned (l.map fun id => if id = key then next else id) = unassigned l := by
  unfold unassigned
  rw [List.countP_map]
  apply List.countP_congr
  intro id _
  simp only [Function.comp_apply, beq_iff_eq]
  by_cases h : id = key
  · rw [if_pos h]
    constructor
    · intro h'; exact absurd h' hnext
    · intro h'; rw [h] at h'; exact absurd h' hkey
  · rw [if_neg h]

/-- One visit of lines 783-800 returns, without a division by zero, and keeps the invariant
of the loop. -/
theorem mergeStep_inv (speciesSensitivity : Int) {genomeCount : List Int} {n u : Nat}
    {s : LegacyState} {idx : Int} {e : Int × Int} {rest : List (Int × Int)} {m : MergeState}
    (hcnt : genomeCount.length = n) (hs : LegacyInv n s)
    (hnd : ((e :: rest).map Prod.fst).Nodup) (hinv : MergeInv n s idx u (e :: rest) m) :
    ∃ m', mergeStep speciesSensitivity genomeCount s.species_type s.nextID e m = .ok m' ∧
      MergeInv n s idx u rest m' := by
  obtain ⟨hk1, hk2, size, hsize, hspos⟩ := hinv.rest e (List.mem_cons_self _ _)
  have hnd' : e.1 ∉ rest.map Prod.fst := by
    rw [List.map_cons] at hnd
    exact (List.nodup_cons.1 hnd).1
  have hother : ∀ e' ∈ rest, e'.1 ≠ e.1 := by
    intro e' he' h
    exact hnd' (h ▸ List.mem_map_of_mem _ he')
  have hthis := hinv.size_pos
  unfold mergeStep
  rw [hsize]
  dsimp only
  rw [if_neg (by omega)]
  by_cases hsens : Int.tdiv (e.2 * 100) (min m.thisSpeciesSize size) ≥ speciesSensitivity
  · rw [if_pos hsens]
    obtain ⟨t, ht, ht0, htn⟩ := hs.types e.1 hk1 hk2
    rw [ht]
    dsimp only
    obtain ⟨cnt, hc⟩ := readAt_of_range (a := genomeCount) (i := t) ht0
      (by rw [hcnt]; exact htn)
    rw [hc]
    dsimp only
    obtain ⟨hr0, hr1⟩ := readAt_range hsize
    have hwr := writeAt_of_range (a := m.speciesSizes) (i := e.1) 0 hr0 hr1
    rw [hwr]
    have hnext := hs.next_pos
    refine ⟨_, rfl, ⟨?_, ?_, ?_, ?_, ?_, ?_, ?_, ?_⟩⟩
    · show (m.speciesID.map _).length = n
      rw [List.length_map]
      exact hinv.ids_length
    · show (m.speciesSizes.set _ _).length = _
      rw [List.length_set]
      exact hinv.sizes_length
    · show 1 ≤ m.thisSpeciesSize + size
      omega
    · show 0 ≤ (if cnt > m.highestCount then t else m.highestCountIndex) ∧
        (if cnt > m.highestCount then t else m.highestCountIndex) < n
      split_ifs
      · exact ⟨ht0, htn⟩
      · exact hinv.index
    · intro j id hj
      obtain ⟨id0, hid0, hid⟩ := (readAt_map _ _ _ _).1 hj
      rcases hinv.ids j id0 hid0 with h | h | ⟨h1, h2, sz, hsz, hszpos⟩
      · left
        rw [hid, h, if_neg (by omega)]
      · right; left
        rw [hid, h, if_neg (by omega)]
      · by_cases hk : id0 = e.1
        · right; left
          rw [hid, if_pos hk]
        · right; right
          rw [hid, if_neg hk]
          refine ⟨h1, h2, sz, ?_, hszpos⟩
          show readAt (m.speciesSizes.set _ _) id0 = _
          rw [readAt_writeAt_ne hwr hk]
          exact hsz
    · apply (readAt_map _ _ _ _).2
      exact ⟨s.nextID, hinv.found, by rw [if_neg (by omega)]⟩
    · show unassigned (m.speciesID.map _) = u
      rw [unassigned_relabel _ _ _ (by omega) (by omega)]
      exact hinv.zeros
    · intro e' he'
      obtain ⟨h1, h2, sz, hsz, hszpos⟩ := hinv.rest e' (List.mem_cons_of_mem _ he')
      refine ⟨h1, h2, sz, ?_, hszpos⟩
      show readAt (m.speciesSizes.set _ _) e'.1 = _
      rw [readAt_writeAt_ne hwr (hother e' he')]
      exact hsz
  · rw [if_neg hsens]
    exact ⟨m, rfl, ⟨hinv.ids_length, hinv.sizes_length, hinv.size_pos, hinv.index, hinv.ids,
      hinv.found, hinv.zeros, fun e' he' => hinv.rest e' (List.mem_cons_of_mem _ he')⟩⟩

/-- The loop of lines 781-801 returns and keeps the invariant. -/
theorem merge_loop (speciesSensitivity : Int) {genomeCount : List Int} {n u : Nat}
    {s : LegacyState} {idx : Int} (hcnt : genomeCount.length = n) (hs : LegacyInv n s) :
    ∀ (entries : List (Int × Int)) (m : MergeState), (entries.map Prod.fst).Nodup →
      MergeInv n s idx u entries m →
      ∃ m', forEach (mergeStep speciesSensitivity genomeCount s.species_type s.nextID)
          entries m = .ok m' ∧ MergeInv n s idx u [] m' := by
  intro entries
  induction entries with
  | nil => intro m _ h; exact ⟨m, rfl, h⟩
  | cons e rest ih =>
    intro m hnd hinv
    obtain ⟨m1, hm1, hinv1⟩ := mergeStep_inv speciesSensitivity
      hcnt hs hnd hinv
    rw [List.map_cons] at hnd
    obtain ⟨m', hm', hinv'⟩ := ih m1 (List.nodup_cons.1 hnd).2 hinv1
    refine ⟨m', ?_, hinv'⟩
    simp only [forEach, hm1]
    exact hm'

/-! ## The grouping loop of the legacy identifier: one round -/

theorem readAt_append_left {a : List Int} (b : List Int) {i v : Int}
    (h : readAt a i = .ok v) : readAt (a ++ b) i = .ok v := by
  obtain ⟨h0, h1⟩ := readAt_eq_ok.1 h
  have hlt := (List.getElem?_eq_some_iff.1 h1).1
  exact readAt_eq_ok.2 ⟨h0, by rw [List.getElem?_append_left hlt]; exact h1⟩

theorem readAt_append_length (a : List Int) (v : Int) :
    readAt (a ++ [v]) (a.length : Int) = .ok v := by
  apply readAt_eq_ok.2
  refine ⟨by omega, ?_⟩
  rw [Int.toNat_ofNat, List.getElem?_append_right le_rfl]
  simp

/-- Fewer genomes are without a species in a list that has a species wherever another list
of the same length has one, and at one more place. -/
theorem unassigned_lt_aux : ∀ (a b : List Int), a.length = b.length →
    (∀ j : Nat, b[j]? = some 0 → a[j]? = some 0) →
    unassigned b ≤ unassigned a ∧
      ((∃ k : Nat, a[k]? = some 0 ∧ b[k]? ≠ some 0) → unassigned b < unassigned a) := by
  intro a
  induction a with
  | nil =>
    intro b hlen _
    cases b with
    | nil => exact ⟨le_rfl, fun ⟨k, hk, _⟩ => by simp at hk⟩
    | cons y b' => simp at hlen
  | cons x a' ih =>
    intro b hlen hsub
    cases b with
    | nil => simp at hlen
    | cons y b' =>
      have hlen' : a'.length = b'.length := by simpa using hlen
      have hsub' : ∀ j : Nat, b'[j]? = some 0 → a'[j]? = some 0 := by
        intro j hj
        have := hsub (j + 1) (by simpa using hj)
        simpa using this
      obtain ⟨hle, hlt⟩ := ih b' hlen' hsub'
      have hhead : y = 0 → x = 0 := by
        intro hy
        have := hsub 0 (by simp [hy])
        simpa using this
      unfold unassigned at hle hlt ⊢
      rw [List.countP_cons, List.countP_cons]
      constructor
      · by_cases hy : y = 0
        · have hx := hhead hy
          simp only [hx, hy, beq_self_eq_true, if_true]
          omega
        · have : (y == 0) = false := by simpa using hy
          rw [this]
          simp only [Bool.false_eq_true, if_false]
          split_ifs <;> omega
      · rintro ⟨k, hk1, hk2⟩
        cases k with
        | zero =>
          have hx : x = 0 := by simpa using hk1
          have hy : y ≠ 0 := by simpa using hk2
          have : (y == 0) = false := by simpa using hy
          rw [this]
          simp only [hx, beq_self_eq_true, if_true, Bool.false_eq_true, if_false]
          omega
        | succ k' =>
          have h1 : a'[k']? = some 0 := by simpa using hk1
          have h2 : b'[k']? ≠ some 0 := by simpa using hk2
          have hstrict := hlt ⟨k', h1, h2⟩
          by_cases hy : y = 0
          · have hx := hhead hy
            simp only [hx, hy, beq_self_eq_true, if_true]
            omega
          · have : (y == 0) = false := by simpa using hy
            rw [this]
            simp only [Bool.false_eq_true, if_false]
            split_ifs <;> omega

theorem unassigned_lt {a b : List Int} (hlen : a.length = b.length)
    (hsub : ∀ j : Int, readAt b j = .ok 0 → readAt a j = .ok 0) {idx : Int}
    (h1 : readAt a idx = .ok 0) (h2 : readAt b idx ≠ .ok 0) :
    unassigned b < unassigned a := by
  refine (unassigned_lt_aux a b hlen ?_).2 ⟨idx.toNat, (readAt_eq_ok.1 h1).2, ?_⟩
  · intro j hj
    have := hsub (j : Int) (readAt_eq_ok.2 ⟨by omega, by rw [Int.toNat_ofNat]; exact hj⟩)
    have h := (readAt_eq_ok.1 this).2
    rw [Int.toNat_ofNat] at h
    exact h
  · intro h
    exact h2 (readAt_eq_ok.2 ⟨(readAt_range h1).1, h⟩)

/-! ## The grouping loop of the legacy identifier: the rounds -/

/-- One round of the do-while loop returns, keeps the invariant of the rounds, puts the
genome that the search has found into the new species, and leaves fewer genomes without a
species. -/
theorem legacyRound_spec {order : List (Int × Int) → List (Int × Int)}
    (hperm : ∀ l, (order l).Perm l) {maxDifference : Int} (speciesSensitivity : Int)
    {genomeList : List Nat} {genomeCount : List Int} {s : LegacyState} (largest : Int)
    {idx : Int} (hmd : 0 ≤ maxDifference) (hcnt : genomeCount.length = genomeList.length)
    (hpos : ∀ v ∈ genomeCount, 0 < v) (hs : LegacyInv genomeList.length s)
    (hfree : readAt s.speciesID idx = .ok 0) :
    ∃ s', legacyRound order maxDifference speciesSensitivity genomeList genomeCount
        largest idx s = .ok s' ∧
      LegacyInv genomeList.length s' ∧
      readAt s'.speciesID idx = .ok s.nextID ∧
      s'.nextID = s.nextID + 1 ∧
      (∃ size, readAt s'.speciesSizes s.nextID = .ok size ∧ 0 < size) ∧
      unassigned s'.speciesID < unassigned s.speciesID := by
  obtain ⟨hidx0, hidx1⟩ := readAt_range hfree
  rw [hs.ids_length] at hidx1
  have hnext := hs.next_pos
  have hnn : ∀ j id, readAt s.speciesID j = .ok id → 0 ≤ id := by
    intro j id hj
    rcases hs.ids j id hj with h | ⟨h, _⟩ <;> omega
  obtain ⟨c, hc, hcinv⟩ := compare_loop hmd hcnt hpos hnn hs.ids_length hfree
  have hcfound := hcinv.found hidx1
  have hzero : ∀ j : Int, readAt c.speciesID j = .ok 0 → readAt s.speciesID j = .ok 0 := by
    intro j hj
    obtain ⟨h0, h1⟩ := readAt_range hj
    obtain ⟨v, hv⟩ := readAt_of_range (a := s.speciesID) (i := j) h0
      (by rw [hs.ids_length, ← hcinv.ids_length]; exact h1)
    by_cases hv0 : v = 0
    · rw [hv, hv0]
    · have := hcinv.kept j v hv hv0
      rw [hj] at this
      exact absurd (Except.ok.inj this).symm hv0
  have hless : unassigned c.speciesID < unassigned s.speciesID :=
    unassigned_lt (hs.ids_length.trans hcinv.ids_length.symm) hzero hfree
      (by rw [hcfound.1]; intro h; have := Except.ok.inj h; omega)
  have hnd : ((order c.merge_species).map Prod.fst).Nodup :=
    ((hperm c.merge_species).map Prod.fst).nodup_iff.2 hcinv.keys_nodup
  have hminv : MergeInv genomeList.length s idx (unassigned c.speciesID)
      (order c.merge_species)
      { speciesID := c.speciesID, speciesSizes := s.speciesSizes
        thisSpeciesSize := c.thisSpeciesSize, highestCount := largest
        highestCountIndex := idx } := by
    refine ⟨hcinv.ids_length, rfl, hcfound.2, ⟨hidx0, hidx1⟩, ?_, hcfound.1, rfl, ?_⟩
    · intro j id hj
      obtain ⟨h0, h1⟩ := readAt_range hj
      obtain ⟨v, hv⟩ := readAt_of_range (a := s.speciesID) (i := j) h0
        (by rw [hs.ids_length, ← hcinv.ids_length]; exact h1)
      by_cases hv0 : v = 0
      · rw [hv0] at hv
        rcases hcinv.fresh j hv with h | h
        · left
          have h' : readAt c.speciesID j = .ok id := hj
          rw [h] at h'
          exact (Except.ok.inj h').symm
        · right; left
          have h' : readAt c.speciesID j = .ok id := hj
          rw [h] at h'
          exact (Except.ok.inj h').symm
      · have hk := hcinv.kept j v hv hv0
        have h' : readAt c.speciesID j = .ok id := hj
        rw [hk] at h'
        have hid : v = id := Except.ok.inj h'
        subst hid
        rcases hs.ids j v hv with h | h
        · exact absurd h hv0
        · exact Or.inr (Or.inr h)
    · intro e he
      have hmem : e ∈ c.merge_species := (hperm c.merge_species).mem_iff.1 he
      obtain ⟨hepos, j, hj⟩ := hcinv.keys e hmem
      rcases hs.ids j e.1 hj with h | h
      · omega
      · exact h
  obtain ⟨m, hm, hminv'⟩ := merge_loop speciesSensitivity hcnt hs
    (order c.merge_species) _ hnd hminv
  have hrun : legacyRound order maxDifference speciesSensitivity genomeList genomeCount
      largest idx s =
      .ok { speciesID := m.speciesID
            speciesSizes := m.speciesSizes ++ [m.thisSpeciesSize]
            species_type := s.species_type ++ [m.highestCountIndex]
            nextID := s.nextID + 1 } := by
    unfold legacyRound
    rw [if_neg (by omega), hc]
    dsimp only
    rw [hm]
  have hsl : ((m.speciesSizes.length : Nat) : Int) = s.nextID := by
    rw [hminv'.sizes_length]
    exact hs.sizes_length
  have hnew : readAt (m.speciesSizes ++ [m.thisSpeciesSize]) s.nextID =
      .ok m.thisSpeciesSize := by
    rw [← hsl]
    exact readAt_append_length _ _
  have hmpos := hminv'.size_pos
  refine ⟨_, hrun, ⟨hminv'.ids_length, by show 1 ≤ s.nextID + 1; omega, ?_, ?_, ?_, ?_⟩,
    hminv'.found, rfl, ⟨m.thisSpeciesSize, hnew, by omega⟩, ?_⟩
  · show (((m.speciesSizes ++ [m.thisSpeciesSize]).length : Nat) : Int) = s.nextID + 1
    rw [List.length_append, List.length_singleton]
    push_cast
    omega
  · show (((s.species_type ++ [m.highestCountIndex]).length : Nat) : Int) = s.nextID + 1
    rw [List.length_append, List.length_singleton]
    push_cast
    have := hs.types_length
    omega
  · intro j id hj
    rcases hminv'.ids j id hj with h | h | ⟨h1, h2, sz, hsz, hszpos⟩
    · exact Or.inl h
    · right
      rw [h]
      exact ⟨hnext, by show s.nextID < s.nextID + 1; omega, m.thisSpeciesSize, hnew, by omega⟩
    · right
      exact ⟨h1, by show id < s.nextID + 1; omega, sz, readAt_append_left _ hsz, hszpos⟩
  · intro k hk1 hk2
    have hk2' : k < s.nextID + 1 := hk2
    by_cases hk : k < s.nextID
    · obtain ⟨t, ht, ht0, ht1⟩ := hs.types k hk1 hk
      exact ⟨t, readAt_append_left _ ht, ht0, ht1⟩
    · have hke : k = ((s.species_type.length : Nat) : Int) := by
        have := hs.types_length
        omega
      refine ⟨m.highestCountIndex, ?_, hminv'.index.1, hminv'.index.2⟩
      rw [hke]
      exact readAt_append_length _ _
  · show unassigned m.speciesID < unassigned s.speciesID
    rw [hminv'.zeros]
    exact hless

theorem legacyStart_inv (n : Nat) : LegacyInv n (legacyStart n) := by
  refine ⟨List.length_replicate _ _, le_rfl, rfl, rfl, ?_, ?_⟩
  · intro j id hj
    left
    exact List.eq_of_mem_replicate (readAt_mem hj)
  · intro k h1 h2
    have : k < 1 := h2
    omega

/-- The do-while loop from a state that satisfies the invariant of the rounds, with `u` or
fewer genomes without a species: with a fuel above `u` it reaches the `break` after `u`
rounds or fewer, every round assigns the genome that its search finds, and at the `break`
no genome is without a species. -/
theorem legacyLoop_spec {order : List (Int × Int) → List (Int × Int)}
    (hperm : ∀ l, (order l).Perm l) {maxDifference : Int} (speciesSensitivity : Int)
    {genomeList : List Nat} {genomeCount : List Int} (hmd : 0 ≤ maxDifference)
    (hcnt : genomeCount.length = genomeList.length) (hpos : ∀ v ∈ genomeCount, 0 < v) :
    ∀ (u : Nat) (s : LegacyState), LegacyInv genomeList.length s →
      unassigned s.speciesID ≤ u → ∀ fuel, u + 1 ≤ fuel →
      ∃ rounds final,
        legacyLoop order maxDifference speciesSensitivity genomeList genomeCount fuel s =
          .ok (rounds, final) ∧
        rounds.length ≤ u ∧
        List.Chain (RoundAssigns genomeCount genomeList.length) s rounds ∧
        LegacyInv genomeList.length final ∧
        ∀ j, readAt final.speciesID j ≠ .ok 0 := by
  intro u
  induction u with
  | zero =>
    intro s hs hu fuel hfuel
    obtain ⟨f, rfl⟩ : ∃ f, fuel = f + 1 := ⟨fuel - 1, by omega⟩
    obtain ⟨largest, idx, hfind, hcase⟩ := findLargest_spec genomeCount s genomeList.length
      hs.ids_length hcnt hpos
    rcases hcase with ⟨hl, hnone⟩ | ⟨_, hfree, _, _⟩
    · refine ⟨[], s, ?_, le_rfl, List.Chain.nil, hs, hnone⟩
      unfold legacyLoop
      rw [hfind]
      dsimp only
      rw [if_pos hl]
    · obtain ⟨s', _, _, _, _, _, hlt⟩ := legacyRound_spec hperm speciesSensitivity largest
        hmd hcnt hpos hs hfree
      omega
  | succ u ih =>
    intro s hs hu fuel hfuel
    obtain ⟨f, rfl⟩ : ∃ f, fuel = f + 1 := ⟨fuel - 1, by omega⟩
    obtain ⟨largest, idx, hfind, hcase⟩ := findLargest_spec genomeCount s genomeList.length
      hs.ids_length hcnt hpos
    rcases hcase with ⟨hl, hnone⟩ | ⟨hl1, hfree, hcount, hmax⟩
    · refine ⟨[], s, ?_, Nat.zero_le _, List.Chain.nil, hs, hnone⟩
      unfold legacyLoop
      rw [hfind]
      dsimp only
      rw [if_pos hl]
    · obtain ⟨s', hround, hs', hassign, hnid, hsize, hlt⟩ := legacyRound_spec hperm
        speciesSensitivity largest hmd hcnt hpos hs hfree
      obtain ⟨rounds, final, hloop, hlen, hchain, hfinal, hnone⟩ :=
        ih s' hs' (by omega) f (by omega)
      refine ⟨s' :: rounds, final, ?_, by rw [List.length_cons]; omega,
        List.Chain.cons ⟨largest, idx, hfind, hl1, hfree, hcount, hmax, hassign, hnid, hsize,
          hlt⟩ hchain, hfinal, hnone⟩
      unfold legacyLoop
      rw [hfind]
      dsimp only
      rw [if_neg (by omega), hround]
      dsimp only
      rw [hloop]

/-! ## The grouping loop of the legacy identifier ends with every genome in a species -/

/-- C39: the grouping loop of `groupsWithHistoryModal`, for `n` genomes with positive counts,
a `maxDifference` of 0 or more and any order of the iteration over `merge_species`. With a
fuel above `n` the loop reaches its `break` without a fault after `n` rounds or fewer; every
round finds a genome without a species whose count is the largest among those and puts it
into the new species, whose recorded size is positive; and at the exit every genome has a
species of 1 or more whose recorded size is positive. -/
theorem C39_legacy_grouping_total (order : List (Int × Int) → List (Int × Int))
    (maxDifference speciesSensitivity : Int) (genomeList : List Nat) (genomeCount : List Int)
    (fuel : Nat) (hperm : ∀ l, (order l).Perm l) (hmd : 0 ≤ maxDifference)
    (hcnt : genomeCount.length = genomeList.length) (hpos : ∀ v ∈ genomeCount, 0 < v)
    (hfuel : genomeList.length + 1 ≤ fuel) :
    ∃ rounds final,
      legacyGrouping order maxDifference speciesSensitivity genomeList genomeCount fuel =
        .ok (rounds, final) ∧
      rounds.length ≤ genomeList.length ∧
      List.Chain (RoundAssigns genomeCount genomeList.length) (legacyStart genomeList.length)
        rounds ∧
      ∀ j : Nat, j < genomeList.length →
        ∃ id size, readAt final.speciesID j = .ok id ∧ 1 ≤ id ∧
          readAt final.speciesSizes id = .ok size ∧ 0 < size := by
  have hstart := legacyStart_inv genomeList.length
  have hun : unassigned (legacyStart genomeList.length).speciesID ≤ genomeList.length := by
    unfold unassigned
    refine (List.countP_le_length _).trans ?_
    show (List.replicate genomeList.length (0 : Int)).length ≤ _
    rw [List.length_replicate]
  obtain ⟨rounds, final, hloop, hlen, hchain, hfinal, hnone⟩ :=
    legacyLoop_spec hperm speciesSensitivity hmd hcnt hpos genomeList.length
      (legacyStart genomeList.length) hstart hun fuel hfuel
  refine ⟨rounds, final, hloop, hlen, hchain, ?_⟩
  intro j hj
  obtain ⟨id, hid⟩ := readAt_of_range (a := final.speciesID) (i := (j : Int)) (by omega)
    (by rw [hfinal.ids_length]; exact_mod_cast hj)
  rcases hfinal.ids j id hid with h | ⟨h1, _, size, hsize, hspos⟩
  · rw [h] at hid
    exact absurd hid (hnone j)
  · exact ⟨id, size, hid, h1, hsize, hspos⟩

/-- Witness for C39: the genomes 0, 1 and 7 with the counts 5, 3 and 2 and the tolerance 1;
the first round groups 0 and 1, the second takes 7, and the third pass is the `break`. -/
theorem C39_legacy_grouping_total_witness :
    (resultOr (legacyGrouping id 1 2 [0, 1, 7] [5, 3, 2] 4) ([], legacyStart 3)).2.speciesID =
      [1, 1, 2] ∧
    ∃ rounds final,
      legacyGrouping id 1 2 [0, 1, 7] [5, 3, 2] 4 = .ok (rounds, final) ∧
      rounds.length ≤ [0, 1, 7].length ∧
      List.Chain (RoundAssigns [5, 3, 2] [0, 1, 7].length) (legacyStart [0, 1, 7].length)
        rounds ∧
      ∀ j : Nat, j < [0, 1, 7].length →
        ∃ id size, readAt final.speciesID j = .ok id ∧ 1 ≤ id ∧
          readAt final.speciesSizes id = .ok size ∧ 0 < size :=
  ⟨by decide,
   C39_legacy_grouping_total id 1 2 [0, 1, 7] [5, 3, 2] 4 (fun _ => List.Perm.refl _)
     (by decide) rfl (by decide) (by decide)⟩

/-! ## The sorted list of genomes: the lists -/

theorem genomeAt_ok {genomeList : List Nat} {i : Int} (h0 : 0 ≤ i)
    (h1 : i < genomeList.length) : genomeAt genomeList i = .ok (keyAt genomeList i) := by
  have h : i.toNat < genomeList.length := by omega
  unfold genomeAt keyAt
  rw [if_neg (by omega), List.getElem?_eq_getElem h, List.getD_eq_getElem _ _ h]

theorem keyAt_nat {genomeList : List Nat} {i : Nat} (h : i < genomeList.length) :
    keyAt genomeList (i : Int) = genomeList[i] := by
  unfold keyAt
  rw [Int.toNat_ofNat, List.getD_eq_getElem _ _ h]

/-- In an ascending list the genomes ascend with the index. -/
theorem keyAt_mono {genomeList : List Nat} (hs : genomeList.Pairwise fun a b => a < b)
    {i j : Int} (h0 : 0 ≤ i) (hij : i < j) (hj : j < genomeList.length) :
    keyAt genomeList i < keyAt genomeList j := by
  have hi' : i.toNat < genomeList.length := by omega
  have hj' : j.toNat < genomeList.length := by omega
  have h := List.pairwise_iff_getElem.1 hs i.toNat j.toNat hi' hj' (by omega)
  unfold keyAt
  rw [List.getD_eq_getElem _ _ hi', List.getD_eq_getElem _ _ hj']
  exact h

theorem keyAt_mono_le {genomeList : List Nat} (hs : genomeList.Pairwise fun a b => a < b)
    {i j : Int} (h0 : 0 ≤ i) (hij : i ≤ j) (hj : j < genomeList.length) :
    keyAt genomeList i ≤ keyAt genomeList j := by
  by_cases h : i = j
  · rw [h]
  · exact (keyAt_mono hs h0 (by omega) hj).le

theorem countOf_not_mem : ∀ (genomeList : List Nat) (genomeCount : List Int) (h : Nat),
    h ∉ genomeList → countOf genomeList genomeCount h = 0 := by
  intro genomeList
  induction genomeList with
  | nil => intro gc h _; cases gc <;> rfl
  | cons a rest ih =>
    intro gc h hmem
    cases gc with
    | nil => rfl
    | cons c cs =>
      have hne : a ≠ h := fun e => hmem (e ▸ List.mem_cons_self _ _)
      have hrest : h ∉ rest := fun e => hmem (List.mem_cons_of_mem _ e)
      simp only [countOf, if_neg hne]
      exact ih cs h hrest

theorem countOf_append : ∀ (a : List Nat) (ca : List Int) (b : List Nat) (cb : List Int)
    (h : Nat), a.length = ca.length →
    countOf (a ++ b) (ca ++ cb) h = if h ∈ a then countOf a ca h else countOf b cb h := by
  intro a
  induction a with
  | nil =>
    intro ca b cb h hlen
    cases ca with
    | nil => simp
    | cons c cs => simp at hlen
  | cons x rest ih =>
    intro ca b cb h hlen
    cases ca with
    | nil => simp at hlen
    | cons c cs =>
      have hlen' : rest.length = cs.length := by simpa using hlen
      simp only [List.cons_append, countOf]
      by_cases hx : x = h
      · rw [if_pos hx, if_pos (by rw [hx]; exact List.mem_cons_self _ _), if_pos hx]
      · rw [if_neg hx]
        show countOf (rest ++ b) (cs ++ cb) h = _
        rw [ih cs b cb h hlen', if_neg hx]
        have hiff : h ∈ x :: rest ↔ h ∈ rest := by
          rw [List.mem_cons]
          constructor
          · rintro (e | e)
            · exact absurd e.symm hx
            · exact e
          · exact Or.inr
        by_cases hm : h ∈ rest
        · rw [if_pos hm, if_pos (hiff.2 hm)]
        · rw [if_neg hm, if_neg (fun e => hm (hiff.1 e))]

/-! ## The sorted list of genomes: the ways out of the search -/

/-- A genome put between the genomes below it and the genomes above it, with the count 1. -/
theorem added_insert {g : Nat} {s : AnalyserState}
    (hs : s.genomeList.Pairwise fun a b => a < b)
    (hpar : s.genomeCount.length = s.genomeList.length)
    (hsum : s.genomesTotalCount = s.genomeCount.sum) (k : Nat)
    (hk : k ≤ s.genomeList.length)
    (hlo : k = 0 ∨ keyAt s.genomeList ((k : Int) - 1) < g)
    (hhi : k = s.genomeList.length ∨ g < keyAt s.genomeList k) :
    Added g s
      { genomeList := s.genomeList.take k ++ g :: s.genomeList.drop k
        genomeCount := s.genomeCount.take k ++ 1 :: s.genomeCount.drop k
        genomesTotalCount := s.genomesTotalCount + 1 } := by
  have hbelow : ∀ a ∈ s.genomeList.take k, a < g := by
    intro a ha
    obtain ⟨i, hi, rfl⟩ := List.mem_take_iff_getElem.1 ha
    have hik : i < k := lt_of_lt_of_le hi (min_le_left _ _)
    have hin : i < s.genomeList.length := lt_of_lt_of_le hi (min_le_right _ _)
    rcases hlo with h | h
    · omega
    · have := keyAt_mono_le hs (i := (i : Int)) (j := (k : Int) - 1) (by omega) (by omega)
        (by omega)
      rw [keyAt_nat hin] at this
      omega
  have habove : ∀ b ∈ s.genomeList.drop k, g < b := by
    intro b hb
    obtain ⟨i, hi, rfl⟩ := List.mem_drop_iff_getElem.1 hb
    have hin : k + i < s.genomeList.length := by omega
    rcases hhi with h | h
    · omega
    · have := keyAt_mono_le hs (i := (k : Int)) (j := ((k + i : Nat) : Int)) (by omega)
        (by push_cast; omega) (by exact_mod_cast hin)
      rw [keyAt_nat hin] at this
      omega
  have hnot : g ∉ s.genomeList := by
    intro hmem
    rw [← List.take_append_drop k s.genomeList] at hmem
    rcases List.mem_append.1 hmem with h | h
    · exact absurd (hbelow g h) (lt_irrefl _)
    · exact absurd (habove g h) (lt_irrefl _)
  have hnot' : g ∉ s.genomeList.take k := fun h => hnot (List.mem_of_mem_take h)
  have hlen : (s.genomeList.take k).length = (s.genomeCount.take k).length := by
    rw [List.length_take, List.length_take, hpar]
  have hold : ∀ h, countOf s.genomeList s.genomeCount h =
      if h ∈ s.genomeList.take k then countOf (s.genomeList.take k) (s.genomeCount.take k) h
      else countOf (s.genomeList.drop k) (s.genomeCount.drop k) h := by
    intro h
    rw [← countOf_append _ _ _ _ h hlen, List.take_append_drop, List.take_append_drop]
  have hnew : ∀ h, countOf (s.genomeList.take k ++ g :: s.genomeList.drop k)
      (s.genomeCount.take k ++ 1 :: s.genomeCount.drop k) h =
      if h ∈ s.genomeList.take k then countOf (s.genomeList.take k) (s.genomeCount.take k) h
      else if g = h then 1
      else countOf (s.genomeList.drop k) (s.genomeCount.drop k) h := by
    intro h
    rw [countOf_append _ _ _ _ h hlen]
    rfl
  have hone : countOf (s.genomeList.take k ++ g :: s.genomeList.drop k)
      (s.genomeCount.take k ++ 1 :: s.genomeCount.drop k) g = 1 := by
    rw [hnew g, if_neg hnot', if_pos rfl]
  refine ⟨?_, ?_, ?_, ?_, fun _ => hone, ?_, rfl, ?_⟩
  · refine List.pairwise_append.2 ⟨hs.sublist (List.take_sublist _ _),
      List.pairwise_cons.2 ⟨habove, hs.sublist (List.drop_sublist _ _)⟩, ?_⟩
    intro a ha b hb
    rcases List.mem_cons.1 hb with h | h
    · rw [h]
      exact hbelow a ha
    · exact lt_trans (hbelow a ha) (habove b h)
  · show (s.genomeCount.take k ++ 1 :: s.genomeCount.drop k).length =
      (s.genomeList.take k ++ g :: s.genomeList.drop k).length
    simp only [List.length_append, List.length_cons, List.length_take, List.length_drop, hpar]
  · exact List.mem_append_right _ (List.mem_cons_self _ _)
  · show countOf (s.genomeList.take k ++ g :: s.genomeList.drop k)
      (s.genomeCount.take k ++ 1 :: s.genomeCount.drop k) g = _
    rw [hone, countOf_not_mem _ _ _ hnot]
    rfl
  · intro h hne
    show countOf (s.genomeList.take k ++ g :: s.genomeList.drop k)
      (s.genomeCount.take k ++ 1 :: s.genomeCount.drop k) h = _
    have hgh : ¬g = h := fun e => hne e.symm
    rw [hnew h, hold h]
    simp only [if_neg hgh]
  · show s.genomesTotalCount + 1 = (s.genomeCount.take k ++ 1 :: s.genomeCount.drop k).sum
    rw [List.sum_append, List.sum_cons, hsum, ← List.sum_take_add_sum_drop s.genomeCount k]
    ring

/-- A genome found in the list, its count made one more. -/
theorem added_found {g : Nat} {s : AnalyserState}
    (hs : s.genomeList.Pairwise fun a b => a < b)
    (hpar : s.genomeCount.length = s.genomeList.length)
    (hsum : s.genomesTotalCount = s.genomeCount.sum) (i : Nat)
    (hi : i < s.genomeList.length) (hg : keyAt s.genomeList i = g) (c : Int)
    (hc : s.genomeCount[i]? = some c) :
    Added g s
      { s with genomeCount := s.genomeCount.set i (c + 1)
               genomesTotalCount := s.genomesTotalCount + 1 } := by
  have hic : i < s.genomeCount.length := by omega
  have hgi : s.genomeList[i] = g := by rw [← keyAt_nat hi]; exact hg
  have hci : s.genomeCount[i] = c := by
    have := List.getElem?_eq_getElem hic
    rw [this] at hc
    exact Option.some.inj hc
  have hmem : g ∈ s.genomeList := hgi ▸ List.getElem_mem hi
  have hnot' : g ∉ s.genomeList.take i := by
    intro ha
    obtain ⟨j, hj, hjg⟩ := List.mem_take_iff_getElem.1 ha
    have hji : j < i := lt_of_lt_of_le hj (min_le_left _ _)
    have hjn : j < s.genomeList.length := by omega
    have := keyAt_mono hs (i := (j : Int)) (j := (i : Int)) (by omega) (by omega) (by omega)
    rw [keyAt_nat hjn, hjg, hg] at this
    exact absurd this (lt_irrefl _)
  have hlen : (s.genomeList.take i).length = (s.genomeCount.take i).length := by
    rw [List.length_take, List.length_take, hpar]
  have hgl : s.genomeList = s.genomeList.take i ++ g :: s.genomeList.drop (i + 1) := by
    conv_lhs => rw [← List.take_append_drop i s.genomeList, List.drop_eq_getElem_cons hi, hgi]
  have hgc : s.genomeCount = s.genomeCount.take i ++ c :: s.genomeCount.drop (i + 1) := by
    conv_lhs => rw [← List.take_append_drop i s.genomeCount, List.drop_eq_getElem_cons hic, hci]
  have hset : s.genomeCount.set i (c + 1) =
      s.genomeCount.take i ++ (c + 1) :: s.genomeCount.drop (i + 1) := by
    rw [List.set_eq_take_append_cons_drop, if_pos hic]
  have hform : ∀ (v : Int) (h : Nat),
      countOf (s.genomeList.take i ++ g :: s.genomeList.drop (i + 1))
        (s.genomeCount.take i ++ v :: s.genomeCount.drop (i + 1)) h =
      if h ∈ s.genomeList.take i then countOf (s.genomeList.take i) (s.genomeCount.take i) h
      else if g = h then v
      else countOf (s.genomeList.drop (i + 1)) (s.genomeCount.drop (i + 1)) h := by
    intro v h
    rw [countOf_append _ _ _ _ h hlen]
    rfl
  have hold : ∀ h, countOf s.genomeList s.genomeCount h =
      if h ∈ s.genomeList.take i then countOf (s.genomeList.take i) (s.genomeCount.take i) h
      else if g = h then c
      else countOf (s.genomeList.drop (i + 1)) (s.genomeCount.drop (i + 1)) h := by
    intro h
    conv_lhs => rw [hgl, hgc]
    exact hform c h
  have hnew : ∀ h, countOf s.genomeList (s.genomeCount.set i (c + 1)) h =
      if h ∈ s.genomeList.take i then countOf (s.genomeList.take i) (s.genomeCount.take i) h
      else if g = h then c + 1
      else countOf (s.genomeList.drop (i + 1)) (s.genomeCount.drop (i + 1)) h := by
    intro h
    rw [hset]
    conv_lhs => rw [hgl]
    exact hform (c + 1) h
  refine ⟨hs, ?_, hmem, ?_, fun h => absurd hmem h, ?_, rfl, ?_⟩
  · show (s.genomeCount.set i (c + 1)).length = s.genomeList.length
    rw [List.length_set]
    exact hpar
  · show countOf s.genomeList (s.genomeCount.set i (c + 1)) g = _
    rw [hnew g, hold g, if_neg hnot', if_neg hnot', if_pos rfl, if_pos rfl]
  · intro h hne
    show countOf s.genomeList (s.genomeCount.set i (c + 1)) h = _
    have hgh : ¬g = h := fun e => hne e.symm
    rw [hnew h, hold h]
    simp only [if_neg hgh]
  · show s.genomesTotalCount + 1 = (s.genomeCount.set i (c + 1)).sum
    rw [hset, List.sum_append, List.sum_cons, hsum]
    conv_lhs => rw [hgc, List.sum_append, List.sum_cons]
    ring

/-! ## The sorted list of genomes: one round of the search -/

theorem searchMeasure_ge (genomeList : List Nat) (g : Nat) (l : SearchState) :
    3 * (l.maxp - l.minp) ≤ searchMeasure genomeList g l := by
  unfold searchMeasure
  split_ifs <;> omega

theorem searchMeasure_le (genomeList : List Nat) (g : Nat) (l : SearchState) :
    searchMeasure genomeList g l ≤ 3 * (l.maxp - l.minp) + 2 := by
  unfold searchMeasure
  split_ifs <;> omega

theorem searchMeasure_inside (genomeList : List Nat) (g : Nat) (l : SearchState)
    (h : l.lookingat ≠ l.maxp) :
    searchMeasure genomeList g l ≤ 3 * (l.maxp - l.minp) + 1 := by
  unfold searchMeasure
  rw [if_neg (fun e => h e.2)]
  split_ifs <;> omega

theorem searchMeasure_down {genomeList : List Nat} {g : Nat} {l : SearchState}
    (h : DownCont genomeList g l) (he : l.lookingat = l.maxp) :
    searchMeasure genomeList g l = 3 * (l.maxp - l.minp) + 2 := by
  unfold searchMeasure
  rw [if_pos ⟨h, he⟩]

theorem searchMeasure_up {genomeList : List Nat} {g : Nat} {l : SearchState}
    (h : UpCont genomeList g l) (he : l.lookingat = l.minp) :
    searchMeasure genomeList g l = 3 * (l.maxp - l.minp) + 1 := by
  have hnd : ¬DownCont genomeList g l := by
    intro hd
    have h1 := h.1
    have h2 := hd.1
    omega
  unfold searchMeasure
  rw [if_neg (fun e => hnd e.1), if_pos ⟨h, he⟩]

/-- A round that goes on upwards keeps the invariant, makes the measure smaller, and leaves
a window no wider than half the window and one. -/
theorem step_up {genomeList : List Nat} {g : Nat} {l : SearchState}
    (hs : genomeList.Pairwise fun a b => a < b) (hinv : SearchInv genomeList g l)
    (hup : UpCont genomeList g l) :
    SearchInv genomeList g
      { minp := l.lookingat, maxp := l.maxp
        lookingat :=
          if Int.tdiv (l.maxp + l.lookingat) 2 = l.lookingat then
            Int.tdiv (l.maxp + l.lookingat) 2 + 1
          else Int.tdiv (l.maxp + l.lookingat) 2 } ∧
    searchMeasure genomeList g
      { minp := l.lookingat, maxp := l.maxp
        lookingat :=
          if Int.tdiv (l.maxp + l.lookingat) 2 = l.lookingat then
            Int.tdiv (l.maxp + l.lookingat) 2 + 1
          else Int.tdiv (l.maxp + l.lookingat) 2 } < searchMeasure genomeList g l ∧
    l.maxp - l.lookingat ≤ (l.maxp - l.minp + 1) / 2 + 1 := by
  obtain ⟨h1, h2, h3, h4, h5, h6, h7, h8⟩ := hinv
  obtain ⟨hu1, hu2, hu3⟩ := hup
  have hlt : l.lookingat < l.maxp := by
    rcases h6 with h | ⟨h, _⟩
    · omega
    · by_contra hge
      have := keyAt_mono_le hs (i := l.maxp) (j := l.lookingat) (by omega) (by omega)
        (by omega)
      omega
  have hmid : Int.tdiv (l.maxp + l.lookingat) 2 = (l.maxp + l.lookingat) / 2 :=
    Int.tdiv_eq_ediv (by omega) (by norm_num)
  rw [hmid]
  have hold : 3 * (l.maxp - l.lookingat) + 1 ≤ searchMeasure genomeList g l := by
    by_cases he : l.lookingat = l.minp
    · rw [searchMeasure_up ⟨hu1, hu2, hu3⟩ he]
      omega
    · have := searchMeasure_ge genomeList g l
      omega
  by_cases hm : (l.maxp + l.lookingat) / 2 = l.lookingat
  · rw [if_pos hm, hm]
    refine ⟨⟨by show 0 ≤ l.lookingat; omega, by show l.lookingat ≤ l.lookingat + 1; omega,
      by show l.lookingat + 1 ≤ l.maxp; omega, h4, Or.inr ⟨hu1, hu3⟩, h6,
      by show l.lookingat + 1 - l.lookingat ≤ (l.maxp - l.lookingat + 1) / 2 + 1; omega,
      by show l.maxp - (l.lookingat + 1) ≤ (l.maxp - l.lookingat + 1) / 2 + 1; omega⟩,
      ?_, h8⟩
    have hnd : ¬DownCont genomeList g
        { minp := l.lookingat, maxp := l.maxp, lookingat := l.lookingat + 1 } := by
      rintro ⟨_, _, hd⟩
      have hd' : g ≤ keyAt genomeList (l.lookingat + 1 - 1) := hd
      rw [add_sub_cancel_right] at hd'
      omega
    have hval : searchMeasure genomeList g
        { minp := l.lookingat, maxp := l.maxp, lookingat := l.lookingat + 1 } =
        3 * (l.maxp - l.lookingat) := by
      unfold searchMeasure
      rw [if_neg (fun e => hnd e.1), if_neg (fun e => by have := e.2; simp at this)]
      simp
    rw [hval]
    omega
  · rw [if_neg hm]
    refine ⟨⟨by show 0 ≤ l.lookingat; omega,
      by show l.lookingat ≤ (l.maxp + l.lookingat) / 2; omega,
      by show (l.maxp + l.lookingat) / 2 ≤ l.maxp; omega, h4, Or.inr ⟨hu1, hu3⟩, h6,
      by show (l.maxp + l.lookingat) / 2 - l.lookingat ≤ (l.maxp - l.lookingat + 1) / 2 + 1
         omega,
      by show l.maxp - (l.maxp + l.lookingat) / 2 ≤ (l.maxp - l.lookingat + 1) / 2 + 1
         omega⟩, ?_, h8⟩
    have hval : searchMeasure genomeList g
        { minp := l.lookingat, maxp := l.maxp
          lookingat := (l.maxp + l.lookingat) / 2 } = 3 * (l.maxp - l.lookingat) := by
      unfold searchMeasure
      rw [if_neg (fun e => by
            have h : (l.maxp + l.lookingat) / 2 = l.maxp := e.2
            omega),
          if_neg (fun e => by
            have h : (l.maxp + l.lookingat) / 2 = l.lookingat := e.2
            exact hm h)]
      simp
    rw [hval]
    omega

/-- A round that goes on downwards keeps the invariant, makes the measure smaller, and
leaves a window no wider than half the window and one. -/
theorem step_down {genomeList : List Nat} {g : Nat} {l : SearchState}
    (hinv : SearchInv genomeList g l)
    (hdown : DownCont genomeList g l) :
    SearchInv genomeList g
      { minp := l.minp, maxp := l.lookingat
        lookingat :=
          if Int.tdiv (l.lookingat + l.minp) 2 =
              l.lookingat - Int.tdiv (l.lookingat + l.minp) 2 then
            Int.tdiv (l.lookingat + l.minp) 2 - 1
          else Int.tdiv (l.lookingat + l.minp) 2 } ∧
    searchMeasure genomeList g
      { minp := l.minp, maxp := l.lookingat
        lookingat :=
          if Int.tdiv (l.lookingat + l.minp) 2 =
              l.lookingat - Int.tdiv (l.lookingat + l.minp) 2 then
            Int.tdiv (l.lookingat + l.minp) 2 - 1
          else Int.tdiv (l.lookingat + l.minp) 2 } < searchMeasure genomeList g l ∧
    l.lookingat - l.minp ≤ (l.maxp - l.minp + 1) / 2 + 1 := by
  obtain ⟨h1, h2, h3, h4, h5, h6, h7, h8⟩ := hinv
  obtain ⟨hd1, hd2, hd3⟩ := hdown
  have hgap : l.minp < l.lookingat ∧ (l.minp = 0 ∨ l.minp + 2 ≤ l.lookingat) := by
    rcases h5 with h | ⟨ha, hb⟩
    · omega
    · have hne1 : l.lookingat ≠ l.minp := by
        intro e
        rw [e] at hd1
        omega
      have hne2 : l.lookingat ≠ l.minp + 1 := by
        intro e
        rw [e] at hd1
        omega
      omega
  have hmid : Int.tdiv (l.lookingat + l.minp) 2 = (l.lookingat + l.minp) / 2 :=
    Int.tdiv_eq_ediv (by omega) (by norm_num)
  rw [hmid]
  have hold : 3 * (l.lookingat - l.minp) + 2 ≤ searchMeasure genomeList g l := by
    by_cases he : l.lookingat = l.maxp
    · rw [searchMeasure_down ⟨hd1, hd2, hd3⟩ he]
      omega
    · have := searchMeasure_ge genomeList g l
      omega
  by_cases hm : (l.lookingat + l.minp) / 2 = l.lookingat - (l.lookingat + l.minp) / 2
  · rw [if_pos hm]
    refine ⟨⟨h1, by show l.minp ≤ (l.lookingat + l.minp) / 2 - 1; omega,
      by show (l.lookingat + l.minp) / 2 - 1 ≤ l.lookingat; omega,
      by show l.lookingat < (genomeList.length : Int); omega, h5, Or.inr ⟨hd1, hd3⟩,
      by show (l.lookingat + l.minp) / 2 - 1 - l.minp ≤ (l.lookingat - l.minp + 1) / 2 + 1
         omega,
      by show l.lookingat - ((l.lookingat + l.minp) / 2 - 1) ≤
           (l.lookingat - l.minp + 1) / 2 + 1
         omega⟩, ?_, h7⟩
    have := searchMeasure_inside genomeList g
      { minp := l.minp, maxp := l.lookingat, lookingat := (l.lookingat + l.minp) / 2 - 1 }
      (by show (l.lookingat + l.minp) / 2 - 1 ≠ l.lookingat; omega)
    have hw : 3 * (l.lookingat - l.minp) + 1 < searchMeasure genomeList g l := by omega
    exact lt_of_le_of_lt this hw
  · rw [if_neg hm]
    refine ⟨⟨h1, by show l.minp ≤ (l.lookingat + l.minp) / 2; omega,
      by show (l.lookingat + l.minp) / 2 ≤ l.lookingat; omega,
      by show l.lookingat < (genomeList.length : Int); omega, h5, Or.inr ⟨hd1, hd3⟩,
      by show (l.lookingat + l.minp) / 2 - l.minp ≤ (l.lookingat - l.minp + 1) / 2 + 1
         omega,
      by show l.lookingat - (l.lookingat + l.minp) / 2 ≤ (l.lookingat - l.minp + 1) / 2 + 1
         omega⟩, ?_, h7⟩
    have := searchMeasure_inside genomeList g
      { minp := l.minp, maxp := l.lookingat, lookingat := (l.lookingat + l.minp) / 2 }
      (by show (l.lookingat + l.minp) / 2 ≠ l.lookingat; omega)
    have hw : 3 * (l.lookingat - l.minp) + 1 < searchMeasure genomeList g l := by omega
    exact lt_of_le_of_lt this hw

/-! ## The sorted list of genomes: the search -/

/-- One round of the search, from locals that satisfy the invariant: either it leaves the
loop with the genome added, or it goes on with locals that satisfy the invariant, a smaller
measure and a window no wider than half the window and one. -/
theorem addStep_spec {g : Nat} {s : AnalyserState} {l : SearchState}
    (hs : s.genomeList.Pairwise fun a b => a < b)
    (hpar : s.genomeCount.length = s.genomeList.length)
    (hsum : s.genomesTotalCount = s.genomeCount.sum)
    (hinv : SearchInv s.genomeList g l) :
    (∃ s', addStep g s l = .ok (.inl s') ∧ Added g s s') ∨
    (∃ l', addStep g s l = .ok (.inr l') ∧ SearchInv s.genomeList g l' ∧
      searchMeasure s.genomeList g l' < searchMeasure s.genomeList g l ∧
      l'.maxp - l'.minp ≤ (l.maxp - l.minp + 1) / 2 + 1) := by
  have h0 : 0 ≤ l.lookingat := le_trans hinv.lo hinv.lo_at
  have hn : l.lookingat < s.genomeList.length := lt_of_le_of_lt hinv.at_hi hinv.hi
  have htn : l.lookingat.toNat < s.genomeList.length := by omega
  have hcast : ((l.lookingat.toNat : Nat) : Int) = l.lookingat := Int.toNat_of_nonneg h0
  unfold addStep
  rw [genomeAt_ok h0 hn]
  dsimp only
  by_cases hv : keyAt s.genomeList l.lookingat = g
  · left
    rw [if_pos hv]
    obtain ⟨c, hc⟩ := readAt_of_range (a := s.genomeCount) (i := l.lookingat) h0
      (by rw [hpar]; exact hn)
    rw [hc]
    dsimp only
    rw [writeAt_of_range (c + 1) h0 (by rw [hpar]; exact hn)]
    exact ⟨_, rfl, added_found hs hpar hsum l.lookingat.toNat htn (by rw [hcast]; exact hv) c
      (readAt_eq_ok.1 hc).2⟩
  · rw [if_neg hv]
    by_cases hlt : keyAt s.genomeList l.lookingat < g
    · rw [if_pos hlt]
      by_cases hend : l.lookingat + 1 = (s.genomeCount.length : Int)
      · left
        rw [if_pos hend]
        have hk : (s.genomeList.length : Int) - 1 = l.lookingat := by omega
        have h := added_insert (g := g) hs hpar hsum s.genomeList.length le_rfl
          (Or.inr (by rw [hk]; exact hlt)) (Or.inl rfl)
        rw [List.take_length, List.drop_length] at h
        have hc : s.genomeCount.take s.genomeList.length = s.genomeCount := by
          rw [← hpar, List.take_length]
        have hd : s.genomeCount.drop s.genomeList.length = [] := by
          rw [← hpar, List.drop_length]
        rw [hc, hd] at h
        exact ⟨_, rfl, h⟩
      · rw [if_neg hend]
        have hn1 : l.lookingat + 1 < s.genomeList.length := by omega
        rw [genomeAt_ok (by omega) hn1]
        dsimp only
        by_cases hw : keyAt s.genomeList (l.lookingat + 1) > g
        · left
          rw [if_pos hw]
          have hk : (((l.lookingat + 1).toNat : Nat) : Int) = l.lookingat + 1 :=
            Int.toNat_of_nonneg (by omega)
          exact ⟨_, rfl, added_insert hs hpar hsum (l.lookingat + 1).toNat (by omega)
            (Or.inr (by rw [hk, add_sub_cancel_right]; exact hlt))
            (Or.inr (by rw [hk]; exact hw))⟩
        · right
          rw [if_neg hw]
          obtain ⟨ha, hb, hc⟩ := step_up hs hinv ⟨hlt, hn1, by omega⟩
          exact ⟨_, rfl, ha, hb, hc⟩
    · rw [if_neg hlt]
      have hgt : g < keyAt s.genomeList l.lookingat := by omega
      by_cases hstart : l.lookingat - 1 = -1
      · left
        rw [if_pos hstart]
        have hz : l.lookingat = 0 := by omega
        have h := added_insert (g := g) hs hpar hsum 0 (Nat.zero_le _) (Or.inl rfl)
          (Or.inr (by rw [hz] at hgt; exact_mod_cast hgt))
        exact ⟨_, rfl, h⟩
      · rw [if_neg hstart]
        rw [genomeAt_ok (by omega) (by omega)]
        dsimp only
        by_cases hw : keyAt s.genomeList (l.lookingat - 1) < g
        · left
          rw [if_pos hw]
          exact ⟨_, rfl, added_insert hs hpar hsum l.lookingat.toNat (by omega)
            (Or.inr (by rw [hcast]; exact hw)) (Or.inr (by rw [hcast]; exact hgt))⟩
        · right
          rw [if_neg hw]
          obtain ⟨ha, hb, hc⟩ := step_down hinv ⟨hgt, by omega, by omega⟩
          exact ⟨_, rfl, ha, hb, hc⟩

/-- The search from locals that satisfy the invariant, with more rounds left than the
measure: it leaves the loop with the genome added. -/
theorem searchLoop_measure {g : Nat} {s : AnalyserState}
    (hs : s.genomeList.Pairwise fun a b => a < b)
    (hpar : s.genomeCount.length = s.genomeList.length)
    (hsum : s.genomesTotalCount = s.genomeCount.sum) :
    ∀ (rounds : Nat) (l : SearchState), SearchInv s.genomeList g l →
      searchMeasure s.genomeList g l < rounds →
      ∃ s', searchLoop g s rounds l = .ok s' ∧ Added g s s' := by
  intro rounds
  induction rounds with
  | zero =>
    intro l hinv hm
    have h1 := searchMeasure_ge s.genomeList g l
    have h2 := hinv.lo_at
    have h3 := hinv.at_hi
    simp only [Nat.cast_zero] at hm
    omega
  | succ k ih =>
    intro l hinv hm
    rcases addStep_spec hs hpar hsum hinv with ⟨s', hstep, hadd⟩ | ⟨l', hstep, hinv', hlt, _⟩
    · exact ⟨s', by simp only [searchLoop, hstep], hadd⟩
    · obtain ⟨s', hloop, hadd⟩ := ih l' hinv' (by push_cast at hm; omega)
      exact ⟨s', by simp only [searchLoop, hstep]; exact hloop, hadd⟩

/-- The search from locals that satisfy the invariant, in a window of the width `2 ^ k + 2`
or less, with `12 + k` rounds left or more: it leaves the loop with the genome added. -/
theorem searchLoop_halving {g : Nat} {s : AnalyserState}
    (hs : s.genomeList.Pairwise fun a b => a < b)
    (hpar : s.genomeCount.length = s.genomeList.length)
    (hsum : s.genomesTotalCount = s.genomeCount.sum) :
    ∀ (k rounds : Nat) (l : SearchState), SearchInv s.genomeList g l →
      l.maxp - l.minp ≤ 2 ^ k + 2 → 12 + k ≤ rounds →
      ∃ s', searchLoop g s rounds l = .ok s' ∧ Added g s s' := by
  intro k
  induction k with
  | zero =>
    intro rounds l hinv hw hr
    refine searchLoop_measure hs hpar hsum rounds l hinv ?_
    have h1 := searchMeasure_le s.genomeList g l
    have h2 : (12 : Int) ≤ (rounds : Int) := by exact_mod_cast (by omega : 12 ≤ rounds)
    simp only [pow_zero] at hw
    omega
  | succ k ih =>
    intro rounds l hinv hw hr
    obtain ⟨r, rfl⟩ : ∃ r, rounds = r + 1 := ⟨rounds - 1, by omega⟩
    rcases addStep_spec hs hpar hsum hinv with ⟨s', hstep, hadd⟩ | ⟨l', hstep, hinv', _, hhalf⟩
    · exact ⟨s', by simp only [searchLoop, hstep], hadd⟩
    · have hpow : (2 : Int) ^ (k + 1) = 2 * 2 ^ k := by rw [pow_succ]; ring
      obtain ⟨s', hloop, hadd⟩ := ih r l' hinv' (by rw [hpow] at hw; omega) (by omega)
      exact ⟨s', by simp only [searchLoop, hstep]; exact hloop, hadd⟩

/-! ## `addGenomeFast` keeps the list sorted and always records the genome -/

/-- C33: for an ascending `genomeList` of at most `2 ^ 30` genomes (so that `maxp + minp`
stays an `int`), with `genomeCount` parallel to it and `genomesTotalCount` the sum of the
counts, and for every genome `g`: `addGenomeFast(g)` returns before its search has used its
100 rounds, and after it `genomeList` is ascending and contains `g`, `genomeCount` is
parallel to it, the count of `g` is its count of before plus one (1 for a genome that was
not in the list), every other genome has the count it had, and `genomesTotalCount` has
grown by one and is the sum of the counts. -/
theorem C33_addGenomeFast_records (g : Nat) (s : AnalyserState)
    (hs : s.genomeList.Pairwise fun a b => a < b)
    (hpar : s.genomeCount.length = s.genomeList.length)
    (hsum : s.genomesTotalCount = s.genomeCount.sum)
    (hcap : s.genomeList.length ≤ 2 ^ 30) :
    ∃ s', addGenomeFast g s = .ok s' ∧
      (s'.genomeList.Pairwise fun a b => a < b) ∧
      s'.genomeCount.length = s'.genomeList.length ∧
      g ∈ s'.genomeList ∧
      countOf s'.genomeList s'.genomeCount g = countOf s.genomeList s.genomeCount g + 1 ∧
      (g ∉ s.genomeList → countOf s'.genomeList s'.genomeCount g = 1) ∧
      (∀ h, h ≠ g →
        countOf s'.genomeList s'.genomeCount h = countOf s.genomeList s.genomeCount h) ∧
      s'.genomesTotalCount = s.genomesTotalCount + 1 ∧
      s'.genomesTotalCount = s'.genomeCount.sum := by
  have hfinish : (∃ s', addGenomeFast g s = .ok s' ∧ Added g s s') := by
    unfold addGenomeFast
    by_cases hempty : s.genomeList.length = 0
    · rw [if_pos hempty]
      have h := added_insert (g := g) hs hpar hsum 0 (Nat.zero_le _) (Or.inl rfl)
        (Or.inl hempty.symm)
      have hl : s.genomeList = [] := List.length_eq_zero.1 hempty
      have hc : s.genomeCount = [] := List.length_eq_zero.1 (hpar.trans hempty)
      refine ⟨_, rfl, ?_⟩
      rw [hl, hc] at h ⊢
      exact h
    · rw [if_neg hempty]
      have hn : 1 ≤ s.genomeList.length := Nat.one_le_iff_ne_zero.2 hempty
      have hmid : Int.tdiv ((s.genomeList.length : Int) - 1 + 0) 2 =
          ((s.genomeList.length : Int) - 1) / 2 := by
        rw [add_zero]
        exact Int.tdiv_eq_ediv (by omega) (by norm_num)
      rw [hmid]
      have hcap' : (s.genomeList.length : Int) ≤ 2 ^ 30 := by exact_mod_cast hcap
      refine searchLoop_halving hs hpar hsum 30 100 _
        ⟨le_rfl, by show (0 : Int) ≤ ((s.genomeList.length : Int) - 1) / 2; omega,
         by show ((s.genomeList.length : Int) - 1) / 2 ≤ (s.genomeList.length : Int) - 1
            omega,
         by show (s.genomeList.length : Int) - 1 < s.genomeList.length; omega,
         Or.inl rfl, Or.inl rfl,
         by show ((s.genomeList.length : Int) - 1) / 2 - 0 ≤
              ((s.genomeList.length : Int) - 1 - 0 + 1) / 2 + 1
            omega,
         by show (s.genomeList.length : Int) - 1 - ((s.genomeList.length : Int) - 1) / 2 ≤
              ((s.genomeList.length : Int) - 1 - 0 + 1) / 2 + 1
            omega⟩
        (by show (s.genomeList.length : Int) - 1 - 0 ≤ 2 ^ 30 + 2; omega) (by norm_num)
  obtain ⟨s', hrun, hadd⟩ := hfinish
  exact ⟨s', hrun, hadd.sorted, hadd.parallel, hadd.present, hadd.counted, hadd.absent,
    hadd.others, hadd.total, hadd.total_sum⟩

/-- Witness for C33: the genome 6 added to the list of the genomes 1, 5 and 9. -/
theorem C33_addGenomeFast_records_witness :
    addGenomeFast 6 { genomeList := [1, 5, 9], genomeCount := [2, 1, 4], genomesTotalCount := 7 } =
      .ok { genomeList := [1, 5, 6, 9], genomeCount := [2, 1, 1, 4], genomesTotalCount := 8 } ∧
    ∃ s', addGenomeFast 6
        { genomeList := [1, 5, 9], genomeCount := [2, 1, 4], genomesTotalCount := 7 } = .ok s' ∧
      (s'.genomeList.Pairwise fun a b => a < b) ∧
      s'.genomeCount.length = s'.genomeList.length ∧
      6 ∈ s'.genomeList ∧
      countOf s'.genomeList s'.genomeCount 6 = countOf [1, 5, 9] [2, 1, 4] 6 + 1 ∧
      (6 ∉ [1, 5, 9] → countOf s'.genomeList s'.genomeCount 6 = 1) ∧
      (∀ h, h ≠ 6 →
        countOf s'.genomeList s'.genomeCount h = countOf [1, 5, 9] [2, 1, 4] h) ∧
      s'.genomesTotalCount = 7 + 1 ∧
      s'.genomesTotalCount = s'.genomeCount.sum :=
  ⟨by decide,
   C33_addGenomeFast_records 6
     { genomeList := [1, 5, 9], genomeCount := [2, 1, 4], genomesTotalCount := 7 }
     (by decide) rfl (by decide) (by norm_num)⟩

end Revosim
